import Mathlib

/-!
# A verification development for the otto parser

A shallow embedding of `parser/parser.go`, `parser/scope.go`, `parser/error.go`,
`parser/node.go`, `parser/expression.go` and `parser/statement.go`.

The lexical scanner is an external collaborator of the parser: it is represented by the
stream of results it hands to the parser (`Scanner`).  The pure helpers that live next to
it (`parseNumberLiteral`, `parseStringLiteral`, `matchIdentifier`) are only ever applied
to the literal of the current token, so a result of the scanner carries their values for
its literal.  Go strings that are sliced by byte offset (`source`) are lists of bytes.

Every recursive parsing function takes a `fuel : Nat` bounding the depth of the call
stack; `none` stands for a run that did not complete (fuel exhausted, or a Go run-time
panic such as an index out of range).
-/

set_option autoImplicit false
set_option linter.unusedVariables false
set_option linter.dupNamespace false

namespace Otto

/-! ## Tokens (`parser/token`) -/

/-- The closed token set of the scanner contract. -/
inductive Token
  | ILLEGAL | EOF | COMMENT | KEYWORD
  | STRING | BOOLEAN | NULL | NUMBER | IDENTIFIER
  | PLUS | MINUS | MULTIPLY | SLASH | REMAINDER
  | AND | OR | EXCLUSIVE_OR | SHIFT_LEFT | SHIFT_RIGHT | UNSIGNED_SHIFT_RIGHT | AND_NOT
  | ADD_ASSIGN | SUBTRACT_ASSIGN | MULTIPLY_ASSIGN | QUOTIENT_ASSIGN | REMAINDER_ASSIGN
  | AND_ASSIGN | OR_ASSIGN | EXCLUSIVE_OR_ASSIGN | SHIFT_LEFT_ASSIGN | SHIFT_RIGHT_ASSIGN
  | UNSIGNED_SHIFT_RIGHT_ASSIGN | AND_NOT_ASSIGN
  | LOGICAL_AND | LOGICAL_OR | INCREMENT | DECREMENT
  | EQUAL | STRICT_EQUAL | LESS | GREATER | ASSIGN | NOT | BITWISE_NOT
  | NOT_EQUAL | STRICT_NOT_EQUAL | LESS_OR_EQUAL | GREATER_OR_EQUAL
  | LEFT_PARENTHESIS | LEFT_BRACKET | LEFT_BRACE | COMMA | PERIOD
  | RIGHT_PARENTHESIS | RIGHT_BRACKET | RIGHT_BRACE | SEMICOLON | COLON | QUESTION_MARK
  | IF | IN | DO | VAR | FOR | NEW | TRY | THIS | ELSE | CASE | VOID | WITH
  | WHILE | BREAK | CATCH | THROW | RETURN | TYPEOF | DELETE | SWITCH
  | DEFAULT | FINALLY | FUNCTION | CONTINUE | DEBUGGER | INSTANCEOF | CONST | LET
  deriving DecidableEq, Repr

/-- Modelled from the spec: the table `token.Token.String` (package `parser/token` is not
part of the sources).  A punctuator or keyword prints as its source text, a marker or
literal class as its name. -/
def Token.String : Token → String
  | .ILLEGAL => "ILLEGAL" | .EOF => "EOF" | .COMMENT => "COMMENT" | .KEYWORD => "KEYWORD"
  | .STRING => "STRING" | .BOOLEAN => "BOOLEAN" | .NULL => "NULL" | .NUMBER => "NUMBER"
  | .IDENTIFIER => "IDENTIFIER"
  | .PLUS => "+" | .MINUS => "-" | .MULTIPLY => "*" | .SLASH => "/" | .REMAINDER => "%"
  | .AND => "&" | .OR => "|" | .EXCLUSIVE_OR => "^" | .SHIFT_LEFT => "<<"
  | .SHIFT_RIGHT => ">>" | .UNSIGNED_SHIFT_RIGHT => ">>>" | .AND_NOT => "&^"
  | .ADD_ASSIGN => "+=" | .SUBTRACT_ASSIGN => "-=" | .MULTIPLY_ASSIGN => "*="
  | .QUOTIENT_ASSIGN => "/=" | .REMAINDER_ASSIGN => "%=" | .AND_ASSIGN => "&="
  | .OR_ASSIGN => "|=" | .EXCLUSIVE_OR_ASSIGN => "^=" | .SHIFT_LEFT_ASSIGN => "<<="
  | .SHIFT_RIGHT_ASSIGN => ">>=" | .UNSIGNED_SHIFT_RIGHT_ASSIGN => ">>>="
  | .AND_NOT_ASSIGN => "&^="
  | .LOGICAL_AND => "&&" | .LOGICAL_OR => "||" | .INCREMENT => "++" | .DECREMENT => "--"
  | .EQUAL => "==" | .STRICT_EQUAL => "===" | .LESS => "<" | .GREATER => ">"
  | .ASSIGN => "=" | .NOT => "!" | .BITWISE_NOT => "~" | .NOT_EQUAL => "!="
  | .STRICT_NOT_EQUAL => "!==" | .LESS_OR_EQUAL => "<=" | .GREATER_OR_EQUAL => ">="
  | .LEFT_PARENTHESIS => "(" | .LEFT_BRACKET => "[" | .LEFT_BRACE => "\x7b"
  | .COMMA => "," | .PERIOD => "." | .RIGHT_PARENTHESIS => ")" | .RIGHT_BRACKET => "]"
  | .RIGHT_BRACE => "\x7d" | .SEMICOLON => ";" | .COLON => ":" | .QUESTION_MARK => "?"
  | .IF => "if" | .IN => "in" | .DO => "do" | .VAR => "var" | .FOR => "for"
  | .NEW => "new" | .TRY => "try" | .THIS => "this" | .ELSE => "else" | .CASE => "case"
  | .VOID => "void" | .WITH => "with" | .WHILE => "while" | .BREAK => "break"
  | .CATCH => "catch" | .THROW => "throw" | .RETURN => "return" | .TYPEOF => "typeof"
  | .DELETE => "delete" | .SWITCH => "switch" | .DEFAULT => "default"
  | .FINALLY => "finally" | .FUNCTION => "function" | .CONTINUE => "continue"
  | .DEBUGGER => "debugger" | .INSTANCEOF => "instanceof" | .CONST => "const"
  | .LET => "let"

/-! ## Positions and errors (`parser/file.go`, `parser/error.go`) -/

/-- `Idx`: a byte offset into the source, plus one. -/
abbrev Idx := Nat

/-- `Position` of `file.go`. -/
structure Position where
  Name : String
  Line : Int
  Column : Int
  deriving DecidableEq, Repr

/-- `Error` of `error.go`. -/
structure Error where
  Message : String
  Name : String
  Line : Int
  Column : Int
  deriving DecidableEq, Repr

/-- The value of a number literal (`interface{}` in the source): an integer, or a float
that is kept as the text denoting it. -/
inductive NumberValue
  | int (v : Int)
  | float (text : String)
  deriving DecidableEq, Repr

/-! ## The abstract syntax tree (`parser/node.go`) -/

/-- `Identifier` of `node.go`. -/
structure Identifier where
  Name : String
  Idx : Idx
  deriving DecidableEq, Repr

mutual
/-- The expression nodes of `node.go`.  A `nil` expression is `none`. -/
inductive Expression
  | ArrayLiteral (LeftBracket RightBracket : Idx) (Value : List (Option Expression))
  | AssignExpression (Operator : Token) (Left Right : Expression)
  | BadExpression (From To : Idx)
  | BinaryExpression (Operator : Token) (Left Right : Expression) (Comparison : Bool)
  | BooleanLiteral (Idx : Idx) (Literal : String) (Value : Bool)
  | BracketExpression (Left Member : Expression) (LeftBracket RightBracket : Idx)
  | CallExpression (Callee : Expression) (LeftParenthesis : Idx)
      (ArgumentList : List Expression) (RightParenthesis : Idx)
  | ConditionalExpression (Test Consequent Alternate : Expression)
  | DotExpression (Left : Expression) (Identifier : Identifier)
  | FunctionExpression (Function : Idx) (Body : Statement) (Source : List Nat)
      (ParameterList : List String) (FunctionList VariableList : List Declaration)
  | Identifier (Name : String) (Idx : Idx)
  | NewExpression (New : Idx) (Callee : Expression) (LeftParenthesis : Idx)
      (ArgumentList : List Expression) (RightParenthesis : Idx)
  | NullLiteral (Idx : Idx) (Literal : String)
  | NumberLiteral (Idx : Idx) (Literal : String) (Value : NumberValue)
  | ObjectLiteral (LeftBrace RightBrace : Idx) (Value : List Property)
  | RegExpLiteral (Idx : Idx) (Literal : List Nat) (Pattern Flags : String)
  | SequenceExpression (Sequence : List Expression)
  | StringLiteral (Idx : Idx) (Literal : String) (Value : String)
  | ThisExpression (Idx : Idx)
  | UnaryExpression (Operator : Token) (Idx : Idx) (Operand : Expression) (Postfix : Bool)
  | VariableExpression (Name : String) (Idx : Idx) (Initializer : Option Expression)
/-- `Property` of an object literal. -/
inductive Property
  | mk (Key Kind : String) (Value : Expression)
/-- The statement nodes of `node.go`.  A `nil` statement or label is `none`. -/
inductive Statement
  | BadStatement (From To : Idx)
  | BlockStatement (LeftBrace : Idx) (List : List Statement) (RightBrace : Idx)
  | BranchStatement (Idx : Idx) (Token : Token) (Label : Option Identifier)
  | DoWhileStatement (Do : Idx) (Test : Expression) (Body : Statement)
  | EmptyStatement (Semicolon : Idx)
  | ExpressionStatement (Expression : Expression)
  | ForInStatement (For : Idx) (Into Source : Expression) (Body : Statement)
  | ForStatement (For : Idx) (Initializer : Expression) (Update Test : Option Expression)
      (Body : Statement)
  | IfStatement (If : Idx) (Test : Expression) (Consequent : Statement)
      (Alternate : Option Statement)
  | LabelledStatement (Label : Identifier) (Colon : Idx) (Statement : Statement)
  | ReturnStatement (Return : Idx) (Argument : Option Expression)
  | SwitchStatement (Switch : Idx) (Discriminant : Expression) (Default : Int)
      (Body : List CaseStatement)
  | ThrowStatement (Throw : Idx) (Argument : Expression)
  | TryStatement (Try : Idx) (Body : Statement) (Catch : Option CatchStatement)
      (Finally : Option Statement)
  | VarStatement (Var : Idx) (List : List Expression)
  | WhileStatement (While : Idx) (Test : Expression) (Body : Statement)
  | WithStatement (With : Idx) (Object : Expression) (Body : Statement)
/-- `CaseStatement`: a clause of a `switch`; `Test = none` is the default clause. -/
inductive CaseStatement
  | mk (Case : Idx) (Test : Option Expression) (Consequent : List Statement)
/-- `CatchStatement`: the catch clause of a `try`. -/
inductive CatchStatement
  | mk (Catch : Idx) (Parameter : Identifier) (Body : Statement)
/-- `Declaration`: a hoisted name with the node its `Definition` points to. -/
inductive Declaration
  | mk (Name : String) (Definition : Definition)
/-- The target of the pointer `Declaration.Definition`: `nil` (a variable), a function
node, or the function expression whose own `FunctionList` holds the declaration (the
name of a named function expression points back to that expression). -/
inductive Definition
  | nil
  | node (function : Expression)
  | self
end

/-- `Program` of `node.go`. -/
structure Program where
  Body : List Statement
  FunctionList : List Declaration
  VariableList : List Declaration

/-- The `Name` field of a declaration. -/
def Declaration.Name : Declaration → String
  | .mk n _ => n

/-- The `Definition` field of a declaration. -/
def Declaration.Definition : Declaration → Definition
  | .mk _ d => d

/-- The `Test` field of a case clause. -/
def CaseStatement.Test : CaseStatement → Option Expression
  | .mk _ t _ => t

/-- The `Case` field of a case clause. -/
def CaseStatement.Case : CaseStatement → Idx
  | .mk c _ _ => c

/-- The `Consequent` field of a case clause. -/
def CaseStatement.Consequent : CaseStatement → List Statement
  | .mk _ _ c => c

/-- `Identifier.Idx1`: the index after the name (`len` counts bytes). -/
def Identifier.Idx1 (self : Identifier) : Nat := self.Idx + self.Name.utf8ByteSize

/-! ### `Idx0` and `Idx1`

`none` is a Go run-time panic (index out of range on an empty slice). -/

mutual
/-- `Idx0` of the expression nodes. -/
def Expression.Idx0 : Expression → Option Nat
  | .ArrayLiteral lb _ _ => some lb
  | .AssignExpression _ l _ => l.Idx0
  | .BadExpression f _ => some f
  | .BinaryExpression _ l _ _ => l.Idx0
  | .BooleanLiteral i _ _ => some i
  | .BracketExpression l _ _ _ => l.Idx0
  | .CallExpression c _ _ _ => c.Idx0
  | .ConditionalExpression t _ _ => t.Idx0
  | .DotExpression l _ => l.Idx0
  | .FunctionExpression f _ _ _ _ _ => some f
  | .Identifier _ i => some i
  | .NewExpression n _ _ _ _ => some n
  | .NullLiteral i _ => some i
  | .NumberLiteral i _ _ => some i
  | .ObjectLiteral lb _ _ => some lb
  | .RegExpLiteral i _ _ _ => some i
  | .SequenceExpression s => Expression.Idx0First s
  | .StringLiteral i _ _ => some i
  | .ThisExpression i => some i
  | .UnaryExpression _ i _ _ => some i
  | .VariableExpression _ i _ => some i
/-- `Idx0` of element 0 of a slice of expressions (`self.Sequence[0].Idx0()`). -/
def Expression.Idx0First : List Expression → Option Nat
  | [] => none
  | e :: _ => e.Idx0
end

/-- `Idx0` of the statement nodes. -/
def Statement.Idx0 : Statement → Option Nat
  | .BadStatement f _ => some f
  | .BlockStatement lb _ _ => some lb
  | .BranchStatement i _ _ => some i
  | .DoWhileStatement d _ _ => some d
  | .EmptyStatement s => some s
  | .ExpressionStatement e => e.Idx0
  | .ForInStatement f _ _ _ => some f
  | .ForStatement f _ _ _ _ => some f
  | .IfStatement i _ _ _ => some i
  | .LabelledStatement l _ _ => some l.Idx
  | .ReturnStatement r _ => some r
  | .SwitchStatement s _ _ _ => some s
  | .ThrowStatement t _ => some t
  | .TryStatement t _ _ _ => some t
  | .VarStatement v _ => some v
  | .WhileStatement w _ _ => some w
  | .WithStatement w _ _ => some w

/-- `Idx0` of a case clause. -/
def CaseStatement.Idx0 : CaseStatement → Option Nat
  | .mk c _ _ => some c

/-- `Idx0` of a catch clause. -/
def CatchStatement.Idx0 : CatchStatement → Option Nat
  | .mk c _ _ => some c

mutual
/-- `Idx1` of the expression nodes. -/
def Expression.Idx1 : Expression → Option Nat
  | .ArrayLiteral _ rb _ => some rb
  | .AssignExpression _ _ r => r.Idx1
  | .BadExpression _ t => some t
  | .BinaryExpression _ _ r _ => r.Idx1
  | .BooleanLiteral i l _ => some (i + l.utf8ByteSize)
  | .BracketExpression _ _ _ rb => some (rb + 1)
  | .CallExpression _ _ _ rp => some (rp + 1)
  | .ConditionalExpression t _ _ => t.Idx1
  | .DotExpression _ i => some i.Idx1
  | .FunctionExpression _ b _ _ _ _ => b.Idx1
  | .Identifier n i => some (i + n.utf8ByteSize)
  | .NewExpression _ _ _ _ rp => some (rp + 1)
  | .NullLiteral i _ => some (i + 4)
  | .NumberLiteral i l _ => some (i + l.utf8ByteSize)
  | .ObjectLiteral _ rb _ => some rb
  | .RegExpLiteral i l _ _ => some (i + l.length)
  | .SequenceExpression s => Expression.Idx1First s
  | .StringLiteral i l _ => some (i + l.utf8ByteSize)
  | .ThisExpression i => some i
  | .UnaryExpression _ _ o pf => if pf then (o.Idx1).map (· + 2) else o.Idx1
  | .VariableExpression n i ini =>
    match ini with
    | none => some (i + n.utf8ByteSize + 1)
    | some e => e.Idx1
/-- `Idx1` of element 0 of a slice of expressions (`self.Sequence[0].Idx1()`). -/
def Expression.Idx1First : List Expression → Option Nat
  | [] => none
  | e :: _ => e.Idx1
/-- `Idx1` of the last element of a slice of expressions. -/
def Expression.Idx1Last : List Expression → Option Nat
  | [] => none
  | [e] => e.Idx1
  | _ :: e :: es => Expression.Idx1Last (e :: es)
/-- `Idx1` of the statement nodes. -/
def Statement.Idx1 : Statement → Option Nat
  | .BadStatement _ t => some t
  | .BlockStatement _ _ rb => some (rb + 1)
  | .BranchStatement i _ _ => some i
  | .DoWhileStatement _ t _ => t.Idx1
  | .EmptyStatement s => some (s + 1)
  | .ExpressionStatement e => e.Idx1
  | .ForInStatement _ _ _ b => b.Idx1
  | .ForStatement _ _ _ _ b => b.Idx1
  | .IfStatement _ _ c a =>
    match a with
    | some alt => alt.Idx1
    | none => c.Idx1
  | .LabelledStatement _ c _ => some (c + 1)
  | .ReturnStatement r _ => some r
  | .SwitchStatement _ _ _ b => CaseStatement.Idx1Last b
  | .ThrowStatement t _ => some t
  | .TryStatement t _ _ _ => some t
  | .VarStatement _ l => Expression.Idx1Last l
  | .WhileStatement _ _ b => b.Idx1
  | .WithStatement _ _ b => b.Idx1
/-- `Idx1` of the last element of a slice of statements. -/
def Statement.Idx1Last : List Statement → Option Nat
  | [] => none
  | [s] => s.Idx1
  | _ :: s :: ss => Statement.Idx1Last (s :: ss)
/-- `Idx1` of a case clause. -/
def CaseStatement.Idx1 : CaseStatement → Option Nat
  | .mk _ _ c => Statement.Idx1Last c
/-- `Idx1` of the last clause of a switch body. -/
def CaseStatement.Idx1Last : List CaseStatement → Option Nat
  | [] => none
  | [c] => c.Idx1
  | _ :: c :: cs => CaseStatement.Idx1Last (c :: cs)
end

/-- `Idx1` of a catch clause. -/
def CatchStatement.Idx1 : CatchStatement → Option Nat
  | .mk _ _ b => b.Idx1

/-- `Program.Idx0`. -/
def Program.Idx0 (self : Program) : Option Nat :=
  match self.Body with
  | [] => none
  | s :: _ => s.Idx0

/-- `Program.Idx1`. -/
def Program.Idx1 (self : Program) : Option Nat := Statement.Idx1Last self.Body

/-! ## The scanner contract

The scanner (`scan`, `scanString`) is not part of the sources.  It is represented by the
results it returns, in the order the parser asks for them. -/

/-- One result of `scan`: the token `(token, literal, idx)`, the flag `implicitSemicolon`
as it stands after the call, the scanner fields `chr` and `chrOffset` the parser reads
(`chr = -1` at the end of the source), and the errors the scanner recorded meanwhile.
The last three fields are the values of the helpers on the literal:
`parseNumberLiteral(literal)` (an error message or a value),
`parseStringLiteral(literal[1 : len(literal)-1])` and
`matchIdentifier.MatchString(literal)`. -/
structure Scanned where
  token : Token
  literal : String
  idx : Idx
  implicitSemicolon : Bool := false
  chr : Int := 0
  chrOffset : Nat := 0
  errors : List Error := []
  number : Except String NumberValue := .ok (.int 0)
  string : String := ""
  isIdentifier : Bool := false

/-- The result of `scanString` when a `/` is rescanned as a regular expression literal:
the scanned text (`pattern`, slashes included), whether `err != nil`, `chrOffset` after
the call, the errors recorded, and the verdict of `regexp.Compile(TransformRegExp(..))`
on the pattern (`some msg` when it is rejected, `msg` being `err.Error()[22:]`). -/
structure RegExpScan where
  pattern : String
  err : Bool
  chrOffset : Nat
  errors : List Error := []
  compile : Option String := none

/-- What the scanner will return from its current position: nothing more (`eof`), a
token and then `rest`, or (after a `/` or `/=`) a token, and then either `rest` or, if
the parser rescans the token as a regular expression, `re` and then `reRest`. -/
inductive Scanner
  | eof
  | tok (s : Scanned) (rest : Scanner)
  | slash (s : Scanned) (rest : Scanner) (re : RegExpScan) (reRest : Scanner)

/-- The number of results a scanner still holds. -/
def Scanner.size : Scanner → Nat
  | .eof => 0
  | .tok _ rest => rest.size + 1
  | .slash _ rest _ reRest => rest.size + reRest.size + 1

/-- The scanner that returns the given tokens and then `EOF`. -/
def Scanner.ofList : List Scanned → Scanner
  | [] => .eof
  | s :: rest => .tok s (Scanner.ofList rest)

/-- `pattern[1 : len(pattern)-1]`: a scanned regular expression without its slashes. -/
def stripQuotes (literal : String) : String := (literal.drop 1).dropRight 1

/-! ## Scopes (`parser/scope.go`) -/

/-- `_scope`; the link `outer` is the rest of the scope stack. -/
structure Scope where
  allowIn : Bool := false
  inIteration : Bool := false
  inSwitch : Bool := false
  inFunction : Bool := false
  labels : List String := []
  variableList : List Declaration := []
  functionList : List Declaration := []

/-- `_scope.hasLabel`, on the scope stack (`self` first, then `self.outer`, ...). -/
def hasLabel (name : String) : List Scope → Bool
  | [] => false
  | self :: outer =>
    if name ∈ self.labels then true
    else if !outer.isEmpty && !self.inFunction then hasLabel name outer
    else false

/-! ## The parser state (`parser/parser.go`) -/

/-- The field `recover` of `_parser`. -/
structure Recover where
  idx : Idx := 0
  count : Nat := 0

/-- `_parser`.  `scanner` is what the scanner will return next and `rescan` the
regular-expression rescan it offers at the current token; `number`, `string` and
`isIdentifier` are the values of the lexical helpers on `literal`; `scope` is the scope
stack (`[]` is the `nil` scope); `base` is the constant `1` and `length` is
`source.length`. -/
structure Parser where
  filename : String := ""
  source : List Nat := []
  scanner : Scanner := .eof
  rescan : Option (RegExpScan × Scanner) := none
  chr : Int := 32
  chrOffset : Nat := 0
  token : Token := .ILLEGAL
  literal : String := ""
  number : Except String NumberValue := .ok (.int 0)
  string : String := ""
  isIdentifier : Bool := false
  idx : Idx := 0
  scope : List Scope := []
  implicitSemicolon : Bool := false
  errors : List Error := []
  recover : Recover := {}

/-- `newParser`: only `chr`, `source`, `length` and `base` are set (`filename` is left
empty); the scanner starts at the beginning of its stream. -/
def newParser (filename : String) (source : List Nat) (scanner : Scanner) : Parser :=
  { chr := 32, source := source, scanner := scanner }

/-- `self.base`. -/
def Parser.base (self : Parser) : Idx := 1

/-- `_parser.idxOf`. -/
def Parser.idxOf (self : Parser) (offset : Nat) : Idx := self.base + offset

/-- `_parser.slice`.  A slice whose bounds are out of order (a Go panic; the indices the
scanner hands out increase) is read with `take` and `drop`. -/
def Parser.slice (self : Parser) (idx0 idx1 : Idx) : List Nat :=
  let start : Int := (idx0 : Int) - self.base
  let stop : Int := (idx1 : Int) - self.base
  if 0 ≤ start ∧ stop ≤ self.source.length then
    (self.source.take stop.toNat).drop start.toNat
  else []

/-- Modelled from the spec: `scan` and `next`.  The scanner hands over its next result;
once it has nothing more, every call returns `EOF` at the end of the source. -/
def Parser.next (self : Parser) : Parser :=
  match self.scanner with
  | .eof =>
    { self with
      rescan := none, token := .EOF, literal := "", number := .error "", string := "",
      isIdentifier := false, idx := self.idxOf self.source.length,
      implicitSemicolon := false, chr := -1, chrOffset := self.source.length }
  | .tok s rest =>
    { self with
      scanner := rest, rescan := none, token := s.token, literal := s.literal,
      number := s.number, string := s.string, isIdentifier := s.isIdentifier,
      idx := s.idx, implicitSemicolon := s.implicitSemicolon, chr := s.chr,
      chrOffset := s.chrOffset, errors := self.errors ++ s.errors }
  | .slash s rest re reRest =>
    { self with
      scanner := rest, rescan := some (re, reRest), token := s.token,
      literal := s.literal, number := s.number, string := s.string,
      isIdentifier := s.isIdentifier, idx := s.idx,
      implicitSemicolon := s.implicitSemicolon, chr := s.chr, chrOffset := s.chrOffset,
      errors := self.errors ++ s.errors }

/-- Modelled from the spec: `scanString` at a `/`.  The scanner moves on to what follows
the regular expression; a scanner that offers no rescan fails without moving. -/
def Parser.scanString (self : Parser) : (String × Bool) × Parser :=
  match self.rescan with
  | some (re, reRest) =>
    ((re.pattern, re.err),
      { self with
        scanner := reRest, rescan := none, chrOffset := re.chrOffset,
        errors := self.errors ++ re.errors })
  | none => (("", true), self)

/-- Modelled from the spec: the verdict of `regexp.Compile(TransformRegExp(pattern))` for
the regular expression offered at the current token. -/
def Parser.compileRegExp (self : Parser) : Option String :=
  match self.rescan with
  | some (re, _) => re.compile
  | none => none

/-- `lineCount`, byte by byte.  `index` is the byte index, `pair` the flag of the source.
A rune other than CR, LF, U+2028 (`E2 80 A8`) and U+2029 (`E2 80 A9`) only clears `pair`,
and so does each of its bytes. -/
def lineCountFrom : List Nat → Nat → Int → Int → Bool → Int × Int
  | [], _, line, last, _ => (line, last)
  | 0x0D :: rest, index, line, _, _ => lineCountFrom rest (index + 1) (line + 1) index true
  | 0x0A :: rest, index, line, _, pair =>
    lineCountFrom rest (index + 1) (if pair then line else line + 1) index false
  | 0xE2 :: 0x80 :: 0xA8 :: rest, index, line, _, _ =>
    lineCountFrom rest (index + 3) (line + 1) (index + 2) false
  | 0xE2 :: 0x80 :: 0xA9 :: rest, index, line, _, _ =>
    lineCountFrom rest (index + 3) (line + 1) (index + 2) false
  | _ :: rest, index, line, last, _ => lineCountFrom rest (index + 1) line last false

/-- `lineCount`. -/
def lineCount (source : List Nat) : Int × Int := lineCountFrom source 0 0 (-1) false

/-- `_parser.position`. -/
def Parser.position (self : Parser) (idx : Idx) : Position :=
  let offset : Int := (idx : Int) - self.base
  let source := self.source.take offset.toNat
  let (line, last) := lineCount source
  { Name := self.filename,
    Line := 1 + line,
    Column := if last ≥ 0 then offset - last else 1 + source.length }

/-- `_parser.error` for a place of type `Idx`, with the message already formatted. -/
def Parser.error (self : Parser) (place : Idx) (message : String) : Parser :=
  let idx := if place = 0 then self.idxOf self.chrOffset else place
  let position := self.position idx
  { self with
    errors := self.errors ++
      [{ Message := message, Name := position.Name, Line := position.Line,
         Column := position.Column }] }

/-- `_parser.errorUnexpectedToken`. -/
def Parser.errorUnexpectedToken (self : Parser) (tkn : Token) : Parser :=
  if tkn = .EOF then self.error 0 "Unexpected end of input"
  else if tkn = .IDENTIFIER then self.error self.idx "Unexpected identifier"
  else if tkn = .NUMBER then self.error self.idx "Unexpected number"
  else if tkn = .STRING then self.error self.idx "Unexpected string"
  else if tkn = .BOOLEAN ∨ tkn = .NULL then
    self.error self.idx ("Unexpected token " ++ self.literal)
  else self.error self.idx ("Unexpected token " ++ tkn.String)

/-- `_parser.expect`. -/
def Parser.expect (self : Parser) (value : Token) : Idx × Parser :=
  let idx := self.idx
  let self := if self.token ≠ value then self.errorUnexpectedToken self.token else self
  (idx, self.next)

/-- `_parser.optionalSemicolon`. -/
def Parser.optionalSemicolon (self : Parser) : Parser :=
  if self.token = .SEMICOLON then self.next
  else if self.implicitSemicolon then { self with implicitSemicolon := false }
  else if self.token ≠ .EOF ∧ self.token ≠ .RIGHT_BRACE then (self.expect .SEMICOLON).2
  else self

/-- `_parser.semicolon`. -/
def Parser.semicolon (self : Parser) : Parser :=
  if self.token ≠ .RIGHT_PARENTHESIS ∧ self.token ≠ .RIGHT_BRACE then
    if self.implicitSemicolon then { self with implicitSemicolon := false }
    else (self.expect .SEMICOLON).2
  else self

/-! ### Scope operations -/

/-- `_parser.openScope`. -/
def Parser.openScope (self : Parser) : Parser :=
  { self with scope := { allowIn := true } :: self.scope }

/-- `_parser.closeScope`. -/
def Parser.closeScope (self : Parser) : Parser :=
  { self with scope := self.scope.tail }

/-- An update of the fields of `self.scope` (of the innermost scope). -/
def Parser.modifyScope (self : Parser) (f : Scope → Scope) : Parser :=
  match self.scope with
  | [] => self
  | s :: outer => { self with scope := f s :: outer }

/-- `self.scope`, read (the innermost scope). -/
def Parser.currentScope (self : Parser) : Scope :=
  match self.scope with
  | [] => {}
  | s :: _ => s

/-- `_scope.addVariable` on `self.scope`. -/
def Parser.addVariable (self : Parser) (name : String) : Parser :=
  self.modifyScope fun s => { s with variableList := s.variableList ++ [.mk name .nil] }

/-- `_scope.addFunction` on `self.scope`. -/
def Parser.addFunction (self : Parser) (name : String) (definition : Definition) : Parser :=
  self.modifyScope fun s =>
    { s with functionList := s.functionList ++ [.mk name definition] }

/-! ### Error recovery -/

/-- The tokens at which `nextStatement` may stop. -/
def Token.isSync (t : Token) : Bool :=
  t = .BREAK ∨ t = .CONST ∨ t = .CONTINUE ∨ t = .FOR ∨ t = .IF ∨ t = .RETURN ∨ t = .SWITCH ∨
  t = .VAR ∨ t = .DO ∨ t = .TRY ∨ t = .LET ∨ t = .WITH ∨ t = .WHILE ∨ t = .THROW ∨
  t = .CATCH ∨ t = .FINALLY

/-- The loop of `nextStatement`, at most `fuel` rounds. -/
def Parser.nextStatementLoop : Nat → Parser → Parser
  | 0, self => self
  | fuel + 1, self =>
    if self.token.isSync then
      if self.idx = self.recover.idx ∧ self.recover.count < 10 then
        { self with recover := { self.recover with count := self.recover.count + 1 } }
      else if self.idx > self.recover.idx then
        { self with recover := { idx := self.idx, count := 0 } }
      else Parser.nextStatementLoop fuel self.next
    else if self.token = .EOF then self
    else Parser.nextStatementLoop fuel self.next

/-- `_parser.nextStatement`.  Every round but the last consumes a result of the scanner,
so `size + 2` rounds are never used up. -/
def Parser.nextStatement (self : Parser) : Parser :=
  self.nextStatementLoop (self.scanner.size + 2)

/-! ## Parsing functions without recursion (`expression.go`, `statement.go`) -/

/-- `_parser.parseIdentifier`. -/
def Parser.parseIdentifier (self : Parser) : Identifier × Parser :=
  ({ Name := self.literal, Idx := self.idx }, self.next)

/-- `_parser.parseRegExpLiteral`. -/
def Parser.parseRegExpLiteral (self : Parser) : Expression × Parser :=
  let offset :=
    if self.token = .QUOTIENT_ASSIGN then self.chrOffset - 1 - 1 else self.chrOffset - 1
  let idx := self.idxOf offset
  let compile := self.compileRegExp
  let ((pattern, err), self) := self.scanString
  let endOffset := self.chrOffset
  let self := self.next
  let pattern := if err then pattern else stripQuotes pattern
  let flags := if self.token = .IDENTIFIER then self.literal else ""
  let endOffset := if self.token = .IDENTIFIER then self.next.chrOffset else endOffset
  let self := if self.token = .IDENTIFIER then self.next else self
  let self :=
    match compile with
    | some msg => self.error idx ("Invalid regular expression: " ++ msg)
    | none => self
  let literal := (self.source.take (endOffset - 1)).drop offset
  (.RegExpLiteral idx literal pattern flags, self)

/-- `_parser.parseObjectPropertyKey`: the pair `(literal, value)`. -/
def Parser.parseObjectPropertyKey (self : Parser) : (String × String) × Parser :=
  let idx := self.idx
  let tkn := self.token
  let literal := self.literal
  let number := self.number
  let string := self.string
  let isIdentifier := self.isIdentifier
  let self := self.next
  if tkn = .IDENTIFIER then ((literal, literal), self)
  else if tkn = .NUMBER then
    match number with
    | .error e => ((literal, ""), self.error idx e)
    | .ok _ => ((literal, literal), self)
  else if tkn = .STRING then ((literal, string), self)
  else if isIdentifier then ((literal, literal), self)
  else ((literal, ""), self)

/-- `_parser.parseDotMember`. -/
def Parser.parseDotMember (left : Expression) (self : Parser) : Expression × Parser :=
  let (period, self) := self.expect .PERIOD
  let literal := self.literal
  let idx := self.idx
  if !self.isIdentifier then
    let (_, self) := self.expect .IDENTIFIER
    let self := self.nextStatement
    (.BadExpression period self.idx, self)
  else
    (.DotExpression left { Idx := idx, Name := literal }, self.next)

/-- `_parser.parseEmptyStatement`. -/
def Parser.parseEmptyStatement (self : Parser) : Statement × Parser :=
  let (idx, self) := self.expect .SEMICOLON
  (.EmptyStatement idx, self)

/-- The loop of `parseFunctionParameterList`, at most `fuel` rounds. -/
def Parser.parseFunctionParameterListLoop : Nat → List String → Parser → List String × Parser
  | 0, list, self => (list, self)
  | fuel + 1, list, self =>
    if self.token ≠ .RIGHT_PARENTHESIS ∧ self.token ≠ .EOF then
      let self := if self.token ≠ .IDENTIFIER then (self.expect .IDENTIFIER).2 else self
      let list := list ++ [self.literal]
      let self := self.next
      let self := if self.token ≠ .RIGHT_PARENTHESIS then (self.expect .COMMA).2 else self
      Parser.parseFunctionParameterListLoop fuel list self
    else (list, self)

/-- `_parser.parseFunctionParameterList`.  Every round of its loop consumes a result of
the scanner, so `size + 2` rounds are never used up. -/
def Parser.parseFunctionParameterList (self : Parser) : List String × Parser :=
  let (_, self) := self.expect .LEFT_PARENTHESIS
  let (list, self) := self.parseFunctionParameterListLoop (self.scanner.size + 2) []
  let (_, self) := self.expect .RIGHT_PARENTHESIS
  (list, self)

/-- The label `illegal:` of `parseBreakStatement` and `parseContinueStatement`. -/
def Parser.illegalBranch (self : Parser) (idx : Idx) (message : String) : Statement × Parser :=
  let self := self.error idx message
  let self := self.nextStatement
  (.BadStatement idx self.idx, self)

/-- `_parser.parseBreakStatement`. -/
def Parser.parseBreakStatement (self : Parser) : Statement × Parser :=
  let (idx, self) := self.expect .BREAK
  let semicolon := self.implicitSemicolon
  let semicolon := if self.token = .SEMICOLON then true else semicolon
  let self := if self.token = .SEMICOLON then self.next else self
  if semicolon then
    let self := { self with implicitSemicolon := false }
    if !self.currentScope.inIteration && !self.currentScope.inSwitch then
      self.illegalBranch idx "Illegal break statement"
    else (.BranchStatement idx .BREAK none, self)
  else if self.token = .IDENTIFIER then
    let (identifier, self) := self.parseIdentifier
    if !hasLabel identifier.Name self.scope then
      (.BadStatement idx identifier.Idx1,
        self.error idx ("Undefined label '" ++ identifier.Name ++ "'"))
    else (.BranchStatement idx .BREAK (some identifier), self.semicolon)
  else
    let (_, self) := self.expect .IDENTIFIER
    self.illegalBranch idx "Illegal break statement"

/-- `_parser.parseContinueStatement`. -/
def Parser.parseContinueStatement (self : Parser) : Statement × Parser :=
  let (idx, self) := self.expect .CONTINUE
  let semicolon := self.implicitSemicolon
  let semicolon := if self.token = .SEMICOLON then true else semicolon
  let self := if self.token = .SEMICOLON then self.next else self
  if semicolon then
    let self := { self with implicitSemicolon := false }
    if !self.currentScope.inIteration then
      self.illegalBranch idx "Illegal continue statement"
    else (.BranchStatement idx .CONTINUE none, self)
  else if self.token = .IDENTIFIER then
    let (identifier, self) := self.parseIdentifier
    if !hasLabel identifier.Name self.scope then
      (.BadStatement idx identifier.Idx1,
        self.error idx ("Undefined label '" ++ identifier.Name ++ "'"))
    else if !self.currentScope.inIteration then
      self.illegalBranch idx "Illegal continue statement"
    else (.BranchStatement idx .CONTINUE (some identifier), self.semicolon)
  else
    let (_, self) := self.expect .IDENTIFIER
    self.illegalBranch idx "Illegal continue statement"

/-- The test `case *Identifier, *DotExpression, *BracketExpression:` of the type switches
on the target of an assignment, of `++` and of `--`. -/
def Expression.isReference : Expression → Bool
  | .Identifier _ _ => true
  | .DotExpression _ _ => true
  | .BracketExpression _ _ _ _ => true
  | _ => false

/-- The test `case *Identifier, *DotExpression, *BracketExpression, *VariableExpression:`
of `parseForOrForInStatement`. -/
def Expression.isForInTarget : Expression → Bool
  | .Identifier _ _ => true
  | .DotExpression _ _ => true
  | .BracketExpression _ _ _ _ => true
  | .VariableExpression _ _ _ => true
  | _ => false

/-- The operator an assignment token stands for (`operator` of
`parseAssignmentExpression`); `none` is the zero token. -/
def assignmentOperator : Token → Option Token
  | .ASSIGN => some .ASSIGN
  | .ADD_ASSIGN => some .PLUS
  | .SUBTRACT_ASSIGN => some .MINUS
  | .MULTIPLY_ASSIGN => some .MULTIPLY
  | .QUOTIENT_ASSIGN => some .SLASH
  | .REMAINDER_ASSIGN => some .REMAINDER
  | .AND_ASSIGN => some .AND
  | .AND_NOT_ASSIGN => some .AND_NOT
  | .OR_ASSIGN => some .OR
  | .EXCLUSIVE_OR_ASSIGN => some .EXCLUSIVE_OR
  | .SHIFT_LEFT_ASSIGN => some .SHIFT_LEFT
  | .SHIFT_RIGHT_ASSIGN => some .SHIFT_RIGHT
  | .UNSIGNED_SHIFT_RIGHT_ASSIGN => some .UNSIGNED_SHIFT_RIGHT
  | _ => none

/-- The nine levels of binary operators that `expression.go` parses with the same loop
(`left := next(); for self.token is an operator of the level ...`). -/
inductive BinaryLevel
  | Multiplicative | Additive | Shift | Equality | BitwiseAnd | BitwiseExclusiveOr
  | BitwiseOr | LogicalAnd | LogicalOr
  deriving DecidableEq, Repr

/-- The loop condition of a level: the tokens it accepts as operator. -/
def BinaryLevel.accepts : BinaryLevel → Token → Bool
  | .Multiplicative, t => t = .MULTIPLY ∨ t = .SLASH ∨ t = .REMAINDER
  | .Additive, t => t = .PLUS ∨ t = .MINUS
  | .Shift, t => t = .SHIFT_LEFT ∨ t = .SHIFT_RIGHT ∨ t = .UNSIGNED_SHIFT_RIGHT
  | .Equality, t => t = .EQUAL ∨ t = .NOT_EQUAL ∨ t = .STRICT_EQUAL ∨ t = .STRICT_NOT_EQUAL
  | .BitwiseAnd, t => t = .AND
  | .BitwiseExclusiveOr, t => t = .EXCLUSIVE_OR
  | .BitwiseOr, t => t = .OR
  | .LogicalAnd, t => t = .LOGICAL_AND
  | .LogicalOr, t => t = .LOGICAL_OR

/-- The `Comparison` field a level gives its nodes (only `parseEqualityExpression` sets
it). -/
def BinaryLevel.comparison : BinaryLevel → Bool
  | .Equality => true
  | _ => false

/-- `"Label '%s' already exists"` once for every open label equal to `label`
(the loop over `self.scope.labels` in `parseStatement`). -/
def Parser.checkLabel (self : Parser) (idx0 : Idx) (label : String) : List String → Parser
  | [] => self
  | value :: rest =>
    Parser.checkLabel
      (if label = value then self.error idx0 ("Label '" ++ label ++ "' already exists")
       else self) idx0 label rest

/-- The loop `for _, variable := range list` of `parseVariableStatement`. -/
def Parser.addVariables (self : Parser) : List Expression → Parser
  | [] => self
  | .VariableExpression name _ _ :: rest => Parser.addVariables (self.addVariable name) rest
  | _ :: rest => Parser.addVariables self rest

/-! ## The recursive descent (`expression.go`, `statement.go`)

The first argument is the fuel.  A loop of the source is a function of its own
whose extra arguments are the variables the loop updates.  A `defer` is carried out on
every path that leaves the function. -/

mutual

/-- `_parser.parsePrimaryExpression`. -/
def parsePrimaryExpression : Nat → Parser → Option (Expression × Parser)
  | 0, _ => none
  | n + 1, self =>
    let literal := self.literal
    let idx := self.idx
    if self.token = .IDENTIFIER then some (.Identifier literal idx, self.next)
    else if self.token = .NULL then some (.NullLiteral idx literal, self.next)
    else if self.token = .BOOLEAN then
      let self := self.next
      if literal = "true" then some (.BooleanLiteral idx literal true, self)
      else if literal = "false" then some (.BooleanLiteral idx literal false, self)
      else some (.BooleanLiteral idx literal false, self.error idx "Illegal boolean literal")
    else if self.token = .STRING then
      some (.StringLiteral idx literal self.string, self.next)
    else if self.token = .NUMBER then
      match self.number with
      | .error e => some (.NumberLiteral idx literal (.int 0), self.next.error idx e)
      | .ok value => some (.NumberLiteral idx literal value, self.next)
    else if self.token = .SLASH ∨ self.token = .QUOTIENT_ASSIGN then
      some self.parseRegExpLiteral
    else if self.token = .LEFT_BRACE then parseObjectLiteral n self
    else if self.token = .LEFT_BRACKET then parseArrayLiteral n self
    else if self.token = .LEFT_PARENTHESIS then do
      let (_, self) := self.expect .LEFT_PARENTHESIS
      let (expression, self) ← parseExpression n self
      let (_, self) := self.expect .RIGHT_PARENTHESIS
      pure (expression, self)
    else if self.token = .THIS then some (.ThisExpression idx, self.next)
    else if self.token = .FUNCTION then parseFunction n false self
    else
      let self := self.errorUnexpectedToken self.token
      let self := self.nextStatement
      some (.BadExpression idx self.idx, self)

/-- `_parser.parseVariableDeclaration`: the pair `(name, node)`. -/
def parseVariableDeclaration :
    Nat → Parser → Option ((String × Expression) × Parser)
  | 0, _ => none
  | n + 1, self =>
    if self.token ≠ .IDENTIFIER then
      let (idx, self) := self.expect .IDENTIFIER
      let self := self.nextStatement
      some (("", .BadExpression idx self.idx), self)
    else
      let literal := self.literal
      let idx := self.idx
      let self := self.next
      if self.token = .ASSIGN then do
        let self := self.next
        let (initializer, self) ← parseAssignmentExpression n self
        pure ((literal, .VariableExpression literal idx (some initializer)), self)
      else some ((literal, .VariableExpression literal idx none), self)

/-- `_parser.parseVariableDeclarationList`; `list` is the list built so far (`nil` at the
call). -/
def parseVariableDeclarationList :
    Nat → List Expression → Parser → Option (List Expression × Parser)
  | 0, _, _ => none
  | n + 1, list, self => do
    let ((name, definition), self) ← parseVariableDeclaration n self
    let list := list ++ [definition]
    let self := self.addVariable name
    if self.token ≠ .COMMA then pure (list, self)
    else parseVariableDeclarationList n list self.next

/-- `_parser.parseObjectProperty`. -/
def parseObjectProperty : Nat → Parser → Option (Property × Parser)
  | 0, _ => none
  | n + 1, self =>
    let ((literal, value), self) := self.parseObjectPropertyKey
    if literal = "get" ∧ self.token ≠ .COLON then do
      let idx := self.idx
      let ((_, value), self) := self.parseObjectPropertyKey
      let (_, self) := self.expect .LEFT_PARENTHESIS
      let (_, self) := self.expect .RIGHT_PARENTHESIS
      let ((body, variableList, functionList), self) ← _parseFunction n "" false self
      pure (.mk value "get" (.FunctionExpression idx body [] [] functionList variableList),
        self)
    else if literal = "set" ∧ self.token ≠ .COLON then do
      let idx := self.idx
      let ((_, value), self) := self.parseObjectPropertyKey
      let (parameterList, self) := self.parseFunctionParameterList
      let ((body, variableList, functionList), self) ← _parseFunction n "" false self
      pure (.mk value "set"
        (.FunctionExpression idx body [] parameterList functionList variableList), self)
    else do
      let (_, self) := self.expect .COLON
      let (expression, self) ← parseAssignmentExpression n self
      pure (.mk value "value" expression, self)

/-- The loop of `parseObjectLiteral`. -/
def parseObjectLiteralLoop :
    Nat → List Property → Parser → Option (List Property × Parser)
  | 0, _, _ => none
  | n + 1, value, self =>
    if self.token ≠ .RIGHT_BRACE ∧ self.token ≠ .EOF then do
      let (property, self) ← parseObjectProperty n self
      let value := value ++ [property]
      let self := if self.token = .COMMA then self.next else self
      parseObjectLiteralLoop n value self
    else some (value, self)

/-- `_parser.parseObjectLiteral`. -/
def parseObjectLiteral : Nat → Parser → Option (Expression × Parser)
  | 0, _ => none
  | n + 1, self => do
    let (idx0, self) := self.expect .LEFT_BRACE
    let (value, self) ← parseObjectLiteralLoop n [] self
    let (idx1, self) := self.expect .RIGHT_BRACE
    pure (.ObjectLiteral idx0 idx1 value, self)

/-- The loop of `parseArrayLiteral`. -/
def parseArrayLiteralLoop :
    Nat → List (Option Expression) → Parser → Option (List (Option Expression) × Parser)
  | 0, _, _ => none
  | n + 1, value, self =>
    if self.token ≠ .RIGHT_BRACKET ∧ self.token ≠ .EOF then
      if self.token = .COMMA then
        parseArrayLiteralLoop n (value ++ [none]) self.next
      else do
        let (expression, self) ← parseAssignmentExpression n self
        let value := value ++ [some expression]
        let self := if self.token ≠ .RIGHT_BRACKET then (self.expect .COMMA).2 else self
        parseArrayLiteralLoop n value self
    else some (value, self)

/-- `_parser.parseArrayLiteral`. -/
def parseArrayLiteral : Nat → Parser → Option (Expression × Parser)
  | 0, _ => none
  | n + 1, self => do
    let (idx0, self) := self.expect .LEFT_BRACKET
    let (value, self) ← parseArrayLiteralLoop n [] self
    let (idx1, self) := self.expect .RIGHT_BRACKET
    pure (.ArrayLiteral idx0 idx1 value, self)

/-- The loop of `parseArgumentList`. -/
def parseArgumentListLoop :
    Nat → List Expression → Parser → Option (List Expression × Parser)
  | 0, _, _ => none
  | n + 1, argumentList, self => do
    let (expression, self) ← parseAssignmentExpression n self
    let argumentList := argumentList ++ [expression]
    if self.token ≠ .COMMA then pure (argumentList, self)
    else parseArgumentListLoop n argumentList self.next

/-- `_parser.parseArgumentList`: the triple `(argumentList, idx0, idx1)`. -/
def parseArgumentList :
    Nat → Parser → Option ((List Expression × Idx × Idx) × Parser)
  | 0, _ => none
  | n + 1, self => do
    let (idx0, self) := self.expect .LEFT_PARENTHESIS
    let (argumentList, self) ←
      if self.token ≠ .RIGHT_PARENTHESIS then parseArgumentListLoop n [] self
      else some ([], self)
    let (idx1, self) := self.expect .RIGHT_PARENTHESIS
    pure ((argumentList, idx0, idx1), self)

/-- `_parser.parseCallExpression`. -/
def parseCallExpression :
    Nat → Expression → Parser → Option (Expression × Parser)
  | 0, _, _ => none
  | n + 1, left, self => do
    let ((argumentList, idx0, idx1), self) ← parseArgumentList n self
    pure (.CallExpression left idx0 argumentList idx1, self)

/-- `_parser.parseBracketMember`. -/
def parseBracketMember :
    Nat → Expression → Parser → Option (Expression × Parser)
  | 0, _, _ => none
  | n + 1, left, self => do
    let (idx0, self) := self.expect .LEFT_BRACKET
    let (member, self) ← parseExpression n self
    let (idx1, self) := self.expect .RIGHT_BRACKET
    pure (.BracketExpression left member idx0 idx1, self)

/-- `_parser.parseNewExpression`. -/
def parseNewExpression : Nat → Parser → Option (Expression × Parser)
  | 0, _ => none
  | n + 1, self => do
    let (idx, self) := self.expect .NEW
    let (callee, self) ← parseLeftHandSideExpression n self
    if self.token = .LEFT_PARENTHESIS then do
      let ((argumentList, idx0, idx1), self) ← parseArgumentList n self
      pure (.NewExpression idx callee idx0 argumentList idx1, self)
    else pure (.NewExpression idx callee 0 [] 0, self)

/-- The loop of `parseLeftHandSideExpression`. -/
def parseLeftHandSideExpressionLoop :
    Nat → Expression → Parser → Option (Expression × Parser)
  | 0, _, _ => none
  | n + 1, left, self =>
    if self.token = .PERIOD then
      let (left, self) := self.parseDotMember left
      parseLeftHandSideExpressionLoop n left self
    else if self.token = .LEFT_BRACE then do
      let (left, self) ← parseBracketMember n left self
      parseLeftHandSideExpressionLoop n left self
    else some (left, self)

/-- `_parser.parseLeftHandSideExpression`. -/
def parseLeftHandSideExpression : Nat → Parser → Option (Expression × Parser)
  | 0, _ => none
  | n + 1, self => do
    let (left, self) ←
      if self.token = .NEW then parseNewExpression n self
      else parsePrimaryExpression n self
    parseLeftHandSideExpressionLoop n left self

/-- The loop of `parseLeftHandSideExpressionAllowCall`. -/
def parseLeftHandSideExpressionAllowCallLoop :
    Nat → Expression → Parser → Option (Expression × Parser)
  | 0, _, _ => none
  | n + 1, left, self =>
    if self.token = .PERIOD then
      let (left, self) := self.parseDotMember left
      parseLeftHandSideExpressionAllowCallLoop n left self
    else if self.token = .LEFT_BRACKET then do
      let (left, self) ← parseBracketMember n left self
      parseLeftHandSideExpressionAllowCallLoop n left self
    else if self.token = .LEFT_PARENTHESIS then do
      let (left, self) ← parseCallExpression n left self
      parseLeftHandSideExpressionAllowCallLoop n left self
    else some (left, self)

/-- `_parser.parseLeftHandSideExpressionAllowCall`. -/
def parseLeftHandSideExpressionAllowCall :
    Nat → Parser → Option (Expression × Parser)
  | 0, _ => none
  | n + 1, self => do
    let (left, self) ←
      if self.token = .NEW then parseNewExpression n self
      else parsePrimaryExpression n self
    parseLeftHandSideExpressionAllowCallLoop n left self

/-- `_parser.parsePostfixExpression`. -/
def parsePostfixExpression : Nat → Parser → Option (Expression × Parser)
  | 0, _ => none
  | n + 1, self => do
    let (operand, self) ← parseLeftHandSideExpressionAllowCall n self
    if (self.token = .INCREMENT ∨ self.token = .DECREMENT) ∧ !self.implicitSemicolon then
      let tkn := self.token
      let idx := self.idx
      let self := self.next
      if operand.isReference then pure (.UnaryExpression tkn idx operand true, self)
      else
        let self := self.error idx "Invalid left-hand side in assignment"
        let self := self.nextStatement
        pure (.BadExpression idx self.idx, self)
    else pure (operand, self)

/-- `_parser.parseUnaryExpression`. -/
def parseUnaryExpression : Nat → Parser → Option (Expression × Parser)
  | 0, _ => none
  | n + 1, self =>
    if self.token = .PLUS ∨ self.token = .MINUS ∨ self.token = .NOT ∨
        self.token = .BITWISE_NOT ∨ self.token = .DELETE ∨ self.token = .VOID ∨
        self.token = .TYPEOF then do
      let tkn := self.token
      let idx := self.idx
      let self := self.next
      let (operand, self) ← parseUnaryExpression n self
      pure (.UnaryExpression tkn idx operand false, self)
    else if self.token = .INCREMENT ∨ self.token = .DECREMENT then do
      let tkn := self.token
      let idx := self.idx
      let self := self.next
      let (operand, self) ← parseUnaryExpression n self
      if operand.isReference then pure (.UnaryExpression tkn idx operand false, self)
      else
        let self := self.error idx "Invalid left-hand side in assignment"
        let self := self.nextStatement
        pure (.BadExpression idx self.idx, self)
    else parsePostfixExpression n self

/-- The function `next` of a binary level: `parseUnaryExpression` for
`parseMultiplicativeExpression`, `parseMultiplicativeExpression` for
`parseAdditiveExpression`, and so on; `parseRelationalExpression` for
`parseEqualityExpression`. -/
def parseBinaryOperand :
    Nat → BinaryLevel → Parser → Option (Expression × Parser)
  | 0, _, _ => none
  | n + 1, .Multiplicative, self => parseUnaryExpression n self
  | n + 1, .Additive, self => parseBinaryExpression n .Multiplicative self
  | n + 1, .Shift, self => parseBinaryExpression n .Additive self
  | n + 1, .Equality, self => parseRelationalExpression n self
  | n + 1, .BitwiseAnd, self => parseBinaryExpression n .Equality self
  | n + 1, .BitwiseExclusiveOr, self => parseBinaryExpression n .BitwiseAnd self
  | n + 1, .BitwiseOr, self => parseBinaryExpression n .BitwiseExclusiveOr self
  | n + 1, .LogicalAnd, self => parseBinaryExpression n .BitwiseOr self
  | n + 1, .LogicalOr, self => parseBinaryExpression n .LogicalAnd self

/-- The loop `for self.token is an operator of the level` of a binary level. -/
def parseBinaryLoop :
    Nat → BinaryLevel → Expression → Parser → Option (Expression × Parser)
  | 0, _, _, _ => none
  | n + 1, level, left, self =>
    if level.accepts self.token then do
      let tkn := self.token
      let self := self.next
      let (right, self) ← parseBinaryOperand n level self
      parseBinaryLoop n level (.BinaryExpression tkn left right level.comparison) self
    else some (left, self)

/-- The functions `parseMultiplicativeExpression`, `parseAdditiveExpression`,
`parseShiftExpression`, `parseEqualityExpression`, `parseBitwiseAndExpression`,
`parseBitwiseExclusiveOrExpression`, `parseBitwiseOrExpression`,
`parseLogicalAndExpression` and `parseLogicalOrExpression`, by level. -/
def parseBinaryExpression :
    Nat → BinaryLevel → Parser → Option (Expression × Parser)
  | 0, _, _ => none
  | n + 1, level, self => do
    let (left, self) ← parseBinaryOperand n level self
    parseBinaryLoop n level left self

/-- `_parser.parseRelationalExpression`. -/
def parseRelationalExpression : Nat → Parser → Option (Expression × Parser)
  | 0, _ => none
  | n + 1, self => do
    let (left, self) ← parseBinaryExpression n .Shift self
    let allowIn := self.currentScope.allowIn
    let self := self.modifyScope fun s => { s with allowIn := true }
    if self.token = .LESS ∨ self.token = .LESS_OR_EQUAL ∨ self.token = .GREATER ∨
        self.token = .GREATER_OR_EQUAL then do
      let tkn := self.token
      let self := self.next
      let (right, self) ← parseRelationalExpression n self
      pure (.BinaryExpression tkn left right true,
        self.modifyScope fun s => { s with allowIn := allowIn })
    else if self.token = .INSTANCEOF then do
      let tkn := self.token
      let self := self.next
      let (right, self) ← parseRelationalExpression n self
      pure (.BinaryExpression tkn left right false,
        self.modifyScope fun s => { s with allowIn := allowIn })
    else if self.token = .IN then
      if !allowIn then
        pure (left, self.modifyScope fun s => { s with allowIn := allowIn })
      else do
        let tkn := self.token
        let self := self.next
        let (right, self) ← parseRelationalExpression n self
        pure (.BinaryExpression tkn left right false,
          self.modifyScope fun s => { s with allowIn := allowIn })
    else pure (left, self.modifyScope fun s => { s with allowIn := allowIn })

/-- `_parser.parseConditionlExpression`. -/
def parseConditionlExpression : Nat → Parser → Option (Expression × Parser)
  | 0, _ => none
  | n + 1, self => do
    let (left, self) ← parseBinaryExpression n .LogicalOr self
    if self.token = .QUESTION_MARK then do
      let self := self.next
      let (consequent, self) ← parseAssignmentExpression n self
      let (_, self) := self.expect .COLON
      let (alternate, self) ← parseAssignmentExpression n self
      pure (.ConditionalExpression left consequent alternate, self)
    else pure (left, self)

/-- `_parser.parseAssignmentExpression`. -/
def parseAssignmentExpression : Nat → Parser → Option (Expression × Parser)
  | 0, _ => none
  | n + 1, self => do
    let (left, self) ← parseConditionlExpression n self
    match assignmentOperator self.token with
    | some operator =>
      let idx := self.idx
      let self := self.next
      if left.isReference then do
        let (right, self) ← parseAssignmentExpression n self
        pure (.AssignExpression operator left right, self)
      else do
        let idx0 ← left.Idx0
        let self := self.error idx0 "Invalid left-hand side in assignment"
        let self := self.nextStatement
        pure (.BadExpression idx self.idx, self)
    | none => pure (left, self)

/-- The loop of `parseExpression`. -/
def parseExpressionLoop :
    Nat → List Expression → Parser → Option (List Expression × Parser)
  | 0, _, _ => none
  | n + 1, sequence, self =>
    if self.token ≠ .COMMA then some (sequence, self)
    else do
      let self := self.next
      let (expression, self) ← parseAssignmentExpression n self
      parseExpressionLoop n (sequence ++ [expression]) self

/-- `_parser.parseExpression`. -/
def parseExpression : Nat → Parser → Option (Expression × Parser)
  | 0, _ => none
  | n + 1, self => do
    let (left, self) ← parseAssignmentExpression n self
    if self.token = .COMMA then do
      let (sequence, self) ← parseExpressionLoop n [left] self
      pure (.SequenceExpression sequence, self)
    else pure (left, self)

/-- `_parser.parseBlockStatement`. -/
def parseBlockStatement : Nat → Parser → Option (Statement × Parser)
  | 0, _ => none
  | n + 1, self => do
    let (leftBrace, self) := self.expect .LEFT_BRACE
    let (list, self) ← parseStatementList n [] self
    let (rightBrace, self) := self.expect .RIGHT_BRACE
    pure (.BlockStatement leftBrace list rightBrace, self)

/-- `_parser.parseStatementList`; `list` is the list built so far (`nil` at the call). -/
def parseStatementList :
    Nat → List Statement → Parser → Option (List Statement × Parser)
  | 0, _, _ => none
  | n + 1, list, self =>
    if self.token ≠ .RIGHT_BRACE ∧ self.token ≠ .EOF then do
      let (statement, self) ← parseStatement n self
      parseStatementList n (list ++ [statement]) self
    else some (list, self)

/-- `_parser.parseStatement`. -/
def parseStatement : Nat → Parser → Option (Statement × Parser)
  | 0, _ => none
  | n + 1, self =>
    if self.token = .EOF then
      let self1 := self.errorUnexpectedToken self.token
      some (.BadStatement self1.idx (self1.idx + 1), self1)
    else if self.token = .SEMICOLON then some self.parseEmptyStatement
    else if self.token = .LEFT_BRACE then parseBlockStatement n self
    else if self.token = .IF then parseIfStatement n self
    else if self.token = .DO then parseDoWhileStatement n self
    else if self.token = .WHILE then parseWhileStatement n self
    else if self.token = .FOR then parseForOrForInStatement n self
    else if self.token = .BREAK then some self.parseBreakStatement
    else if self.token = .CONTINUE then some self.parseContinueStatement
    else if self.token = .WITH then parseWithStatement n self
    else if self.token = .VAR then parseVariableStatement n self
    else if self.token = .FUNCTION then do
      let (_, self) ← parseFunction n true self
      pure (.EmptyStatement 0, self)
    else if self.token = .SWITCH then parseSwitchStatement n self
    else if self.token = .RETURN then parseReturnStatement n self
    else if self.token = .THROW then parseThrowStatement n self
    else if self.token = .TRY then parseTryStatement n self
    else do
      let (expression, self) ← parseExpression n self
      match expression with
      | .Identifier name idx0 =>
        if self.token = .COLON then do
          let colon := self.idx
          let self := self.next
          let label := name
          let self := self.checkLabel idx0 label self.currentScope.labels
          let self := self.modifyScope fun s => { s with labels := s.labels ++ [label] }
          let (statement, self) ← parseStatement n self
          let self := self.modifyScope fun s => { s with labels := s.labels.dropLast }
          pure (.LabelledStatement { Name := name, Idx := idx0 } colon statement, self)
        else
          pure (.ExpressionStatement expression, self.optionalSemicolon)
      | _ => pure (.ExpressionStatement expression, self.optionalSemicolon)

/-- `_parser.parseTryStatement`, from `if self.token == token.FINALLY` on; `catchClause`
is the field `Catch` of the node. -/
def parseTryStatementFinally :
    Nat → Idx → Statement → Option CatchStatement → Parser → Option (Statement × Parser)
  | 0, _, _, _, _ => none
  | n + 1, tryIdx, body, catchClause, self => do
    let (finally_, self) ←
      if self.token = .FINALLY then do
        let self := self.next
        let (finallyBody, self) ← parseBlockStatement n self
        pure (some finallyBody, self.semicolon)
      else some (none, self)
    if catchClause.isNone ∧ finally_.isNone then do
      let self := self.error tryIdx "Missing catch or finally after try"
      let idx1 ← body.Idx1
      pure (.BadStatement tryIdx idx1, self)
    else pure (.TryStatement tryIdx body catchClause finally_, self)

/-- `_parser.parseTryStatement`. -/
def parseTryStatement : Nat → Parser → Option (Statement × Parser)
  | 0, _ => none
  | n + 1, self => do
    let (tryIdx, self) := self.expect .TRY
    let (body, self) ← parseBlockStatement n self
    if self.token = .CATCH then
      let catch_ := self.idx
      let self := self.next
      let (_, self) := self.expect .LEFT_PARENTHESIS
      if self.token ≠ .IDENTIFIER then
        let (_, self) := self.expect .IDENTIFIER
        let self := self.nextStatement
        pure (.BadStatement catch_ self.idx, self)
      else do
        let (identifier, self) := self.parseIdentifier
        let (_, self) := self.expect .RIGHT_PARENTHESIS
        let (catchBody, self) ← parseBlockStatement n self
        parseTryStatementFinally n tryIdx body (some (.mk catch_ identifier catchBody)) self
    else parseTryStatementFinally n tryIdx body none self

/-- `_parser.parseFunction`.  The declaration `addFunction(name, node)` of a function
statement is entered in the scope once `node` is complete; nothing else is added to that
scope in between, its parameter list and body being parsed in a scope of their own. -/
def parseFunction : Nat → Bool → Parser → Option (Expression × Parser)
  | 0, _, _ => none
  | n + 1, declaration, self => do
    let (function, self) := self.expect .FUNCTION
    let name := if self.token = .IDENTIFIER then self.literal else ""
    let declared := self.token = .IDENTIFIER ∧ declaration
    let self :=
      if self.token = .IDENTIFIER then self.next
      else if declaration then (self.expect .IDENTIFIER).2
      else self
    let (parameterList, self) := self.parseFunctionParameterList
    let ((body, variableList, functionList), self) ← _parseFunction n name declaration self
    let idx1 ← body.Idx1
    let node := Expression.FunctionExpression function body (self.slice function idx1)
      parameterList functionList variableList
    let self := if declared then self.addFunction name (.node node) else self
    pure (node, self)

/-- `_parser._parseFunction`: the fields `(Body, VariableList, FunctionList)` it gives the
node. -/
def _parseFunction :
    Nat → String → Bool → Parser →
      Option ((Statement × List Declaration × List Declaration) × Parser)
  | 0, _, _, _ => none
  | n + 1, name, declaration, self => do
    let self := self.openScope
    let self := if !declaration ∧ name ≠ "" then self.addFunction name .self else self
    let inFunction := self.currentScope.inFunction
    let self := self.modifyScope fun s => { s with inFunction := true }
    let (body, self) ← parseBlockStatement n self
    let variableList := self.currentScope.variableList
    let functionList := self.currentScope.functionList
    let self := self.modifyScope fun s => { s with inFunction := inFunction }
    let self := self.closeScope
    pure ((body, variableList, functionList), self)

/-- `_parser.parseReturnStatement`. -/
def parseReturnStatement : Nat → Parser → Option (Statement × Parser)
  | 0, _ => none
  | n + 1, self =>
    let (idx, self) := self.expect .RETURN
    if !self.currentScope.inFunction then
      let self := self.error idx "Illegal return statement"
      let self := self.nextStatement
      some (.BadStatement idx self.idx, self)
    else if !self.implicitSemicolon ∧ self.token ≠ .SEMICOLON ∧ self.token ≠ .RIGHT_BRACE ∧
        self.token ≠ .EOF then do
      let (argument, self) ← parseExpression n self
      pure (.ReturnStatement idx (some argument), self.semicolon)
    else some (.ReturnStatement idx none, self.semicolon)

/-- `_parser.parseThrowStatement`. -/
def parseThrowStatement : Nat → Parser → Option (Statement × Parser)
  | 0, _ => none
  | n + 1, self =>
    let (idx, self) := self.expect .THROW
    if self.implicitSemicolon then
      let self :=
        if self.chr = -1 then self.error idx "Unexpected end of input"
        else self.error idx "Illegal newline after throw"
      let self := self.nextStatement
      some (.BadStatement idx self.idx, self)
    else do
      let (argument, self) ← parseExpression n self
      pure (.ThrowStatement 0 argument, self.semicolon)

/-- The loop of `parseSwitchStatement`; `default` and `body` are the fields `Default` and
`Body` of the node. -/
def parseSwitchStatementLoop :
    Nat → Int → Int → List CaseStatement → Parser →
      Option ((Int × List CaseStatement) × Parser)
  | 0, _, _, _, _ => none
  | n + 1, index, default, body, self =>
    if self.token ≠ .EOF then
      if self.token = .RIGHT_BRACE then some ((default, body), self.next)
      else do
        let (clause, self) ← parseCaseStatement n self
        if clause.Test.isNone then
          let self :=
            if default ≠ -1 then self.error clause.Case "Already saw a default in switch"
            else self
          parseSwitchStatementLoop n (index + 1) index (body ++ [clause]) self
        else parseSwitchStatementLoop n (index + 1) default (body ++ [clause]) self
    else some ((default, body), self)

/-- `_parser.parseSwitchStatement`. -/
def parseSwitchStatement : Nat → Parser → Option (Statement × Parser)
  | 0, _ => none
  | n + 1, self => do
    let (_, self) := self.expect .SWITCH
    let (_, self) := self.expect .LEFT_PARENTHESIS
    let (discriminant, self) ← parseExpression n self
    let (_, self) := self.expect .RIGHT_PARENTHESIS
    let (_, self) := self.expect .LEFT_BRACE
    let inSwitch := self.currentScope.inSwitch
    let self := self.modifyScope fun s => { s with inSwitch := true }
    let ((default, body), self) ← parseSwitchStatementLoop n 0 (-1) [] self
    let self := self.modifyScope fun s => { s with inSwitch := inSwitch }
    pure (.SwitchStatement 0 discriminant default body, self)

/-- `_parser.parseWithStatement`. -/
def parseWithStatement : Nat → Parser → Option (Statement × Parser)
  | 0, _ => none
  | n + 1, self => do
    let (_, self) := self.expect .WITH
    let (_, self) := self.expect .LEFT_PARENTHESIS
    let (object, self) ← parseExpression n self
    let (_, self) := self.expect .RIGHT_PARENTHESIS
    let (body, self) ← parseStatement n self
    pure (.WithStatement 0 object body, self)

/-- The loop of `parseCaseStatement`. -/
def parseCaseStatementLoop :
    Nat → List Statement → Parser → Option (List Statement × Parser)
  | 0, _, _ => none
  | n + 1, consequent, self =>
    if self.token = .EOF ∨ self.token = .RIGHT_BRACE ∨ self.token = .CASE ∨
        self.token = .DEFAULT then some (consequent, self)
    else do
      let (statement, self) ← parseStatement n self
      parseCaseStatementLoop n (consequent ++ [statement]) self

/-- `_parser.parseCaseStatement`. -/
def parseCaseStatement : Nat → Parser → Option (CaseStatement × Parser)
  | 0, _ => none
  | n + 1, self => do
    let case_ := self.idx
    let (test, self) ←
      if self.token = .DEFAULT then some (none, self.next)
      else do
        let (_, self) := self.expect .CASE
        let (test, self) ← parseExpression n self
        pure (some test, self)
    let (_, self) := self.expect .COLON
    let (consequent, self) ← parseCaseStatementLoop n [] self
    pure (.mk case_ test consequent, self)

/-- `_parser.parseIterationStatement`. -/
def parseIterationStatement : Nat → Parser → Option (Statement × Parser)
  | 0, _ => none
  | n + 1, self => do
    let inIteration := self.currentScope.inIteration
    let self := self.modifyScope fun s => { s with inIteration := true }
    let (statement, self) ← parseStatement n self
    pure (statement, self.modifyScope fun s => { s with inIteration := inIteration })

/-- `_parser.parseForIn`. -/
def parseForIn : Nat → Expression → Parser → Option (Statement × Parser)
  | 0, _, _ => none
  | n + 1, into, self => do
    let (source, self) ← parseExpression n self
    let (_, self) := self.expect .RIGHT_PARENTHESIS
    let (body, self) ← parseIterationStatement n self
    pure (.ForInStatement 0 into source body, self)

/-- `_parser.parseFor`. -/
def parseFor : Nat → Expression → Parser → Option (Statement × Parser)
  | 0, _, _ => none
  | n + 1, initializer, self => do
    let (test, self) ←
      if self.token ≠ .SEMICOLON then do
        let (test, self) ← parseExpression n self
        pure (some test, self)
      else some (none, self)
    let (_, self) := self.expect .SEMICOLON
    let (update, self) ←
      if self.token ≠ .RIGHT_PARENTHESIS then do
        let (update, self) ← parseExpression n self
        pure (some update, self)
      else some (none, self)
    let (_, self) := self.expect .RIGHT_PARENTHESIS
    let (body, self) ← parseIterationStatement n self
    pure (.ForStatement 0 initializer update test body, self)

/-- `_parser.parseForOrForInStatement`. -/
def parseForOrForInStatement : Nat → Parser → Option (Statement × Parser)
  | 0, _ => none
  | n + 1, self => do
    let (idx, self) := self.expect .FOR
    let (_, self) := self.expect .LEFT_PARENTHESIS
    let ((left, isIn), self) ←
      if self.token ≠ .SEMICOLON then do
        let allowIn := self.currentScope.allowIn
        let self := self.modifyScope fun s => { s with allowIn := false }
        let ((left, isIn), self) ←
          if self.token = .VAR then do
            let self := self.next
            let (list, self) ← parseVariableDeclarationList n [] self
            if list.length = 1 ∧ self.token = .IN then pure ((list.take 1, true), self.next)
            else pure ((list, false), self)
          else do
            let (expression, self) ← parseExpression n self
            if self.token = .IN then pure (([expression], true), self.next)
            else pure (([expression], false), self)
        pure ((left, isIn), self.modifyScope fun s => { s with allowIn := allowIn })
      else some (([], false), self)
    if !isIn then
      let (_, self) := self.expect .SEMICOLON
      parseFor n (.SequenceExpression left) self
    else
      match left with
      | [] => none
      | into :: _ =>
        if into.isForInTarget then parseForIn n into self
        else
          let self := self.error idx "Invalid left-hand side in for-in"
          let self := self.nextStatement
          pure (.BadStatement idx self.idx, self)

/-- `_parser.parseVariableStatement`. -/
def parseVariableStatement : Nat → Parser → Option (Statement × Parser)
  | 0, _ => none
  | n + 1, self => do
    let (idx, self) := self.expect .VAR
    let (list, self) ← parseVariableDeclarationList n [] self
    let self := self.addVariables list
    pure (.VarStatement idx list, self.semicolon)

/-- `_parser.parseDoWhileStatement`. -/
def parseDoWhileStatement : Nat → Parser → Option (Statement × Parser)
  | 0, _ => none
  | n + 1, self => do
    let inIteration := self.currentScope.inIteration
    let self := self.modifyScope fun s => { s with inIteration := true }
    let (_, self) := self.expect .DO
    let (body, self) ←
      if self.token = .LEFT_BRACE then parseBlockStatement n self
      else parseStatement n self
    let (_, self) := self.expect .WHILE
    let (_, self) := self.expect .LEFT_PARENTHESIS
    let (test, self) ← parseExpression n self
    let (_, self) := self.expect .RIGHT_PARENTHESIS
    pure (.DoWhileStatement 0 test body,
      self.modifyScope fun s => { s with inIteration := inIteration })

/-- `_parser.parseWhileStatement`. -/
def parseWhileStatement : Nat → Parser → Option (Statement × Parser)
  | 0, _ => none
  | n + 1, self => do
    let (_, self) := self.expect .WHILE
    let (_, self) := self.expect .LEFT_PARENTHESIS
    let (test, self) ← parseExpression n self
    let (_, self) := self.expect .RIGHT_PARENTHESIS
    let (body, self) ← parseIterationStatement n self
    pure (.WhileStatement 0 test body, self)

/-- `_parser.parseIfStatement`. -/
def parseIfStatement : Nat → Parser → Option (Statement × Parser)
  | 0, _ => none
  | n + 1, self => do
    let (_, self) := self.expect .IF
    let (_, self) := self.expect .LEFT_PARENTHESIS
    let (test, self) ← parseExpression n self
    let (_, self) := self.expect .RIGHT_PARENTHESIS
    let (consequent, self) ←
      if self.token = .LEFT_BRACE then parseBlockStatement n self
      else parseStatement n self
    if self.token = .ELSE then do
      let self := self.next
      let (alternate, self) ← parseStatement n self
      pure (.IfStatement 0 test consequent (some alternate), self)
    else pure (.IfStatement 0 test consequent none, self)

end

/-- `_parser.parseSourceElement`. -/
def parseSourceElement (n : Nat) (self : Parser) : Option (Statement × Parser) :=
  parseStatement n self

/-- The first loop of `parseSourceElements` (`if self.token != token.STRING break`). -/
def parseSourceElementsDirectives :
    Nat → List Statement → Parser → Option (List Statement × Parser)
  | 0, _, _ => none
  | n + 1, body, self =>
    if self.token ≠ .STRING then some (body, self)
    else do
      let (statement, self) ← parseSourceElement n self
      parseSourceElementsDirectives n (body ++ [statement]) self

/-- The second loop of `parseSourceElements` (`for self.token != token.EOF`). -/
def parseSourceElementsLoop :
    Nat → List Statement → Parser → Option (List Statement × Parser)
  | 0, _, _ => none
  | n + 1, body, self =>
    if self.token ≠ .EOF then do
      let (statement, self) ← parseSourceElement n self
      parseSourceElementsLoop n (body ++ [statement]) self
    else some (body, self)

/-- `_parser.parseSourceElements`. -/
def parseSourceElements (n : Nat) (self : Parser) :
    Option (List Statement × Parser) := do
  let (body, self) ← parseSourceElementsDirectives n [] self
  parseSourceElementsLoop n body self

/-- `_parser.parseProgram`. -/
def parseProgram (n : Nat) (self : Parser) : Option (Program × Parser) := do
  let self := self.openScope
  let (body, self) ← parseSourceElements n self
  let program : Program :=
    { Body := body,
      VariableList := self.currentScope.variableList,
      FunctionList := self.currentScope.functionList }
  pure (program, self.closeScope)

/-- `_parser.parse`, together with the parser it leaves behind. -/
def Parser.parseState (n : Nat) (self : Parser) : Option (Program × Parser) :=
  parseProgram n self.next

/-- `_parser.parse`: the program and `self.errors[0]` (`none` is the `nil` error). -/
def Parser.parse (n : Nat) (self : Parser) : Option (Program × Option Error) :=
  (self.parseState n).map fun r => (r.1, r.2.errors.head?)

/-- `Parse`, for a source and the scanner's results on it. -/
def Parse (n : Nat) (filename : String) (source : List Nat)
    (scanner : Scanner) : Option (Program × Option Error) :=
  (newParser filename source scanner).parse n

/-! ## Example sources

A source is given by its bytes and by the results of the scanner on it. -/

/-- The bytes of an ASCII string. -/
def asciiBytes (s : String) : List Nat := s.toList.map Char.toNat

/-- The scanner's result for a token that starts at `idx`, on the line of the token
before it: `chrOffset` is the offset behind the token. -/
def scanned (token : Token) (literal : String) (idx : Idx) : Scanned :=
  { token := token, literal := literal, idx := idx,
    chrOffset := idx - 1 + (if literal = "" then token.String.length else literal.length),
    isIdentifier := literal ≠ "" ∧ token ≠ .NUMBER ∧ token ≠ .STRING }

/-- The scanner's result for the end of a source of `length` bytes, reached behind a token
after which a semicolon may be inserted. -/
def scannedEOF (length : Nat) : Scanned :=
  { token := .EOF, literal := "", idx := length + 1, implicitSemicolon := true, chr := -1,
    chrOffset := length }

/-- The source `a = b ? c : d = e`. -/
def conditionalAssignSource : List Nat := asciiBytes "a = b ? c : d = e"

/-- The scanner's results on `a = b ? c : d = e`. -/
def conditionalAssignTokens : Scanner :=
  .ofList [scanned .IDENTIFIER "a" 1, scanned .ASSIGN "" 3, scanned .IDENTIFIER "b" 5,
    scanned .QUESTION_MARK "" 7, scanned .IDENTIFIER "c" 9, scanned .COLON "" 11,
    scanned .IDENTIFIER "d" 13, scanned .ASSIGN "" 15, scanned .IDENTIFIER "e" 17,
    scannedEOF 17]

/-- The source `while (a) { break }`. -/
def breakBeforeBraceSource : List Nat := asciiBytes "while (a) \x7b break \x7d"

/-- The scanner's results on `while (a) { break }`: no line terminator follows `break`,
so `implicitSemicolon` is not set at the closing brace. -/
def breakBeforeBraceTokens : Scanner :=
  .ofList [scanned .WHILE "while" 1, scanned .LEFT_PARENTHESIS "" 7,
    scanned .IDENTIFIER "a" 8, scanned .RIGHT_PARENTHESIS "" 9, scanned .LEFT_BRACE "" 11,
    scanned .BREAK "break" 13, scanned .RIGHT_BRACE "" 19, scannedEOF 19]

/-- The source `function f() { var x; }`. -/
def varInFunctionSource : List Nat := asciiBytes "function f() \x7b var x; \x7d"

/-- The scanner's results on `function f() { var x; }`. -/
def varInFunctionTokens : Scanner :=
  .ofList [scanned .FUNCTION "function" 1, scanned .IDENTIFIER "f" 10,
    scanned .LEFT_PARENTHESIS "" 11, scanned .RIGHT_PARENTHESIS "" 12,
    scanned .LEFT_BRACE "" 14, scanned .VAR "var" 16, scanned .IDENTIFIER "x" 20,
    scanned .SEMICOLON "" 21, scanned .RIGHT_BRACE "" 23, scannedEOF 23]

/-- The source `L: x = function () { while (a) { break L; } }`. -/
def labelAcrossFunctionSource : List Nat :=
  asciiBytes "L: x = function () \x7b while (a) \x7b break L; \x7d \x7d"

/-- The scanner's results on `L: x = function () { while (a) { break L; } }`. -/
def labelAcrossFunctionTokens : Scanner :=
  .ofList [scanned .IDENTIFIER "L" 1, scanned .COLON "" 2, scanned .IDENTIFIER "x" 4,
    scanned .ASSIGN "" 6, scanned .FUNCTION "function" 8, scanned .LEFT_PARENTHESIS "" 17,
    scanned .RIGHT_PARENTHESIS "" 18, scanned .LEFT_BRACE "" 20, scanned .WHILE "while" 22,
    scanned .LEFT_PARENTHESIS "" 28, scanned .IDENTIFIER "a" 29,
    scanned .RIGHT_PARENTHESIS "" 30, scanned .LEFT_BRACE "" 32, scanned .BREAK "break" 34,
    scanned .IDENTIFIER "L" 40, scanned .SEMICOLON "" 41, scanned .RIGHT_BRACE "" 43,
    scanned .RIGHT_BRACE "" 45, scannedEOF 45]

/-- The messages of the errors a parser has recorded. -/
def Parser.messages (self : Parser) : List String := self.errors.map (·.Message)

/-- A parser that stands at `break L` inside a function body whose scope has no open
label, while the enclosing scope has the label `L` open. -/
def breakInFunctionParser : Parser :=
  { token := .BREAK, literal := "break", idx := 34,
    scanner := .ofList [scanned .IDENTIFIER "L" 40, scanned .SEMICOLON "" 41],
    scope := [{ allowIn := true, inFunction := true, inIteration := true },
              { allowIn := true, labels := ["L"] }] }

/-! ## Nodes in context

The notions the invariants of the tree are stated with: the context a statement stands in
(inside a function body, a loop, a switch, a labelled statement), and "every node of the
tree satisfies ...". -/

/-- Where a statement stands inside the innermost function body (or the program) around
it: in a function body, in the body of an iteration statement, in a clause of a switch,
and the labels of the labelled statements around it. -/
structure Context where
  inFunction : Bool := false
  inIteration : Bool := false
  inSwitch : Bool := false
  labels : List String := []

/-- The context of the body of a function. -/
def Context.function : Context := { inFunction := true }

/-- The context of the body of an iteration statement that stands in `self`. -/
def Context.iteration (self : Context) : Context := { self with inIteration := true }

/-- The context of the clauses of a switch that stands in `self`. -/
def Context.switch (self : Context) : Context := { self with inSwitch := true }

/-- The context of the statement labelled `label` in `self`. -/
def Context.label (self : Context) (label : String) : Context :=
  { self with labels := self.labels ++ [label] }

mutual
/-- Every expression node of the tree satisfies `PE` and every statement node `PS`, in
its context. -/
def Expression.All (PE : Expression → Prop) (PS : Context → Statement → Prop) :
    Expression → Prop
  | .ArrayLiteral lb rb v => PE (.ArrayLiteral lb rb v) ∧ Expression.AllOptions PE PS v
  | .AssignExpression op l r =>
    PE (.AssignExpression op l r) ∧ l.All PE PS ∧ r.All PE PS
  | .BadExpression f t => PE (.BadExpression f t)
  | .BinaryExpression op l r c =>
    PE (.BinaryExpression op l r c) ∧ l.All PE PS ∧ r.All PE PS
  | .BooleanLiteral i l v => PE (.BooleanLiteral i l v)
  | .BracketExpression l m lb rb =>
    PE (.BracketExpression l m lb rb) ∧ l.All PE PS ∧ m.All PE PS
  | .CallExpression c lp a rp =>
    PE (.CallExpression c lp a rp) ∧ c.All PE PS ∧ Expression.AllList PE PS a
  | .ConditionalExpression t c a =>
    PE (.ConditionalExpression t c a) ∧ t.All PE PS ∧ c.All PE PS ∧ a.All PE PS
  | .DotExpression l i => PE (.DotExpression l i) ∧ l.All PE PS
  | .FunctionExpression f b s ps fl vl =>
    PE (.FunctionExpression f b s ps fl vl) ∧ b.All PE PS .function ∧
      Declaration.AllList PE PS fl ∧ Declaration.AllList PE PS vl
  | .Identifier n i => PE (.Identifier n i)
  | .NewExpression n c lp a rp =>
    PE (.NewExpression n c lp a rp) ∧ c.All PE PS ∧ Expression.AllList PE PS a
  | .NullLiteral i l => PE (.NullLiteral i l)
  | .NumberLiteral i l v => PE (.NumberLiteral i l v)
  | .ObjectLiteral lb rb v => PE (.ObjectLiteral lb rb v) ∧ Property.AllList PE PS v
  | .RegExpLiteral i l p f => PE (.RegExpLiteral i l p f)
  | .SequenceExpression s => PE (.SequenceExpression s) ∧ Expression.AllList PE PS s
  | .StringLiteral i l v => PE (.StringLiteral i l v)
  | .ThisExpression i => PE (.ThisExpression i)
  | .UnaryExpression op i o pf => PE (.UnaryExpression op i o pf) ∧ o.All PE PS
  | .VariableExpression n i ini =>
    PE (.VariableExpression n i ini) ∧ Expression.AllOption PE PS ini
/-- `Expression.All` for an expression that may be `nil`. -/
def Expression.AllOption (PE : Expression → Prop) (PS : Context → Statement → Prop) :
    Option Expression → Prop
  | none => True
  | some e => e.All PE PS
/-- `Expression.All` for the elements of a slice. -/
def Expression.AllList (PE : Expression → Prop) (PS : Context → Statement → Prop) :
    List Expression → Prop
  | [] => True
  | e :: es => e.All PE PS ∧ Expression.AllList PE PS es
/-- `Expression.All` for the elements of a slice that has holes. -/
def Expression.AllOptions (PE : Expression → Prop) (PS : Context → Statement → Prop) :
    List (Option Expression) → Prop
  | [] => True
  | e :: es => Expression.AllOption PE PS e ∧ Expression.AllOptions PE PS es
/-- `Expression.All` for the values of the properties of an object literal. -/
def Property.AllList (PE : Expression → Prop) (PS : Context → Statement → Prop) :
    List Property → Prop
  | [] => True
  | .mk _ _ v :: ps => v.All PE PS ∧ Property.AllList PE PS ps
/-- `Expression.All` for the function nodes a list of declarations points to. -/
def Declaration.AllList (PE : Expression → Prop) (PS : Context → Statement → Prop) :
    List Declaration → Prop
  | [] => True
  | .mk _ (.node f) :: ds => f.All PE PS ∧ Declaration.AllList PE PS ds
  | .mk _ .nil :: ds => Declaration.AllList PE PS ds
  | .mk _ .self :: ds => Declaration.AllList PE PS ds
/-- Every expression node of the statement satisfies `PE` and every statement node `PS`,
the statement standing in the context `c`. -/
def Statement.All (PE : Expression → Prop) (PS : Context → Statement → Prop) :
    Context → Statement → Prop
  | c, .BadStatement f t => PS c (.BadStatement f t)
  | c, .BlockStatement lb l rb =>
    PS c (.BlockStatement lb l rb) ∧ Statement.AllList PE PS c l
  | c, .BranchStatement i t l => PS c (.BranchStatement i t l)
  | c, .DoWhileStatement d t b =>
    PS c (.DoWhileStatement d t b) ∧ t.All PE PS ∧ b.All PE PS c.iteration
  | c, .EmptyStatement s => PS c (.EmptyStatement s)
  | c, .ExpressionStatement e => PS c (.ExpressionStatement e) ∧ e.All PE PS
  | c, .ForInStatement f i s b =>
    PS c (.ForInStatement f i s b) ∧ i.All PE PS ∧ s.All PE PS ∧ b.All PE PS c.iteration
  | c, .ForStatement f i u t b =>
    PS c (.ForStatement f i u t b) ∧ i.All PE PS ∧ Expression.AllOption PE PS u ∧
      Expression.AllOption PE PS t ∧ b.All PE PS c.iteration
  | c, .IfStatement i t cs a =>
    PS c (.IfStatement i t cs a) ∧ t.All PE PS ∧ cs.All PE PS c ∧
      Statement.AllOption PE PS c a
  | c, .LabelledStatement l cl s =>
    PS c (.LabelledStatement l cl s) ∧ s.All PE PS (c.label l.Name)
  | c, .ReturnStatement r a => PS c (.ReturnStatement r a) ∧ Expression.AllOption PE PS a
  | c, .SwitchStatement s d df b =>
    PS c (.SwitchStatement s d df b) ∧ d.All PE PS ∧ CaseStatement.AllList PE PS c.switch b
  | c, .ThrowStatement t a => PS c (.ThrowStatement t a) ∧ a.All PE PS
  | c, .TryStatement t b ct f =>
    PS c (.TryStatement t b ct f) ∧ b.All PE PS c ∧ CatchStatement.AllOption PE PS c ct ∧
      Statement.AllOption PE PS c f
  | c, .VarStatement v l => PS c (.VarStatement v l) ∧ Expression.AllList PE PS l
  | c, .WhileStatement w t b =>
    PS c (.WhileStatement w t b) ∧ t.All PE PS ∧ b.All PE PS c.iteration
  | c, .WithStatement w o b =>
    PS c (.WithStatement w o b) ∧ o.All PE PS ∧ b.All PE PS c
/-- `Statement.All` for a statement that may be `nil`. -/
def Statement.AllOption (PE : Expression → Prop) (PS : Context → Statement → Prop) :
    Context → Option Statement → Prop
  | _, none => True
  | c, some s => s.All PE PS c
/-- `Statement.All` for the elements of a slice. -/
def Statement.AllList (PE : Expression → Prop) (PS : Context → Statement → Prop) :
    Context → List Statement → Prop
  | _, [] => True
  | c, s :: ss => s.All PE PS c ∧ Statement.AllList PE PS c ss
/-- `Statement.All` for the clauses of a switch. -/
def CaseStatement.AllList (PE : Expression → Prop) (PS : Context → Statement → Prop) :
    Context → List CaseStatement → Prop
  | _, [] => True
  | c, .mk _ t cs :: cls =>
    Expression.AllOption PE PS t ∧ Statement.AllList PE PS c cs ∧
      CaseStatement.AllList PE PS c cls
/-- `Statement.All` for the body of a catch clause that may be `nil`. -/
def CatchStatement.AllOption (PE : Expression → Prop) (PS : Context → Statement → Prop) :
    Context → Option CatchStatement → Prop
  | _, none => True
  | c, some (.mk _ _ b) => b.All PE PS c
end

/-- Every node of the program satisfies `PE` or `PS`: the statements of the body, which
stand in the empty context, and the functions declared in the program. -/
def Program.All (PE : Expression → Prop) (PS : Context → Statement → Prop)
    (self : Program) : Prop :=
  Statement.AllList PE PS {} self.Body ∧ Declaration.AllList PE PS self.FunctionList ∧
    Declaration.AllList PE PS self.VariableList

/-! ## What the parser builds -/

/-- The operators whose binary nodes get `Comparison: true`. -/
def Token.builtComparison (t : Token) : Bool :=
  t = .EQUAL ∨ t = .NOT_EQUAL ∨ t = .STRICT_EQUAL ∨ t = .STRICT_NOT_EQUAL ∨ t = .LESS ∨
    t = .LESS_OR_EQUAL ∨ t = .GREATER ∨ t = .GREATER_OR_EQUAL

/-- The statement is a `*BlockStatement`. -/
def Statement.isBlock : Statement → Bool
  | .BlockStatement _ _ _ => true
  | _ => false

/-- The clause is a `default:` clause (`Test == nil`). -/
def CaseStatement.isDefault (c : CaseStatement) : Bool := c.Test.isNone

/-- The variables `(Default, index)` of the loop of `parseSwitchStatement` after the
clauses `body`, from their values `start`. -/
def defaultAfter (start : Int × Int) (body : List CaseStatement) : Int × Int :=
  body.foldl (fun acc c => (if c.isDefault then acc.2 else acc.1, acc.2 + 1)) start

/-- The index of the last default clause of a switch body, `-1` if it has none. -/
def lastDefault (body : List CaseStatement) : Int := (defaultAfter (-1, 0) body).1

/-- The number of default clauses of a switch body. -/
def countDefaults (body : List CaseStatement) : Nat := (body.filter (·.isDefault)).length

/-- What holds of an expression node the parser builds: the target of an assignment and
the operand of `++` and `--` are references, `Comparison` is set exactly for the equality
operators and `<`, `<=`, `>`, `>=`, and the body of a function is a block. -/
def Expression.Built : Expression → Prop
  | .AssignExpression _ l _ => l.isReference = true
  | .UnaryExpression op _ o _ => (op = .INCREMENT ∨ op = .DECREMENT) → o.isReference = true
  | .BinaryExpression op _ _ c => c = op.builtComparison
  | .FunctionExpression _ b _ _ _ _ => b.isBlock = true
  | _ => True

/-- What holds of a statement node the parser builds in the context `c`; `clean` says
that the parse ends without a recorded error.  A `return` stands in a function body; an
unlabelled `break` in a loop or a switch, an unlabelled `continue` in a loop; the label of
a branch is open, and a labelled `continue` stands in a loop; a `try` has a catch or a
finally clause; `Default` is the index of the last default clause of a switch (`-1`
without one), and a clean parse leaves at most one default clause; the target of a
`for-in` is an identifier, a member expression or a variable declaration. -/
def Statement.Built (clean : Prop) : Context → Statement → Prop
  | c, .ReturnStatement _ _ => c.inFunction = true
  | c, .BranchStatement _ tok label =>
    (tok = .BREAK ∨ tok = .CONTINUE) ∧
    (∀ l, label = some l → l.Name ∈ c.labels) ∧
    (label = none → tok = .BREAK → c.inIteration = true ∨ c.inSwitch = true) ∧
    (tok = .CONTINUE → c.inIteration = true)
  | _, .TryStatement _ b ct f => (ct.isSome = true ∨ f.isSome = true) ∧ b.isBlock = true
  | _, .SwitchStatement _ _ df body =>
    df = lastDefault body ∧ (clean → countDefaults body ≤ 1)
  | _, .ForInStatement _ into _ _ => into.isForInTarget = true
  | _, _ => True

/-! ## Progress of the parser -/

/-- What is left of the scanner's results, the rescan offered at the current token
included. -/
def Parser.remaining (self : Parser) : Nat :=
  self.scanner.size +
    (match self.rescan with
      | some (_, reRest) => reRest.size
      | none => 0)

/-- The measure that goes down as the parser proceeds: it counts the results that are left,
the current token unless it is `EOF`, and a set `implicitSemicolon`. -/
def Parser.measure (self : Parser) : Nat :=
  4 * self.remaining + (if self.token = .EOF then 0 else 2) +
    (if self.implicitSemicolon then 1 else 0)

/-- The parser `q` is reached from `p` by scanning and by recording errors: the errors of
`p` are the first errors of `q`, the measure has not gone up, and the current token is
the same if the measure is; source and file name are the same. -/
structure Parser.Steps (p q : Parser) : Prop where
  errors : ∃ l, q.errors = p.errors ++ l
  measure : q.measure ≤ p.measure
  token : q.measure = p.measure → q.token = p.token
  source : q.source = p.source
  filename : q.filename = p.filename

/-- The scope `s'` is `s` with further declarations: same flags, same labels. -/
def Scope.Extends (s s' : Scope) : Prop :=
  s'.allowIn = s.allowIn ∧ s'.inIteration = s.inIteration ∧ s'.inSwitch = s.inSwitch ∧
    s'.inFunction = s.inFunction ∧ s'.labels = s.labels ∧
    (∃ l, s'.variableList = s.variableList ++ l) ∧
    (∃ l, s'.functionList = s.functionList ++ l)

/-- The scope stack `t` is the stack `s` with further declarations in its innermost
scope. -/
def Frame : List Scope → List Scope → Prop
  | [], [] => True
  | s :: outer, s' :: outer' => s.Extends s' ∧ outer' = outer
  | _, _ => False

/-- The context in which the parser parses a statement: the flags and labels of the
innermost scope. -/
def Parser.context (self : Parser) : Context :=
  { inFunction := self.currentScope.inFunction,
    inIteration := self.currentScope.inIteration,
    inSwitch := self.currentScope.inSwitch,
    labels := self.currentScope.labels }

/-- No label of an outer scope is visible: the innermost scope is a function scope or the
only scope. -/
def Sealed : List Scope → Prop
  | [] => True
  | s :: outer => s.inFunction = true ∨ outer = []

/-- Every result of the run `x`, if there is one, is related to `p` by `R`. -/
def Post {α : Type} (R : Parser → Parser → Prop) (p : Parser) (x : Option (α × Parser)) :
    Prop :=
  ∀ r, x = some r → R p r.2

/-- The parser `q` is reached from `p` by a run that leaves the scope stack as it was, up
to new declarations in the innermost scope; `strict` is a condition under which the
measure has gone down. -/
def Reaching (strict : Prop) (p q : Parser) : Prop :=
  p.Steps q ∧ Frame p.scope q.scope ∧ (strict → q.measure < p.measure)

/-- `Reaching` without a claim of progress. -/
abbrev Reaches (p q : Parser) : Prop := Reaching False p q

/-- `Reaching`, with progress unless `p` stands at `EOF`. -/
abbrev ReachesS (p q : Parser) : Prop := Reaching (p.token ≠ .EOF) p q

/-- `Reaching`, with progress unless `p` stands at `EOF` or at a token at which
`nextStatement` may stop. -/
abbrev ReachesE (p q : Parser) : Prop :=
  Reaching (p.token.isSync = false ∧ p.token ≠ .EOF) p q

/-- What the run of each parsing function with fuel `n` reaches. -/
structure ReachIH (n : Nat) : Prop where
  parsePrimaryExpression : ∀ p, Post ReachesE p (parsePrimaryExpression n p)
  parseVariableDeclaration : ∀ p, Post Reaches p (parseVariableDeclaration n p)
  parseVariableDeclarationList : ∀ l p, Post Reaches p (parseVariableDeclarationList n l p)
  parseObjectProperty : ∀ p, Post ReachesS p (parseObjectProperty n p)
  parseObjectLiteralLoop : ∀ v p, Post Reaches p (parseObjectLiteralLoop n v p)
  parseObjectLiteral : ∀ p, Post ReachesS p (parseObjectLiteral n p)
  parseArrayLiteralLoop : ∀ v p, Post Reaches p (parseArrayLiteralLoop n v p)
  parseArrayLiteral : ∀ p, Post ReachesS p (parseArrayLiteral n p)
  parseArgumentListLoop : ∀ a p, Post Reaches p (parseArgumentListLoop n a p)
  parseArgumentList : ∀ p, Post ReachesS p (parseArgumentList n p)
  parseCallExpression : ∀ l p, Post ReachesS p (parseCallExpression n l p)
  parseBracketMember : ∀ l p, Post ReachesS p (parseBracketMember n l p)
  parseNewExpression : ∀ p, Post ReachesS p (parseNewExpression n p)
  parseLeftHandSideExpressionLoop :
    ∀ l p, Post Reaches p (parseLeftHandSideExpressionLoop n l p)
  parseLeftHandSideExpression : ∀ p, Post ReachesE p (parseLeftHandSideExpression n p)
  parseLeftHandSideExpressionAllowCallLoop :
    ∀ l p, Post Reaches p (parseLeftHandSideExpressionAllowCallLoop n l p)
  parseLeftHandSideExpressionAllowCall :
    ∀ p, Post ReachesE p (parseLeftHandSideExpressionAllowCall n p)
  parsePostfixExpression : ∀ p, Post ReachesE p (parsePostfixExpression n p)
  parseUnaryExpression : ∀ p, Post ReachesE p (parseUnaryExpression n p)
  parseBinaryOperand : ∀ lv p, Post ReachesE p (parseBinaryOperand n lv p)
  parseBinaryLoop : ∀ lv l p, Post Reaches p (parseBinaryLoop n lv l p)
  parseBinaryExpression : ∀ lv p, Post ReachesE p (parseBinaryExpression n lv p)
  parseRelationalExpression : ∀ p, Post ReachesE p (parseRelationalExpression n p)
  parseConditionlExpression : ∀ p, Post ReachesE p (parseConditionlExpression n p)
  parseAssignmentExpression : ∀ p, Post ReachesE p (parseAssignmentExpression n p)
  parseExpressionLoop : ∀ s p, Post Reaches p (parseExpressionLoop n s p)
  parseExpression : ∀ p, Post ReachesE p (parseExpression n p)
  parseBlockStatement : ∀ p, Post ReachesS p (parseBlockStatement n p)
  parseStatementList : ∀ l p, Post Reaches p (parseStatementList n l p)
  parseStatement : ∀ p, Post ReachesS p (parseStatement n p)
  parseTryStatementFinally :
    ∀ t b c p, Post Reaches p (parseTryStatementFinally n t b c p)
  parseTryStatement : ∀ p, Post ReachesS p (parseTryStatement n p)
  parseFunction : ∀ d p, Post ReachesS p (parseFunction n d p)
  _parseFunction : ∀ nm d p, Post ReachesS p (_parseFunction n nm d p)
  parseReturnStatement : ∀ p, Post ReachesS p (parseReturnStatement n p)
  parseThrowStatement : ∀ p, Post ReachesS p (parseThrowStatement n p)
  parseSwitchStatementLoop :
    ∀ i d b p, Post Reaches p (parseSwitchStatementLoop n i d b p)
  parseSwitchStatement : ∀ p, Post ReachesS p (parseSwitchStatement n p)
  parseWithStatement : ∀ p, Post ReachesS p (parseWithStatement n p)
  parseCaseStatementLoop : ∀ c p, Post Reaches p (parseCaseStatementLoop n c p)
  parseCaseStatement : ∀ p, Post ReachesS p (parseCaseStatement n p)
  parseIterationStatement : ∀ p, Post ReachesS p (parseIterationStatement n p)
  parseForIn : ∀ i p, Post Reaches p (parseForIn n i p)
  parseFor : ∀ i p, Post Reaches p (parseFor n i p)
  parseForOrForInStatement : ∀ p, Post ReachesS p (parseForOrForInStatement n p)
  parseVariableStatement : ∀ p, Post ReachesS p (parseVariableStatement n p)
  parseDoWhileStatement : ∀ p, Post ReachesS p (parseDoWhileStatement n p)
  parseWhileStatement : ∀ p, Post ReachesS p (parseWhileStatement n p)
  parseIfStatement : ∀ p, Post ReachesS p (parseIfStatement n p)

/-! ## The invariant of the parser -/

/-- Every node of the expression is as the parser builds it. -/
def Expression.Ok (clean : Prop) (e : Expression) : Prop :=
  e.All Expression.Built (Statement.Built clean)

/-- Every node of the statement, which stands in the context `c`, is as the parser builds
it. -/
def Statement.Ok (clean : Prop) (c : Context) (s : Statement) : Prop :=
  s.All Expression.Built (Statement.Built clean) c

/-- Every function node the declarations point to is as the parser builds it. -/
def Declaration.OkList (clean : Prop) (l : List Declaration) : Prop :=
  Declaration.AllList Expression.Built (Statement.Built clean) l

/-- Every node of the program is as the parser builds it. -/
def Program.Ok (clean : Prop) (self : Program) : Prop :=
  self.All Expression.Built (Statement.Built clean)

/-- The state in which the parser parses a statement or an expression: it has a scope, no
label of an outer scope is visible from it, and the functions declared in it so far are
as the parser builds them. -/
structure Ready (clean : Prop) (p : Parser) : Prop where
  nonempty : p.scope ≠ []
  sealed : Sealed p.scope
  functions : Declaration.OkList clean p.currentScope.functionList
  declared : Declaration.OkList clean p.currentScope.variableList

/-- A clean parse has no error recorded at `p`. -/
def Clean (clean : Prop) (p : Parser) : Prop := clean → p.errors = []

/-- An expression the parser has built, of which `Idx0` is defined. -/
def Expression.Fine (clean : Prop) (e : Expression) : Prop :=
  e.Ok clean ∧ e.Idx0.isSome = true

/-- The switch variables `index` and `default` after the clauses `body`, and at most one
default clause among them in a clean parse. -/
def SwitchLoop (clean : Prop) (index default : Int) (body : List CaseStatement) : Prop :=
  index = body.length ∧ default = lastDefault body ∧ (clean → countDefaults body ≤ 1)

/-- Every result of the run `x` from a ready state `p`, in a parse that is clean if the
state it leaves has no error, satisfies `Q` and leaves a ready state. -/
def Builds {α : Type} (clean : Prop) (Q : α → Prop) (p : Parser) (x : Option (α × Parser)) :
    Prop :=
  ∀ r, x = some r → Ready clean p → Clean clean r.2 → Q r.1 ∧ Ready clean r.2

/-- What each parsing function builds with fuel `n`. -/
structure BuiltIH (clean : Prop) (n : Nat) : Prop where
  parsePrimaryExpression :
    ∀ p, Builds clean (Expression.Fine clean) p (parsePrimaryExpression n p)
  parseVariableDeclaration :
    ∀ p, Builds clean (fun x => x.2.Ok clean) p (parseVariableDeclaration n p)
  parseVariableDeclarationList : ∀ l p,
    Expression.AllList Expression.Built (Statement.Built clean) l →
    Builds clean (Expression.AllList Expression.Built (Statement.Built clean)) p
      (parseVariableDeclarationList n l p)
  parseObjectProperty : ∀ p,
    Builds clean (fun x => Property.AllList Expression.Built (Statement.Built clean) [x]) p
      (parseObjectProperty n p)
  parseObjectLiteralLoop : ∀ v p,
    Property.AllList Expression.Built (Statement.Built clean) v →
    Builds clean (Property.AllList Expression.Built (Statement.Built clean)) p
      (parseObjectLiteralLoop n v p)
  parseObjectLiteral : ∀ p, Builds clean (Expression.Fine clean) p (parseObjectLiteral n p)
  parseArrayLiteralLoop : ∀ v p,
    Expression.AllOptions Expression.Built (Statement.Built clean) v →
    Builds clean (Expression.AllOptions Expression.Built (Statement.Built clean)) p
      (parseArrayLiteralLoop n v p)
  parseArrayLiteral : ∀ p, Builds clean (Expression.Fine clean) p (parseArrayLiteral n p)
  parseArgumentListLoop : ∀ a p,
    Expression.AllList Expression.Built (Statement.Built clean) a →
    Builds clean (Expression.AllList Expression.Built (Statement.Built clean)) p
      (parseArgumentListLoop n a p)
  parseArgumentList : ∀ p,
    Builds clean (fun x => Expression.AllList Expression.Built (Statement.Built clean) x.1) p
      (parseArgumentList n p)
  parseCallExpression : ∀ l p, l.Fine clean →
    Builds clean (Expression.Fine clean) p (parseCallExpression n l p)
  parseBracketMember : ∀ l p, l.Fine clean →
    Builds clean (Expression.Fine clean) p (parseBracketMember n l p)
  parseNewExpression : ∀ p, Builds clean (Expression.Fine clean) p (parseNewExpression n p)
  parseLeftHandSideExpressionLoop : ∀ l p, l.Fine clean →
    Builds clean (Expression.Fine clean) p (parseLeftHandSideExpressionLoop n l p)
  parseLeftHandSideExpression :
    ∀ p, Builds clean (Expression.Fine clean) p (parseLeftHandSideExpression n p)
  parseLeftHandSideExpressionAllowCallLoop : ∀ l p, l.Fine clean →
    Builds clean (Expression.Fine clean) p (parseLeftHandSideExpressionAllowCallLoop n l p)
  parseLeftHandSideExpressionAllowCall :
    ∀ p, Builds clean (Expression.Fine clean) p (parseLeftHandSideExpressionAllowCall n p)
  parsePostfixExpression :
    ∀ p, Builds clean (Expression.Fine clean) p (parsePostfixExpression n p)
  parseUnaryExpression :
    ∀ p, Builds clean (Expression.Fine clean) p (parseUnaryExpression n p)
  parseBinaryOperand :
    ∀ lv p, Builds clean (Expression.Fine clean) p (parseBinaryOperand n lv p)
  parseBinaryLoop : ∀ lv l p, l.Fine clean →
    Builds clean (Expression.Fine clean) p (parseBinaryLoop n lv l p)
  parseBinaryExpression :
    ∀ lv p, Builds clean (Expression.Fine clean) p (parseBinaryExpression n lv p)
  parseRelationalExpression :
    ∀ p, Builds clean (Expression.Fine clean) p (parseRelationalExpression n p)
  parseConditionlExpression :
    ∀ p, Builds clean (Expression.Fine clean) p (parseConditionlExpression n p)
  parseAssignmentExpression :
    ∀ p, Builds clean (Expression.Fine clean) p (parseAssignmentExpression n p)
  parseExpressionLoop : ∀ s p,
    Builds clean
      (fun x => ∃ m, x = s ++ m ∧ Expression.AllList Expression.Built (Statement.Built clean) m)
      p (parseExpressionLoop n s p)
  parseExpression : ∀ p, Builds clean (Expression.Fine clean) p (parseExpression n p)
  parseBlockStatement : ∀ p,
    Builds clean (fun s => s.Ok clean p.context ∧ s.isBlock = true) p (parseBlockStatement n p)
  parseStatementList : ∀ l p,
    Statement.AllList Expression.Built (Statement.Built clean) p.context l →
    Builds clean (Statement.AllList Expression.Built (Statement.Built clean) p.context) p
      (parseStatementList n l p)
  parseStatement : ∀ p, Builds clean (Statement.Ok clean p.context) p (parseStatement n p)
  parseTryStatementFinally : ∀ t b c p, b.Ok clean p.context → b.isBlock = true →
    CatchStatement.AllOption Expression.Built (Statement.Built clean) p.context c →
    Builds clean (Statement.Ok clean p.context) p (parseTryStatementFinally n t b c p)
  parseTryStatement :
    ∀ p, Builds clean (Statement.Ok clean p.context) p (parseTryStatement n p)
  parseFunction : ∀ d p, Builds clean (Expression.Fine clean) p (parseFunction n d p)
  _parseFunction : ∀ nm d p,
    Builds clean
      (fun x => x.1.Ok clean .function ∧ x.1.isBlock = true ∧
        Declaration.OkList clean x.2.1 ∧ Declaration.OkList clean x.2.2)
      p (_parseFunction n nm d p)
  parseReturnStatement :
    ∀ p, Builds clean (Statement.Ok clean p.context) p (parseReturnStatement n p)
  parseThrowStatement :
    ∀ p, Builds clean (Statement.Ok clean p.context) p (parseThrowStatement n p)
  parseSwitchStatementLoop : ∀ i d b p,
    CaseStatement.AllList Expression.Built (Statement.Built clean) p.context b →
    SwitchLoop clean i d b →
    Builds clean
      (fun x =>
        CaseStatement.AllList Expression.Built (Statement.Built clean) p.context x.2 ∧
          x.1 = lastDefault x.2 ∧ (clean → countDefaults x.2 ≤ 1))
      p (parseSwitchStatementLoop n i d b p)
  parseSwitchStatement :
    ∀ p, Builds clean (Statement.Ok clean p.context) p (parseSwitchStatement n p)
  parseWithStatement :
    ∀ p, Builds clean (Statement.Ok clean p.context) p (parseWithStatement n p)
  parseCaseStatementLoop : ∀ c p,
    Statement.AllList Expression.Built (Statement.Built clean) p.context c →
    Builds clean (Statement.AllList Expression.Built (Statement.Built clean) p.context) p
      (parseCaseStatementLoop n c p)
  parseCaseStatement : ∀ p,
    Builds clean
      (fun x => CaseStatement.AllList Expression.Built (Statement.Built clean) p.context [x])
      p (parseCaseStatement n p)
  parseIterationStatement : ∀ p,
    Builds clean (Statement.Ok clean p.context.iteration) p (parseIterationStatement n p)
  parseForIn : ∀ i p, i.Ok clean → i.isForInTarget = true →
    Builds clean (Statement.Ok clean p.context) p (parseForIn n i p)
  parseFor : ∀ i p, i.Ok clean →
    Builds clean (Statement.Ok clean p.context) p (parseFor n i p)
  parseForOrForInStatement :
    ∀ p, Builds clean (Statement.Ok clean p.context) p (parseForOrForInStatement n p)
  parseVariableStatement :
    ∀ p, Builds clean (Statement.Ok clean p.context) p (parseVariableStatement n p)
  parseDoWhileStatement :
    ∀ p, Builds clean (Statement.Ok clean p.context) p (parseDoWhileStatement n p)
  parseWhileStatement :
    ∀ p, Builds clean (Statement.Ok clean p.context) p (parseWhileStatement n p)
  parseIfStatement :
    ∀ p, Builds clean (Statement.Ok clean p.context) p (parseIfStatement n p)

/-! ## No panic, and enough fuel -/

/-- Every result of the run `x` satisfies `Q`. -/
def Gives {α : Type} (Q : α → Prop) (x : Option (α × Parser)) : Prop :=
  ∀ r, x = some r → Q r.1

/-- `Idx0` does not panic on the expression. -/
def Expression.Defined (e : Expression) : Prop := e.Idx0.isSome = true

/-- `Idx0` does not panic on the expressions the parsing functions return with fuel `n`,
and the statements `parseBlockStatement` and `_parseFunction` return are blocks. -/
structure DefinedIH (n : Nat) : Prop where
  parsePrimaryExpression : ∀ p, Gives Expression.Defined (parsePrimaryExpression n p)
  parseObjectLiteral : ∀ p, Gives Expression.Defined (parseObjectLiteral n p)
  parseArrayLiteral : ∀ p, Gives Expression.Defined (parseArrayLiteral n p)
  parseCallExpression : ∀ l p, l.Defined → Gives Expression.Defined (parseCallExpression n l p)
  parseBracketMember : ∀ l p, l.Defined → Gives Expression.Defined (parseBracketMember n l p)
  parseNewExpression : ∀ p, Gives Expression.Defined (parseNewExpression n p)
  parseLeftHandSideExpressionLoop : ∀ l p, l.Defined →
    Gives Expression.Defined (parseLeftHandSideExpressionLoop n l p)
  parseLeftHandSideExpression :
    ∀ p, Gives Expression.Defined (parseLeftHandSideExpression n p)
  parseLeftHandSideExpressionAllowCallLoop : ∀ l p, l.Defined →
    Gives Expression.Defined (parseLeftHandSideExpressionAllowCallLoop n l p)
  parseLeftHandSideExpressionAllowCall :
    ∀ p, Gives Expression.Defined (parseLeftHandSideExpressionAllowCall n p)
  parsePostfixExpression : ∀ p, Gives Expression.Defined (parsePostfixExpression n p)
  parseUnaryExpression : ∀ p, Gives Expression.Defined (parseUnaryExpression n p)
  parseBinaryOperand : ∀ lv p, Gives Expression.Defined (parseBinaryOperand n lv p)
  parseBinaryLoop : ∀ lv l p, l.Defined → Gives Expression.Defined (parseBinaryLoop n lv l p)
  parseBinaryExpression : ∀ lv p, Gives Expression.Defined (parseBinaryExpression n lv p)
  parseRelationalExpression : ∀ p, Gives Expression.Defined (parseRelationalExpression n p)
  parseConditionlExpression : ∀ p, Gives Expression.Defined (parseConditionlExpression n p)
  parseAssignmentExpression : ∀ p, Gives Expression.Defined (parseAssignmentExpression n p)
  parseExpressionLoop : ∀ s p, Gives (fun x => ∃ m, x = s ++ m) (parseExpressionLoop n s p)
  parseExpression : ∀ p, Gives Expression.Defined (parseExpression n p)
  parseFunction : ∀ d p, Gives Expression.Defined (parseFunction n d p)
  parseBlockStatement : ∀ p, Gives (fun s => s.isBlock = true) (parseBlockStatement n p)
  _parseFunction : ∀ nm d p, Gives (fun x => x.1.isBlock = true) (_parseFunction n nm d p)

/-- The size of a step of the measure in the fuel. -/
def fuelStep : Nat := 128

/-- Fuel that is enough for a parsing function at `self`: `rank` places the function among
those that call each other at the same token, `rankEOF` among those that call each other
at the end of the source. -/
def Parser.budget (rank rankEOF : Nat) (self : Parser) : Nat :=
  fuelStep * self.measure + (if self.token = .EOF then rankEOF else rank)

/-- The place of a binary level, from the tightest. -/
def BinaryLevel.index : BinaryLevel → Nat
  | .Multiplicative => 0
  | .Additive => 1
  | .Shift => 2
  | .Equality => 3
  | .BitwiseAnd => 4
  | .BitwiseExclusiveOr => 5
  | .BitwiseOr => 6
  | .LogicalAnd => 7
  | .LogicalOr => 8

/-- The run `x` returns. -/
def Returns {α : Type} (x : Option (α × Parser)) : Prop := ∃ r, x = some r

/-- With fuel `n`, each parsing function returns at every parser its budget is below. -/
structure TotalIH (n : Nat) : Prop where
  parsePrimaryExpression : ∀ p, p.budget 1 0 < n → Returns (parsePrimaryExpression n p)
  parseVariableDeclaration :
    ∀ p, p.budget 0 0 < n → Returns (parseVariableDeclaration n p)
  parseVariableDeclarationList :
    ∀ l p, p.budget 1 1 < n → Returns (parseVariableDeclarationList n l p)
  parseObjectProperty : ∀ p, p.budget 0 44 < n → Returns (parseObjectProperty n p)
  parseObjectLiteralLoop : ∀ v p, p.budget 1 0 < n → Returns (parseObjectLiteralLoop n v p)
  parseObjectLiteral : ∀ p, p.budget 0 1 < n → Returns (parseObjectLiteral n p)
  parseArrayLiteralLoop : ∀ v p, p.budget 44 0 < n → Returns (parseArrayLiteralLoop n v p)
  parseArrayLiteral : ∀ p, p.budget 0 1 < n → Returns (parseArrayLiteral n p)
  parseArgumentListLoop : ∀ a p, p.budget 44 44 < n → Returns (parseArgumentListLoop n a p)
  parseArgumentList : ∀ p, p.budget 0 45 < n → Returns (parseArgumentList n p)
  parseCallExpression : ∀ l p, p.budget 1 46 < n → Returns (parseCallExpression n l p)
  parseBracketMember : ∀ l p, p.budget 0 45 < n → Returns (parseBracketMember n l p)
  parseNewExpression : ∀ p, p.budget 1 3 < n → Returns (parseNewExpression n p)
  parseLeftHandSideExpressionLoop :
    ∀ l p, p.budget 1 0 < n → Returns (parseLeftHandSideExpressionLoop n l p)
  parseLeftHandSideExpression :
    ∀ p, p.budget 2 2 < n → Returns (parseLeftHandSideExpression n p)
  parseLeftHandSideExpressionAllowCallLoop :
    ∀ l p, p.budget 2 0 < n → Returns (parseLeftHandSideExpressionAllowCallLoop n l p)
  parseLeftHandSideExpressionAllowCall :
    ∀ p, p.budget 3 3 < n → Returns (parseLeftHandSideExpressionAllowCall n p)
  parsePostfixExpression : ∀ p, p.budget 4 4 < n → Returns (parsePostfixExpression n p)
  parseUnaryExpression : ∀ p, p.budget 5 5 < n → Returns (parseUnaryExpression n p)
  parseBinaryOperand : ∀ lv p, p.budget (4 * lv.index + 8) (4 * lv.index + 8) < n →
    Returns (parseBinaryOperand n lv p)
  parseBinaryLoop : ∀ lv l p, p.budget (4 * lv.index + 8) (4 * lv.index + 8) < n →
    Returns (parseBinaryLoop n lv l p)
  parseBinaryExpression : ∀ lv p, p.budget (4 * lv.index + 9) (4 * lv.index + 9) < n →
    Returns (parseBinaryExpression n lv p)
  parseRelationalExpression :
    ∀ p, p.budget 18 18 < n → Returns (parseRelationalExpression n p)
  parseConditionlExpression :
    ∀ p, p.budget 42 42 < n → Returns (parseConditionlExpression n p)
  parseAssignmentExpression :
    ∀ p, p.budget 43 43 < n → Returns (parseAssignmentExpression n p)
  parseExpressionLoop : ∀ s p, p.budget 0 0 < n → Returns (parseExpressionLoop n s p)
  parseExpression : ∀ p, p.budget 44 44 < n → Returns (parseExpression n p)
  parseBlockStatement : ∀ p, p.budget 0 1 < n → Returns (parseBlockStatement n p)
  parseStatementList : ∀ l p, p.budget 46 0 < n → Returns (parseStatementList n l p)
  parseStatement : ∀ p, p.budget 45 0 < n → Returns (parseStatement n p)
  parseTryStatementFinally : ∀ t b c p, b.isBlock = true → p.budget 0 0 < n →
    Returns (parseTryStatementFinally n t b c p)
  parseTryStatement : ∀ p, p.budget 0 2 < n → Returns (parseTryStatement n p)
  parseFunction : ∀ d p, p.budget 0 3 < n → Returns (parseFunction n d p)
  _parseFunction : ∀ nm d p, p.budget 1 2 < n → Returns (_parseFunction n nm d p)
  parseReturnStatement : ∀ p, p.budget 0 45 < n → Returns (parseReturnStatement n p)
  parseThrowStatement : ∀ p, p.budget 0 45 < n → Returns (parseThrowStatement n p)
  parseSwitchStatementLoop :
    ∀ i d b p, p.budget 1 0 < n → Returns (parseSwitchStatementLoop n i d b p)
  parseSwitchStatement : ∀ p, p.budget 0 45 < n → Returns (parseSwitchStatement n p)
  parseWithStatement : ∀ p, p.budget 0 45 < n → Returns (parseWithStatement n p)
  parseCaseStatementLoop : ∀ c p, p.budget 46 0 < n → Returns (parseCaseStatementLoop n c p)
  parseCaseStatement : ∀ p, p.budget 0 45 < n → Returns (parseCaseStatement n p)
  parseIterationStatement : ∀ p, p.budget 46 1 < n → Returns (parseIterationStatement n p)
  parseForIn : ∀ i p, p.budget 45 45 < n → Returns (parseForIn n i p)
  parseFor : ∀ i p, p.budget 45 45 < n → Returns (parseFor n i p)
  parseForOrForInStatement :
    ∀ p, p.budget 0 46 < n → Returns (parseForOrForInStatement n p)
  parseVariableStatement : ∀ p, p.budget 0 2 < n → Returns (parseVariableStatement n p)
  parseDoWhileStatement : ∀ p, p.budget 0 45 < n → Returns (parseDoWhileStatement n p)
  parseWhileStatement : ∀ p, p.budget 0 45 < n → Returns (parseWhileStatement n p)
  parseIfStatement : ∀ p, p.budget 0 45 < n → Returns (parseIfStatement n p)

/-! ## Binary operator levels -/

/-- The place of a binary operator in the order of the levels, the loosest first:
`1` for logical-or, then logical-and, bitwise-or, bitwise-xor, bitwise-and, equality,
relational, shift, additive, and `10` for the multiplicative operators; `0` for a token
that is no binary operator. -/
def Token.precedence : Token → Nat
  | .LOGICAL_OR => 1
  | .LOGICAL_AND => 2
  | .OR => 3
  | .EXCLUSIVE_OR => 4
  | .AND => 5
  | .EQUAL | .NOT_EQUAL | .STRICT_EQUAL | .STRICT_NOT_EQUAL => 6
  | .LESS | .LESS_OR_EQUAL | .GREATER | .GREATER_OR_EQUAL | .INSTANCEOF | .IN => 7
  | .SHIFT_LEFT | .SHIFT_RIGHT | .UNSIGNED_SHIFT_RIGHT => 8
  | .PLUS | .MINUS => 9
  | .MULTIPLY | .SLASH | .REMAINDER => 10
  | _ => 0

/-- The depth of the function that takes the token as its operator, counted from
`parseUnaryExpression` (depth `0`): `1` for `parseMultiplicativeExpression`, and so on up
to `10` for `parseLogicalOrExpression`; `11` for a token that is no binary operator. -/
def Token.level (t : Token) : Nat := 11 - t.precedence

/-- The depth of the function of a binary level, counted from `parseUnaryExpression`. -/
def BinaryLevel.rank : BinaryLevel → Nat
  | .Multiplicative => 1
  | .Additive => 2
  | .Shift => 3
  | .Equality => 5
  | .BitwiseAnd => 6
  | .BitwiseExclusiveOr => 7
  | .BitwiseOr => 8
  | .LogicalAnd => 9
  | .LogicalOr => 10

/-- The chain of functions from `parseUnaryExpression` (depth `0`) up to
`parseLogicalOrExpression` (depth `10`), each of which calls the one before it for its
operands. -/
def parseLevel : Nat → Nat → Parser → Option (Expression × Parser)
  | 0, n, p => parseUnaryExpression n p
  | 1, n, p => parseBinaryExpression n .Multiplicative p
  | 2, n, p => parseBinaryExpression n .Additive p
  | 3, n, p => parseBinaryExpression n .Shift p
  | 4, n, p => parseRelationalExpression n p
  | 5, n, p => parseBinaryExpression n .Equality p
  | 6, n, p => parseBinaryExpression n .BitwiseAnd p
  | 7, n, p => parseBinaryExpression n .BitwiseExclusiveOr p
  | 8, n, p => parseBinaryExpression n .BitwiseOr p
  | 9, n, p => parseBinaryExpression n .LogicalAnd p
  | 10, n, p => parseBinaryExpression n .LogicalOr p
  | _, _, _ => none

/-- With fuel `N` or more, the function of depth `k` run at `p` returns `e` and leaves the
parser at `q`. -/
def Parses (N k : Nat) (p : Parser) (e : Expression) (q : Parser) : Prop :=
  ∀ n, N ≤ n → parseLevel k n p = some (e, q)

/-- The scanner's results for `x op1 y op2 z`: three identifiers and two operators, at
the places `i1`, ..., `i5` of a source of `length` bytes; `s1` and `s2` are the literals
of the operators (`""` for a punctuator, the word for `in` and `instanceof`). -/
def binaryTokens (x : String) (op1 : Token) (s1 : String) (y : String) (op2 : Token)
    (s2 : String) (z : String) (i1 i2 i3 i4 i5 length : Nat) : Scanner :=
  .ofList [scanned .IDENTIFIER x i1, scanned op1 s1 i2, scanned .IDENTIFIER y i3,
    scanned op2 s2 i4, scanned .IDENTIFIER z i5, scannedEOF length]

/-- The node `Binary(op, left, right)` as the parser builds it. -/
def binaryNode (op : Token) (left right : Expression) : Expression :=
  .BinaryExpression op left right op.builtComparison

/-! ## Properties of single nodes -/

/-- The target of the node is a reference: the `Left` of an assignment, and the `Operand`
of a `++` or `--`, is an `Identifier`, a `DotExpression` or a `BracketExpression`. -/
def Expression.targetIsReference : Expression → Prop
  | .AssignExpression _ l _ => l.isReference = true
  | .UnaryExpression op _ o _ => (op = .INCREMENT ∨ op = .DECREMENT) → o.isReference = true
  | _ => True

/-- The steps `self.error(idx, "Invalid left-hand side in assignment")` and
`self.nextStatement()` with which an assignment, a `++` or a `--` is rejected. -/
def Parser.invalidLeftHandSide (self : Parser) (idx : Idx) : Parser :=
  (self.error idx "Invalid left-hand side in assignment").nextStatement

/-- A `return` stands in a function body. -/
def Statement.returnInFunction : Context → Statement → Prop
  | c, .ReturnStatement _ _ => c.inFunction = true
  | _, _ => True

/-- The source `function f() { return; } return`. -/
def returnAfterFunctionSource : List Nat := asciiBytes "function f() \x7b return; \x7d return"

/-- The scanner's results on `function f() { return; } return`. -/
def returnAfterFunctionTokens : Scanner :=
  .ofList [scanned .FUNCTION "function" 1, scanned .IDENTIFIER "f" 10,
    scanned .LEFT_PARENTHESIS "" 11, scanned .RIGHT_PARENTHESIS "" 12,
    scanned .LEFT_BRACE "" 14, scanned .RETURN "return" 16, scanned .SEMICOLON "" 22,
    scanned .RIGHT_BRACE "" 24, scanned .RETURN "return" 26, scannedEOF 31]

/-- A `try` has a catch clause or a finally clause. -/
def Statement.tryHasHandler : Context → Statement → Prop
  | _, .TryStatement _ _ catchClause finallyBody =>
    catchClause.isSome = true ∨ finallyBody.isSome = true
  | _, _ => True

/-- The source `try { }`. -/
def tryAloneSource : List Nat := asciiBytes "try \x7b \x7d"

/-- The scanner's results on `try { }`. -/
def tryAloneTokens : Scanner :=
  .ofList [scanned .TRY "try" 1, scanned .LEFT_BRACE "" 5, scanned .RIGHT_BRACE "" 7,
    scannedEOF 7]

/-- A switch has at most one default clause (a clause whose `Test` is `nil`), and its
`Default` is the index of that clause in `Body`, or `-1` if `Body` has no default
clause. -/
def Statement.oneDefault : Context → Statement → Prop
  | _, .SwitchStatement _ _ df body =>
    countDefaults body ≤ 1 ∧
    (∀ (i : Nat) (c : CaseStatement), body[i]? = some c → c.Test = none → df = i) ∧
    ((∀ c ∈ body, c.Test ≠ none) → df = -1)
  | _, _ => True

/-- The source `switch (a) { default: default: }`. -/
def twoDefaultsSource : List Nat := asciiBytes "switch (a) \x7b default: default: \x7d"

/-- The scanner's results on `switch (a) { default: default: }`. -/
def twoDefaultsTokens : Scanner :=
  .ofList [scanned .SWITCH "switch" 1, scanned .LEFT_PARENTHESIS "" 8,
    scanned .IDENTIFIER "a" 9, scanned .RIGHT_PARENTHESIS "" 10,
    scanned .LEFT_BRACE "" 12, scanned .DEFAULT "default" 14, scanned .COLON "" 21,
    scanned .DEFAULT "default" 23, scanned .COLON "" 30, scanned .RIGHT_BRACE "" 32,
    scannedEOF 32]

/-- The source `switch (a) { case b: default: }`. -/
def oneDefaultSource : List Nat := asciiBytes "switch (a) \x7b case b: default: \x7d"

/-- The scanner's results on `switch (a) { case b: default: }`. -/
def oneDefaultTokens : Scanner :=
  .ofList [scanned .SWITCH "switch" 1, scanned .LEFT_PARENTHESIS "" 8,
    scanned .IDENTIFIER "a" 9, scanned .RIGHT_PARENTHESIS "" 10,
    scanned .LEFT_BRACE "" 12, scanned .CASE "case" 14, scanned .IDENTIFIER "b" 19,
    scanned .COLON "" 20, scanned .DEFAULT "default" 22, scanned .COLON "" 29,
    scanned .RIGHT_BRACE "" 31, scannedEOF 31]

/-- The source `x = function g() { }`. -/
def functionExpressionSource : List Nat := asciiBytes "x = function g() \x7b \x7d"

/-- The scanner's results on `x = function g() { }`. -/
def functionExpressionTokens : Scanner :=
  .ofList [scanned .IDENTIFIER "x" 1, scanned .ASSIGN "" 3, scanned .FUNCTION "function" 5,
    scanned .IDENTIFIER "g" 14, scanned .LEFT_PARENTHESIS "" 15,
    scanned .RIGHT_PARENTHESIS "" 16, scanned .LEFT_BRACE "" 18,
    scanned .RIGHT_BRACE "" 20, scannedEOF 20]

/-- The source `function f() { }`. -/
def functionDeclarationSource : List Nat := asciiBytes "function f() \x7b \x7d"

/-- The scanner's results on `function f() { }`. -/
def functionDeclarationTokens : Scanner :=
  .ofList [scanned .FUNCTION "function" 1, scanned .IDENTIFIER "f" 10,
    scanned .LEFT_PARENTHESIS "" 11, scanned .RIGHT_PARENTHESIS "" 12,
    scanned .LEFT_BRACE "" 14, scanned .RIGHT_BRACE "" 16, scannedEOF 16]

/-- The source `a   ++`: three blanks between the operand and the operator. -/
def postfixAfterBlanksSource : List Nat := asciiBytes "a   ++"

/-- The scanner's results on `a   ++`. -/
def postfixAfterBlanksTokens : Scanner :=
  .ofList [scanned .IDENTIFIER "a" 1, scanned .INCREMENT "" 5, scannedEOF 6]

/-- The source `x = new a`. -/
def newWithoutArgumentsSource : List Nat := asciiBytes "x = new a"

/-- The scanner's results on `x = new a`. -/
def newWithoutArgumentsTokens : Scanner :=
  .ofList [scanned .IDENTIFIER "x" 1, scanned .ASSIGN "" 3, scanned .NEW "new" 5,
    scanned .IDENTIFIER "a" 9, scannedEOF 9]

/-- The source `a ? b : c`. -/
def conditionalSource : List Nat := asciiBytes "a ? b : c"

/-- The scanner's results on `a ? b : c`. -/
def conditionalTokens : Scanner :=
  .ofList [scanned .IDENTIFIER "a" 1, scanned .QUESTION_MARK "" 3, scanned .IDENTIFIER "b" 5,
    scanned .COLON "" 7, scanned .IDENTIFIER "c" 9, scannedEOF 9]

/-- The source `while (a) { break`, a line feed, and `; }`. -/
def breakNewlineSource : List Nat := asciiBytes "while (a) \x7b break\n; \x7d"

/-- The scanner's results on `while (a) { break`, a line feed, and `; }`: the `;` is
flagged with `implicitSemicolon`. -/
def breakNewlineTokens : Scanner :=
  .ofList [scanned .WHILE "while" 1, scanned .LEFT_PARENTHESIS "" 7,
    scanned .IDENTIFIER "a" 8, scanned .RIGHT_PARENTHESIS "" 9, scanned .LEFT_BRACE "" 11,
    scanned .BREAK "break" 13, { scanned .SEMICOLON "" 19 with implicitSemicolon := true },
    scanned .RIGHT_BRACE "" 21, scannedEOF 21]

/-- The parser at `break` in that source: in the body of a loop, with a line terminator and
then `; }` behind the keyword. -/
def breakNewlineParser : Parser :=
  { token := .BREAK, literal := "break", idx := 13,
    scanner := .ofList [{ scanned .SEMICOLON "" 19 with implicitSemicolon := true },
      scanned .RIGHT_BRACE "" 21, scannedEOF 21],
    scope := [{ allowIn := true, inIteration := true }] }

/-- A parser that stands at `return` in a function body, with a line terminator and then
`a }` behind the keyword: `a` is flagged with `implicitSemicolon`. -/
def returnNewlineParser : Parser :=
  { token := .RETURN, literal := "return", idx := 16,
    scanner := .ofList [{ scanned .IDENTIFIER "a" 23 with implicitSemicolon := true },
      scanned .RIGHT_BRACE "" 25, scannedEOF 25],
    scope := [{ allowIn := true, inFunction := true }, { allowIn := true }] }

/-- The source `throw`, a line feed, and `a;`. -/
def throwNewlineSource : List Nat := asciiBytes "throw\na;"

/-- The scanner's results on `throw`, a line feed, and `a;`: the identifier is flagged with
`implicitSemicolon`. -/
def throwNewlineTokens : Scanner :=
  .ofList [scanned .THROW "throw" 1,
    { scanned .IDENTIFIER "a" 7 with implicitSemicolon := true, chr := 59 },
    scanned .SEMICOLON "" 8, scannedEOF 8]

/-- The source `throw`. -/
def throwAloneSource : List Nat := asciiBytes "throw"

/-- The scanner's results on `throw`. -/
def throwAloneTokens : Scanner := .ofList [scanned .THROW "throw" 1, scannedEOF 5]

/-- The source `throw`, a line feed, and `a`, which ends behind the identifier. -/
def throwIdentifierSource : List Nat := asciiBytes "throw\na"

/-- The scanner's results on `throw`, a line feed, and `a`: the identifier is flagged with
`implicitSemicolon`, and behind it the scanner stands at the end of the source
(`chr = -1`). -/
def throwIdentifierTokens : Scanner :=
  .ofList [scanned .THROW "throw" 1,
    { scanned .IDENTIFIER "a" 7 with implicitSemicolon := true, chr := -1 }, scannedEOF 7]

/-- The source `for (var a, b in c) ;`. -/
def forVarListInSource : List Nat := asciiBytes "for (var a, b in c) ;"

/-- The scanner's results on `for (var a, b in c) ;`. -/
def forVarListInTokens : Scanner :=
  .ofList [scanned .FOR "for" 1, scanned .LEFT_PARENTHESIS "" 5, scanned .VAR "var" 6,
    scanned .IDENTIFIER "a" 10, scanned .COMMA "" 11, scanned .IDENTIFIER "b" 13,
    scanned .IN "in" 15, scanned .IDENTIFIER "c" 18, scanned .RIGHT_PARENTHESIS "" 19,
    scanned .SEMICOLON "" 21, scannedEOF 21]

/-- The source `for (a + b in c) ;`. -/
def forSumInSource : List Nat := asciiBytes "for (a + b in c) ;"

/-- The scanner's results on `for (a + b in c) ;`. -/
def forSumInTokens : Scanner :=
  .ofList [scanned .FOR "for" 1, scanned .LEFT_PARENTHESIS "" 5, scanned .IDENTIFIER "a" 6,
    scanned .PLUS "" 8, scanned .IDENTIFIER "b" 10, scanned .IN "in" 12,
    scanned .IDENTIFIER "c" 15, scanned .RIGHT_PARENTHESIS "" 16, scanned .SEMICOLON "" 18,
    scannedEOF 18]

/-- The source `for (var a in c) ;`. -/
def forVarInSource : List Nat := asciiBytes "for (var a in c) ;"

/-- The scanner's results on `for (var a in c) ;`. -/
def forVarInTokens : Scanner :=
  .ofList [scanned .FOR "for" 1, scanned .LEFT_PARENTHESIS "" 5, scanned .VAR "var" 6,
    scanned .IDENTIFIER "a" 10, scanned .IN "in" 12, scanned .IDENTIFIER "c" 15,
    scanned .RIGHT_PARENTHESIS "" 16, scanned .SEMICOLON "" 18, scannedEOF 18]

/-- The parser behind `for (`: `self.expect(token.FOR)` and
`self.expect(token.LEFT_PARENTHESIS)`. -/
def Parser.forHead (self : Parser) : Parser :=
  ((self.expect .FOR).2.expect .LEFT_PARENTHESIS).2

/-- The parser behind the init clause of a `for`: `self.scope.allowIn = allowIn`, with the
value `allowIn` had behind `for (`. -/
def Parser.forInit (self head : Parser) : Parser :=
  self.modifyScope fun s => { s with allowIn := head.currentScope.allowIn }

/-- The steps with which `parseForOrForInStatement` rejects the target of a `for-in`. -/
def Parser.invalidForIn (self : Parser) (idx : Idx) : Statement × Parser :=
  let self := self.error idx "Invalid left-hand side in for-in"
  let self := self.nextStatement
  (.BadStatement idx self.idx, self)

/-- The target of a `for-in` is an `Identifier`, a `DotExpression`, a `BracketExpression` or
a `VariableExpression`. -/
def Statement.forInTarget : Context → Statement → Prop
  | _, .ForInStatement _ into _ _ => into.isForInTarget = true
  | _, _ => True

/-- The `Comparison` of a `BinaryExpression` is set exactly if its operator is one of
`==`, `!=`, `===`, `!==`, `<`, `<=`, `>`, `>=`. -/
def Expression.comparisonBuilt : Expression → Prop
  | .BinaryExpression op _ _ c => c = op.builtComparison
  | _ => True

/-- The scanner's results for `a op b`: the operator, with the literal `s`, stands at `3`
and `b`, the last byte of the source, at `i`. -/
def operatorTokens (op : Token) (s : String) (i : Nat) : Scanner :=
  .ofList [scanned .IDENTIFIER "a" 1, scanned op s 3, scanned .IDENTIFIER "b" i,
    scannedEOF i]

/-! ## Formatting an error (`parser/error.go`) -/

/-- An argument of `fmt.Sprintf`: a string or an integer. -/
inductive FormatArgument
  | string (s : String)
  | int (v : Int)

/-- The verb `%d` of `fmt.Sprintf` on an `int`: the decimal digits, behind `-` for a
negative number. -/
def decimal (v : Int) : String :=
  (if v < 0 then "-" else "") ++ String.mk (Nat.toDigits 10 v.natAbs)

/-- `fmt.Sprintf` of the Go library on the characters of a format with the verbs `%s` and
`%d`: a verb is replaced by the next argument, a string as it is and an integer in
decimal; every other character stands for itself. -/
def sprintfChars : List Char → List FormatArgument → List Char
  | [], _ => []
  | '%' :: 's' :: rest, .string s :: arguments => s.data ++ sprintfChars rest arguments
  | '%' :: 'd' :: rest, .int v :: arguments => (decimal v).data ++ sprintfChars rest arguments
  | c :: rest, arguments => c :: sprintfChars rest arguments

/-- `fmt.Sprintf`. -/
def sprintf (format : String) (arguments : List FormatArgument) : String :=
  String.mk (sprintfChars format.data arguments)

/-- `Error.Error`. -/
def Error.Error (self : Error) : String :=
  let name := if self.Name = "" then "(anonymous)" else self.Name
  sprintf "%s: Line %d:%d %s"
    [.string name, .int self.Line, .int self.Column, .string self.Message]

/-- The source `break`, alone in a program. -/
def breakAloneSource : List Nat := asciiBytes "break"

/-- The scanner's results on `break`. -/
def breakAloneTokens : Scanner := .ofList [scanned .BREAK "break" 1, scannedEOF 5]

/-- The line terminators of a source, each as the pair of the offsets where it starts and
where it ends: CR LF (one terminator of two bytes), CR, LF, U+2028 and U+2029 (three bytes
each).  `index` is the offset of the first byte of the list. -/
def lineTerminatorsFrom : List Nat → Nat → List (Nat × Nat)
  | [], _ => []
  | 0x0D :: 0x0A :: rest, index =>
    (index, index + 2) :: lineTerminatorsFrom rest (index + 2)
  | 0x0D :: rest, index => (index, index + 1) :: lineTerminatorsFrom rest (index + 1)
  | 0x0A :: rest, index => (index, index + 1) :: lineTerminatorsFrom rest (index + 1)
  | 0xE2 :: 0x80 :: 0xA8 :: rest, index =>
    (index, index + 3) :: lineTerminatorsFrom rest (index + 3)
  | 0xE2 :: 0x80 :: 0xA9 :: rest, index =>
    (index, index + 3) :: lineTerminatorsFrom rest (index + 3)
  | _ :: rest, index => lineTerminatorsFrom rest (index + 1)

/-- The line terminators of a source. -/
def lineTerminators (source : List Nat) : List (Nat × Nat) := lineTerminatorsFrom source 0

/-- The offset `o` falls inside a line terminator of the source: behind its first byte and
before its end. -/
def insideTerminator (source : List Nat) (o : Nat) : Bool :=
  (lineTerminators source).any fun t => t.1 < o && o < t.2

/-- The line terminators in `source[0:o]`: those of the source that end at `o` or
before. -/
def terminatorsBefore (source : List Nat) (o : Nat) : List (Nat × Nat) :=
  (lineTerminators source).filter fun t => t.2 ≤ o

/-- The end of the last line terminator in `source[0:o]`, or the start of the source when
there is none. -/
def lineStart (source : List Nat) (o : Nat) : Nat :=
  match (terminatorsBefore source o).getLast? with
  | some t => t.2
  | none => 0

/-- The offset before which the bytes of the current line are counted, after the line
terminators `l`: the last byte of the last of them, or `last` when there is none. -/
def lastByte (l : List (Nat × Nat)) (last : Int) : Int :=
  l.foldl (fun _ t => (t.2 : Int) - 1) last

/-- The bytes `a`, U+2028, CR, LF, `b`, LF, U+2029, `c`. -/
def linesSource : List Nat :=
  [0x61, 0xE2, 0x80, 0xA8, 0x0D, 0x0A, 0x62, 0x0A, 0xE2, 0x80, 0xA9, 0x63]

/-- The source `var a =`. -/
def varWithoutValueSource : List Nat := asciiBytes "var a ="

/-- The scanner's results on `var a =`: no semicolon may be inserted behind `=`, so
`implicitSemicolon` is not set at the end of the source. -/
def varWithoutValueTokens : Scanner :=
  .ofList [scanned .VAR "var" 1, scanned .IDENTIFIER "a" 5, scanned .ASSIGN "" 7,
    { scannedEOF 7 with implicitSemicolon := false }]

/-- A parser at the end of a source, without `implicitSemicolon`. -/
def endOfInputParser : Parser := { token := .EOF, idx := 8, chr := -1 }

/-- A parser at a `;` that begins a line: `implicitSemicolon` is set. -/
def semicolonNewlineParser : Parser :=
  { token := .SEMICOLON, idx := 3, implicitSemicolon := true, scanner := .ofList [scannedEOF 3] }

/-! ## The evaluator (`evaluate.go`, `evaluate_statement.go`)

The source files of the evaluator are `evaluate.go` and `evaluate_statement.go`.  The
values, the environments and the helper functions they call are in files that are not
among the source files: the values and environments are modelled from the spec, and the
helper functions are the fields of a `Host`, over which every statement about the
evaluator is quantified.  A run of the evaluator returns `none` when it does not end
within the fuel, and otherwise the runtime it leaves with a value or with the Go panic
that left it. -/

/-- Modelled from the spec: the kind of a result sentinel (`_resultKind`, not in the source
files): "a `result` sentinel (break/continue/return with optional label)". -/
inductive ResultKind
  | resultReturn
  | resultBreak
  | resultContinue
  deriving DecidableEq, Repr

/-- Modelled from the spec: the base of a `Reference` (not in the source files), "an
unresolved (base, name) pair": an environment, an object, or nothing for an unresolvable
identifier. -/
inductive ReferenceBase
  | unresolvable
  | environment (address : Nat)
  | object (address : Nat)
  deriving DecidableEq, Repr

/-- Modelled from the spec: `Value` (not in the source files): "an ordinary value, `empty`
(no completion), or a `result` sentinel (break/continue/return with optional label)";
an expression may return a `Reference`.  `Value{}` is `empty`; an object is the address
of the object. -/
inductive Value
  | empty
  | undefined
  | null
  | boolean (value : Bool)
  | number (value : NumberValue)
  | string (value : String)
  | object (address : Nat)
  | reference (base : ReferenceBase) (name : String)
  | result (kind : ResultKind) (value : Value) (target : String)
  deriving DecidableEq, Repr

/-- Modelled from the spec: `Value.isResult` (not in the source files): the value is a
result sentinel. -/
def Value.isResult : Value → Bool
  | .result _ _ _ => true
  | _ => false

/-- Modelled from the spec: `Value.isEmpty` (not in the source files). -/
def Value.isEmpty : Value → Bool
  | .empty => true
  | _ => false

/-- Modelled from the spec: `newReturnResult` (not in the source files). -/
def newReturnResult (value : Value) : Value := .result .resultReturn value ""

/-- Modelled from the spec: `newBreakResult` (not in the source files). -/
def newBreakResult (target : String) : Value := .result .resultBreak .empty target

/-- Modelled from the spec: `newContinueResult` (not in the source files). -/
def newContinueResult (target : String) : Value := .result .resultContinue .empty target

/-- Modelled from the spec: `Value.evaluateBreakContinue` (not in the source files): "on a
`result` of kind `break`/`continue`, the enclosing statement checks whether the label
matches its label set: if yes, consume (turn into empty); if no, re-propagate upward".
The answer is the kind of the sentinel if it is a break or continue with its target in
`labels`, and `resultReturn` (hand the value on to the caller) otherwise. -/
def Value.evaluateBreakContinue (self : Value) (labels : List String) : ResultKind :=
  match self with
  | .result .resultBreak _ target => if target ∈ labels then .resultBreak else .resultReturn
  | .result .resultContinue _ target =>
    if target ∈ labels then .resultContinue else .resultReturn
  | _ => .resultReturn

/-- Modelled from the spec: `Value.evaluateBreak` (not in the source files), as
`evaluateBreakContinue` for a break alone. -/
def Value.evaluateBreak (self : Value) (labels : List String) : ResultKind :=
  match self with
  | .result .resultBreak _ target => if target ∈ labels then .resultBreak else .resultReturn
  | _ => .resultReturn

/-- A Go panic: a script exception (`newException(value)`), which `tryCatchEvaluate`
catches, or any other panic, which goes through it. -/
inductive Panic
  | exception (value : Value)
  | fatal (text : String)
  deriving DecidableEq, Repr

/-- Modelled from the spec: an environment record (not in the source files): "a linked
chain of name-to-binding maps"; a declarative environment holds bindings, an object
environment (of `with`) an object and its `ProvideThis` flag.  `outer` and `object` are
addresses; the global environment has no outer environment. -/
inductive Environment
  | declarative (outer : Option Nat) (bindings : List (String × Value))
  | object (outer : Option Nat) (object : Nat) (ProvideThis : Bool)
  deriving DecidableEq, Repr

/-- `_runtime`, as far as the source files use it: `labels`, and of the current execution
context (`_executionContext(0)`) `LexicalEnvironment` and `this`.  `environments` are the
environment records allocated so far, an environment being the address of its record
there; `store` is the rest of the runtime (objects, the other execution contexts, the
interrupt channel). -/
structure Runtime (σ : Type) where
  labels : List String
  LexicalEnvironment : Nat
  this : Nat
  environments : List Environment
  store : σ
  deriving DecidableEq, Repr

/-- How a call ended: it returned `value`, or it was left by the panic `panic`. -/
inductive Ending (α : Type)
  | value (value : α)
  | panic (panic : Panic)
  deriving DecidableEq, Repr

/-- The outcome of a call: `none` if it does not end, otherwise the runtime it leaves with
the value it returns or the panic that left it. -/
abbrev Outcome (σ α : Type) := Option (Runtime σ × Ending α)

/-- Modelled from the spec: the functions of the runtime that the source files call and do
not define, taken as parameters.  `expression` is the evaluation of the expression nodes
that `evaluate` hands on (`evaluateIdentifier`, `evaluateCall`, `evaluateBinaryExpression`,
`evaluateVariableExpression`, ...); `interrupt` is the poll of the interrupt channel at
the start of `evaluate`; `enumerate` gives the names `object.enumerate` offers, in order;
`prototype` is `object.prototype`. -/
structure Host (σ : Type) where
  interrupt : Runtime σ → Outcome σ Unit
  expression : Expression → Runtime σ → Outcome σ Value
  stringToFloat : String → NumberValue
  GetValue : Value → Runtime σ → Outcome σ Value
  PutValue : Value → Value → Runtime σ → Outcome σ Unit
  toBoolean : Value → Bool
  isTrue : Value → Bool
  toObject : Value → Runtime σ → Outcome σ Nat
  toString : Value → Runtime σ → Outcome σ String
  getIdentifierReference : Nat → String → Runtime σ → Value
  enumerate : Nat → Runtime σ → List String
  prototype : Nat → Runtime σ → Option Nat
  calculateComparison : Token → Value → Value → Runtime σ → Outcome σ Bool
  functionDeclaration : List Declaration → Runtime σ → Outcome σ Unit
  variableDeclaration : List Declaration → Runtime σ → Outcome σ Unit

/-- The next step of a function: it runs if the step before returned, on the runtime that
step left; a run that does not end and a panic end the function. -/
def andThen {σ α β : Type} (x : Outcome σ α) (f : Runtime σ → α → Outcome σ β) :
    Outcome σ β :=
  match x with
  | none => none
  | some (r, .panic p) => some (r, .panic p)
  | some (r, .value a) => f r a

/-- A deferred function: it runs when the function returns and when it panics. -/
def deferred {σ α : Type} (f : Runtime σ → Runtime σ) (x : Outcome σ α) : Outcome σ α :=
  match x with
  | none => none
  | some (r, result) => some (f r, result)

/-- Modelled from the spec: `tryCatchEvaluate` (not in the source files): "a
panic-catching boundary that converts a thrown exception into `(value, true)`"; a value
returned is `(value, false)`, and any other panic goes on. -/
def tryCatchEvaluate {σ : Type} (inner : Outcome σ Value) : Outcome σ (Value × Bool) :=
  match inner with
  | none => none
  | some (r, .value value) => some (r, .value (value, false))
  | some (r, .panic (.exception value)) => some (r, .value (value, true))
  | some (r, .panic (.fatal text)) => some (r, .panic (.fatal text))

/-- Modelled from the spec: `_executionContext.newDeclarativeEnvironment` (not in the
source files): "push a fresh declarative environment"; the environment that was current is
its outer environment (and is what the function returns). -/
def Runtime.newDeclarativeEnvironment {σ : Type} (self : Runtime σ) : Runtime σ :=
  { self with
    environments := self.environments ++ [.declarative (some self.LexicalEnvironment) []]
    LexicalEnvironment := self.environments.length }

/-- Modelled from the spec: `_runtime.localSet` (not in the source files): "with the
parameter bound to the thrown value": the binding is made in the current environment. -/
def Runtime.localSet {σ : Type} (self : Runtime σ) (name : String) (value : Value) :
    Runtime σ :=
  { self with
    environments := self.environments.modify
      (fun e => match e with
        | .declarative outer bindings =>
          .declarative outer ((name, value) :: bindings.filter fun b => b.1 ≠ name)
        | e => e)
      self.LexicalEnvironment }

/-- Modelled from the spec: `_executionContext.newLexicalEnvironment` (not in the source
files): "push a transient object-environment"; the environment that was current is its
outer environment (and is what the function returns first). -/
def Runtime.newLexicalEnvironment {σ : Type} (self : Runtime σ) (object : Nat) :
    Runtime σ :=
  { self with
    environments :=
      self.environments ++ [.object (some self.LexicalEnvironment) object false]
    LexicalEnvironment := self.environments.length }

/-- The assignment `lexicalEnvironment.ProvideThis = true` to the current environment. -/
def Runtime.setProvideThis {σ : Type} (self : Runtime σ) : Runtime σ :=
  { self with
    environments := self.environments.modify
      (fun e => match e with
        | .object outer object _ => .object outer object true
        | e => e)
      self.LexicalEnvironment }

/-- How the loop over the statements of a loop body ended: at the end of the body, at
`return value`, at `break` out of the loop, or at the jump to the next iteration; but for
`return value`, with the `result` so far. -/
inductive BodyExit
  | done (result : Value)
  | resultReturn (value : Value)
  | resultBreak (result : Value)
  | resultContinue (result : Value)
  deriving DecidableEq, Repr

/-- The `body` of a loop statement: the list of a block, or the statement alone. -/
def loopBody : Statement → List Statement
  | .BlockStatement _ list _ => list
  | body => [body]

/-- `_runtime.evaluate` at an expression node: the poll of the interrupt channel, then the
literals and `this`, which the source evaluates itself, the functions that are not in the
source files, and the panic at the end of `evaluate` for a node without a case. -/
def evaluateExpression {σ : Type} (host : Host σ) (node : Expression) (r : Runtime σ) :
    Outcome σ Value :=
  andThen (host.interrupt r) fun r _ =>
    match node with
    | .NullLiteral _ _ => some (r, .value .null)
    | .BooleanLiteral _ _ value => some (r, .value (.boolean value))
    | .StringLiteral _ _ value => some (r, .value (.string value))
    | .NumberLiteral _ literal _ => some (r, .value (.number (host.stringToFloat literal)))
    | .ThisExpression _ => some (r, .value (.object r.this))
    | .BadExpression _ _ => some (r, .panic (.fatal "evaluate: Here be dragons"))
    | node => host.expression node r

/-- `self.GetValue(self.evaluate(node))` for an expression node. -/
def evaluateValue {σ : Type} (host : Host σ) (node : Expression) (r : Runtime σ) :
    Outcome σ Value :=
  andThen (evaluateExpression host node r) fun r value => host.GetValue value r

/-- `_runtime.evaluateThrowStatement`. -/
def evaluateThrowStatement {σ : Type} (host : Host σ) (argument : Expression)
    (r : Runtime σ) : Outcome σ Value :=
  andThen (evaluateValue host argument r) fun r value =>
    some (r, .panic (.exception value))

/-- `_runtime.evaluateReturnStatement`. -/
def evaluateReturnStatement {σ : Type} (host : Host σ) (argument : Option Expression)
    (r : Runtime σ) : Outcome σ Value :=
  match argument with
  | none => some (r, .value (newReturnResult .undefined))
  | some argument =>
    andThen (evaluateValue host argument r) fun r value =>
      some (r, .value (newReturnResult value))

/-- The case `VarStatement` of `evaluate`: the loop over the variables, each of which has
to be a `VariableExpression`. -/
def evaluateVarStatement {σ : Type} (host : Host σ) :
    List Expression → Runtime σ → Outcome σ Value
  | [], r => some (r, .value .empty)
  | .VariableExpression name idx initializer :: list, r =>
    andThen (host.expression (.VariableExpression name idx initializer) r) fun r _ =>
      evaluateVarStatement host list r
  | _ :: _, r => some (r, .panic (.fatal "interface conversion"))

/-- The case `BranchStatement` of `evaluate`; a token other than `break` and `continue`
leaves the `switch` for the panic at the end of `evaluate`. -/
def evaluateBranchStatement {σ : Type} (token : Token) (label : Option Identifier)
    (r : Runtime σ) : Outcome σ Value :=
  let target := match label with
    | some label => label.Name
    | none => ""
  if token = .BREAK then some (r, .value (newBreakResult target))
  else if token = .CONTINUE then some (r, .value (newContinueResult target))
  else some (r, .panic (.fatal "evaluate: Here be dragons"))

/-- The first loop of `evaluateSwitchStatement`: the index of the first clause whose test
is strictly equal to the discriminant, or `target` when there is none. -/
def evaluateSwitchStatementTarget {σ : Type} (host : Host σ) (discriminantResult : Value) :
    List CaseStatement → Nat → Int → Runtime σ → Outcome σ Int
  | [], _, target, r => some (r, .value target)
  | .mk _ none _ :: body, index, target, r =>
    evaluateSwitchStatementTarget host discriminantResult body (index + 1) target r
  | .mk _ (some test) _ :: body, index, target, r =>
    andThen (evaluateExpression host test r) fun r test =>
      andThen (host.calculateComparison .STRICT_EQUAL discriminantResult test r)
        fun r equal =>
          if equal then some (r, .value (index : Int))
          else evaluateSwitchStatementTarget host discriminantResult body (index + 1) target r

/-- The test at the head of the loop of `evaluateForStatement`: whether the loop goes on
(it does when there is no test). -/
def evaluateForStatementTest {σ : Type} (host : Host σ) (test : Option Expression)
    (r : Runtime σ) : Outcome σ Bool :=
  match test with
  | none => some (r, .value true)
  | some test =>
    andThen (evaluateValue host test r) fun r testResultValue =>
      some (r, .value (host.toBoolean testResultValue))

/-- The update at `resultContinue` in the loop of `evaluateForStatement`. -/
def evaluateForStatementUpdate {σ : Type} (host : Host σ) (update : Option Expression)
    (r : Runtime σ) : Outcome σ Unit :=
  match update with
  | none => some (r, .value ())
  | some update =>
    andThen (evaluateValue host update r) fun r _ => some (r, .value ())

/-- The pop of the label that `evaluate` defers at a `LabelledStatement`. -/
def Runtime.popLabel {σ : Type} (self : Runtime σ) : Runtime σ :=
  if self.labels.length > 0 then
    { self with labels := self.labels.take (self.labels.length - 1) }
  else { self with labels := [] }

mutual

/-- `_runtime.evaluate` at a statement node.  The deferred `recover` panics again with
what it caught and is left out. -/
def evaluate {σ : Type} (host : Host σ) : Nat → Statement → Runtime σ → Outcome σ Value
  | 0, _, _ => none
  | n + 1, node, r =>
    andThen (host.interrupt r) fun r _ =>
      match node with
      | .VarStatement _ list => evaluateVarStatement host list r
      | .ExpressionStatement expression => evaluateExpression host expression r
      | .BlockStatement _ list _ => evaluateBody host n list .empty r
      | .LabelledStatement label _ statement =>
        deferred Runtime.popLabel
          (evaluate host n statement { r with labels := r.labels ++ [label.Name] })
      | .ReturnStatement _ argument => evaluateReturnStatement host argument r
      | .IfStatement _ test consequent alternate =>
        evaluateIfStatement host n test consequent alternate r
      | .DoWhileStatement _ test body => evaluateDoWhileStatement host n test body r
      | .WhileStatement _ test body => evaluateWhileStatement host n test body r
      | .BranchStatement _ token label => evaluateBranchStatement token label r
      | .SwitchStatement _ discriminant default body =>
        evaluateSwitchStatement host n discriminant default body r
      | .ForStatement _ initializer update test body =>
        evaluateForStatement host n initializer update test body r
      | .ForInStatement _ into source body =>
        evaluateForInStatement host n into source body r
      | .ThrowStatement _ argument => evaluateThrowStatement host argument r
      | .EmptyStatement _ => some (r, .value .empty)
      | .TryStatement _ body catchClause finallyClause =>
        evaluateTryStatement host n body catchClause finallyClause r
      | .WithStatement _ object body => evaluateWithStatement host n object body r
      | .BadStatement _ _ => some (r, .panic (.fatal "evaluate: Here be dragons"))

/-- `_runtime.evaluateBody` (and `evaluateBlockStatement`, which only calls it): the loop
over the statements, with the `bodyValue` so far. -/
def evaluateBody {σ : Type} (host : Host σ) :
    Nat → List Statement → Value → Runtime σ → Outcome σ Value
  | 0, _, _, _ => none
  | _ + 1, [], bodyValue, r => some (r, .value bodyValue)
  | n + 1, node :: body, bodyValue, r =>
    andThen (evaluate host n node r) fun r value =>
      if value.isResult then some (r, .value value)
      else if !value.isEmpty then
        andThen (host.GetValue value r) fun r bodyValue =>
          evaluateBody host n body bodyValue r
      else evaluateBody host n body bodyValue r

/-- `_runtime.evaluateTryStatement`. -/
def evaluateTryStatement {σ : Type} (host : Host σ) :
    Nat → Statement → Option CatchStatement → Option Statement → Runtime σ →
      Outcome σ Value
  | 0, _, _, _, _ => none
  | n + 1, body, catchClause, finallyClause, r =>
    andThen (tryCatchEvaluate (evaluate host n body r)) fun r tryCatch =>
      match tryCatch.2, catchClause with
      | true, some (.mk _ parameter catchBody) =>
        let lexicalEnvironment := r.LexicalEnvironment
        deferred (fun r => { r with LexicalEnvironment := lexicalEnvironment })
          (andThen (tryCatchEvaluate (evaluate host n catchBody
              (r.newDeclarativeEnvironment.localSet parameter.Name tryCatch.1)))
            fun r tryCatch =>
              evaluateTryStatementFinally host n finallyClause tryCatch.1 tryCatch.2 r)
      | exception, _ =>
        evaluateTryStatementFinally host n finallyClause tryCatch.1 exception r

/-- The end of `evaluateTryStatement`, from `if node.Finally != nil`. -/
def evaluateTryStatementFinally {σ : Type} (host : Host σ) :
    Nat → Option Statement → Value → Bool → Runtime σ → Outcome σ Value
  | 0, _, _, _, _ => none
  | _ + 1, none, tryCatchValue, exception, r =>
    if exception then some (r, .panic (.exception tryCatchValue))
    else some (r, .value tryCatchValue)
  | n + 1, some finallyBody, tryCatchValue, exception, r =>
    andThen (evaluate host n finallyBody r) fun r finallyValue =>
      if finallyValue.isResult then some (r, .value finallyValue)
      else if exception then some (r, .panic (.exception tryCatchValue))
      else some (r, .value tryCatchValue)

/-- `_runtime.evaluateIfStatement`. -/
def evaluateIfStatement {σ : Type} (host : Host σ) :
    Nat → Expression → Statement → Option Statement → Runtime σ → Outcome σ Value
  | 0, _, _, _, _ => none
  | n + 1, test, consequent, alternate, r =>
    andThen (evaluateValue host test r) fun r testValue =>
      if host.toBoolean testValue then evaluate host n consequent r
      else match alternate with
        | some alternate => evaluate host n alternate r
        | none => some (r, .value .empty)

/-- `_runtime.evaluateWithStatement`. -/
def evaluateWithStatement {σ : Type} (host : Host σ) :
    Nat → Expression → Statement → Runtime σ → Outcome σ Value
  | 0, _, _, _ => none
  | n + 1, object, body, r =>
    andThen (evaluateValue host object r) fun r objectValue =>
      andThen (host.toObject objectValue r) fun r object =>
        let previousLexicalEnvironment := r.LexicalEnvironment
        deferred (fun r => { r with LexicalEnvironment := previousLexicalEnvironment })
          (evaluate host n body (r.newLexicalEnvironment object).setProvideThis)

/-- The loop `for _, node := range body` of `evaluateDoWhileStatement`,
`evaluateWhileStatement`, `evaluateForStatement` and `evaluateForInStatement`, which is the
same in the four but for what they do at its exits. -/
def evaluateLoopBody {σ : Type} (host : Host σ) :
    Nat → List Statement → List String → Value → Runtime σ → Outcome σ BodyExit
  | 0, _, _, _, _ => none
  | _ + 1, [], _, result, r => some (r, .value (.done result))
  | n + 1, node :: body, labels, result, r =>
    andThen (evaluate host n node r) fun r value =>
      if value.isResult then
        match value.evaluateBreakContinue labels with
        | .resultReturn => some (r, .value (.resultReturn value))
        | .resultBreak => some (r, .value (.resultBreak result))
        | .resultContinue => some (r, .value (.resultContinue result))
      else if value.isEmpty then evaluateLoopBody host n body labels result r
      else evaluateLoopBody host n body labels value r

/-- `_runtime.evaluateDoWhileStatement`. -/
def evaluateDoWhileStatement {σ : Type} (host : Host σ) :
    Nat → Expression → Statement → Runtime σ → Outcome σ Value
  | 0, _, _, _ => none
  | n + 1, test, body, r =>
    let labels := r.labels ++ [""]
    evaluateDoWhileStatementLoop host n test (loopBody body) labels .empty
      { r with labels := [] }

/-- The loop `resultBreak` of `evaluateDoWhileStatement`. -/
def evaluateDoWhileStatementLoop {σ : Type} (host : Host σ) :
    Nat → Expression → List Statement → List String → Value → Runtime σ →
      Outcome σ Value
  | 0, _, _, _, _, _ => none
  | n + 1, test, body, labels, result, r =>
    andThen (evaluateLoopBody host n body labels result r) fun r exit =>
      match exit with
      | .resultReturn value => some (r, .value value)
      | .resultBreak result => some (r, .value result)
      | .resultContinue result | .done result =>
        andThen (evaluateValue host test r) fun r testValue =>
          if !host.isTrue testValue then some (r, .value result)
          else evaluateDoWhileStatementLoop host n test body labels result r

/-- `_runtime.evaluateWhileStatement`. -/
def evaluateWhileStatement {σ : Type} (host : Host σ) :
    Nat → Expression → Statement → Runtime σ → Outcome σ Value
  | 0, _, _, _ => none
  | n + 1, test, body, r =>
    let labels := r.labels ++ [""]
    evaluateWhileStatementLoop host n test (loopBody body) labels .empty
      { r with labels := [] }

/-- The loop `resultBreakContinue` of `evaluateWhileStatement`. -/
def evaluateWhileStatementLoop {σ : Type} (host : Host σ) :
    Nat → Expression → List Statement → List String → Value → Runtime σ →
      Outcome σ Value
  | 0, _, _, _, _, _ => none
  | n + 1, test, body, labels, result, r =>
    andThen (evaluateValue host test r) fun r testValue =>
      if !host.isTrue testValue then some (r, .value result)
      else
        andThen (evaluateLoopBody host n body labels result r) fun r exit =>
          match exit with
          | .resultReturn value => some (r, .value value)
          | .resultBreak result => some (r, .value result)
          | .resultContinue result | .done result =>
            evaluateWhileStatementLoop host n test body labels result r

/-- `_runtime.evaluateForStatement`.  The parser always gives an `Initializer`. -/
def evaluateForStatement {σ : Type} (host : Host σ) :
    Nat → Expression → Option Expression → Option Expression → Statement → Runtime σ →
      Outcome σ Value
  | 0, _, _, _, _, _ => none
  | n + 1, initializer, update, test, body, r =>
    let labels := r.labels ++ [""]
    andThen (evaluateValue host initializer { r with labels := [] }) fun r _ =>
      evaluateForStatementLoop host n update test (loopBody body) labels .empty r

/-- The loop `resultBreak` of `evaluateForStatement`. -/
def evaluateForStatementLoop {σ : Type} (host : Host σ) :
    Nat → Option Expression → Option Expression → List Statement → List String → Value →
      Runtime σ → Outcome σ Value
  | 0, _, _, _, _, _, _ => none
  | n + 1, update, test, body, labels, result, r =>
    andThen (evaluateForStatementTest host test r) fun r goOn =>
      if goOn = false then some (r, .value result)
      else
        andThen (evaluateLoopBody host n body labels result r) fun r exit =>
          match exit with
          | .resultReturn value => some (r, .value value)
          | .resultBreak result => some (r, .value result)
          | .resultContinue result | .done result =>
            andThen (evaluateForStatementUpdate host update r) fun r _ =>
              evaluateForStatementLoop host n update test body labels result r

/-- `_runtime.evaluateForInStatement`. -/
def evaluateForInStatement {σ : Type} (host : Host σ) :
    Nat → Expression → Expression → Statement → Runtime σ → Outcome σ Value
  | 0, _, _, _, _ => none
  | n + 1, into, source, body, r =>
    let labels := r.labels ++ [""]
    andThen (evaluateValue host source { r with labels := [] }) fun r sourceValue =>
      match sourceValue with
      | .undefined => some (r, .value .empty)
      | .null => some (r, .value .empty)
      | sourceValue =>
        andThen (host.toObject sourceValue r) fun r sourceObject =>
          evaluateForInStatementLoop host n into (loopBody body) labels .empty sourceObject r

/-- The loop `for object != nil` of `evaluateForInStatement`. -/
def evaluateForInStatementLoop {σ : Type} (host : Host σ) :
    Nat → Expression → List Statement → List String → Value → Nat → Runtime σ →
      Outcome σ Value
  | 0, _, _, _, _, _, _ => none
  | n + 1, into, body, labels, result, object, r =>
    andThen
      (evaluateForInStatementEnumerate host n into body labels (host.enumerate object r)
        .empty r)
      fun r enumerated =>
        if enumerated.2 then some (r, .value result)
        else
          let result := if !enumerated.1.isEmpty then enumerated.1 else result
          match host.prototype object r with
          | none => some (r, .value result)
          | some object =>
            evaluateForInStatementLoop host n into body labels result object r

/-- The call `object.enumerate(false, ...)` of `evaluateForInStatement`: the function
literal is called for each name until it returns `false`.  The result is
`enumerateValue` and whether the function literal has set `object = nil`. -/
def evaluateForInStatementEnumerate {σ : Type} (host : Host σ) :
    Nat → Expression → List Statement → List String → List String → Value → Runtime σ →
      Outcome σ (Value × Bool)
  | 0, _, _, _, _, _, _ => none
  | _ + 1, _, _, _, [], enumerateValue, r => some (r, .value (enumerateValue, false))
  | n + 1, into, body, labels, name :: names, enumerateValue, r =>
    andThen (evaluateExpression host into r) fun r intoValue =>
      andThen
        (match intoValue with
          | .reference base key => some (r, .value (Value.reference base key))
          | intoValue =>
            andThen (host.toString intoValue r) fun r identifier =>
              some (r,
                .value (host.getIdentifierReference r.LexicalEnvironment identifier r)))
        fun r intoValue =>
          andThen (host.PutValue intoValue (.string name) r) fun r _ =>
            andThen (evaluateLoopBody host n body labels enumerateValue r) fun r exit =>
              match exit with
              | .resultReturn value => some (r, .value (value, false))
              | .resultBreak enumerateValue => some (r, .value (enumerateValue, true))
              | .resultContinue enumerateValue | .done enumerateValue =>
                evaluateForInStatementEnumerate host n into body labels names
                  enumerateValue r

/-- `_runtime.evaluateSwitchStatement`. -/
def evaluateSwitchStatement {σ : Type} (host : Host σ) :
    Nat → Expression → Int → List CaseStatement → Runtime σ → Outcome σ Value
  | 0, _, _, _, _ => none
  | n + 1, discriminant, default, body, r =>
    let labels := r.labels ++ [""]
    andThen (evaluateExpression host discriminant { r with labels := [] })
      fun r discriminantResult =>
        andThen (evaluateSwitchStatementTarget host discriminantResult body 0 default r)
          fun r target =>
            if target ≠ -1 then
              if target < 0 ∨ (body.length : Int) < target then
                some (r, .panic (.fatal "slice bounds out of range"))
              else
                evaluateSwitchStatementBody host n [] (body.drop target.toNat) labels .empty r
            else some (r, .value .empty)

/-- The loops over `node.Body[target:]` and over the `Consequent` of each clause in
`evaluateSwitchStatement`: the statements left of the current clause, and the clauses
behind it. -/
def evaluateSwitchStatementBody {σ : Type} (host : Host σ) :
    Nat → List Statement → List CaseStatement → List String → Value → Runtime σ →
      Outcome σ Value
  | 0, _, _, _, _, _ => none
  | _ + 1, [], [], _, result, r => some (r, .value result)
  | n + 1, [], clause :: clauses, labels, result, r =>
    evaluateSwitchStatementBody host n clause.Consequent clauses labels result r
  | n + 1, statement :: consequent, clauses, labels, result, r =>
    andThen (evaluate host n statement r) fun r value =>
      if value.isResult then
        match value.evaluateBreak labels with
        | .resultReturn => some (r, .value value)
        | .resultBreak => some (r, .value .empty)
        | .resultContinue =>
          evaluateSwitchStatementBody host n consequent clauses labels result r
      else if value.isEmpty then
        evaluateSwitchStatementBody host n consequent clauses labels result r
      else evaluateSwitchStatementBody host n consequent clauses labels value r

end

/-- The case `Program` of `evaluate`. -/
def evaluateProgram {σ : Type} (host : Host σ) (n : Nat) (node : Program) (r : Runtime σ) :
    Outcome σ Value :=
  andThen (host.interrupt r) fun r _ =>
    andThen (host.functionDeclaration node.FunctionList r) fun r _ =>
      andThen (host.variableDeclaration node.VariableList r) fun r _ =>
        evaluateBody host n node.Body .empty r

/-- The outcome `y` is the outcome `x` if `x` is the outcome of a run that ends. -/
def Outcome.Le {σ α : Type} (x y : Outcome σ α) : Prop := ∀ o, x = some o → y = some o

/-- More fuel does not change the outcome of a run that ends: for the fuel `n`. -/
structure FuelIH {σ : Type} (host : Host σ) (n : Nat) : Prop where
  evaluate : ∀ node r, Outcome.Le (evaluate host n node r) (evaluate host (n + 1) node r)
  evaluateBody : ∀ body bodyValue r,
    Outcome.Le (evaluateBody host n body bodyValue r)
      (evaluateBody host (n + 1) body bodyValue r)
  evaluateTryStatement : ∀ body catchClause finallyClause r,
    Outcome.Le (evaluateTryStatement host n body catchClause finallyClause r)
      (evaluateTryStatement host (n + 1) body catchClause finallyClause r)
  evaluateTryStatementFinally : ∀ finallyClause tryCatchValue exception r,
    Outcome.Le (evaluateTryStatementFinally host n finallyClause tryCatchValue exception r)
      (evaluateTryStatementFinally host (n + 1) finallyClause tryCatchValue exception r)
  evaluateIfStatement : ∀ test consequent alternate r,
    Outcome.Le (evaluateIfStatement host n test consequent alternate r)
      (evaluateIfStatement host (n + 1) test consequent alternate r)
  evaluateWithStatement : ∀ object body r,
    Outcome.Le (evaluateWithStatement host n object body r)
      (evaluateWithStatement host (n + 1) object body r)
  evaluateLoopBody : ∀ body labels result r,
    Outcome.Le (evaluateLoopBody host n body labels result r)
      (evaluateLoopBody host (n + 1) body labels result r)
  evaluateDoWhileStatement : ∀ test body r,
    Outcome.Le (evaluateDoWhileStatement host n test body r)
      (evaluateDoWhileStatement host (n + 1) test body r)
  evaluateDoWhileStatementLoop : ∀ test body labels result r,
    Outcome.Le (evaluateDoWhileStatementLoop host n test body labels result r)
      (evaluateDoWhileStatementLoop host (n + 1) test body labels result r)
  evaluateWhileStatement : ∀ test body r,
    Outcome.Le (evaluateWhileStatement host n test body r)
      (evaluateWhileStatement host (n + 1) test body r)
  evaluateWhileStatementLoop : ∀ test body labels result r,
    Outcome.Le (evaluateWhileStatementLoop host n test body labels result r)
      (evaluateWhileStatementLoop host (n + 1) test body labels result r)
  evaluateForStatement : ∀ initializer update test body r,
    Outcome.Le (evaluateForStatement host n initializer update test body r)
      (evaluateForStatement host (n + 1) initializer update test body r)
  evaluateForStatementLoop : ∀ update test body labels result r,
    Outcome.Le (evaluateForStatementLoop host n update test body labels result r)
      (evaluateForStatementLoop host (n + 1) update test body labels result r)
  evaluateForInStatement : ∀ into source body r,
    Outcome.Le (evaluateForInStatement host n into source body r)
      (evaluateForInStatement host (n + 1) into source body r)
  evaluateForInStatementLoop : ∀ into body labels result object r,
    Outcome.Le (evaluateForInStatementLoop host n into body labels result object r)
      (evaluateForInStatementLoop host (n + 1) into body labels result object r)
  evaluateForInStatementEnumerate : ∀ into body labels names enumerateValue r,
    Outcome.Le
      (evaluateForInStatementEnumerate host n into body labels names enumerateValue r)
      (evaluateForInStatementEnumerate host (n + 1) into body labels names enumerateValue r)
  evaluateSwitchStatement : ∀ discriminant default body r,
    Outcome.Le (evaluateSwitchStatement host n discriminant default body r)
      (evaluateSwitchStatement host (n + 1) discriminant default body r)
  evaluateSwitchStatementBody : ∀ consequent clauses labels result r,
    Outcome.Le (evaluateSwitchStatementBody host n consequent clauses labels result r)
      (evaluateSwitchStatementBody host (n + 1) consequent clauses labels result r)

/-! ### A runtime for the examples

The functions of a `Host` are not in the source files.  The examples are evaluated with
the host below, which covers identifiers, the literals, `+` on strings and `var`, over
declarative and object environments and objects with a prototype. -/

/-- Modelled from the spec: an object of the example runtime: its prototype and its
properties, all of them enumerable, in the order of their creation. -/
structure ObjectRecord where
  prototype : Option Nat
  properties : List (String × Value)
  deriving DecidableEq, Repr

/-- The runtime of the examples: its store holds the objects, an object being its address
there. -/
abbrev ExampleRuntime := Runtime (List ObjectRecord)

/-- The value bound to `name` in a list of bindings or properties. -/
def lookupValue (name : String) : List (String × Value) → Option Value
  | [] => none
  | (key, value) :: rest => if key = name then some value else lookupValue name rest

/-- The own property `name` of the object at `address`. -/
def ownProperty (r : ExampleRuntime) (address : Nat) (name : String) : Option Value :=
  match r.store[address]? with
  | some object => lookupValue name object.properties
  | none => none

/-- Modelled from the spec: `getIdentifierReference` (not in the source files): the first
environment of the chain from `environment` outwards that binds `name` is the base of the
reference; the base is unresolvable when there is none.  The chain is followed for at
most `fuel` environments. -/
def exampleIdentifierReference (r : ExampleRuntime) (name : String) :
    Nat → Nat → Value
  | 0, _ => .reference .unresolvable name
  | fuel + 1, environment =>
    match r.environments[environment]? with
    | some (.declarative outer bindings) =>
      if (lookupValue name bindings).isSome then .reference (.environment environment) name
      else match outer with
        | some outer => exampleIdentifierReference r name fuel outer
        | none => .reference .unresolvable name
    | some (.object outer object _) =>
      if (ownProperty r object name).isSome then .reference (.environment environment) name
      else match outer with
        | some outer => exampleIdentifierReference r name fuel outer
        | none => .reference .unresolvable name
    | none => .reference .unresolvable name

/-- Modelled from the spec: `GetValue` (not in the source files): it "(a) returns the value
unchanged if concrete, (b) resolves a reference against its base, or (c) raises
`ReferenceError` if the base is `null` (unresolvable identifier)".  The error is the
string that names it. -/
def exampleGetValue (value : Value) (r : ExampleRuntime) :
    Outcome (List ObjectRecord) Value :=
  match value with
  | .reference .unresolvable name =>
    some (r, .panic (.exception (.string ("ReferenceError: " ++ name ++ " is not defined"))))
  | .reference (.environment environment) name =>
    match r.environments[environment]? with
    | some (.declarative _ bindings) =>
      some (r, .value ((lookupValue name bindings).getD .undefined))
    | some (.object _ object _) =>
      some (r, .value ((ownProperty r object name).getD .undefined))
    | none => some (r, .value .undefined)
  | .reference (.object object) name =>
    some (r, .value ((ownProperty r object name).getD .undefined))
  | value => some (r, .value value)

/-- The list of bindings or properties with `name` bound to `value`. -/
def bindValue (name : String) (value : Value) : List (String × Value) → List (String × Value)
  | [] => [(name, value)]
  | (key, old) :: rest =>
    if key = name then (key, value) :: rest else (key, old) :: bindValue name value rest

/-- The runtime with the own property `name` of the object at `address` set to `value`. -/
def setProperty (r : ExampleRuntime) (address : Nat) (name : String) (value : Value) :
    ExampleRuntime :=
  { r with
    store := r.store.modify
      (fun object => { object with properties := bindValue name value object.properties }) address }

/-- The runtime with `name` bound to `value` in the environment at `environment`. -/
def setBinding (r : ExampleRuntime) (environment : Nat) (name : String) (value : Value) :
    ExampleRuntime :=
  match r.environments[environment]? with
  | some (.declarative outer bindings) =>
    { r with
      environments :=
        r.environments.set environment (.declarative outer (bindValue name value bindings)) }
  | some (.object _ object _) => setProperty r object name value
  | none => r

/-- Modelled from the spec: `PutValue` (not in the source files): the value is stored at
the base of the reference, an unresolvable identifier being declared in the global
environment ("with implicit declaration as needed"). -/
def examplePutValue (reference value : Value) (r : ExampleRuntime) :
    Outcome (List ObjectRecord) Unit :=
  match reference with
  | .reference .unresolvable name => some (setBinding r 0 name value, .value ())
  | .reference (.environment environment) name =>
    some (setBinding r environment name value, .value ())
  | .reference (.object object) name => some (setProperty r object name value, .value ())
  | _ => some (r, .panic (.exception (.string "ReferenceError: invalid assignment")))

/-- The expressions of the examples: identifiers, the literals, `+` on two strings and a
variable without initial value (which gives its name); any other expression is not
supported. -/
def exampleExpression : Expression → ExampleRuntime → Outcome (List ObjectRecord) Value
  | .Identifier name _, r =>
    some (r, .value (exampleIdentifierReference r name r.environments.length
      r.LexicalEnvironment))
  | .NullLiteral _ _, r => some (r, .value .null)
  | .BooleanLiteral _ _ value, r => some (r, .value (.boolean value))
  | .StringLiteral _ _ value, r => some (r, .value (.string value))
  | .NumberLiteral _ _ value, r => some (r, .value (.number value))
  | .VariableExpression name _ none, r => some (r, .value (.string name))
  | .BinaryExpression .PLUS left right _, r =>
    andThen (exampleExpression left r) fun r left =>
      andThen (exampleGetValue left r) fun r left =>
        andThen (exampleExpression right r) fun r right =>
          andThen (exampleGetValue right r) fun r right =>
            match left, right with
            | .string left, .string right => some (r, .value (.string (left ++ right)))
            | _, _ => some (r, .panic (.fatal "not supported"))
  | _, r => some (r, .panic (.fatal "not supported"))

/-- Modelled from the spec: the host of the examples.  There is no interrupt; `ToObject`
of an object is the object and a `TypeError` for any other value; the names an object
offers are those of its properties. -/
def exampleHost : Host (List ObjectRecord) where
  interrupt r := some (r, .value ())
  expression := exampleExpression
  stringToFloat literal := .float literal
  GetValue := exampleGetValue
  PutValue := examplePutValue
  toBoolean value := value = .boolean true
  isTrue value := value = .boolean true
  toObject value r :=
    match value with
    | .object address => some (r, .value address)
    | _ => some (r, .panic (.exception (.string "TypeError")))
  toString value r :=
    match value with
    | .string text => some (r, .value text)
    | _ => some (r, .panic (.fatal "not supported"))
  getIdentifierReference environment name r :=
    exampleIdentifierReference r name r.environments.length environment
  enumerate object r :=
    match r.store[object]? with
    | some record => record.properties.map fun p => p.1
    | none => []
  prototype object r :=
    match r.store[object]? with
    | some record => record.prototype
    | none => none
  calculateComparison _ left right r := some (r, .value (left = right))
  functionDeclaration _ r := some (r, .value ())
  variableDeclaration _ r := some (r, .value ())

/-- The runtime at the start of an example: the global environment with `bindings`, and
`objects`. -/
def exampleRuntime (bindings : List (String × Value)) (objects : List ObjectRecord) :
    ExampleRuntime :=
  { labels := [], LexicalEnvironment := 0, this := 0,
    environments := [.declarative none bindings], store := objects }

/-- The program of a source is evaluated in the example runtime `r`: how the evaluation
ended, if the parser recorded no error and the evaluation ended. -/
def exampleRun (n : Nat) (source : List Nat) (tokens : Scanner) (r : ExampleRuntime) :
    Option (Ending Value) :=
  match Parse n "" source tokens with
  | some (program, none) =>
    Option.map (fun o => o.2) (evaluateProgram exampleHost n program r)
  | _ => none

/-- The try statement `try body catchClause` in the runtime `r` has come to
`if node.Finally != nil` in `evaluateTryStatement`: the try body has been evaluated, and
the catch body if the try body threw and there is a catch clause.  The runtime is then
`q`, with `tryCatchValue` and `exception` as given, and `restore` is the lexical
environment that the deferred function of the catch clause will restore, if any. -/
def AtFinally {σ : Type} (host : Host σ) (body : Statement)
    (catchClause : Option CatchStatement) (r q : Runtime σ) (tryCatchValue : Value)
    (exception : Bool) (restore : Option Nat) : Prop :=
  (∃ n, tryCatchEvaluate (evaluate host n body r) =
      some (q, .value (tryCatchValue, exception)) ∧
    (exception = false ∨ catchClause = none) ∧ restore = none) ∨
  (∃ n r1 thrown idx parameter catchBody,
    tryCatchEvaluate (evaluate host n body r) = some (r1, .value (thrown, true)) ∧
    catchClause = some (.mk idx parameter catchBody) ∧
    tryCatchEvaluate
        (evaluate host n catchBody
          (r1.newDeclarativeEnvironment.localSet parameter.Name thrown)) =
      some (q, .value (tryCatchValue, exception)) ∧
    restore = some r1.LexicalEnvironment)

/-- The runtime after the deferred function of the catch clause, if there is one. -/
def Runtime.restored {σ : Type} (self : Runtime σ) (restore : Option Nat) : Runtime σ :=
  match restore with
  | some lexicalEnvironment => { self with LexicalEnvironment := lexicalEnvironment }
  | none => self

/-- The source `try{ throw 'e' }catch(e){ e+'!' }finally{ 'done' }`. -/
def tryCatchFinallySource : List Nat :=
  asciiBytes "try\x7b throw 'e' \x7dcatch(e)\x7b e+'!' \x7dfinally\x7b 'done' \x7d"

/-- The scanner's results on `try{ throw 'e' }catch(e){ e+'!' }finally{ 'done' }`. -/
def tryCatchFinallyTokens : Scanner :=
  .ofList [scanned .TRY "try" 1, scanned .LEFT_BRACE "" 4, scanned .THROW "throw" 6,
    { scanned .STRING "'e'" 12 with string := "e" }, scanned .RIGHT_BRACE "" 16,
    scanned .CATCH "catch" 17, scanned .LEFT_PARENTHESIS "" 22, scanned .IDENTIFIER "e" 23,
    scanned .RIGHT_PARENTHESIS "" 24, scanned .LEFT_BRACE "" 25, scanned .IDENTIFIER "e" 27,
    scanned .PLUS "" 28, { scanned .STRING "'!'" 29 with string := "!" },
    scanned .RIGHT_BRACE "" 33, scanned .FINALLY "finally" 34, scanned .LEFT_BRACE "" 41,
    { scanned .STRING "'done'" 43 with string := "done" }, scanned .RIGHT_BRACE "" 50,
    scannedEOF 50]

/-- The try body `{ throw 'e' }` of that source. -/
def throwBlock : Statement :=
  .BlockStatement 4 [.ThrowStatement 0 (.StringLiteral 12 "'e'" "e")] 16

/-- The catch clause `catch(e){ e+'!' }` of that source. -/
def catchClauseE : CatchStatement :=
  .mk 17 { Name := "e", Idx := 23 }
    (.BlockStatement 25
      [.ExpressionStatement
        (.BinaryExpression .PLUS (.Identifier "e" 27) (.StringLiteral 29 "'!'" "!") false)]
      33)

/-- The finally body `{ 'done' }` of that source. -/
def doneBlock : Statement :=
  .BlockStatement 41 [.ExpressionStatement (.StringLiteral 43 "'done'" "done")] 50

/-- The source `try { throw 'e' } catch (e) { } finally { e }`. -/
def catchLeakSource : List Nat :=
  asciiBytes "try \x7b throw 'e' \x7d catch (e) \x7b \x7d finally \x7b e \x7d"

/-- The scanner's results on `try { throw 'e' } catch (e) { } finally { e }`. -/
def catchLeakTokens : Scanner :=
  .ofList [scanned .TRY "try" 1, scanned .LEFT_BRACE "" 5, scanned .THROW "throw" 7,
    { scanned .STRING "'e'" 13 with string := "e" }, scanned .RIGHT_BRACE "" 17,
    scanned .CATCH "catch" 19, scanned .LEFT_PARENTHESIS "" 25, scanned .IDENTIFIER "e" 26,
    scanned .RIGHT_PARENTHESIS "" 27, scanned .LEFT_BRACE "" 29, scanned .RIGHT_BRACE "" 31,
    scanned .FINALLY "finally" 33, scanned .LEFT_BRACE "" 41, scanned .IDENTIFIER "e" 43,
    scanned .RIGHT_BRACE "" 45, scannedEOF 45]

/-- The program of `try { throw 'e' } catch (e) { } finally { e }`. -/
def catchLeakProgram : Program :=
  { Body := [.TryStatement 1
      (.BlockStatement 5 [.ThrowStatement 0 (.StringLiteral 13 "'e'" "e")] 17)
      (some (.mk 19 { Name := "e", Idx := 26 } (.BlockStatement 29 [] 31)))
      (some (.BlockStatement 41 [.ExpressionStatement (.Identifier "e" 43)] 45))],
    FunctionList := [], VariableList := [] }

/-- The source `e`. -/
def identifierESource : List Nat := asciiBytes "e"

/-- The scanner's results on `e`. -/
def identifierETokens : Scanner := .ofList [scanned .IDENTIFIER "e" 1, scannedEOF 1]

/-- The source `L: try { throw 'e' } finally { break L }`. -/
def tryBreakSource : List Nat :=
  asciiBytes "L: try \x7b throw 'e' \x7d finally \x7b break L \x7d"

/-- The scanner's results on `L: try { throw 'e' } finally { break L }`. -/
def tryBreakTokens : Scanner :=
  .ofList [scanned .IDENTIFIER "L" 1, scanned .COLON "" 2, scanned .TRY "try" 4,
    scanned .LEFT_BRACE "" 8, scanned .THROW "throw" 10,
    { scanned .STRING "'e'" 16 with string := "e" }, scanned .RIGHT_BRACE "" 20,
    scanned .FINALLY "finally" 22, scanned .LEFT_BRACE "" 30, scanned .BREAK "break" 32,
    scanned .IDENTIFIER "L" 38, scanned .RIGHT_BRACE "" 40, scannedEOF 40]

/-- The try body `{ throw 'e' }` of `L: try { throw 'e' } finally { break L }`. -/
def tryBreakBody : Statement :=
  .BlockStatement 8 [.ThrowStatement 0 (.StringLiteral 16 "'e'" "e")] 20

/-- The finally body `{ break L }` of that source. -/
def tryBreakFinally : Statement :=
  .BlockStatement 30 [.BranchStatement 32 .BREAK (some { Name := "L", Idx := 38 })] 40

/-- The source `try { throw 'e' } finally { 'done' }`. -/
def tryRethrowSource : List Nat :=
  asciiBytes "try \x7b throw 'e' \x7d finally \x7b 'done' \x7d"

/-- The scanner's results on `try { throw 'e' } finally { 'done' }`. -/
def tryRethrowTokens : Scanner :=
  .ofList [scanned .TRY "try" 1, scanned .LEFT_BRACE "" 5, scanned .THROW "throw" 7,
    { scanned .STRING "'e'" 13 with string := "e" }, scanned .RIGHT_BRACE "" 17,
    scanned .FINALLY "finally" 19, scanned .LEFT_BRACE "" 27,
    { scanned .STRING "'done'" 29 with string := "done" }, scanned .RIGHT_BRACE "" 36,
    scannedEOF 36]

/-- The try body `{ throw 'e' }` of `try { throw 'e' } finally { 'done' }`. -/
def tryRethrowBody : Statement :=
  .BlockStatement 5 [.ThrowStatement 0 (.StringLiteral 13 "'e'" "e")] 17

/-- The finally body `{ 'done' }` of that source. -/
def tryRethrowFinally : Statement :=
  .BlockStatement 27 [.ExpressionStatement (.StringLiteral 29 "'done'" "done")] 36

/-- The source `L: { break L; 'x' }`. -/
def labelledBlockSource : List Nat := asciiBytes "L: \x7b break L; 'x' \x7d"

/-- The scanner's results on `L: { break L; 'x' }`. -/
def labelledBlockTokens : Scanner :=
  .ofList [scanned .IDENTIFIER "L" 1, scanned .COLON "" 2, scanned .LEFT_BRACE "" 4,
    scanned .BREAK "break" 6, scanned .IDENTIFIER "L" 12, scanned .SEMICOLON "" 13,
    { scanned .STRING "'x'" 15 with string := "x" }, scanned .RIGHT_BRACE "" 19,
    scannedEOF 19]

/-- The source `L: { while (true) { break L; } 'x' }`. -/
def labelledBlockLoopSource : List Nat :=
  asciiBytes "L: \x7b while (true) \x7b break L; \x7d 'x' \x7d"

/-- The scanner's results on `L: { while (true) { break L; } 'x' }`. -/
def labelledBlockLoopTokens : Scanner :=
  .ofList [scanned .IDENTIFIER "L" 1, scanned .COLON "" 2, scanned .LEFT_BRACE "" 4,
    scanned .WHILE "while" 6, scanned .LEFT_PARENTHESIS "" 12, scanned .BOOLEAN "true" 13,
    scanned .RIGHT_PARENTHESIS "" 17, scanned .LEFT_BRACE "" 19, scanned .BREAK "break" 21,
    scanned .IDENTIFIER "L" 27, scanned .SEMICOLON "" 28, scanned .RIGHT_BRACE "" 30,
    { scanned .STRING "'x'" 32 with string := "x" }, scanned .RIGHT_BRACE "" 36,
    scannedEOF 36]

/-- The source `L: while (true) { break L; }`. -/
def labelledLoopSource : List Nat := asciiBytes "L: while (true) \x7b break L; \x7d"

/-- The scanner's results on `L: while (true) { break L; }`. -/
def labelledLoopTokens : Scanner :=
  .ofList [scanned .IDENTIFIER "L" 1, scanned .COLON "" 2, scanned .WHILE "while" 4,
    scanned .LEFT_PARENTHESIS "" 10, scanned .BOOLEAN "true" 11,
    scanned .RIGHT_PARENTHESIS "" 15, scanned .LEFT_BRACE "" 17, scanned .BREAK "break" 19,
    scanned .IDENTIFIER "L" 25, scanned .SEMICOLON "" 26, scanned .RIGHT_BRACE "" 28,
    scannedEOF 28]

/-- The source `function f() { for (k in o) { return k } }`. -/
def forInReturnSource : List Nat :=
  asciiBytes "function f() \x7b for (k in o) \x7b return k \x7d \x7d"

/-- The scanner's results on `function f() { for (k in o) { return k } }`. -/
def forInReturnTokens : Scanner :=
  .ofList [scanned .FUNCTION "function" 1, scanned .IDENTIFIER "f" 10,
    scanned .LEFT_PARENTHESIS "" 11, scanned .RIGHT_PARENTHESIS "" 12,
    scanned .LEFT_BRACE "" 14, scanned .FOR "for" 16, scanned .LEFT_PARENTHESIS "" 20,
    scanned .IDENTIFIER "k" 21, scanned .IN "in" 23, scanned .IDENTIFIER "o" 26,
    scanned .RIGHT_PARENTHESIS "" 27, scanned .LEFT_BRACE "" 29, scanned .RETURN "return" 31,
    scanned .IDENTIFIER "k" 38, scanned .RIGHT_BRACE "" 40, scanned .RIGHT_BRACE "" 42,
    scannedEOF 42]

/-- The source `for (k in o) { break; } k`. -/
def forInBreakSource : List Nat := asciiBytes "for (k in o) \x7b break; \x7d k"

/-- The scanner's results on `for (k in o) { break; } k`. -/
def forInBreakTokens : Scanner :=
  .ofList [scanned .FOR "for" 1, scanned .LEFT_PARENTHESIS "" 5, scanned .IDENTIFIER "k" 6,
    scanned .IN "in" 8, scanned .IDENTIFIER "o" 11, scanned .RIGHT_PARENTHESIS "" 12,
    scanned .LEFT_BRACE "" 14, scanned .BREAK "break" 16, scanned .SEMICOLON "" 21,
    scanned .RIGHT_BRACE "" 23, scanned .IDENTIFIER "k" 25, scannedEOF 25]

/-- The runtime of the for-in examples: `o` is an object with the property `a`, whose
prototype has the property `b`, and `k` is declared. -/
def forInRuntime : ExampleRuntime :=
  exampleRuntime [("o", .object 1), ("k", .undefined)]
    [{ prototype := none, properties := [("b", .number (.int 2))] },
      { prototype := some 0, properties := [("a", .number (.int 1))] }]

/-- The runtime of the for-in examples with an object `o` whose prototype has no
property. -/
def forInPlainRuntime : ExampleRuntime :=
  exampleRuntime [("o", .object 1), ("k", .undefined)]
    [{ prototype := none, properties := [] },
      { prototype := some 0, properties := [("a", .number (.int 1))] }]

/-- The body of the first function declared in the source is evaluated in the example
runtime `r`: how the evaluation ended, if the parser recorded no error and the evaluation
ended. -/
def exampleRunFunction (n : Nat) (source : List Nat) (tokens : Scanner)
    (r : ExampleRuntime) : Option (Ending Value) :=
  match Parse n "" source tokens with
  | some (program, none) =>
    match program.FunctionList with
    | .mk _ (.node (.FunctionExpression _ body _ _ _ _)) :: _ =>
      Option.map (fun o => o.2) (evaluate exampleHost n body r)
    | _ => none
  | _ => none

/-- The source `with (o) { a }`. -/
def withSource : List Nat := asciiBytes "with (o) \x7b a \x7d"

/-- The scanner's results on `with (o) { a }`. -/
def withTokens : Scanner :=
  .ofList [scanned .WITH "with" 1, scanned .LEFT_PARENTHESIS "" 6, scanned .IDENTIFIER "o" 7,
    scanned .RIGHT_PARENTHESIS "" 8, scanned .LEFT_BRACE "" 10, scanned .IDENTIFIER "a" 12,
    scanned .RIGHT_BRACE "" 14, scannedEOF 14]

/-- The body `{ a }` of `with (o) { a }`. -/
def withBody : Statement := .BlockStatement 10 [.ExpressionStatement (.Identifier "a" 12)] 14

/-- The runtime of the example of `with`: `o` is an object with the property `a`. -/
def withRuntime : ExampleRuntime :=
  exampleRuntime [("o", .object 0)] [{ prototype := none, properties := [("a", .string "x")] }]

/-- The loop of `nextStatement` with its rounds counted: `none` when `fuel` rounds do not
reach a `return`. -/
def Parser.nextStatementWithin : Nat → Parser → Option Parser
  | 0, _ => none
  | fuel + 1, self =>
    if self.token.isSync then
      if self.idx = self.recover.idx ∧ self.recover.count < 10 then
        some { self with recover := { self.recover with count := self.recover.count + 1 } }
      else if self.idx > self.recover.idx then
        some { self with recover := { idx := self.idx, count := 0 } }
      else Parser.nextStatementWithin fuel self.next
    else if self.token = .EOF then some self
    else Parser.nextStatementWithin fuel self.next

/-- The rounds the loop of `nextStatement` needs at most: one at `EOF`, and otherwise one
for the current token, one for each result the scanner still holds, and one for `EOF`. -/
def Parser.rounds (self : Parser) : Nat :=
  if self.token = .EOF then 1 else self.scanner.size + 2
/-- The source `break 1 2 continue`. -/
def breakNumbersSource : List Nat := asciiBytes "break 1 2 continue"

/-- The scanner's results on `break 1 2 continue`. -/
def breakNumbersTokens : Scanner :=
  .ofList [scanned .BREAK "break" 1, { scanned .NUMBER "1" 7 with number := .ok (.int 1) },
    { scanned .NUMBER "2" 9 with number := .ok (.int 2) }, scanned .CONTINUE "continue" 11,
    scannedEOF 18]

/-- The parser in `break 1 2 continue` where `parseBreakStatement` calls `nextStatement`:
at `2`, behind the `1` that `expect` has consumed. -/
def breakNumbersParser : Parser :=
  ((((newParser "" breakNumbersSource breakNumbersTokens).next.openScope.expect .BREAK).2.expect
    .IDENTIFIER).2.error 1 "Illegal break statement")
/-- The source `new a.b(c)`. -/
def newDotSource : List Nat := asciiBytes "new a.b(c)"

/-- The scanner's results on `new a.b(c)`. -/
def newDotTokens : Scanner :=
  .ofList [scanned .NEW "new" 1, scanned .IDENTIFIER "a" 5, scanned .PERIOD "" 6,
    scanned .IDENTIFIER "b" 7, scanned .LEFT_PARENTHESIS "" 8, scanned .IDENTIFIER "c" 9,
    scanned .RIGHT_PARENTHESIS "" 10, scannedEOF 10]

/-- The source `new a[b](c)`. -/
def newBracketSource : List Nat := asciiBytes "new a[b](c)"

/-- The scanner's results on `new a[b](c)`. -/
def newBracketTokens : Scanner :=
  .ofList [scanned .NEW "new" 1, scanned .IDENTIFIER "a" 5, scanned .LEFT_BRACKET "" 6,
    scanned .IDENTIFIER "b" 7, scanned .RIGHT_BRACKET "" 8, scanned .LEFT_PARENTHESIS "" 9,
    scanned .IDENTIFIER "c" 10, scanned .RIGHT_PARENTHESIS "" 11, scannedEOF 11]

/-- The source `new a{b](c)`, with `{` in the place of `[`. -/
def newBraceSource : List Nat := asciiBytes "new a\x7bb](c)"

/-- The scanner's results on `new a{b](c)`. -/
def newBraceTokens : Scanner :=
  .ofList [scanned .NEW "new" 1, scanned .IDENTIFIER "a" 5, scanned .LEFT_BRACE "" 6,
    scanned .IDENTIFIER "b" 7, scanned .RIGHT_BRACKET "" 8, scanned .LEFT_PARENTHESIS "" 9,
    scanned .IDENTIFIER "c" 10, scanned .RIGHT_PARENTHESIS "" 11, scannedEOF 11]
/-- The relational operators. -/
def relationalOperators : List Token :=
  [.LESS, .GREATER, .LESS_OR_EQUAL, .GREATER_OR_EQUAL, .INSTANCEOF, .IN]

/-- The literal the scanner returns with an operator: the word for `instanceof` and `in`,
nothing for a punctuator. -/
def operatorLiteral : Token → String
  | .INSTANCEOF => "instanceof"
  | .IN => "in"
  | _ => ""

/-- The source `a op1 b op2 c`. -/
def relationalSource (op1 op2 : Token) : List Nat :=
  asciiBytes ("a " ++ op1.String ++ " b " ++ op2.String ++ " c")

/-- The scanner's results on `a op1 b op2 c`. -/
def relationalTokens (op1 op2 : Token) : Scanner :=
  binaryTokens "a" op1 (operatorLiteral op1) "b" op2 (operatorLiteral op2) "c" 1 3
    (4 + op1.String.length) (6 + op1.String.length)
    (7 + op1.String.length + op2.String.length) (7 + op1.String.length + op2.String.length)
/-- The loop of `parseFunctionParameterList` with its rounds counted: `none` when `fuel`
rounds do not reach the end of the loop. -/
def Parser.parseFunctionParameterListWithin :
    Nat → List String → Parser → Option (List String × Parser)
  | 0, _, _ => none
  | fuel + 1, list, self =>
    if self.token ≠ .RIGHT_PARENTHESIS ∧ self.token ≠ .EOF then
      let self := if self.token ≠ .IDENTIFIER then (self.expect .IDENTIFIER).2 else self
      let list := list ++ [self.literal]
      let self := self.next
      let self := if self.token ≠ .RIGHT_PARENTHESIS then (self.expect .COMMA).2 else self
      Parser.parseFunctionParameterListWithin fuel list self
    else some (list, self)

/-- What is left to consume: the results the scanner still holds and the current token,
and nothing once the scanner has no more results and the parser stands at `EOF`. -/
def Parser.pending (self : Parser) : Nat :=
  if self.scanner.size = 0 ∧ self.token = .EOF then 0 else self.scanner.size + 1

/-- The source of an empty block, a line feed and `catch`. -/
def blockCatchSource : List Nat := asciiBytes "\x7b\x7d\ncatch"

/-- The scanner's results on the empty block, the line feed and `catch`: `catch` is
flagged with `implicitSemicolon`, as it follows the line feed behind `}`. -/
def blockCatchTokens : Scanner :=
  .ofList [scanned .LEFT_BRACE "" 1, scanned .RIGHT_BRACE "" 2,
    { scanned .CATCH "catch" 4 with implicitSemicolon := true }, scannedEOF 8]

/-- The parser at `catch` in that source, behind the block. -/
def blockCatchParser : Parser :=
  (Parser.next^[3] (newParser "" blockCatchSource blockCatchTokens)).openScope
/-- The source `for (;;) {}`. -/
def forEverSource : List Nat := asciiBytes "for (;;) \x7b\x7d"

/-- The scanner's results on `for (;;) {}`. -/
def forEverTokens : Scanner :=
  .ofList [scanned .FOR "for" 1, scanned .LEFT_PARENTHESIS "" 5, scanned .SEMICOLON "" 6,
    scanned .SEMICOLON "" 7, scanned .RIGHT_PARENTHESIS "" 8, scanned .LEFT_BRACE "" 10,
    scanned .RIGHT_BRACE "" 11, scannedEOF 11]

/-- The source `switch (a) {}`. -/
def switchEmptySource : List Nat := asciiBytes "switch (a) \x7b\x7d"

/-- The scanner's results on `switch (a) {}`. -/
def switchEmptyTokens : Scanner :=
  .ofList [scanned .SWITCH "switch" 1, scanned .LEFT_PARENTHESIS "" 8,
    scanned .IDENTIFIER "a" 9, scanned .RIGHT_PARENTHESIS "" 10, scanned .LEFT_BRACE "" 12,
    scanned .RIGHT_BRACE "" 13, scannedEOF 13]

/-- The source `switch (a) { case 1: }`. -/
def switchCaseSource : List Nat := asciiBytes "switch (a) \x7b case 1: \x7d"

/-- The scanner's results on `switch (a) { case 1: }`. -/
def switchCaseTokens : Scanner :=
  .ofList [scanned .SWITCH "switch" 1, scanned .LEFT_PARENTHESIS "" 8,
    scanned .IDENTIFIER "a" 9, scanned .RIGHT_PARENTHESIS "" 10, scanned .LEFT_BRACE "" 12,
    scanned .CASE "case" 14, { scanned .NUMBER "1" 19 with number := .ok (.int 1) },
    scanned .COLON "" 20, scanned .RIGHT_BRACE "" 22, scannedEOF 22]

/-- The source `switch (a) { case 1: b }`. -/
def switchCaseBodySource : List Nat := asciiBytes "switch (a) \x7b case 1: b \x7d"

/-- The scanner's results on `switch (a) { case 1: b }`. -/
def switchCaseBodyTokens : Scanner :=
  .ofList [scanned .SWITCH "switch" 1, scanned .LEFT_PARENTHESIS "" 8,
    scanned .IDENTIFIER "a" 9, scanned .RIGHT_PARENTHESIS "" 10, scanned .LEFT_BRACE "" 12,
    scanned .CASE "case" 14, { scanned .NUMBER "1" 19 with number := .ok (.int 1) },
    scanned .COLON "" 20, scanned .IDENTIFIER "b" 22, scanned .RIGHT_BRACE "" 24,
    scannedEOF 24]
/-- The number a decimal literal denotes, digit by digit; `none` for any other literal. -/
def decimalValue : List Char → Nat → Option Nat
  | [], value => some value
  | c :: rest, value =>
    if '0' ≤ c ∧ c ≤ '9' then decimalValue rest (10 * value + (c.toNat - '0'.toNat))
    else none

/-- Modelled from the spec: `stringToFloat` (not in the source files), on the decimal
literals of the examples; any other literal is kept as its text. -/
def arithmeticNumber (literal : String) : NumberValue :=
  match literal.data with
  | [] => .float literal
  | c :: rest =>
    match decimalValue (c :: rest) 0 with
    | some value => .int value
    | none => .float literal

/-- Modelled from the spec: the binary operators of the examples (not in the source files):
"`+`: if either operand is a string, concatenate; else numeric add", `<` as the "numeric
comparison" and `===`, which "requires same tag and bit-identical value"; on integers and
strings only. -/
def arithmeticOperation (operator : Token) (left right : Value) (r : ExampleRuntime) :
    Outcome (List ObjectRecord) Value :=
  match operator, left, right with
  | .PLUS, .number (.int left), .number (.int right) =>
    some (r, .value (.number (.int (left + right))))
  | .PLUS, .string left, .string right => some (r, .value (.string (left ++ right)))
  | .LESS, .number (.int left), .number (.int right) =>
    some (r, .value (.boolean (left < right)))
  | .STRICT_EQUAL, left, right => some (r, .value (.boolean (left = right)))
  | _, _, _ => some (r, .panic (.fatal "not supported"))

mutual
/-- Modelled from the spec: the evaluation of the expression nodes that `evaluate` hands
on (not in the source files), for the examples with numbers: identifiers (a `Reference`),
the literals, a variable with or without initial value (the value is stored with
`PutValue` at the reference of the name, and the node gives its name), the assignment `=`
(which gives the value stored), the binary operators on the values of their operands
(`GetValue`), and a sequence (the value of its last expression); any other expression is
not supported. -/
def arithmeticExpression : Expression → ExampleRuntime → Outcome (List ObjectRecord) Value
  | .Identifier name _, r =>
    some (r, .value (exampleIdentifierReference r name r.environments.length
      r.LexicalEnvironment))
  | .NullLiteral _ _, r => some (r, .value .null)
  | .BooleanLiteral _ _ value, r => some (r, .value (.boolean value))
  | .StringLiteral _ _ value, r => some (r, .value (.string value))
  | .NumberLiteral _ literal _, r => some (r, .value (.number (arithmeticNumber literal)))
  | .VariableExpression name _ none, r => some (r, .value (.string name))
  | .VariableExpression name _ (some initializer), r =>
    let left := exampleIdentifierReference r name r.environments.length r.LexicalEnvironment
    andThen (arithmeticExpression initializer r) fun r right =>
      andThen (exampleGetValue right r) fun r rightValue =>
        andThen (examplePutValue left rightValue r) fun r _ =>
          some (r, .value (.string name))
  | .AssignExpression .ASSIGN left right, r =>
    andThen (arithmeticExpression left r) fun r left =>
      andThen (arithmeticExpression right r) fun r right =>
        andThen (exampleGetValue right r) fun r rightValue =>
          andThen (examplePutValue left rightValue r) fun r _ =>
            some (r, .value rightValue)
  | .BinaryExpression operator left right _, r =>
    andThen (arithmeticExpression left r) fun r left =>
      andThen (exampleGetValue left r) fun r left =>
        andThen (arithmeticExpression right r) fun r right =>
          andThen (exampleGetValue right r) fun r right =>
            arithmeticOperation operator left right r
  | .SequenceExpression sequence, r => arithmeticSequence sequence .empty r
  | _, r => some (r, .panic (.fatal "not supported"))
/-- The expressions of a sequence, in order: each is evaluated and its value taken
(`GetValue`); the result is that of the last. -/
def arithmeticSequence :
    List Expression → Value → ExampleRuntime → Outcome (List ObjectRecord) Value
  | [], result, r => some (r, .value result)
  | node :: sequence, _, r =>
    andThen (arithmeticExpression node r) fun r result =>
      andThen (exampleGetValue result r) fun r _ =>
        arithmeticSequence sequence result r
end

/-- Modelled from the spec: `variableDeclaration` (not in the source files): "create
bindings for every declared variable name with value `undefined`", in the current
environment; "variable declarations never shadow an existing binding". -/
def declareVariables : List Declaration → ExampleRuntime → ExampleRuntime
  | [], r => r
  | declaration :: list, r =>
    match r.environments[r.LexicalEnvironment]? with
    | some (.declarative _ bindings) =>
      if (lookupValue declaration.Name bindings).isSome then declareVariables list r
      else declareVariables list (setBinding r r.LexicalEnvironment declaration.Name .undefined)
    | _ => declareVariables list r

/-- Modelled from the spec: the host of the examples with numbers.  It is the host of the
examples, with the expressions of `arithmeticExpression`, decimal number literals, the
bindings of the declared variables, and `calculateComparison` on the values of its
operands (`GetValue`) for `===`. -/
def arithmeticHost : Host (List ObjectRecord) :=
  { exampleHost with
    expression := arithmeticExpression
    stringToFloat := arithmeticNumber
    variableDeclaration := fun list r => some (declareVariables list r, .value ())
    calculateComparison := fun operator left right r =>
      andThen (exampleGetValue left r) fun r left =>
        andThen (exampleGetValue right r) fun r right =>
          if operator = .STRICT_EQUAL then some (r, .value (decide (left = right)))
          else some (r, .panic (.fatal "not supported")) }

/-- The program of a source is evaluated by the host of the examples with numbers in the
runtime `r`: how the evaluation ended, if the parser recorded no error and the evaluation
ended. -/
def arithmeticRun (n : Nat) (source : List Nat) (tokens : Scanner) (r : ExampleRuntime) :
    Option (Ending Value) :=
  match Parse n "" source tokens with
  | some (program, none) =>
    Option.map (fun o => o.2) (evaluateProgram arithmeticHost n program r)
  | _ => none
/-- The source `var x=1; var y=2; x+y`. -/
def sumOfVariablesSource : List Nat := asciiBytes "var x=1; var y=2; x+y"

/-- The scanner's results on `var x=1; var y=2; x+y`. -/
def sumOfVariablesTokens : Scanner :=
  .ofList [scanned .VAR "var" 1, scanned .IDENTIFIER "x" 5, scanned .ASSIGN "" 6,
    { scanned .NUMBER "1" 7 with number := .ok (.int 1) }, scanned .SEMICOLON "" 8,
    scanned .VAR "var" 10, scanned .IDENTIFIER "y" 14, scanned .ASSIGN "" 15,
    { scanned .NUMBER "2" 16 with number := .ok (.int 2) }, scanned .SEMICOLON "" 17,
    scanned .IDENTIFIER "x" 19, scanned .PLUS "" 20, scanned .IDENTIFIER "y" 21, scannedEOF 21]

/-- The statements of `body` are evaluated in order from the runtime `r`, with the fuel `n`
each, and none of them yields a result sentinel.  `values` holds, for each statement, what
it leaves as the value of the body: nothing for a statement whose value is empty, and
`GetValue` of its value, taken right behind the statement, for any other.  `q` is the
runtime behind the last statement. -/
def BodyRuns {σ : Type} (host : Host σ) (n : Nat) :
    List Statement → Runtime σ → List (Option Value) → Runtime σ → Prop
  | [], r, values, q => values = [] ∧ q = r
  | node :: body, r, values, q =>
    ∃ r1 value, evaluate host n node r = some (r1, .value value) ∧ value.isResult = false ∧
      ((value.isEmpty = true ∧ ∃ rest, values = none :: rest ∧ BodyRuns host n body r1 rest q) ∨
        (value.isEmpty = false ∧ ∃ r2 bodyValue rest,
          host.GetValue value r1 = some (r2, .value bodyValue) ∧
            values = some bodyValue :: rest ∧ BodyRuns host n body r2 rest q))

/-- The value of a body whose statements have left `values`: the last value left, and
`bodyValue` (which is `empty` at the start of `evaluateBody`) when no statement has left
one. -/
def lastBodyValue (bodyValue : Value) (values : List (Option Value)) : Value :=
  ((values.filterMap id).getLast?).getD bodyValue
/-- The tests of the clauses are evaluated in order from the runtime `r` and compared with
the discriminant, and none of them is strictly equal to it; a default clause has no test.
`q` is the runtime behind the last comparison. -/
def NoneEqual {σ : Type} (host : Host σ) (discriminantResult : Value) :
    List CaseStatement → Runtime σ → Runtime σ → Prop
  | [], r, q => q = r
  | .mk _ none _ :: body, r, q => NoneEqual host discriminantResult body r q
  | .mk _ (some test) _ :: body, r, q =>
    ∃ r1 testValue r2, evaluateExpression host test r = some (r1, .value testValue) ∧
      host.calculateComparison .STRICT_EQUAL discriminantResult testValue r1 =
        some (r2, .value false) ∧
      NoneEqual host discriminantResult body r2 q

/-- The clause a `switch` selects, from the runtime `r`: the first clause whose test is
strictly equal to the discriminant, the tests in front of it having been evaluated and no
test behind it, or `default` when no test is strictly equal.  `q` is the runtime behind
the last comparison. -/
def Selects {σ : Type} (host : Host σ) (discriminantResult : Value)
    (body : List CaseStatement) (default : Int) (r q : Runtime σ) (target : Int) : Prop :=
  (∃ pre idx test consequent post r1 testValue r2,
    body = pre ++ .mk idx (some test) consequent :: post ∧
    NoneEqual host discriminantResult pre r r1 ∧
    evaluateExpression host test r1 = some (r2, .value testValue) ∧
    host.calculateComparison .STRICT_EQUAL discriminantResult testValue r2 =
      some (q, .value true) ∧
    target = (pre.length : Int)) ∨
  (NoneEqual host discriminantResult body r q ∧ target = default)

/-- The statements are evaluated in order from the runtime `r`, with the fuel `n` each, and
none of them yields a result sentinel; `values` are their values and `q` is the runtime
behind the last statement. -/
def StatementsRun {σ : Type} (host : Host σ) (n : Nat) :
    List Statement → Runtime σ → List Value → Runtime σ → Prop
  | [], r, values, q => values = [] ∧ q = r
  | statement :: list, r, values, q =>
    ∃ r1 value rest, evaluate host n statement r = some (r1, .value value) ∧
      value.isResult = false ∧ values = value :: rest ∧ StatementsRun host n list r1 rest q

/-- The statements a `switch` executes when it has selected the clause `target`: the
consequents of that clause and of all the clauses behind it, in order. -/
def consequentsFrom (body : List CaseStatement) (target : Nat) : List Statement :=
  (body.drop target).flatMap CaseStatement.Consequent

/-- The last of the values that is not empty, and `result` when there is none. -/
def lastValue (result : Value) (values : List Value) : Value :=
  ((values.filter fun value => !value.isEmpty).getLast?).getD result

/-- The two loops of `evaluateSwitchStatement` over the consequents as one loop over the
statements, with the fuel `n` for each statement. -/
def evaluateSwitchStatements {σ : Type} (host : Host σ) (n : Nat) :
    List Statement → List String → Value → Runtime σ → Outcome σ Value
  | [], _, result, r => some (r, .value result)
  | statement :: list, labels, result, r =>
    andThen (evaluate host n statement r) fun r value =>
      if value.isResult then
        match value.evaluateBreak labels with
        | .resultReturn => some (r, .value value)
        | .resultBreak => some (r, .value .empty)
        | .resultContinue => evaluateSwitchStatements host n list labels result r
      else if value.isEmpty then evaluateSwitchStatements host n list labels result r
      else evaluateSwitchStatements host n list labels value r
/-- The source `switch ('b') { case 'a': 'A'; case 'b': 'B'; case 'c': 'C' }`. -/
def switchFallThroughSource : List Nat :=
  asciiBytes "switch ('b') \x7b case 'a': 'A'; case 'b': 'B'; case 'c': 'C' \x7d"

/-- The scanner's results on `switch ('b') { case 'a': 'A'; case 'b': 'B'; case 'c': 'C' }`. -/
def switchFallThroughTokens : Scanner :=
  .ofList [scanned .SWITCH "switch" 1, scanned .LEFT_PARENTHESIS "" 8,
    { scanned .STRING "'b'" 9 with string := "b" }, scanned .RIGHT_PARENTHESIS "" 12,
    scanned .LEFT_BRACE "" 14, scanned .CASE "case" 16,
    { scanned .STRING "'a'" 21 with string := "a" }, scanned .COLON "" 24,
    { scanned .STRING "'A'" 26 with string := "A" }, scanned .SEMICOLON "" 29,
    scanned .CASE "case" 31, { scanned .STRING "'b'" 36 with string := "b" },
    scanned .COLON "" 39, { scanned .STRING "'B'" 41 with string := "B" },
    scanned .SEMICOLON "" 44, scanned .CASE "case" 46,
    { scanned .STRING "'c'" 51 with string := "c" }, scanned .COLON "" 54,
    { scanned .STRING "'C'" 56 with string := "C" }, scanned .RIGHT_BRACE "" 60, scannedEOF 60]

/-- The source `switch ('z') { default: 'D'; case 'a': 'A' }`. -/
def switchDefaultFirstSource : List Nat :=
  asciiBytes "switch ('z') \x7b default: 'D'; case 'a': 'A' \x7d"

/-- The scanner's results on `switch ('z') { default: 'D'; case 'a': 'A' }`. -/
def switchDefaultFirstTokens : Scanner :=
  .ofList [scanned .SWITCH "switch" 1, scanned .LEFT_PARENTHESIS "" 8,
    { scanned .STRING "'z'" 9 with string := "z" }, scanned .RIGHT_PARENTHESIS "" 12,
    scanned .LEFT_BRACE "" 14, scanned .DEFAULT "default" 16, scanned .COLON "" 23,
    { scanned .STRING "'D'" 25 with string := "D" }, scanned .SEMICOLON "" 28,
    scanned .CASE "case" 30, { scanned .STRING "'a'" 35 with string := "a" },
    scanned .COLON "" 38, { scanned .STRING "'A'" 40 with string := "A" },
    scanned .RIGHT_BRACE "" 44, scannedEOF 44]

/-- The source `switch ('b') { case 'a': 'A'; case 'b': 'B'; break; case 'c': 'C' }`. -/
def switchBreakSource : List Nat :=
  asciiBytes "switch ('b') \x7b case 'a': 'A'; case 'b': 'B'; break; case 'c': 'C' \x7d"

/-- The scanner's results on `switch ('b') { case 'a': 'A'; case 'b': 'B'; break; case 'c': 'C'
}`. -/
def switchBreakTokens : Scanner :=
  .ofList [scanned .SWITCH "switch" 1, scanned .LEFT_PARENTHESIS "" 8,
    { scanned .STRING "'b'" 9 with string := "b" }, scanned .RIGHT_PARENTHESIS "" 12,
    scanned .LEFT_BRACE "" 14, scanned .CASE "case" 16,
    { scanned .STRING "'a'" 21 with string := "a" }, scanned .COLON "" 24,
    { scanned .STRING "'A'" 26 with string := "A" }, scanned .SEMICOLON "" 29,
    scanned .CASE "case" 31, { scanned .STRING "'b'" 36 with string := "b" },
    scanned .COLON "" 39, { scanned .STRING "'B'" 41 with string := "B" },
    scanned .SEMICOLON "" 44, scanned .BREAK "break" 46, scanned .SEMICOLON "" 51,
    scanned .CASE "case" 53, { scanned .STRING "'c'" 58 with string := "c" },
    scanned .COLON "" 61, { scanned .STRING "'C'" 63 with string := "C" },
    scanned .RIGHT_BRACE "" 67, scannedEOF 67]

/-- The source `switch ('z') { case 'a': 'A' }`. -/
def switchNoClauseSource : List Nat := asciiBytes "switch ('z') \x7b case 'a': 'A' \x7d"

/-- The scanner's results on `switch ('z') { case 'a': 'A' }`. -/
def switchNoClauseTokens : Scanner :=
  .ofList [scanned .SWITCH "switch" 1, scanned .LEFT_PARENTHESIS "" 8,
    { scanned .STRING "'z'" 9 with string := "z" }, scanned .RIGHT_PARENTHESIS "" 12,
    scanned .LEFT_BRACE "" 14, scanned .CASE "case" 16,
    { scanned .STRING "'a'" 21 with string := "a" }, scanned .COLON "" 24,
    { scanned .STRING "'A'" 26 with string := "A" }, scanned .RIGHT_BRACE "" 30, scannedEOF 30]

/-- The source `switch ('a') { case 'a': 'A'; case x: 'X' }`. -/
def switchTestBehindSource : List Nat :=
  asciiBytes "switch ('a') \x7b case 'a': 'A'; case x: 'X' \x7d"

/-- The scanner's results on `switch ('a') { case 'a': 'A'; case x: 'X' }`. -/
def switchTestBehindTokens : Scanner :=
  .ofList [scanned .SWITCH "switch" 1, scanned .LEFT_PARENTHESIS "" 8,
    { scanned .STRING "'a'" 9 with string := "a" }, scanned .RIGHT_PARENTHESIS "" 12,
    scanned .LEFT_BRACE "" 14, scanned .CASE "case" 16,
    { scanned .STRING "'a'" 21 with string := "a" }, scanned .COLON "" 24,
    { scanned .STRING "'A'" 26 with string := "A" }, scanned .SEMICOLON "" 29,
    scanned .CASE "case" 31, scanned .IDENTIFIER "x" 36, scanned .COLON "" 37,
    { scanned .STRING "'X'" 39 with string := "X" }, scanned .RIGHT_BRACE "" 43, scannedEOF 43]

/-- The source `switch ('b') { case x: 'X'; case 'b': 'B' }`. -/
def switchTestBeforeSource : List Nat :=
  asciiBytes "switch ('b') \x7b case x: 'X'; case 'b': 'B' \x7d"

/-- The scanner's results on `switch ('b') { case x: 'X'; case 'b': 'B' }`. -/
def switchTestBeforeTokens : Scanner :=
  .ofList [scanned .SWITCH "switch" 1, scanned .LEFT_PARENTHESIS "" 8,
    { scanned .STRING "'b'" 9 with string := "b" }, scanned .RIGHT_PARENTHESIS "" 12,
    scanned .LEFT_BRACE "" 14, scanned .CASE "case" 16, scanned .IDENTIFIER "x" 21,
    scanned .COLON "" 22, { scanned .STRING "'X'" 24 with string := "X" },
    scanned .SEMICOLON "" 27, scanned .CASE "case" 29,
    { scanned .STRING "'b'" 34 with string := "b" }, scanned .COLON "" 37,
    { scanned .STRING "'B'" 39 with string := "B" }, scanned .RIGHT_BRACE "" 43, scannedEOF 43]

/-- The source `L: while (true) { switch ('a') { case 'a': break L; } }`. -/
def switchBreakLabelSource : List Nat :=
  asciiBytes "L: while (true) \x7b switch ('a') \x7b case 'a': break L; \x7d \x7d"

/-- The scanner's results on `L: while (true) { switch ('a') { case 'a': break L; } }`. -/
def switchBreakLabelTokens : Scanner :=
  .ofList [scanned .IDENTIFIER "L" 1, scanned .COLON "" 2, scanned .WHILE "while" 4,
    scanned .LEFT_PARENTHESIS "" 10, scanned .BOOLEAN "true" 11,
    scanned .RIGHT_PARENTHESIS "" 15, scanned .LEFT_BRACE "" 17, scanned .SWITCH "switch" 19,
    scanned .LEFT_PARENTHESIS "" 26, { scanned .STRING "'a'" 27 with string := "a" },
    scanned .RIGHT_PARENTHESIS "" 30, scanned .LEFT_BRACE "" 32, scanned .CASE "case" 34,
    { scanned .STRING "'a'" 39 with string := "a" }, scanned .COLON "" 42,
    scanned .BREAK "break" 44, scanned .IDENTIFIER "L" 50, scanned .SEMICOLON "" 51,
    scanned .RIGHT_BRACE "" 53, scanned .RIGHT_BRACE "" 55, scannedEOF 55]

/-- The source `var x = 'a'; for (var i = 0; i < 2; i = i + 1) { switch ('a') { case 'a':
continue; } x = 'b' } x`. -/
def switchContinueSource : List Nat :=
  asciiBytes ("var x = 'a'; for (var i = 0; i < 2; i = i + 1) \x7b switch ('a') \x7b case 'a':" ++
    " continue; \x7d x = 'b' \x7d x")

/-- The scanner's results on `var x = 'a'; for (var i = 0; i < 2; i = i + 1) { switch ('a') {
case 'a': continue; } x = 'b' } x`. -/
def switchContinueTokens : Scanner :=
  .ofList [scanned .VAR "var" 1, scanned .IDENTIFIER "x" 5, scanned .ASSIGN "" 7,
    { scanned .STRING "'a'" 9 with string := "a" }, scanned .SEMICOLON "" 12,
    scanned .FOR "for" 14, scanned .LEFT_PARENTHESIS "" 18, scanned .VAR "var" 19,
    scanned .IDENTIFIER "i" 23, scanned .ASSIGN "" 25,
    { scanned .NUMBER "0" 27 with number := .ok (.int 0) }, scanned .SEMICOLON "" 28,
    scanned .IDENTIFIER "i" 30, scanned .LESS "" 32,
    { scanned .NUMBER "2" 34 with number := .ok (.int 2) }, scanned .SEMICOLON "" 35,
    scanned .IDENTIFIER "i" 37, scanned .ASSIGN "" 39, scanned .IDENTIFIER "i" 41,
    scanned .PLUS "" 43, { scanned .NUMBER "1" 45 with number := .ok (.int 1) },
    scanned .RIGHT_PARENTHESIS "" 46, scanned .LEFT_BRACE "" 48, scanned .SWITCH "switch" 50,
    scanned .LEFT_PARENTHESIS "" 57, { scanned .STRING "'a'" 58 with string := "a" },
    scanned .RIGHT_PARENTHESIS "" 61, scanned .LEFT_BRACE "" 63, scanned .CASE "case" 65,
    { scanned .STRING "'a'" 70 with string := "a" }, scanned .COLON "" 73,
    scanned .CONTINUE "continue" 75, scanned .SEMICOLON "" 83, scanned .RIGHT_BRACE "" 85,
    scanned .IDENTIFIER "x" 87, scanned .ASSIGN "" 89,
    { scanned .STRING "'b'" 91 with string := "b" }, scanned .RIGHT_BRACE "" 95,
    scanned .IDENTIFIER "x" 97, scannedEOF 97]

/-- The clauses `case 'a': 'A'` and `case 'b': 'B'`. -/
def clausesAB : List CaseStatement :=
  [.mk 16 (some (.StringLiteral 21 "'a'" "a"))
      [.ExpressionStatement (.StringLiteral 26 "'A'" "A")],
    .mk 31 (some (.StringLiteral 36 "'b'" "b"))
      [.ExpressionStatement (.StringLiteral 41 "'B'" "B")]]
/-- The source `for (var i = 0; i < 3; i = i + 1) { continue; } i`. -/
def forContinueSource : List Nat :=
  asciiBytes "for (var i = 0; i < 3; i = i + 1) \x7b continue; \x7d i"

/-- The scanner's results on `for (var i = 0; i < 3; i = i + 1) { continue; } i`. -/
def forContinueTokens : Scanner :=
  .ofList [scanned .FOR "for" 1, scanned .LEFT_PARENTHESIS "" 5, scanned .VAR "var" 6,
    scanned .IDENTIFIER "i" 10, scanned .ASSIGN "" 12,
    { scanned .NUMBER "0" 14 with number := .ok (.int 0) }, scanned .SEMICOLON "" 15,
    scanned .IDENTIFIER "i" 17, scanned .LESS "" 19,
    { scanned .NUMBER "3" 21 with number := .ok (.int 3) }, scanned .SEMICOLON "" 22,
    scanned .IDENTIFIER "i" 24, scanned .ASSIGN "" 26, scanned .IDENTIFIER "i" 28,
    scanned .PLUS "" 30, { scanned .NUMBER "1" 32 with number := .ok (.int 1) },
    scanned .RIGHT_PARENTHESIS "" 33, scanned .LEFT_BRACE "" 35, scanned .CONTINUE "continue" 37,
    scanned .SEMICOLON "" 45, scanned .RIGHT_BRACE "" 47, scanned .IDENTIFIER "i" 49,
    scannedEOF 49]

/-- The source `var i = 0; do { i = i + 1; continue; } while (i < 3); i`. -/
def doWhileContinueSource : List Nat :=
  asciiBytes "var i = 0; do \x7b i = i + 1; continue; \x7d while (i < 3); i"

/-- The scanner's results on `var i = 0; do { i = i + 1; continue; } while (i < 3); i`. -/
def doWhileContinueTokens : Scanner :=
  .ofList [scanned .VAR "var" 1, scanned .IDENTIFIER "i" 5, scanned .ASSIGN "" 7,
    { scanned .NUMBER "0" 9 with number := .ok (.int 0) }, scanned .SEMICOLON "" 10,
    scanned .DO "do" 12, scanned .LEFT_BRACE "" 15, scanned .IDENTIFIER "i" 17,
    scanned .ASSIGN "" 19, scanned .IDENTIFIER "i" 21, scanned .PLUS "" 23,
    { scanned .NUMBER "1" 25 with number := .ok (.int 1) }, scanned .SEMICOLON "" 26,
    scanned .CONTINUE "continue" 28, scanned .SEMICOLON "" 36, scanned .RIGHT_BRACE "" 38,
    scanned .WHILE "while" 40, scanned .LEFT_PARENTHESIS "" 46, scanned .IDENTIFIER "i" 47,
    scanned .LESS "" 49, { scanned .NUMBER "3" 51 with number := .ok (.int 3) },
    scanned .RIGHT_PARENTHESIS "" 52, scanned .SEMICOLON "" 53, scanned .IDENTIFIER "i" 55,
    scannedEOF 55]

/-- The source `var i = 0; do { i = 1 } while (false); i`. -/
def doWhileOnceSource : List Nat := asciiBytes "var i = 0; do \x7b i = 1 \x7d while (false); i"

/-- The scanner's results on `var i = 0; do { i = 1 } while (false); i`. -/
def doWhileOnceTokens : Scanner :=
  .ofList [scanned .VAR "var" 1, scanned .IDENTIFIER "i" 5, scanned .ASSIGN "" 7,
    { scanned .NUMBER "0" 9 with number := .ok (.int 0) }, scanned .SEMICOLON "" 10,
    scanned .DO "do" 12, scanned .LEFT_BRACE "" 15, scanned .IDENTIFIER "i" 17,
    scanned .ASSIGN "" 19, { scanned .NUMBER "1" 21 with number := .ok (.int 1) },
    scanned .RIGHT_BRACE "" 23, scanned .WHILE "while" 25, scanned .LEFT_PARENTHESIS "" 31,
    scanned .BOOLEAN "false" 32, scanned .RIGHT_PARENTHESIS "" 37, scanned .SEMICOLON "" 38,
    scanned .IDENTIFIER "i" 40, scannedEOF 40]

/-- The source `var i = 0; while (false) { i = 1 } i`. -/
def whileNeverSource : List Nat := asciiBytes "var i = 0; while (false) \x7b i = 1 \x7d i"

/-- The scanner's results on `var i = 0; while (false) { i = 1 } i`. -/
def whileNeverTokens : Scanner :=
  .ofList [scanned .VAR "var" 1, scanned .IDENTIFIER "i" 5, scanned .ASSIGN "" 7,
    { scanned .NUMBER "0" 9 with number := .ok (.int 0) }, scanned .SEMICOLON "" 10,
    scanned .WHILE "while" 12, scanned .LEFT_PARENTHESIS "" 18, scanned .BOOLEAN "false" 19,
    scanned .RIGHT_PARENTHESIS "" 24, scanned .LEFT_BRACE "" 26, scanned .IDENTIFIER "i" 28,
    scanned .ASSIGN "" 30, { scanned .NUMBER "1" 32 with number := .ok (.int 1) },
    scanned .RIGHT_BRACE "" 34, scanned .IDENTIFIER "i" 36, scannedEOF 36]

/-- The source `var i = 0; for (; false; ) { i = 1 } i`. -/
def forNeverSource : List Nat := asciiBytes "var i = 0; for (; false; ) \x7b i = 1 \x7d i"

/-- The scanner's results on `var i = 0; for (; false; ) { i = 1 } i`. -/
def forNeverTokens : Scanner :=
  .ofList [scanned .VAR "var" 1, scanned .IDENTIFIER "i" 5, scanned .ASSIGN "" 7,
    { scanned .NUMBER "0" 9 with number := .ok (.int 0) }, scanned .SEMICOLON "" 10,
    scanned .FOR "for" 12, scanned .LEFT_PARENTHESIS "" 16, scanned .SEMICOLON "" 17,
    scanned .BOOLEAN "false" 19, scanned .SEMICOLON "" 24, scanned .RIGHT_PARENTHESIS "" 26,
    scanned .LEFT_BRACE "" 28, scanned .IDENTIFIER "i" 30, scanned .ASSIGN "" 32,
    { scanned .NUMBER "1" 34 with number := .ok (.int 1) }, scanned .RIGHT_BRACE "" 36,
    scanned .IDENTIFIER "i" 38, scannedEOF 38]

/-! # Theorems -/

/-! ## Labels and branches -/

/-- `hasLabel` finds a label exactly in the scope itself or in an outer scope such that no
scope on the way out to it (the scope itself included) has `inFunction` set. -/
theorem hasLabel_iff (name : String) (stack : List Scope) :
    hasLabel name stack = true ↔
      ∃ inner scope outer, stack = inner ++ scope :: outer ∧ name ∈ scope.labels ∧
        ∀ s ∈ inner, s.inFunction = false := by
  induction stack with
  | nil => simp [hasLabel]
  | cons s0 rest ih =>
    unfold hasLabel
    constructor
    · intro h
      by_cases h0 : name ∈ s0.labels
      · exact ⟨[], s0, rest, rfl, h0, by simp⟩
      · simp only [h0, if_false] at h
        split at h
        · rename_i hc
          simp only [Bool.and_eq_true, Bool.not_eq_true', List.isEmpty_eq_false] at hc
          obtain ⟨inner, scope, outer, he, hm, hall⟩ := ih.mp h
          refine ⟨s0 :: inner, scope, outer, by simp [he], hm, ?_⟩
          intro s hs
          rcases List.mem_cons.mp hs with rfl | hs
          · exact hc.2
          · exact hall s hs
        · simp at h
    · rintro ⟨inner, scope, outer, he, hm, hall⟩
      cases inner with
      | nil =>
        simp only [List.nil_append, List.cons.injEq] at he
        obtain ⟨rfl, rfl⟩ := he
        simp [hm]
      | cons t inner =>
        simp only [List.cons_append, List.cons.injEq] at he
        obtain ⟨rfl, rfl⟩ := he
        by_cases h0 : name ∈ s0.labels
        · simp [h0]
        · have h1 : s0.inFunction = false := hall s0 (by simp)
          have h2 : hasLabel name (inner ++ scope :: outer) = true :=
            ih.mpr ⟨inner, scope, outer, rfl, hm, fun s hs => hall s (by simp [hs])⟩
          simp [h0, h1, h2]

/-- `next` leaves the scope stack alone. -/
theorem Parser.next_scope (self : Parser) : self.next.scope = self.scope := by
  simp only [Parser.next]; split <;> rfl

/-- `error` appends one message. -/
theorem Parser.error_messages (self : Parser) (place : Idx) (message : String) :
    (self.error place message).messages = self.messages ++ [message] := by
  simp [Parser.error, Parser.messages]

/-- `parseBreakStatement` at `break L` (the label on the line of `break`). -/
theorem parseBreakStatement_label (self : Parser) (h0 : self.token = .BREAK)
    (h1 : self.next.token = .IDENTIFIER) (h2 : self.next.implicitSemicolon = false) :
    self.parseBreakStatement =
      if hasLabel self.next.literal self.scope then
        (.BranchStatement self.idx .BREAK (some ⟨self.next.literal, self.next.idx⟩),
          self.next.next.semicolon)
      else
        (.BadStatement self.idx (self.next.idx + self.next.literal.utf8ByteSize),
          self.next.next.error self.idx ("Undefined label '" ++ self.next.literal ++ "'")) := by
  have hs : self.next.next.scope = self.scope := by rw [Parser.next_scope, Parser.next_scope]
  simp only [Parser.parseBreakStatement, Parser.expect, h0, ne_eq, not_true_eq_false,
    if_false, h1, h2, Parser.parseIdentifier, hs, Identifier.Idx1]
  cases h : hasLabel self.next.literal self.scope <;> simp [h, h1, hs]

/-- `parseContinueStatement` at `continue L` (the label on the line of `continue`). -/
theorem parseContinueStatement_label (self : Parser) (h0 : self.token = .CONTINUE)
    (h1 : self.next.token = .IDENTIFIER) (h2 : self.next.implicitSemicolon = false) :
    self.parseContinueStatement =
      if hasLabel self.next.literal self.scope then
        if self.currentScope.inIteration then
          (.BranchStatement self.idx .CONTINUE (some ⟨self.next.literal, self.next.idx⟩),
            self.next.next.semicolon)
        else self.next.next.illegalBranch self.idx "Illegal continue statement"
      else
        (.BadStatement self.idx (self.next.idx + self.next.literal.utf8ByteSize),
          self.next.next.error self.idx ("Undefined label '" ++ self.next.literal ++ "'")) := by
  have hs : self.next.next.scope = self.scope := by rw [Parser.next_scope, Parser.next_scope]
  have hc : self.next.next.currentScope = self.currentScope := by
    simp only [Parser.currentScope, hs]
  simp only [Parser.parseContinueStatement, Parser.expect, h0, ne_eq, not_true_eq_false,
    if_false, h1, h2, Parser.parseIdentifier, hs, hc, Identifier.Idx1]
  cases h : hasLabel self.next.literal self.scope <;>
    cases h' : self.currentScope.inIteration <;> simp [h, h', h1, hs, hc]

section Steps

/-! ## Steps of the parser -/

theorem Parser.Steps.refl (p : Parser) : p.Steps p :=
  ⟨⟨[], by simp⟩, le_refl _, fun _ => rfl, rfl, rfl⟩

theorem Parser.Steps.trans {p q r : Parser} (h1 : p.Steps q) (h2 : q.Steps r) : p.Steps r := by
  obtain ⟨l1, e1⟩ := h1.errors
  obtain ⟨l2, e2⟩ := h2.errors
  refine ⟨⟨l1 ++ l2, by rw [e2, e1, List.append_assoc]⟩, le_trans h2.measure h1.measure, ?_,
    h2.source.trans h1.source, h2.filename.trans h1.filename⟩
  intro h
  have hq : q.measure = p.measure := le_antisymm h1.measure (h ▸ h2.measure)
  rw [h2.token (h.trans hq.symm), h1.token hq]

/-- A step that changes neither what is scanned nor the errors. -/
theorem Parser.Steps.of_eq {p q : Parser} (he : q.errors = p.errors)
    (hs : q.scanner = p.scanner) (hr : q.rescan = p.rescan) (ht : q.token = p.token)
    (hi : q.implicitSemicolon = p.implicitSemicolon) (hsrc : q.source = p.source)
    (hf : q.filename = p.filename) : p.Steps q :=
  ⟨⟨[], by simp [he]⟩, by simp [Parser.measure, Parser.remaining, hs, hr, ht, hi],
    fun _ => ht, hsrc, hf⟩

theorem Parser.steps_next (p : Parser) : p.Steps p.next := by
  unfold Parser.next
  split
  · rename_i hs
    refine ⟨⟨[], by simp⟩, ?_, ?_, rfl, rfl⟩
    · simp [Parser.measure, Parser.remaining, hs, Scanner.size]
    · simp only [Parser.measure, Parser.remaining, hs, Scanner.size]
      intro h
      by_cases ht : p.token = .EOF
      · simp [ht]
      · simp [ht] at h
        omega
  · rename_i s rest hs
    refine ⟨⟨s.errors, rfl⟩, ?_, ?_, rfl, rfl⟩
    · simp only [Parser.measure, Parser.remaining, hs, Scanner.size]
      split <;> split <;> split <;> split <;> split <;> omega
    · simp only [Parser.measure, Parser.remaining, hs, Scanner.size]
      intro h
      exfalso
      revert h
      split <;> split <;> split <;> split <;> split <;> omega
  · rename_i s rest re reRest hs
    refine ⟨⟨s.errors, rfl⟩, ?_, ?_, rfl, rfl⟩
    · simp only [Parser.measure, Parser.remaining, hs, Scanner.size]
      split <;> split <;> split <;> split <;> split <;> omega
    · simp only [Parser.measure, Parser.remaining, hs, Scanner.size]
      intro h
      exfalso
      revert h
      split <;> split <;> split <;> split <;> split <;> omega

theorem Parser.next_measure_lt (p : Parser) (h : p.token ≠ .EOF) :
    p.next.measure < p.measure := by
  unfold Parser.next
  split
  · rename_i hs
    simp [Parser.measure, Parser.remaining, hs, Scanner.size, h]
  · rename_i s rest hs
    simp only [Parser.measure, Parser.remaining, hs, Scanner.size, h, if_false]
    repeat' split
    all_goals omega
  · rename_i s rest re reRest hs
    simp only [Parser.measure, Parser.remaining, hs, Scanner.size, h, if_false]
    repeat' split
    all_goals omega

theorem Parser.Steps.next {p q : Parser} (h : p.Steps q) : p.Steps q.next :=
  h.trans (Parser.steps_next q)

theorem Parser.steps_error (p : Parser) (place : Idx) (message : String) :
    p.Steps (p.error place message) :=
  ⟨⟨_, rfl⟩, le_refl _, fun _ => rfl, rfl, rfl⟩

theorem Parser.Steps.error {p q : Parser} (h : p.Steps q) (place : Idx) (message : String) :
    p.Steps (q.error place message) :=
  h.trans (Parser.steps_error q place message)

theorem Parser.steps_errorUnexpectedToken (p : Parser) (tkn : Token) :
    p.Steps (p.errorUnexpectedToken tkn) := by
  unfold Parser.errorUnexpectedToken
  repeat' split
  all_goals exact Parser.steps_error _ _ _

theorem Parser.Steps.errorUnexpectedToken {p q : Parser} (h : p.Steps q) (tkn : Token) :
    p.Steps (q.errorUnexpectedToken tkn) :=
  h.trans (Parser.steps_errorUnexpectedToken q tkn)

theorem Parser.steps_expect (p : Parser) (value : Token) : p.Steps (p.expect value).2 := by
  unfold Parser.expect
  dsimp only
  split
  · exact ((Parser.Steps.refl p).errorUnexpectedToken _).next
  · exact (Parser.Steps.refl p).next

theorem Parser.Steps.expect {p q : Parser} (h : p.Steps q) (value : Token) :
    p.Steps (q.expect value).2 :=
  h.trans (Parser.steps_expect q value)

theorem Parser.errorUnexpectedToken_measure (p : Parser) (tkn : Token) :
    (p.errorUnexpectedToken tkn).measure = p.measure := by
  unfold Parser.errorUnexpectedToken
  repeat' split
  all_goals rfl

theorem Parser.errorUnexpectedToken_token (p : Parser) (tkn : Token) :
    (p.errorUnexpectedToken tkn).token = p.token := by
  unfold Parser.errorUnexpectedToken
  repeat' split
  all_goals rfl

theorem Parser.expect_measure_lt (p : Parser) (value : Token) (h : p.token ≠ .EOF) :
    (p.expect value).2.measure < p.measure := by
  unfold Parser.expect
  dsimp only
  split
  · have := Parser.next_measure_lt (p.errorUnexpectedToken p.token)
      (by rw [Parser.errorUnexpectedToken_token]; exact h)
    rw [Parser.errorUnexpectedToken_measure] at this
    exact this
  · exact Parser.next_measure_lt p h

theorem Parser.steps_clearImplicit (p : Parser) :
    p.Steps { p with implicitSemicolon := false } := by
  refine ⟨⟨[], by simp⟩, ?_, fun _ => rfl, rfl, rfl⟩
  simp only [Parser.measure, Parser.remaining]
  split <;> split <;> simp

theorem Parser.Steps.clearImplicit {p q : Parser} (h : p.Steps q) :
    p.Steps { q with implicitSemicolon := false } :=
  h.trans (Parser.steps_clearImplicit q)

theorem Parser.steps_semicolon (p : Parser) : p.Steps p.semicolon := by
  unfold Parser.semicolon
  split
  · split
    · exact Parser.steps_clearImplicit p
    · exact Parser.steps_expect p _
  · exact Parser.Steps.refl p

theorem Parser.Steps.semicolon {p q : Parser} (h : p.Steps q) : p.Steps q.semicolon :=
  h.trans (Parser.steps_semicolon q)

theorem Parser.steps_optionalSemicolon (p : Parser) : p.Steps p.optionalSemicolon := by
  unfold Parser.optionalSemicolon
  split
  · exact Parser.steps_next p
  · split
    · exact Parser.steps_clearImplicit p
    · split
      · exact Parser.steps_expect p _
      · exact Parser.Steps.refl p

theorem Parser.Steps.optionalSemicolon {p q : Parser} (h : p.Steps q) :
    p.Steps q.optionalSemicolon :=
  h.trans (Parser.steps_optionalSemicolon q)

theorem Parser.steps_modifyScope (p : Parser) (f : Scope → Scope) :
    p.Steps (p.modifyScope f) := by
  unfold Parser.modifyScope
  split
  · exact Parser.Steps.refl p
  · exact Parser.Steps.of_eq rfl rfl rfl rfl rfl rfl rfl

theorem Parser.Steps.modifyScope {p q : Parser} (h : p.Steps q) (f : Scope → Scope) :
    p.Steps (q.modifyScope f) :=
  h.trans (Parser.steps_modifyScope q f)

theorem Parser.Steps.openScope {p q : Parser} (h : p.Steps q) : p.Steps q.openScope :=
  h.trans (Parser.Steps.of_eq rfl rfl rfl rfl rfl rfl rfl)

theorem Parser.Steps.closeScope {p q : Parser} (h : p.Steps q) : p.Steps q.closeScope :=
  h.trans (Parser.Steps.of_eq rfl rfl rfl rfl rfl rfl rfl)

theorem Parser.Steps.addVariable {p q : Parser} (h : p.Steps q) (name : String) :
    p.Steps (q.addVariable name) :=
  h.modifyScope _

theorem Parser.Steps.addFunction {p q : Parser} (h : p.Steps q) (name : String)
    (d : Definition) : p.Steps (q.addFunction name d) :=
  h.modifyScope _

theorem Parser.Steps.addVariables {p q : Parser} (h : p.Steps q) (list : List Expression) :
    p.Steps (q.addVariables list) := by
  induction list generalizing q with
  | nil => exact h
  | cons e rest ih =>
    cases e <;> simp only [Parser.addVariables] <;> first | exact ih h | exact ih (h.addVariable _)

theorem Parser.Steps.checkLabel {p q : Parser} (h : p.Steps q) (idx0 : Idx) (label : String)
    (labels : List String) : p.Steps (q.checkLabel idx0 label labels) := by
  induction labels generalizing q with
  | nil => exact h
  | cons v rest ih =>
    simp only [Parser.checkLabel]
    split
    · exact ih (h.error _ _)
    · exact ih h

theorem Parser.steps_nextStatementLoop (fuel : Nat) (p : Parser) :
    p.Steps (p.nextStatementLoop fuel) := by
  induction fuel generalizing p with
  | zero => exact Parser.Steps.refl p
  | succ n ih =>
    simp only [Parser.nextStatementLoop]
    split
    · split
      · exact Parser.Steps.of_eq rfl rfl rfl rfl rfl rfl rfl
      · split
        · exact Parser.Steps.of_eq rfl rfl rfl rfl rfl rfl rfl
        · exact (Parser.steps_next p).trans (ih _)
    · split
      · exact Parser.Steps.refl p
      · exact (Parser.steps_next p).trans (ih _)

theorem Parser.Steps.nextStatement {p q : Parser} (h : p.Steps q) : p.Steps q.nextStatement :=
  h.trans (Parser.steps_nextStatementLoop _ q)

theorem Parser.Steps.parseIdentifier {p q : Parser} (h : p.Steps q) :
    p.Steps q.parseIdentifier.2 :=
  h.next

theorem Parser.steps_scanString (p : Parser) : p.Steps p.scanString.2 := by
  unfold Parser.scanString
  split
  · rename_i re reRest hr
    refine ⟨⟨re.errors, rfl⟩, ?_, fun _ => rfl, rfl, rfl⟩
    simp [Parser.measure, Parser.remaining, hr]
  · exact Parser.Steps.refl p

theorem Parser.Steps.parseRegExpLiteral_from {p q : Parser} (h1 : p.Steps q.scanString.2.next) :
    p.Steps q.parseRegExpLiteral.2 := by
  unfold Parser.parseRegExpLiteral
  dsimp only
  split <;> split <;> first | exact h1.next.error _ _ | exact h1.next | exact h1.error _ _ | exact h1

theorem Parser.Steps.parseRegExpLiteral {p q : Parser} (h : p.Steps q) :
    p.Steps q.parseRegExpLiteral.2 :=
  Parser.Steps.parseRegExpLiteral_from (h.trans (Parser.steps_scanString q)).next

theorem Parser.Steps.parseObjectPropertyKey_from {p q : Parser} (h : p.Steps q.next) :
    p.Steps q.parseObjectPropertyKey.2 := by
  unfold Parser.parseObjectPropertyKey
  dsimp only
  repeat' split
  all_goals first | exact h | exact h.error _ _

theorem Parser.Steps.parseObjectPropertyKey {p q : Parser} (h : p.Steps q) :
    p.Steps q.parseObjectPropertyKey.2 :=
  Parser.Steps.parseObjectPropertyKey_from h.next

theorem Parser.Steps.parseDotMember {p q : Parser} (h : p.Steps q) (left : Expression) :
    p.Steps (q.parseDotMember left).2 := by
  unfold Parser.parseDotMember
  dsimp only
  split
  · exact ((h.expect _).expect _).nextStatement
  · exact (h.expect _).next

theorem Parser.Steps.parseEmptyStatement {p q : Parser} (h : p.Steps q) :
    p.Steps q.parseEmptyStatement.2 :=
  h.expect _

theorem Parser.steps_parseFunctionParameterListLoop (fuel : Nat) (list : List String)
    (p : Parser) : p.Steps (p.parseFunctionParameterListLoop fuel list).2 := by
  induction fuel generalizing p list with
  | zero => exact Parser.Steps.refl p
  | succ n ih =>
    simp only [Parser.parseFunctionParameterListLoop]
    split
    · refine Parser.Steps.trans ?_ (ih _ _)
      split <;> split <;>
        first
          | exact (((Parser.Steps.refl p).expect _).next).expect _
          | exact ((Parser.Steps.refl p).expect _).next
          | exact ((Parser.Steps.refl p).next).expect _
          | exact (Parser.Steps.refl p).next
    · exact Parser.Steps.refl p

theorem Parser.Steps.parseFunctionParameterList {p q : Parser} (h : p.Steps q) :
    p.Steps q.parseFunctionParameterList.2 := by
  unfold Parser.parseFunctionParameterList
  dsimp only
  exact ((h.expect _).trans (Parser.steps_parseFunctionParameterListLoop _ _ _)).expect _

theorem Parser.Steps.illegalBranch {p q : Parser} (h : p.Steps q) (idx : Idx)
    (message : String) : p.Steps (q.illegalBranch idx message).2 :=
  (h.error _ _).nextStatement

theorem Parser.Steps.parseBreakStatement_from {p q : Parser}
    (h1 : p.Steps (q.expect .BREAK).2) : p.Steps q.parseBreakStatement.2 := by
  unfold Parser.parseBreakStatement
  dsimp only
  have h2 : p.Steps (if (q.expect .BREAK).2.token = .SEMICOLON then (q.expect .BREAK).2.next
      else (q.expect .BREAK).2) := by
    split
    · exact h1.next
    · exact h1
  generalize (if (q.expect .BREAK).2.token = .SEMICOLON then (q.expect .BREAK).2.next
      else (q.expect .BREAK).2) = q2 at h2 ⊢
  split_ifs <;>
    first
      | with_reducible exact h2.clearImplicit.illegalBranch _ _
      | with_reducible exact h2.clearImplicit
      | with_reducible exact h2.parseIdentifier.error _ _
      | with_reducible exact h2.parseIdentifier.semicolon
      | with_reducible exact (h2.expect _).illegalBranch _ _

theorem Parser.Steps.parseBreakStatement {p q : Parser} (h : p.Steps q) :
    p.Steps q.parseBreakStatement.2 :=
  Parser.Steps.parseBreakStatement_from (h.expect _)

theorem Parser.Steps.parseContinueStatement_from {p q : Parser}
    (h1 : p.Steps (q.expect .CONTINUE).2) : p.Steps q.parseContinueStatement.2 := by
  unfold Parser.parseContinueStatement
  dsimp only
  have h2 : p.Steps (if (q.expect .CONTINUE).2.token = .SEMICOLON then
      (q.expect .CONTINUE).2.next else (q.expect .CONTINUE).2) := by
    split
    · exact h1.next
    · exact h1
  generalize (if (q.expect .CONTINUE).2.token = .SEMICOLON then (q.expect .CONTINUE).2.next
      else (q.expect .CONTINUE).2) = q2 at h2 ⊢
  split_ifs <;>
    first
      | with_reducible exact h2.clearImplicit.illegalBranch _ _
      | with_reducible exact h2.clearImplicit
      | with_reducible exact h2.parseIdentifier.error _ _
      | with_reducible exact h2.parseIdentifier.illegalBranch _ _
      | with_reducible exact h2.parseIdentifier.semicolon
      | with_reducible exact (h2.expect _).illegalBranch _ _

theorem Parser.Steps.parseContinueStatement {p q : Parser} (h : p.Steps q) :
    p.Steps q.parseContinueStatement.2 :=
  Parser.Steps.parseContinueStatement_from (h.expect _)

/-! ### The scope stack under the steps that do not touch it -/

attribute [simp] Parser.next_scope

@[simp] theorem Parser.error_scope (self : Parser) (place : Idx) (message : String) :
    (self.error place message).scope = self.scope := rfl

@[simp] theorem Parser.errorUnexpectedToken_scope (self : Parser) (tkn : Token) :
    (self.errorUnexpectedToken tkn).scope = self.scope := by
  unfold Parser.errorUnexpectedToken
  repeat' split
  all_goals rfl

@[simp] theorem Parser.expect_scope (self : Parser) (value : Token) :
    (self.expect value).2.scope = self.scope := by
  unfold Parser.expect
  dsimp only
  split <;> simp

@[simp] theorem Parser.semicolon_scope (self : Parser) : self.semicolon.scope = self.scope := by
  unfold Parser.semicolon
  repeat' split
  all_goals simp

@[simp] theorem Parser.optionalSemicolon_scope (self : Parser) :
    self.optionalSemicolon.scope = self.scope := by
  unfold Parser.optionalSemicolon
  repeat' split
  all_goals simp

@[simp] theorem Parser.nextStatementLoop_scope (fuel : Nat) (self : Parser) :
    (self.nextStatementLoop fuel).scope = self.scope := by
  induction fuel generalizing self with
  | zero => rfl
  | succ n ih =>
    simp only [Parser.nextStatementLoop]
    repeat' split
    all_goals simp [ih]

@[simp] theorem Parser.nextStatement_scope (self : Parser) :
    self.nextStatement.scope = self.scope :=
  Parser.nextStatementLoop_scope _ _

@[simp] theorem Parser.parseIdentifier_scope (self : Parser) :
    self.parseIdentifier.2.scope = self.scope := by
  simp [Parser.parseIdentifier]

@[simp] theorem Parser.scanString_scope (self : Parser) :
    self.scanString.2.scope = self.scope := by
  unfold Parser.scanString
  split <;> rfl

@[simp] theorem Parser.parseRegExpLiteral_scope (self : Parser) :
    self.parseRegExpLiteral.2.scope = self.scope := by
  unfold Parser.parseRegExpLiteral
  dsimp only
  repeat' split
  all_goals simp

@[simp] theorem Parser.parseObjectPropertyKey_scope (self : Parser) :
    self.parseObjectPropertyKey.2.scope = self.scope := by
  unfold Parser.parseObjectPropertyKey
  dsimp only
  repeat' split
  all_goals simp

@[simp] theorem Parser.parseDotMember_scope (left : Expression) (self : Parser) :
    (self.parseDotMember left).2.scope = self.scope := by
  unfold Parser.parseDotMember
  dsimp only
  repeat' split
  all_goals simp

@[simp] theorem Parser.parseEmptyStatement_scope (self : Parser) :
    self.parseEmptyStatement.2.scope = self.scope := by
  simp [Parser.parseEmptyStatement]

@[simp] theorem Parser.parseFunctionParameterListLoop_scope (fuel : Nat) (list : List String)
    (self : Parser) : (self.parseFunctionParameterListLoop fuel list).2.scope = self.scope := by
  induction fuel generalizing self list with
  | zero => rfl
  | succ n ih =>
    simp only [Parser.parseFunctionParameterListLoop]
    split
    · rw [ih]
      split <;> split <;> simp
    · rfl

@[simp] theorem Parser.parseFunctionParameterList_scope (self : Parser) :
    self.parseFunctionParameterList.2.scope = self.scope := by
  simp [Parser.parseFunctionParameterList]

@[simp] theorem Parser.illegalBranch_scope (self : Parser) (idx : Idx) (message : String) :
    (self.illegalBranch idx message).2.scope = self.scope := by
  simp [Parser.illegalBranch]

@[simp] theorem Parser.parseBreakStatement_scope (self : Parser) :
    self.parseBreakStatement.2.scope = self.scope := by
  unfold Parser.parseBreakStatement
  dsimp only
  split_ifs <;> simp

@[simp] theorem Parser.parseContinueStatement_scope (self : Parser) :
    self.parseContinueStatement.2.scope = self.scope := by
  unfold Parser.parseContinueStatement
  dsimp only
  split_ifs <;> simp

@[simp] theorem Parser.checkLabel_scope (self : Parser) (idx0 : Idx) (label : String)
    (labels : List String) : (self.checkLabel idx0 label labels).scope = self.scope := by
  induction labels generalizing self with
  | nil => rfl
  | cons v rest ih =>
    simp only [Parser.checkLabel]
    rw [ih]
    split <;> simp

/-! ### Frames -/

theorem Scope.Extends.itself (s : Scope) : s.Extends s :=
  ⟨rfl, rfl, rfl, rfl, rfl, ⟨[], by simp⟩, ⟨[], by simp⟩⟩

theorem Scope.Extends.further {s t u : Scope} (h1 : s.Extends t) (h2 : t.Extends u) :
    s.Extends u := by
  obtain ⟨a1, b1, c1, d1, e1, ⟨v1, hv1⟩, ⟨f1, hf1⟩⟩ := h1
  obtain ⟨a2, b2, c2, d2, e2, ⟨v2, hv2⟩, ⟨f2, hf2⟩⟩ := h2
  exact ⟨a2.trans a1, b2.trans b1, c2.trans c1, d2.trans d1, e2.trans e1,
    ⟨v1 ++ v2, by rw [hv2, hv1, List.append_assoc]⟩,
    ⟨f1 ++ f2, by rw [hf2, hf1, List.append_assoc]⟩⟩

theorem Frame.same (s : List Scope) : Frame s s := by
  cases s with
  | nil => trivial
  | cons a r => exact ⟨Scope.Extends.itself a, rfl⟩

theorem Frame.of_scope_eq {s t : List Scope} (h : t = s) : Frame s t := h ▸ Frame.same s

theorem Frame.and_frame {s t u : List Scope} (h1 : Frame s t) (h2 : Frame t u) : Frame s u := by
  cases s with
  | nil =>
    cases t with
    | nil => exact h2
    | cons _ _ => exact h1.elim
  | cons a r =>
    cases t with
    | nil => exact h1.elim
    | cons b r' =>
      cases u with
      | nil => exact h2.elim
      | cons c r'' =>
        obtain ⟨e1, rfl⟩ := h1
        obtain ⟨e2, rfl⟩ := h2
        exact ⟨e1.further e2, rfl⟩

/-- A frame keeps the depth of the stack. -/
theorem Frame.length {s t : List Scope} (h : Frame s t) : t.length = s.length := by
  cases s <;> cases t <;> simp_all [Frame]

theorem Frame.sealed {s t : List Scope} (h : Frame s t) (hs : Sealed s) : Sealed t := by
  cases s with
  | nil => cases t with
    | nil => trivial
    | cons _ _ => exact h.elim
  | cons a r => cases t with
    | nil => exact h.elim
    | cons b r' =>
      obtain ⟨e, rfl⟩ := h
      simp only [Sealed] at hs ⊢
      rw [e.2.2.2.1]
      exact hs

theorem Frame.of_addVariable (p : Parser) (name : String) :
    Frame p.scope (p.addVariable name).scope := by
  unfold Parser.addVariable Parser.modifyScope
  split
  · rename_i h; simp [h, Frame]
  · rename_i s outer h
    rw [h]
    exact ⟨⟨rfl, rfl, rfl, rfl, rfl, ⟨_, rfl⟩, ⟨[], by simp⟩⟩, rfl⟩

theorem Frame.of_addFunction (p : Parser) (name : String) (d : Definition) :
    Frame p.scope (p.addFunction name d).scope := by
  unfold Parser.addFunction Parser.modifyScope
  split
  · rename_i h; simp [h, Frame]
  · rename_i s outer h
    rw [h]
    exact ⟨⟨rfl, rfl, rfl, rfl, rfl, ⟨[], by simp⟩, ⟨_, rfl⟩⟩, rfl⟩

theorem Frame.of_addVariables (p : Parser) (list : List Expression) :
    Frame p.scope (p.addVariables list).scope := by
  induction list generalizing p with
  | nil => exact Frame.same _
  | cons e rest ih =>
    cases e <;> simp only [Parser.addVariables] <;>
      first | exact ih _ | exact (Frame.of_addVariable _ _).and_frame (ih _)

/-! ### Reaching -/

theorem Reaching.stay (p : Parser) : Reaches p p :=
  ⟨Parser.Steps.refl p, Frame.same _, fun h => h.elim⟩

theorem Reaching.weaken {s s' : Prop} {p q : Parser} (h : Reaching s p q) (hs : s' → s) :
    Reaching s' p q :=
  ⟨h.1, h.2.1, fun x => h.2.2 (hs x)⟩

theorem Reaching.reaches {s : Prop} {p q : Parser} (h : Reaching s p q) : Reaches p q :=
  h.weaken fun x => x.elim

theorem Reaching.and_then {s s' : Prop} {p q r : Parser} (h1 : Reaching s p q)
    (h2 : Reaching s' q r) : Reaching s p r :=
  ⟨h1.1.trans h2.1, h1.2.1.and_frame h2.2.1, fun x => lt_of_le_of_lt h2.1.measure (h1.2.2 x)⟩

/-- Progress in the second part of a run is progress of the run. -/
theorem Reaching.trans_strict {s s' : Prop} {p q r : Parser} (h1 : Reaching s' p q)
    (h2 : Reaching s q r) : Reaching s p r :=
  ⟨h1.1.trans h2.1, h1.2.1.and_frame h2.2.1, fun x => lt_of_lt_of_le (h2.2.2 x) h1.1.measure⟩

theorem Reaching.step {s : Prop} {p q r : Parser} (h : Reaching s p q) (h1 : q.Steps r)
    (h2 : r.scope = q.scope) : Reaching s p r :=
  ⟨h.1.trans h1, h.2.1.and_frame (Frame.of_scope_eq h2), fun x => lt_of_le_of_lt h1.measure (h.2.2 x)⟩

theorem Reaching.of_lt {s : Prop} {p q : Parser} (h : Reaches p q)
    (hlt : s → q.measure < p.measure) : Reaching s p q :=
  ⟨h.1, h.2.1, hlt⟩

theorem Reaching.to_next {s : Prop} {p q : Parser} (h : Reaching s p q) : Reaching s p q.next :=
  h.step (Parser.steps_next q) (by simp)

theorem Reaching.to_error {s : Prop} {p q : Parser} (h : Reaching s p q) (place : Idx)
    (message : String) : Reaching s p (q.error place message) :=
  h.step (Parser.steps_error q _ _) (by simp)

theorem Reaching.to_errorUnexpectedToken {s : Prop} {p q : Parser} (h : Reaching s p q)
    (tkn : Token) : Reaching s p (q.errorUnexpectedToken tkn) :=
  h.step (Parser.steps_errorUnexpectedToken q _) (by simp)

theorem Reaching.to_expect {s : Prop} {p q : Parser} (h : Reaching s p q) (value : Token) :
    Reaching s p (q.expect value).2 :=
  h.step (Parser.steps_expect q _) (by simp)

theorem Reaching.to_clearImplicit {s : Prop} {p q : Parser} (h : Reaching s p q) :
    Reaching s p { q with implicitSemicolon := false } :=
  h.step (Parser.steps_clearImplicit q) rfl

theorem Reaching.to_semicolon {s : Prop} {p q : Parser} (h : Reaching s p q) :
    Reaching s p q.semicolon :=
  h.step (Parser.steps_semicolon q) (by simp)

theorem Reaching.to_optionalSemicolon {s : Prop} {p q : Parser} (h : Reaching s p q) :
    Reaching s p q.optionalSemicolon :=
  h.step (Parser.steps_optionalSemicolon q) (by simp)

theorem Reaching.to_nextStatement {s : Prop} {p q : Parser} (h : Reaching s p q) :
    Reaching s p q.nextStatement :=
  h.step (Parser.steps_nextStatementLoop _ q) (by simp)

theorem Reaching.to_parseIdentifier {s : Prop} {p q : Parser} (h : Reaching s p q) :
    Reaching s p q.parseIdentifier.2 :=
  h.to_next

theorem Reaching.to_parseRegExpLiteral {s : Prop} {p q : Parser} (h : Reaching s p q) :
    Reaching s p q.parseRegExpLiteral.2 :=
  h.step (Parser.Steps.parseRegExpLiteral (Parser.Steps.refl q)) (by simp)

theorem Reaching.to_parseObjectPropertyKey {s : Prop} {p q : Parser} (h : Reaching s p q) :
    Reaching s p q.parseObjectPropertyKey.2 :=
  h.step (Parser.Steps.parseObjectPropertyKey (Parser.Steps.refl q)) (by simp)

theorem Reaching.to_parseDotMember {s : Prop} {p q : Parser} (h : Reaching s p q)
    (left : Expression) : Reaching s p (q.parseDotMember left).2 :=
  h.step (Parser.Steps.parseDotMember (Parser.Steps.refl q) left) (by simp)

theorem Reaching.to_parseEmptyStatement {s : Prop} {p q : Parser} (h : Reaching s p q) :
    Reaching s p q.parseEmptyStatement.2 :=
  h.step (Parser.Steps.parseEmptyStatement (Parser.Steps.refl q)) (by simp)

theorem Reaching.to_parseFunctionParameterList {s : Prop} {p q : Parser} (h : Reaching s p q) :
    Reaching s p q.parseFunctionParameterList.2 :=
  h.step (Parser.Steps.parseFunctionParameterList (Parser.Steps.refl q)) (by simp)

theorem Reaching.to_parseBreakStatement {s : Prop} {p q : Parser} (h : Reaching s p q) :
    Reaching s p q.parseBreakStatement.2 :=
  h.step (Parser.Steps.parseBreakStatement (Parser.Steps.refl q)) (by simp)

theorem Reaching.to_parseContinueStatement {s : Prop} {p q : Parser} (h : Reaching s p q) :
    Reaching s p q.parseContinueStatement.2 :=
  h.step (Parser.Steps.parseContinueStatement (Parser.Steps.refl q)) (by simp)

theorem Reaching.to_checkLabel {s : Prop} {p q : Parser} (h : Reaching s p q) (idx0 : Idx)
    (label : String) (labels : List String) :
    Reaching s p (q.checkLabel idx0 label labels) :=
  h.step (Parser.Steps.checkLabel (Parser.Steps.refl q) _ _ _) (by simp)

theorem Reaching.to_addVariable {s : Prop} {p q : Parser} (h : Reaching s p q) (name : String) :
    Reaching s p (q.addVariable name) :=
  ⟨h.1.addVariable _, h.2.1.and_frame (Frame.of_addVariable _ _), fun x => by
    have := (Parser.Steps.addVariable (Parser.Steps.refl q) name).measure
    exact lt_of_le_of_lt this (h.2.2 x)⟩

theorem Reaching.to_addFunction {s : Prop} {p q : Parser} (h : Reaching s p q) (name : String)
    (d : Definition) : Reaching s p (q.addFunction name d) :=
  ⟨h.1.addFunction _ _, h.2.1.and_frame (Frame.of_addFunction _ _ _), fun x => by
    have := (Parser.Steps.addFunction (Parser.Steps.refl q) name d).measure
    exact lt_of_le_of_lt this (h.2.2 x)⟩

theorem Reaching.to_addVariables {s : Prop} {p q : Parser} (h : Reaching s p q)
    (list : List Expression) : Reaching s p (q.addVariables list) :=
  ⟨h.1.addVariables _, h.2.1.and_frame (Frame.of_addVariables _ _), fun x => by
    have := (Parser.Steps.addVariables (Parser.Steps.refl q) list).measure
    exact lt_of_le_of_lt this (h.2.2 x)⟩

/-! Progress of the steps that consume a token. -/

theorem Reaching.start_next (p : Parser) : ReachesS p p.next :=
  (Reaching.stay p).to_next.of_lt (Parser.next_measure_lt p)

theorem Reaching.start_expect (p : Parser) (value : Token) : ReachesS p (p.expect value).2 :=
  ((Reaching.stay p).to_expect value).of_lt (Parser.expect_measure_lt p value)

theorem Parser.nextStatement_measure_lt (p : Parser) (h1 : p.token.isSync = false)
    (h2 : p.token ≠ .EOF) : p.nextStatement.measure < p.measure := by
  unfold Parser.nextStatement
  rw [show p.scanner.size + 2 = (p.scanner.size + 1) + 1 from rfl, Parser.nextStatementLoop]
  rw [if_neg (by simp [h1]), if_neg h2]
  exact lt_of_le_of_lt (Parser.steps_nextStatementLoop _ _).measure (Parser.next_measure_lt p h2)

theorem Parser.scanString_token (p : Parser) : p.scanString.2.token = p.token := by
  unfold Parser.scanString
  split <;> rfl

theorem Reaching.start_parseRegExpLiteral (p : Parser) : ReachesS p p.parseRegExpLiteral.2 :=
  (Reaching.stay p).to_parseRegExpLiteral.of_lt fun h =>
    lt_of_le_of_lt
      (Parser.Steps.parseRegExpLiteral_from (Parser.Steps.refl p.scanString.2.next)).measure
      (lt_of_lt_of_le (Parser.next_measure_lt _ (by rw [Parser.scanString_token]; exact h))
        (Parser.steps_scanString p).measure)

theorem Reaching.start_parseObjectPropertyKey (p : Parser) :
    ReachesS p p.parseObjectPropertyKey.2 :=
  (Reaching.stay p).to_parseObjectPropertyKey.of_lt fun h =>
    lt_of_le_of_lt (Parser.Steps.parseObjectPropertyKey_from (Parser.Steps.refl p.next)).measure
      (Parser.next_measure_lt p h)

theorem Reaching.start_bad (p : Parser) :
    ReachesE p (p.errorUnexpectedToken p.token).nextStatement := by
  refine ((Reaching.stay p).to_errorUnexpectedToken _).to_nextStatement.of_lt fun h => ?_
  have := Parser.nextStatement_measure_lt (p.errorUnexpectedToken p.token)
    (by rw [Parser.errorUnexpectedToken_token]; exact h.1)
    (by rw [Parser.errorUnexpectedToken_token]; exact h.2)
  rw [Parser.errorUnexpectedToken_measure] at this
  exact this

theorem Reaching.start_parseBreakStatement (p : Parser) : ReachesS p p.parseBreakStatement.2 :=
  (Reaching.stay p).to_parseBreakStatement.of_lt fun h =>
    lt_of_le_of_lt (Parser.Steps.parseBreakStatement_from (Parser.Steps.refl _)).measure
      (Parser.expect_measure_lt p .BREAK h)

theorem Reaching.start_parseContinueStatement (p : Parser) :
    ReachesS p p.parseContinueStatement.2 :=
  (Reaching.stay p).to_parseContinueStatement.of_lt fun h =>
    lt_of_le_of_lt (Parser.Steps.parseContinueStatement_from (Parser.Steps.refl _)).measure
      (Parser.expect_measure_lt p .CONTINUE h)

theorem Reaching.start_parseEmptyStatement (p : Parser) : ReachesS p p.parseEmptyStatement.2 :=
  Reaching.start_expect p _

theorem Reaching.frame_step {s : Prop} {p q r : Parser} (h : Reaching s p q) (h1 : q.Steps r)
    (h2 : Frame q.scope r.scope) : Reaching s p r :=
  ⟨h.1.trans h1, h.2.1.and_frame h2, fun x => lt_of_le_of_lt h1.measure (h.2.2 x)⟩

theorem Frame.restore_allowIn {p q : Parser} {v : Bool}
    (h : Frame (p.modifyScope fun s => { s with allowIn := v }).scope q.scope) :
    Frame p.scope (q.modifyScope fun s => { s with allowIn := p.currentScope.allowIn }).scope := by
  unfold Parser.modifyScope Parser.currentScope at *
  cases hp : p.scope <;> cases hq : q.scope <;> simp_all [Frame, Scope.Extends]

theorem Frame.restore_inIteration {p q : Parser} {v : Bool}
    (h : Frame (p.modifyScope fun s => { s with inIteration := v }).scope q.scope) :
    Frame p.scope
      (q.modifyScope fun s => { s with inIteration := p.currentScope.inIteration }).scope := by
  unfold Parser.modifyScope Parser.currentScope at *
  cases hp : p.scope <;> cases hq : q.scope <;> simp_all [Frame, Scope.Extends]

theorem Frame.restore_inSwitch {p q : Parser} {v : Bool}
    (h : Frame (p.modifyScope fun s => { s with inSwitch := v }).scope q.scope) :
    Frame p.scope
      (q.modifyScope fun s => { s with inSwitch := p.currentScope.inSwitch }).scope := by
  unfold Parser.modifyScope Parser.currentScope at *
  cases hp : p.scope <;> cases hq : q.scope <;> simp_all [Frame, Scope.Extends]

theorem Frame.restore_labels {p q : Parser} {l : String}
    (h : Frame (p.modifyScope fun s => { s with labels := s.labels ++ [l] }).scope q.scope) :
    Frame p.scope (q.modifyScope fun s => { s with labels := s.labels.dropLast }).scope := by
  unfold Parser.modifyScope at *
  cases hp : p.scope <;> cases hq : q.scope <;> simp_all [Frame, Scope.Extends]

theorem Frame.of_closeScope {p' q : Parser} {s0 : Scope} {outer : List Scope}
    (hp : p'.scope = s0 :: outer) (h : Frame p'.scope q.scope) (f : Scope → Scope) :
    ((q.modifyScope f).closeScope).scope = outer := by
  unfold Parser.modifyScope Parser.closeScope
  rw [hp] at h
  cases hq : q.scope <;> simp_all [Frame]

@[simp] theorem Parser.modifyScope_token (p : Parser) (f : Scope → Scope) :
    (p.modifyScope f).token = p.token := by
  unfold Parser.modifyScope; split <;> rfl

@[simp] theorem Parser.modifyScope_measure (p : Parser) (f : Scope → Scope) :
    (p.modifyScope f).measure = p.measure := by
  unfold Parser.modifyScope; split <;> rfl

@[simp] theorem Parser.openScope_token (p : Parser) : p.openScope.token = p.token := rfl

@[simp] theorem Parser.openScope_measure (p : Parser) : p.openScope.measure = p.measure := rfl

@[simp] theorem Parser.closeScope_token (p : Parser) : p.closeScope.token = p.token := rfl

@[simp] theorem Parser.closeScope_measure (p : Parser) : p.closeScope.measure = p.measure :=
  rfl

@[simp] theorem Parser.addFunction_token (p : Parser) (name : String) (d : Definition) :
    (p.addFunction name d).token = p.token :=
  Parser.modifyScope_token p _

@[simp] theorem Parser.addFunction_measure (p : Parser) (name : String) (d : Definition) :
    (p.addFunction name d).measure = p.measure :=
  Parser.modifyScope_measure p _

@[simp] theorem Parser.openScope_scope (p : Parser) :
    p.openScope.scope = { allowIn := true } :: p.scope := rfl

/-- A run that starts with steps that keep the token, goes on with a run that makes
progress, and ends with steps that bring the scope stack back, makes progress. -/
theorem Reaching.build {p q r t : Parser} (h1 : p.Steps q) (ht : q.token = p.token)
    (h2 : q.Steps r) (hlt : q.token ≠ .EOF → r.measure < q.measure) (h3 : r.Steps t)
    (hf : Frame p.scope t.scope) : ReachesS p t :=
  ⟨(h1.trans h2).trans h3, hf, fun x =>
    lt_of_le_of_lt h3.measure (lt_of_lt_of_le (hlt (by rw [ht]; exact x)) h1.measure)⟩

/-- After an expression that stands at the start of a statement, `optionalSemicolon`
makes progress if the expression has made none. -/
theorem Reaching.optionalSemicolon_strict {p q : Parser} (h : ReachesE p q)
    (hs : p.token ≠ .SEMICOLON) : ReachesS p q.optionalSemicolon := by
  refine h.reaches.to_optionalSemicolon.of_lt fun hne => ?_
  have hle := (Parser.steps_optionalSemicolon q).measure
  rcases Nat.lt_or_ge q.measure p.measure with hlt | hge
  · exact lt_of_le_of_lt hle hlt
  · have heq : q.measure = p.measure := le_antisymm h.1.measure hge
    have htok : q.token = p.token := h.1.token heq
    have hsync : p.token.isSync = true := by
      by_contra hc
      have := h.2.2 ⟨by simpa using hc, hne⟩
      omega
    rw [← heq]
    unfold Parser.optionalSemicolon
    rw [if_neg (by rw [htok]; exact hs)]
    by_cases hi : q.implicitSemicolon = true
    · rw [if_pos hi]
      simp only [Parser.measure, Parser.remaining, hi]
      simp
    · rw [if_neg hi]
      have hb : q.token ≠ .RIGHT_BRACE := by
        rw [htok]; intro hb; rw [hb] at hsync; exact absurd hsync (by decide)
      rw [if_pos ⟨by rw [htok]; exact hne, hb⟩]
      exact Parser.expect_measure_lt q _ (by rw [htok]; exact hne)

end Steps

section Reach

/-! ## What the parsing functions reach -/

variable {n : Nat}

theorem reach_parsePrimaryExpression (ih : ReachIH n) (p : Parser) :
    Post ReachesE p (parsePrimaryExpression (n + 1) p) := by
  intro r h
  rw [parsePrimaryExpression] at h
  dsimp only at h
  have hn : ReachesE p p.next := (Reaching.start_next p).weaken And.right
  by_cases c1 : p.token = .IDENTIFIER
  · rw [if_pos c1] at h; cases h; exact hn
  rw [if_neg c1] at h
  by_cases c2 : p.token = .NULL
  · rw [if_pos c2] at h; cases h; exact hn
  rw [if_neg c2] at h
  by_cases c3 : p.token = .BOOLEAN
  · rw [if_pos c3] at h
    split at h
    · cases h; exact hn
    · split at h
      · cases h; exact hn
      · cases h; exact hn.to_error _ _
  rw [if_neg c3] at h
  by_cases c4 : p.token = .STRING
  · rw [if_pos c4] at h; cases h; exact hn
  rw [if_neg c4] at h
  by_cases c5 : p.token = .NUMBER
  · rw [if_pos c5] at h
    split at h
    · cases h; exact hn.to_error _ _
    · cases h; exact hn
  rw [if_neg c5] at h
  by_cases c6 : p.token = .SLASH ∨ p.token = .QUOTIENT_ASSIGN
  · rw [if_pos c6] at h; cases h
    exact (Reaching.start_parseRegExpLiteral p).weaken And.right
  rw [if_neg c6] at h
  by_cases c7 : p.token = .LEFT_BRACE
  · rw [if_pos c7] at h; exact (ih.parseObjectLiteral p r h).weaken And.right
  rw [if_neg c7] at h
  by_cases c8 : p.token = .LEFT_BRACKET
  · rw [if_pos c8] at h; exact (ih.parseArrayLiteral p r h).weaken And.right
  rw [if_neg c8] at h
  by_cases c9 : p.token = .LEFT_PARENTHESIS
  · rw [if_pos c9] at h
    simp only [bind, Option.bind_eq_some, pure, Option.some.injEq] at h
    obtain ⟨a, h1, h2⟩ := h
    cases h2
    exact (((Reaching.start_expect p _).weaken And.right).and_then
      (ih.parseExpression _ a h1)).to_expect _
  rw [if_neg c9] at h
  by_cases c10 : p.token = .THIS
  · rw [if_pos c10] at h; cases h; exact hn
  rw [if_neg c10] at h
  by_cases c11 : p.token = .FUNCTION
  · rw [if_pos c11] at h; exact (ih.parseFunction _ p r h).weaken And.right
  rw [if_neg c11] at h
  cases h
  exact Reaching.start_bad p

theorem reach_parseVariableDeclaration (ih : ReachIH n) (p : Parser) :
    Post Reaches p (parseVariableDeclaration (n + 1) p) := by
  intro r h
  simp only [parseVariableDeclaration] at h
  split at h
  · cases h; exact ((Reaching.stay p).to_expect _).to_nextStatement
  · split at h
    · simp only [bind, Option.bind_eq_some, pure, Option.some.injEq] at h
      obtain ⟨a, h1, h2⟩ := h
      cases h2
      exact ((Reaching.stay p).to_next.to_next).and_then (ih.parseAssignmentExpression _ a h1)
    · cases h; exact (Reaching.stay p).to_next

theorem reach_parseVariableDeclarationList (ih : ReachIH n) (l : List Expression)
    (p : Parser) : Post Reaches p (parseVariableDeclarationList (n + 1) l p) := by
  intro r h
  simp only [parseVariableDeclarationList, bind, Option.bind_eq_some, pure] at h
  obtain ⟨a, h1, h2⟩ := h
  have r1 := (ih.parseVariableDeclaration _ a h1).to_addVariable a.1.1
  split at h2
  · cases h2; exact r1
  · exact r1.to_next.and_then (ih.parseVariableDeclarationList _ _ r h2)

theorem reach_parseObjectProperty (ih : ReachIH n) (p : Parser) :
    Post ReachesS p (parseObjectProperty (n + 1) p) := by
  intro r h
  simp only [parseObjectProperty] at h
  have hk := Reaching.start_parseObjectPropertyKey p
  split at h
  · simp only [bind, Option.bind_eq_some, pure, Option.some.injEq] at h
    obtain ⟨a, h1, h2⟩ := h
    cases h2
    exact ((hk.to_parseObjectPropertyKey.to_expect _).to_expect _).and_then (ih._parseFunction _ _ _ a h1)
  · split at h
    · simp only [bind, Option.bind_eq_some, pure, Option.some.injEq] at h
      obtain ⟨a, h1, h2⟩ := h
      cases h2
      exact (hk.to_parseObjectPropertyKey.to_parseFunctionParameterList).and_then
        (ih._parseFunction _ _ _ a h1)
    · simp only [bind, Option.bind_eq_some, pure, Option.some.injEq] at h
      obtain ⟨a, h1, h2⟩ := h
      cases h2
      exact (hk.to_expect _).and_then (ih.parseAssignmentExpression _ a h1)

theorem reach_parseObjectLiteralLoop (ih : ReachIH n) (v : List Property) (p : Parser) :
    Post Reaches p (parseObjectLiteralLoop (n + 1) v p) := by
  intro r h
  simp only [parseObjectLiteralLoop] at h
  split at h
  · simp only [bind, Option.bind_eq_some] at h
    obtain ⟨a, h1, h2⟩ := h
    have r1 := (ih.parseObjectProperty _ a h1).reaches
    refine Reaching.and_then ?_ (ih.parseObjectLiteralLoop _ _ r h2)
    split
    · exact r1.to_next
    · exact r1
  · cases h; exact Reaching.stay p

theorem reach_parseObjectLiteral (ih : ReachIH n) (p : Parser) :
    Post ReachesS p (parseObjectLiteral (n + 1) p) := by
  intro r h
  simp only [parseObjectLiteral, bind, Option.bind_eq_some, pure, Option.some.injEq] at h
  obtain ⟨a, h1, h2⟩ := h
  cases h2
  exact ((Reaching.start_expect p _).and_then (ih.parseObjectLiteralLoop _ _ a h1)).to_expect _

theorem reach_parseArrayLiteralLoop (ih : ReachIH n) (v : List (Option Expression))
    (p : Parser) : Post Reaches p (parseArrayLiteralLoop (n + 1) v p) := by
  intro r h
  simp only [parseArrayLiteralLoop] at h
  split at h
  · split at h
    · exact (Reaching.stay p).to_next.and_then (ih.parseArrayLiteralLoop _ _ r h)
    · simp only [bind, Option.bind_eq_some] at h
      obtain ⟨a, h1, h2⟩ := h
      have r1 := (ih.parseAssignmentExpression _ a h1).reaches
      refine Reaching.and_then ?_ (ih.parseArrayLiteralLoop _ _ r h2)
      split
      · exact r1.to_expect _
      · exact r1
  · cases h; exact Reaching.stay p

theorem reach_parseArrayLiteral (ih : ReachIH n) (p : Parser) :
    Post ReachesS p (parseArrayLiteral (n + 1) p) := by
  intro r h
  simp only [parseArrayLiteral, bind, Option.bind_eq_some, pure, Option.some.injEq] at h
  obtain ⟨a, h1, h2⟩ := h
  cases h2
  exact ((Reaching.start_expect p _).and_then (ih.parseArrayLiteralLoop _ _ a h1)).to_expect _

theorem reach_parseArgumentListLoop (ih : ReachIH n) (l : List Expression) (p : Parser) :
    Post Reaches p (parseArgumentListLoop (n + 1) l p) := by
  intro r h
  simp only [parseArgumentListLoop, bind, Option.bind_eq_some, pure] at h
  obtain ⟨a, h1, h2⟩ := h
  have r1 := (ih.parseAssignmentExpression _ a h1).reaches
  split at h2
  · cases h2; exact r1
  · exact r1.to_next.and_then (ih.parseArgumentListLoop _ _ r h2)

theorem reach_parseArgumentList (ih : ReachIH n) (p : Parser) :
    Post ReachesS p (parseArgumentList (n + 1) p) := by
  intro r h
  rw [parseArgumentList] at h
  dsimp only at h
  by_cases c : (p.expect .LEFT_PARENTHESIS).2.token = .RIGHT_PARENTHESIS
  · simp only [c, ne_eq, not_true_eq_false, if_false, bind, Option.bind, pure,
      Option.some.injEq] at h
    cases h
    exact (Reaching.start_expect p _).to_expect _
  · simp only [c, ne_eq, not_false_eq_true, if_true, bind, Option.bind_eq_some, pure,
      Option.some.injEq] at h
    obtain ⟨a, h1, h2⟩ := h
    cases h2
    exact ((Reaching.start_expect p _).and_then (ih.parseArgumentListLoop _ _ a h1)).to_expect _

theorem reach_parseCallExpression (ih : ReachIH n) (l : Expression) (p : Parser) :
    Post ReachesS p (parseCallExpression (n + 1) l p) := by
  intro r h
  simp only [parseCallExpression, bind, Option.bind_eq_some, pure, Option.some.injEq] at h
  obtain ⟨a, h1, h2⟩ := h
  cases h2
  exact ih.parseArgumentList _ a h1

theorem reach_parseBracketMember (ih : ReachIH n) (l : Expression) (p : Parser) :
    Post ReachesS p (parseBracketMember (n + 1) l p) := by
  intro r h
  simp only [parseBracketMember, bind, Option.bind_eq_some, pure, Option.some.injEq] at h
  obtain ⟨a, h1, h2⟩ := h
  cases h2
  exact ((Reaching.start_expect p _).and_then (ih.parseExpression _ a h1)).to_expect _

theorem reach_parseNewExpression (ih : ReachIH n) (p : Parser) :
    Post ReachesS p (parseNewExpression (n + 1) p) := by
  intro r h
  simp only [parseNewExpression, bind, Option.bind_eq_some, pure] at h
  obtain ⟨a, h1, h2⟩ := h
  have r1 := (Reaching.start_expect p .NEW).and_then (ih.parseLeftHandSideExpression _ a h1)
  split at h2
  · simp only [Option.bind_eq_some, Option.some.injEq] at h2
    obtain ⟨b, h3, h4⟩ := h2
    cases h4
    exact r1.and_then (ih.parseArgumentList _ b h3)
  · cases h2; exact r1

theorem reach_parseLeftHandSideExpressionLoop (ih : ReachIH n) (l : Expression) (p : Parser) :
    Post Reaches p (parseLeftHandSideExpressionLoop (n + 1) l p) := by
  intro r h
  rw [parseLeftHandSideExpressionLoop] at h
  split at h
  · exact (Reaching.stay p).to_parseDotMember l |>.and_then
      (ih.parseLeftHandSideExpressionLoop _ _ r h)
  · split at h
    · simp only [bind, Option.bind_eq_some] at h
      obtain ⟨a, h1, h2⟩ := h
      exact (ih.parseBracketMember _ _ a h1).reaches.and_then
        (ih.parseLeftHandSideExpressionLoop _ _ r h2)
    · cases h; exact Reaching.stay p

theorem reach_parseLeftHandSideExpression (ih : ReachIH n) (p : Parser) :
    Post ReachesE p (parseLeftHandSideExpression (n + 1) p) := by
  intro r h
  rw [parseLeftHandSideExpression] at h
  dsimp only at h
  by_cases c : p.token = .NEW
  · rw [if_pos c] at h
    simp only [bind, Option.bind_eq_some] at h
    obtain ⟨a, h1, h2⟩ := h
    exact ((ih.parseNewExpression _ a h1).weaken And.right).and_then
      (ih.parseLeftHandSideExpressionLoop _ _ r h2)
  · rw [if_neg c] at h
    simp only [bind, Option.bind_eq_some] at h
    obtain ⟨a, h1, h2⟩ := h
    exact (ih.parsePrimaryExpression _ a h1).and_then (ih.parseLeftHandSideExpressionLoop _ _ r h2)

theorem reach_parseLeftHandSideExpressionAllowCallLoop (ih : ReachIH n) (l : Expression)
    (p : Parser) : Post Reaches p (parseLeftHandSideExpressionAllowCallLoop (n + 1) l p) := by
  intro r h
  rw [parseLeftHandSideExpressionAllowCallLoop] at h
  split at h
  · exact (Reaching.stay p).to_parseDotMember l |>.and_then
      (ih.parseLeftHandSideExpressionAllowCallLoop _ _ r h)
  · split at h
    · simp only [bind, Option.bind_eq_some] at h
      obtain ⟨a, h1, h2⟩ := h
      exact (ih.parseBracketMember _ _ a h1).reaches.and_then
        (ih.parseLeftHandSideExpressionAllowCallLoop _ _ r h2)
    · split at h
      · simp only [bind, Option.bind_eq_some] at h
        obtain ⟨a, h1, h2⟩ := h
        exact (ih.parseCallExpression _ _ a h1).reaches.and_then
          (ih.parseLeftHandSideExpressionAllowCallLoop _ _ r h2)
      · cases h; exact Reaching.stay p

theorem reach_parseLeftHandSideExpressionAllowCall (ih : ReachIH n) (p : Parser) :
    Post ReachesE p (parseLeftHandSideExpressionAllowCall (n + 1) p) := by
  intro r h
  rw [parseLeftHandSideExpressionAllowCall] at h
  dsimp only at h
  by_cases c : p.token = .NEW
  · rw [if_pos c] at h
    simp only [bind, Option.bind_eq_some] at h
    obtain ⟨a, h1, h2⟩ := h
    exact ((ih.parseNewExpression _ a h1).weaken And.right).and_then
      (ih.parseLeftHandSideExpressionAllowCallLoop _ _ r h2)
  · rw [if_neg c] at h
    simp only [bind, Option.bind_eq_some] at h
    obtain ⟨a, h1, h2⟩ := h
    exact (ih.parsePrimaryExpression _ a h1).and_then (ih.parseLeftHandSideExpressionAllowCallLoop _ _ r h2)

theorem reach_parsePostfixExpression (ih : ReachIH n) (p : Parser) :
    Post ReachesE p (parsePostfixExpression (n + 1) p) := by
  intro r h
  rw [parsePostfixExpression] at h
  simp only [bind, Option.bind_eq_some, pure] at h
  obtain ⟨a, h1, h2⟩ := h
  have r1 := ih.parseLeftHandSideExpressionAllowCall _ a h1
  split at h2
  · split at h2
    · cases h2; exact r1.to_next
    · cases h2; exact (r1.to_next.to_error _ _).to_nextStatement
  · cases h2; exact r1

theorem reach_parseUnaryExpression (ih : ReachIH n) (p : Parser) :
    Post ReachesE p (parseUnaryExpression (n + 1) p) := by
  intro r h
  rw [parseUnaryExpression] at h
  have hn : ReachesE p p.next := (Reaching.start_next p).weaken And.right
  split at h
  · simp only [bind, Option.bind_eq_some, pure, Option.some.injEq] at h
    obtain ⟨a, h1, h2⟩ := h
    cases h2
    exact hn.and_then (ih.parseUnaryExpression _ a h1)
  · split at h
    · simp only [bind, Option.bind_eq_some, pure] at h
      obtain ⟨a, h1, h2⟩ := h
      have r1 := hn.and_then (ih.parseUnaryExpression _ a h1)
      split at h2
      · cases h2; exact r1
      · cases h2; exact (r1.to_error _ _).to_nextStatement
    · exact ih.parsePostfixExpression _ r h

theorem reach_parseBinaryOperand (ih : ReachIH n) (lv : BinaryLevel) (p : Parser) :
    Post ReachesE p (parseBinaryOperand (n + 1) lv p) := by
  intro r h
  cases lv <;> rw [parseBinaryOperand] at h
  · exact ih.parseUnaryExpression _ r h
  · exact ih.parseBinaryExpression _ _ r h
  · exact ih.parseBinaryExpression _ _ r h
  · exact ih.parseRelationalExpression _ r h
  · exact ih.parseBinaryExpression _ _ r h
  · exact ih.parseBinaryExpression _ _ r h
  · exact ih.parseBinaryExpression _ _ r h
  · exact ih.parseBinaryExpression _ _ r h
  · exact ih.parseBinaryExpression _ _ r h

theorem reach_parseBinaryLoop (ih : ReachIH n) (lv : BinaryLevel) (l : Expression)
    (p : Parser) : Post Reaches p (parseBinaryLoop (n + 1) lv l p) := by
  intro r h
  rw [parseBinaryLoop] at h
  split at h
  · simp only [bind, Option.bind_eq_some] at h
    obtain ⟨a, h1, h2⟩ := h
    exact ((Reaching.stay p).to_next.and_then (ih.parseBinaryOperand _ _ a h1)).and_then
      (ih.parseBinaryLoop _ _ _ r h2)
  · cases h; exact Reaching.stay p

theorem reach_parseBinaryExpression (ih : ReachIH n) (lv : BinaryLevel) (p : Parser) :
    Post ReachesE p (parseBinaryExpression (n + 1) lv p) := by
  intro r h
  rw [parseBinaryExpression] at h
  simp only [bind, Option.bind_eq_some] at h
  obtain ⟨a, h1, h2⟩ := h
  exact (ih.parseBinaryOperand _ _ a h1).and_then (ih.parseBinaryLoop _ _ _ r h2)

theorem reach_parseRelationalExpression (ih : ReachIH n) (p : Parser) :
    Post ReachesE p (parseRelationalExpression (n + 1) p) := by
  intro r h
  rw [parseRelationalExpression] at h
  simp only [bind, Option.bind_eq_some, pure] at h
  obtain ⟨a, h1, h2⟩ := h
  have r1 := ih.parseBinaryExpression _ _ a h1
  have rec : ∀ b : Expression × Parser,
      parseRelationalExpression n
        (a.2.modifyScope fun s => { s with allowIn := true }).next = some b →
      ReachesE p
        (b.2.modifyScope fun s => { s with allowIn := a.2.currentScope.allowIn }) := by
    intro b hb
    have r2 := ih.parseRelationalExpression _ b hb
    refine r1.frame_step
      ((((Parser.Steps.refl a.2).modifyScope _).next.trans r2.1).modifyScope _)
      (Frame.restore_allowIn (v := true) ?_)
    have := r2.2.1
    simpa using this
  have stay : ReachesE p
      ((a.2.modifyScope fun s => { s with allowIn := true }).modifyScope
        fun s => { s with allowIn := a.2.currentScope.allowIn }) :=
    r1.frame_step (((Parser.Steps.refl a.2).modifyScope _).modifyScope _)
      (Frame.restore_allowIn (v := true) (Frame.same _))
  split at h2
  · simp only [Option.bind_eq_some, Option.some.injEq] at h2
    obtain ⟨b, h3, h4⟩ := h2
    cases h4
    exact rec b h3
  · split at h2
    · simp only [Option.bind_eq_some, Option.some.injEq] at h2
      obtain ⟨b, h3, h4⟩ := h2
      cases h4
      exact rec b h3
    · split at h2
      · split at h2
        · cases h2; exact stay
        · simp only [Option.bind_eq_some, Option.some.injEq] at h2
          obtain ⟨b, h3, h4⟩ := h2
          cases h4
          exact rec b h3
      · cases h2; exact stay

theorem reach_parseConditionlExpression (ih : ReachIH n) (p : Parser) :
    Post ReachesE p (parseConditionlExpression (n + 1) p) := by
  intro r h
  rw [parseConditionlExpression] at h
  simp only [bind, Option.bind_eq_some, pure] at h
  obtain ⟨a, h1, h2⟩ := h
  have r1 := ih.parseBinaryExpression _ _ a h1
  split at h2
  · simp only [Option.bind_eq_some, Option.some.injEq] at h2
    obtain ⟨b, h3, c, h4, h5⟩ := h2
    cases h5
    exact ((r1.to_next.and_then (ih.parseAssignmentExpression _ b h3)).to_expect _).and_then
      (ih.parseAssignmentExpression _ c h4)
  · cases h2; exact r1

theorem reach_parseAssignmentExpression (ih : ReachIH n) (p : Parser) :
    Post ReachesE p (parseAssignmentExpression (n + 1) p) := by
  intro r h
  rw [parseAssignmentExpression] at h
  simp only [bind, Option.bind_eq_some, pure] at h
  obtain ⟨a, h1, h2⟩ := h
  have r1 := ih.parseConditionlExpression _ a h1
  split at h2
  · split at h2
    · simp only [Option.bind_eq_some, Option.some.injEq] at h2
      obtain ⟨b, h3, h4⟩ := h2
      cases h4
      exact r1.to_next.and_then (ih.parseAssignmentExpression _ b h3)
    · simp only [Option.bind_eq_some, Option.some.injEq] at h2
      obtain ⟨i0, h3, h4⟩ := h2
      cases h4
      exact (r1.to_next.to_error _ _).to_nextStatement
  · cases h2; exact r1

theorem reach_parseExpressionLoop (ih : ReachIH n) (s : List Expression) (p : Parser) :
    Post Reaches p (parseExpressionLoop (n + 1) s p) := by
  intro r h
  rw [parseExpressionLoop] at h
  split at h
  · cases h; exact Reaching.stay p
  · simp only [bind, Option.bind_eq_some] at h
    obtain ⟨a, h1, h2⟩ := h
    exact ((Reaching.stay p).to_next.and_then (ih.parseAssignmentExpression _ a h1)).and_then
      (ih.parseExpressionLoop _ _ r h2)

theorem reach_parseExpression (ih : ReachIH n) (p : Parser) :
    Post ReachesE p (parseExpression (n + 1) p) := by
  intro r h
  rw [parseExpression] at h
  simp only [bind, Option.bind_eq_some, pure] at h
  obtain ⟨a, h1, h2⟩ := h
  have r1 := ih.parseAssignmentExpression _ a h1
  split at h2
  · simp only [Option.bind_eq_some, Option.some.injEq] at h2
    obtain ⟨b, h3, h4⟩ := h2
    cases h4
    exact r1.and_then (ih.parseExpressionLoop _ _ b h3)
  · cases h2; exact r1

theorem reach_parseBlockStatement (ih : ReachIH n) (p : Parser) :
    Post ReachesS p (parseBlockStatement (n + 1) p) := by
  intro r h
  simp only [parseBlockStatement, bind, Option.bind_eq_some, pure, Option.some.injEq] at h
  obtain ⟨a, h1, h2⟩ := h
  cases h2
  exact ((Reaching.start_expect p _).and_then (ih.parseStatementList _ _ a h1)).to_expect _

theorem reach_parseStatementList (ih : ReachIH n) (l : List Statement) (p : Parser) :
    Post Reaches p (parseStatementList (n + 1) l p) := by
  intro r h
  rw [parseStatementList] at h
  split at h
  · simp only [bind, Option.bind_eq_some] at h
    obtain ⟨a, h1, h2⟩ := h
    exact (ih.parseStatement _ a h1).reaches.and_then (ih.parseStatementList _ _ r h2)
  · cases h; exact Reaching.stay p

theorem reach_parseStatement (ih : ReachIH n) (p : Parser) :
    Post ReachesS p (parseStatement (n + 1) p) := by
  intro r h
  rw [parseStatement] at h
  dsimp only at h
  by_cases c1 : p.token = .EOF
  · rw [if_pos c1] at h; cases h
    exact ((Reaching.stay p).to_errorUnexpectedToken _).of_lt fun x => absurd c1 x
  rw [if_neg c1] at h
  by_cases c2 : p.token = .SEMICOLON
  · rw [if_pos c2] at h; cases h; exact Reaching.start_parseEmptyStatement p
  rw [if_neg c2] at h
  by_cases c3 : p.token = .LEFT_BRACE
  · rw [if_pos c3] at h; exact ih.parseBlockStatement _ r h
  rw [if_neg c3] at h
  by_cases c4 : p.token = .IF
  · rw [if_pos c4] at h; exact ih.parseIfStatement _ r h
  rw [if_neg c4] at h
  by_cases c5 : p.token = .DO
  · rw [if_pos c5] at h; exact ih.parseDoWhileStatement _ r h
  rw [if_neg c5] at h
  by_cases c6 : p.token = .WHILE
  · rw [if_pos c6] at h; exact ih.parseWhileStatement _ r h
  rw [if_neg c6] at h
  by_cases c7 : p.token = .FOR
  · rw [if_pos c7] at h; exact ih.parseForOrForInStatement _ r h
  rw [if_neg c7] at h
  by_cases c8 : p.token = .BREAK
  · rw [if_pos c8] at h; cases h; exact Reaching.start_parseBreakStatement p
  rw [if_neg c8] at h
  by_cases c9 : p.token = .CONTINUE
  · rw [if_pos c9] at h; cases h; exact Reaching.start_parseContinueStatement p
  rw [if_neg c9] at h
  by_cases c10 : p.token = .WITH
  · rw [if_pos c10] at h; exact ih.parseWithStatement _ r h
  rw [if_neg c10] at h
  by_cases c11 : p.token = .VAR
  · rw [if_pos c11] at h; exact ih.parseVariableStatement _ r h
  rw [if_neg c11] at h
  by_cases c12 : p.token = .FUNCTION
  · rw [if_pos c12] at h
    simp only [bind, Option.bind_eq_some, pure, Option.some.injEq] at h
    obtain ⟨a, h1, h2⟩ := h
    cases h2
    exact ih.parseFunction _ _ a h1
  rw [if_neg c12] at h
  by_cases c13 : p.token = .SWITCH
  · rw [if_pos c13] at h; exact ih.parseSwitchStatement _ r h
  rw [if_neg c13] at h
  by_cases c14 : p.token = .RETURN
  · rw [if_pos c14] at h; exact ih.parseReturnStatement _ r h
  rw [if_neg c14] at h
  by_cases c15 : p.token = .THROW
  · rw [if_pos c15] at h; exact ih.parseThrowStatement _ r h
  rw [if_neg c15] at h
  by_cases c16 : p.token = .TRY
  · rw [if_pos c16] at h; exact ih.parseTryStatement _ r h
  rw [if_neg c16] at h
  simp only [bind, Option.bind_eq_some] at h
  obtain ⟨a, h1, h2⟩ := h
  have r1 := ih.parseExpression _ a h1
  have plain : ReachesS p a.2.optionalSemicolon := r1.optionalSemicolon_strict c2
  split at h2
  · rename_i name idx0 _
    by_cases cc : a.2.token = .COLON
    · rw [if_pos cc] at h2
      simp only [bind, Option.bind_eq_some, pure, Option.some.injEq] at h2
      obtain ⟨b, h3, h4⟩ := h2
      cases h4
      have r2 := ih.parseStatement _ b h3
      have r3 : ReachesS p (a.2.next.checkLabel idx0 name a.2.next.currentScope.labels) :=
        ((r1.trans_strict (Reaching.start_next a.2)).weaken
          (fun _ => by rw [cc]; decide)).to_checkLabel _ _ _
      exact r3.frame_step (((Parser.Steps.refl _).modifyScope _).trans r2.1 |>.modifyScope _)
        (Frame.restore_labels r2.2.1)
    · rw [if_neg cc] at h2
      cases h2
      exact plain
  · cases h2
    exact plain

theorem reach_parseTryStatementFinally (ih : ReachIH n) (t : Idx) (b : Statement)
    (c : Option CatchStatement) (p : Parser) :
    Post Reaches p (parseTryStatementFinally (n + 1) t b c p) := by
  intro r h
  rw [parseTryStatementFinally] at h
  dsimp only at h
  have fin : ∀ (f : Option Statement) (q : Parser), Reaches p q →
      (if c.isNone = true ∧ f.isNone = true then
          (b.Idx1.bind fun idx1 =>
            some (Statement.BadStatement t idx1,
              q.error t "Missing catch or finally after try"))
        else some (Statement.TryStatement t b c f, q)) = some r → Reaches p r.2 := by
    intro f q hq hr
    split at hr
    · simp only [Option.bind_eq_some, Option.some.injEq] at hr
      obtain ⟨i, _, hi⟩ := hr
      cases hi
      exact hq.to_error _ _
    · cases hr; exact hq
  by_cases cf : p.token = .FINALLY
  · rw [if_pos cf] at h
    simp only [bind, Option.bind_eq_some, pure, Option.some.injEq] at h
    obtain ⟨x, h1, a, h2, h3⟩ := h
    cases h2
    exact fin _ _ (((Reaching.stay p).to_next.and_then (ih.parseBlockStatement _ x h1)).to_semicolon) h3
  · rw [if_neg cf] at h
    simp only [bind, Option.bind_eq_some, pure, Option.some.injEq] at h
    obtain ⟨a, h2, h3⟩ := h
    cases h2
    exact fin _ _ (Reaching.stay p) h3

theorem reach_parseTryStatement (ih : ReachIH n) (p : Parser) :
    Post ReachesS p (parseTryStatement (n + 1) p) := by
  intro r h
  rw [parseTryStatement] at h
  simp only [bind, Option.bind_eq_some, pure] at h
  obtain ⟨a, h1, h2⟩ := h
  have r1 : ReachesS p a.2 := (Reaching.start_expect p _).and_then (ih.parseBlockStatement _ a h1)
  by_cases cc : a.2.token = .CATCH
  · rw [if_pos cc] at h2
    by_cases ci : (a.2.next.expect .LEFT_PARENTHESIS).2.token ≠ .IDENTIFIER
    · rw [if_pos ci] at h2
      cases h2
      exact ((r1.to_next.to_expect _).to_expect _).to_nextStatement
    · rw [if_neg ci] at h2
      simp only [Option.bind_eq_some] at h2
      obtain ⟨x, h3, h4⟩ := h2
      exact ((((r1.to_next.to_expect _).to_parseIdentifier.to_expect _).and_then
        (ih.parseBlockStatement _ x h3))).and_then (ih.parseTryStatementFinally _ _ _ _ r h4)
  · rw [if_neg cc] at h2
    exact r1.and_then (ih.parseTryStatementFinally _ _ _ _ r h2)

theorem reach__parseFunction (ih : ReachIH n) (nm : String) (d : Bool) (p : Parser) :
    Post ReachesS p (_parseFunction (n + 1) nm d p) := by
  intro r h
  rw [_parseFunction] at h
  simp only [bind, Option.bind_eq_some, pure, Option.some.injEq] at h
  obtain ⟨a, h1, h2⟩ := h
  cases h2
  have r1 := ih.parseBlockStatement _ a h1
  refine Reaching.build (q := _) (r := a.2) ?_ ?_ r1.1 r1.2.2
    (((Parser.Steps.refl a.2).modifyScope _).closeScope) ?_
  · split
    · exact (((Parser.Steps.refl p).openScope).addFunction _ _).modifyScope _
    · exact ((Parser.Steps.refl p).openScope).modifyScope _
  · split <;> simp
  · refine Frame.of_scope_eq ?_
    split at r1
    · refine @Frame.of_closeScope _ _ ?_ p.scope ?_ r1.2.1 _
      · exact { ({ allowIn := true } : Scope) with
          functionList := [.mk nm .self], inFunction := true }
      · simp [Parser.modifyScope, Parser.addFunction]
    · refine @Frame.of_closeScope _ _ ?_ p.scope ?_ r1.2.1 _
      · exact { ({ allowIn := true } : Scope) with inFunction := true }
      · simp [Parser.modifyScope]

theorem reach_parseFunction (ih : ReachIH n) (d : Bool) (p : Parser) :
    Post ReachesS p (parseFunction (n + 1) d p) := by
  intro r h
  rw [parseFunction] at h
  simp only [bind, Option.bind_eq_some, pure, Option.some.injEq] at h
  obtain ⟨a, h1, i1, h2, h3⟩ := h
  cases h3
  have r0 : ReachesS p
      (if (p.expect .FUNCTION).2.token = .IDENTIFIER then (p.expect .FUNCTION).2.next
       else if d = true then ((p.expect .FUNCTION).2.expect .IDENTIFIER).2
       else (p.expect .FUNCTION).2) := by
    split
    · exact (Reaching.start_expect p _).to_next
    · split
      · exact (Reaching.start_expect p _).to_expect _
      · exact Reaching.start_expect p _
  have r1 := (r0.to_parseFunctionParameterList).and_then (ih._parseFunction _ _ _ a h1)
  dsimp only
  split
  · exact r1.to_addFunction _ _
  · exact r1

theorem reach_parseReturnStatement (ih : ReachIH n) (p : Parser) :
    Post ReachesS p (parseReturnStatement (n + 1) p) := by
  intro r h
  rw [parseReturnStatement] at h
  dsimp only at h
  split at h
  · cases h; exact ((Reaching.start_expect p _).to_error _ _).to_nextStatement
  · split at h
    · simp only [bind, Option.bind_eq_some, pure, Option.some.injEq] at h
      obtain ⟨a, h1, h2⟩ := h
      cases h2
      exact ((Reaching.start_expect p _).and_then (ih.parseExpression _ a h1)).to_semicolon
    · cases h; exact (Reaching.start_expect p _).to_semicolon

theorem reach_parseThrowStatement (ih : ReachIH n) (p : Parser) :
    Post ReachesS p (parseThrowStatement (n + 1) p) := by
  intro r h
  rw [parseThrowStatement] at h
  dsimp only at h
  split at h
  · cases h
    split
    · exact ((Reaching.start_expect p _).to_error _ _).to_nextStatement
    · exact ((Reaching.start_expect p _).to_error _ _).to_nextStatement
  · simp only [bind, Option.bind_eq_some, pure, Option.some.injEq] at h
    obtain ⟨a, h1, h2⟩ := h
    cases h2
    exact ((Reaching.start_expect p _).and_then (ih.parseExpression _ a h1)).to_semicolon

theorem bind_some {α β : Type} {x : Option α} {f : α → Option β} {b : β}
    (h : (x >>= f) = some b) : ∃ a, x = some a ∧ f a = some b :=
  Option.bind_eq_some.mp h

theorem reach_parseSwitchStatementLoop (ih : ReachIH n) (i d : Int) (b : List CaseStatement)
    (p : Parser) : Post Reaches p (parseSwitchStatementLoop (n + 1) i d b p) := by
  intro r h
  rw [parseSwitchStatementLoop] at h
  split at h
  · split at h
    · cases h; exact (Reaching.stay p).to_next
    · obtain ⟨a, h1, h2⟩ := bind_some h
      have r1 := (ih.parseCaseStatement _ a h1).reaches
      dsimp only at h2
      split at h2
      · refine Reaching.and_then (q := if d ≠ -1 then
            a.2.error a.1.Case "Already saw a default in switch" else a.2) ?_
          (ih.parseSwitchStatementLoop _ _ _ _ r h2)
        split
        · exact r1.to_error _ _
        · exact r1
      · exact r1.and_then (ih.parseSwitchStatementLoop _ _ _ _ r h2)
  · cases h; exact Reaching.stay p

theorem reach_parseSwitchStatement (ih : ReachIH n) (p : Parser) :
    Post ReachesS p (parseSwitchStatement (n + 1) p) := by
  intro r h
  rw [parseSwitchStatement] at h
  obtain ⟨a, h1, h2⟩ := bind_some h
  obtain ⟨c, h3, h4⟩ := bind_some h2
  cases h4
  have r1 : ReachesS p ((a.2.expect .RIGHT_PARENTHESIS).2.expect .LEFT_BRACE).2 :=
    ((((Reaching.start_expect p _).to_expect _).and_then (ih.parseExpression _ a h1)).to_expect _).to_expect _
  have r2 := ih.parseSwitchStatementLoop _ _ _ _ c h3
  exact r1.frame_step ((((Parser.Steps.refl _).modifyScope _).trans r2.1).modifyScope _)
    (Frame.restore_inSwitch r2.2.1)

theorem reach_parseWithStatement (ih : ReachIH n) (p : Parser) :
    Post ReachesS p (parseWithStatement (n + 1) p) := by
  intro r h
  rw [parseWithStatement] at h
  obtain ⟨a, h1, h2⟩ := bind_some h
  obtain ⟨c, h3, h4⟩ := bind_some h2
  cases h4
  exact ((((Reaching.start_expect p _).to_expect _).and_then (ih.parseExpression _ a h1)).to_expect _).and_then
    (ih.parseStatement _ c h3)

theorem reach_parseCaseStatementLoop (ih : ReachIH n) (c : List Statement) (p : Parser) :
    Post Reaches p (parseCaseStatementLoop (n + 1) c p) := by
  intro r h
  rw [parseCaseStatementLoop] at h
  split at h
  · cases h; exact Reaching.stay p
  · obtain ⟨a, h1, h2⟩ := bind_some h
    exact (ih.parseStatement _ a h1).reaches.and_then (ih.parseCaseStatementLoop _ _ r h2)

theorem reach_parseCaseStatement (ih : ReachIH n) (p : Parser) :
    Post ReachesS p (parseCaseStatement (n + 1) p) := by
  intro r h
  rw [parseCaseStatement] at h
  dsimp only at h
  by_cases c : p.token = .DEFAULT
  · rw [if_pos c] at h
    simp only [bind, pure, Option.some_bind, Option.bind_eq_some, Option.some.injEq] at h
    obtain ⟨a, h1, h2⟩ := h
    cases h2
    exact ((Reaching.start_next p).to_expect _).and_then (ih.parseCaseStatementLoop _ _ a h1)
  · rw [if_neg c] at h
    simp only [bind, pure, Option.some_bind, Option.bind_eq_some, Option.some.injEq] at h
    obtain ⟨a, h1, b, h2, h3⟩ := h
    cases h3
    exact (((Reaching.start_expect p _).and_then (ih.parseExpression _ a h1)).to_expect _).and_then
      (ih.parseCaseStatementLoop _ _ b h2)

theorem reach_parseIterationStatement (ih : ReachIH n) (p : Parser) :
    Post ReachesS p (parseIterationStatement (n + 1) p) := by
  intro r h
  rw [parseIterationStatement] at h
  obtain ⟨a, h1, h2⟩ := bind_some h
  cases h2
  have r1 := ih.parseStatement _ a h1
  exact Reaching.build (Parser.steps_modifyScope p _) (by simp) r1.1 r1.2.2
    (Parser.steps_modifyScope _ _) (Frame.restore_inIteration r1.2.1)

theorem reach_parseForIn (ih : ReachIH n) (i : Expression) (p : Parser) :
    Post Reaches p (parseForIn (n + 1) i p) := by
  intro r h
  rw [parseForIn] at h
  obtain ⟨a, h1, h2⟩ := bind_some h
  obtain ⟨c, h3, h4⟩ := bind_some h2
  cases h4
  exact (((ih.parseExpression _ a h1).reaches.to_expect _).and_then
    (ih.parseIterationStatement _ c h3))

theorem reach_parseFor (ih : ReachIH n) (i : Expression) (p : Parser) :
    Post Reaches p (parseFor (n + 1) i p) := by
  intro r h
  rw [parseFor] at h
  dsimp only at h
  have tail : ∀ (q : Parser) (e : Statement × Parser), Reaches p q →
      parseIterationStatement n (q.expect .RIGHT_PARENTHESIS).2 = some e → Reaches p e.2 :=
    fun q e hq h5 => (hq.to_expect _).and_then (ih.parseIterationStatement _ e h5)
  by_cases c : p.token ≠ .SEMICOLON
  · rw [if_pos c] at h
    simp only [bind, pure, Option.some_bind, Option.bind_eq_some] at h
    obtain ⟨a, h1, h2⟩ := h
    have r1 := (ih.parseExpression _ a h1).reaches.to_expect .SEMICOLON
    by_cases c2 : (a.2.expect .SEMICOLON).2.token ≠ .RIGHT_PARENTHESIS
    · rw [if_pos c2] at h2
      simp only [Option.bind_eq_some, Option.some.injEq] at h2
      obtain ⟨x, h3, e, h4, h5⟩ := h2
      cases h5
      exact tail _ e (r1.and_then (ih.parseExpression _ x h3)) h4
    · rw [if_neg c2] at h2
      simp only [Option.bind_eq_some, Option.some.injEq] at h2
      obtain ⟨e, h4, h5⟩ := h2
      cases h5
      exact tail _ e r1 h4
  · rw [if_neg c] at h
    simp only [bind, pure, Option.some_bind, Option.bind_eq_some] at h
    have r1 := (Reaching.stay p).to_expect .SEMICOLON
    by_cases c2 : (p.expect .SEMICOLON).2.token ≠ .RIGHT_PARENTHESIS
    · rw [if_pos c2] at h
      simp only [Option.bind_eq_some, Option.some.injEq] at h
      obtain ⟨x, h3, e, h4, h5⟩ := h
      cases h5
      exact tail _ e (r1.and_then (ih.parseExpression _ x h3)) h4
    · rw [if_neg c2] at h
      simp only [Option.bind_eq_some, Option.some.injEq] at h
      obtain ⟨e, h4, h5⟩ := h
      cases h5
      exact tail _ e r1 h4

theorem reach_parseForOrForInStatement (ih : ReachIH n) (p : Parser) :
    Post ReachesS p (parseForOrForInStatement (n + 1) p) := by
  intro r h
  rw [parseForOrForInStatement] at h
  dsimp only at h
  have r0 : ReachesS p ((p.expect .FOR).2.expect .LEFT_PARENTHESIS).2 :=
    (Reaching.start_expect p _).to_expect _
  have tail : ∀ (left : List Expression) (isIn : Bool) (q : Parser), ReachesS p q →
      (if (!isIn) = true then
          parseFor n (.SequenceExpression left) (q.expect .SEMICOLON).2
        else
          match left with
          | [] => none
          | into :: _ =>
            if into.isForInTarget = true then parseForIn n into q
            else
              some (Statement.BadStatement (p.expect .FOR).1
                ((q.error (p.expect .FOR).1 "Invalid left-hand side in for-in").nextStatement).idx,
                (q.error (p.expect .FOR).1 "Invalid left-hand side in for-in").nextStatement)) =
        some r → ReachesS p r.2 := by
    intro left isIn q hq hr
    split at hr
    · exact (hq.to_expect _).and_then (ih.parseFor _ _ r hr)
    · split at hr
      · cases hr
      · split at hr
        · exact hq.and_then (ih.parseForIn _ _ r hr)
        · cases hr
          exact (hq.to_error _ _).to_nextStatement
  have back : ∀ x : Parser,
      Reaches (((p.expect .FOR).2.expect .LEFT_PARENTHESIS).2.modifyScope
        fun s => { s with allowIn := false }) x →
      ReachesS p (x.modifyScope fun s =>
        { s with allowIn := ((p.expect .FOR).2.expect .LEFT_PARENTHESIS).2.currentScope.allowIn }) :=
    fun x r2 =>
      r0.frame_step ((((Parser.Steps.refl _).modifyScope _).trans r2.1).modifyScope _)
        (Frame.restore_allowIn r2.2.1)
  by_cases c : ((p.expect .FOR).2.expect .LEFT_PARENTHESIS).2.token ≠ .SEMICOLON
  · rw [if_pos c] at h
    by_cases cv : (((p.expect .FOR).2.expect .LEFT_PARENTHESIS).2.modifyScope
        fun s => { s with allowIn := false }).token = .VAR
    · rw [if_pos cv] at h
      simp only [bind, pure, Option.some_bind, Option.bind_eq_some] at h
      obtain ⟨y, h5, h6⟩ := h
      have r3 := (Reaching.stay _).to_next.and_then (ih.parseVariableDeclarationList _ _ y h5)
      split at h6
      · exact tail _ _ _ (back _ r3.to_next) h6
      · exact tail _ _ _ (back _ r3) h6
    · rw [if_neg cv] at h
      simp only [bind, pure, Option.some_bind, Option.bind_eq_some] at h
      obtain ⟨y, h5, h6⟩ := h
      have r3 := (ih.parseExpression _ y h5).reaches
      split at h6
      · exact tail _ _ _ (back _ r3.to_next) h6
      · exact tail _ _ _ (back _ r3) h6
  · rw [if_neg c] at h
    simp only [bind, pure, Option.some_bind] at h
    exact tail _ _ _ r0 h

theorem reach_parseVariableStatement (ih : ReachIH n) (p : Parser) :
    Post ReachesS p (parseVariableStatement (n + 1) p) := by
  intro r h
  rw [parseVariableStatement] at h
  obtain ⟨a, h1, h2⟩ := bind_some h
  cases h2
  exact (((Reaching.start_expect p _).and_then
    (ih.parseVariableDeclarationList _ _ a h1)).to_addVariables _).to_semicolon

theorem reach_parseDoWhileStatement (ih : ReachIH n) (p : Parser) :
    Post ReachesS p (parseDoWhileStatement (n + 1) p) := by
  intro r h
  rw [parseDoWhileStatement] at h
  dsimp only at h
  have tail : ∀ (a : Statement × Parser) (c : Expression × Parser),
      Reaches ((p.modifyScope fun s => { s with inIteration := true }).expect .DO).2 a.2 →
      parseExpression n ((a.2.expect .WHILE).2.expect .LEFT_PARENTHESIS).2 = some c →
      ReachesS p ((c.2.expect .RIGHT_PARENTHESIS).2.modifyScope fun s =>
        { s with inIteration := p.currentScope.inIteration }) := by
    intro a c r1 h3
    have r2 : ReachesS (p.modifyScope fun s => { s with inIteration := true })
        (c.2.expect .RIGHT_PARENTHESIS).2 :=
      (((((Reaching.start_expect _ _).and_then r1).to_expect _).to_expect _).and_then
        (ih.parseExpression _ c h3)).to_expect _
    exact Reaching.build (Parser.steps_modifyScope p _) (by simp) r2.1 r2.2.2
      (Parser.steps_modifyScope _ _) (Frame.restore_inIteration r2.2.1)
  by_cases cb : ((p.modifyScope fun s => { s with inIteration := true }).expect .DO).2.token =
      .LEFT_BRACE
  · rw [if_pos cb] at h
    simp only [bind, pure, Option.some_bind, Option.bind_eq_some, Option.some.injEq] at h
    obtain ⟨a, h1, c, h3, h4⟩ := h
    cases h4
    exact tail a c (ih.parseBlockStatement _ a h1).reaches h3
  · rw [if_neg cb] at h
    simp only [bind, pure, Option.some_bind, Option.bind_eq_some, Option.some.injEq] at h
    obtain ⟨a, h1, c, h3, h4⟩ := h
    cases h4
    exact tail a c (ih.parseStatement _ a h1).reaches h3

theorem reach_parseWhileStatement (ih : ReachIH n) (p : Parser) :
    Post ReachesS p (parseWhileStatement (n + 1) p) := by
  intro r h
  rw [parseWhileStatement] at h
  obtain ⟨a, h1, h2⟩ := bind_some h
  obtain ⟨c, h3, h4⟩ := bind_some h2
  cases h4
  exact ((((Reaching.start_expect p _).to_expect _).and_then (ih.parseExpression _ a h1)).to_expect _).and_then
    (ih.parseIterationStatement _ c h3)

theorem reach_parseIfStatement (ih : ReachIH n) (p : Parser) :
    Post ReachesS p (parseIfStatement (n + 1) p) := by
  intro r h
  rw [parseIfStatement] at h
  obtain ⟨a, h1, h2⟩ := bind_some h
  dsimp only at h2
  have r0 : ReachesS p (a.2.expect .RIGHT_PARENTHESIS).2 :=
    (((Reaching.start_expect p _).to_expect _).and_then (ih.parseExpression _ a h1)).to_expect _
  have tail : ∀ (c : Statement × Parser), ReachesS p c.2 →
      (if c.2.token = .ELSE then
          (parseStatement n c.2.next).bind fun x =>
            some (Statement.IfStatement 0 a.1 c.1 (some x.1), x.2)
        else some (Statement.IfStatement 0 a.1 c.1 none, c.2)) = some r → ReachesS p r.2 := by
    intro c r1 h4
    split at h4
    · simp only [Option.bind_eq_some, Option.some.injEq] at h4
      obtain ⟨e, h5, h6⟩ := h4
      cases h6
      exact r1.to_next.and_then (ih.parseStatement _ e h5)
    · cases h4; exact r1
  by_cases cb : (a.2.expect .RIGHT_PARENTHESIS).2.token = .LEFT_BRACE
  · rw [if_pos cb] at h2
    obtain ⟨c, h3, h4⟩ := bind_some h2
    exact tail c (r0.and_then (ih.parseBlockStatement _ c h3)) h4
  · rw [if_neg cb] at h2
    obtain ⟨c, h3, h4⟩ := bind_some h2
    exact tail c (r0.and_then (ih.parseStatement _ c h3)) h4

/-- Without fuel no parsing function returns. -/
theorem reachIH_zero : ReachIH 0 where
  parsePrimaryExpression := fun _ r h => by rw [parsePrimaryExpression] at h; cases h
  parseVariableDeclaration := fun _ r h => by rw [parseVariableDeclaration] at h; cases h
  parseVariableDeclarationList := fun _ _ r h => by rw [parseVariableDeclarationList] at h; cases h
  parseObjectProperty := fun _ r h => by rw [parseObjectProperty] at h; cases h
  parseObjectLiteralLoop := fun _ _ r h => by rw [parseObjectLiteralLoop] at h; cases h
  parseObjectLiteral := fun _ r h => by rw [parseObjectLiteral] at h; cases h
  parseArrayLiteralLoop := fun _ _ r h => by rw [parseArrayLiteralLoop] at h; cases h
  parseArrayLiteral := fun _ r h => by rw [parseArrayLiteral] at h; cases h
  parseArgumentListLoop := fun _ _ r h => by rw [parseArgumentListLoop] at h; cases h
  parseArgumentList := fun _ r h => by rw [parseArgumentList] at h; cases h
  parseCallExpression := fun _ _ r h => by rw [parseCallExpression] at h; cases h
  parseBracketMember := fun _ _ r h => by rw [parseBracketMember] at h; cases h
  parseNewExpression := fun _ r h => by rw [parseNewExpression] at h; cases h
  parseLeftHandSideExpressionLoop := fun _ _ r h => by rw [parseLeftHandSideExpressionLoop] at h; cases h
  parseLeftHandSideExpression := fun _ r h => by rw [parseLeftHandSideExpression] at h; cases h
  parseLeftHandSideExpressionAllowCallLoop := fun _ _ r h => by rw [parseLeftHandSideExpressionAllowCallLoop] at h; cases h
  parseLeftHandSideExpressionAllowCall := fun _ r h => by rw [parseLeftHandSideExpressionAllowCall] at h; cases h
  parsePostfixExpression := fun _ r h => by rw [parsePostfixExpression] at h; cases h
  parseUnaryExpression := fun _ r h => by rw [parseUnaryExpression] at h; cases h
  parseBinaryOperand := fun _ _ r h => by rw [parseBinaryOperand] at h; cases h
  parseBinaryLoop := fun _ _ _ r h => by rw [parseBinaryLoop] at h; cases h
  parseBinaryExpression := fun _ _ r h => by rw [parseBinaryExpression] at h; cases h
  parseRelationalExpression := fun _ r h => by rw [parseRelationalExpression] at h; cases h
  parseConditionlExpression := fun _ r h => by rw [parseConditionlExpression] at h; cases h
  parseAssignmentExpression := fun _ r h => by rw [parseAssignmentExpression] at h; cases h
  parseExpressionLoop := fun _ _ r h => by rw [parseExpressionLoop] at h; cases h
  parseExpression := fun _ r h => by rw [parseExpression] at h; cases h
  parseBlockStatement := fun _ r h => by rw [parseBlockStatement] at h; cases h
  parseStatementList := fun _ _ r h => by rw [parseStatementList] at h; cases h
  parseStatement := fun _ r h => by rw [parseStatement] at h; cases h
  parseTryStatementFinally := fun _ _ _ _ r h => by rw [parseTryStatementFinally] at h; cases h
  parseTryStatement := fun _ r h => by rw [parseTryStatement] at h; cases h
  parseFunction := fun _ _ r h => by rw [parseFunction] at h; cases h
  _parseFunction := fun _ _ _ r h => by rw [_parseFunction] at h; cases h
  parseReturnStatement := fun _ r h => by rw [parseReturnStatement] at h; cases h
  parseThrowStatement := fun _ r h => by rw [parseThrowStatement] at h; cases h
  parseSwitchStatementLoop := fun _ _ _ _ r h => by rw [parseSwitchStatementLoop] at h; cases h
  parseSwitchStatement := fun _ r h => by rw [parseSwitchStatement] at h; cases h
  parseWithStatement := fun _ r h => by rw [parseWithStatement] at h; cases h
  parseCaseStatementLoop := fun _ _ r h => by rw [parseCaseStatementLoop] at h; cases h
  parseCaseStatement := fun _ r h => by rw [parseCaseStatement] at h; cases h
  parseIterationStatement := fun _ r h => by rw [parseIterationStatement] at h; cases h
  parseForIn := fun _ _ r h => by rw [parseForIn] at h; cases h
  parseFor := fun _ _ r h => by rw [parseFor] at h; cases h
  parseForOrForInStatement := fun _ r h => by rw [parseForOrForInStatement] at h; cases h
  parseVariableStatement := fun _ r h => by rw [parseVariableStatement] at h; cases h
  parseDoWhileStatement := fun _ r h => by rw [parseDoWhileStatement] at h; cases h
  parseWhileStatement := fun _ r h => by rw [parseWhileStatement] at h; cases h
  parseIfStatement := fun _ r h => by rw [parseIfStatement] at h; cases h

/-- What every parsing function reaches, for every fuel. -/
theorem reachIH : ∀ n, ReachIH n
  | 0 => reachIH_zero
  | n + 1 =>
    have ih := reachIH n
    { parsePrimaryExpression := reach_parsePrimaryExpression ih,
      parseVariableDeclaration := reach_parseVariableDeclaration ih,
      parseVariableDeclarationList := reach_parseVariableDeclarationList ih,
      parseObjectProperty := reach_parseObjectProperty ih,
      parseObjectLiteralLoop := reach_parseObjectLiteralLoop ih,
      parseObjectLiteral := reach_parseObjectLiteral ih,
      parseArrayLiteralLoop := reach_parseArrayLiteralLoop ih,
      parseArrayLiteral := reach_parseArrayLiteral ih,
      parseArgumentListLoop := reach_parseArgumentListLoop ih,
      parseArgumentList := reach_parseArgumentList ih,
      parseCallExpression := reach_parseCallExpression ih,
      parseBracketMember := reach_parseBracketMember ih,
      parseNewExpression := reach_parseNewExpression ih,
      parseLeftHandSideExpressionLoop := reach_parseLeftHandSideExpressionLoop ih,
      parseLeftHandSideExpression := reach_parseLeftHandSideExpression ih,
      parseLeftHandSideExpressionAllowCallLoop := reach_parseLeftHandSideExpressionAllowCallLoop ih,
      parseLeftHandSideExpressionAllowCall := reach_parseLeftHandSideExpressionAllowCall ih,
      parsePostfixExpression := reach_parsePostfixExpression ih,
      parseUnaryExpression := reach_parseUnaryExpression ih,
      parseBinaryOperand := reach_parseBinaryOperand ih,
      parseBinaryLoop := reach_parseBinaryLoop ih,
      parseBinaryExpression := reach_parseBinaryExpression ih,
      parseRelationalExpression := reach_parseRelationalExpression ih,
      parseConditionlExpression := reach_parseConditionlExpression ih,
      parseAssignmentExpression := reach_parseAssignmentExpression ih,
      parseExpressionLoop := reach_parseExpressionLoop ih,
      parseExpression := reach_parseExpression ih,
      parseBlockStatement := reach_parseBlockStatement ih,
      parseStatementList := reach_parseStatementList ih,
      parseStatement := reach_parseStatement ih,
      parseTryStatementFinally := reach_parseTryStatementFinally ih,
      parseTryStatement := reach_parseTryStatement ih,
      parseFunction := reach_parseFunction ih,
      _parseFunction := reach__parseFunction ih,
      parseReturnStatement := reach_parseReturnStatement ih,
      parseThrowStatement := reach_parseThrowStatement ih,
      parseSwitchStatementLoop := reach_parseSwitchStatementLoop ih,
      parseSwitchStatement := reach_parseSwitchStatement ih,
      parseWithStatement := reach_parseWithStatement ih,
      parseCaseStatementLoop := reach_parseCaseStatementLoop ih,
      parseCaseStatement := reach_parseCaseStatement ih,
      parseIterationStatement := reach_parseIterationStatement ih,
      parseForIn := reach_parseForIn ih,
      parseFor := reach_parseFor ih,
      parseForOrForInStatement := reach_parseForOrForInStatement ih,
      parseVariableStatement := reach_parseVariableStatement ih,
      parseDoWhileStatement := reach_parseDoWhileStatement ih,
      parseWhileStatement := reach_parseWhileStatement ih,
      parseIfStatement := reach_parseIfStatement ih }

end Reach

section Lists

variable {PE : Expression → Prop} {PS : Context → Statement → Prop}

theorem Expression.allList_append (l m : List Expression) :
    Expression.AllList PE PS (l ++ m) ↔ Expression.AllList PE PS l ∧ Expression.AllList PE PS m := by
  induction l with
  | nil => simp [Expression.AllList]
  | cons e es ih => simp [Expression.AllList, ih, and_assoc]

theorem Expression.allOptions_append (l m : List (Option Expression)) :
    Expression.AllOptions PE PS (l ++ m) ↔
      Expression.AllOptions PE PS l ∧ Expression.AllOptions PE PS m := by
  induction l with
  | nil => simp [Expression.AllOptions]
  | cons e es ih => simp [Expression.AllOptions, ih, and_assoc]

theorem Property.allProperties_append (l m : List Property) :
    Property.AllList PE PS (l ++ m) ↔ Property.AllList PE PS l ∧ Property.AllList PE PS m := by
  induction l with
  | nil => simp [Property.AllList]
  | cons e es ih => cases e; simp [Property.AllList, ih, and_assoc]

theorem Declaration.allDeclarations_append (l m : List Declaration) :
    Declaration.AllList PE PS (l ++ m) ↔
      Declaration.AllList PE PS l ∧ Declaration.AllList PE PS m := by
  induction l with
  | nil => simp [Declaration.AllList]
  | cons e es ih =>
    obtain ⟨nm, d⟩ := e
    cases d <;> simp [Declaration.AllList, ih, and_assoc]

theorem Statement.allStatements_append (c : Context) (l m : List Statement) :
    Statement.AllList PE PS c (l ++ m) ↔
      Statement.AllList PE PS c l ∧ Statement.AllList PE PS c m := by
  induction l with
  | nil => simp [Statement.AllList]
  | cons e es ih => simp [Statement.AllList, ih, and_assoc]

theorem CaseStatement.allClauses_append (c : Context) (l m : List CaseStatement) :
    CaseStatement.AllList PE PS c (l ++ m) ↔
      CaseStatement.AllList PE PS c l ∧ CaseStatement.AllList PE PS c m := by
  induction l with
  | nil => simp [CaseStatement.AllList]
  | cons e es ih => cases e; simp [CaseStatement.AllList, ih, and_assoc]

end Lists

section Ready

variable {clean : Prop}

theorem Parser.Steps.errors_nil {p q : Parser} (h : p.Steps q) (hq : q.errors = []) :
    p.errors = [] := by
  obtain ⟨l, hl⟩ := h.errors
  rw [hq] at hl
  exact (List.append_eq_nil.mp hl.symm).1

theorem Clean.back {p q : Parser} (hq : Clean clean q) (h : p.Steps q) : Clean clean p :=
  fun c => h.errors_nil (hq c)

theorem Clean.of_reach {s : Prop} {p q : Parser} (hq : Clean clean q) (h : Reaching s p q) :
    Clean clean p :=
  hq.back h.1

theorem Parser.currentScope_of_scope {p q : Parser} (h : q.scope = p.scope) :
    q.currentScope = p.currentScope := by
  unfold Parser.currentScope; rw [h]

theorem Parser.context_of_scope {p q : Parser} (h : q.scope = p.scope) :
    q.context = p.context := by
  unfold Parser.context; rw [Parser.currentScope_of_scope h]

theorem Frame.context {p q : Parser} (h : Frame p.scope q.scope) : q.context = p.context := by
  unfold Parser.context Parser.currentScope
  cases hp : p.scope with
  | nil =>
    cases hq : q.scope with
    | nil => rfl
    | cons t outer => rw [hp, hq] at h; exact h.elim
  | cons s outer =>
    cases hq : q.scope with
    | nil => rw [hp, hq] at h; exact h.elim
    | cons t outer2 =>
      rw [hp, hq] at h
      obtain ⟨⟨_, h2, h3, h4, h5, _⟩, _⟩ := h
      simp [h2, h3, h4, h5]

theorem Frame.nonempty {s t : List Scope} (h : Frame s t) (hs : s ≠ []) : t ≠ [] := by
  cases s <;> cases t <;> simp_all [Frame]

theorem Reaching.same_context {s : Prop} {p q : Parser} (h : Reaching s p q) :
    q.context = p.context :=
  h.2.1.context

theorem Ready.of_scope {p q : Parser} (h : q.scope = p.scope) (hp : Ready clean p) :
    Ready clean q :=
  ⟨h ▸ hp.nonempty, h ▸ hp.sealed, Parser.currentScope_of_scope h ▸ hp.functions,
    Parser.currentScope_of_scope h ▸ hp.declared⟩

/-- An update of the flags of the innermost scope other than `inFunction`. -/
theorem Ready.of_modifyScope {p : Parser} (hp : Ready clean p) (f : Scope → Scope)
    (h1 : ∀ s, (f s).inFunction = s.inFunction)
    (h2 : ∀ s, (f s).functionList = s.functionList)
    (h3 : ∀ s, (f s).variableList = s.variableList) : Ready clean (p.modifyScope f) := by
  obtain ⟨hn, hs, hf, hv⟩ := hp
  unfold Parser.currentScope at hf hv
  unfold Parser.modifyScope
  cases hsc : p.scope with
  | nil => exact absurd hsc hn
  | cons s outer =>
    rw [hsc] at hs hf hv
    refine ⟨by simp, ?_, ?_, ?_⟩
    · simp only [Sealed] at hs ⊢; rw [h1]; exact hs
    · simp only [Parser.currentScope]; rw [h2]; exact hf
    · simp only [Parser.currentScope]; rw [h3]; exact hv

theorem Ready.with_variable {p : Parser} (hp : Ready clean p) (name : String) :
    Ready clean (p.addVariable name) := by
  obtain ⟨hn, hs, hf, hv⟩ := hp
  unfold Parser.currentScope at hf hv
  unfold Parser.addVariable Parser.modifyScope
  cases hsc : p.scope with
  | nil => exact absurd hsc hn
  | cons s outer =>
    rw [hsc] at hs hf hv
    refine ⟨by simp, ?_, ?_, ?_⟩
    · simpa only [Sealed] using hs
    · simpa only [Parser.currentScope] using hf
    · simp only [Parser.currentScope, Declaration.OkList]
      rw [Declaration.allDeclarations_append]
      exact ⟨hv, by simp [Declaration.AllList]⟩

theorem Ready.with_variables {p : Parser} (hp : Ready clean p) (list : List Expression) :
    Ready clean (p.addVariables list) := by
  induction list generalizing p with
  | nil => exact hp
  | cons e rest ih =>
    cases e <;> simp only [Parser.addVariables] <;> first | exact ih hp | exact ih (hp.with_variable _)

theorem Ready.with_function {p : Parser} (hp : Ready clean p) (name : String)
    (d : Definition) (hd : Declaration.OkList clean [.mk name d]) :
    Ready clean (p.addFunction name d) := by
  obtain ⟨hn, hs, hf, hv⟩ := hp
  unfold Parser.currentScope at hf hv
  unfold Parser.addFunction Parser.modifyScope
  cases hsc : p.scope with
  | nil => exact absurd hsc hn
  | cons s outer =>
    rw [hsc] at hs hf hv
    refine ⟨by simp, ?_, ?_, ?_⟩
    · simpa only [Sealed] using hs
    · simp only [Parser.currentScope, Declaration.OkList]
      rw [Declaration.allDeclarations_append]
      exact ⟨hf, hd⟩
    · simpa only [Parser.currentScope] using hv

theorem Parser.context_iteration {p : Parser} (hn : p.scope ≠ []) :
    (p.modifyScope fun s => { s with inIteration := true }).context = p.context.iteration := by
  unfold Parser.context Parser.currentScope Parser.modifyScope Context.iteration
  cases hsc : p.scope with
  | nil => exact absurd hsc hn
  | cons s outer => rfl

theorem Parser.context_switch {p : Parser} (hn : p.scope ≠ []) :
    (p.modifyScope fun s => { s with inSwitch := true }).context = p.context.switch := by
  unfold Parser.context Parser.currentScope Parser.modifyScope Context.switch
  cases hsc : p.scope with
  | nil => exact absurd hsc hn
  | cons s outer => rfl

theorem Parser.context_label {p : Parser} (hn : p.scope ≠ []) (l : String) :
    (p.modifyScope fun s => { s with labels := s.labels ++ [l] }).context =
      p.context.label l := by
  unfold Parser.context Parser.currentScope Parser.modifyScope Context.label
  cases hsc : p.scope with
  | nil => exact absurd hsc hn
  | cons s outer => rfl

theorem Parser.context_allowIn (p : Parser) (v : Bool) :
    (p.modifyScope fun s => { s with allowIn := v }).context = p.context := by
  unfold Parser.context Parser.currentScope Parser.modifyScope
  cases hsc : p.scope <;> simp [hsc]

/-- Under `Sealed`, an open label is a label of the innermost scope. -/
theorem hasLabel_sealed {name : String} {scope : List Scope} (hs : Sealed scope)
    (h : hasLabel name scope = true) :
    name ∈ (match scope with | [] => ({} : Scope) | s :: _ => s).labels := by
  cases scope with
  | nil => simp [hasLabel] at h
  | cons s outer =>
    simp only [hasLabel] at h
    simp only [Sealed] at hs
    by_cases hm : name ∈ s.labels
    · exact hm
    · rw [if_neg hm] at h
      rcases hs with hs | hs
      · simp [hs] at h
      · simp [hs] at h

theorem binaryLevel_comparison {level : BinaryLevel} {t : Token}
    (h : level.accepts t = true) : level.comparison = t.builtComparison := by
  cases level <;> cases t <;> first | rfl | (exact absurd h (by decide))

end Ready

section BuiltExpressions

variable {clean : Prop} {n : Nat}

theorem fine_parseRegExpLiteral (p : Parser) : p.parseRegExpLiteral.1.Fine clean := by
  unfold Parser.parseRegExpLiteral
  simp [Expression.Fine, Expression.Ok, Expression.All, Expression.Built, Expression.Idx0]

theorem fine_parseDotMember (p : Parser) (l : Expression) (hl : l.Fine clean) :
    (p.parseDotMember l).1.Fine clean := by
  unfold Parser.parseDotMember
  dsimp only
  split
  · simp [Expression.Fine, Expression.Ok, Expression.All, Expression.Built, Expression.Idx0]
  · exact ⟨by simpa [Expression.Ok, Expression.All, Expression.Built] using hl.1,
      by simpa [Expression.Idx0] using hl.2⟩

theorem ok_parseEmptyStatement (p : Parser) (c : Context) :
    p.parseEmptyStatement.1.Ok clean c := by
  simp [Parser.parseEmptyStatement, Statement.Ok, Statement.All, Statement.Built]

theorem ok_illegalBranch (p : Parser) (idx : Idx) (m : String) (c : Context) :
    (p.illegalBranch idx m).1.Ok clean c := by
  simp [Parser.illegalBranch, Statement.Ok, Statement.All, Statement.Built]

theorem Ready.labels {p : Parser} (hr : Ready clean p) {name : String}
    (h : hasLabel name p.scope = true) : name ∈ p.context.labels := by
  have := hasLabel_sealed hr.sealed h
  simpa [Parser.context, Parser.currentScope] using this

theorem Ready.labels_of {p : Parser} (hr : Ready clean p) {name : String} {scope : List Scope}
    (hs : scope = p.scope) (h : ¬(!hasLabel name scope) = true) : name ∈ p.context.labels := by
  subst hs
  exact hr.labels (by simpa using h)

theorem flags_of_scope {p q : Parser} (hs : q.scope = p.scope)
    (h : ¬(!q.currentScope.inIteration && !q.currentScope.inSwitch) = true) :
    p.context.inIteration = true ∨ p.context.inSwitch = true := by
  rw [Parser.currentScope_of_scope hs] at h
  simp only [Parser.context]
  revert h
  cases p.currentScope.inIteration <;> cases p.currentScope.inSwitch <;> simp

theorem iteration_of_scope {p q : Parser} (hs : q.scope = p.scope)
    (h : ¬(!q.currentScope.inIteration) = true) : p.context.inIteration = true := by
  rw [Parser.currentScope_of_scope hs] at h
  simp only [Parser.context]
  revert h
  cases p.currentScope.inIteration <;> simp

theorem ok_branch (c : Context) (idx : Idx) (tok : Token) (label : Option Identifier)
    (h1 : tok = .BREAK ∨ tok = .CONTINUE) (h2 : ∀ l, label = some l → l.Name ∈ c.labels)
    (h3 : label = none → tok = .BREAK → c.inIteration = true ∨ c.inSwitch = true)
    (h4 : tok = .CONTINUE → c.inIteration = true) :
    (Statement.BranchStatement idx tok label).Ok clean c := by
  simp only [Statement.Ok, Statement.All, Statement.Built]
  exact ⟨h1, h2, h3, h4⟩

theorem ok_parseBreakStatement (p : Parser) (hr : Ready clean p) :
    p.parseBreakStatement.1.Ok clean p.context := by
  unfold Parser.parseBreakStatement
  dsimp only
  split_ifs
  all_goals first
    | exact ok_illegalBranch _ _ _ _
    | (simp only [Statement.Ok, Statement.All, Statement.Built]; done)
    | skip
  all_goals rename_i h
  · exact ok_branch _ _ _ _ (Or.inl rfl) (by simp) (fun _ _ => flags_of_scope (by simp) h)
      (by simp)
  · exact ok_branch _ _ _ _ (Or.inl rfl)
      (fun l hl => by cases hl; exact hr.labels_of (by simp) h) (by simp) (by simp)
  · exact ok_branch _ _ _ _ (Or.inl rfl) (by simp) (fun _ _ => flags_of_scope (by simp) h)
      (by simp)
  · exact ok_branch _ _ _ _ (Or.inl rfl)
      (fun l hl => by cases hl; exact hr.labels_of (by simp) h) (by simp) (by simp)

theorem ok_parseContinueStatement (p : Parser) (hr : Ready clean p) :
    p.parseContinueStatement.1.Ok clean p.context := by
  unfold Parser.parseContinueStatement
  dsimp only
  split_ifs
  all_goals first
    | exact ok_illegalBranch _ _ _ _
    | (simp only [Statement.Ok, Statement.All, Statement.Built]; done)
    | skip
  · rename_i h
    exact ok_branch _ _ _ _ (Or.inr rfl) (by simp) (by simp)
      (fun _ => iteration_of_scope (by simp) h)
  · rename_i h1 h
    exact ok_branch _ _ _ _ (Or.inr rfl)
      (fun l hl => by cases hl; exact hr.labels_of (by simp) h1) (by simp)
      (fun _ => iteration_of_scope (by simp) h)
  · rename_i h
    exact ok_branch _ _ _ _ (Or.inr rfl) (by simp) (by simp)
      (fun _ => iteration_of_scope (by simp) h)
  · rename_i h1 h
    exact ok_branch _ _ _ _ (Or.inr rfl)
      (fun l hl => by cases hl; exact hr.labels_of (by simp) h1) (by simp)
      (fun _ => iteration_of_scope (by simp) h)

theorem Ready.allowIn {p : Parser} (hp : Ready clean p) (v : Bool) :
    Ready clean (p.modifyScope fun s => { s with allowIn := v }) :=
  hp.of_modifyScope _ (fun _ => rfl) (fun _ => rfl) (fun _ => rfl)

theorem Ready.inIteration {p : Parser} (hp : Ready clean p) (v : Bool) :
    Ready clean (p.modifyScope fun s => { s with inIteration := v }) :=
  hp.of_modifyScope _ (fun _ => rfl) (fun _ => rfl) (fun _ => rfl)

theorem Ready.inSwitch {p : Parser} (hp : Ready clean p) (v : Bool) :
    Ready clean (p.modifyScope fun s => { s with inSwitch := v }) :=
  hp.of_modifyScope _ (fun _ => rfl) (fun _ => rfl) (fun _ => rfl)

theorem Ready.setLabels {p : Parser} (hp : Ready clean p) (f : List String → List String) :
    Ready clean (p.modifyScope fun s => { s with labels := f s.labels }) :=
  hp.of_modifyScope _ (fun _ => rfl) (fun _ => rfl) (fun _ => rfl)

/-! ### Nodes built from good parts -/

theorem fine_leaf {e : Expression} (h1 : e.Ok clean) (h2 : e.Idx0.isSome = true) :
    e.Fine clean := ⟨h1, h2⟩

theorem fine_bad (f t : Idx) : (Expression.BadExpression f t).Fine clean := by
  simp [Expression.Fine, Expression.Ok, Expression.All, Expression.Built, Expression.Idx0]

theorem fine_bracket {l m : Expression} (a b : Idx) (hl : l.Fine clean) (hm : m.Ok clean) :
    (Expression.BracketExpression l m a b).Fine clean :=
  ⟨by simpa [Expression.Ok, Expression.All, Expression.Built] using ⟨hl.1, hm⟩,
    by simpa [Expression.Idx0] using hl.2⟩

theorem fine_call {l : Expression} {a : List Expression} (lp rp : Idx) (hl : l.Fine clean)
    (ha : Expression.AllList Expression.Built (Statement.Built clean) a) :
    (Expression.CallExpression l lp a rp).Fine clean :=
  ⟨by simpa [Expression.Ok, Expression.All, Expression.Built] using ⟨hl.1, ha⟩,
    by simpa [Expression.Idx0] using hl.2⟩

theorem fine_new {c : Expression} {a : List Expression} (i lp rp : Idx) (hl : c.Ok clean)
    (ha : Expression.AllList Expression.Built (Statement.Built clean) a) :
    (Expression.NewExpression i c lp a rp).Fine clean :=
  ⟨by simpa [Expression.Ok, Expression.All, Expression.Built] using ⟨hl, ha⟩,
    by simp [Expression.Idx0]⟩

theorem fine_unary {o : Expression} (op : Token) (i : Idx) (pf : Bool) (ho : o.Ok clean)
    (h : (op = .INCREMENT ∨ op = .DECREMENT) → o.isReference = true) :
    (Expression.UnaryExpression op i o pf).Fine clean := by
  refine ⟨?_, by simp [Expression.Idx0]⟩
  simp only [Expression.Ok, Expression.All, Expression.Built]
  exact ⟨h, ho⟩

theorem fine_binary {l r : Expression} (op : Token) (c : Bool) (hl : l.Fine clean)
    (hr : r.Ok clean) (hc : c = op.builtComparison) :
    (Expression.BinaryExpression op l r c).Fine clean := by
  refine ⟨?_, by simpa [Expression.Idx0] using hl.2⟩
  simp only [Expression.Ok, Expression.All, Expression.Built]
  exact ⟨hc, hl.1, hr⟩

theorem fine_conditional {t c a : Expression} (ht : t.Fine clean) (hc : c.Ok clean)
    (ha : a.Ok clean) : (Expression.ConditionalExpression t c a).Fine clean := by
  refine ⟨?_, by simpa [Expression.Idx0] using ht.2⟩
  simp only [Expression.Ok, Expression.All, Expression.Built]
  exact ⟨trivial, ht.1, hc, ha⟩

theorem fine_assign {l r : Expression} (op : Token) (hl : l.Fine clean)
    (href : l.isReference = true) (hr : r.Ok clean) :
    (Expression.AssignExpression op l r).Fine clean := by
  refine ⟨?_, by simpa [Expression.Idx0] using hl.2⟩
  simp only [Expression.Ok, Expression.All, Expression.Built]
  exact ⟨href, hl.1, hr⟩

theorem fine_sequence {e : Expression} {m : List Expression} (he : e.Fine clean)
    (hm : Expression.AllList Expression.Built (Statement.Built clean) m) :
    (Expression.SequenceExpression (e :: m)).Fine clean := by
  refine ⟨?_, by simpa [Expression.Idx0, Expression.Idx0First] using he.2⟩
  simp only [Expression.Ok, Expression.All, Expression.Built, Expression.AllList]
  exact ⟨trivial, he.1, hm⟩

theorem fine_function {b : Statement} {fl vl : List Declaration} (f : Idx) (s : List Nat)
    (ps : List String) (hb : b.Ok clean .function) (hk : b.isBlock = true)
    (hfl : Declaration.OkList clean fl) (hvl : Declaration.OkList clean vl) :
    (Expression.FunctionExpression f b s ps fl vl).Fine clean := by
  refine ⟨?_, by simp [Expression.Idx0]⟩
  simp only [Expression.Ok, Expression.All, Expression.Built]
  exact ⟨hk, hb, hfl, hvl⟩

theorem fine_object {v : List Property} (lb rb : Idx)
    (hv : Property.AllList Expression.Built (Statement.Built clean) v) :
    (Expression.ObjectLiteral lb rb v).Fine clean := by
  refine ⟨?_, by simp [Expression.Idx0]⟩
  simp only [Expression.Ok, Expression.All, Expression.Built]
  exact ⟨trivial, hv⟩

theorem fine_array {v : List (Option Expression)} (lb rb : Idx)
    (hv : Expression.AllOptions Expression.Built (Statement.Built clean) v) :
    (Expression.ArrayLiteral lb rb v).Fine clean := by
  refine ⟨?_, by simp [Expression.Idx0]⟩
  simp only [Expression.Ok, Expression.All, Expression.Built]
  exact ⟨trivial, hv⟩

/-! ### The expressions -/

theorem built_parsePrimaryExpression (ih : BuiltIH clean n) (p : Parser) :
    Builds clean (Expression.Fine clean) p (parsePrimaryExpression (n + 1) p) := by
  intro r h hr hc
  rw [parsePrimaryExpression] at h
  dsimp only at h
  have leaf : ∀ (e : Expression) (q : Parser), e.Fine clean → q.scope = p.scope →
      some (e, q) = some r → r.1.Fine clean ∧ Ready clean r.2 := by
    intro e q he hq hh
    cases hh
    exact ⟨he, hr.of_scope hq⟩
  have lf : ∀ e : Expression, e.All Expression.Built (Statement.Built clean) →
      e.Idx0.isSome = true → e.Fine clean := fun e h1 h2 => ⟨h1, h2⟩
  by_cases c1 : p.token = .IDENTIFIER
  · rw [if_pos c1] at h
    exact leaf _ _ (lf _ (by simp [Expression.All, Expression.Built])
      (by simp [Expression.Idx0])) (by simp) h
  rw [if_neg c1] at h
  by_cases c2 : p.token = .NULL
  · rw [if_pos c2] at h
    exact leaf _ _ (lf _ (by simp [Expression.All, Expression.Built])
      (by simp [Expression.Idx0])) (by simp) h
  rw [if_neg c2] at h
  by_cases c3 : p.token = .BOOLEAN
  · rw [if_pos c3] at h
    split at h
    · exact leaf _ _ (lf _ (by simp [Expression.All, Expression.Built])
        (by simp [Expression.Idx0])) (by simp) h
    · split at h
      · exact leaf _ _ (lf _ (by simp [Expression.All, Expression.Built])
          (by simp [Expression.Idx0])) (by simp) h
      · exact leaf _ _ (lf _ (by simp [Expression.All, Expression.Built])
          (by simp [Expression.Idx0])) (by simp) h
  rw [if_neg c3] at h
  by_cases c4 : p.token = .STRING
  · rw [if_pos c4] at h
    exact leaf _ _ (lf _ (by simp [Expression.All, Expression.Built])
      (by simp [Expression.Idx0])) (by simp) h
  rw [if_neg c4] at h
  by_cases c5 : p.token = .NUMBER
  · rw [if_pos c5] at h
    split at h
    · exact leaf _ _ (lf _ (by simp [Expression.All, Expression.Built])
        (by simp [Expression.Idx0])) (by simp) h
    · exact leaf _ _ (lf _ (by simp [Expression.All, Expression.Built])
        (by simp [Expression.Idx0])) (by simp) h
  rw [if_neg c5] at h
  by_cases c6 : p.token = .SLASH ∨ p.token = .QUOTIENT_ASSIGN
  · rw [if_pos c6] at h
    cases h
    exact ⟨fine_parseRegExpLiteral p, hr.of_scope (by simp)⟩
  rw [if_neg c6] at h
  by_cases c7 : p.token = .LEFT_BRACE
  · rw [if_pos c7] at h
    exact ih.parseObjectLiteral _ r h hr hc
  rw [if_neg c7] at h
  by_cases c8 : p.token = .LEFT_BRACKET
  · rw [if_pos c8] at h
    exact ih.parseArrayLiteral _ r h hr hc
  rw [if_neg c8] at h
  by_cases c9 : p.token = .LEFT_PARENTHESIS
  · rw [if_pos c9] at h
    simp only [bind, Option.bind_eq_some, pure, Option.some.injEq] at h
    obtain ⟨a, h1, h2⟩ := h
    cases h2
    obtain ⟨e1, e2⟩ := ih.parseExpression _ a h1 (hr.of_scope (by simp))
      (hc.back (Parser.steps_expect _ _))
    exact ⟨e1, e2.of_scope (by simp)⟩
  rw [if_neg c9] at h
  by_cases c10 : p.token = .THIS
  · rw [if_pos c10] at h
    exact leaf _ _ (lf _ (by simp [Expression.All, Expression.Built])
      (by simp [Expression.Idx0])) (by simp) h
  rw [if_neg c10] at h
  by_cases c11 : p.token = .FUNCTION
  · rw [if_pos c11] at h
    exact ih.parseFunction _ _ r h hr hc
  rw [if_neg c11] at h
  exact leaf _ _ (fine_bad _ _) (by simp) h

theorem built_parseVariableDeclaration (ih : BuiltIH clean n) (p : Parser) :
    Builds clean (fun x => x.2.Ok clean) p (parseVariableDeclaration (n + 1) p) := by
  intro r h hr hc
  rw [parseVariableDeclaration] at h
  dsimp only at h
  split at h
  · cases h
    exact ⟨(fine_bad _ _).1, hr.of_scope (by simp)⟩
  · split at h
    · simp only [bind, Option.bind_eq_some, pure, Option.some.injEq] at h
      obtain ⟨a, h1, h2⟩ := h
      cases h2
      obtain ⟨e1, e2⟩ := ih.parseAssignmentExpression _ a h1 (hr.of_scope (by simp)) hc
      refine ⟨?_, e2⟩
      simp only [Expression.Ok, Expression.All, Expression.Built, Expression.AllOption]
      exact ⟨trivial, e1.1⟩
    · cases h
      refine ⟨?_, hr.of_scope (by simp)⟩
      simp [Expression.Ok, Expression.All, Expression.Built, Expression.AllOption]

theorem built_parseVariableDeclarationList (ih : BuiltIH clean n) (l : List Expression)
    (p : Parser) (hl : Expression.AllList Expression.Built (Statement.Built clean) l) :
    Builds clean (Expression.AllList Expression.Built (Statement.Built clean)) p
      (parseVariableDeclarationList (n + 1) l p) := by
  intro r h hr hc
  rw [parseVariableDeclarationList] at h
  simp only [bind, Option.bind_eq_some, pure] at h
  obtain ⟨a, h1, h2⟩ := h
  have hl2 : ∀ q : Parser, Clean clean q → a.2.Steps q →
      Expression.AllList Expression.Built (Statement.Built clean) (l ++ [a.1.2]) ∧
        Ready clean (a.2.addVariable a.1.1) := by
    intro q hq hs
    obtain ⟨e1, e2⟩ := ih.parseVariableDeclaration _ a h1 hr (hq.back hs)
    refine ⟨?_, e2.with_variable _⟩
    rw [Expression.allList_append]
    exact ⟨hl, e1, trivial⟩
  split at h2
  · cases h2
    exact hl2 _ hc ((Parser.Steps.refl _).addVariable _)
  · have rr := (reachIH n).parseVariableDeclarationList _ _ r h2
    obtain ⟨e1, e2⟩ := hl2 _ hc ((((Parser.Steps.refl _).addVariable _).next).trans rr.1)
    exact ih.parseVariableDeclarationList _ _ e1 r h2 (e2.of_scope (by simp)) hc

theorem built_parseObjectProperty (ih : BuiltIH clean n) (p : Parser) :
    Builds clean (fun x => Property.AllList Expression.Built (Statement.Built clean) [x]) p
      (parseObjectProperty (n + 1) p) := by
  intro r h hr hc
  rw [parseObjectProperty] at h
  dsimp only at h
  split at h
  · simp only [bind, Option.bind_eq_some, pure, Option.some.injEq] at h
    obtain ⟨a, h1, h2⟩ := h
    cases h2
    obtain ⟨⟨e1, e2, e3, e4⟩, e5⟩ := ih._parseFunction _ _ _ a h1 (hr.of_scope (by simp)) hc
    refine ⟨?_, e5⟩
    simp only [Property.AllList]
    exact ⟨(fine_function _ _ _ e1 e2 e4 e3).1, trivial⟩
  · split at h
    · simp only [bind, Option.bind_eq_some, pure, Option.some.injEq] at h
      obtain ⟨a, h1, h2⟩ := h
      cases h2
      obtain ⟨⟨e1, e2, e3, e4⟩, e5⟩ := ih._parseFunction _ _ _ a h1 (hr.of_scope (by simp)) hc
      refine ⟨?_, e5⟩
      simp only [Property.AllList]
      exact ⟨(fine_function _ _ _ e1 e2 e4 e3).1, trivial⟩
    · simp only [bind, Option.bind_eq_some, pure, Option.some.injEq] at h
      obtain ⟨a, h1, h2⟩ := h
      cases h2
      obtain ⟨e1, e2⟩ := ih.parseAssignmentExpression _ a h1 (hr.of_scope (by simp)) hc
      refine ⟨?_, e2⟩
      simp only [Property.AllList]
      exact ⟨e1.1, trivial⟩

theorem built_parseObjectLiteralLoop (ih : BuiltIH clean n) (v : List Property) (p : Parser)
    (hv : Property.AllList Expression.Built (Statement.Built clean) v) :
    Builds clean (Property.AllList Expression.Built (Statement.Built clean)) p
      (parseObjectLiteralLoop (n + 1) v p) := by
  intro r h hr hc
  rw [parseObjectLiteralLoop] at h
  split at h
  · simp only [bind, Option.bind_eq_some] at h
    obtain ⟨a, h1, h2⟩ := h
    have rr := (reachIH n).parseObjectLiteralLoop _ _ r h2
    have hs : a.2.Steps (if a.2.token = .COMMA then a.2.next else a.2) := by
      split
      · exact Parser.steps_next _
      · exact Parser.Steps.refl _
    obtain ⟨e1, e2⟩ := ih.parseObjectProperty _ a h1 hr (hc.back (hs.trans rr.1))
    refine ih.parseObjectLiteralLoop _ _ ?_ r h2 (e2.of_scope (by split <;> simp)) hc
    rw [Property.allProperties_append]
    exact ⟨hv, e1⟩
  · cases h
    exact ⟨hv, hr⟩

theorem built_parseObjectLiteral (ih : BuiltIH clean n) (p : Parser) :
    Builds clean (Expression.Fine clean) p (parseObjectLiteral (n + 1) p) := by
  intro r h hr hc
  simp only [parseObjectLiteral, bind, Option.bind_eq_some, pure, Option.some.injEq] at h
  obtain ⟨a, h1, h2⟩ := h
  cases h2
  obtain ⟨e1, e2⟩ := ih.parseObjectLiteralLoop [] _ trivial a h1 (hr.of_scope (by simp))
    (hc.back (Parser.steps_expect _ _))
  exact ⟨fine_object _ _ e1, e2.of_scope (by simp)⟩

theorem built_parseArrayLiteralLoop (ih : BuiltIH clean n) (v : List (Option Expression))
    (p : Parser) (hv : Expression.AllOptions Expression.Built (Statement.Built clean) v) :
    Builds clean (Expression.AllOptions Expression.Built (Statement.Built clean)) p
      (parseArrayLiteralLoop (n + 1) v p) := by
  intro r h hr hc
  rw [parseArrayLiteralLoop] at h
  split at h
  · split at h
    · refine ih.parseArrayLiteralLoop _ _ ?_ r h (hr.of_scope (by simp)) hc
      rw [Expression.allOptions_append]
      exact ⟨hv, trivial, trivial⟩
    · simp only [bind, Option.bind_eq_some] at h
      obtain ⟨a, h1, h2⟩ := h
      have rr := (reachIH n).parseArrayLiteralLoop _ _ r h2
      have hs : a.2.Steps
          (if a.2.token ≠ .RIGHT_BRACKET then (a.2.expect .COMMA).2 else a.2) := by
        split
        · exact Parser.steps_expect _ _
        · exact Parser.Steps.refl _
      obtain ⟨e1, e2⟩ := ih.parseAssignmentExpression _ a h1 hr (hc.back (hs.trans rr.1))
      refine ih.parseArrayLiteralLoop _ _ ?_ r h2 (e2.of_scope (by split <;> simp)) hc
      rw [Expression.allOptions_append]
      exact ⟨hv, e1.1, trivial⟩
  · cases h
    exact ⟨hv, hr⟩

theorem built_parseArrayLiteral (ih : BuiltIH clean n) (p : Parser) :
    Builds clean (Expression.Fine clean) p (parseArrayLiteral (n + 1) p) := by
  intro r h hr hc
  simp only [parseArrayLiteral, bind, Option.bind_eq_some, pure, Option.some.injEq] at h
  obtain ⟨a, h1, h2⟩ := h
  cases h2
  obtain ⟨e1, e2⟩ := ih.parseArrayLiteralLoop [] _ trivial a h1 (hr.of_scope (by simp))
    (hc.back (Parser.steps_expect _ _))
  exact ⟨fine_array _ _ e1, e2.of_scope (by simp)⟩

theorem built_parseArgumentListLoop (ih : BuiltIH clean n) (l : List Expression) (p : Parser)
    (hl : Expression.AllList Expression.Built (Statement.Built clean) l) :
    Builds clean (Expression.AllList Expression.Built (Statement.Built clean)) p
      (parseArgumentListLoop (n + 1) l p) := by
  intro r h hr hc
  rw [parseArgumentListLoop] at h
  simp only [bind, Option.bind_eq_some, pure] at h
  obtain ⟨a, h1, h2⟩ := h
  have hl2 : ∀ q : Parser, Clean clean q → a.2.Steps q →
      Expression.AllList Expression.Built (Statement.Built clean) (l ++ [a.1]) ∧
        Ready clean a.2 := by
    intro q hq hs
    obtain ⟨e1, e2⟩ := ih.parseAssignmentExpression _ a h1 hr (hq.back hs)
    refine ⟨?_, e2⟩
    rw [Expression.allList_append]
    exact ⟨hl, e1.1, trivial⟩
  split at h2
  · cases h2
    exact hl2 _ hc (Parser.Steps.refl _)
  · have rr := (reachIH n).parseArgumentListLoop _ _ r h2
    obtain ⟨e1, e2⟩ := hl2 _ hc ((Parser.steps_next _).trans rr.1)
    exact ih.parseArgumentListLoop _ _ e1 r h2 (e2.of_scope (by simp)) hc

theorem built_parseArgumentList (ih : BuiltIH clean n) (p : Parser) :
    Builds clean (fun x => Expression.AllList Expression.Built (Statement.Built clean) x.1) p
      (parseArgumentList (n + 1) p) := by
  intro r h hr hc
  rw [parseArgumentList] at h
  dsimp only at h
  by_cases c : (p.expect .LEFT_PARENTHESIS).2.token = .RIGHT_PARENTHESIS
  · simp only [c, ne_eq, not_true_eq_false, if_false, bind, Option.bind, pure,
      Option.some.injEq] at h
    cases h
    exact ⟨trivial, hr.of_scope (by simp)⟩
  · simp only [c, ne_eq, not_false_eq_true, if_true, bind, Option.bind_eq_some, pure,
      Option.some.injEq] at h
    obtain ⟨a, h1, h2⟩ := h
    cases h2
    obtain ⟨e1, e2⟩ := ih.parseArgumentListLoop [] _ trivial a h1 (hr.of_scope (by simp))
      (hc.back (Parser.steps_expect _ _))
    exact ⟨e1, e2.of_scope (by simp)⟩

theorem built_parseCallExpression (ih : BuiltIH clean n) (l : Expression) (p : Parser)
    (hl : l.Fine clean) :
    Builds clean (Expression.Fine clean) p (parseCallExpression (n + 1) l p) := by
  intro r h hr hc
  simp only [parseCallExpression, bind, Option.bind_eq_some, pure, Option.some.injEq] at h
  obtain ⟨a, h1, h2⟩ := h
  cases h2
  obtain ⟨e1, e2⟩ := ih.parseArgumentList _ a h1 hr hc
  exact ⟨fine_call _ _ hl e1, e2⟩

theorem built_parseBracketMember (ih : BuiltIH clean n) (l : Expression) (p : Parser)
    (hl : l.Fine clean) :
    Builds clean (Expression.Fine clean) p (parseBracketMember (n + 1) l p) := by
  intro r h hr hc
  simp only [parseBracketMember, bind, Option.bind_eq_some, pure, Option.some.injEq] at h
  obtain ⟨a, h1, h2⟩ := h
  cases h2
  obtain ⟨e1, e2⟩ := ih.parseExpression _ a h1 (hr.of_scope (by simp))
    (hc.back (Parser.steps_expect _ _))
  exact ⟨fine_bracket _ _ hl e1.1, e2.of_scope (by simp)⟩

theorem built_parseNewExpression (ih : BuiltIH clean n) (p : Parser) :
    Builds clean (Expression.Fine clean) p (parseNewExpression (n + 1) p) := by
  intro r h hr hc
  rw [parseNewExpression] at h
  simp only [bind, Option.bind_eq_some, pure] at h
  obtain ⟨a, h1, h2⟩ := h
  split at h2
  · simp only [Option.bind_eq_some, Option.some.injEq] at h2
    obtain ⟨b, h3, h4⟩ := h2
    cases h4
    have rb := (reachIH n).parseArgumentList _ b h3
    obtain ⟨e1, e2⟩ := ih.parseLeftHandSideExpression _ a h1 (hr.of_scope (by simp))
      (hc.back rb.1)
    obtain ⟨e3, e4⟩ := ih.parseArgumentList _ b h3 e2 hc
    exact ⟨fine_new _ _ _ e1.1 e3, e4⟩
  · cases h2
    obtain ⟨e1, e2⟩ := ih.parseLeftHandSideExpression _ a h1 (hr.of_scope (by simp)) hc
    exact ⟨fine_new _ _ _ e1.1 trivial, e2⟩

theorem built_parseLeftHandSideExpressionLoop (ih : BuiltIH clean n) (l : Expression)
    (p : Parser) (hl : l.Fine clean) :
    Builds clean (Expression.Fine clean) p (parseLeftHandSideExpressionLoop (n + 1) l p) := by
  intro r h hr hc
  rw [parseLeftHandSideExpressionLoop] at h
  split at h
  · have hd : (p.parseDotMember l).2.scope = p.scope := by simp
    exact ih.parseLeftHandSideExpressionLoop (p.parseDotMember l).1 (p.parseDotMember l).2
      (fine_parseDotMember p l hl) r h (hr.of_scope hd) hc
  · split at h
    · simp only [bind, Option.bind_eq_some] at h
      obtain ⟨a, h1, h2⟩ := h
      have rr := (reachIH n).parseLeftHandSideExpressionLoop _ _ r h2
      obtain ⟨e1, e2⟩ := ih.parseBracketMember _ _ hl a h1 hr (hc.back rr.1)
      exact ih.parseLeftHandSideExpressionLoop _ _ e1 r h2 e2 hc
    · cases h; exact ⟨hl, hr⟩

theorem built_parseLeftHandSideExpression (ih : BuiltIH clean n) (p : Parser) :
    Builds clean (Expression.Fine clean) p (parseLeftHandSideExpression (n + 1) p) := by
  intro r h hr hc
  rw [parseLeftHandSideExpression] at h
  dsimp only at h
  by_cases c : p.token = .NEW
  · rw [if_pos c] at h
    simp only [bind, Option.bind_eq_some] at h
    obtain ⟨a, h1, h2⟩ := h
    have rr := (reachIH n).parseLeftHandSideExpressionLoop _ _ r h2
    obtain ⟨e1, e2⟩ := ih.parseNewExpression _ a h1 hr (hc.back rr.1)
    exact ih.parseLeftHandSideExpressionLoop _ _ e1 r h2 e2 hc
  · rw [if_neg c] at h
    simp only [bind, Option.bind_eq_some] at h
    obtain ⟨a, h1, h2⟩ := h
    have rr := (reachIH n).parseLeftHandSideExpressionLoop _ _ r h2
    obtain ⟨e1, e2⟩ := ih.parsePrimaryExpression _ a h1 hr (hc.back rr.1)
    exact ih.parseLeftHandSideExpressionLoop _ _ e1 r h2 e2 hc

theorem built_parseLeftHandSideExpressionAllowCallLoop (ih : BuiltIH clean n)
    (l : Expression) (p : Parser) (hl : l.Fine clean) :
    Builds clean (Expression.Fine clean) p
      (parseLeftHandSideExpressionAllowCallLoop (n + 1) l p) := by
  intro r h hr hc
  rw [parseLeftHandSideExpressionAllowCallLoop] at h
  split at h
  · have hd : (p.parseDotMember l).2.scope = p.scope := by simp
    exact ih.parseLeftHandSideExpressionAllowCallLoop (p.parseDotMember l).1 (p.parseDotMember l).2
      (fine_parseDotMember p l hl) r h (hr.of_scope hd) hc
  · split at h
    · simp only [bind, Option.bind_eq_some] at h
      obtain ⟨a, h1, h2⟩ := h
      have rr := (reachIH n).parseLeftHandSideExpressionAllowCallLoop _ _ r h2
      obtain ⟨e1, e2⟩ := ih.parseBracketMember _ _ hl a h1 hr (hc.back rr.1)
      exact ih.parseLeftHandSideExpressionAllowCallLoop _ _ e1 r h2 e2 hc
    · split at h
      · simp only [bind, Option.bind_eq_some] at h
        obtain ⟨a, h1, h2⟩ := h
        have rr := (reachIH n).parseLeftHandSideExpressionAllowCallLoop _ _ r h2
        obtain ⟨e1, e2⟩ := ih.parseCallExpression _ _ hl a h1 hr (hc.back rr.1)
        exact ih.parseLeftHandSideExpressionAllowCallLoop _ _ e1 r h2 e2 hc
      · cases h; exact ⟨hl, hr⟩

theorem built_parseLeftHandSideExpressionAllowCall (ih : BuiltIH clean n) (p : Parser) :
    Builds clean (Expression.Fine clean) p (parseLeftHandSideExpressionAllowCall (n + 1) p) := by
  intro r h hr hc
  rw [parseLeftHandSideExpressionAllowCall] at h
  dsimp only at h
  by_cases c : p.token = .NEW
  · rw [if_pos c] at h
    simp only [bind, Option.bind_eq_some] at h
    obtain ⟨a, h1, h2⟩ := h
    have rr := (reachIH n).parseLeftHandSideExpressionAllowCallLoop _ _ r h2
    obtain ⟨e1, e2⟩ := ih.parseNewExpression _ a h1 hr (hc.back rr.1)
    exact ih.parseLeftHandSideExpressionAllowCallLoop _ _ e1 r h2 e2 hc
  · rw [if_neg c] at h
    simp only [bind, Option.bind_eq_some] at h
    obtain ⟨a, h1, h2⟩ := h
    have rr := (reachIH n).parseLeftHandSideExpressionAllowCallLoop _ _ r h2
    obtain ⟨e1, e2⟩ := ih.parsePrimaryExpression _ a h1 hr (hc.back rr.1)
    exact ih.parseLeftHandSideExpressionAllowCallLoop _ _ e1 r h2 e2 hc

theorem built_parsePostfixExpression (ih : BuiltIH clean n) (p : Parser) :
    Builds clean (Expression.Fine clean) p (parsePostfixExpression (n + 1) p) := by
  intro r h hr hc
  rw [parsePostfixExpression] at h
  simp only [bind, Option.bind_eq_some, pure] at h
  obtain ⟨a, h1, h2⟩ := h
  split at h2
  · split at h2
    · rename_i href
      cases h2
      obtain ⟨e1, e2⟩ := ih.parseLeftHandSideExpressionAllowCall _ a h1 hr
        (hc.back (Parser.steps_next _))
      exact ⟨fine_unary _ _ _ e1.1 (fun _ => href), e2.of_scope (by simp)⟩
    · cases h2
      obtain ⟨e1, e2⟩ := ih.parseLeftHandSideExpressionAllowCall _ a h1 hr
        (hc.back (((Parser.steps_next _).error _ _).nextStatement))
      exact ⟨fine_bad _ _, e2.of_scope (by simp)⟩
  · cases h2
    exact ih.parseLeftHandSideExpressionAllowCall _ a h1 hr hc

theorem built_parseUnaryExpression (ih : BuiltIH clean n) (p : Parser) :
    Builds clean (Expression.Fine clean) p (parseUnaryExpression (n + 1) p) := by
  intro r h hr hc
  rw [parseUnaryExpression] at h
  split at h
  · rename_i hop
    simp only [bind, Option.bind_eq_some, pure, Option.some.injEq] at h
    obtain ⟨a, h1, h2⟩ := h
    cases h2
    obtain ⟨e1, e2⟩ := ih.parseUnaryExpression _ a h1 (hr.of_scope (by simp)) hc
    refine ⟨fine_unary _ _ _ e1.1 (fun hi => ?_), e2⟩
    exfalso
    rcases hi with hi | hi <;> rw [hi] at hop <;> exact absurd hop (by decide)
  · split at h
    · simp only [bind, Option.bind_eq_some, pure] at h
      obtain ⟨a, h1, h2⟩ := h
      split at h2
      · rename_i href
        cases h2
        obtain ⟨e1, e2⟩ := ih.parseUnaryExpression _ a h1 (hr.of_scope (by simp)) hc
        exact ⟨fine_unary _ _ _ e1.1 (fun _ => href), e2⟩
      · cases h2
        obtain ⟨e1, e2⟩ := ih.parseUnaryExpression _ a h1 (hr.of_scope (by simp))
          (hc.back ((Parser.steps_error _ _ _).nextStatement))
        exact ⟨fine_bad _ _, e2.of_scope (by simp)⟩
    · exact ih.parsePostfixExpression _ r h hr hc

theorem built_parseBinaryOperand (ih : BuiltIH clean n) (lv : BinaryLevel) (p : Parser) :
    Builds clean (Expression.Fine clean) p (parseBinaryOperand (n + 1) lv p) := by
  intro r h hr hc
  cases lv <;> rw [parseBinaryOperand] at h
  · exact ih.parseUnaryExpression _ r h hr hc
  · exact ih.parseBinaryExpression _ _ r h hr hc
  · exact ih.parseBinaryExpression _ _ r h hr hc
  · exact ih.parseRelationalExpression _ r h hr hc
  · exact ih.parseBinaryExpression _ _ r h hr hc
  · exact ih.parseBinaryExpression _ _ r h hr hc
  · exact ih.parseBinaryExpression _ _ r h hr hc
  · exact ih.parseBinaryExpression _ _ r h hr hc
  · exact ih.parseBinaryExpression _ _ r h hr hc

theorem built_parseBinaryLoop (ih : BuiltIH clean n) (lv : BinaryLevel) (l : Expression)
    (p : Parser) (hl : l.Fine clean) :
    Builds clean (Expression.Fine clean) p (parseBinaryLoop (n + 1) lv l p) := by
  intro r h hr hc
  rw [parseBinaryLoop] at h
  split at h
  · rename_i hop
    simp only [bind, Option.bind_eq_some] at h
    obtain ⟨a, h1, h2⟩ := h
    have rr := (reachIH n).parseBinaryLoop _ _ _ r h2
    obtain ⟨e1, e2⟩ := ih.parseBinaryOperand _ _ a h1 (hr.of_scope (by simp)) (hc.back rr.1)
    exact ih.parseBinaryLoop _ _ _ (fine_binary _ _ hl e1.1 (binaryLevel_comparison hop)) r h2
      e2 hc
  · cases h; exact ⟨hl, hr⟩

theorem built_parseBinaryExpression (ih : BuiltIH clean n) (lv : BinaryLevel) (p : Parser) :
    Builds clean (Expression.Fine clean) p (parseBinaryExpression (n + 1) lv p) := by
  intro r h hr hc
  rw [parseBinaryExpression] at h
  simp only [bind, Option.bind_eq_some] at h
  obtain ⟨a, h1, h2⟩ := h
  have rr := (reachIH n).parseBinaryLoop _ _ _ r h2
  obtain ⟨e1, e2⟩ := ih.parseBinaryOperand _ _ a h1 hr (hc.back rr.1)
  exact ih.parseBinaryLoop _ _ _ e1 r h2 e2 hc

theorem built_parseRelationalExpression (ih : BuiltIH clean n) (p : Parser) :
    Builds clean (Expression.Fine clean) p (parseRelationalExpression (n + 1) p) := by
  intro r h hr hc
  rw [parseRelationalExpression] at h
  simp only [bind, Option.bind_eq_some, pure] at h
  obtain ⟨a, h1, h2⟩ := h
  have stay : Clean clean ((a.2.modifyScope fun s => { s with allowIn := true }).modifyScope
        fun s => { s with allowIn := a.2.currentScope.allowIn }) →
      a.1.Fine clean ∧ Ready clean
        ((a.2.modifyScope fun s => { s with allowIn := true }).modifyScope
          fun s => { s with allowIn := a.2.currentScope.allowIn }) := by
    intro hcq
    obtain ⟨e1, e2⟩ := ih.parseBinaryExpression _ _ a h1 hr
      (hcq.back ((Parser.steps_modifyScope _ _).modifyScope _))
    exact ⟨e1, (e2.allowIn _).allowIn _⟩
  have rec : ∀ (b : Expression × Parser) (op : Token) (c : Bool),
      c = op.builtComparison →
      parseRelationalExpression n
        (a.2.modifyScope fun s => { s with allowIn := true }).next = some b →
      Clean clean b.2 →
      (Expression.BinaryExpression op a.1 b.1 c).Fine clean ∧ Ready clean
        (b.2.modifyScope fun s => { s with allowIn := a.2.currentScope.allowIn }) := by
    intro b op c hcmp hb hcb
    have rb := (reachIH n).parseRelationalExpression _ b hb
    obtain ⟨e1, e2⟩ := ih.parseBinaryExpression _ _ a h1 hr
      (hcb.back (((Parser.steps_modifyScope _ _).next).trans rb.1))
    obtain ⟨e3, e4⟩ := ih.parseRelationalExpression _ b hb
      ((e2.allowIn true).of_scope (by simp)) hcb
    exact ⟨fine_binary _ _ e1 e3.1 hcmp, e4.allowIn _⟩
  have hcm : ∀ q : Parser, Clean clean (q.modifyScope fun s =>
      { s with allowIn := a.2.currentScope.allowIn }) → Clean clean q :=
    fun q hq => hq.back (Parser.steps_modifyScope _ _)
  split at h2
  · rename_i hop
    simp only [Option.bind_eq_some, Option.some.injEq] at h2
    obtain ⟨b, h3, h4⟩ := h2
    cases h4
    refine rec b _ _ ?_ h3 (hcm _ hc)
    simp only [Parser.modifyScope_token] at hop
    rcases hop with hop | hop | hop | hop <;> simp only [Parser.modifyScope_token, hop] <;> rfl
  · split at h2
    · rename_i hop
      simp only [Option.bind_eq_some, Option.some.injEq] at h2
      obtain ⟨b, h3, h4⟩ := h2
      cases h4
      refine rec b _ _ ?_ h3 (hcm _ hc)
      simp only [Parser.modifyScope_token] at hop
      simp only [Parser.modifyScope_token, hop]
      rfl
    · split at h2
      · rename_i hop
        split at h2
        · cases h2
          exact stay hc
        · simp only [Option.bind_eq_some, Option.some.injEq] at h2
          obtain ⟨b, h3, h4⟩ := h2
          cases h4
          refine rec b _ _ ?_ h3 (hcm _ hc)
          simp only [Parser.modifyScope_token] at hop
          simp only [Parser.modifyScope_token, hop]
          rfl
      · cases h2
        exact stay hc

theorem built_parseConditionlExpression (ih : BuiltIH clean n) (p : Parser) :
    Builds clean (Expression.Fine clean) p (parseConditionlExpression (n + 1) p) := by
  intro r h hr hc
  rw [parseConditionlExpression] at h
  simp only [bind, Option.bind_eq_some, pure] at h
  obtain ⟨a, h1, h2⟩ := h
  split at h2
  · simp only [Option.bind_eq_some, Option.some.injEq] at h2
    obtain ⟨b, h3, c, h4, h5⟩ := h2
    cases h5
    have rb := (reachIH n).parseAssignmentExpression _ b h3
    have rc := (reachIH n).parseAssignmentExpression _ c h4
    have hcb : Clean clean b.2 := hc.back ((Parser.steps_expect _ _).trans rc.1)
    obtain ⟨e1, e2⟩ := ih.parseBinaryExpression _ _ a h1 hr
      (hcb.back ((Parser.steps_next _).trans rb.1))
    obtain ⟨e3, e4⟩ := ih.parseAssignmentExpression _ b h3 (e2.of_scope (by simp)) hcb
    obtain ⟨e5, e6⟩ := ih.parseAssignmentExpression _ c h4 (e4.of_scope (by simp)) hc
    exact ⟨fine_conditional e1 e3.1 e5.1, e6⟩
  · cases h2
    exact ih.parseBinaryExpression _ _ a h1 hr hc

theorem built_parseAssignmentExpression (ih : BuiltIH clean n) (p : Parser) :
    Builds clean (Expression.Fine clean) p (parseAssignmentExpression (n + 1) p) := by
  intro r h hr hc
  rw [parseAssignmentExpression] at h
  simp only [bind, Option.bind_eq_some, pure] at h
  obtain ⟨a, h1, h2⟩ := h
  split at h2
  · split at h2
    · rename_i href
      simp only [Option.bind_eq_some, Option.some.injEq] at h2
      obtain ⟨b, h3, h4⟩ := h2
      cases h4
      have rb := (reachIH n).parseAssignmentExpression _ b h3
      obtain ⟨e1, e2⟩ := ih.parseConditionlExpression _ a h1 hr
        (hc.back ((Parser.steps_next _).trans rb.1))
      obtain ⟨e3, e4⟩ := ih.parseAssignmentExpression _ b h3 (e2.of_scope (by simp)) hc
      exact ⟨fine_assign _ e1 href e3.1, e4⟩
    · simp only [Option.bind_eq_some, Option.some.injEq] at h2
      obtain ⟨i0, h3, h4⟩ := h2
      cases h4
      obtain ⟨e1, e2⟩ := ih.parseConditionlExpression _ a h1 hr
        (hc.back (((Parser.steps_next _).error _ _).nextStatement))
      exact ⟨fine_bad _ _, e2.of_scope (by simp)⟩
  · cases h2
    exact ih.parseConditionlExpression _ a h1 hr hc

theorem built_parseExpressionLoop (ih : BuiltIH clean n) (s : List Expression) (p : Parser) :
    Builds clean
      (fun x => ∃ m, x = s ++ m ∧ Expression.AllList Expression.Built (Statement.Built clean) m)
      p (parseExpressionLoop (n + 1) s p) := by
  intro r h hr hc
  rw [parseExpressionLoop] at h
  split at h
  · cases h
    exact ⟨⟨[], by simp, trivial⟩, hr⟩
  · simp only [bind, Option.bind_eq_some] at h
    obtain ⟨a, h1, h2⟩ := h
    have rr := (reachIH n).parseExpressionLoop _ _ r h2
    obtain ⟨e1, e2⟩ := ih.parseAssignmentExpression _ a h1 (hr.of_scope (by simp))
      (hc.back rr.1)
    obtain ⟨⟨m, hm1, hm2⟩, e4⟩ := ih.parseExpressionLoop _ _ r h2 e2 hc
    refine ⟨⟨a.1 :: m, by rw [hm1]; simp, ?_⟩, e4⟩
    exact ⟨e1.1, hm2⟩

theorem built_parseExpression (ih : BuiltIH clean n) (p : Parser) :
    Builds clean (Expression.Fine clean) p (parseExpression (n + 1) p) := by
  intro r h hr hc
  rw [parseExpression] at h
  simp only [bind, Option.bind_eq_some, pure] at h
  obtain ⟨a, h1, h2⟩ := h
  split at h2
  · simp only [Option.bind_eq_some, Option.some.injEq] at h2
    obtain ⟨b, h3, h4⟩ := h2
    cases h4
    have rb := (reachIH n).parseExpressionLoop _ _ b h3
    obtain ⟨e1, e2⟩ := ih.parseAssignmentExpression _ a h1 hr (hc.back rb.1)
    obtain ⟨⟨m, hm1, hm2⟩, e4⟩ := ih.parseExpressionLoop _ _ b h3 e2 hc
    refine ⟨?_, e4⟩
    rw [hm1]
    exact fine_sequence e1 hm2
  · cases h2
    exact ih.parseAssignmentExpression _ a h1 hr hc

end BuiltExpressions

section BuiltStatements

variable {clean : Prop} {n : Nat}

/-! ### The default clause of a switch -/

theorem defaultAfter_append (start : Int × Int) (b : List CaseStatement) (c : CaseStatement) :
    defaultAfter start (b ++ [c]) =
      (if c.isDefault then (defaultAfter start b).2 else (defaultAfter start b).1,
        (defaultAfter start b).2 + 1) := by
  simp [defaultAfter, List.foldl_append]

theorem defaultAfter_snd (start : Int × Int) (b : List CaseStatement) :
    (defaultAfter start b).2 = start.2 + b.length := by
  induction b generalizing start with
  | nil => simp [defaultAfter]
  | cons c cs ih =>
    have := ih (if c.isDefault then start.2 else start.1, start.2 + 1)
    simp only [defaultAfter, List.foldl_cons, List.length_cons] at this ⊢
    rw [this]
    push_cast
    ring

theorem lastDefault_append (b : List CaseStatement) (c : CaseStatement) :
    lastDefault (b ++ [c]) = if c.isDefault then (b.length : Int) else lastDefault b := by
  simp only [lastDefault, defaultAfter_append, defaultAfter_snd]
  split <;> simp

theorem countDefaults_append (b : List CaseStatement) (c : CaseStatement) :
    countDefaults (b ++ [c]) = countDefaults b + (if c.isDefault then 1 else 0) := by
  simp only [countDefaults, List.filter_append, List.length_append]
  congr 1
  by_cases h : c.isDefault = true <;> simp [List.filter, h]

theorem lastDefault_nonneg_or (b : List CaseStatement) :
    (lastDefault b = -1 ∧ countDefaults b = 0) ∨ (0 ≤ lastDefault b ∧ 0 < countDefaults b) := by
  induction b using List.reverseRecOn with
  | nil => left; simp [lastDefault, defaultAfter, countDefaults]
  | append_singleton b c ih =>
    rw [lastDefault_append, countDefaults_append]
    by_cases h : c.isDefault = true
    · right; simp [h]
    · simp only [h]
      simpa using ih

theorem countDefaults_of_lastDefault {b : List CaseStatement} (h : lastDefault b = -1) :
    countDefaults b = 0 := by
  rcases lastDefault_nonneg_or b with h1 | h1
  · exact h1.2
  · omega

theorem SwitchLoop.start : SwitchLoop clean 0 (-1) [] :=
  ⟨rfl, rfl, fun _ => Nat.zero_le _⟩

/-! ### The statements -/

theorem ok_bad (c : Context) (f t : Idx) : (Statement.BadStatement f t).Ok clean c := by
  simp [Statement.Ok, Statement.All, Statement.Built]

theorem built_parseBlockStatement (ih : BuiltIH clean n) (p : Parser) :
    Builds clean (fun s => s.Ok clean p.context ∧ s.isBlock = true) p
      (parseBlockStatement (n + 1) p) := by
  intro r h hr hc
  simp only [parseBlockStatement, bind, Option.bind_eq_some, pure, Option.some.injEq] at h
  obtain ⟨a, h1, h2⟩ := h
  cases h2
  have hctx : (p.expect .LEFT_BRACE).2.context = p.context :=
    Parser.context_of_scope (by simp)
  obtain ⟨e1, e2⟩ := ih.parseStatementList [] _ trivial a h1 (hr.of_scope (by simp))
    (hc.back (Parser.steps_expect _ _))
  rw [hctx] at e1
  refine ⟨⟨?_, rfl⟩, e2.of_scope (by simp)⟩
  simp only [Statement.Ok, Statement.All, Statement.Built]
  exact ⟨trivial, e1⟩

theorem built_parseStatementList (ih : BuiltIH clean n) (l : List Statement) (p : Parser)
    (hl : Statement.AllList Expression.Built (Statement.Built clean) p.context l) :
    Builds clean (Statement.AllList Expression.Built (Statement.Built clean) p.context) p
      (parseStatementList (n + 1) l p) := by
  intro r h hr hc
  rw [parseStatementList] at h
  split at h
  · simp only [bind, Option.bind_eq_some] at h
    obtain ⟨a, h1, h2⟩ := h
    have ra := (reachIH n).parseStatement _ a h1
    have rr := (reachIH n).parseStatementList _ _ r h2
    obtain ⟨e1, e2⟩ := ih.parseStatement _ a h1 hr (hc.back rr.1)
    have := ih.parseStatementList (l ++ [a.1]) a.2 (by
      rw [ra.same_context, Statement.allStatements_append]
      exact ⟨hl, e1, trivial⟩) r h2 e2 hc
    rw [ra.same_context] at this
    exact this
  · cases h
    exact ⟨hl, hr⟩

theorem Ready.pushLabel {p : Parser} (hp : Ready clean p) (l : String) :
    Ready clean (p.modifyScope fun s => { s with labels := s.labels ++ [l] }) :=
  hp.of_modifyScope _ (fun _ => rfl) (fun _ => rfl) (fun _ => rfl)

theorem Ready.popLabel {p : Parser} (hp : Ready clean p) :
    Ready clean (p.modifyScope fun s => { s with labels := s.labels.dropLast }) :=
  hp.of_modifyScope _ (fun _ => rfl) (fun _ => rfl) (fun _ => rfl)

theorem ok_expressionStatement {e : Expression} (c : Context) (he : e.Ok clean) :
    (Statement.ExpressionStatement e).Ok clean c := by
  simp only [Statement.Ok, Statement.All, Statement.Built]
  exact ⟨trivial, he⟩

theorem built_parseStatement (ih : BuiltIH clean n) (p : Parser) :
    Builds clean (Statement.Ok clean p.context) p (parseStatement (n + 1) p) := by
  intro r h hr hc
  rw [parseStatement] at h
  dsimp only at h
  by_cases c1 : p.token = .EOF
  · rw [if_pos c1] at h; cases h
    exact ⟨ok_bad _ _ _, hr.of_scope (by simp)⟩
  rw [if_neg c1] at h
  by_cases c2 : p.token = .SEMICOLON
  · rw [if_pos c2] at h; cases h
    exact ⟨ok_parseEmptyStatement _ _, hr.of_scope (by simp)⟩
  rw [if_neg c2] at h
  by_cases c3 : p.token = .LEFT_BRACE
  · rw [if_pos c3] at h
    obtain ⟨e1, e2⟩ := ih.parseBlockStatement _ r h hr hc
    exact ⟨e1.1, e2⟩
  rw [if_neg c3] at h
  by_cases c4 : p.token = .IF
  · rw [if_pos c4] at h; exact ih.parseIfStatement _ r h hr hc
  rw [if_neg c4] at h
  by_cases c5 : p.token = .DO
  · rw [if_pos c5] at h; exact ih.parseDoWhileStatement _ r h hr hc
  rw [if_neg c5] at h
  by_cases c6 : p.token = .WHILE
  · rw [if_pos c6] at h; exact ih.parseWhileStatement _ r h hr hc
  rw [if_neg c6] at h
  by_cases c7 : p.token = .FOR
  · rw [if_pos c7] at h; exact ih.parseForOrForInStatement _ r h hr hc
  rw [if_neg c7] at h
  by_cases c8 : p.token = .BREAK
  · rw [if_pos c8] at h; cases h
    exact ⟨ok_parseBreakStatement p hr, hr.of_scope (by simp)⟩
  rw [if_neg c8] at h
  by_cases c9 : p.token = .CONTINUE
  · rw [if_pos c9] at h; cases h
    exact ⟨ok_parseContinueStatement p hr, hr.of_scope (by simp)⟩
  rw [if_neg c9] at h
  by_cases c10 : p.token = .WITH
  · rw [if_pos c10] at h; exact ih.parseWithStatement _ r h hr hc
  rw [if_neg c10] at h
  by_cases c11 : p.token = .VAR
  · rw [if_pos c11] at h; exact ih.parseVariableStatement _ r h hr hc
  rw [if_neg c11] at h
  by_cases c12 : p.token = .FUNCTION
  · rw [if_pos c12] at h
    simp only [bind, Option.bind_eq_some, pure, Option.some.injEq] at h
    obtain ⟨a, h1, h2⟩ := h
    cases h2
    obtain ⟨_, e2⟩ := ih.parseFunction _ _ a h1 hr hc
    refine ⟨?_, e2⟩
    simp [Statement.Ok, Statement.All, Statement.Built]
  rw [if_neg c12] at h
  by_cases c13 : p.token = .SWITCH
  · rw [if_pos c13] at h; exact ih.parseSwitchStatement _ r h hr hc
  rw [if_neg c13] at h
  by_cases c14 : p.token = .RETURN
  · rw [if_pos c14] at h; exact ih.parseReturnStatement _ r h hr hc
  rw [if_neg c14] at h
  by_cases c15 : p.token = .THROW
  · rw [if_pos c15] at h; exact ih.parseThrowStatement _ r h hr hc
  rw [if_neg c15] at h
  by_cases c16 : p.token = .TRY
  · rw [if_pos c16] at h; exact ih.parseTryStatement _ r h hr hc
  rw [if_neg c16] at h
  simp only [bind, Option.bind_eq_some] at h
  obtain ⟨a, h1, h2⟩ := h
  have ra := (reachIH n).parseExpression _ a h1
  have plain : Clean clean a.2.optionalSemicolon →
      (Statement.ExpressionStatement a.1).Ok clean p.context ∧
        Ready clean a.2.optionalSemicolon := by
    intro hq
    obtain ⟨e1, e2⟩ := ih.parseExpression _ a h1 hr (hq.back (Parser.steps_optionalSemicolon _))
    exact ⟨ok_expressionStatement _ e1.1, e2.of_scope (by simp)⟩
  split at h2
  · rename_i name idx0 _
    by_cases cc : a.2.token = .COLON
    · rw [if_pos cc] at h2
      simp only [bind, Option.bind_eq_some, pure, Option.some.injEq] at h2
      obtain ⟨b, h3, h4⟩ := h2
      cases h4
      have rb := (reachIH n).parseStatement _ b h3
      have hcb : Clean clean b.2 := hc.back (Parser.steps_modifyScope _ _)
      obtain ⟨_, e2⟩ := ih.parseExpression _ a h1 hr
        (hcb.back ((((Parser.steps_next _).checkLabel _ _ _).modifyScope _).trans rb.1))
      have e3 : Ready clean (a.2.next.checkLabel idx0 name a.2.next.currentScope.labels) :=
        e2.of_scope (by simp)
      have hctx : (a.2.next.checkLabel idx0 name a.2.next.currentScope.labels).context =
          p.context := by
        rw [Parser.context_of_scope (p := a.2) (by simp)]
        exact ra.same_context
      obtain ⟨e4, e5⟩ := ih.parseStatement _ b h3 (e3.pushLabel name) hcb
      rw [Parser.context_label e3.nonempty, hctx] at e4
      refine ⟨?_, e5.popLabel⟩
      simp only [Statement.Ok, Statement.All, Statement.Built]
      exact ⟨trivial, e4⟩
    · rw [if_neg cc] at h2
      cases h2
      exact plain hc
  · cases h2
    exact plain hc

theorem built_parseTryStatementFinally (ih : BuiltIH clean n) (t : Idx) (b : Statement)
    (c : Option CatchStatement) (p : Parser) (hb : b.Ok clean p.context)
    (hk : b.isBlock = true)
    (hcatch : CatchStatement.AllOption Expression.Built (Statement.Built clean) p.context c) :
    Builds clean (Statement.Ok clean p.context) p
      (parseTryStatementFinally (n + 1) t b c p) := by
  intro r h hr hc
  rw [parseTryStatementFinally] at h
  dsimp only at h
  have fin : ∀ (f : Option Statement) (q : Parser), (Clean clean q → Ready clean q) →
      Statement.AllOption Expression.Built (Statement.Built clean) p.context f →
      (if c.isNone = true ∧ f.isNone = true then
          (b.Idx1.bind fun idx1 =>
            some (Statement.BadStatement t idx1,
              q.error t "Missing catch or finally after try"))
        else some (Statement.TryStatement t b c f, q)) = some r →
      Statement.Ok clean p.context r.1 ∧ Ready clean r.2 := by
    intro f q hq hf hh
    split at hh
    · simp only [Option.bind_eq_some, Option.some.injEq] at hh
      obtain ⟨i, _, hi⟩ := hh
      cases hi
      exact ⟨ok_bad _ _ _, (hq (hc.back (Parser.steps_error _ _ _))).of_scope (by simp)⟩
    · rename_i hne
      cases hh
      refine ⟨?_, hq hc⟩
      simp only [Statement.Ok, Statement.All, Statement.Built]
      refine ⟨⟨?_, hk⟩, hb, hcatch, hf⟩
      by_contra hcon
      apply hne
      cases c <;> cases f <;> simp at hcon ⊢
  by_cases cf : p.token = .FINALLY
  · rw [if_pos cf] at h
    simp only [bind, Option.bind_eq_some, pure, Option.some.injEq] at h
    obtain ⟨x, h1, a, h2, h3⟩ := h
    cases h2
    have hrx : Clean clean x.2.semicolon → Ready clean x.2.semicolon ∧
        Statement.Ok clean p.context x.1 := by
      intro hq
      obtain ⟨e1, e2⟩ := ih.parseBlockStatement _ x h1 (hr.of_scope (by simp))
        (hq.back (Parser.steps_semicolon _))
      rw [Parser.context_of_scope (p := p) (by simp)] at e1
      exact ⟨e2.of_scope (by simp), e1.1⟩
    have hq : Clean clean x.2.semicolon := by
      split at h3
      · simp only [Option.bind_eq_some, Option.some.injEq] at h3
        obtain ⟨i, _, hi⟩ := h3
        cases hi
        exact hc.back (Parser.steps_error _ _ _)
      · cases h3; exact hc
    exact fin (some x.1) _ (fun _ => (hrx hq).1)
      (by simp only [Statement.AllOption]; exact (hrx hq).2) h3
  · rw [if_neg cf] at h
    simp only [bind, Option.bind_eq_some, pure, Option.some.injEq] at h
    obtain ⟨a, h2, h3⟩ := h
    cases h2
    exact fin none _ (fun _ => hr) (by simp only [Statement.AllOption]) h3

theorem built_parseTryStatement (ih : BuiltIH clean n) (p : Parser) :
    Builds clean (Statement.Ok clean p.context) p (parseTryStatement (n + 1) p) := by
  intro r h hr hc
  rw [parseTryStatement] at h
  simp only [bind, Option.bind_eq_some, pure] at h
  obtain ⟨a, h1, h2⟩ := h
  have ra := (reachIH n).parseBlockStatement _ a h1
  have hca : (p.expect .TRY).2.context = p.context := Parser.context_of_scope (by simp)
  have hctx : a.2.context = p.context := ra.same_context.trans hca
  by_cases cc : a.2.token = .CATCH
  · rw [if_pos cc] at h2
    by_cases ci : (a.2.next.expect .LEFT_PARENTHESIS).2.token ≠ .IDENTIFIER
    · rw [if_pos ci] at h2
      cases h2
      obtain ⟨_, e2⟩ := ih.parseBlockStatement _ a h1 (hr.of_scope (by simp))
        (hc.back ((((Parser.steps_next _).expect _).expect _).nextStatement))
      exact ⟨ok_bad _ _ _, e2.of_scope (by simp)⟩
    · rw [if_neg ci] at h2
      simp only [Option.bind_eq_some] at h2
      obtain ⟨x, h3, h4⟩ := h2
      have rx := (reachIH n).parseBlockStatement _ x h3
      have rr := (reachIH n).parseTryStatementFinally _ _ _ _ r h4
      have hcx : Clean clean x.2 := hc.back rr.1
      obtain ⟨e1, e2⟩ := ih.parseBlockStatement _ a h1 (hr.of_scope (by simp))
        (hcx.back (((((Parser.steps_next _).expect _).parseIdentifier).expect _).trans rx.1))
      rw [hca] at e1
      obtain ⟨e3, e4⟩ := ih.parseBlockStatement _ x h3 (e2.of_scope (by simp)) hcx
      have hcx2 : x.2.context = p.context := by
        rw [rx.same_context, Parser.context_of_scope (p := a.2) (by simp)]
        exact hctx
      rw [Parser.context_of_scope (p := a.2) (by simp), hctx] at e3
      have := ih.parseTryStatementFinally _ _ _ x.2 (by rw [hcx2]; exact e1.1) e1.2
        (by rw [hcx2]; exact e3.1) r h4 e4 hc
      rw [hcx2] at this
      exact this
  · rw [if_neg cc] at h2
    have rr := (reachIH n).parseTryStatementFinally _ _ _ _ r h2
    obtain ⟨e1, e2⟩ := ih.parseBlockStatement _ a h1 (hr.of_scope (by simp)) (hc.back rr.1)
    rw [hca] at e1
    have := ih.parseTryStatementFinally _ _ none a.2 (by rw [hctx]; exact e1.1) e1.2
      trivial r h2 e2 hc
    rw [hctx] at this
    exact this

theorem built__parseFunction (ih : BuiltIH clean n) (nm : String) (d : Bool) (p : Parser) :
    Builds clean
      (fun x => x.1.Ok clean .function ∧ x.1.isBlock = true ∧
        Declaration.OkList clean x.2.1 ∧ Declaration.OkList clean x.2.2)
      p (_parseFunction (n + 1) nm d p) := by
  intro r h hr hc
  rw [_parseFunction] at h
  simp only [bind, Option.bind_eq_some, pure, Option.some.injEq] at h
  obtain ⟨a, h1, h2⟩ := h
  cases h2
  have ra := (reachIH n).parseBlockStatement _ a h1
  have hca : Clean clean a.2 := hc.back ((Parser.steps_modifyScope _ _).closeScope)
  have key : ∀ (v : Bool) (p3 : Parser), parseBlockStatement n p3 = some a →
      (∃ s0, p3.scope = s0 :: p.scope ∧ s0.inFunction = true ∧ s0.inIteration = false ∧
        s0.inSwitch = false ∧ s0.labels = [] ∧ Declaration.OkList clean s0.functionList ∧
        Declaration.OkList clean s0.variableList) →
      (a.1.Ok clean .function ∧ a.1.isBlock = true ∧
        Declaration.OkList clean a.2.currentScope.variableList ∧
        Declaration.OkList clean a.2.currentScope.functionList) ∧
      Ready clean ((a.2.modifyScope fun s => { s with inFunction := v }).closeScope) := by
    intro v p3 h3 ⟨s0, hs, f1, f2, f3, f4, f5, f6⟩
    have r3 := (reachIH n).parseBlockStatement _ a h3
    have hr3 : Ready clean p3 :=
      ⟨by rw [hs]; simp, by rw [hs]; exact Or.inl f1,
        by simpa [Parser.currentScope, hs] using f5,
        by simpa [Parser.currentScope, hs] using f6⟩
    have hctx : p3.context = Context.function := by
      simp [Parser.context, Parser.currentScope, hs, Context.function, f1, f2, f3, f4]
    obtain ⟨e1, e2⟩ := ih.parseBlockStatement _ a h3 hr3 hca
    rw [hctx] at e1
    refine ⟨⟨e1.1, e1.2, e2.declared, e2.functions⟩, hr.of_scope ?_⟩
    exact Frame.of_closeScope hs r3.2.1 _
  dsimp only
  split at h1
  · refine key _ _ h1 ⟨{ ({ allowIn := true } : Scope) with
      functionList := [.mk nm .self], inFunction := true }, ?_, rfl, rfl, rfl, rfl, ?_, ?_⟩
    · simp [Parser.modifyScope, Parser.addFunction]
    · simp [Declaration.OkList, Declaration.AllList]
    · simp [Declaration.OkList, Declaration.AllList]
  · refine key _ _ h1 ⟨{ ({ allowIn := true } : Scope) with inFunction := true },
      ?_, rfl, rfl, rfl, rfl, ?_, ?_⟩
    · simp [Parser.modifyScope]
    · simp [Declaration.OkList, Declaration.AllList]
    · simp [Declaration.OkList, Declaration.AllList]

theorem built_parseFunction (ih : BuiltIH clean n) (d : Bool) (p : Parser) :
    Builds clean (Expression.Fine clean) p (parseFunction (n + 1) d p) := by
  intro r h hr hc
  rw [parseFunction] at h
  simp only [bind, Option.bind_eq_some, pure, Option.some.injEq] at h
  obtain ⟨a, h1, i1, h2, h3⟩ := h
  cases h3
  dsimp only at hc ⊢
  have hsc : (if (p.expect .FUNCTION).2.token = .IDENTIFIER then (p.expect .FUNCTION).2.next
       else if d = true then ((p.expect .FUNCTION).2.expect .IDENTIFIER).2
       else (p.expect .FUNCTION).2).parseFunctionParameterList.2.scope = p.scope := by
    split
    · simp
    · split <;> simp
  have hca : Clean clean a.2 := by
    refine hc.back ?_
    split
    · exact (Parser.Steps.refl _).addFunction _ _
    · exact Parser.Steps.refl _
  obtain ⟨⟨e1, e2, e3, e4⟩, e5⟩ := ih._parseFunction _ _ _ a h1 (hr.of_scope hsc) hca
  have hfine := @fine_function clean _ _ _ (p.expect .FUNCTION).1
    (a.2.slice (p.expect .FUNCTION).1 i1)
    (if (p.expect .FUNCTION).2.token = .IDENTIFIER then (p.expect .FUNCTION).2.next
       else if d = true then ((p.expect .FUNCTION).2.expect .IDENTIFIER).2
       else (p.expect .FUNCTION).2).parseFunctionParameterList.1 e1 e2 e4 e3
  refine ⟨hfine, ?_⟩
  split
  · refine e5.with_function _ _ ?_
    simp only [Declaration.OkList, Declaration.AllList]
    exact ⟨hfine.1, trivial⟩
  · exact e5

theorem inFunction_of_scope {p q : Parser} (hs : q.scope = p.scope)
    (h : ¬(!q.currentScope.inFunction) = true) : p.context.inFunction = true := by
  rw [Parser.currentScope_of_scope hs] at h
  simp only [Parser.context]
  revert h
  cases p.currentScope.inFunction <;> simp

theorem ok_return (c : Context) (i : Idx) (a : Option Expression)
    (hf : c.inFunction = true)
    (ha : Expression.AllOption Expression.Built (Statement.Built clean) a) :
    (Statement.ReturnStatement i a).Ok clean c := by
  simp only [Statement.Ok, Statement.All, Statement.Built]
  exact ⟨hf, ha⟩

theorem built_parseReturnStatement (ih : BuiltIH clean n) (p : Parser) :
    Builds clean (Statement.Ok clean p.context) p (parseReturnStatement (n + 1) p) := by
  intro r h hr hc
  rw [parseReturnStatement] at h
  dsimp only at h
  split at h
  · cases h
    exact ⟨ok_bad _ _ _, hr.of_scope (by simp)⟩
  · rename_i hf
    have hin := inFunction_of_scope (p := p) (by simp) hf
    split at h
    · simp only [bind, Option.bind_eq_some, pure, Option.some.injEq] at h
      obtain ⟨a, h1, h2⟩ := h
      cases h2
      obtain ⟨e1, e2⟩ := ih.parseExpression _ a h1 (hr.of_scope (by simp))
        (hc.back (Parser.steps_semicolon _))
      exact ⟨ok_return _ _ _ hin (by simp only [Expression.AllOption]; exact e1.1),
        e2.of_scope (by simp)⟩
    · cases h
      exact ⟨ok_return _ _ _ hin (by simp only [Expression.AllOption]),
        hr.of_scope (by simp)⟩

theorem built_parseThrowStatement (ih : BuiltIH clean n) (p : Parser) :
    Builds clean (Statement.Ok clean p.context) p (parseThrowStatement (n + 1) p) := by
  intro r h hr hc
  rw [parseThrowStatement] at h
  dsimp only at h
  split at h
  · cases h
    refine ⟨ok_bad _ _ _, hr.of_scope ?_⟩
    split <;> simp
  · simp only [bind, Option.bind_eq_some, pure, Option.some.injEq] at h
    obtain ⟨a, h1, h2⟩ := h
    cases h2
    obtain ⟨e1, e2⟩ := ih.parseExpression _ a h1 (hr.of_scope (by simp))
      (hc.back (Parser.steps_semicolon _))
    refine ⟨?_, e2.of_scope (by simp)⟩
    simp only [Statement.Ok, Statement.All, Statement.Built]
    exact ⟨trivial, e1.1⟩

theorem built_parseSwitchStatementLoop (ih : BuiltIH clean n) (i d : Int)
    (b : List CaseStatement) (p : Parser)
    (hb : CaseStatement.AllList Expression.Built (Statement.Built clean) p.context b)
    (hs : SwitchLoop clean i d b) :
    Builds clean
      (fun x =>
        CaseStatement.AllList Expression.Built (Statement.Built clean) p.context x.2 ∧
          x.1 = lastDefault x.2 ∧ (clean → countDefaults x.2 ≤ 1))
      p (parseSwitchStatementLoop (n + 1) i d b p) := by
  intro r h hr hc
  rw [parseSwitchStatementLoop] at h
  split at h
  · split at h
    · cases h
      exact ⟨⟨hb, hs.2.1, hs.2.2⟩, hr.of_scope (by simp)⟩
    · simp only [bind, Option.bind_eq_some] at h
      obtain ⟨a, h1, h2⟩ := h
      have ra := (reachIH n).parseCaseStatement _ a h1
      have hlen : i + 1 = ((b ++ [a.1]).length : Int) := by
        rw [hs.1]; simp
      split at h2
      · rename_i hdef
        have rr := (reachIH n).parseSwitchStatementLoop _ _ _ _ r h2
        have hst : a.2.Steps (if d ≠ -1 then
            a.2.error a.1.Case "Already saw a default in switch" else a.2) := by
          split
          · exact Parser.steps_error _ _ _
          · exact Parser.Steps.refl _
        have hsc : (if d ≠ -1 then
            a.2.error a.1.Case "Already saw a default in switch" else a.2).scope = a.2.scope := by
          split <;> simp
        obtain ⟨e1, e2⟩ := ih.parseCaseStatement _ a h1 hr (hc.back (hst.trans rr.1))
        have hctx : (if d ≠ -1 then
            a.2.error a.1.Case "Already saw a default in switch" else a.2).context =
            p.context := (Parser.context_of_scope hsc).trans ra.same_context
        have := ih.parseSwitchStatementLoop (i + 1) i (b ++ [a.1]) _ (by
          rw [hctx, CaseStatement.allClauses_append]
          exact ⟨hb, e1⟩) ⟨hlen, ?_, ?_⟩ r h2 (e2.of_scope hsc) hc
        · rw [hctx] at this
          exact this
        · rw [lastDefault_append, hs.1]
          simp [CaseStatement.isDefault, hdef]
        · intro hcl
          rw [countDefaults_append]
          by_cases hd : d = -1
          · have := countDefaults_of_lastDefault (hs.2.1 ▸ hd)
            rw [this]
            split <;> simp
          · exfalso
            have h0 := hc hcl
            have h1 := rr.1.errors_nil h0
            rw [if_pos hd] at h1
            simp [Parser.error] at h1
      · rename_i hdef
        have rr := (reachIH n).parseSwitchStatementLoop _ _ _ _ r h2
        obtain ⟨e1, e2⟩ := ih.parseCaseStatement _ a h1 hr (hc.back rr.1)
        have := ih.parseSwitchStatementLoop (i + 1) d (b ++ [a.1]) _ (by
          rw [ra.same_context, CaseStatement.allClauses_append]
          exact ⟨hb, e1⟩) ⟨hlen, ?_, ?_⟩ r h2 e2 hc
        · rw [ra.same_context] at this
          exact this
        · rw [lastDefault_append, hs.2.1]
          simp [CaseStatement.isDefault, hdef]
        · intro hcl
          rw [countDefaults_append]
          simpa [CaseStatement.isDefault, hdef] using hs.2.2 hcl
  · cases h
    exact ⟨⟨hb, hs.2.1, hs.2.2⟩, hr⟩

theorem built_parseSwitchStatement (ih : BuiltIH clean n) (p : Parser) :
    Builds clean (Statement.Ok clean p.context) p (parseSwitchStatement (n + 1) p) := by
  intro r h hr hc
  rw [parseSwitchStatement] at h
  simp only [bind, Option.bind_eq_some, pure, Option.some.injEq] at h
  obtain ⟨a, h1, c, h3, h4⟩ := h
  cases h4
  have ra := (reachIH n).parseExpression _ a h1
  have rc := (reachIH n).parseSwitchStatementLoop _ _ _ _ c h3
  have hcc : Clean clean c.2 := hc.back (Parser.steps_modifyScope _ _)
  obtain ⟨e1, e2⟩ := ih.parseExpression _ a h1 (hr.of_scope (by simp))
    (hcc.back ((((Parser.steps_expect _ _).expect _).modifyScope _).trans rc.1))
  have e3 : Ready clean ((a.2.expect .RIGHT_PARENTHESIS).2.expect .LEFT_BRACE).2 :=
    e2.of_scope (by simp)
  have hctx : ((a.2.expect .RIGHT_PARENTHESIS).2.expect .LEFT_BRACE).2.context = p.context := by
    rw [Parser.context_of_scope (p := a.2) (by simp), ra.same_context]
    exact Parser.context_of_scope (by simp)
  obtain ⟨⟨e4, e5, e6⟩, e7⟩ := ih.parseSwitchStatementLoop 0 (-1) [] _ trivial
    SwitchLoop.start c h3 (e3.inSwitch true) hcc
  rw [Parser.context_switch e3.nonempty, hctx] at e4
  refine ⟨?_, e7.inSwitch _⟩
  simp only [Statement.Ok, Statement.All, Statement.Built]
  exact ⟨⟨e5, e6⟩, e1.1, e4⟩

theorem built_parseWithStatement (ih : BuiltIH clean n) (p : Parser) :
    Builds clean (Statement.Ok clean p.context) p (parseWithStatement (n + 1) p) := by
  intro r h hr hc
  rw [parseWithStatement] at h
  simp only [bind, Option.bind_eq_some, pure, Option.some.injEq] at h
  obtain ⟨a, h1, c, h3, h4⟩ := h
  cases h4
  have ra := (reachIH n).parseExpression _ a h1
  have rc := (reachIH n).parseStatement _ c h3
  obtain ⟨e1, e2⟩ := ih.parseExpression _ a h1 (hr.of_scope (by simp))
    (hc.back ((Parser.steps_expect _ _).trans rc.1))
  obtain ⟨e3, e4⟩ := ih.parseStatement _ c h3 (e2.of_scope (by simp)) hc
  rw [Parser.context_of_scope (p := a.2) (by simp), ra.same_context,
    Parser.context_of_scope (p := p) (by simp)] at e3
  refine ⟨?_, e4⟩
  simp only [Statement.Ok, Statement.All, Statement.Built]
  exact ⟨trivial, e1.1, e3⟩

theorem built_parseCaseStatementLoop (ih : BuiltIH clean n) (l : List Statement) (p : Parser)
    (hl : Statement.AllList Expression.Built (Statement.Built clean) p.context l) :
    Builds clean (Statement.AllList Expression.Built (Statement.Built clean) p.context) p
      (parseCaseStatementLoop (n + 1) l p) := by
  intro r h hr hc
  rw [parseCaseStatementLoop] at h
  split at h
  · cases h
    exact ⟨hl, hr⟩
  · simp only [bind, Option.bind_eq_some] at h
    obtain ⟨a, h1, h2⟩ := h
    have ra := (reachIH n).parseStatement _ a h1
    have rr := (reachIH n).parseCaseStatementLoop _ _ r h2
    obtain ⟨e1, e2⟩ := ih.parseStatement _ a h1 hr (hc.back rr.1)
    have := ih.parseCaseStatementLoop (l ++ [a.1]) a.2 (by
      rw [ra.same_context, Statement.allStatements_append]
      exact ⟨hl, e1, trivial⟩) r h2 e2 hc
    rw [ra.same_context] at this
    exact this

theorem built_parseCaseStatement (ih : BuiltIH clean n) (p : Parser) :
    Builds clean
      (fun x => CaseStatement.AllList Expression.Built (Statement.Built clean) p.context [x])
      p (parseCaseStatement (n + 1) p) := by
  intro r h hr hc
  rw [parseCaseStatement] at h
  dsimp only at h
  by_cases c : p.token = .DEFAULT
  · rw [if_pos c] at h
    simp only [bind, pure, Option.some_bind, Option.bind_eq_some, Option.some.injEq] at h
    obtain ⟨a, h1, h2⟩ := h
    cases h2
    obtain ⟨e1, e2⟩ := ih.parseCaseStatementLoop [] _ trivial a h1 (hr.of_scope (by simp)) hc
    rw [Parser.context_of_scope (p := p) (by simp)] at e1
    refine ⟨?_, e2⟩
    simp only [CaseStatement.AllList, Expression.AllOption]
    exact ⟨trivial, e1, trivial⟩
  · rw [if_neg c] at h
    simp only [bind, pure, Option.some_bind, Option.bind_eq_some, Option.some.injEq] at h
    obtain ⟨a, h1, b, h2, h3⟩ := h
    cases h3
    have ra := (reachIH n).parseExpression _ a h1
    have rb := (reachIH n).parseCaseStatementLoop _ _ b h2
    obtain ⟨e1, e2⟩ := ih.parseExpression _ a h1 (hr.of_scope (by simp))
      (hc.back ((Parser.steps_expect _ _).trans rb.1))
    obtain ⟨e3, e4⟩ := ih.parseCaseStatementLoop [] _ trivial b h2 (e2.of_scope (by simp)) hc
    rw [Parser.context_of_scope (p := a.2) (by simp), ra.same_context,
      Parser.context_of_scope (p := p) (by simp)] at e3
    refine ⟨?_, e4⟩
    simp only [CaseStatement.AllList, Expression.AllOption]
    exact ⟨e1.1, e3, trivial⟩

theorem built_parseIterationStatement (ih : BuiltIH clean n) (p : Parser) :
    Builds clean (Statement.Ok clean p.context.iteration) p
      (parseIterationStatement (n + 1) p) := by
  intro r h hr hc
  rw [parseIterationStatement] at h
  simp only [bind, Option.bind_eq_some, pure, Option.some.injEq] at h
  obtain ⟨a, h1, h2⟩ := h
  cases h2
  obtain ⟨e1, e2⟩ := ih.parseStatement _ a h1 (hr.inIteration true)
    (hc.back (Parser.steps_modifyScope _ _))
  rw [Parser.context_iteration hr.nonempty] at e1
  exact ⟨e1, e2.inIteration _⟩

theorem built_parseForIn (ih : BuiltIH clean n) (i : Expression) (p : Parser)
    (hi : i.Ok clean) (ht : i.isForInTarget = true) :
    Builds clean (Statement.Ok clean p.context) p (parseForIn (n + 1) i p) := by
  intro r h hr hc
  rw [parseForIn] at h
  simp only [bind, Option.bind_eq_some, pure, Option.some.injEq] at h
  obtain ⟨a, h1, c, h3, h4⟩ := h
  cases h4
  have ra := (reachIH n).parseExpression _ a h1
  have rc := (reachIH n).parseIterationStatement _ c h3
  obtain ⟨e1, e2⟩ := ih.parseExpression _ a h1 hr
    (hc.back ((Parser.steps_expect _ _).trans rc.1))
  obtain ⟨e3, e4⟩ := ih.parseIterationStatement _ c h3 (e2.of_scope (by simp)) hc
  rw [Parser.context_of_scope (p := a.2) (by simp), ra.same_context] at e3
  refine ⟨?_, e4⟩
  simp only [Statement.Ok, Statement.All, Statement.Built]
  exact ⟨ht, hi, e1.1, e3⟩

theorem built_parseFor (ih : BuiltIH clean n) (i : Expression) (p : Parser)
    (hi : i.Ok clean) :
    Builds clean (Statement.Ok clean p.context) p (parseFor (n + 1) i p) := by
  intro r h hr hc
  rw [parseFor] at h
  dsimp only at h
  have tail : ∀ (q : Parser) (e : Statement × Parser) (u t : Option Expression),
      (Clean clean q → Ready clean q ∧
        Expression.AllOption Expression.Built (Statement.Built clean) u ∧
        Expression.AllOption Expression.Built (Statement.Built clean) t) →
      q.context = p.context → Clean clean e.2 →
      parseIterationStatement n (q.expect .RIGHT_PARENTHESIS).2 = some e →
      (Statement.ForStatement 0 i u t e.1).Ok clean p.context ∧ Ready clean e.2 := by
    intro q e u t hq hctx hce h5
    have re := (reachIH n).parseIterationStatement _ e h5
    obtain ⟨q1, q2, q3⟩ := hq (hce.back ((Parser.steps_expect _ _).trans re.1))
    obtain ⟨e3, e4⟩ := ih.parseIterationStatement _ e h5 (q1.of_scope (by simp)) hce
    rw [Parser.context_of_scope (p := q) (by simp), hctx] at e3
    refine ⟨?_, e4⟩
    simp only [Statement.Ok, Statement.All, Statement.Built]
    exact ⟨trivial, hi, q2, q3, e3⟩
  have second : ∀ (q : Parser) (t : Option Expression) (r : Statement × Parser),
      (Clean clean q → Ready clean q ∧
        Expression.AllOption Expression.Built (Statement.Built clean) t) →
      q.context = p.context → Clean clean r.2 →
      (if (q.expect .SEMICOLON).2.token ≠ .RIGHT_PARENTHESIS then
          (parseExpression n (q.expect .SEMICOLON).2).bind fun x =>
            (parseIterationStatement n (x.2.expect .RIGHT_PARENTHESIS).2).bind fun y =>
              some (Statement.ForStatement 0 i (some x.1) t y.1, y.2)
        else
          (parseIterationStatement n
            ((q.expect .SEMICOLON).2.expect .RIGHT_PARENTHESIS).2).bind fun y =>
              some (Statement.ForStatement 0 i none t y.1, y.2)) = some r →
      r.1.Ok clean p.context ∧ Ready clean r.2 := by
    intro q t r hq hctx hcr hh
    split at hh
    · simp only [Option.bind_eq_some, Option.some.injEq] at hh
      obtain ⟨x, h3, e, h4, h5⟩ := hh
      cases h5
      have rx := (reachIH n).parseExpression _ x h3
      refine tail x.2 e _ _ (fun hcx => ?_) ?_ hcr h4
      · obtain ⟨q1, q2⟩ := hq (hcx.back ((Parser.steps_expect _ _).trans rx.1))
        obtain ⟨e1, e2⟩ := ih.parseExpression _ x h3 (q1.of_scope (by simp)) hcx
        exact ⟨e2, by simp only [Expression.AllOption]; exact e1.1, q2⟩
      · rw [rx.same_context, Parser.context_of_scope (p := q) (by simp), hctx]
    · simp only [Option.bind_eq_some, Option.some.injEq] at hh
      obtain ⟨e, h4, h5⟩ := hh
      cases h5
      refine tail (q.expect .SEMICOLON).2 e _ _ (fun hcx => ?_) ?_ hcr h4
      · obtain ⟨q1, q2⟩ := hq (hcx.back (Parser.steps_expect _ _))
        exact ⟨q1.of_scope (by simp), by simp only [Expression.AllOption], q2⟩
      · rw [Parser.context_of_scope (p := q) (by simp), hctx]
  by_cases c : p.token ≠ .SEMICOLON
  · rw [if_pos c] at h
    simp only [bind, pure, Option.some_bind, Option.bind_eq_some] at h
    obtain ⟨a, h1, h2⟩ := h
    have ra := (reachIH n).parseExpression _ a h1
    refine second a.2 (some a.1) r (fun hca => ?_) ra.same_context hc ?_
    · obtain ⟨e1, e2⟩ := ih.parseExpression _ a h1 hr hca
      exact ⟨e2, by simp only [Expression.AllOption]; exact e1.1⟩
    · simpa only [bind, pure, Option.some_bind] using h2
  · rw [if_neg c] at h
    simp only [bind, pure, Option.some_bind] at h
    exact second p none r (fun _ => ⟨hr, by simp only [Expression.AllOption]⟩) rfl hc h

theorem ok_sequence {l : List Expression}
    (hl : Expression.AllList Expression.Built (Statement.Built clean) l) :
    (Expression.SequenceExpression l).Ok clean := by
  simp only [Expression.Ok, Expression.All, Expression.Built]
  exact ⟨trivial, hl⟩

theorem built_parseForOrForInStatement (ih : BuiltIH clean n) (p : Parser) :
    Builds clean (Statement.Ok clean p.context) p (parseForOrForInStatement (n + 1) p) := by
  intro r h hr hc
  rw [parseForOrForInStatement] at h
  dsimp only at h
  have hr0 : Ready clean ((p.expect .FOR).2.expect .LEFT_PARENTHESIS).2 :=
    hr.of_scope (by simp)
  have hc0 : ((p.expect .FOR).2.expect .LEFT_PARENTHESIS).2.context = p.context :=
    Parser.context_of_scope (by simp)
  have tail : ∀ (left : List Expression) (isIn : Bool) (q : Parser),
      (Clean clean q → Ready clean q ∧
        Expression.AllList Expression.Built (Statement.Built clean) left) →
      q.context = p.context →
      (if (!isIn) = true then
          parseFor n (.SequenceExpression left) (q.expect .SEMICOLON).2
        else
          match left with
          | [] => none
          | into :: _ =>
            if into.isForInTarget = true then parseForIn n into q
            else
              some (Statement.BadStatement (p.expect .FOR).1
                ((q.error (p.expect .FOR).1 "Invalid left-hand side in for-in").nextStatement).idx,
                (q.error (p.expect .FOR).1 "Invalid left-hand side in for-in").nextStatement)) =
        some r → r.1.Ok clean p.context ∧ Ready clean r.2 := by
    intro left isIn q hq hctx hh
    split at hh
    · have rr := (reachIH n).parseFor _ _ r hh
      obtain ⟨q1, q2⟩ := hq (hc.back ((Parser.steps_expect _ _).trans rr.1))
      have := ih.parseFor _ _ (ok_sequence q2) r hh (q1.of_scope (by simp)) hc
      rw [Parser.context_of_scope (p := q) (by simp), hctx] at this
      exact this
    · split at hh
      · cases hh
      · split at hh
        · rename_i ht
          have rr := (reachIH n).parseForIn _ _ r hh
          obtain ⟨q1, q2⟩ := hq (hc.back rr.1)
          have := ih.parseForIn _ _ q2.1 ht r hh q1 hc
          rw [hctx] at this
          exact this
        · cases hh
          obtain ⟨q1, _⟩ := hq (hc.back ((Parser.steps_error _ _ _).nextStatement))
          exact ⟨ok_bad _ _ _, q1.of_scope (by simp)⟩
  have back : ∀ (x : Parser) (left : List Expression),
      Reaches (((p.expect .FOR).2.expect .LEFT_PARENTHESIS).2.modifyScope
        fun s => { s with allowIn := false }) x →
      (Clean clean x → Ready clean x ∧
        Expression.AllList Expression.Built (Statement.Built clean) left) →
      (Clean clean (x.modifyScope fun s => { s with
          allowIn := ((p.expect .FOR).2.expect .LEFT_PARENTHESIS).2.currentScope.allowIn }) →
        Ready clean (x.modifyScope fun s => { s with
          allowIn := ((p.expect .FOR).2.expect .LEFT_PARENTHESIS).2.currentScope.allowIn }) ∧
        Expression.AllList Expression.Built (Statement.Built clean) left) ∧
      (x.modifyScope fun s => { s with
          allowIn := ((p.expect .FOR).2.expect .LEFT_PARENTHESIS).2.currentScope.allowIn }).context =
        p.context := by
    intro x left rx hx
    refine ⟨fun hcx => ?_, ?_⟩
    · obtain ⟨q1, q2⟩ := hx (hcx.back (Parser.steps_modifyScope _ _))
      exact ⟨q1.allowIn _, q2⟩
    · rw [Parser.context_allowIn, rx.same_context, Parser.context_allowIn, hc0]
  by_cases c : ((p.expect .FOR).2.expect .LEFT_PARENTHESIS).2.token ≠ .SEMICOLON
  · rw [if_pos c] at h
    by_cases cv : (((p.expect .FOR).2.expect .LEFT_PARENTHESIS).2.modifyScope
        fun s => { s with allowIn := false }).token = .VAR
    · rw [if_pos cv] at h
      simp only [bind, pure, Option.some_bind, Option.bind_eq_some] at h
      obtain ⟨y, h5, h6⟩ := h
      have r3 := (Reaching.stay _).to_next.and_then
        ((reachIH n).parseVariableDeclarationList _ _ y h5)
      have hy : ∀ q : Parser, y.2.Steps q → Clean clean q → Ready clean y.2 ∧
          Expression.AllList Expression.Built (Statement.Built clean) y.1 := by
        intro q hs hq
        have := ih.parseVariableDeclarationList [] _ trivial y h5
          ((hr0.allowIn false).of_scope (by simp)) (hq.back hs)
        exact ⟨this.2, this.1⟩
      split at h6
      · rename_i hlen
        obtain ⟨b1, b2⟩ := back y.2.next (List.take 1 y.1) r3.to_next (fun hq => by
          obtain ⟨q1, q2⟩ := hy _ (Parser.steps_next _) hq
          refine ⟨q1.of_scope (by simp), ?_⟩
          rw [List.take_of_length_le (by omega)]
          exact q2)
        exact tail _ _ _ b1 b2 h6
      · obtain ⟨b1, b2⟩ := back y.2 y.1 r3 (fun hq => hy _ (Parser.Steps.refl _) hq)
        exact tail _ _ _ b1 b2 h6
    · rw [if_neg cv] at h
      simp only [bind, pure, Option.some_bind, Option.bind_eq_some] at h
      obtain ⟨y, h5, h6⟩ := h
      have r3 := ((reachIH n).parseExpression _ y h5).reaches
      have hy : ∀ q : Parser, y.2.Steps q → Clean clean q → Ready clean y.2 ∧
          Expression.AllList Expression.Built (Statement.Built clean) [y.1] := by
        intro q hs hq
        have := ih.parseExpression _ y h5 (hr0.allowIn false) (hq.back hs)
        exact ⟨this.2, this.1.1, trivial⟩
      split at h6
      · obtain ⟨b1, b2⟩ := back y.2.next [y.1] r3.to_next (fun hq => by
          obtain ⟨q1, q2⟩ := hy _ (Parser.steps_next _) hq
          exact ⟨q1.of_scope (by simp), q2⟩)
        exact tail _ _ _ b1 b2 h6
      · obtain ⟨b1, b2⟩ := back y.2 [y.1] r3 (fun hq => hy _ (Parser.Steps.refl _) hq)
        exact tail _ _ _ b1 b2 h6
  · rw [if_neg c] at h
    simp only [bind, pure, Option.some_bind] at h
    exact tail [] _ _ (fun _ => ⟨hr0, trivial⟩) hc0 h

theorem built_parseVariableStatement (ih : BuiltIH clean n) (p : Parser) :
    Builds clean (Statement.Ok clean p.context) p (parseVariableStatement (n + 1) p) := by
  intro r h hr hc
  rw [parseVariableStatement] at h
  simp only [bind, Option.bind_eq_some, pure, Option.some.injEq] at h
  obtain ⟨a, h1, h2⟩ := h
  cases h2
  obtain ⟨e1, e2⟩ := ih.parseVariableDeclarationList [] _ trivial a h1 (hr.of_scope (by simp))
    (hc.back (((Parser.Steps.refl _).addVariables _).semicolon))
  refine ⟨?_, (e2.with_variables a.1).of_scope (by simp)⟩
  simp only [Statement.Ok, Statement.All, Statement.Built]
  exact ⟨trivial, e1⟩

theorem built_parseDoWhileStatement (ih : BuiltIH clean n) (p : Parser) :
    Builds clean (Statement.Ok clean p.context) p (parseDoWhileStatement (n + 1) p) := by
  intro r h hr hc
  rw [parseDoWhileStatement] at h
  dsimp only at h
  have hr1 : Ready clean ((p.modifyScope fun s => { s with inIteration := true }).expect .DO).2 :=
    (hr.inIteration true).of_scope (by simp)
  have hc1 : ((p.modifyScope fun s => { s with inIteration := true }).expect .DO).2.context =
      p.context.iteration := by
    rw [Parser.context_of_scope (p := p.modifyScope fun s => { s with inIteration := true })
      (by simp)]
    exact Parser.context_iteration hr.nonempty
  have tail : ∀ (a : Statement × Parser) (c : Expression × Parser),
      (Clean clean a.2 → Statement.Ok clean p.context.iteration a.1 ∧ Ready clean a.2) →
      parseExpression n ((a.2.expect .WHILE).2.expect .LEFT_PARENTHESIS).2 = some c →
      Clean clean ((c.2.expect .RIGHT_PARENTHESIS).2.modifyScope fun s =>
        { s with inIteration := p.currentScope.inIteration }) →
      (Statement.DoWhileStatement 0 c.1 a.1).Ok clean p.context ∧
        Ready clean ((c.2.expect .RIGHT_PARENTHESIS).2.modifyScope fun s =>
          { s with inIteration := p.currentScope.inIteration }) := by
    intro a c ha h3 hcr
    have rc := (reachIH n).parseExpression _ c h3
    have hcc : Clean clean c.2 := hcr.back ((Parser.steps_expect _ _).modifyScope _)
    obtain ⟨a1, a2⟩ := ha (hcc.back (((Parser.steps_expect _ _).expect _).trans rc.1))
    obtain ⟨e1, e2⟩ := ih.parseExpression _ c h3 (a2.of_scope (by simp)) hcc
    refine ⟨?_, (e2.of_scope (by simp)).inIteration _⟩
    simp only [Statement.Ok, Statement.All, Statement.Built]
    exact ⟨trivial, e1.1, a1⟩
  by_cases cb : ((p.modifyScope fun s => { s with inIteration := true }).expect .DO).2.token =
      .LEFT_BRACE
  · rw [if_pos cb] at h
    simp only [bind, pure, Option.some_bind, Option.bind_eq_some, Option.some.injEq] at h
    obtain ⟨a, h1, c, h3, h4⟩ := h
    cases h4
    refine tail a c (fun hca => ?_) h3 hc
    obtain ⟨e1, e2⟩ := ih.parseBlockStatement _ a h1 hr1 hca
    rw [hc1] at e1
    exact ⟨e1.1, e2⟩
  · rw [if_neg cb] at h
    simp only [bind, pure, Option.some_bind, Option.bind_eq_some, Option.some.injEq] at h
    obtain ⟨a, h1, c, h3, h4⟩ := h
    cases h4
    refine tail a c (fun hca => ?_) h3 hc
    obtain ⟨e1, e2⟩ := ih.parseStatement _ a h1 hr1 hca
    rw [hc1] at e1
    exact ⟨e1, e2⟩

theorem built_parseWhileStatement (ih : BuiltIH clean n) (p : Parser) :
    Builds clean (Statement.Ok clean p.context) p (parseWhileStatement (n + 1) p) := by
  intro r h hr hc
  rw [parseWhileStatement] at h
  simp only [bind, Option.bind_eq_some, pure, Option.some.injEq] at h
  obtain ⟨a, h1, c, h3, h4⟩ := h
  cases h4
  have ra := (reachIH n).parseExpression _ a h1
  have rc := (reachIH n).parseIterationStatement _ c h3
  obtain ⟨e1, e2⟩ := ih.parseExpression _ a h1 (hr.of_scope (by simp))
    (hc.back ((Parser.steps_expect _ _).trans rc.1))
  obtain ⟨e3, e4⟩ := ih.parseIterationStatement _ c h3 (e2.of_scope (by simp)) hc
  rw [Parser.context_of_scope (p := a.2) (by simp), ra.same_context,
    Parser.context_of_scope (p := p) (by simp)] at e3
  refine ⟨?_, e4⟩
  simp only [Statement.Ok, Statement.All, Statement.Built]
  exact ⟨trivial, e1.1, e3⟩

theorem built_parseIfStatement (ih : BuiltIH clean n) (p : Parser) :
    Builds clean (Statement.Ok clean p.context) p (parseIfStatement (n + 1) p) := by
  intro r h hr hc
  rw [parseIfStatement] at h
  simp only [bind, Option.bind_eq_some] at h
  obtain ⟨a, h1, h2⟩ := h
  have ra := (reachIH n).parseExpression _ a h1
  have hctx : (a.2.expect .RIGHT_PARENTHESIS).2.context = p.context := by
    rw [Parser.context_of_scope (p := a.2) (by simp), ra.same_context]
    exact Parser.context_of_scope (by simp)
  have ha : Clean clean (a.2.expect .RIGHT_PARENTHESIS).2 →
      a.1.Ok clean ∧ Ready clean (a.2.expect .RIGHT_PARENTHESIS).2 := by
    intro hq
    obtain ⟨e1, e2⟩ := ih.parseExpression _ a h1 (hr.of_scope (by simp))
      (hq.back (Parser.steps_expect _ _))
    exact ⟨e1.1, e2.of_scope (by simp)⟩
  have tail : ∀ (c : Statement × Parser),
      (Clean clean c.2 → a.1.Ok clean ∧ c.1.Ok clean p.context ∧ Ready clean c.2) →
      c.2.context = p.context →
      (if c.2.token = .ELSE then
          (parseStatement n c.2.next).bind fun x =>
            some (Statement.IfStatement 0 a.1 c.1 (some x.1), x.2)
        else some (Statement.IfStatement 0 a.1 c.1 none, c.2)) = some r →
      r.1.Ok clean p.context ∧ Ready clean r.2 := by
    intro c hcq hcc h4
    split at h4
    · simp only [Option.bind_eq_some, Option.some.injEq] at h4
      obtain ⟨e, h5, h6⟩ := h4
      cases h6
      have re := (reachIH n).parseStatement _ e h5
      obtain ⟨c1, c2, c3⟩ := hcq (hc.back ((Parser.steps_next _).trans re.1))
      obtain ⟨e1, e2⟩ := ih.parseStatement _ e h5 (c3.of_scope (by simp)) hc
      rw [Parser.context_of_scope (p := c.2) (by simp), hcc] at e1
      refine ⟨?_, e2⟩
      simp only [Statement.Ok, Statement.All, Statement.Built, Statement.AllOption]
      exact ⟨trivial, c1, c2, e1⟩
    · cases h4
      obtain ⟨c1, c2, c3⟩ := hcq hc
      refine ⟨?_, c3⟩
      simp only [Statement.Ok, Statement.All, Statement.Built, Statement.AllOption]
      exact ⟨trivial, c1, c2, trivial⟩
  by_cases cb : (a.2.expect .RIGHT_PARENTHESIS).2.token = .LEFT_BRACE
  · rw [if_pos cb] at h2
    simp only [bind, pure, Option.bind_eq_some] at h2
    obtain ⟨c, h3, h4⟩ := h2
    have rc := (reachIH n).parseBlockStatement _ c h3
    refine tail c (fun hq => ?_) (rc.same_context.trans hctx) h4
    obtain ⟨a1, a2⟩ := ha (hq.back rc.1)
    obtain ⟨e1, e2⟩ := ih.parseBlockStatement _ c h3 a2 hq
    rw [hctx] at e1
    exact ⟨a1, e1.1, e2⟩
  · rw [if_neg cb] at h2
    simp only [bind, pure, Option.bind_eq_some] at h2
    obtain ⟨c, h3, h4⟩ := h2
    have rc := (reachIH n).parseStatement _ c h3
    refine tail c (fun hq => ?_) (rc.same_context.trans hctx) h4
    obtain ⟨a1, a2⟩ := ha (hq.back rc.1)
    obtain ⟨e1, e2⟩ := ih.parseStatement _ c h3 a2 hq
    rw [hctx] at e1
    exact ⟨a1, e1, e2⟩

/-- Without fuel no parsing function returns. -/
theorem builtIH_zero : BuiltIH clean 0 where
  parsePrimaryExpression := by intros; intro r h; rw [parsePrimaryExpression] at h; cases h
  parseVariableDeclaration := by intros; intro r h; rw [parseVariableDeclaration] at h; cases h
  parseVariableDeclarationList := by intros; intro r h; rw [parseVariableDeclarationList] at h; cases h
  parseObjectProperty := by intros; intro r h; rw [parseObjectProperty] at h; cases h
  parseObjectLiteralLoop := by intros; intro r h; rw [parseObjectLiteralLoop] at h; cases h
  parseObjectLiteral := by intros; intro r h; rw [parseObjectLiteral] at h; cases h
  parseArrayLiteralLoop := by intros; intro r h; rw [parseArrayLiteralLoop] at h; cases h
  parseArrayLiteral := by intros; intro r h; rw [parseArrayLiteral] at h; cases h
  parseArgumentListLoop := by intros; intro r h; rw [parseArgumentListLoop] at h; cases h
  parseArgumentList := by intros; intro r h; rw [parseArgumentList] at h; cases h
  parseCallExpression := by intros; intro r h; rw [parseCallExpression] at h; cases h
  parseBracketMember := by intros; intro r h; rw [parseBracketMember] at h; cases h
  parseNewExpression := by intros; intro r h; rw [parseNewExpression] at h; cases h
  parseLeftHandSideExpressionLoop := by intros; intro r h; rw [parseLeftHandSideExpressionLoop] at h; cases h
  parseLeftHandSideExpression := by intros; intro r h; rw [parseLeftHandSideExpression] at h; cases h
  parseLeftHandSideExpressionAllowCallLoop := by intros; intro r h; rw [parseLeftHandSideExpressionAllowCallLoop] at h; cases h
  parseLeftHandSideExpressionAllowCall := by intros; intro r h; rw [parseLeftHandSideExpressionAllowCall] at h; cases h
  parsePostfixExpression := by intros; intro r h; rw [parsePostfixExpression] at h; cases h
  parseUnaryExpression := by intros; intro r h; rw [parseUnaryExpression] at h; cases h
  parseBinaryOperand := by intros; intro r h; rw [parseBinaryOperand] at h; cases h
  parseBinaryLoop := by intros; intro r h; rw [parseBinaryLoop] at h; cases h
  parseBinaryExpression := by intros; intro r h; rw [parseBinaryExpression] at h; cases h
  parseRelationalExpression := by intros; intro r h; rw [parseRelationalExpression] at h; cases h
  parseConditionlExpression := by intros; intro r h; rw [parseConditionlExpression] at h; cases h
  parseAssignmentExpression := by intros; intro r h; rw [parseAssignmentExpression] at h; cases h
  parseExpressionLoop := by intros; intro r h; rw [parseExpressionLoop] at h; cases h
  parseExpression := by intros; intro r h; rw [parseExpression] at h; cases h
  parseBlockStatement := by intros; intro r h; rw [parseBlockStatement] at h; cases h
  parseStatementList := by intros; intro r h; rw [parseStatementList] at h; cases h
  parseStatement := by intros; intro r h; rw [parseStatement] at h; cases h
  parseTryStatementFinally := by intros; intro r h; rw [parseTryStatementFinally] at h; cases h
  parseTryStatement := by intros; intro r h; rw [parseTryStatement] at h; cases h
  parseFunction := by intros; intro r h; rw [parseFunction] at h; cases h
  _parseFunction := by intros; intro r h; rw [_parseFunction] at h; cases h
  parseReturnStatement := by intros; intro r h; rw [parseReturnStatement] at h; cases h
  parseThrowStatement := by intros; intro r h; rw [parseThrowStatement] at h; cases h
  parseSwitchStatementLoop := by intros; intro r h; rw [parseSwitchStatementLoop] at h; cases h
  parseSwitchStatement := by intros; intro r h; rw [parseSwitchStatement] at h; cases h
  parseWithStatement := by intros; intro r h; rw [parseWithStatement] at h; cases h
  parseCaseStatementLoop := by intros; intro r h; rw [parseCaseStatementLoop] at h; cases h
  parseCaseStatement := by intros; intro r h; rw [parseCaseStatement] at h; cases h
  parseIterationStatement := by intros; intro r h; rw [parseIterationStatement] at h; cases h
  parseForIn := by intros; intro r h; rw [parseForIn] at h; cases h
  parseFor := by intros; intro r h; rw [parseFor] at h; cases h
  parseForOrForInStatement := by intros; intro r h; rw [parseForOrForInStatement] at h; cases h
  parseVariableStatement := by intros; intro r h; rw [parseVariableStatement] at h; cases h
  parseDoWhileStatement := by intros; intro r h; rw [parseDoWhileStatement] at h; cases h
  parseWhileStatement := by intros; intro r h; rw [parseWhileStatement] at h; cases h
  parseIfStatement := by intros; intro r h; rw [parseIfStatement] at h; cases h

/-- What every parsing function builds, for every fuel. -/
theorem builtIH (clean : Prop) : ∀ n, BuiltIH clean n
  | 0 => builtIH_zero
  | n + 1 =>
    have ih := builtIH clean n
    { parsePrimaryExpression := built_parsePrimaryExpression ih,
      parseVariableDeclaration := built_parseVariableDeclaration ih,
      parseVariableDeclarationList := built_parseVariableDeclarationList ih,
      parseObjectProperty := built_parseObjectProperty ih,
      parseObjectLiteralLoop := built_parseObjectLiteralLoop ih,
      parseObjectLiteral := built_parseObjectLiteral ih,
      parseArrayLiteralLoop := built_parseArrayLiteralLoop ih,
      parseArrayLiteral := built_parseArrayLiteral ih,
      parseArgumentListLoop := built_parseArgumentListLoop ih,
      parseArgumentList := built_parseArgumentList ih,
      parseCallExpression := built_parseCallExpression ih,
      parseBracketMember := built_parseBracketMember ih,
      parseNewExpression := built_parseNewExpression ih,
      parseLeftHandSideExpressionLoop := built_parseLeftHandSideExpressionLoop ih,
      parseLeftHandSideExpression := built_parseLeftHandSideExpression ih,
      parseLeftHandSideExpressionAllowCallLoop := built_parseLeftHandSideExpressionAllowCallLoop ih,
      parseLeftHandSideExpressionAllowCall := built_parseLeftHandSideExpressionAllowCall ih,
      parsePostfixExpression := built_parsePostfixExpression ih,
      parseUnaryExpression := built_parseUnaryExpression ih,
      parseBinaryOperand := built_parseBinaryOperand ih,
      parseBinaryLoop := built_parseBinaryLoop ih,
      parseBinaryExpression := built_parseBinaryExpression ih,
      parseRelationalExpression := built_parseRelationalExpression ih,
      parseConditionlExpression := built_parseConditionlExpression ih,
      parseAssignmentExpression := built_parseAssignmentExpression ih,
      parseExpressionLoop := built_parseExpressionLoop ih,
      parseExpression := built_parseExpression ih,
      parseBlockStatement := built_parseBlockStatement ih,
      parseStatementList := built_parseStatementList ih,
      parseStatement := built_parseStatement ih,
      parseTryStatementFinally := built_parseTryStatementFinally ih,
      parseTryStatement := built_parseTryStatement ih,
      parseFunction := built_parseFunction ih,
      _parseFunction := built__parseFunction ih,
      parseReturnStatement := built_parseReturnStatement ih,
      parseThrowStatement := built_parseThrowStatement ih,
      parseSwitchStatementLoop := built_parseSwitchStatementLoop ih,
      parseSwitchStatement := built_parseSwitchStatement ih,
      parseWithStatement := built_parseWithStatement ih,
      parseCaseStatementLoop := built_parseCaseStatementLoop ih,
      parseCaseStatement := built_parseCaseStatement ih,
      parseIterationStatement := built_parseIterationStatement ih,
      parseForIn := built_parseForIn ih,
      parseFor := built_parseFor ih,
      parseForOrForInStatement := built_parseForOrForInStatement ih,
      parseVariableStatement := built_parseVariableStatement ih,
      parseDoWhileStatement := built_parseDoWhileStatement ih,
      parseWhileStatement := built_parseWhileStatement ih,
      parseIfStatement := built_parseIfStatement ih }

end BuiltStatements

section BuiltProgram

variable {clean : Prop}

/-! ### The program -/

theorem reach_parseSourceElementsDirectives (n : Nat) (l : List Statement) (p : Parser) :
    Post Reaches p (parseSourceElementsDirectives n l p) := by
  induction n generalizing l p with
  | zero => intro r h; rw [parseSourceElementsDirectives] at h; cases h
  | succ n ih =>
    intro r h
    rw [parseSourceElementsDirectives] at h
    split at h
    · cases h; exact Reaching.stay p
    · simp only [bind, Option.bind_eq_some, parseSourceElement] at h
      obtain ⟨a, h1, h2⟩ := h
      exact ((reachIH n).parseStatement _ a h1).reaches.and_then (ih _ _ r h2)

theorem reach_parseSourceElementsLoop (n : Nat) (l : List Statement) (p : Parser) :
    Post Reaches p (parseSourceElementsLoop n l p) := by
  induction n generalizing l p with
  | zero => intro r h; rw [parseSourceElementsLoop] at h; cases h
  | succ n ih =>
    intro r h
    rw [parseSourceElementsLoop] at h
    split at h
    · simp only [bind, Option.bind_eq_some, parseSourceElement] at h
      obtain ⟨a, h1, h2⟩ := h
      exact ((reachIH n).parseStatement _ a h1).reaches.and_then (ih _ _ r h2)
    · cases h; exact Reaching.stay p

theorem reach_parseSourceElements (n : Nat) (p : Parser) :
    Post Reaches p (parseSourceElements n p) := by
  intro r h
  simp only [parseSourceElements, bind, Option.bind_eq_some] at h
  obtain ⟨a, h1, h2⟩ := h
  exact (reach_parseSourceElementsDirectives n _ _ a h1).and_then
    (reach_parseSourceElementsLoop n _ _ r h2)

theorem built_parseSourceElementsDirectives (n : Nat) (l : List Statement) (p : Parser)
    (hl : Statement.AllList Expression.Built (Statement.Built clean) p.context l) :
    Builds clean (Statement.AllList Expression.Built (Statement.Built clean) p.context) p
      (parseSourceElementsDirectives n l p) := by
  induction n generalizing l p with
  | zero => intro r h; rw [parseSourceElementsDirectives] at h; cases h
  | succ n ih =>
    intro r h hr hc
    rw [parseSourceElementsDirectives] at h
    split at h
    · cases h; exact ⟨hl, hr⟩
    · simp only [bind, Option.bind_eq_some, parseSourceElement] at h
      obtain ⟨a, h1, h2⟩ := h
      have ra := (reachIH n).parseStatement _ a h1
      have rr := reach_parseSourceElementsDirectives n _ _ r h2
      obtain ⟨e1, e2⟩ := (builtIH clean n).parseStatement _ a h1 hr (hc.back rr.1)
      have := ih (l ++ [a.1]) a.2 (by
        rw [ra.same_context, Statement.allStatements_append]
        exact ⟨hl, e1, trivial⟩) r h2 e2 hc
      rw [ra.same_context] at this
      exact this

theorem built_parseSourceElementsLoop (n : Nat) (l : List Statement) (p : Parser)
    (hl : Statement.AllList Expression.Built (Statement.Built clean) p.context l) :
    Builds clean (Statement.AllList Expression.Built (Statement.Built clean) p.context) p
      (parseSourceElementsLoop n l p) := by
  induction n generalizing l p with
  | zero => intro r h; rw [parseSourceElementsLoop] at h; cases h
  | succ n ih =>
    intro r h hr hc
    rw [parseSourceElementsLoop] at h
    split at h
    · simp only [bind, Option.bind_eq_some, parseSourceElement] at h
      obtain ⟨a, h1, h2⟩ := h
      have ra := (reachIH n).parseStatement _ a h1
      have rr := reach_parseSourceElementsLoop n _ _ r h2
      obtain ⟨e1, e2⟩ := (builtIH clean n).parseStatement _ a h1 hr (hc.back rr.1)
      have := ih (l ++ [a.1]) a.2 (by
        rw [ra.same_context, Statement.allStatements_append]
        exact ⟨hl, e1, trivial⟩) r h2 e2 hc
      rw [ra.same_context] at this
      exact this
    · cases h; exact ⟨hl, hr⟩

theorem built_parseSourceElements (n : Nat) (p : Parser) :
    Builds clean (Statement.AllList Expression.Built (Statement.Built clean) p.context) p
      (parseSourceElements n p) := by
  intro r h hr hc
  simp only [parseSourceElements, bind, Option.bind_eq_some] at h
  obtain ⟨a, h1, h2⟩ := h
  have ra := reach_parseSourceElementsDirectives n _ _ a h1
  have rr := reach_parseSourceElementsLoop n _ _ r h2
  obtain ⟨e1, e2⟩ := built_parseSourceElementsDirectives n [] p trivial a h1 hr (hc.back rr.1)
  have := built_parseSourceElementsLoop n a.1 a.2 (by rw [ra.same_context]; exact e1) r h2 e2 hc
  rw [ra.same_context] at this
  exact this

/-- The program `parseProgram` returns from a parser without a scope is as the parser
builds it; the parse is clean if the parser it leaves has no error. -/
theorem built_parseProgram (n : Nat) (p : Parser) (hp : p.scope = [])
    (r : Program × Parser) (h : parseProgram n p = some r) :
    r.1.Ok (r.2.errors = []) ∧ r.2.scope = [] ∧ p.Steps r.2 := by
  simp only [parseProgram, bind, Option.bind_eq_some, pure, Option.some.injEq] at h
  obtain ⟨a, h1, h2⟩ := h
  cases h2
  have ra := reach_parseSourceElements n _ a h1
  have hr : Ready (a.2.closeScope.errors = []) p.openScope :=
    ⟨by simp, by simp [Sealed, hp], by simp [Parser.currentScope, Declaration.OkList,
      Declaration.AllList], by simp [Parser.currentScope, Declaration.OkList,
      Declaration.AllList]⟩
  have hctx : p.openScope.context = {} := by
    simp [Parser.context, Parser.currentScope]
  obtain ⟨e1, e2⟩ := built_parseSourceElements n p.openScope a h1 hr (fun c => c)
  rw [hctx] at e1
  refine ⟨⟨e1, e2.functions, e2.declared⟩, ?_, ?_⟩
  · have := ra.2.1
    simp only [Parser.openScope_scope, hp] at this
    simp only [Parser.closeScope]
    cases hsc : a.2.scope with
    | nil => rfl
    | cons s t =>
      rw [hsc] at this
      simp only [Frame] at this
      simp [this.2]
  · exact ((Parser.Steps.refl p).openScope.trans ra.1).closeScope

end BuiltProgram

section Defined

variable {n : Nat}

/-! ### `Idx0` of the expressions the parser returns -/

theorem defined_parseDotMember (p : Parser) (l : Expression) (hl : l.Defined) :
    (p.parseDotMember l).1.Defined := by
  unfold Parser.parseDotMember
  dsimp only
  split
  · simp [Expression.Defined, Expression.Idx0]
  · simpa [Expression.Defined, Expression.Idx0] using hl

theorem defined_parsePrimaryExpression (ih : DefinedIH n) (p : Parser) :
    Gives Expression.Defined (parsePrimaryExpression (n + 1) p) := by
  intro r h
  rw [parsePrimaryExpression] at h
  dsimp only at h
  have leaf : ∀ (e : Expression) (q : Parser), e.Idx0.isSome = true →
      some (e, q) = some r → r.1.Defined := by
    intro e q he hh
    cases hh
    exact he
  by_cases c1 : p.token = .IDENTIFIER
  · rw [if_pos c1] at h; exact leaf _ _ (by simp [Expression.Idx0]) h
  rw [if_neg c1] at h
  by_cases c2 : p.token = .NULL
  · rw [if_pos c2] at h; exact leaf _ _ (by simp [Expression.Idx0]) h
  rw [if_neg c2] at h
  by_cases c3 : p.token = .BOOLEAN
  · rw [if_pos c3] at h
    split at h
    · exact leaf _ _ (by simp [Expression.Idx0]) h
    · split at h
      · exact leaf _ _ (by simp [Expression.Idx0]) h
      · exact leaf _ _ (by simp [Expression.Idx0]) h
  rw [if_neg c3] at h
  by_cases c4 : p.token = .STRING
  · rw [if_pos c4] at h; exact leaf _ _ (by simp [Expression.Idx0]) h
  rw [if_neg c4] at h
  by_cases c5 : p.token = .NUMBER
  · rw [if_pos c5] at h
    split at h
    · exact leaf _ _ (by simp [Expression.Idx0]) h
    · exact leaf _ _ (by simp [Expression.Idx0]) h
  rw [if_neg c5] at h
  by_cases c6 : p.token = .SLASH ∨ p.token = .QUOTIENT_ASSIGN
  · rw [if_pos c6] at h
    cases h
    simp [Parser.parseRegExpLiteral, Expression.Defined, Expression.Idx0]
  rw [if_neg c6] at h
  by_cases c7 : p.token = .LEFT_BRACE
  · rw [if_pos c7] at h; exact ih.parseObjectLiteral _ r h
  rw [if_neg c7] at h
  by_cases c8 : p.token = .LEFT_BRACKET
  · rw [if_pos c8] at h; exact ih.parseArrayLiteral _ r h
  rw [if_neg c8] at h
  by_cases c9 : p.token = .LEFT_PARENTHESIS
  · rw [if_pos c9] at h
    simp only [bind, Option.bind_eq_some, pure, Option.some.injEq] at h
    obtain ⟨a, h1, h2⟩ := h
    cases h2
    exact ih.parseExpression _ a h1
  rw [if_neg c9] at h
  by_cases c10 : p.token = .THIS
  · rw [if_pos c10] at h; exact leaf _ _ (by simp [Expression.Idx0]) h
  rw [if_neg c10] at h
  by_cases c11 : p.token = .FUNCTION
  · rw [if_pos c11] at h; exact ih.parseFunction _ _ r h
  rw [if_neg c11] at h
  exact leaf _ _ (by simp [Expression.Idx0]) h

theorem defined_parseObjectLiteral (p : Parser) :
    Gives Expression.Defined (parseObjectLiteral (n + 1) p) := by
  intro r h
  simp only [parseObjectLiteral, bind, Option.bind_eq_some, pure, Option.some.injEq] at h
  obtain ⟨a, h1, h2⟩ := h
  cases h2
  simp [Expression.Defined, Expression.Idx0]

theorem defined_parseArrayLiteral (p : Parser) :
    Gives Expression.Defined (parseArrayLiteral (n + 1) p) := by
  intro r h
  simp only [parseArrayLiteral, bind, Option.bind_eq_some, pure, Option.some.injEq] at h
  obtain ⟨a, h1, h2⟩ := h
  cases h2
  simp [Expression.Defined, Expression.Idx0]

theorem defined_parseCallExpression (l : Expression) (p : Parser) (hl : l.Defined) :
    Gives Expression.Defined (parseCallExpression (n + 1) l p) := by
  intro r h
  simp only [parseCallExpression, bind, Option.bind_eq_some, pure, Option.some.injEq] at h
  obtain ⟨a, h1, h2⟩ := h
  cases h2
  simpa [Expression.Defined, Expression.Idx0] using hl

theorem defined_parseBracketMember (l : Expression) (p : Parser) (hl : l.Defined) :
    Gives Expression.Defined (parseBracketMember (n + 1) l p) := by
  intro r h
  simp only [parseBracketMember, bind, Option.bind_eq_some, pure, Option.some.injEq] at h
  obtain ⟨a, h1, h2⟩ := h
  cases h2
  simpa [Expression.Defined, Expression.Idx0] using hl

theorem defined_parseNewExpression (p : Parser) :
    Gives Expression.Defined (parseNewExpression (n + 1) p) := by
  intro r h
  rw [parseNewExpression] at h
  simp only [bind, Option.bind_eq_some, pure] at h
  obtain ⟨a, h1, h2⟩ := h
  split at h2
  · simp only [Option.bind_eq_some, Option.some.injEq] at h2
    obtain ⟨b, h3, h4⟩ := h2
    cases h4
    simp [Expression.Defined, Expression.Idx0]
  · cases h2
    simp [Expression.Defined, Expression.Idx0]

theorem defined_parseLeftHandSideExpressionLoop (ih : DefinedIH n) (l : Expression)
    (p : Parser) (hl : l.Defined) :
    Gives Expression.Defined (parseLeftHandSideExpressionLoop (n + 1) l p) := by
  intro r h
  rw [parseLeftHandSideExpressionLoop] at h
  split at h
  · exact ih.parseLeftHandSideExpressionLoop (p.parseDotMember l).1 (p.parseDotMember l).2
      (defined_parseDotMember p l hl) r h
  · split at h
    · simp only [bind, Option.bind_eq_some] at h
      obtain ⟨a, h1, h2⟩ := h
      exact ih.parseLeftHandSideExpressionLoop _ _ (ih.parseBracketMember _ _ hl a h1) r h2
    · cases h; exact hl

theorem defined_parseLeftHandSideExpression (ih : DefinedIH n) (p : Parser) :
    Gives Expression.Defined (parseLeftHandSideExpression (n + 1) p) := by
  intro r h
  rw [parseLeftHandSideExpression] at h
  dsimp only at h
  by_cases c : p.token = .NEW
  · rw [if_pos c] at h
    simp only [bind, Option.bind_eq_some] at h
    obtain ⟨a, h1, h2⟩ := h
    exact ih.parseLeftHandSideExpressionLoop _ _ (ih.parseNewExpression _ a h1) r h2
  · rw [if_neg c] at h
    simp only [bind, Option.bind_eq_some] at h
    obtain ⟨a, h1, h2⟩ := h
    exact ih.parseLeftHandSideExpressionLoop _ _ (ih.parsePrimaryExpression _ a h1) r h2

theorem defined_parseLeftHandSideExpressionAllowCallLoop (ih : DefinedIH n) (l : Expression)
    (p : Parser) (hl : l.Defined) :
    Gives Expression.Defined (parseLeftHandSideExpressionAllowCallLoop (n + 1) l p) := by
  intro r h
  rw [parseLeftHandSideExpressionAllowCallLoop] at h
  split at h
  · exact ih.parseLeftHandSideExpressionAllowCallLoop (p.parseDotMember l).1
      (p.parseDotMember l).2 (defined_parseDotMember p l hl) r h
  · split at h
    · simp only [bind, Option.bind_eq_some] at h
      obtain ⟨a, h1, h2⟩ := h
      exact ih.parseLeftHandSideExpressionAllowCallLoop _ _
        (ih.parseBracketMember _ _ hl a h1) r h2
    · split at h
      · simp only [bind, Option.bind_eq_some] at h
        obtain ⟨a, h1, h2⟩ := h
        exact ih.parseLeftHandSideExpressionAllowCallLoop _ _
          (ih.parseCallExpression _ _ hl a h1) r h2
      · cases h; exact hl

theorem defined_parseLeftHandSideExpressionAllowCall (ih : DefinedIH n) (p : Parser) :
    Gives Expression.Defined (parseLeftHandSideExpressionAllowCall (n + 1) p) := by
  intro r h
  rw [parseLeftHandSideExpressionAllowCall] at h
  dsimp only at h
  by_cases c : p.token = .NEW
  · rw [if_pos c] at h
    simp only [bind, Option.bind_eq_some] at h
    obtain ⟨a, h1, h2⟩ := h
    exact ih.parseLeftHandSideExpressionAllowCallLoop _ _ (ih.parseNewExpression _ a h1) r h2
  · rw [if_neg c] at h
    simp only [bind, Option.bind_eq_some] at h
    obtain ⟨a, h1, h2⟩ := h
    exact ih.parseLeftHandSideExpressionAllowCallLoop _ _
      (ih.parsePrimaryExpression _ a h1) r h2

theorem defined_parsePostfixExpression (ih : DefinedIH n) (p : Parser) :
    Gives Expression.Defined (parsePostfixExpression (n + 1) p) := by
  intro r h
  rw [parsePostfixExpression] at h
  simp only [bind, Option.bind_eq_some, pure] at h
  obtain ⟨a, h1, h2⟩ := h
  split at h2
  · split at h2
    · cases h2; simp [Expression.Defined, Expression.Idx0]
    · cases h2; simp [Expression.Defined, Expression.Idx0]
  · cases h2
    exact ih.parseLeftHandSideExpressionAllowCall _ a h1

theorem defined_parseUnaryExpression (ih : DefinedIH n) (p : Parser) :
    Gives Expression.Defined (parseUnaryExpression (n + 1) p) := by
  intro r h
  rw [parseUnaryExpression] at h
  split at h
  · simp only [bind, Option.bind_eq_some, pure, Option.some.injEq] at h
    obtain ⟨a, h1, h2⟩ := h
    cases h2
    simp [Expression.Defined, Expression.Idx0]
  · split at h
    · simp only [bind, Option.bind_eq_some, pure] at h
      obtain ⟨a, h1, h2⟩ := h
      split at h2
      · cases h2; simp [Expression.Defined, Expression.Idx0]
      · cases h2; simp [Expression.Defined, Expression.Idx0]
    · exact ih.parsePostfixExpression _ r h

theorem defined_parseBinaryOperand (ih : DefinedIH n) (lv : BinaryLevel) (p : Parser) :
    Gives Expression.Defined (parseBinaryOperand (n + 1) lv p) := by
  intro r h
  cases lv <;> rw [parseBinaryOperand] at h
  · exact ih.parseUnaryExpression _ r h
  · exact ih.parseBinaryExpression _ _ r h
  · exact ih.parseBinaryExpression _ _ r h
  · exact ih.parseRelationalExpression _ r h
  · exact ih.parseBinaryExpression _ _ r h
  · exact ih.parseBinaryExpression _ _ r h
  · exact ih.parseBinaryExpression _ _ r h
  · exact ih.parseBinaryExpression _ _ r h
  · exact ih.parseBinaryExpression _ _ r h

theorem defined_parseBinaryLoop (ih : DefinedIH n) (lv : BinaryLevel) (l : Expression)
    (p : Parser) (hl : l.Defined) :
    Gives Expression.Defined (parseBinaryLoop (n + 1) lv l p) := by
  intro r h
  rw [parseBinaryLoop] at h
  split at h
  · simp only [bind, Option.bind_eq_some] at h
    obtain ⟨a, h1, h2⟩ := h
    exact ih.parseBinaryLoop _ _ _ (by simpa [Expression.Defined, Expression.Idx0] using hl)
      r h2
  · cases h; exact hl

theorem defined_parseBinaryExpression (ih : DefinedIH n) (lv : BinaryLevel) (p : Parser) :
    Gives Expression.Defined (parseBinaryExpression (n + 1) lv p) := by
  intro r h
  rw [parseBinaryExpression] at h
  simp only [bind, Option.bind_eq_some] at h
  obtain ⟨a, h1, h2⟩ := h
  exact ih.parseBinaryLoop _ _ _ (ih.parseBinaryOperand _ _ a h1) r h2

theorem defined_parseRelationalExpression (ih : DefinedIH n) (p : Parser) :
    Gives Expression.Defined (parseRelationalExpression (n + 1) p) := by
  intro r h
  rw [parseRelationalExpression] at h
  simp only [bind, Option.bind_eq_some, pure] at h
  obtain ⟨a, h1, h2⟩ := h
  have ha := ih.parseBinaryExpression _ _ a h1
  have hb : ∀ (op : Token) (b : Expression) (c : Bool),
      (Expression.BinaryExpression op a.1 b c).Defined := by
    intro op b c
    simpa [Expression.Defined, Expression.Idx0] using ha
  split at h2
  · simp only [Option.bind_eq_some, Option.some.injEq] at h2
    obtain ⟨b, h3, h4⟩ := h2
    cases h4
    exact hb _ _ _
  · split at h2
    · simp only [Option.bind_eq_some, Option.some.injEq] at h2
      obtain ⟨b, h3, h4⟩ := h2
      cases h4
      exact hb _ _ _
    · split at h2
      · split at h2
        · cases h2; exact ha
        · simp only [Option.bind_eq_some, Option.some.injEq] at h2
          obtain ⟨b, h3, h4⟩ := h2
          cases h4
          exact hb _ _ _
      · cases h2; exact ha

theorem defined_parseConditionlExpression (ih : DefinedIH n) (p : Parser) :
    Gives Expression.Defined (parseConditionlExpression (n + 1) p) := by
  intro r h
  rw [parseConditionlExpression] at h
  simp only [bind, Option.bind_eq_some, pure] at h
  obtain ⟨a, h1, h2⟩ := h
  have ha := ih.parseBinaryExpression _ _ a h1
  split at h2
  · simp only [Option.bind_eq_some, Option.some.injEq] at h2
    obtain ⟨b, h3, c, h4, h5⟩ := h2
    cases h5
    simpa [Expression.Defined, Expression.Idx0] using ha
  · cases h2; exact ha

theorem defined_parseAssignmentExpression (ih : DefinedIH n) (p : Parser) :
    Gives Expression.Defined (parseAssignmentExpression (n + 1) p) := by
  intro r h
  rw [parseAssignmentExpression] at h
  simp only [bind, Option.bind_eq_some, pure] at h
  obtain ⟨a, h1, h2⟩ := h
  have ha := ih.parseConditionlExpression _ a h1
  split at h2
  · split at h2
    · simp only [Option.bind_eq_some, Option.some.injEq] at h2
      obtain ⟨b, h3, h4⟩ := h2
      cases h4
      simpa [Expression.Defined, Expression.Idx0] using ha
    · simp only [Option.bind_eq_some, Option.some.injEq] at h2
      obtain ⟨i0, h3, h4⟩ := h2
      cases h4
      simp [Expression.Defined, Expression.Idx0]
  · cases h2; exact ha

theorem defined_parseExpressionLoop (ih : DefinedIH n) (s : List Expression) (p : Parser) :
    Gives (fun x => ∃ m, x = s ++ m) (parseExpressionLoop (n + 1) s p) := by
  intro r h
  rw [parseExpressionLoop] at h
  split at h
  · cases h; exact ⟨[], by simp⟩
  · simp only [bind, Option.bind_eq_some] at h
    obtain ⟨a, h1, h2⟩ := h
    obtain ⟨m, hm⟩ := ih.parseExpressionLoop _ _ r h2
    exact ⟨a.1 :: m, by rw [hm]; simp⟩

theorem defined_parseExpression (ih : DefinedIH n) (p : Parser) :
    Gives Expression.Defined (parseExpression (n + 1) p) := by
  intro r h
  rw [parseExpression] at h
  simp only [bind, Option.bind_eq_some, pure] at h
  obtain ⟨a, h1, h2⟩ := h
  have ha := ih.parseAssignmentExpression _ a h1
  split at h2
  · simp only [Option.bind_eq_some, Option.some.injEq] at h2
    obtain ⟨b, h3, h4⟩ := h2
    cases h4
    obtain ⟨m, hm⟩ := ih.parseExpressionLoop _ _ b h3
    rw [hm]
    simpa [Expression.Defined, Expression.Idx0, Expression.Idx0First] using ha
  · cases h2; exact ha

theorem defined_parseFunction (d : Bool) (p : Parser) :
    Gives Expression.Defined (parseFunction (n + 1) d p) := by
  intro r h
  rw [parseFunction] at h
  simp only [bind, Option.bind_eq_some, pure, Option.some.injEq] at h
  obtain ⟨a, h1, i1, h2, h3⟩ := h
  cases h3
  simp [Expression.Defined, Expression.Idx0]

theorem defined_parseBlockStatement (p : Parser) :
    Gives (fun s => s.isBlock = true) (parseBlockStatement (n + 1) p) := by
  intro r h
  simp only [parseBlockStatement, bind, Option.bind_eq_some, pure, Option.some.injEq] at h
  obtain ⟨a, h1, h2⟩ := h
  cases h2
  rfl

theorem defined__parseFunction (ih : DefinedIH n) (nm : String) (d : Bool) (p : Parser) :
    Gives (fun x => x.1.isBlock = true) (_parseFunction (n + 1) nm d p) := by
  intro r h
  rw [_parseFunction] at h
  simp only [bind, Option.bind_eq_some, pure, Option.some.injEq] at h
  obtain ⟨a, h1, h2⟩ := h
  cases h2
  exact ih.parseBlockStatement _ a h1

theorem definedIH_zero : DefinedIH 0 where
  parsePrimaryExpression := by intros; intro r h; rw [parsePrimaryExpression] at h; cases h
  parseObjectLiteral := by intros; intro r h; rw [parseObjectLiteral] at h; cases h
  parseArrayLiteral := by intros; intro r h; rw [parseArrayLiteral] at h; cases h
  parseCallExpression := by intros; intro r h; rw [parseCallExpression] at h; cases h
  parseBracketMember := by intros; intro r h; rw [parseBracketMember] at h; cases h
  parseNewExpression := by intros; intro r h; rw [parseNewExpression] at h; cases h
  parseLeftHandSideExpressionLoop := by
    intros; intro r h; rw [parseLeftHandSideExpressionLoop] at h; cases h
  parseLeftHandSideExpression := by
    intros; intro r h; rw [parseLeftHandSideExpression] at h; cases h
  parseLeftHandSideExpressionAllowCallLoop := by
    intros; intro r h; rw [parseLeftHandSideExpressionAllowCallLoop] at h; cases h
  parseLeftHandSideExpressionAllowCall := by
    intros; intro r h; rw [parseLeftHandSideExpressionAllowCall] at h; cases h
  parsePostfixExpression := by intros; intro r h; rw [parsePostfixExpression] at h; cases h
  parseUnaryExpression := by intros; intro r h; rw [parseUnaryExpression] at h; cases h
  parseBinaryOperand := by intros; intro r h; rw [parseBinaryOperand] at h; cases h
  parseBinaryLoop := by intros; intro r h; rw [parseBinaryLoop] at h; cases h
  parseBinaryExpression := by intros; intro r h; rw [parseBinaryExpression] at h; cases h
  parseRelationalExpression := by
    intros; intro r h; rw [parseRelationalExpression] at h; cases h
  parseConditionlExpression := by
    intros; intro r h; rw [parseConditionlExpression] at h; cases h
  parseAssignmentExpression := by
    intros; intro r h; rw [parseAssignmentExpression] at h; cases h
  parseExpressionLoop := by intros; intro r h; rw [parseExpressionLoop] at h; cases h
  parseExpression := by intros; intro r h; rw [parseExpression] at h; cases h
  parseFunction := by intros; intro r h; rw [parseFunction] at h; cases h
  parseBlockStatement := by intros; intro r h; rw [parseBlockStatement] at h; cases h
  _parseFunction := by intros; intro r h; rw [_parseFunction] at h; cases h

/-- `Idx0` does not panic on what the parser returns, for every fuel. -/
theorem definedIH : ∀ n, DefinedIH n
  | 0 => definedIH_zero
  | n + 1 =>
    have ih := definedIH n
    { parsePrimaryExpression := defined_parsePrimaryExpression ih,
      parseObjectLiteral := defined_parseObjectLiteral,
      parseArrayLiteral := defined_parseArrayLiteral,
      parseCallExpression := defined_parseCallExpression,
      parseBracketMember := defined_parseBracketMember,
      parseNewExpression := defined_parseNewExpression,
      parseLeftHandSideExpressionLoop := defined_parseLeftHandSideExpressionLoop ih,
      parseLeftHandSideExpression := defined_parseLeftHandSideExpression ih,
      parseLeftHandSideExpressionAllowCallLoop :=
        defined_parseLeftHandSideExpressionAllowCallLoop ih,
      parseLeftHandSideExpressionAllowCall := defined_parseLeftHandSideExpressionAllowCall ih,
      parsePostfixExpression := defined_parsePostfixExpression ih,
      parseUnaryExpression := defined_parseUnaryExpression ih,
      parseBinaryOperand := defined_parseBinaryOperand ih,
      parseBinaryLoop := defined_parseBinaryLoop ih,
      parseBinaryExpression := defined_parseBinaryExpression ih,
      parseRelationalExpression := defined_parseRelationalExpression ih,
      parseConditionlExpression := defined_parseConditionlExpression ih,
      parseAssignmentExpression := defined_parseAssignmentExpression ih,
      parseExpressionLoop := defined_parseExpressionLoop ih,
      parseExpression := defined_parseExpression ih,
      parseFunction := defined_parseFunction,
      parseBlockStatement := defined_parseBlockStatement,
      _parseFunction := defined__parseFunction ih }

end Defined

section Total

variable {n : Nat}

/-! ### Enough fuel -/

/-- The budget of a function called at `q`, reached from `p`, is below the budget of the
caller at `p`: the measure has gone down, or the rank has at the same token. -/
theorem budget_lt {p q : Parser} {rf rfE rg rgE : Nat} (hs : p.Steps q)
    (h1 : q.measure = p.measure → p.token ≠ .EOF → rg < rf)
    (h2 : q.measure = p.measure → p.token = .EOF → rgE < rfE)
    (hg : rg < 128) (hgE : rgE < 128) : q.budget rg rgE < p.budget rf rfE := by
  unfold Parser.budget fuelStep
  rcases Nat.lt_or_ge q.measure p.measure with hlt | hge
  · have : (if q.token = .EOF then rgE else rg) < 128 := by split <;> assumption
    omega
  · have heq : q.measure = p.measure := le_antisymm hs.measure hge
    rw [hs.token heq, heq]
    by_cases c : p.token = .EOF
    · rw [if_pos c, if_pos c]
      have := h2 heq c
      omega
    · rw [if_neg c, if_neg c]
      have := h1 heq c
      omega

/-- The callee stands where the caller does, at any token. -/
theorem fits_same {p q : Parser} {rf rfE rg rgE : Nat} (hb : p.budget rf rfE < n + 1)
    (hs : p.Steps q) (h1 : rg < rf) (h2 : rgE < rfE) (hg : rg < 128) (hgE : rgE < 128) :
    q.budget rg rgE < n :=
  lt_of_lt_of_le (budget_lt hs (fun _ _ => h1) (fun _ _ => h2) hg hgE) (Nat.lt_succ_iff.mp hb)

/-- The callee stands at a token that is not `EOF`. -/
theorem fits_guard {p q : Parser} {rf rfE rg rgE : Nat} (hb : p.budget rf rfE < n + 1)
    (hs : p.Steps q) (hne : q.token ≠ .EOF) (h1 : rg < rf) (hg : rg < 128)
    (hgE : rgE < 128) : q.budget rg rgE < n :=
  lt_of_lt_of_le
    (budget_lt hs (fun _ _ => h1) (fun he c => absurd (hs.token he ▸ c) hne) hg hgE)
    (Nat.lt_succ_iff.mp hb)

/-- The callee stands behind a step that makes progress unless at `EOF`. -/
theorem fits_reach {p q : Parser} {rf rfE rg rgE : Nat} (hb : p.budget rf rfE < n + 1)
    (hr : ReachesS p q) (h2 : rgE < rfE) (hg : rg < 128) (hgE : rgE < 128) :
    q.budget rg rgE < n :=
  lt_of_lt_of_le
    (budget_lt hr.1 (fun he c => absurd he (Nat.ne_of_lt (hr.2.2 c))) (fun _ _ => h2) hg hgE)
    (Nat.lt_succ_iff.mp hb)

/-- The callee stands behind a step that has made progress. -/
theorem fits_lt {p q : Parser} {rf rfE rg rgE : Nat} (hb : p.budget rf rfE < n + 1)
    (hs : p.Steps q) (hlt : q.measure < p.measure) (hg : rg < 128) (hgE : rgE < 128) :
    q.budget rg rgE < n :=
  lt_of_lt_of_le
    (budget_lt hs (fun he _ => absurd he (Nat.ne_of_lt hlt))
      (fun he _ => absurd he (Nat.ne_of_lt hlt)) hg hgE)
    (Nat.lt_succ_iff.mp hb)

theorem returns_bind {α β : Type} {x : Option (α × Parser)} {f : α × Parser → Option β}
    {a : α × Parser} (hx : x = some a) (hf : ∃ r, f a = some r) :
    ∃ r, (x >>= f) = some r := by
  subst hx
  exact hf

theorem returns_some {α : Type} (a : α × Parser) : Returns (some a) := ⟨a, rfl⟩

/-- A run that makes progress from a token that is not `EOF`. -/
theorem Reaching.lt {p q : Parser} (h : ReachesS p q) (hne : p.token ≠ .EOF) :
    q.measure < p.measure :=
  h.2.2 hne

theorem total_parsePrimaryExpression (ih : TotalIH n) (p : Parser)
    (hb : p.budget 1 0 < n + 1) : Returns (parsePrimaryExpression (n + 1) p) := by
  rw [parsePrimaryExpression]
  dsimp only
  by_cases c1 : p.token = .IDENTIFIER
  · rw [if_pos c1]; exact returns_some _
  rw [if_neg c1]
  by_cases c2 : p.token = .NULL
  · rw [if_pos c2]; exact returns_some _
  rw [if_neg c2]
  by_cases c3 : p.token = .BOOLEAN
  · rw [if_pos c3]
    split
    · exact returns_some _
    · split <;> exact returns_some _
  rw [if_neg c3]
  by_cases c4 : p.token = .STRING
  · rw [if_pos c4]; exact returns_some _
  rw [if_neg c4]
  by_cases c5 : p.token = .NUMBER
  · rw [if_pos c5]
    split <;> exact returns_some _
  rw [if_neg c5]
  by_cases c6 : p.token = .SLASH ∨ p.token = .QUOTIENT_ASSIGN
  · rw [if_pos c6]; exact returns_some _
  rw [if_neg c6]
  by_cases c7 : p.token = .LEFT_BRACE
  · rw [if_pos c7]
    exact ih.parseObjectLiteral p (fits_guard hb (Parser.Steps.refl p) (by rw [c7]; decide)
      (by decide) (by decide) (by decide))
  rw [if_neg c7]
  by_cases c8 : p.token = .LEFT_BRACKET
  · rw [if_pos c8]
    exact ih.parseArrayLiteral p (fits_guard hb (Parser.Steps.refl p) (by rw [c8]; decide)
      (by decide) (by decide) (by decide))
  rw [if_neg c8]
  by_cases c9 : p.token = .LEFT_PARENTHESIS
  · rw [if_pos c9]
    obtain ⟨a, ha⟩ := ih.parseExpression (p.expect .LEFT_PARENTHESIS).2
      (fits_lt hb (Parser.steps_expect _ _) ((Reaching.start_expect p _).lt
        (by rw [c9]; decide)) (by decide) (by decide))
    exact returns_bind ha (returns_some _)
  rw [if_neg c9]
  by_cases c10 : p.token = .THIS
  · rw [if_pos c10]; exact returns_some _
  rw [if_neg c10]
  by_cases c11 : p.token = .FUNCTION
  · rw [if_pos c11]
    exact ih.parseFunction false p (fits_guard hb (Parser.Steps.refl p) (by rw [c11]; decide)
      (by decide) (by decide) (by decide))
  rw [if_neg c11]
  exact returns_some _

theorem total_parseVariableDeclaration (ih : TotalIH n) (p : Parser)
    (hb : p.budget 0 0 < n + 1) : Returns (parseVariableDeclaration (n + 1) p) := by
  rw [parseVariableDeclaration]
  dsimp only
  by_cases c : p.token ≠ .IDENTIFIER
  · rw [if_pos c]; exact returns_some _
  · rw [if_neg c]
    have hne : p.token ≠ .EOF := by
      have : p.token = .IDENTIFIER := by simpa using c
      rw [this]; decide
    split
    · obtain ⟨a, ha⟩ := ih.parseAssignmentExpression p.next.next
        (fits_lt hb ((Parser.steps_next p).next)
          (lt_of_le_of_lt (Parser.steps_next _).measure (Parser.next_measure_lt p hne))
          (by decide) (by decide))
      exact returns_bind ha (returns_some _)
    · exact returns_some _

theorem total_parseVariableDeclarationList (ih : TotalIH n) (l : List Expression)
    (p : Parser) (hb : p.budget 1 1 < n + 1) :
    Returns (parseVariableDeclarationList (n + 1) l p) := by
  rw [parseVariableDeclarationList]
  obtain ⟨⟨⟨name, d⟩, q⟩, ha⟩ := ih.parseVariableDeclaration p
    (fits_same hb (Parser.Steps.refl p) (by decide) (by decide) (by decide) (by decide))
  have ra := ((reachIH n).parseVariableDeclaration p _ ha).to_addVariable name
  refine returns_bind ha ?_
  dsimp only
  by_cases c : (q.addVariable name).token ≠ .COMMA
  · rw [if_pos c]; exact returns_some _
  · rw [if_neg c]
    have hne : (q.addVariable name).token ≠ .EOF := by
      have : (q.addVariable name).token = .COMMA := by simpa using c
      rw [this]; decide
    exact ih.parseVariableDeclarationList _ _
      (fits_lt hb ra.to_next.1 (lt_of_lt_of_le (Parser.next_measure_lt _ hne) ra.1.measure)
        (by decide) (by decide))

theorem total_parseObjectProperty (ih : TotalIH n) (p : Parser)
    (hb : p.budget 0 44 < n + 1) : Returns (parseObjectProperty (n + 1) p) := by
  rw [parseObjectProperty]
  dsimp only
  have r0 := Reaching.start_parseObjectPropertyKey p
  split
  · obtain ⟨a, ha⟩ := ih._parseFunction "" false
      ((p.parseObjectPropertyKey.2.parseObjectPropertyKey.2.expect .LEFT_PARENTHESIS).2.expect
        .RIGHT_PARENTHESIS).2
      (fits_reach hb (((r0.to_parseObjectPropertyKey).to_expect _).to_expect _) (by decide) (by decide)
        (by decide))
    exact returns_bind ha (returns_some _)
  · split
    · obtain ⟨a, ha⟩ := ih._parseFunction "" false
        p.parseObjectPropertyKey.2.parseObjectPropertyKey.2.parseFunctionParameterList.2
        (fits_reach hb ((r0.to_parseObjectPropertyKey).to_parseFunctionParameterList) (by decide)
          (by decide) (by decide))
      exact returns_bind ha (returns_some _)
    · obtain ⟨a, ha⟩ := ih.parseAssignmentExpression
        (p.parseObjectPropertyKey.2.expect .COLON).2
        (fits_reach hb (r0.to_expect _) (by decide) (by decide) (by decide))
      exact returns_bind ha (returns_some _)

theorem total_parseObjectLiteralLoop (ih : TotalIH n) (v : List Property) (p : Parser)
    (hb : p.budget 1 0 < n + 1) : Returns (parseObjectLiteralLoop (n + 1) v p) := by
  rw [parseObjectLiteralLoop]
  split
  · rename_i c
    obtain ⟨⟨pr, q⟩, ha⟩ := ih.parseObjectProperty p
      (fits_guard hb (Parser.Steps.refl p) c.2 (by decide) (by decide) (by decide))
    have ra := (reachIH n).parseObjectProperty p _ ha
    refine returns_bind ha ?_
    dsimp only
    have hs : q.Steps (if q.token = .COMMA then q.next else q) := by
      split
      · exact Parser.steps_next _
      · exact Parser.Steps.refl _
    exact ih.parseObjectLiteralLoop _ _
      (fits_lt hb (ra.1.trans hs) (lt_of_le_of_lt hs.measure (ra.lt c.2)) (by decide)
        (by decide))
  · exact returns_some _

theorem total_parseObjectLiteral (ih : TotalIH n) (p : Parser)
    (hb : p.budget 0 1 < n + 1) : Returns (parseObjectLiteral (n + 1) p) := by
  rw [parseObjectLiteral]
  obtain ⟨a, ha⟩ := ih.parseObjectLiteralLoop [] (p.expect .LEFT_BRACE).2
    (fits_reach hb (Reaching.start_expect p _) (by decide) (by decide) (by decide))
  exact returns_bind ha (returns_some _)

/-- After an expression that stands at a token other than `stop`, at which no progress is
made without an error, a step that consumes a token unless at `stop` makes progress. -/
theorem Reaching.lt_of_expect {p q : Parser} (h : ReachesE p q) (hne : p.token ≠ .EOF)
    (stop value : Token) (hstop : p.token ≠ stop) :
    (if q.token ≠ stop then (q.expect value).2 else q).measure < p.measure := by
  rcases Nat.lt_or_ge q.measure p.measure with hlt | hge
  · split
    · exact lt_of_le_of_lt (Parser.steps_expect _ _).measure hlt
    · exact hlt
  · have heq : q.measure = p.measure := le_antisymm h.1.measure hge
    have htok : q.token = p.token := h.1.token heq
    rw [if_pos (by rw [htok]; exact hstop), ← heq]
    exact Parser.expect_measure_lt q _ (by rw [htok]; exact hne)

theorem total_parseArrayLiteralLoop (ih : TotalIH n) (v : List (Option Expression))
    (p : Parser) (hb : p.budget 44 0 < n + 1) :
    Returns (parseArrayLiteralLoop (n + 1) v p) := by
  rw [parseArrayLiteralLoop]
  split
  · rename_i c
    split
    · exact ih.parseArrayLiteralLoop _ _
        (fits_lt hb (Parser.steps_next p) (Parser.next_measure_lt p c.2) (by decide)
          (by decide))
    · obtain ⟨⟨e, q⟩, ha⟩ := ih.parseAssignmentExpression p
        (fits_guard hb (Parser.Steps.refl p) c.2 (by decide) (by decide) (by decide))
      have ra := (reachIH n).parseAssignmentExpression p _ ha
      refine returns_bind ha ?_
      dsimp only
      have hs : q.Steps (if q.token ≠ .RIGHT_BRACKET then (q.expect .COMMA).2 else q) := by
        split
        · exact Parser.steps_expect _ _
        · exact Parser.Steps.refl _
      exact ih.parseArrayLiteralLoop _ _
        (fits_lt hb (ra.1.trans hs) (ra.lt_of_expect c.2 _ _ c.1) (by decide) (by decide))
  · exact returns_some _

theorem total_parseArrayLiteral (ih : TotalIH n) (p : Parser)
    (hb : p.budget 0 1 < n + 1) : Returns (parseArrayLiteral (n + 1) p) := by
  rw [parseArrayLiteral]
  obtain ⟨a, ha⟩ := ih.parseArrayLiteralLoop [] (p.expect .LEFT_BRACKET).2
    (fits_reach hb (Reaching.start_expect p _) (by decide) (by decide) (by decide))
  exact returns_bind ha (returns_some _)

theorem total_parseArgumentListLoop (ih : TotalIH n) (l : List Expression) (p : Parser)
    (hb : p.budget 44 44 < n + 1) : Returns (parseArgumentListLoop (n + 1) l p) := by
  rw [parseArgumentListLoop]
  obtain ⟨⟨e, q⟩, ha⟩ := ih.parseAssignmentExpression p
    (fits_same hb (Parser.Steps.refl p) (by decide) (by decide) (by decide) (by decide))
  have ra := (reachIH n).parseAssignmentExpression p _ ha
  refine returns_bind ha ?_
  dsimp only
  by_cases c : q.token ≠ .COMMA
  · rw [if_pos c]; exact returns_some _
  · rw [if_neg c]
    have hne : q.token ≠ .EOF := by
      have : q.token = .COMMA := by simpa using c
      rw [this]; decide
    exact ih.parseArgumentListLoop _ _
      (fits_lt hb ra.to_next.1 (lt_of_lt_of_le (Parser.next_measure_lt _ hne) ra.1.measure)
        (by decide) (by decide))

theorem total_parseArgumentList (ih : TotalIH n) (p : Parser)
    (hb : p.budget 0 45 < n + 1) : Returns (parseArgumentList (n + 1) p) := by
  rw [parseArgumentList]
  dsimp only
  by_cases c : (p.expect .LEFT_PARENTHESIS).2.token ≠ .RIGHT_PARENTHESIS
  · rw [if_pos c]
    obtain ⟨a, ha⟩ := ih.parseArgumentListLoop [] (p.expect .LEFT_PARENTHESIS).2
      (fits_reach hb (Reaching.start_expect p _) (by decide) (by decide) (by decide))
    exact returns_bind ha (returns_some _)
  · rw [if_neg c]
    exact returns_some _

theorem total_parseCallExpression (ih : TotalIH n) (l : Expression) (p : Parser)
    (hb : p.budget 1 46 < n + 1) : Returns (parseCallExpression (n + 1) l p) := by
  rw [parseCallExpression]
  obtain ⟨a, ha⟩ := ih.parseArgumentList p
    (fits_same hb (Parser.Steps.refl p) (by decide) (by decide) (by decide) (by decide))
  exact returns_bind ha (returns_some _)

theorem total_parseBracketMember (ih : TotalIH n) (l : Expression) (p : Parser)
    (hb : p.budget 0 45 < n + 1) : Returns (parseBracketMember (n + 1) l p) := by
  rw [parseBracketMember]
  obtain ⟨a, ha⟩ := ih.parseExpression (p.expect .LEFT_BRACKET).2
    (fits_reach hb (Reaching.start_expect p _) (by decide) (by decide) (by decide))
  exact returns_bind ha (returns_some _)

theorem total_parseNewExpression (ih : TotalIH n) (p : Parser)
    (hb : p.budget 1 3 < n + 1) : Returns (parseNewExpression (n + 1) p) := by
  rw [parseNewExpression]
  obtain ⟨⟨e, q⟩, ha⟩ := ih.parseLeftHandSideExpression (p.expect .NEW).2
    (fits_reach hb (Reaching.start_expect p _) (by decide) (by decide) (by decide))
  have ra := (Reaching.start_expect p .NEW).and_then
    ((reachIH n).parseLeftHandSideExpression _ _ ha)
  refine returns_bind ha ?_
  dsimp only
  split
  · rename_i c
    obtain ⟨b, hb2⟩ := ih.parseArgumentList q
      (fits_guard hb ra.1 (by rw [c]; decide) (by decide) (by decide) (by decide))
    exact returns_bind hb2 (returns_some _)
  · exact returns_some _

theorem start_parseDotMember (p : Parser) (l : Expression) :
    ReachesS p (p.parseDotMember l).2 :=
  ((Reaching.stay p).to_parseDotMember l).of_lt fun hne => by
    unfold Parser.parseDotMember
    dsimp only
    split
    · exact lt_of_le_of_lt ((Parser.steps_expect _ _).nextStatement).measure
        (Parser.expect_measure_lt p _ hne)
    · exact lt_of_le_of_lt (Parser.steps_next _).measure (Parser.expect_measure_lt p _ hne)

theorem total_parseLeftHandSideExpressionLoop (ih : TotalIH n) (l : Expression) (p : Parser)
    (hb : p.budget 1 0 < n + 1) : Returns (parseLeftHandSideExpressionLoop (n + 1) l p) := by
  rw [parseLeftHandSideExpressionLoop]
  split
  · rename_i c
    have r0 := start_parseDotMember p l
    exact ih.parseLeftHandSideExpressionLoop (p.parseDotMember l).1 (p.parseDotMember l).2
      (fits_lt hb r0.1 (r0.lt (by rw [c]; decide)) (by decide) (by decide))
  · split
    · rename_i c
      have hne : p.token ≠ .EOF := by rw [c]; decide
      obtain ⟨⟨e, q⟩, ha⟩ := ih.parseBracketMember l p
        (fits_guard hb (Parser.Steps.refl p) hne (by decide) (by decide) (by decide))
      have ra := (reachIH n).parseBracketMember l p _ ha
      refine returns_bind ha ?_
      exact ih.parseLeftHandSideExpressionLoop _ _
        (fits_lt hb ra.1 (ra.lt hne) (by decide) (by decide))
    · exact returns_some _

theorem total_parseLeftHandSideExpression (ih : TotalIH n) (p : Parser)
    (hb : p.budget 2 2 < n + 1) : Returns (parseLeftHandSideExpression (n + 1) p) := by
  rw [parseLeftHandSideExpression]
  dsimp only
  by_cases c : p.token = .NEW
  · rw [if_pos c]
    obtain ⟨⟨e, q⟩, ha⟩ := ih.parseNewExpression p
      (fits_guard hb (Parser.Steps.refl p) (by rw [c]; decide) (by decide) (by decide)
        (by decide))
    have ra := (reachIH n).parseNewExpression p _ ha
    refine returns_bind ha ?_
    exact ih.parseLeftHandSideExpressionLoop _ _
      (fits_same hb ra.1 (by decide) (by decide) (by decide) (by decide))
  · rw [if_neg c]
    obtain ⟨⟨e, q⟩, ha⟩ := ih.parsePrimaryExpression p
      (fits_same hb (Parser.Steps.refl p) (by decide) (by decide) (by decide) (by decide))
    have ra := (reachIH n).parsePrimaryExpression p _ ha
    refine returns_bind ha ?_
    exact ih.parseLeftHandSideExpressionLoop _ _
      (fits_same hb ra.1 (by decide) (by decide) (by decide) (by decide))

theorem total_parseLeftHandSideExpressionAllowCallLoop (ih : TotalIH n) (l : Expression)
    (p : Parser) (hb : p.budget 2 0 < n + 1) :
    Returns (parseLeftHandSideExpressionAllowCallLoop (n + 1) l p) := by
  rw [parseLeftHandSideExpressionAllowCallLoop]
  split
  · rename_i c
    have r0 := start_parseDotMember p l
    exact ih.parseLeftHandSideExpressionAllowCallLoop (p.parseDotMember l).1
      (p.parseDotMember l).2
      (fits_lt hb r0.1 (r0.lt (by rw [c]; decide)) (by decide) (by decide))
  · split
    · rename_i c
      have hne : p.token ≠ .EOF := by rw [c]; decide
      obtain ⟨⟨e, q⟩, ha⟩ := ih.parseBracketMember l p
        (fits_guard hb (Parser.Steps.refl p) hne (by decide) (by decide) (by decide))
      have ra := (reachIH n).parseBracketMember l p _ ha
      refine returns_bind ha ?_
      exact ih.parseLeftHandSideExpressionAllowCallLoop _ _
        (fits_lt hb ra.1 (ra.lt hne) (by decide) (by decide))
    · split
      · rename_i c
        have hne : p.token ≠ .EOF := by rw [c]; decide
        obtain ⟨⟨e, q⟩, ha⟩ := ih.parseCallExpression l p
          (fits_guard hb (Parser.Steps.refl p) hne (by decide) (by decide) (by decide))
        have ra := (reachIH n).parseCallExpression l p _ ha
        refine returns_bind ha ?_
        exact ih.parseLeftHandSideExpressionAllowCallLoop _ _
          (fits_lt hb ra.1 (ra.lt hne) (by decide) (by decide))
      · exact returns_some _

theorem total_parseLeftHandSideExpressionAllowCall (ih : TotalIH n) (p : Parser)
    (hb : p.budget 3 3 < n + 1) :
    Returns (parseLeftHandSideExpressionAllowCall (n + 1) p) := by
  rw [parseLeftHandSideExpressionAllowCall]
  dsimp only
  by_cases c : p.token = .NEW
  · rw [if_pos c]
    obtain ⟨⟨e, q⟩, ha⟩ := ih.parseNewExpression p
      (fits_guard hb (Parser.Steps.refl p) (by rw [c]; decide) (by decide) (by decide)
        (by decide))
    have ra := (reachIH n).parseNewExpression p _ ha
    refine returns_bind ha ?_
    exact ih.parseLeftHandSideExpressionAllowCallLoop _ _
      (fits_same hb ra.1 (by decide) (by decide) (by decide) (by decide))
  · rw [if_neg c]
    obtain ⟨⟨e, q⟩, ha⟩ := ih.parsePrimaryExpression p
      (fits_same hb (Parser.Steps.refl p) (by decide) (by decide) (by decide) (by decide))
    have ra := (reachIH n).parsePrimaryExpression p _ ha
    refine returns_bind ha ?_
    exact ih.parseLeftHandSideExpressionAllowCallLoop _ _
      (fits_same hb ra.1 (by decide) (by decide) (by decide) (by decide))

theorem total_parsePostfixExpression (ih : TotalIH n) (p : Parser)
    (hb : p.budget 4 4 < n + 1) : Returns (parsePostfixExpression (n + 1) p) := by
  rw [parsePostfixExpression]
  obtain ⟨⟨e, q⟩, ha⟩ := ih.parseLeftHandSideExpressionAllowCall p
    (fits_same hb (Parser.Steps.refl p) (by decide) (by decide) (by decide) (by decide))
  refine returns_bind ha ?_
  dsimp only
  split
  · split <;> exact returns_some _
  · exact returns_some _

theorem total_parseUnaryExpression (ih : TotalIH n) (p : Parser)
    (hb : p.budget 5 5 < n + 1) : Returns (parseUnaryExpression (n + 1) p) := by
  rw [parseUnaryExpression]
  split
  · rename_i c
    have hne : p.token ≠ .EOF := by
      rcases c with c | c | c | c | c | c | c <;> rw [c] <;> decide
    obtain ⟨a, ha⟩ := ih.parseUnaryExpression p.next
      (fits_lt hb (Parser.steps_next p) (Parser.next_measure_lt p hne) (by decide) (by decide))
    exact returns_bind ha (returns_some _)
  · split
    · rename_i c
      have hne : p.token ≠ .EOF := by
        rcases c with c | c <;> rw [c] <;> decide
      obtain ⟨⟨e, q⟩, ha⟩ := ih.parseUnaryExpression p.next
        (fits_lt hb (Parser.steps_next p) (Parser.next_measure_lt p hne) (by decide)
          (by decide))
      refine returns_bind ha ?_
      dsimp only
      split <;> exact returns_some _
    · exact ih.parsePostfixExpression p
        (fits_same hb (Parser.Steps.refl p) (by decide) (by decide) (by decide) (by decide))

theorem BinaryLevel.index_le (lv : BinaryLevel) : lv.index ≤ 8 := by
  cases lv <;> decide

theorem BinaryLevel.accepts_ne_EOF {lv : BinaryLevel} {t : Token}
    (h : lv.accepts t = true) : t ≠ .EOF := by
  rintro rfl
  cases lv <;> exact absurd h (by decide)

theorem total_parseBinaryOperand (ih : TotalIH n) (lv : BinaryLevel) (p : Parser)
    (hb : p.budget (4 * lv.index + 8) (4 * lv.index + 8) < n + 1) :
    Returns (parseBinaryOperand (n + 1) lv p) := by
  cases lv <;> rw [parseBinaryOperand]
  · exact ih.parseUnaryExpression p
      (fits_same hb (Parser.Steps.refl p) (by decide) (by decide) (by decide) (by decide))
  · exact ih.parseBinaryExpression _ p
      (fits_same hb (Parser.Steps.refl p) (by decide) (by decide) (by decide) (by decide))
  · exact ih.parseBinaryExpression _ p
      (fits_same hb (Parser.Steps.refl p) (by decide) (by decide) (by decide) (by decide))
  · exact ih.parseRelationalExpression p
      (fits_same hb (Parser.Steps.refl p) (by decide) (by decide) (by decide) (by decide))
  · exact ih.parseBinaryExpression _ p
      (fits_same hb (Parser.Steps.refl p) (by decide) (by decide) (by decide) (by decide))
  · exact ih.parseBinaryExpression _ p
      (fits_same hb (Parser.Steps.refl p) (by decide) (by decide) (by decide) (by decide))
  · exact ih.parseBinaryExpression _ p
      (fits_same hb (Parser.Steps.refl p) (by decide) (by decide) (by decide) (by decide))
  · exact ih.parseBinaryExpression _ p
      (fits_same hb (Parser.Steps.refl p) (by decide) (by decide) (by decide) (by decide))
  · exact ih.parseBinaryExpression _ p
      (fits_same hb (Parser.Steps.refl p) (by decide) (by decide) (by decide) (by decide))

theorem total_parseBinaryLoop (ih : TotalIH n) (lv : BinaryLevel) (l : Expression)
    (p : Parser) (hb : p.budget (4 * lv.index + 8) (4 * lv.index + 8) < n + 1) :
    Returns (parseBinaryLoop (n + 1) lv l p) := by
  have hlv := lv.index_le
  rw [parseBinaryLoop]
  split
  · rename_i c
    have hne := BinaryLevel.accepts_ne_EOF c
    have hlt := Parser.next_measure_lt p hne
    obtain ⟨⟨e, q⟩, ha⟩ := ih.parseBinaryOperand lv p.next
      (fits_lt hb (Parser.steps_next p) hlt (by omega) (by omega))
    have ra := (reachIH n).parseBinaryOperand lv p.next _ ha
    refine returns_bind ha ?_
    exact ih.parseBinaryLoop _ _ _
      (fits_lt hb ((Parser.steps_next p).trans ra.1) (lt_of_le_of_lt ra.1.measure hlt)
        (by omega) (by omega))
  · exact returns_some _

theorem total_parseBinaryExpression (ih : TotalIH n) (lv : BinaryLevel) (p : Parser)
    (hb : p.budget (4 * lv.index + 9) (4 * lv.index + 9) < n + 1) :
    Returns (parseBinaryExpression (n + 1) lv p) := by
  have hlv := lv.index_le
  rw [parseBinaryExpression]
  obtain ⟨⟨e, q⟩, ha⟩ := ih.parseBinaryOperand lv p
    (fits_same hb (Parser.Steps.refl p) (by omega) (by omega) (by omega) (by omega))
  have ra := (reachIH n).parseBinaryOperand lv p _ ha
  refine returns_bind ha ?_
  exact ih.parseBinaryLoop _ _ _
    (fits_same hb ra.1 (by omega) (by omega) (by omega) (by omega))

theorem total_parseRelationalExpression (ih : TotalIH n) (p : Parser)
    (hb : p.budget 18 18 < n + 1) : Returns (parseRelationalExpression (n + 1) p) := by
  rw [parseRelationalExpression]
  obtain ⟨⟨e, q⟩, ha⟩ := ih.parseBinaryExpression .Shift p
    (fits_same hb (Parser.Steps.refl p) (by decide) (by decide) (by decide) (by decide))
  have ra := (reachIH n).parseBinaryExpression .Shift p _ ha
  refine returns_bind ha ?_
  dsimp only
  have rec : (q.modifyScope fun s => { s with allowIn := true }).token ≠ .EOF →
      ∀ f : Expression × Parser → Option (Expression × Parser), (∀ x, Returns (f x)) →
      Returns ((parseRelationalExpression n
        (q.modifyScope fun s => { s with allowIn := true }).next) >>= f) := by
    intro hne f hf
    obtain ⟨b, hb2⟩ := ih.parseRelationalExpression
      (q.modifyScope fun s => { s with allowIn := true }).next
      (fits_lt hb ((ra.1.modifyScope _).next)
        (lt_of_lt_of_le (Parser.next_measure_lt _ hne)
          (by rw [Parser.modifyScope_measure]; exact ra.1.measure))
        (by decide) (by decide))
    exact returns_bind hb2 (hf b)
  split
  · rename_i c
    exact rec (by rcases c with c | c | c | c <;> rw [c] <;> decide) _
      (fun _ => returns_some _)
  · split
    · rename_i c
      exact rec (by rw [c]; decide) _ (fun _ => returns_some _)
    · split
      · rename_i c
        split
        · exact returns_some _
        · exact rec (by rw [c]; decide) _ (fun _ => returns_some _)
      · exact returns_some _

theorem total_parseConditionlExpression (ih : TotalIH n) (p : Parser)
    (hb : p.budget 42 42 < n + 1) : Returns (parseConditionlExpression (n + 1) p) := by
  rw [parseConditionlExpression]
  obtain ⟨⟨e, q⟩, ha⟩ := ih.parseBinaryExpression .LogicalOr p
    (fits_same hb (Parser.Steps.refl p) (by decide) (by decide) (by decide) (by decide))
  have ra := (reachIH n).parseBinaryExpression .LogicalOr p _ ha
  refine returns_bind ha ?_
  dsimp only
  split
  · rename_i c
    have hlt : q.next.measure < p.measure :=
      lt_of_lt_of_le (Parser.next_measure_lt q (by rw [c]; decide)) ra.1.measure
    obtain ⟨⟨e2, q2⟩, ha2⟩ := ih.parseAssignmentExpression q.next
      (fits_lt hb ra.1.next hlt (by decide) (by decide))
    have ra2 := (reachIH n).parseAssignmentExpression q.next _ ha2
    refine returns_bind ha2 ?_
    dsimp only
    obtain ⟨a3, ha3⟩ := ih.parseAssignmentExpression (q2.expect .COLON).2
      (fits_lt hb ((ra.1.next.trans ra2.1).expect _)
        (lt_of_le_of_lt ((ra2.1.expect _).measure) hlt) (by decide) (by decide))
    exact returns_bind ha3 (returns_some _)
  · exact returns_some _

theorem assignmentOperator_ne_EOF {t op : Token} (h : assignmentOperator t = some op) :
    t ≠ .EOF := by
  rintro rfl
  simp [assignmentOperator] at h

theorem total_parseAssignmentExpression (ih : TotalIH n) (p : Parser)
    (hb : p.budget 43 43 < n + 1) : Returns (parseAssignmentExpression (n + 1) p) := by
  rw [parseAssignmentExpression]
  obtain ⟨⟨e, q⟩, ha⟩ := ih.parseConditionlExpression p
    (fits_same hb (Parser.Steps.refl p) (by decide) (by decide) (by decide) (by decide))
  have ra := (reachIH n).parseConditionlExpression p _ ha
  have hd := (definedIH n).parseConditionlExpression p _ ha
  refine returns_bind ha ?_
  dsimp only
  split
  · rename_i op c
    split
    · obtain ⟨a2, ha2⟩ := ih.parseAssignmentExpression q.next
        (fits_lt hb ra.1.next
          (lt_of_lt_of_le (Parser.next_measure_lt q (assignmentOperator_ne_EOF c)) ra.1.measure)
          (by decide) (by decide))
      exact returns_bind ha2 (returns_some _)
    · obtain ⟨i0, hi0⟩ := Option.isSome_iff_exists.mp hd
      rw [show e.Idx0 = some i0 from hi0]
      exact returns_some _
  · exact returns_some _

theorem total_parseExpressionLoop (ih : TotalIH n) (s : List Expression) (p : Parser)
    (hb : p.budget 0 0 < n + 1) : Returns (parseExpressionLoop (n + 1) s p) := by
  rw [parseExpressionLoop]
  by_cases c : p.token ≠ .COMMA
  · rw [if_pos c]; exact returns_some _
  · rw [if_neg c]
    have hne : p.token ≠ .EOF := by
      have : p.token = .COMMA := by simpa using c
      rw [this]; decide
    have hlt := Parser.next_measure_lt p hne
    obtain ⟨⟨e, q⟩, ha⟩ := ih.parseAssignmentExpression p.next
      (fits_lt hb (Parser.steps_next p) hlt (by decide) (by decide))
    have ra := (reachIH n).parseAssignmentExpression p.next _ ha
    refine returns_bind ha ?_
    exact ih.parseExpressionLoop _ _
      (fits_lt hb ((Parser.steps_next p).trans ra.1) (lt_of_le_of_lt ra.1.measure hlt)
        (by decide) (by decide))

theorem total_parseExpression (ih : TotalIH n) (p : Parser)
    (hb : p.budget 44 44 < n + 1) : Returns (parseExpression (n + 1) p) := by
  rw [parseExpression]
  obtain ⟨⟨e, q⟩, ha⟩ := ih.parseAssignmentExpression p
    (fits_same hb (Parser.Steps.refl p) (by decide) (by decide) (by decide) (by decide))
  have ra := (reachIH n).parseAssignmentExpression p _ ha
  refine returns_bind ha ?_
  dsimp only
  split
  · rename_i c
    obtain ⟨a2, ha2⟩ := ih.parseExpressionLoop [e] q
      (fits_guard hb ra.1 (by rw [c]; decide) (by decide) (by decide) (by decide))
    exact returns_bind ha2 (returns_some _)
  · exact returns_some _

/-! Steps that make progress unless the parser stands at `EOF`. -/

theorem advances_of_reach {p q : Parser} (h : ReachesS p q) :
    p.Steps q ∧ (p.token ≠ .EOF → q.measure < p.measure) :=
  ⟨h.1, h.2.2⟩

theorem advances_expect (p : Parser) (value : Token) :
    p.Steps (p.expect value).2 ∧ (p.token ≠ .EOF → (p.expect value).2.measure < p.measure) :=
  ⟨Parser.steps_expect p value, Parser.expect_measure_lt p value⟩

theorem advances_next (p : Parser) :
    p.Steps p.next ∧ (p.token ≠ .EOF → p.next.measure < p.measure) :=
  ⟨Parser.steps_next p, Parser.next_measure_lt p⟩

theorem advances_after {p a b : Parser} (h1 : p.Steps a)
    (h2 : a.Steps b ∧ (a.token ≠ .EOF → b.measure < a.measure)) :
    p.Steps b ∧ (p.token ≠ .EOF → b.measure < p.measure) := by
  refine ⟨h1.trans h2.1, fun hne => ?_⟩
  rcases Nat.lt_or_ge a.measure p.measure with hlt | hge
  · exact lt_of_le_of_lt h2.1.measure hlt
  · have heq : a.measure = p.measure := le_antisymm h1.measure hge
    rw [← heq]
    exact h2.2 (by rw [h1.token heq]; exact hne)

theorem advances_then {p a b : Parser}
    (h1 : p.Steps a ∧ (p.token ≠ .EOF → a.measure < p.measure)) (h2 : a.Steps b) :
    p.Steps b ∧ (p.token ≠ .EOF → b.measure < p.measure) :=
  ⟨h1.1.trans h2, fun hne => lt_of_le_of_lt h2.measure (h1.2 hne)⟩

/-- The callee stands behind steps that make progress unless at `EOF`. -/
theorem fits_eof {p q : Parser} {rf rfE rg rgE : Nat} (hb : p.budget rf rfE < n + 1)
    (hr : p.Steps q ∧ (p.token ≠ .EOF → q.measure < p.measure)) (h2 : rgE < rfE)
    (hg : rg < 128) (hgE : rgE < 128) : q.budget rg rgE < n :=
  lt_of_lt_of_le
    (budget_lt hr.1 (fun he c => absurd he (Nat.ne_of_lt (hr.2 c))) (fun _ _ => h2) hg hgE)
    (Nat.lt_succ_iff.mp hb)

theorem total_parseBlockStatement (ih : TotalIH n) (p : Parser)
    (hb : p.budget 0 1 < n + 1) : Returns (parseBlockStatement (n + 1) p) := by
  rw [parseBlockStatement]
  obtain ⟨a, ha⟩ := ih.parseStatementList [] (p.expect .LEFT_BRACE).2
    (fits_eof hb (advances_expect p _) (by decide) (by decide) (by decide))
  exact returns_bind ha (returns_some _)

theorem total_parseStatementList (ih : TotalIH n) (l : List Statement) (p : Parser)
    (hb : p.budget 46 0 < n + 1) : Returns (parseStatementList (n + 1) l p) := by
  rw [parseStatementList]
  split
  · rename_i c
    obtain ⟨⟨s, q⟩, ha⟩ := ih.parseStatement p
      (fits_guard hb (Parser.Steps.refl p) c.2 (by decide) (by decide) (by decide))
    have ra := (reachIH n).parseStatement p _ ha
    refine returns_bind ha ?_
    exact ih.parseStatementList _ _ (fits_lt hb ra.1 (ra.lt c.2) (by decide) (by decide))
  · exact returns_some _

theorem Parser.checkLabel_measure (p : Parser) (idx0 : Idx) (label : String)
    (labels : List String) : (p.checkLabel idx0 label labels).measure = p.measure := by
  induction labels generalizing p with
  | nil => rfl
  | cons v rest ih =>
    rw [Parser.checkLabel, ih]
    split <;> rfl

theorem total_parseStatement (ih : TotalIH n) (p : Parser)
    (hb : p.budget 45 0 < n + 1) : Returns (parseStatement (n + 1) p) := by
  rw [parseStatement]
  dsimp only
  by_cases c1 : p.token = .EOF
  · rw [if_pos c1]; exact returns_some _
  rw [if_neg c1]
  have hr := Parser.Steps.refl p
  by_cases c2 : p.token = .SEMICOLON
  · rw [if_pos c2]; exact returns_some _
  rw [if_neg c2]
  by_cases c3 : p.token = .LEFT_BRACE
  · rw [if_pos c3]
    exact ih.parseBlockStatement p (fits_guard hb hr c1 (by decide) (by decide) (by decide))
  rw [if_neg c3]
  by_cases c4 : p.token = .IF
  · rw [if_pos c4]
    exact ih.parseIfStatement p (fits_guard hb hr c1 (by decide) (by decide) (by decide))
  rw [if_neg c4]
  by_cases c5 : p.token = .DO
  · rw [if_pos c5]
    exact ih.parseDoWhileStatement p (fits_guard hb hr c1 (by decide) (by decide) (by decide))
  rw [if_neg c5]
  by_cases c6 : p.token = .WHILE
  · rw [if_pos c6]
    exact ih.parseWhileStatement p (fits_guard hb hr c1 (by decide) (by decide) (by decide))
  rw [if_neg c6]
  by_cases c7 : p.token = .FOR
  · rw [if_pos c7]
    exact ih.parseForOrForInStatement p
      (fits_guard hb hr c1 (by decide) (by decide) (by decide))
  rw [if_neg c7]
  by_cases c8 : p.token = .BREAK
  · rw [if_pos c8]; exact returns_some _
  rw [if_neg c8]
  by_cases c9 : p.token = .CONTINUE
  · rw [if_pos c9]; exact returns_some _
  rw [if_neg c9]
  by_cases c10 : p.token = .WITH
  · rw [if_pos c10]
    exact ih.parseWithStatement p (fits_guard hb hr c1 (by decide) (by decide) (by decide))
  rw [if_neg c10]
  by_cases c11 : p.token = .VAR
  · rw [if_pos c11]
    exact ih.parseVariableStatement p
      (fits_guard hb hr c1 (by decide) (by decide) (by decide))
  rw [if_neg c11]
  by_cases c12 : p.token = .FUNCTION
  · rw [if_pos c12]
    obtain ⟨a, ha⟩ := ih.parseFunction true p
      (fits_guard hb hr c1 (by decide) (by decide) (by decide))
    exact returns_bind ha (returns_some _)
  rw [if_neg c12]
  by_cases c13 : p.token = .SWITCH
  · rw [if_pos c13]
    exact ih.parseSwitchStatement p (fits_guard hb hr c1 (by decide) (by decide) (by decide))
  rw [if_neg c13]
  by_cases c14 : p.token = .RETURN
  · rw [if_pos c14]
    exact ih.parseReturnStatement p (fits_guard hb hr c1 (by decide) (by decide) (by decide))
  rw [if_neg c14]
  by_cases c15 : p.token = .THROW
  · rw [if_pos c15]
    exact ih.parseThrowStatement p (fits_guard hb hr c1 (by decide) (by decide) (by decide))
  rw [if_neg c15]
  by_cases c16 : p.token = .TRY
  · rw [if_pos c16]
    exact ih.parseTryStatement p (fits_guard hb hr c1 (by decide) (by decide) (by decide))
  rw [if_neg c16]
  obtain ⟨⟨e, q⟩, ha⟩ := ih.parseExpression p
    (fits_guard hb hr c1 (by decide) (by decide) (by decide))
  have ra := (reachIH n).parseExpression p _ ha
  refine returns_bind ha ?_
  dsimp only
  split
  · rename_i name idx0
    by_cases cc : q.token = .COLON
    · rw [if_pos cc]
      obtain ⟨b, hb2⟩ := ih.parseStatement
        ((q.next.checkLabel idx0 name q.next.currentScope.labels).modifyScope
          fun s => { s with labels := s.labels ++ [name] })
        (fits_lt hb (((ra.1.next).checkLabel _ _ _).modifyScope _) (by
          rw [Parser.modifyScope_measure, Parser.checkLabel_measure]
          exact lt_of_lt_of_le (Parser.next_measure_lt q (by rw [cc]; decide)) ra.1.measure)
          (by decide) (by decide))
      exact returns_bind hb2 (returns_some _)
    · rw [if_neg cc]
      exact returns_some _
  · exact returns_some _

theorem Statement.idx1_of_isBlock {b : Statement} (h : b.isBlock = true) :
    ∃ i, b.Idx1 = some i := by
  cases b <;> simp [Statement.isBlock, Statement.Idx1] at h ⊢

theorem total_parseTryStatementFinally (ih : TotalIH n) (t : Idx) (b : Statement)
    (c : Option CatchStatement) (p : Parser) (hk : b.isBlock = true)
    (hb : p.budget 0 0 < n + 1) : Returns (parseTryStatementFinally (n + 1) t b c p) := by
  rw [parseTryStatementFinally]
  dsimp only
  obtain ⟨i, hi⟩ := Statement.idx1_of_isBlock hk
  have fin : ∀ (f : Option Statement) (q : Parser),
      Returns (if c.isNone = true ∧ f.isNone = true then
          (b.Idx1 >>= fun idx1 =>
            pure (Statement.BadStatement t idx1,
              q.error t "Missing catch or finally after try"))
        else pure (Statement.TryStatement t b c f, q)) := by
    intro f q
    split
    · rw [hi]; exact returns_some _
    · exact returns_some _
  by_cases cf : p.token = .FINALLY
  · rw [if_pos cf]
    obtain ⟨⟨s, q⟩, ha⟩ := ih.parseBlockStatement p.next
      (fits_lt hb (Parser.steps_next p) (Parser.next_measure_lt p (by rw [cf]; decide))
        (by decide) (by decide))
    simp only [bind, pure, Option.bind, ha]
    exact fin _ _
  · rw [if_neg cf]
    simp only [bind, pure, Option.bind]
    exact fin _ _

theorem total_parseTryStatement (ih : TotalIH n) (p : Parser)
    (hb : p.budget 0 2 < n + 1) : Returns (parseTryStatement (n + 1) p) := by
  rw [parseTryStatement]
  obtain ⟨⟨s, q⟩, ha⟩ := ih.parseBlockStatement (p.expect .TRY).2
    (fits_eof hb (advances_expect p _) (by decide) (by decide) (by decide))
  have ra := advances_then (advances_expect p .TRY)
    ((reachIH n).parseBlockStatement _ _ ha).1
  have hk := (definedIH n).parseBlockStatement _ _ ha
  refine returns_bind ha ?_
  dsimp only
  by_cases cc : q.token = .CATCH
  · rw [if_pos cc]
    have hlt : q.next.measure < p.measure :=
      lt_of_lt_of_le (Parser.next_measure_lt q (by rw [cc]; decide)) ra.1.measure
    by_cases ci : (q.next.expect .LEFT_PARENTHESIS).2.token ≠ .IDENTIFIER
    · rw [if_pos ci]; exact returns_some _
    · rw [if_neg ci]
      have hs : q.next.Steps
          ((q.next.expect .LEFT_PARENTHESIS).2.parseIdentifier.2.expect
            .RIGHT_PARENTHESIS).2 :=
        (((Parser.steps_expect _ _).parseIdentifier).expect _)
      obtain ⟨⟨s2, q2⟩, ha2⟩ := ih.parseBlockStatement _
        (fits_lt hb ((ra.1.next).trans hs) (lt_of_le_of_lt hs.measure hlt) (by decide)
          (by decide))
      have ra2 := (reachIH n).parseBlockStatement _ _ ha2
      refine returns_bind ha2 ?_
      exact ih.parseTryStatementFinally _ _ _ _ hk
        (fits_lt hb (((ra.1.next).trans hs).trans ra2.1)
          (lt_of_le_of_lt (hs.trans ra2.1).measure hlt) (by decide) (by decide))
  · rw [if_neg cc]
    exact ih.parseTryStatementFinally _ _ _ _ hk
      (fits_eof hb ra (by decide) (by decide) (by decide))

theorem total__parseFunction (ih : TotalIH n) (nm : String) (d : Bool) (p : Parser)
    (hb : p.budget 1 2 < n + 1) : Returns (_parseFunction (n + 1) nm d p) := by
  rw [_parseFunction]
  have hs : p.Steps ((if (!d) = true ∧ nm ≠ "" then p.openScope.addFunction nm .self
      else p.openScope).modifyScope fun s => { s with inFunction := true }) := by
    split
    · exact (((Parser.Steps.refl p).openScope).addFunction _ _).modifyScope _
    · exact ((Parser.Steps.refl p).openScope).modifyScope _
  obtain ⟨a, ha⟩ := ih.parseBlockStatement _
    (fits_same hb hs (by decide) (by decide) (by decide) (by decide))
  exact returns_bind ha (returns_some _)

theorem total_parseFunction (ih : TotalIH n) (d : Bool) (p : Parser)
    (hb : p.budget 0 3 < n + 1) : Returns (parseFunction (n + 1) d p) := by
  rw [parseFunction]
  dsimp only
  have r0 : ReachesS p
      (if (p.expect .FUNCTION).2.token = .IDENTIFIER then (p.expect .FUNCTION).2.next
       else if d = true then ((p.expect .FUNCTION).2.expect .IDENTIFIER).2
       else (p.expect .FUNCTION).2) := by
    split
    · exact (Reaching.start_expect p _).to_next
    · split
      · exact (Reaching.start_expect p _).to_expect _
      · exact Reaching.start_expect p _
  obtain ⟨⟨⟨body, vl, fl⟩, q⟩, ha⟩ := ih._parseFunction
    (if (p.expect .FUNCTION).2.token = .IDENTIFIER then (p.expect .FUNCTION).2.literal else "")
    d _ (fits_reach hb r0.to_parseFunctionParameterList (by decide) (by decide) (by decide))
  have hk := (definedIH n)._parseFunction _ _ _ _ ha
  obtain ⟨i, hi⟩ := Statement.idx1_of_isBlock hk
  refine returns_bind ha ?_
  dsimp only at hi ⊢
  rw [hi]
  exact returns_some _

theorem total_parseReturnStatement (ih : TotalIH n) (p : Parser)
    (hb : p.budget 0 45 < n + 1) : Returns (parseReturnStatement (n + 1) p) := by
  rw [parseReturnStatement]
  dsimp only
  split
  · exact returns_some _
  · split
    · obtain ⟨a, ha⟩ := ih.parseExpression (p.expect .RETURN).2
        (fits_eof hb (advances_expect p _) (by decide) (by decide) (by decide))
      exact returns_bind ha (returns_some _)
    · exact returns_some _

theorem total_parseThrowStatement (ih : TotalIH n) (p : Parser)
    (hb : p.budget 0 45 < n + 1) : Returns (parseThrowStatement (n + 1) p) := by
  rw [parseThrowStatement]
  dsimp only
  split
  · exact returns_some _
  · obtain ⟨a, ha⟩ := ih.parseExpression (p.expect .THROW).2
      (fits_eof hb (advances_expect p _) (by decide) (by decide) (by decide))
    exact returns_bind ha (returns_some _)

theorem total_parseSwitchStatementLoop (ih : TotalIH n) (i d : Int)
    (b : List CaseStatement) (p : Parser) (hb : p.budget 1 0 < n + 1) :
    Returns (parseSwitchStatementLoop (n + 1) i d b p) := by
  rw [parseSwitchStatementLoop]
  split
  · rename_i c
    split
    · exact returns_some _
    · obtain ⟨⟨cl, q⟩, ha⟩ := ih.parseCaseStatement p
        (fits_guard hb (Parser.Steps.refl p) c (by decide) (by decide) (by decide))
      have ra := (reachIH n).parseCaseStatement p _ ha
      refine returns_bind ha ?_
      dsimp only
      split
      · have hs : q.Steps (if d ≠ -1 then
            q.error cl.Case "Already saw a default in switch" else q) := by
          split
          · exact Parser.steps_error _ _ _
          · exact Parser.Steps.refl _
        exact ih.parseSwitchStatementLoop _ _ _ _
          (fits_lt hb (ra.1.trans hs) (lt_of_le_of_lt hs.measure (ra.lt c)) (by decide)
            (by decide))
      · exact ih.parseSwitchStatementLoop _ _ _ _
          (fits_lt hb ra.1 (ra.lt c) (by decide) (by decide))
  · exact returns_some _

theorem total_parseSwitchStatement (ih : TotalIH n) (p : Parser)
    (hb : p.budget 0 45 < n + 1) : Returns (parseSwitchStatement (n + 1) p) := by
  rw [parseSwitchStatement]
  have r0 := advances_then (advances_expect p .SWITCH)
    (Parser.steps_expect (p.expect .SWITCH).2 .LEFT_PARENTHESIS)
  obtain ⟨⟨e, q⟩, ha⟩ := ih.parseExpression _
    (fits_eof hb r0 (by decide) (by decide) (by decide))
  have ra := (reachIH n).parseExpression _ _ ha
  refine returns_bind ha ?_
  dsimp only
  obtain ⟨a2, ha2⟩ := ih.parseSwitchStatementLoop 0 (-1) []
    (((q.expect .RIGHT_PARENTHESIS).2.expect .LEFT_BRACE).2.modifyScope
      fun s => { s with inSwitch := true })
    (fits_eof hb (advances_then r0 (((ra.1.expect _).expect _).modifyScope _)) (by decide)
      (by decide) (by decide))
  exact returns_bind ha2 (returns_some _)

theorem total_parseWithStatement (ih : TotalIH n) (p : Parser)
    (hb : p.budget 0 45 < n + 1) : Returns (parseWithStatement (n + 1) p) := by
  rw [parseWithStatement]
  have r0 := advances_then (advances_expect p .WITH)
    (Parser.steps_expect (p.expect .WITH).2 .LEFT_PARENTHESIS)
  obtain ⟨⟨e, q⟩, ha⟩ := ih.parseExpression _
    (fits_eof hb r0 (by decide) (by decide) (by decide))
  have ra := (reachIH n).parseExpression _ _ ha
  refine returns_bind ha ?_
  dsimp only
  obtain ⟨a2, ha2⟩ := ih.parseStatement (q.expect .RIGHT_PARENTHESIS).2
    (fits_eof hb (advances_then r0 (ra.1.expect _)) (by decide) (by decide) (by decide))
  exact returns_bind ha2 (returns_some _)

theorem total_parseCaseStatementLoop (ih : TotalIH n) (l : List Statement) (p : Parser)
    (hb : p.budget 46 0 < n + 1) : Returns (parseCaseStatementLoop (n + 1) l p) := by
  rw [parseCaseStatementLoop]
  split
  · exact returns_some _
  · rename_i c
    have hne : p.token ≠ .EOF := fun h => c (Or.inl h)
    obtain ⟨⟨s, q⟩, ha⟩ := ih.parseStatement p
      (fits_guard hb (Parser.Steps.refl p) hne (by decide) (by decide) (by decide))
    have ra := (reachIH n).parseStatement p _ ha
    refine returns_bind ha ?_
    exact ih.parseCaseStatementLoop _ _ (fits_lt hb ra.1 (ra.lt hne) (by decide) (by decide))

theorem total_parseCaseStatement (ih : TotalIH n) (p : Parser)
    (hb : p.budget 0 45 < n + 1) : Returns (parseCaseStatement (n + 1) p) := by
  rw [parseCaseStatement]
  dsimp only
  by_cases c : p.token = .DEFAULT
  · rw [if_pos c]
    simp only [bind, pure, Option.bind]
    obtain ⟨a, ha⟩ := ih.parseCaseStatementLoop [] (p.next.expect .COLON).2
      (fits_eof hb (advances_then (advances_next p) (Parser.steps_expect _ _)) (by decide)
        (by decide) (by decide))
    rw [ha]
    exact returns_some _
  · rw [if_neg c]
    obtain ⟨⟨e, q⟩, ha⟩ := ih.parseExpression (p.expect .CASE).2
      (fits_eof hb (advances_expect p _) (by decide) (by decide) (by decide))
    have ra := (reachIH n).parseExpression _ _ ha
    obtain ⟨a2, ha2⟩ := ih.parseCaseStatementLoop [] (q.expect .COLON).2
      (fits_eof hb (advances_then (advances_expect p .CASE) (ra.1.expect _)) (by decide)
        (by decide) (by decide))
    simp only [bind, pure, Option.bind, ha, ha2]
    exact returns_some _

theorem total_parseIterationStatement (ih : TotalIH n) (p : Parser)
    (hb : p.budget 46 1 < n + 1) : Returns (parseIterationStatement (n + 1) p) := by
  rw [parseIterationStatement]
  obtain ⟨a, ha⟩ := ih.parseStatement (p.modifyScope fun s => { s with inIteration := true })
    (fits_same hb (Parser.steps_modifyScope p _) (by decide) (by decide) (by decide)
      (by decide))
  exact returns_bind ha (returns_some _)

theorem total_parseForIn (ih : TotalIH n) (i : Expression) (p : Parser)
    (hb : p.budget 45 45 < n + 1) : Returns (parseForIn (n + 1) i p) := by
  rw [parseForIn]
  obtain ⟨⟨e, q⟩, ha⟩ := ih.parseExpression p
    (fits_same hb (Parser.Steps.refl p) (by decide) (by decide) (by decide) (by decide))
  have ra := (reachIH n).parseExpression _ _ ha
  refine returns_bind ha ?_
  dsimp only
  obtain ⟨a2, ha2⟩ := ih.parseIterationStatement (q.expect .RIGHT_PARENTHESIS).2
    (lt_of_lt_of_le (budget_lt (ra.1.expect _)
      (fun he hne => absurd he (Nat.ne_of_lt ((advances_after ra.1 (advances_expect q _)).2 hne)))
      (fun _ _ => by decide) (by decide) (by decide)) (Nat.lt_succ_iff.mp hb))
  exact returns_bind ha2 (returns_some _)

theorem total_parseFor (ih : TotalIH n) (i : Expression) (p : Parser)
    (hb : p.budget 45 45 < n + 1) : Returns (parseFor (n + 1) i p) := by
  rw [parseFor]
  dsimp only
  have second : ∀ (q : Parser) (t : Option Expression), p.Steps q →
      Returns
        (if (q.expect .SEMICOLON).2.token ≠ .RIGHT_PARENTHESIS then
          (parseExpression n (q.expect .SEMICOLON).2).bind fun x =>
            (parseIterationStatement n (x.2.expect .RIGHT_PARENTHESIS).2).bind fun y =>
              some (Statement.ForStatement 0 i (some x.1) t y.1, y.2)
        else
          (parseIterationStatement n
            ((q.expect .SEMICOLON).2.expect .RIGHT_PARENTHESIS).2).bind fun y =>
              some (Statement.ForStatement 0 i none t y.1, y.2)) := by
    intro q t hq
    have r1 := advances_after hq (advances_expect q .SEMICOLON)
    split
    · obtain ⟨⟨e, q2⟩, ha⟩ := ih.parseExpression (q.expect .SEMICOLON).2
        (fits_eof hb r1 (by decide) (by decide) (by decide))
      have ra := (reachIH n).parseExpression _ _ ha
      obtain ⟨a2, ha2⟩ := ih.parseIterationStatement (q2.expect .RIGHT_PARENTHESIS).2
        (fits_eof hb (advances_then r1 (ra.1.expect _)) (by decide) (by decide) (by decide))
      simp only [ha, ha2, Option.bind]
      exact returns_some _
    · obtain ⟨a2, ha2⟩ := ih.parseIterationStatement
        ((q.expect .SEMICOLON).2.expect .RIGHT_PARENTHESIS).2
        (fits_eof hb (advances_then r1 (Parser.steps_expect _ _)) (by decide) (by decide)
          (by decide))
      simp only [ha2, Option.bind]
      exact returns_some _
  by_cases c : p.token ≠ .SEMICOLON
  · rw [if_pos c]
    obtain ⟨⟨e, q⟩, ha⟩ := ih.parseExpression p
      (fits_same hb (Parser.Steps.refl p) (by decide) (by decide) (by decide) (by decide))
    have ra := (reachIH n).parseExpression _ _ ha
    simp only [bind, pure, Option.bind, ha]
    exact second q (some e) ra.1
  · rw [if_neg c]
    simp only [bind, pure, Option.bind]
    exact second p none (Parser.Steps.refl p)

theorem total_parseForOrForInStatement (ih : TotalIH n) (p : Parser)
    (hb : p.budget 0 46 < n + 1) : Returns (parseForOrForInStatement (n + 1) p) := by
  rw [parseForOrForInStatement]
  dsimp only
  have r0 := advances_then (advances_expect p .FOR)
    (Parser.steps_expect (p.expect .FOR).2 .LEFT_PARENTHESIS)
  have tail : ∀ (left : List Expression) (isIn : Bool) (q : Parser),
      (p.Steps q ∧ (p.token ≠ .EOF → q.measure < p.measure)) →
      (isIn = true → left ≠ []) →
      Returns
        (if (!isIn) = true then
          parseFor n (.SequenceExpression left) (q.expect .SEMICOLON).2
        else
          match left with
          | [] => none
          | into :: _ =>
            if into.isForInTarget = true then parseForIn n into q
            else
              some (Statement.BadStatement (p.expect .FOR).1
                ((q.error (p.expect .FOR).1 "Invalid left-hand side in for-in").nextStatement).idx,
                (q.error (p.expect .FOR).1 "Invalid left-hand side in for-in").nextStatement)) := by
    intro left isIn q hq hne
    split
    · exact ih.parseFor _ _
        (fits_eof hb (advances_then hq (Parser.steps_expect _ _)) (by decide) (by decide)
          (by decide))
    · rename_i hin
      have hin2 : isIn = true := by simpa using hin
      split
      · exact absurd rfl (hne hin2)
      · split
        · exact ih.parseForIn _ _ (fits_eof hb hq (by decide) (by decide) (by decide))
        · exact returns_some _
  by_cases c : ((p.expect .FOR).2.expect .LEFT_PARENTHESIS).2.token ≠ .SEMICOLON
  · rw [if_pos c]
    by_cases cv : (((p.expect .FOR).2.expect .LEFT_PARENTHESIS).2.modifyScope
        fun s => { s with allowIn := false }).token = .VAR
    · rw [if_pos cv]
      obtain ⟨⟨l, q⟩, ha⟩ := ih.parseVariableDeclarationList []
        (((p.expect .FOR).2.expect .LEFT_PARENTHESIS).2.modifyScope
          fun s => { s with allowIn := false }).next
        (fits_eof hb (advances_then r0 ((Parser.steps_modifyScope _ _).next)) (by decide)
          (by decide) (by decide))
      have ra := (reachIH n).parseVariableDeclarationList _ _ _ ha
      have r1 := advances_then r0 (((Parser.steps_modifyScope _ _).next).trans ra.1)
      simp only [bind, pure, Option.bind, ha]
      split
      · rename_i hlen
        refine tail _ _ _ (advances_then r1 ((Parser.steps_next _).modifyScope _)) ?_
        intro _
        cases l with
        | nil => simp at hlen
        | cons x xs => simp
      · exact tail _ _ _ (advances_then r1 (Parser.steps_modifyScope _ _)) (by simp)
    · rw [if_neg cv]
      obtain ⟨⟨e, q⟩, ha⟩ := ih.parseExpression
        (((p.expect .FOR).2.expect .LEFT_PARENTHESIS).2.modifyScope
          fun s => { s with allowIn := false })
        (fits_eof hb (advances_then r0 (Parser.steps_modifyScope _ _)) (by decide)
          (by decide) (by decide))
      have ra := (reachIH n).parseExpression _ _ ha
      have r1 := advances_then r0 ((Parser.steps_modifyScope _ _).trans ra.1)
      simp only [bind, pure, Option.bind, ha]
      split
      · exact tail _ _ _ (advances_then r1 ((Parser.steps_next _).modifyScope _)) (by simp)
      · exact tail _ _ _ (advances_then r1 (Parser.steps_modifyScope _ _)) (by simp)
  · rw [if_neg c]
    simp only [bind, pure, Option.bind]
    exact tail _ _ _ r0 (by simp)

theorem total_parseVariableStatement (ih : TotalIH n) (p : Parser)
    (hb : p.budget 0 2 < n + 1) : Returns (parseVariableStatement (n + 1) p) := by
  rw [parseVariableStatement]
  obtain ⟨a, ha⟩ := ih.parseVariableDeclarationList [] (p.expect .VAR).2
    (fits_eof hb (advances_expect p _) (by decide) (by decide) (by decide))
  exact returns_bind ha (returns_some _)

theorem total_parseDoWhileStatement (ih : TotalIH n) (p : Parser)
    (hb : p.budget 0 45 < n + 1) : Returns (parseDoWhileStatement (n + 1) p) := by
  rw [parseDoWhileStatement]
  dsimp only
  have r0 : p.Steps ((p.modifyScope fun s => { s with inIteration := true }).expect .DO).2 ∧
      (p.token ≠ .EOF →
        ((p.modifyScope fun s => { s with inIteration := true }).expect .DO).2.measure <
          p.measure) := by
    have := advances_expect (p.modifyScope fun s => { s with inIteration := true }) .DO
    exact ⟨(Parser.steps_modifyScope p _).trans this.1, fun hne => by
      have h2 := this.2 (by rw [Parser.modifyScope_token]; exact hne)
      rwa [Parser.modifyScope_measure] at h2⟩
  have tail : ∀ (a : Statement × Parser),
      ((p.modifyScope fun s => { s with inIteration := true }).expect .DO).2.Steps a.2 →
      Returns ((parseExpression n ((a.2.expect .WHILE).2.expect .LEFT_PARENTHESIS).2).bind
        fun c => some (Statement.DoWhileStatement 0 c.1 a.1,
          (c.2.expect .RIGHT_PARENTHESIS).2.modifyScope fun s =>
            { s with inIteration := p.currentScope.inIteration })) := by
    intro a hs
    obtain ⟨c, hc⟩ := ih.parseExpression ((a.2.expect .WHILE).2.expect .LEFT_PARENTHESIS).2
      (fits_eof hb (advances_then r0 ((hs.expect _).expect _)) (by decide) (by decide)
        (by decide))
    simp only [hc, Option.bind]
    exact returns_some _
  by_cases cb : ((p.modifyScope fun s => { s with inIteration := true }).expect .DO).2.token =
      .LEFT_BRACE
  · rw [if_pos cb]
    obtain ⟨a, ha⟩ := ih.parseBlockStatement _
      (fits_eof hb r0 (by decide) (by decide) (by decide))
    have ra := (reachIH n).parseBlockStatement _ _ ha
    simp only [bind, pure, Option.bind, ha]
    exact tail a ra.1
  · rw [if_neg cb]
    obtain ⟨a, ha⟩ := ih.parseStatement _
      (fits_eof hb r0 (by decide) (by decide) (by decide))
    have ra := (reachIH n).parseStatement _ _ ha
    simp only [bind, pure, Option.bind, ha]
    exact tail a ra.1

theorem total_parseWhileStatement (ih : TotalIH n) (p : Parser)
    (hb : p.budget 0 45 < n + 1) : Returns (parseWhileStatement (n + 1) p) := by
  rw [parseWhileStatement]
  have r0 := advances_then (advances_expect p .WHILE)
    (Parser.steps_expect (p.expect .WHILE).2 .LEFT_PARENTHESIS)
  obtain ⟨⟨e, q⟩, ha⟩ := ih.parseExpression _
    (fits_eof hb r0 (by decide) (by decide) (by decide))
  have ra := (reachIH n).parseExpression _ _ ha
  refine returns_bind ha ?_
  dsimp only
  obtain ⟨a2, ha2⟩ := ih.parseIterationStatement (q.expect .RIGHT_PARENTHESIS).2
    (fits_eof hb (advances_then r0 (ra.1.expect _)) (by decide) (by decide) (by decide))
  exact returns_bind ha2 (returns_some _)

theorem total_parseIfStatement (ih : TotalIH n) (p : Parser)
    (hb : p.budget 0 45 < n + 1) : Returns (parseIfStatement (n + 1) p) := by
  rw [parseIfStatement]
  have r0 := advances_then (advances_expect p .IF)
    (Parser.steps_expect (p.expect .IF).2 .LEFT_PARENTHESIS)
  obtain ⟨⟨e, q⟩, ha⟩ := ih.parseExpression _
    (fits_eof hb r0 (by decide) (by decide) (by decide))
  have ra := (reachIH n).parseExpression _ _ ha
  have r1 := advances_then r0 (ra.1.expect .RIGHT_PARENTHESIS)
  refine returns_bind ha ?_
  dsimp only
  have tail : ∀ (c : Statement × Parser), (q.expect .RIGHT_PARENTHESIS).2.Steps c.2 →
      Returns
        (if c.2.token = .ELSE then
          (parseStatement n c.2.next).bind fun x =>
            some (Statement.IfStatement 0 e c.1 (some x.1), x.2)
        else some (Statement.IfStatement 0 e c.1 none, c.2)) := by
    intro c hs
    split
    · obtain ⟨x, hx⟩ := ih.parseStatement c.2.next
        (fits_eof hb (advances_then r1 (hs.next)) (by decide) (by decide) (by decide))
      simp only [hx, Option.bind]
      exact returns_some _
    · exact returns_some _
  by_cases cb : (q.expect .RIGHT_PARENTHESIS).2.token = .LEFT_BRACE
  · rw [if_pos cb]
    obtain ⟨c, hc⟩ := ih.parseBlockStatement _
      (fits_eof hb r1 (by decide) (by decide) (by decide))
    have rc := (reachIH n).parseBlockStatement _ _ hc
    simp only [bind, pure, Option.bind, hc]
    exact tail c rc.1
  · rw [if_neg cb]
    obtain ⟨c, hc⟩ := ih.parseStatement _
      (fits_eof hb r1 (by decide) (by decide) (by decide))
    have rc := (reachIH n).parseStatement _ _ hc
    simp only [bind, pure, Option.bind, hc]
    exact tail c rc.1

/-- No budget is below the fuel `0`. -/
theorem totalIH_zero : TotalIH 0 where
  parsePrimaryExpression := by intros; exact absurd (by assumption) (Nat.not_lt_zero _)
  parseVariableDeclaration := by intros; exact absurd (by assumption) (Nat.not_lt_zero _)
  parseVariableDeclarationList := by intros; exact absurd (by assumption) (Nat.not_lt_zero _)
  parseObjectProperty := by intros; exact absurd (by assumption) (Nat.not_lt_zero _)
  parseObjectLiteralLoop := by intros; exact absurd (by assumption) (Nat.not_lt_zero _)
  parseObjectLiteral := by intros; exact absurd (by assumption) (Nat.not_lt_zero _)
  parseArrayLiteralLoop := by intros; exact absurd (by assumption) (Nat.not_lt_zero _)
  parseArrayLiteral := by intros; exact absurd (by assumption) (Nat.not_lt_zero _)
  parseArgumentListLoop := by intros; exact absurd (by assumption) (Nat.not_lt_zero _)
  parseArgumentList := by intros; exact absurd (by assumption) (Nat.not_lt_zero _)
  parseCallExpression := by intros; exact absurd (by assumption) (Nat.not_lt_zero _)
  parseBracketMember := by intros; exact absurd (by assumption) (Nat.not_lt_zero _)
  parseNewExpression := by intros; exact absurd (by assumption) (Nat.not_lt_zero _)
  parseLeftHandSideExpressionLoop := by intros; exact absurd (by assumption) (Nat.not_lt_zero _)
  parseLeftHandSideExpression := by intros; exact absurd (by assumption) (Nat.not_lt_zero _)
  parseLeftHandSideExpressionAllowCallLoop := by intros; exact absurd (by assumption) (Nat.not_lt_zero _)
  parseLeftHandSideExpressionAllowCall := by intros; exact absurd (by assumption) (Nat.not_lt_zero _)
  parsePostfixExpression := by intros; exact absurd (by assumption) (Nat.not_lt_zero _)
  parseUnaryExpression := by intros; exact absurd (by assumption) (Nat.not_lt_zero _)
  parseBinaryOperand := by intros; exact absurd (by assumption) (Nat.not_lt_zero _)
  parseBinaryLoop := by intros; exact absurd (by assumption) (Nat.not_lt_zero _)
  parseBinaryExpression := by intros; exact absurd (by assumption) (Nat.not_lt_zero _)
  parseRelationalExpression := by intros; exact absurd (by assumption) (Nat.not_lt_zero _)
  parseConditionlExpression := by intros; exact absurd (by assumption) (Nat.not_lt_zero _)
  parseAssignmentExpression := by intros; exact absurd (by assumption) (Nat.not_lt_zero _)
  parseExpressionLoop := by intros; exact absurd (by assumption) (Nat.not_lt_zero _)
  parseExpression := by intros; exact absurd (by assumption) (Nat.not_lt_zero _)
  parseBlockStatement := by intros; exact absurd (by assumption) (Nat.not_lt_zero _)
  parseStatementList := by intros; exact absurd (by assumption) (Nat.not_lt_zero _)
  parseStatement := by intros; exact absurd (by assumption) (Nat.not_lt_zero _)
  parseTryStatementFinally := by intros; exact absurd (by assumption) (Nat.not_lt_zero _)
  parseTryStatement := by intros; exact absurd (by assumption) (Nat.not_lt_zero _)
  parseFunction := by intros; exact absurd (by assumption) (Nat.not_lt_zero _)
  _parseFunction := by intros; exact absurd (by assumption) (Nat.not_lt_zero _)
  parseReturnStatement := by intros; exact absurd (by assumption) (Nat.not_lt_zero _)
  parseThrowStatement := by intros; exact absurd (by assumption) (Nat.not_lt_zero _)
  parseSwitchStatementLoop := by intros; exact absurd (by assumption) (Nat.not_lt_zero _)
  parseSwitchStatement := by intros; exact absurd (by assumption) (Nat.not_lt_zero _)
  parseWithStatement := by intros; exact absurd (by assumption) (Nat.not_lt_zero _)
  parseCaseStatementLoop := by intros; exact absurd (by assumption) (Nat.not_lt_zero _)
  parseCaseStatement := by intros; exact absurd (by assumption) (Nat.not_lt_zero _)
  parseIterationStatement := by intros; exact absurd (by assumption) (Nat.not_lt_zero _)
  parseForIn := by intros; exact absurd (by assumption) (Nat.not_lt_zero _)
  parseFor := by intros; exact absurd (by assumption) (Nat.not_lt_zero _)
  parseForOrForInStatement := by intros; exact absurd (by assumption) (Nat.not_lt_zero _)
  parseVariableStatement := by intros; exact absurd (by assumption) (Nat.not_lt_zero _)
  parseDoWhileStatement := by intros; exact absurd (by assumption) (Nat.not_lt_zero _)
  parseWhileStatement := by intros; exact absurd (by assumption) (Nat.not_lt_zero _)
  parseIfStatement := by intros; exact absurd (by assumption) (Nat.not_lt_zero _)

/-- Every parsing function returns once the fuel is above its budget. -/
theorem totalIH : ∀ n, TotalIH n
  | 0 => totalIH_zero
  | n + 1 =>
    have ih := totalIH n
    { parsePrimaryExpression := total_parsePrimaryExpression ih,
      parseVariableDeclaration := total_parseVariableDeclaration ih,
      parseVariableDeclarationList := total_parseVariableDeclarationList ih,
      parseObjectProperty := total_parseObjectProperty ih,
      parseObjectLiteralLoop := total_parseObjectLiteralLoop ih,
      parseObjectLiteral := total_parseObjectLiteral ih,
      parseArrayLiteralLoop := total_parseArrayLiteralLoop ih,
      parseArrayLiteral := total_parseArrayLiteral ih,
      parseArgumentListLoop := total_parseArgumentListLoop ih,
      parseArgumentList := total_parseArgumentList ih,
      parseCallExpression := total_parseCallExpression ih,
      parseBracketMember := total_parseBracketMember ih,
      parseNewExpression := total_parseNewExpression ih,
      parseLeftHandSideExpressionLoop := total_parseLeftHandSideExpressionLoop ih,
      parseLeftHandSideExpression := total_parseLeftHandSideExpression ih,
      parseLeftHandSideExpressionAllowCallLoop := total_parseLeftHandSideExpressionAllowCallLoop ih,
      parseLeftHandSideExpressionAllowCall := total_parseLeftHandSideExpressionAllowCall ih,
      parsePostfixExpression := total_parsePostfixExpression ih,
      parseUnaryExpression := total_parseUnaryExpression ih,
      parseBinaryOperand := total_parseBinaryOperand ih,
      parseBinaryLoop := total_parseBinaryLoop ih,
      parseBinaryExpression := total_parseBinaryExpression ih,
      parseRelationalExpression := total_parseRelationalExpression ih,
      parseConditionlExpression := total_parseConditionlExpression ih,
      parseAssignmentExpression := total_parseAssignmentExpression ih,
      parseExpressionLoop := total_parseExpressionLoop ih,
      parseExpression := total_parseExpression ih,
      parseBlockStatement := total_parseBlockStatement ih,
      parseStatementList := total_parseStatementList ih,
      parseStatement := total_parseStatement ih,
      parseTryStatementFinally := total_parseTryStatementFinally ih,
      parseTryStatement := total_parseTryStatement ih,
      parseFunction := total_parseFunction ih,
      _parseFunction := total__parseFunction ih,
      parseReturnStatement := total_parseReturnStatement ih,
      parseThrowStatement := total_parseThrowStatement ih,
      parseSwitchStatementLoop := total_parseSwitchStatementLoop ih,
      parseSwitchStatement := total_parseSwitchStatement ih,
      parseWithStatement := total_parseWithStatement ih,
      parseCaseStatementLoop := total_parseCaseStatementLoop ih,
      parseCaseStatement := total_parseCaseStatement ih,
      parseIterationStatement := total_parseIterationStatement ih,
      parseForIn := total_parseForIn ih,
      parseFor := total_parseFor ih,
      parseForOrForInStatement := total_parseForOrForInStatement ih,
      parseVariableStatement := total_parseVariableStatement ih,
      parseDoWhileStatement := total_parseDoWhileStatement ih,
      parseWhileStatement := total_parseWhileStatement ih,
      parseIfStatement := total_parseIfStatement ih }

theorem total_parseSourceElementsDirectives (n : Nat) (l : List Statement) (p : Parser)
    (hb : p.budget 46 0 < n) : Returns (parseSourceElementsDirectives n l p) := by
  induction n generalizing l p with
  | zero => exact absurd hb (Nat.not_lt_zero _)
  | succ n ih =>
    rw [parseSourceElementsDirectives]
    by_cases c : p.token ≠ .STRING
    · rw [if_pos c]; exact returns_some _
    · rw [if_neg c]
      have hne : p.token ≠ .EOF := by
        have : p.token = .STRING := by simpa using c
        rw [this]; decide
      obtain ⟨⟨s, q⟩, ha⟩ := (totalIH n).parseStatement p
        (fits_guard hb (Parser.Steps.refl p) hne (by decide) (by decide) (by decide))
      have ra := (reachIH n).parseStatement p _ ha
      simp only [parseSourceElement]
      refine returns_bind ha ?_
      exact ih _ _ (fits_lt hb ra.1 (ra.lt hne) (by decide) (by decide))

theorem total_parseSourceElementsLoop (n : Nat) (l : List Statement) (p : Parser)
    (hb : p.budget 46 0 < n) : Returns (parseSourceElementsLoop n l p) := by
  induction n generalizing l p with
  | zero => exact absurd hb (Nat.not_lt_zero _)
  | succ n ih =>
    rw [parseSourceElementsLoop]
    by_cases c : p.token ≠ .EOF
    · rw [if_pos c]
      obtain ⟨⟨s, q⟩, ha⟩ := (totalIH n).parseStatement p
        (fits_guard hb (Parser.Steps.refl p) c (by decide) (by decide) (by decide))
      have ra := (reachIH n).parseStatement p _ ha
      simp only [parseSourceElement]
      refine returns_bind ha ?_
      exact ih _ _ (fits_lt hb ra.1 (ra.lt c) (by decide) (by decide))
    · rw [if_neg c]; exact returns_some _

theorem total_parseSourceElements (n : Nat) (p : Parser) (hb : p.budget 47 1 < n) :
    Returns (parseSourceElements n p) := by
  rw [parseSourceElements]
  obtain ⟨⟨l, q⟩, ha⟩ := total_parseSourceElementsDirectives n [] p
    (lt_trans (budget_lt (Parser.Steps.refl p) (fun _ _ => by decide) (fun _ _ => by decide)
      (by decide) (by decide)) hb)
  have ra := reach_parseSourceElementsDirectives n _ _ _ ha
  refine returns_bind ha ?_
  exact total_parseSourceElementsLoop n _ _
    (lt_trans (budget_lt ra.1 (fun _ _ => by decide) (fun _ _ => by decide)
      (by decide) (by decide)) hb)

/-- The fuel `parseProgram` returns with. -/
theorem total_parseProgram (n : Nat) (p : Parser) (hb : p.budget 47 1 < n) :
    Returns (parseProgram n p) := by
  rw [parseProgram]
  obtain ⟨a, ha⟩ := total_parseSourceElements n p.openScope hb
  exact returns_bind ha (returns_some _)

end Total

section Mono
variable {PE PE' : Expression → Prop} {PS PS' : Context → Statement → Prop}

mutual
theorem Expression.All.mono_expression (hE : ∀ e, PE e → PE' e) (hS : ∀ c s, PS c s → PS' c s) :
    ∀ e : Expression, e.All PE PS → e.All PE' PS'
  | .ArrayLiteral _ _ v, h => ⟨hE _ h.1, Expression.AllOptions.mono_expressionOptions hE hS v h.2⟩
  | .AssignExpression _ l r, h =>
    ⟨hE _ h.1, Expression.All.mono_expression hE hS l h.2.1, Expression.All.mono_expression hE hS r h.2.2⟩
  | .BadExpression _ _, h => hE _ h
  | .BinaryExpression _ l r _, h =>
    ⟨hE _ h.1, Expression.All.mono_expression hE hS l h.2.1, Expression.All.mono_expression hE hS r h.2.2⟩
  | .BooleanLiteral _ _ _, h => hE _ h
  | .BracketExpression l m _ _, h =>
    ⟨hE _ h.1, Expression.All.mono_expression hE hS l h.2.1, Expression.All.mono_expression hE hS m h.2.2⟩
  | .CallExpression c _ a _, h =>
    ⟨hE _ h.1, Expression.All.mono_expression hE hS c h.2.1, Expression.AllList.mono_expressionList hE hS a h.2.2⟩
  | .ConditionalExpression t c a, h =>
    ⟨hE _ h.1, Expression.All.mono_expression hE hS t h.2.1, Expression.All.mono_expression hE hS c h.2.2.1,
      Expression.All.mono_expression hE hS a h.2.2.2⟩
  | .DotExpression l _, h => ⟨hE _ h.1, Expression.All.mono_expression hE hS l h.2⟩
  | .FunctionExpression _ b _ _ fl vl, h =>
    ⟨hE _ h.1, Statement.All.mono_statement hE hS .function b h.2.1,
      Declaration.AllList.mono_declarations hE hS fl h.2.2.1, Declaration.AllList.mono_declarations hE hS vl h.2.2.2⟩
  | .Identifier _ _, h => hE _ h
  | .NewExpression _ c _ a _, h =>
    ⟨hE _ h.1, Expression.All.mono_expression hE hS c h.2.1, Expression.AllList.mono_expressionList hE hS a h.2.2⟩
  | .NullLiteral _ _, h => hE _ h
  | .NumberLiteral _ _ _, h => hE _ h
  | .ObjectLiteral _ _ v, h => ⟨hE _ h.1, Property.AllList.mono_properties hE hS v h.2⟩
  | .RegExpLiteral _ _ _ _, h => hE _ h
  | .SequenceExpression s, h => ⟨hE _ h.1, Expression.AllList.mono_expressionList hE hS s h.2⟩
  | .StringLiteral _ _ _, h => hE _ h
  | .ThisExpression _, h => hE _ h
  | .UnaryExpression _ _ o _, h => ⟨hE _ h.1, Expression.All.mono_expression hE hS o h.2⟩
  | .VariableExpression _ _ ini, h => ⟨hE _ h.1, Expression.AllOption.mono_expressionOption hE hS ini h.2⟩
theorem Expression.AllOption.mono_expressionOption (hE : ∀ e, PE e → PE' e)
    (hS : ∀ c s, PS c s → PS' c s) :
    ∀ e : Option Expression, Expression.AllOption PE PS e → Expression.AllOption PE' PS' e
  | none, _ => trivial
  | some e, h => Expression.All.mono_expression hE hS e h
theorem Expression.AllList.mono_expressionList (hE : ∀ e, PE e → PE' e) (hS : ∀ c s, PS c s → PS' c s) :
    ∀ l : List Expression, Expression.AllList PE PS l → Expression.AllList PE' PS' l
  | [], _ => trivial
  | e :: es, h => ⟨Expression.All.mono_expression hE hS e h.1, Expression.AllList.mono_expressionList hE hS es h.2⟩
theorem Expression.AllOptions.mono_expressionOptions (hE : ∀ e, PE e → PE' e)
    (hS : ∀ c s, PS c s → PS' c s) :
    ∀ l : List (Option Expression),
      Expression.AllOptions PE PS l → Expression.AllOptions PE' PS' l
  | [], _ => trivial
  | e :: es, h =>
    ⟨Expression.AllOption.mono_expressionOption hE hS e h.1, Expression.AllOptions.mono_expressionOptions hE hS es h.2⟩
theorem Property.AllList.mono_properties (hE : ∀ e, PE e → PE' e) (hS : ∀ c s, PS c s → PS' c s) :
    ∀ l : List Property, Property.AllList PE PS l → Property.AllList PE' PS' l
  | [], _ => trivial
  | .mk _ _ v :: ps, h =>
    ⟨Expression.All.mono_expression hE hS v h.1, Property.AllList.mono_properties hE hS ps h.2⟩
theorem Declaration.AllList.mono_declarations (hE : ∀ e, PE e → PE' e)
    (hS : ∀ c s, PS c s → PS' c s) :
    ∀ l : List Declaration, Declaration.AllList PE PS l → Declaration.AllList PE' PS' l
  | [], _ => trivial
  | .mk _ (.node f) :: ds, h =>
    ⟨Expression.All.mono_expression hE hS f h.1, Declaration.AllList.mono_declarations hE hS ds h.2⟩
  | .mk _ .nil :: ds, h => Declaration.AllList.mono_declarations hE hS ds h
  | .mk _ .self :: ds, h => Declaration.AllList.mono_declarations hE hS ds h
theorem Statement.All.mono_statement (hE : ∀ e, PE e → PE' e) (hS : ∀ c s, PS c s → PS' c s) :
    ∀ (c : Context) (s : Statement), s.All PE PS c → s.All PE' PS' c
  | c, .BadStatement _ _, h => hS _ _ h
  | c, .BlockStatement _ l _, h => ⟨hS _ _ h.1, Statement.AllList.mono_statementList hE hS c l h.2⟩
  | c, .BranchStatement _ _ _, h => hS _ _ h
  | c, .DoWhileStatement _ t b, h =>
    ⟨hS _ _ h.1, Expression.All.mono_expression hE hS t h.2.1, Statement.All.mono_statement hE hS _ b h.2.2⟩
  | c, .EmptyStatement _, h => hS _ _ h
  | c, .ExpressionStatement e, h => ⟨hS _ _ h.1, Expression.All.mono_expression hE hS e h.2⟩
  | c, .ForInStatement _ i s b, h =>
    ⟨hS _ _ h.1, Expression.All.mono_expression hE hS i h.2.1, Expression.All.mono_expression hE hS s h.2.2.1,
      Statement.All.mono_statement hE hS _ b h.2.2.2⟩
  | c, .ForStatement _ i u t b, h =>
    ⟨hS _ _ h.1, Expression.All.mono_expression hE hS i h.2.1,
      Expression.AllOption.mono_expressionOption hE hS u h.2.2.1, Expression.AllOption.mono_expressionOption hE hS t h.2.2.2.1,
      Statement.All.mono_statement hE hS _ b h.2.2.2.2⟩
  | c, .IfStatement _ t cs a, h =>
    ⟨hS _ _ h.1, Expression.All.mono_expression hE hS t h.2.1, Statement.All.mono_statement hE hS c cs h.2.2.1,
      Statement.AllOption.mono_statementOption hE hS c a h.2.2.2⟩
  | c, .LabelledStatement _ _ s, h => ⟨hS _ _ h.1, Statement.All.mono_statement hE hS _ s h.2⟩
  | c, .ReturnStatement _ a, h => ⟨hS _ _ h.1, Expression.AllOption.mono_expressionOption hE hS a h.2⟩
  | c, .SwitchStatement _ d _ b, h =>
    ⟨hS _ _ h.1, Expression.All.mono_expression hE hS d h.2.1,
      CaseStatement.AllList.mono_clauses hE hS _ b h.2.2⟩
  | c, .ThrowStatement _ a, h => ⟨hS _ _ h.1, Expression.All.mono_expression hE hS a h.2⟩
  | c, .TryStatement _ b ct f, h =>
    ⟨hS _ _ h.1, Statement.All.mono_statement hE hS c b h.2.1,
      CatchStatement.AllOption.mono_catch hE hS c ct h.2.2.1,
      Statement.AllOption.mono_statementOption hE hS c f h.2.2.2⟩
  | c, .VarStatement _ l, h => ⟨hS _ _ h.1, Expression.AllList.mono_expressionList hE hS l h.2⟩
  | c, .WhileStatement _ t b, h =>
    ⟨hS _ _ h.1, Expression.All.mono_expression hE hS t h.2.1, Statement.All.mono_statement hE hS _ b h.2.2⟩
  | c, .WithStatement _ o b, h =>
    ⟨hS _ _ h.1, Expression.All.mono_expression hE hS o h.2.1, Statement.All.mono_statement hE hS c b h.2.2⟩
theorem Statement.AllOption.mono_statementOption (hE : ∀ e, PE e → PE' e)
    (hS : ∀ c s, PS c s → PS' c s) :
    ∀ (c : Context) (s : Option Statement),
      Statement.AllOption PE PS c s → Statement.AllOption PE' PS' c s
  | _, none, _ => trivial
  | c, some s, h => Statement.All.mono_statement hE hS c s h
theorem Statement.AllList.mono_statementList (hE : ∀ e, PE e → PE' e) (hS : ∀ c s, PS c s → PS' c s) :
    ∀ (c : Context) (l : List Statement),
      Statement.AllList PE PS c l → Statement.AllList PE' PS' c l
  | _, [], _ => trivial
  | c, s :: ss, h =>
    ⟨Statement.All.mono_statement hE hS c s h.1, Statement.AllList.mono_statementList hE hS c ss h.2⟩
theorem CaseStatement.AllList.mono_clauses (hE : ∀ e, PE e → PE' e)
    (hS : ∀ c s, PS c s → PS' c s) :
    ∀ (c : Context) (l : List CaseStatement),
      CaseStatement.AllList PE PS c l → CaseStatement.AllList PE' PS' c l
  | _, [], _ => trivial
  | c, .mk _ t cs :: cls, h =>
    ⟨Expression.AllOption.mono_expressionOption hE hS t h.1, Statement.AllList.mono_statementList hE hS c cs h.2.1,
      CaseStatement.AllList.mono_clauses hE hS c cls h.2.2⟩
theorem CatchStatement.AllOption.mono_catch (hE : ∀ e, PE e → PE' e)
    (hS : ∀ c s, PS c s → PS' c s) :
    ∀ (c : Context) (s : Option CatchStatement),
      CatchStatement.AllOption PE PS c s → CatchStatement.AllOption PE' PS' c s
  | _, none, _ => trivial
  | c, some (.mk _ _ b), h => Statement.All.mono_statement hE hS c b h
end

theorem Program.All.mono_program (hE : ∀ e, PE e → PE' e) (hS : ∀ c s, PS c s → PS' c s)
    (prog : Program) (h : prog.All PE PS) : prog.All PE' PS' :=
  ⟨Statement.AllList.mono_statementList hE hS _ _ h.1, Declaration.AllList.mono_declarations hE hS _ h.2.1,
    Declaration.AllList.mono_declarations hE hS _ h.2.2⟩

end Mono

/-! ## Precedence of the binary operators -/

theorem BinaryLevel.accepts_iff (lv : BinaryLevel) (t : Token) :
    lv.accepts t = true ↔ t.level = lv.rank := by
  cases lv <;> cases t <;> decide

theorem BinaryLevel.rank_pos (lv : BinaryLevel) : 1 ≤ lv.rank := by
  cases lv <;> decide

theorem parseBinaryOperand_level (lv : BinaryLevel) (n : Nat) (p : Parser) :
    parseBinaryOperand (n + 1) lv p = parseLevel (lv.rank - 1) n p := by
  cases lv <;> rw [parseBinaryOperand] <;> rfl

theorem parseLevel_rank (lv : BinaryLevel) (n : Nat) (p : Parser) :
    parseLevel lv.rank n p = parseBinaryExpression n lv p := by
  cases lv <;> rfl

theorem Token.ends_operand {t : Token} (h : t.level ≤ 10 ∨ t = .EOF) :
    t ≠ .PERIOD ∧ t ≠ .LEFT_BRACKET ∧ t ≠ .LEFT_PARENTHESIS ∧ t ≠ .INCREMENT ∧
      t ≠ .DECREMENT ∧ t ≠ .QUESTION_MARK ∧ t ≠ .COMMA ∧ t ≠ .COLON := by
  cases t <;> simp [Token.level, Token.precedence] at h ⊢

theorem Token.not_relational {t : Token} (h : t.level ≠ 4) :
    t ≠ .LESS ∧ t ≠ .LESS_OR_EQUAL ∧ t ≠ .GREATER ∧ t ≠ .GREATER_OR_EQUAL ∧
      t ≠ .INSTANCEOF ∧ t ≠ .IN := by
  cases t <;> simp [Token.level, Token.precedence] at h ⊢

theorem Parser.modifyScope_allowIn (p : Parser) (h : p.currentScope.allowIn = true) :
    p.modifyScope (fun s => { s with allowIn := true }) = p := by
  obtain ⟨_, _, _, _, _, _, _, _, _, _, _, _, scope, _, _, _⟩ := p
  cases scope with
  | nil => simp [Parser.currentScope] at h
  | cons s outer =>
    obtain ⟨a, _, _, _, _, _, _⟩ := s
    simp only [Parser.currentScope] at h
    subst h
    rfl

theorem Parses.more {N M k : Nat} {p q : Parser} {e : Expression}
    (h : Parses N k p e q) (hm : N ≤ M) : Parses M k p e q :=
  fun n hn => h n (le_trans hm hn)

theorem parses_identifier (p : Parser) (h : p.token = .IDENTIFIER)
    (hs : p.next.token.level ≤ 10 ∨ p.next.token = .EOF) :
    Parses 5 0 p (.Identifier p.literal p.idx) p.next := by
  intro n hn
  obtain ⟨m, rfl⟩ : ∃ m, n = m + 5 := ⟨n - 5, by omega⟩
  obtain ⟨h1, h2, h3, h4, h5, -⟩ := Token.ends_operand hs
  simp [parseLevel, parseUnaryExpression, parsePostfixExpression,
    parseLeftHandSideExpressionAllowCall, parsePrimaryExpression,
    parseLeftHandSideExpressionAllowCallLoop, h, h1, h2, h3, h4, h5]

theorem climb_binary (lv : BinaryLevel) {N : Nat} {p q : Parser} {e : Expression}
    (h : Parses N (lv.rank - 1) p e q) (hq : q.token.level ≠ lv.rank) :
    Parses (N + 2) lv.rank p e q := by
  intro n hn
  obtain ⟨m, rfl⟩ : ∃ m, n = m + 2 := ⟨n - 2, by omega⟩
  have ha : lv.accepts q.token = false := by
    rw [← Bool.not_eq_true, BinaryLevel.accepts_iff]; exact hq
  rw [parseLevel_rank, parseBinaryExpression, parseBinaryOperand_level, h m (by omega)]
  simp [parseBinaryLoop, ha]

theorem climb_relational {N : Nat} {p q : Parser} {e : Expression}
    (h : Parses N 3 p e q) (hi : q.currentScope.allowIn = true)
    (hq : q.token.level ≠ 4) : Parses (N + 2) 4 p e q := by
  intro n hn
  obtain ⟨m, rfl⟩ : ∃ m, n = m + 1 := ⟨n - 1, by omega⟩
  obtain ⟨h1, h2, h3, h4, h5, h6⟩ := Token.not_relational hq
  have hp : parseBinaryExpression m .Shift p = some (e, q) := h m (by omega)
  simp only [parseLevel]
  rw [parseRelationalExpression, hp]
  simp [Parser.modifyScope_allowIn q hi, hi, h1, h2, h3, h4, h5, h6]

theorem step_binary (lv : BinaryLevel) {N M : Nat} {p q q2 : Parser} {l r : Expression}
    (h1 : Parses N (lv.rank - 1) p l q) (ho : q.token.level = lv.rank)
    (h2 : Parses M (lv.rank - 1) q.next r q2) (hq : q2.token.level ≠ lv.rank) :
    Parses (max N M + 3) lv.rank p (binaryNode q.token l r) q2 := by
  intro n hn
  obtain ⟨m, rfl⟩ : ∃ m, n = m + 3 := ⟨n - 3, by omega⟩
  have hm : N ≤ m ∧ M ≤ m := by
    constructor <;> omega
  have ha : lv.accepts q.token = true := (BinaryLevel.accepts_iff lv q.token).2 ho
  have hb : lv.accepts q2.token = false := by
    rw [← Bool.not_eq_true, BinaryLevel.accepts_iff]; exact hq
  have hc : lv.comparison = q.token.builtComparison := by
    revert ha
    cases lv <;> cases q.token <;> decide
  rw [parseLevel_rank, parseBinaryExpression, parseBinaryOperand_level,
    h1 (m + 1) (by omega)]
  simp only [bind, Option.bind, parseBinaryLoop, ha, if_true]
  rw [parseBinaryOperand_level, h2 m hm.2]
  simp [hb, hc, binaryNode]

theorem step_relational {N M : Nat} {p q q2 : Parser} {l r : Expression}
    (h1 : Parses N 3 p l q) (hi : q.currentScope.allowIn = true)
    (ho : q.token.level = 4) (h2 : Parses M 4 q.next r q2)
    (hi2 : q2.currentScope.allowIn = true) :
    Parses (max N M + 1) 4 p (binaryNode q.token l r) q2 := by
  intro n hn
  obtain ⟨m, rfl⟩ : ∃ m, n = m + 1 := ⟨n - 1, by omega⟩
  have hm : N ≤ m ∧ M ≤ m := by
    constructor <;> omega
  have hp : parseBinaryExpression m .Shift p = some (l, q) := h1 m hm.1
  have hr : parseRelationalExpression m q.next = some (r, q2) := h2 m hm.2
  simp only [parseLevel]
  rw [parseRelationalExpression, hp]
  simp only [bind, Option.bind, Parser.modifyScope_allowIn q hi, hi, hr]
  revert ho
  cases ht : q.token <;>
    simp [Token.level, Token.precedence, binaryNode, Token.builtComparison,
      Parser.modifyScope_allowIn q2 hi2]

theorem Parser.next_allowIn (p : Parser) :
    p.next.currentScope.allowIn = p.currentScope.allowIn := by
  simp [Parser.currentScope]

theorem climb_level {N k : Nat} {p q : Parser} {e : Expression} (hk : 1 ≤ k)
    (hk' : k ≤ 10) (h : Parses N (k - 1) p e q) (hi : q.currentScope.allowIn = true)
    (hq : q.token.level ≠ k) : Parses (N + 2) k p e q := by
  interval_cases k
  · exact climb_binary .Multiplicative h hq
  · exact climb_binary .Additive h hq
  · exact climb_binary .Shift h hq
  · exact climb_relational h hi hq
  · exact climb_binary .Equality h hq
  · exact climb_binary .BitwiseAnd h hq
  · exact climb_binary .BitwiseExclusiveOr h hq
  · exact climb_binary .BitwiseOr h hq
  · exact climb_binary .LogicalAnd h hq
  · exact climb_binary .LogicalOr h hq

theorem climb_to {N j k : Nat} {p q : Parser} {e : Expression} (hjk : j ≤ k)
    (hk : k ≤ 10) (h : Parses N j p e q) (hi : q.currentScope.allowIn = true)
    (hq : q.token.level ≤ j ∨ k < q.token.level) :
    Parses (N + 2 * (k - j)) k p e q := by
  induction k, hjk using Nat.le_induction with
  | base => simpa using h
  | succ k hjk ih =>
    have h1 := ih (by omega) (by omega)
    have h2 : Parses (N + 2 * (k - j) + 2) (k + 1) p e q :=
      climb_level (by omega) hk h1 hi (by omega)
    exact h2.more (by omega)

/-- One operator of depth `k` between its operands; the right operand of a relational
operator is parsed at depth `4`, of another operator at depth `k - 1`. -/
theorem step_level {N M k : Nat} {p q q2 : Parser} {l r : Expression} (hk : 1 ≤ k)
    (hk' : k ≤ 10) (h1 : Parses N (k - 1) p l q) (hi : q.currentScope.allowIn = true)
    (ho : q.token.level = k) (h2 : Parses M (if k = 4 then 4 else k - 1) q.next r q2)
    (hi2 : q2.currentScope.allowIn = true) (hq : q2.token.level ≠ k) :
    Parses (max N M + 3) k p (binaryNode q.token l r) q2 := by
  interval_cases k
  · exact step_binary .Multiplicative h1 ho h2 hq
  · exact step_binary .Additive h1 ho h2 hq
  · exact step_binary .Shift h1 ho h2 hq
  · exact (step_relational h1 hi ho h2 hi2).more (by omega)
  · exact step_binary .Equality h1 ho h2 hq
  · exact step_binary .BitwiseAnd h1 ho h2 hq
  · exact step_binary .BitwiseExclusiveOr h1 ho h2 hq
  · exact step_binary .BitwiseOr h1 ho h2 hq
  · exact step_binary .LogicalAnd h1 ho h2 hq
  · exact step_binary .LogicalOr h1 ho h2 hq

theorem parses_operand {p : Parser} {k : Nat} (hk : k ≤ 10) (h : p.token = .IDENTIFIER)
    (hi : p.currentScope.allowIn = true)
    (hs : (k < p.next.token.level ∧ p.next.token.level ≤ 10) ∨ p.next.token = .EOF) :
    Parses (5 + 2 * k) k p (.Identifier p.literal p.idx) p.next := by
  have h0 : Parses 5 0 p (.Identifier p.literal p.idx) p.next :=
    parses_identifier p h (hs.imp (fun a => a.2) id)
  have hl : k < p.next.token.level := by
    rcases hs with hs | hs
    · exact hs.1
    · rw [hs]
      have : Token.EOF.level = 11 := rfl
      omega
  exact (climb_to (Nat.zero_le k) hk h0 (by rw [Parser.next_allowIn]; exact hi)
    (.inr hl)).more (by omega)

theorem parses_right {p : Parser} {k1 k2 : Nat} (hk : k2 < k1) (hk1 : k1 ≤ 10)
    (hk2 : 1 ≤ k2) (hi : p.currentScope.allowIn = true) (t0 : p.token = .IDENTIFIER)
    (t1 : p.next.token.level = k1) (t2 : p.next.next.token = .IDENTIFIER)
    (t3 : p.next.next.next.token.level = k2)
    (t4 : p.next.next.next.next.token = .IDENTIFIER)
    (t5 : p.next.next.next.next.next.token = .EOF) :
    Parses 31 10 p
      (binaryNode p.next.token (.Identifier p.literal p.idx)
        (binaryNode p.next.next.next.token
          (.Identifier p.next.next.literal p.next.next.idx)
          (.Identifier p.next.next.next.next.literal p.next.next.next.next.idx)))
      p.next.next.next.next.next := by
  have e5 : p.next.next.next.next.next.token.level = 11 := by rw [t5]; rfl
  have x := parses_operand (k := k1 - 1) (by omega) t0 hi (.inl (by omega))
  have y := parses_operand (k := k2 - 1) (by omega) t2
    (by simpa only [Parser.next_allowIn] using hi) (.inl (by omega))
  have z := parses_operand (k := if k2 = 4 then 4 else k2 - 1) (by split_ifs <;> omega) t4
    (by simpa only [Parser.next_allowIn] using hi) (.inr t5)
  have inner := step_level hk2 (by omega) y
    (by simpa only [Parser.next_allowIn] using hi) t3 z
    (by simpa only [Parser.next_allowIn] using hi) (by omega)
  have inner2 := climb_to (k := if k1 = 4 then 4 else k1 - 1) (by split_ifs <;> omega)
    (by split_ifs <;> omega) inner (by simpa only [Parser.next_allowIn] using hi)
    (.inr (by split_ifs <;> omega))
  have outer := step_level (by omega) hk1 x
    (by simpa only [Parser.next_allowIn] using hi) t1 inner2
    (by simpa only [Parser.next_allowIn] using hi) (by omega)
  refine (climb_to hk1 (le_refl 10) outer
    (by simpa only [Parser.next_allowIn] using hi) (.inr (by omega))).more ?_
  split_ifs <;> omega

theorem parses_left {p : Parser} {k1 k2 : Nat} (hk : k2 < k1) (hk1 : k1 ≤ 10)
    (hk2 : 1 ≤ k2) (hi : p.currentScope.allowIn = true) (t0 : p.token = .IDENTIFIER)
    (t1 : p.next.token.level = k2) (t2 : p.next.next.token = .IDENTIFIER)
    (t3 : p.next.next.next.token.level = k1)
    (t4 : p.next.next.next.next.token = .IDENTIFIER)
    (t5 : p.next.next.next.next.next.token = .EOF) :
    Parses 31 10 p
      (binaryNode p.next.next.next.token
        (binaryNode p.next.token (.Identifier p.literal p.idx)
          (.Identifier p.next.next.literal p.next.next.idx))
        (.Identifier p.next.next.next.next.literal p.next.next.next.next.idx))
      p.next.next.next.next.next := by
  have e5 : p.next.next.next.next.next.token.level = 11 := by rw [t5]; rfl
  have x := parses_operand (k := k2 - 1) (by omega) t0 hi (.inl (by omega))
  have y := parses_operand (k := if k2 = 4 then 4 else k2 - 1) (by split_ifs <;> omega) t2
    (by simpa only [Parser.next_allowIn] using hi) (.inl (by split_ifs <;> omega))
  have z := parses_operand (k := if k1 = 4 then 4 else k1 - 1) (by split_ifs <;> omega) t4
    (by simpa only [Parser.next_allowIn] using hi) (.inr t5)
  have inner := step_level hk2 (by omega) x
    (by simpa only [Parser.next_allowIn] using hi) t1 y
    (by simpa only [Parser.next_allowIn] using hi) (by omega)
  have inner2 := climb_to (k := k1 - 1) (by omega) (by omega) inner
    (by simpa only [Parser.next_allowIn] using hi) (.inr (by omega))
  have outer := step_level (by omega) hk1 inner2
    (by simpa only [Parser.next_allowIn] using hi) t3 z
    (by simpa only [Parser.next_allowIn] using hi) (by omega)
  refine (climb_to hk1 (le_refl 10) outer
    (by simpa only [Parser.next_allowIn] using hi) (.inr (by omega))).more ?_
  split_ifs <;> omega

theorem Parser.optionalSemicolon_eof {q : Parser} (hq : q.token = .EOF) :
    q.optionalSemicolon.token = .EOF ∧ q.optionalSemicolon.errors = q.errors := by
  unfold Parser.optionalSemicolon
  split_ifs <;> simp_all

theorem parseExpression_level {N : Nat} {p q : Parser} {e : Expression}
    (h : Parses N 10 p e q) (hq : q.token = .EOF) (n : Nat) (hn : N + 3 ≤ n) :
    parseExpression n p = some (e, q) := by
  obtain ⟨m, rfl⟩ : ∃ m, n = m + 3 := ⟨n - 3, by omega⟩
  have hL : parseBinaryExpression m .LogicalOr p = some (e, q) := h m (by omega)
  simp [parseExpression, parseAssignmentExpression, parseConditionlExpression, hL, hq,
    assignmentOperator]

theorem parseStatement_binary {N : Nat} {p q : Parser} {op : Token} {l r : Expression}
    (h : Parses N 10 p (binaryNode op l r) q) (ht : p.token = .IDENTIFIER)
    (hq : q.token = .EOF) (n : Nat) (hn : N + 4 ≤ n) :
    parseStatement n p =
      some (.ExpressionStatement (binaryNode op l r), q.optionalSemicolon) := by
  obtain ⟨m, rfl⟩ : ∃ m, n = m + 1 := ⟨n - 1, by omega⟩
  rw [parseStatement]
  simp only [ht, reduceCtorEq, if_false, ↓reduceIte]
  rw [parseExpression_level h hq m (by omega)]
  rfl

theorem parseProgram_binary {N : Nat} {P q : Parser} {op : Token} {l r : Expression}
    (h : Parses N 10 P.openScope (binaryNode op l r) q) (ht : P.token = .IDENTIFIER)
    (hq : q.token = .EOF) (n : Nat) (hn : N + 6 ≤ n) :
    (parseProgram n P).map (fun a => (a.1.Body, a.2.errors)) =
      some ([.ExpressionStatement (binaryNode op l r)], q.errors) := by
  obtain ⟨m, rfl⟩ : ∃ m, n = m + 2 := ⟨n - 2, by omega⟩
  have ho : P.openScope.token = .IDENTIFIER := ht
  have hs := parseStatement_binary h ho hq (m + 1) (by omega)
  obtain ⟨h1, h2⟩ := Parser.optionalSemicolon_eof hq
  simp [parseProgram, parseSourceElements, parseSourceElementsDirectives,
    parseSourceElementsLoop, parseSourceElement, ho, ht, hs, h1, h2, Parser.closeScope]

/-! ## The result of `Parse` -/

theorem newParser_budget (filename : String) (source : List Nat) (scanner : Scanner) :
    (newParser filename source scanner).next.budget 47 1 < 512 * (scanner.size + 1) := by
  cases scanner <;>
    simp only [Parser.budget, fuelStep, Parser.measure, Parser.remaining, newParser,
      Parser.next, Scanner.size] <;>
    split_ifs <;> omega

theorem steps_parseProgram (n : Nat) (p : Parser) (r : Program × Parser)
    (h : parseProgram n p = some r) : p.Steps r.2 := by
  simp only [parseProgram, bind, Option.bind_eq_some, pure, Option.some.injEq] at h
  obtain ⟨a, h1, h2⟩ := h
  cases h2
  exact ((Parser.Steps.refl p).openScope.trans
    (reach_parseSourceElements n _ a h1).1).closeScope

theorem Parse_eq {n : Nat} {filename : String} {source : List Nat} {scanner : Scanner}
    {r : Program × Option Error} (h : Parse n filename source scanner = some r) :
    ∃ q, parseProgram n (newParser filename source scanner).next = some (r.1, q) ∧
      r.2 = q.errors.head? := by
  simp only [Parse, Parser.parse, Parser.parseState, Option.map_eq_some'] at h
  obtain ⟨a, h1, h2⟩ := h
  cases h2
  exact ⟨a.2, h1, rfl⟩

/-- The program `Parse` returns is as the parser builds it; the parse is clean if the
error it returns is `nil`. -/
theorem Parse_ok {n : Nat} {filename : String} {source : List Nat} {scanner : Scanner}
    {r : Program × Option Error} (h : Parse n filename source scanner = some r) :
    r.1.Ok (r.2 = none) := by
  obtain ⟨q, h1, h2⟩ := Parse_eq h
  have hs : (newParser filename source scanner).next.scope = [] := by
    rw [Parser.next_scope]; rfl
  have hb := (built_parseProgram n _ hs _ h1).1
  refine Program.All.mono_program (fun _ e => e) ?_ _ hb
  intro c s hc
  cases s <;> try exact hc
  refine ⟨hc.1, fun hn => hc.2 ?_⟩
  rw [h2] at hn
  exact List.head?_eq_none_iff.1 hn

/-! ## Targets of assignments -/

theorem Parser.mem_messages_of_steps {p q : Parser} {message : String} (h : p.Steps q)
    (hm : message ∈ p.messages) : message ∈ q.messages := by
  obtain ⟨l, hl⟩ := h.errors
  simp only [Parser.messages, hl, List.map_append, List.mem_append]
  exact .inl hm

theorem Parser.mem_messages_error (p : Parser) (place : Idx) (message : String) :
    message ∈ (p.error place message).messages := by
  simp [Parser.error_messages]

theorem Parser.invalidLeftHandSide_messages (p : Parser) (idx : Idx) :
    "Invalid left-hand side in assignment" ∈ (p.invalidLeftHandSide idx).messages :=
  Parser.mem_messages_of_steps (Parser.Steps.refl _).nextStatement
    (Parser.mem_messages_error p idx _)

theorem parsePostfixExpression_reject (n : Nat) (p q : Parser) (operand : Expression)
    (h : parseLeftHandSideExpressionAllowCall n p = some (operand, q))
    (ht : q.token = .INCREMENT ∨ q.token = .DECREMENT) (hi : q.implicitSemicolon = false)
    (hr : operand.isReference = false) :
    parsePostfixExpression (n + 1) p =
      some (.BadExpression q.idx (q.next.invalidLeftHandSide q.idx).idx,
        q.next.invalidLeftHandSide q.idx) := by
  rw [parsePostfixExpression, h]
  simp [ht, hi, hr, Parser.invalidLeftHandSide]

theorem parseUnaryExpression_reject (n : Nat) (p q : Parser) (operand : Expression)
    (ht : p.token = .INCREMENT ∨ p.token = .DECREMENT)
    (h : parseUnaryExpression n p.next = some (operand, q))
    (hr : operand.isReference = false) :
    parseUnaryExpression (n + 1) p =
      some (.BadExpression p.idx (q.invalidLeftHandSide p.idx).idx,
        q.invalidLeftHandSide p.idx) := by
  rw [parseUnaryExpression]
  rcases ht with ht | ht <;> simp [ht, h, hr, Parser.invalidLeftHandSide]

theorem parseAssignmentExpression_reject (n : Nat) (p q : Parser) (left : Expression)
    (operator : Token) (h : parseConditionlExpression n p = some (left, q))
    (ho : assignmentOperator q.token = some operator) (hr : left.isReference = false) :
    ∃ idx0, left.Idx0 = some idx0 ∧
      parseAssignmentExpression (n + 1) p =
        some (.BadExpression q.idx (q.next.invalidLeftHandSide idx0).idx,
          q.next.invalidLeftHandSide idx0) := by
  have hd : left.Idx0.isSome = true := (definedIH n).parseConditionlExpression p _ h
  obtain ⟨idx0, h0⟩ := Option.isSome_iff_exists.1 hd
  refine ⟨idx0, h0, ?_⟩
  rw [parseAssignmentExpression, h]
  simp [ho, hr, h0, Parser.invalidLeftHandSide]

theorem Parse_targetIsReference {n : Nat} {filename : String} {source : List Nat}
    {scanner : Scanner} {r : Program × Option Error}
    (h : Parse n filename source scanner = some r) :
    r.1.All Expression.targetIsReference (fun _ _ => True) := by
  refine Program.All.mono_program ?_ (fun _ _ _ => trivial) _ (Parse_ok h)
  intro e he
  cases e <;> first | exact he | trivial

/-! ## Return statements -/

theorem parseReturnStatement_reject (n : Nat) (p : Parser)
    (h : p.currentScope.inFunction = false) :
    parseReturnStatement (n + 1) p =
      some (.BadStatement p.idx
          (((p.expect .RETURN).2.error p.idx "Illegal return statement").nextStatement).idx,
        ((p.expect .RETURN).2.error p.idx "Illegal return statement").nextStatement) := by
  have hc : (p.expect .RETURN).2.currentScope = p.currentScope :=
    Parser.currentScope_of_scope (by simp)
  rw [parseReturnStatement]
  simp only [hc, h]
  rfl

theorem parseReturnStatement_accept (n : Nat) (p : Parser) (r : Statement × Parser)
    (h : p.currentScope.inFunction = true) (hr : parseReturnStatement n p = some r) :
    ∃ idx argument, r.1 = .ReturnStatement idx argument := by
  have hc : (p.expect .RETURN).2.currentScope = p.currentScope :=
    Parser.currentScope_of_scope (by simp)
  cases n with
  | zero => simp [parseReturnStatement] at hr
  | succ n =>
    rw [parseReturnStatement] at hr
    simp only [hc, h, Bool.not_true, Bool.false_eq_true, if_false] at hr
    split_ifs at hr
    · simp only [bind, Option.bind_eq_some, pure, Option.some.injEq] at hr
      obtain ⟨a, -, ha⟩ := hr
      cases ha
      exact ⟨_, _, rfl⟩
    · cases hr
      exact ⟨_, _, rfl⟩

theorem parseFunction_inFunction (n : Nat) (declaration : Bool) (p : Parser)
    (r : Expression × Parser) (h : parseFunction n declaration p = some r) :
    r.2.currentScope.inFunction = p.currentScope.inFunction :=
  congrArg Context.inFunction ((reachIH n).parseFunction declaration p r h).same_context

theorem Parse_returnInFunction {n : Nat} {filename : String} {source : List Nat}
    {scanner : Scanner} {r : Program × Option Error}
    (h : Parse n filename source scanner = some r) :
    r.1.All (fun _ => True) Statement.returnInFunction := by
  refine Program.All.mono_program (fun _ _ => trivial) ?_ _ (Parse_ok h)
  intro c s hs
  cases s <;> first | exact hs | trivial

/-! ## Try statements -/

theorem parseTryStatement_reject (n : Nat) (p q : Parser) (body : Statement)
    (h : parseBlockStatement n (p.expect .TRY).2 = some (body, q))
    (hc : q.token ≠ .CATCH) (hf : q.token ≠ .FINALLY) :
    ∃ idx1, body.Idx1 = some idx1 ∧
      parseTryStatement (n + 1) p =
        some (.BadStatement p.idx idx1,
          q.error p.idx "Missing catch or finally after try") := by
  obtain ⟨idx1, h1⟩ := Statement.idx1_of_isBlock
    ((definedIH n).parseBlockStatement _ _ h)
  refine ⟨idx1, h1, ?_⟩
  cases n with
  | zero => simp [parseBlockStatement] at h
  | succ n =>
    rw [parseTryStatement]
    dsimp only
    rw [h]
    simp only [bind, Option.bind, hc, if_false]
    rw [parseTryStatementFinally]
    simp only [Prod.fst] at h1
    simp [hf, h1, Parser.expect]

theorem Parse_tryHasHandler {n : Nat} {filename : String} {source : List Nat}
    {scanner : Scanner} {r : Program × Option Error}
    (h : Parse n filename source scanner = some r) :
    r.1.All (fun _ => True) Statement.tryHasHandler := by
  refine Program.All.mono_program (fun _ _ => trivial) ?_ _ (Parse_ok h)
  intro c s hs
  cases s <;> first | exact hs.1 | trivial

/-! ## Default clauses -/

theorem CaseStatement.isDefault_iff (c : CaseStatement) :
    c.isDefault = true ↔ c.Test = none := by
  simp [CaseStatement.isDefault, Option.isNone_iff_eq_none]

theorem countDefaults_eq_zero {b : List CaseStatement} (h : countDefaults b = 0) :
    ∀ c ∈ b, c.Test ≠ none := by
  intro c hc ht
  have hm : c ∈ b.filter (·.isDefault) :=
    List.mem_filter.2 ⟨hc, (CaseStatement.isDefault_iff c).2 ht⟩
  rw [countDefaults, List.length_eq_zero] at h
  rw [h] at hm
  cases hm

theorem countDefaults_of_none {b : List CaseStatement} (h : ∀ c ∈ b, c.Test ≠ none) :
    countDefaults b = 0 := by
  rw [countDefaults, List.length_eq_zero, List.filter_eq_nil_iff]
  intro c hc hd
  exact h c hc ((CaseStatement.isDefault_iff c).1 hd)

theorem lastDefault_index (b : List CaseStatement) (h : countDefaults b ≤ 1) (i : Nat)
    (c : CaseStatement) (hi : b[i]? = some c) (hc : c.Test = none) :
    lastDefault b = i := by
  induction b using List.reverseRecOn generalizing i c with
  | nil => simp at hi
  | append_singleton b d ih =>
    rw [countDefaults_append] at h
    rw [lastDefault_append]
    by_cases hd : d.isDefault = true
    · rw [if_pos hd] at h ⊢
      have h0 : countDefaults b = 0 := by omega
      rcases Nat.lt_or_ge i b.length with hl | hl
      · rw [List.getElem?_append_left hl] at hi
        exact absurd hc (countDefaults_eq_zero h0 c (List.mem_iff_getElem?.2 ⟨i, hi⟩))
      · have : i = b.length := by
          have := (List.getElem?_eq_some_iff.1 hi).1
          simp only [List.length_append, List.length_singleton] at this
          omega
        rw [this]
    · rw [if_neg hd] at h ⊢
      rcases Nat.lt_or_ge i b.length with hl | hl
      · rw [List.getElem?_append_left hl] at hi
        exact ih (by omega) i c hi hc
      · have hl' : i = b.length := by
          have := (List.getElem?_eq_some_iff.1 hi).1
          simp only [List.length_append, List.length_singleton] at this
          omega
        subst hl'
        simp at hi
        subst hi
        exact absurd ((CaseStatement.isDefault_iff _).2 hc) hd

theorem lastDefault_ne_iff (b : List CaseStatement) :
    lastDefault b ≠ -1 ↔ 0 < countDefaults b := by
  rcases lastDefault_nonneg_or b with h | h <;> omega

theorem parseSwitchStatementLoop_second (n : Nat) (body : List CaseStatement)
    (p q : Parser) (clause : CaseStatement) (h1 : p.token ≠ .EOF)
    (h2 : p.token ≠ .RIGHT_BRACE) (hc : parseCaseStatement n p = some (clause, q))
    (ht : clause.Test = none) (hd : 0 < countDefaults body) :
    parseSwitchStatementLoop (n + 1) body.length (lastDefault body) body p =
      parseSwitchStatementLoop n (body.length + 1) body.length (body ++ [clause])
        (q.error clause.Case "Already saw a default in switch") := by
  have hl := (lastDefault_ne_iff body).2 hd
  rw [parseSwitchStatementLoop]
  simp [h1, h2, hc, ht, hl]

theorem Parse_oneDefault {n : Nat} {filename : String} {source : List Nat}
    {scanner : Scanner} {program : Program}
    (h : Parse n filename source scanner = some (program, none)) :
    program.All (fun _ => True) Statement.oneDefault := by
  refine Program.All.mono_program (fun _ _ => trivial) ?_ _ (Parse_ok h)
  intro c s hs
  cases s <;> try trivial
  rename_i sw d df body
  obtain ⟨h1, h2⟩ := hs
  have hk := h2 rfl
  refine ⟨hk, fun i c hi hc => ?_, fun hn => ?_⟩
  · rw [h1, lastDefault_index body hk i c hi hc]
  · rw [h1]
    rcases lastDefault_nonneg_or body with h3 | h3
    · exact h3.1
    · have := countDefaults_of_none hn
      omega

theorem Token.precedence_le (t : Token) : t.precedence ≤ 10 := by
  cases t <;> decide

theorem Parse_body (n : Nat) (filename : String) (source : List Nat) (sc : Scanner) :
    (Parse n filename source sc).map (fun r => (r.1.Body, r.2)) =
      ((parseProgram n (newParser filename source sc).next).map
        (fun a => (a.1.Body, a.2.errors))).map (fun b => (b.1, b.2.head?)) := by
  simp only [Parse, Parser.parse, Parser.parseState, Option.map_map]
  rfl

/-! ## Function declarations and function expressions -/

theorem Parser.addFunction_congr {p q : Parser} (h : q.scope = p.scope) (name : String)
    (definition : Definition) :
    (q.addFunction name definition).scope = (p.addFunction name definition).scope := by
  unfold Parser.addFunction Parser.modifyScope
  cases hp : p.scope with
  | nil => rw [hp] at h; simp [h, hp]
  | cons s outer => rw [hp] at h; simp [h, hp]

/-- The run of `_parseFunction` leaves the scope stack as it was; the `FunctionList` it gives
the node starts with the name of a named function expression. -/
theorem _parseFunction_scope (n : Nat) (name : String) (declaration : Bool) (p : Parser)
    (r : (Statement × List Declaration × List Declaration) × Parser)
    (h : _parseFunction n name declaration p = some r) :
    r.2.scope = p.scope ∧
      ∃ l, r.1.2.2 =
        (if !declaration ∧ name ≠ "" then [Declaration.mk name .self] else []) ++ l := by
  cases n with
  | zero => simp [_parseFunction] at h
  | succ n =>
    rw [_parseFunction] at h
    simp only [bind, Option.bind_eq_some, pure, Option.some.injEq] at h
    obtain ⟨a, h1, h2⟩ := h
    cases h2
    have r1 := (reachIH n).parseBlockStatement _ a h1
    have fr := r1.2.1
    by_cases c : (!declaration) = true ∧ name ≠ ""
    · rw [if_pos c] at fr
      rw [if_pos c]
      refine ⟨@Frame.of_closeScope _ _
        { ({ allowIn := true } : Scope) with
          functionList := [.mk name .self], inFunction := true } p.scope
        (by simp [Parser.modifyScope, Parser.addFunction]) fr _, ?_⟩
      rw [if_pos c]
      simp only [Parser.modifyScope, Parser.addFunction, Parser.openScope] at fr
      cases hs : a.2.scope with
      | nil => rw [hs] at fr; simp [Frame] at fr
      | cons s t =>
        rw [hs] at fr
        obtain ⟨l, hl⟩ := fr.1.2.2.2.2.2.2
        exact ⟨l, by simpa [Parser.currentScope, hs] using hl⟩
    · rw [if_neg c] at fr
      rw [if_neg c]
      refine ⟨@Frame.of_closeScope _ _
        { ({ allowIn := true } : Scope) with inFunction := true } p.scope
        (by simp [Parser.modifyScope]) fr _, ?_⟩
      rw [if_neg c]
      exact ⟨_, (List.nil_append _).symm⟩

/-- The scope stack `parseFunction` leaves: that of `self`, with the declaration of the
function added if it parsed a function declaration with a name. -/
theorem parseFunction_scope (n : Nat) (declaration : Bool) (p : Parser)
    (r : Expression × Parser) (h : parseFunction n declaration p = some r) :
    r.2.scope =
      if (p.expect .FUNCTION).2.token = .IDENTIFIER ∧ declaration = true then
        (p.addFunction (p.expect .FUNCTION).2.literal (.node r.1)).scope
      else p.scope := by
  cases n with
  | zero => simp [parseFunction] at h
  | succ n =>
    rw [parseFunction] at h
    simp only [bind, Option.bind_eq_some, pure, Option.some.injEq] at h
    obtain ⟨a, h1, i1, h2, h3⟩ := h
    cases h3
    have hs := (_parseFunction_scope n _ _ _ a h1).1
    have hp : a.2.scope = p.scope := by
      rw [hs, Parser.parseFunctionParameterList_scope]
      split
      · simp
      · split <;> simp
    dsimp only
    by_cases c : (p.expect .FUNCTION).2.token = .IDENTIFIER ∧ declaration = true
    · rw [if_pos c, if_pos c, if_pos c.1]
      exact Parser.addFunction_congr hp _ _
    · rw [if_neg c, if_neg c]
      exact hp

theorem parseStatement_function (n : Nat) (p : Parser) (h : p.token = .FUNCTION) :
    parseStatement (n + 1) p =
      (parseFunction n true p).map (fun r => (Statement.EmptyStatement 0, r.2)) := by
  rw [parseStatement]
  simp only [h, reduceCtorEq, if_false, ↓reduceIte]
  cases parseFunction n true p <;> rfl

theorem parseFunction_own_name (n : Nat) (p : Parser) (r : Expression × Parser)
    (h : parseFunction n false p = some r)
    (ht : (p.expect .FUNCTION).2.token = .IDENTIFIER)
    (hl : (p.expect .FUNCTION).2.literal ≠ "") :
    ∃ function body source parameterList l variableList,
      r.1 = .FunctionExpression function body source parameterList
        (.mk (p.expect .FUNCTION).2.literal .self :: l) variableList := by
  cases n with
  | zero => simp [parseFunction] at h
  | succ n =>
    rw [parseFunction] at h
    simp only [bind, Option.bind_eq_some, pure, Option.some.injEq] at h
    obtain ⟨a, h1, i1, h2, h3⟩ := h
    cases h3
    obtain ⟨l, hl2⟩ := (_parseFunction_scope n _ _ _ a h1).2
    rw [if_pos ht, if_pos ⟨rfl, hl⟩] at hl2
    exact ⟨_, _, _, _, l, _, by rw [hl2]; rfl⟩

/-! ## A line terminator behind `return`, `break`, `continue` and `throw` -/

theorem Parser.expect_of_token {p : Parser} {value : Token} (h : p.token = value) :
    p.expect value = (p.idx, p.next) := by
  simp [Parser.expect, h]

theorem Parser.semicolon_of_implicit {q : Parser} (h : q.implicitSemicolon = true) :
    q.semicolon =
      if q.token ≠ .RIGHT_PARENTHESIS ∧ q.token ≠ .RIGHT_BRACE then
        { q with implicitSemicolon := false }
      else q := by
  simp [Parser.semicolon, h]

theorem parseReturnStatement_newline (n : Nat) (p : Parser) (ht : p.token = .RETURN)
    (hf : p.currentScope.inFunction = true) (hi : p.next.implicitSemicolon = true) :
    parseReturnStatement (n + 1) p =
      some (.ReturnStatement p.idx none,
        if p.next.token ≠ .RIGHT_PARENTHESIS ∧ p.next.token ≠ .RIGHT_BRACE then
          { p.next with implicitSemicolon := false }
        else p.next) := by
  have hc : p.next.currentScope = p.currentScope :=
    Parser.currentScope_of_scope (Parser.next_scope p)
  rw [parseReturnStatement, Parser.expect_of_token ht]
  simp only [hc, hf, hi, Bool.not_true, Bool.false_eq_true, if_false, false_and,
    Parser.semicolon_of_implicit hi]

theorem parseBreakStatement_newline (p : Parser) (ht : p.token = .BREAK)
    (hl : p.currentScope.inIteration = true ∨ p.currentScope.inSwitch = true)
    (hi : p.next.implicitSemicolon = true) :
    p.parseBreakStatement =
      (.BranchStatement p.idx .BREAK none,
        if p.next.token = .SEMICOLON then { p.next.next with implicitSemicolon := false }
        else { p.next with implicitSemicolon := false }) := by
  have hc : p.next.currentScope = p.currentScope :=
    Parser.currentScope_of_scope (Parser.next_scope p)
  have hc2 : p.next.next.currentScope = p.currentScope :=
    Parser.currentScope_of_scope (by rw [Parser.next_scope, Parser.next_scope])
  rw [Parser.parseBreakStatement, Parser.expect_of_token ht]
  by_cases c : p.next.token = .SEMICOLON
  · rcases hl with hl | hl <;>
      simp [c, hi, Parser.currentScope, Parser.next_scope] <;>
      simp [Parser.currentScope] at hl <;> simp [hl]
  · rcases hl with hl | hl <;>
      simp [c, hi, Parser.currentScope, Parser.next_scope] <;>
      simp [Parser.currentScope] at hl <;> simp [hl]

theorem parseContinueStatement_newline (p : Parser) (ht : p.token = .CONTINUE)
    (hl : p.currentScope.inIteration = true) (hi : p.next.implicitSemicolon = true) :
    p.parseContinueStatement =
      (.BranchStatement p.idx .CONTINUE none,
        if p.next.token = .SEMICOLON then { p.next.next with implicitSemicolon := false }
        else { p.next with implicitSemicolon := false }) := by
  rw [Parser.parseContinueStatement, Parser.expect_of_token ht]
  by_cases c : p.next.token = .SEMICOLON <;>
    simp [c, hi, Parser.currentScope, Parser.next_scope] <;>
    simp [Parser.currentScope] at hl <;> simp [hl]

theorem parseThrowStatement_newline (n : Nat) (p : Parser) (ht : p.token = .THROW)
    (hi : p.next.implicitSemicolon = true) :
    parseThrowStatement (n + 1) p =
      some (.BadStatement p.idx
          ((p.next.error p.idx
            (if p.next.chr = -1 then "Unexpected end of input"
              else "Illegal newline after throw")).nextStatement).idx,
        (p.next.error p.idx
          (if p.next.chr = -1 then "Unexpected end of input"
            else "Illegal newline after throw")).nextStatement) := by
  rw [parseThrowStatement, Parser.expect_of_token ht]
  simp only [hi, if_true]
  split <;> rfl

theorem parseThrowStatement_argument (n : Nat) (p : Parser) (r : Statement × Parser)
    (hi : (p.expect .THROW).2.implicitSemicolon = false)
    (h : parseThrowStatement (n + 1) p = some r) :
    ∃ a, parseExpression n (p.expect .THROW).2 = some a ∧
      r = (.ThrowStatement 0 a.1, a.2.semicolon) := by
  rw [parseThrowStatement] at h
  simp only [hi, Bool.false_eq_true, if_false, bind, Option.bind_eq_some, pure,
    Option.some.injEq] at h
  obtain ⟨a, h1, h2⟩ := h
  exact ⟨a, h1, h2.symm⟩

/-! ## `for` and `for-in` -/

theorem parseForOrForIn_expression (n : Nat) (p s : Parser) (e : Expression)
    (h1 : p.forHead.token ≠ .SEMICOLON) (h2 : p.forHead.token ≠ .VAR)
    (he : parseExpression n (p.forHead.modifyScope fun s => { s with allowIn := false }) =
      some (e, s)) :
    parseForOrForInStatement (n + 1) p =
      if s.token = .IN then
        if e.isForInTarget then parseForIn n e (s.next.forInit p.forHead)
        else some ((s.next.forInit p.forHead).invalidForIn p.idx)
      else
        parseFor n (.SequenceExpression [e]) ((s.forInit p.forHead).expect .SEMICOLON).2 := by
  rw [parseForOrForInStatement]
  simp only [Parser.forHead] at h1 h2 he
  have hi : (p.expect .FOR).1 = p.idx := rfl
  by_cases c : s.token = .IN
  · by_cases t : e.isForInTarget = true <;>
      simp [h1, h2, he, c, t, hi, Parser.forHead, Parser.forInit, Parser.invalidForIn]
  · simp [h1, h2, he, c, hi, Parser.forHead, Parser.forInit]

theorem parseForOrForIn_var (n : Nat) (p s : Parser) (list : List Expression)
    (h2 : p.forHead.token = .VAR)
    (he : parseVariableDeclarationList n []
      (p.forHead.modifyScope fun s => { s with allowIn := false }).next = some (list, s)) :
    parseForOrForInStatement (n + 1) p =
      if list.length = 1 ∧ s.token = .IN then
        match list with
        | [] => none
        | into :: _ =>
          if into.isForInTarget then parseForIn n into (s.next.forInit p.forHead)
          else some ((s.next.forInit p.forHead).invalidForIn p.idx)
      else
        parseFor n (.SequenceExpression list) ((s.forInit p.forHead).expect .SEMICOLON).2 := by
  rw [parseForOrForInStatement]
  simp only [Parser.forHead] at h2 he
  have hi : (p.expect .FOR).1 = p.idx := rfl
  by_cases c : list.length = 1 ∧ s.token = .IN
  · obtain ⟨d, rfl⟩ := List.length_eq_one.1 c.1
    by_cases t : d.isForInTarget = true <;>
      simp [h2, he, c.2, t, hi, Parser.forHead, Parser.forInit, Parser.invalidForIn]
  · rw [if_neg c]
    simp [h2, he, c, hi, Parser.forHead, Parser.forInit]

theorem parseForOrForIn_empty (n : Nat) (p : Parser) (h1 : p.forHead.token = .SEMICOLON) :
    parseForOrForInStatement (n + 1) p =
      parseFor n (.SequenceExpression []) (p.forHead.expect .SEMICOLON).2 := by
  rw [parseForOrForInStatement]
  simp only [Parser.forHead] at h1
  simp [h1, Parser.forHead]

theorem parseFor_statement (n : Nat) (initializer : Expression) (p : Parser)
    (r : Statement × Parser) (h : parseFor n initializer p = some r) :
    ∃ update test body, r.1 = .ForStatement 0 initializer update test body := by
  cases n with
  | zero => simp [parseFor] at h
  | succ n =>
    rw [parseFor] at h
    dsimp only at h
    by_cases c : p.token ≠ .SEMICOLON
    · rw [if_pos c] at h
      simp only [bind, pure, Option.some_bind, Option.bind_eq_some] at h
      obtain ⟨a, h1, h2⟩ := h
      by_cases c2 : (a.2.expect .SEMICOLON).2.token ≠ .RIGHT_PARENTHESIS
      · rw [if_pos c2] at h2
        simp only [Option.bind_eq_some, Option.some.injEq] at h2
        obtain ⟨x, h3, e, h4, h5⟩ := h2
        cases h5
        exact ⟨_, _, _, rfl⟩
      · rw [if_neg c2] at h2
        simp only [Option.bind_eq_some, Option.some.injEq] at h2
        obtain ⟨e, h4, h5⟩ := h2
        cases h5
        exact ⟨_, _, _, rfl⟩
    · rw [if_neg c] at h
      simp only [bind, pure, Option.some_bind, Option.bind_eq_some] at h
      by_cases c2 : (p.expect .SEMICOLON).2.token ≠ .RIGHT_PARENTHESIS
      · rw [if_pos c2] at h
        simp only [Option.bind_eq_some, Option.some.injEq] at h
        obtain ⟨x, h3, e, h4, h5⟩ := h
        cases h5
        exact ⟨_, _, _, rfl⟩
      · rw [if_neg c2] at h
        simp only [Option.bind_eq_some, Option.some.injEq] at h
        obtain ⟨e, h4, h5⟩ := h
        cases h5
        exact ⟨_, _, _, rfl⟩

theorem parseForIn_statement (n : Nat) (into : Expression) (p : Parser)
    (r : Statement × Parser) (h : parseForIn n into p = some r) :
    ∃ source body, r.1 = .ForInStatement 0 into source body := by
  cases n with
  | zero => simp [parseForIn] at h
  | succ n =>
    rw [parseForIn] at h
    simp only [bind, Option.bind_eq_some, pure, Option.some.injEq] at h
    obtain ⟨a, -, c, -, h2⟩ := h
    cases h2
    exact ⟨_, _, rfl⟩

theorem Parse_forInTarget {n : Nat} {filename : String} {source : List Nat}
    {scanner : Scanner} {r : Program × Option Error}
    (h : Parse n filename source scanner = some r) :
    r.1.All (fun _ => True) Statement.forInTarget := by
  refine Program.All.mono_program (fun _ _ => trivial) ?_ _ (Parse_ok h)
  intro c s hs
  cases s <;> first | exact hs | trivial

theorem parseForOrForIn_var_single (n : Nat) (p s : Parser) (into : Expression)
    (h2 : p.forHead.token = .VAR)
    (he : parseVariableDeclarationList n []
      (p.forHead.modifyScope fun s => { s with allowIn := false }).next = some ([into], s))
    (hin : s.token = .IN) :
    parseForOrForInStatement (n + 1) p =
      if into.isForInTarget then parseForIn n into (s.next.forInit p.forHead)
      else some ((s.next.forInit p.forHead).invalidForIn p.idx) := by
  rw [parseForOrForIn_var n p s [into] h2 he, if_pos ⟨rfl, hin⟩]

theorem parseForOrForIn_var_list (n : Nat) (p s : Parser) (list : List Expression)
    (h2 : p.forHead.token = .VAR)
    (he : parseVariableDeclarationList n []
      (p.forHead.modifyScope fun s => { s with allowIn := false }).next = some (list, s))
    (hl : list.length ≠ 1 ∨ s.token ≠ .IN) :
    parseForOrForInStatement (n + 1) p =
      parseFor n (.SequenceExpression list) ((s.forInit p.forHead).expect .SEMICOLON).2 := by
  rw [parseForOrForIn_var n p s list h2 he, if_neg (by tauto)]

theorem Parser.invalidForIn_messages (q : Parser) (idx : Idx) :
    (∃ stop, (q.invalidForIn idx).1 = .BadStatement idx stop) ∧
      "Invalid left-hand side in for-in" ∈ (q.invalidForIn idx).2.messages :=
  ⟨⟨_, rfl⟩, Parser.mem_messages_of_steps (Parser.Steps.refl _).nextStatement
    (Parser.mem_messages_error _ _ _)⟩

theorem Parser.expect_semicolon_at_in (q : Parser) (h : q.token = .IN) :
    "Unexpected token in" ∈ (q.expect .SEMICOLON).2.messages := by
  have e : (q.expect .SEMICOLON).2 = (q.error q.idx "Unexpected token in").next := by
    simp [Parser.expect, h, Parser.errorUnexpectedToken, Token.String]
  rw [e]
  exact Parser.mem_messages_of_steps (Parser.steps_next _) (Parser.mem_messages_error _ _ _)

/-! ## The `Comparison` flag -/

theorem Parse_comparisonBuilt {n : Nat} {filename : String} {source : List Nat}
    {scanner : Scanner} {r : Program × Option Error}
    (h : Parse n filename source scanner = some r) :
    r.1.All Expression.comparisonBuilt (fun _ _ => True) := by
  refine Program.All.mono_program ?_ (fun _ _ _ => trivial) _ (Parse_ok h)
  intro e he
  cases e <;> first | exact he | trivial

/-! ### Positions: `lineCount` and the line terminators of the source -/

theorem lastByte_eq (l : List (Nat × Nat)) (last : Int) :
    lastByte l last = match l.getLast? with
      | some t => (t.2 : Int) - 1
      | none => last := by
  induction l generalizing last with
  | nil => rfl
  | cons a l ih =>
    rw [lastByte, List.foldl_cons]
    have := ih ((a.2 : Int) - 1)
    rw [lastByte] at this
    rw [this]
    cases l with
    | nil => rfl
    | cons b l =>
      rw [List.getLast?_cons_cons]
      obtain ⟨x, hx⟩ : ∃ x, (b :: l).getLast? = some x :=
        ⟨_, List.getLast?_eq_getLast _ (List.cons_ne_nil b l)⟩
      rw [hx]

theorem lastByte_cons (t : Nat × Nat) (l : List (Nat × Nat)) (last : Int) :
    lastByte (t :: l) last = lastByte l ((t.2 : Int) - 1) := rfl

/-- The flag `pair` only matters in front of a line feed. -/
theorem lineCountFrom_pair (s : List Nat) (index : Nat) (line last : Int)
    (h : ∀ rest, s = 0x0A :: rest → False) :
    lineCountFrom s index line last true = lineCountFrom s index line last false := by
  unfold lineCountFrom
  split
  · rfl
  · rfl
  · exact (h _ rfl).elim
  · rfl
  · rfl
  · rfl

/-- `lineCount` counts the line terminators and returns the last byte of the last one. -/
theorem lineCountFrom_eq (s : List Nat) (index : Nat) (line last : Int) :
    lineCountFrom s index line last false =
      (line + (lineTerminatorsFrom s index).length,
        lastByte (lineTerminatorsFrom s index) last) := by
  induction s, index using lineTerminatorsFrom.induct generalizing line last with
  | case1 index => simp [lineCountFrom, lineTerminatorsFrom, lastByte]
  | case2 rest index ih =>
    rw [lineCountFrom, lineCountFrom, ih, lineTerminatorsFrom]
    simp only [lastByte_cons, List.length_cons]
    congr 1
    · push_cast; ring
    · congr 1; push_cast; ring
  | case3 rest index h ih =>
    rw [lineCountFrom, lineCountFrom_pair _ _ _ _ h, ih, lineTerminatorsFrom.eq_3 _ _ h]
    simp only [lastByte_cons, List.length_cons]
    congr 1
    · push_cast; ring
    · congr 1; push_cast; ring
  | case4 rest index ih =>
    rw [lineCountFrom, ih, lineTerminatorsFrom]
    simp only [lastByte_cons, List.length_cons]
    congr 1
    · push_cast; ring
    · congr 1; push_cast; ring
  | case5 rest index ih =>
    rw [lineCountFrom, ih, lineTerminatorsFrom]
    simp only [lastByte_cons, List.length_cons]
    congr 1
    · push_cast; ring
    · congr 1; push_cast; ring
  | case6 rest index ih =>
    rw [lineCountFrom, ih, lineTerminatorsFrom]
    simp only [lastByte_cons, List.length_cons]
    congr 1
    · push_cast; ring
    · congr 1; push_cast; ring
  | case7 head rest index h1 h2 h3 h4 h5 ih =>
    rw [lineCountFrom.eq_6 _ _ _ _ _ _ h2 h3 h4 h5, ih,
      lineTerminatorsFrom.eq_7 _ _ _ h1 h2 h3 h4 h5]

/-- A line terminator lies in the source and is not empty. -/
theorem lineTerminatorsFrom_bounds (s : List Nat) (index : Nat) :
    ∀ t ∈ lineTerminatorsFrom s index,
      index ≤ t.1 ∧ t.1 < t.2 ∧ t.2 ≤ index + s.length := by
  induction s, index using lineTerminatorsFrom.induct with
  | case1 index => simp [lineTerminatorsFrom]
  | case2 rest index ih =>
    intro t ht
    rw [lineTerminatorsFrom, List.mem_cons] at ht
    rcases ht with rfl | ht
    · simp
    · have := ih t ht
      simp only [List.length_cons]
      omega
  | case3 rest index h ih =>
    intro t ht
    rw [lineTerminatorsFrom.eq_3 _ _ h, List.mem_cons] at ht
    rcases ht with rfl | ht
    · simp
    · have := ih t ht
      simp only [List.length_cons]
      omega
  | case4 rest index ih =>
    intro t ht
    rw [lineTerminatorsFrom, List.mem_cons] at ht
    rcases ht with rfl | ht
    · simp
    · have := ih t ht
      simp only [List.length_cons]
      omega
  | case5 rest index ih =>
    intro t ht
    rw [lineTerminatorsFrom, List.mem_cons] at ht
    rcases ht with rfl | ht
    · simp
    · have := ih t ht
      simp only [List.length_cons]
      omega
  | case6 rest index ih =>
    intro t ht
    rw [lineTerminatorsFrom, List.mem_cons] at ht
    rcases ht with rfl | ht
    · simp
    · have := ih t ht
      simp only [List.length_cons]
      omega
  | case7 head rest index h1 h2 h3 h4 h5 ih =>
    intro t ht
    rw [lineTerminatorsFrom.eq_7 _ _ _ h1 h2 h3 h4 h5] at ht
    have := ih t ht
    simp only [List.length_cons]
    omega

/-- The line terminators come in the order of the source and do not overlap. -/
theorem lineTerminatorsFrom_sorted (s : List Nat) (index : Nat) :
    (lineTerminatorsFrom s index).Pairwise fun a b => a.2 ≤ b.1 := by
  induction s, index using lineTerminatorsFrom.induct with
  | case1 index => simp [lineTerminatorsFrom]
  | case2 rest index ih =>
    rw [lineTerminatorsFrom, List.pairwise_cons]
    exact ⟨fun t ht => (lineTerminatorsFrom_bounds _ _ t ht).1, ih⟩
  | case3 rest index h ih =>
    rw [lineTerminatorsFrom.eq_3 _ _ h, List.pairwise_cons]
    exact ⟨fun t ht => (lineTerminatorsFrom_bounds _ _ t ht).1, ih⟩
  | case4 rest index ih =>
    rw [lineTerminatorsFrom, List.pairwise_cons]
    exact ⟨fun t ht => (lineTerminatorsFrom_bounds _ _ t ht).1, ih⟩
  | case5 rest index ih =>
    rw [lineTerminatorsFrom, List.pairwise_cons]
    exact ⟨fun t ht => (lineTerminatorsFrom_bounds _ _ t ht).1, ih⟩
  | case6 rest index ih =>
    rw [lineTerminatorsFrom, List.pairwise_cons]
    exact ⟨fun t ht => (lineTerminatorsFrom_bounds _ _ t ht).1, ih⟩
  | case7 head rest index h1 h2 h3 h4 h5 ih =>
    rw [lineTerminatorsFrom.eq_7 _ _ _ h1 h2 h3 h4 h5]
    exact ih

/-- No line terminator ends at the offset of the first byte or before. -/
theorem lineTerminatorsFrom_filter_nil (s : List Nat) (index o : Nat) (h : o ≤ index) :
    (lineTerminatorsFrom s index).filter (fun t => t.2 ≤ o) = [] := by
  rw [List.filter_eq_nil_iff]
  intro t ht
  have := lineTerminatorsFrom_bounds s index t ht
  simp only [decide_eq_true_eq]
  omega

theorem take_eq_cons {k : Nat} {s r : List Nat} {a : Nat} (h : s.take k = a :: r) :
    ∃ tl, s = a :: tl ∧ r = tl.take (k - 1) := by
  cases k with
  | zero => simp at h
  | succ k =>
    cases s with
    | nil => simp at h
    | cons b s =>
      rw [List.take_succ_cons, List.cons.injEq] at h
      exact ⟨s, by rw [h.1], by simp [h.2]⟩

theorem take_eq_cons_cons {k : Nat} {s r : List Nat} {a b : Nat}
    (h : s.take k = a :: b :: r) : ∃ tl, s = a :: b :: tl := by
  obtain ⟨r1, rfl, h1⟩ := take_eq_cons h
  obtain ⟨r2, rfl, _⟩ := take_eq_cons h1.symm
  exact ⟨r2, rfl⟩

/-- The line terminators of `source[0:o]` are those of the source that end at `o` or
before, if `o` does not fall inside a line terminator. -/
theorem lineTerminatorsFrom_take (s : List Nat) (index o : Nat) (ho : index ≤ o)
    (hi : ∀ t ∈ lineTerminatorsFrom s index, ¬ (t.1 < o ∧ o < t.2)) :
    lineTerminatorsFrom (s.take (o - index)) index =
      (lineTerminatorsFrom s index).filter (fun t => t.2 ≤ o) := by
  induction s, index using lineTerminatorsFrom.induct with
  | case1 index => simp [lineTerminatorsFrom]
  | case2 rest index ih =>
    rcases Nat.eq_or_lt_of_le ho with rfl | hlt
    · rw [lineTerminatorsFrom_filter_nil _ _ _ (le_refl _)]
      simp [lineTerminatorsFrom]
    · rw [lineTerminatorsFrom] at hi ⊢
      have h0 := hi _ (List.mem_cons_self _ _)
      have h2 : index + 2 ≤ o := by simp only at h0; omega
      obtain ⟨k, rfl⟩ : ∃ k, o = index + 2 + k := ⟨o - (index + 2), by omega⟩
      have e : index + 2 + k - index = k + 2 := by omega
      rw [e, List.take_succ_cons, List.take_succ_cons, lineTerminatorsFrom,
        List.filter_cons_of_pos (by simp)]
      congr 1
      have := ih (by omega) fun t ht => hi t (List.mem_cons_of_mem _ ht)
      rw [← this]
      congr 2
      omega
  | case3 rest index h ih =>
    rcases Nat.eq_or_lt_of_le ho with rfl | hlt
    · rw [lineTerminatorsFrom_filter_nil _ _ _ (le_refl _)]
      simp [lineTerminatorsFrom]
    · rw [lineTerminatorsFrom.eq_3 _ _ h] at hi ⊢
      obtain ⟨k, rfl⟩ : ∃ k, o = index + 1 + k := ⟨o - (index + 1), by omega⟩
      have e : index + 1 + k - index = k + 1 := by omega
      have h' : ∀ r, rest.take k = 10 :: r → False := fun r hr => by
        obtain ⟨tl, htl, _⟩ := take_eq_cons hr
        exact h _ htl
      rw [e, List.take_succ_cons, lineTerminatorsFrom.eq_3 _ _ h',
        List.filter_cons_of_pos (by simp)]
      congr 1
      have := ih (by omega) fun t ht => hi t (List.mem_cons_of_mem _ ht)
      rw [← this]
      congr 2
      omega
  | case4 rest index ih =>
    rcases Nat.eq_or_lt_of_le ho with rfl | hlt
    · rw [lineTerminatorsFrom_filter_nil _ _ _ (le_refl _)]
      simp [lineTerminatorsFrom]
    · rw [lineTerminatorsFrom] at hi ⊢
      obtain ⟨k, rfl⟩ : ∃ k, o = index + 1 + k := ⟨o - (index + 1), by omega⟩
      have e : index + 1 + k - index = k + 1 := by omega
      rw [e, List.take_succ_cons, lineTerminatorsFrom,
        List.filter_cons_of_pos (by simp)]
      congr 1
      have := ih (by omega) fun t ht => hi t (List.mem_cons_of_mem _ ht)
      rw [← this]
      congr 2
      omega
  | case5 rest index ih =>
    rcases Nat.eq_or_lt_of_le ho with rfl | hlt
    · rw [lineTerminatorsFrom_filter_nil _ _ _ (le_refl _)]
      simp [lineTerminatorsFrom]
    · rw [lineTerminatorsFrom] at hi ⊢
      have h0 := hi _ (List.mem_cons_self _ _)
      have h2 : index + 3 ≤ o := by simp only at h0; omega
      obtain ⟨k, rfl⟩ : ∃ k, o = index + 3 + k := ⟨o - (index + 3), by omega⟩
      have e : index + 3 + k - index = k + 3 := by omega
      rw [e, List.take_succ_cons, List.take_succ_cons, List.take_succ_cons,
        lineTerminatorsFrom, List.filter_cons_of_pos (by simp)]
      congr 1
      have := ih (by omega) fun t ht => hi t (List.mem_cons_of_mem _ ht)
      rw [← this]
      congr 2
      omega
  | case6 rest index ih =>
    rcases Nat.eq_or_lt_of_le ho with rfl | hlt
    · rw [lineTerminatorsFrom_filter_nil _ _ _ (le_refl _)]
      simp [lineTerminatorsFrom]
    · rw [lineTerminatorsFrom] at hi ⊢
      have h0 := hi _ (List.mem_cons_self _ _)
      have h2 : index + 3 ≤ o := by simp only at h0; omega
      obtain ⟨k, rfl⟩ : ∃ k, o = index + 3 + k := ⟨o - (index + 3), by omega⟩
      have e : index + 3 + k - index = k + 3 := by omega
      rw [e, List.take_succ_cons, List.take_succ_cons, List.take_succ_cons,
        lineTerminatorsFrom, List.filter_cons_of_pos (by simp)]
      congr 1
      have := ih (by omega) fun t ht => hi t (List.mem_cons_of_mem _ ht)
      rw [← this]
      congr 2
      omega
  | case7 head rest index h1 h2 h3 h4 h5 ih =>
    rcases Nat.eq_or_lt_of_le ho with rfl | hlt
    · rw [lineTerminatorsFrom_filter_nil _ _ _ (le_refl _)]
      simp [lineTerminatorsFrom]
    · rw [lineTerminatorsFrom.eq_7 _ _ _ h1 h2 h3 h4 h5] at hi ⊢
      obtain ⟨k, rfl⟩ : ∃ k, o = index + 1 + k := ⟨o - (index + 1), by omega⟩
      have e : index + 1 + k - index = k + 1 := by omega
      have h1' : ∀ r, head = 13 → rest.take k = 10 :: r → False := fun r hh _ => h2 hh
      have h4' : ∀ r, head = 226 → rest.take k = 128 :: 168 :: r → False :=
        fun r hh hr => by
          obtain ⟨tl, htl⟩ := take_eq_cons_cons hr
          exact h4 _ hh htl
      have h5' : ∀ r, head = 226 → rest.take k = 128 :: 169 :: r → False :=
        fun r hh hr => by
          obtain ⟨tl, htl⟩ := take_eq_cons_cons hr
          exact h5 _ hh htl
      rw [e, List.take_succ_cons, lineTerminatorsFrom.eq_7 _ _ _ h1' h2 h3 h4' h5']
      have := ih (by omega) hi
      rw [← this]
      congr 2
      omega

/-- The position of the offset `o`: one more than the number of line terminators of
`source[0:o]`, and one more than the number of bytes behind the last of them. -/
theorem Parser.position_offset (p : Parser) (o : Nat) (ho : o ≤ p.source.length) :
    (p.position (o + 1)).Line = 1 + ((lineTerminators (p.source.take o)).length : Int) ∧
    (p.position (o + 1)).Column =
      1 + ((o : Int) - (match (lineTerminators (p.source.take o)).getLast? with
        | some t => (t.2 : Int)
        | none => 0)) ∧
    ∀ t ∈ lineTerminators (p.source.take o), t.2 ≤ o := by
  have e : (((o + 1 : Idx) : Int) - ((p.base : Idx) : Int)) = (o : Int) := by
    simp [Parser.base]
  have hb : ∀ t ∈ lineTerminators (p.source.take o), t.2 ≤ o := fun t ht => by
    have := (lineTerminatorsFrom_bounds _ _ t ht).2.2
    rw [List.length_take, Nat.min_eq_left ho] at this
    omega
  refine ⟨?_, ?_, hb⟩
  · simp only [Parser.position, e, Int.toNat_ofNat, lineCount, lineCountFrom_eq]
    simp [lineTerminators]
  · simp only [Parser.position, e, Int.toNat_ofNat, lineCount, lineCountFrom_eq, lastByte_eq]
    rw [← lineTerminators]
    cases h : (lineTerminators (p.source.take o)).getLast? with
    | none => simp [List.length_take, Nat.min_eq_left ho]
    | some t =>
      have h1 := hb t (List.mem_of_getLast?_eq_some h)
      have h2 := (lineTerminatorsFrom_bounds _ _ t (List.mem_of_getLast?_eq_some h)).2.1
      simp only
      rw [if_pos (by omega)]
      omega

/-- The last of a list in ascending order is not below any of its members. -/
theorem getLast_of_sorted {l : List (Nat × Nat)} (hs : l.Pairwise fun a b => a.2 ≤ b.1)
    (hl : ∀ t ∈ l, t.1 < t.2) {x t : Nat × Nat} (hx : l.getLast? = some x) (ht : t ∈ l) :
    t.2 ≤ x.2 := by
  induction l with
  | nil => simp at ht
  | cons a l ih =>
    cases l with
    | nil =>
      simp only [List.getLast?_singleton, Option.some.injEq] at hx
      simp only [List.mem_singleton] at ht
      rw [ht, hx]
    | cons b l =>
      rw [List.getLast?_cons_cons] at hx
      rw [List.pairwise_cons] at hs
      rcases List.mem_cons.1 ht with rfl | ht'
      · have hxm : x ∈ b :: l := List.mem_of_getLast?_eq_some hx
        have := hs.1 x hxm
        have := hl x (List.mem_cons_of_mem _ hxm)
        omega
      · exact ih hs.2 (fun t ht => hl t (List.mem_cons_of_mem _ ht)) hx ht'

/-- The position of an offset that does not fall inside a line terminator. -/
theorem Parser.position_terminators (p : Parser) (o : Nat) (ho : o ≤ p.source.length)
    (hi : insideTerminator p.source o = false) :
    (p.position (o + 1)).Line = 1 + ((terminatorsBefore p.source o).length : Int) ∧
    (p.position (o + 1)).Column = 1 + ((o : Int) - lineStart p.source o) ∧
    lineStart p.source o ≤ o ∧
    (o = 0 → lineStart p.source o = 0 ∧ terminatorsBefore p.source o = []) ∧
    ∀ t ∈ lineTerminators p.source, t.2 = o → lineStart p.source o = o := by
  have hi' : ∀ t ∈ lineTerminatorsFrom p.source 0, ¬ (t.1 < o ∧ o < t.2) := by
    intro t ht hc
    rw [insideTerminator, List.any_eq_false] at hi
    exact hi t ht (by simp [hc.1, hc.2])
  have ht : lineTerminators (p.source.take o) = terminatorsBefore p.source o := by
    have := lineTerminatorsFrom_take p.source 0 o (Nat.zero_le o) hi'
    rw [Nat.sub_zero] at this
    exact this
  obtain ⟨h1, h2, h3⟩ := p.position_offset o ho
  rw [ht] at h1 h2 h3
  have hstart : lineStart p.source o ≤ o := by
    rw [lineStart]
    cases h : (terminatorsBefore p.source o).getLast? with
    | none => exact Nat.zero_le o
    | some t => exact h3 t (List.mem_of_getLast?_eq_some h)
  have hcol : ((match (terminatorsBefore p.source o).getLast? with
      | some t => (t.2 : Int)
      | none => 0) : Int) = (lineStart p.source o : Int) := by
    rw [lineStart]
    cases (terminatorsBefore p.source o).getLast? <;> rfl
  rw [hcol] at h2
  refine ⟨h1, h2, hstart, ?_, ?_⟩
  · rintro rfl
    have hnil : terminatorsBefore p.source 0 = [] :=
      lineTerminatorsFrom_filter_nil _ _ _ (le_refl 0)
    exact ⟨Nat.le_zero.1 hstart, hnil⟩
  · intro t htm hto
    have hmem : t ∈ terminatorsBefore p.source o := by
      rw [terminatorsBefore, List.mem_filter]
      exact ⟨htm, by simp [hto]⟩
    have hsorted : (terminatorsBefore p.source o).Pairwise fun a b => a.2 ≤ b.1 :=
      (lineTerminatorsFrom_sorted p.source 0).sublist (List.filter_sublist _)
    have hlt : ∀ t ∈ terminatorsBefore p.source o, t.1 < t.2 := fun t ht =>
      (lineTerminatorsFrom_bounds p.source 0 t (List.mem_of_mem_filter ht)).2.1
    rw [lineStart]
    cases h : (terminatorsBefore p.source o).getLast? with
    | none =>
      rw [List.getLast?_eq_none_iff] at h
      rw [h] at hmem
      simp at hmem
    | some x =>
      have h4 := getLast_of_sorted hsorted hlt h hmem
      have h5 := h3 x (List.mem_of_getLast?_eq_some h)
      simp only
      omega

/-! ### The evaluator: steps, and fuel -/

@[simp] theorem andThen_none {σ α β : Type} (f : Runtime σ → α → Outcome σ β) :
    andThen (none : Outcome σ α) f = none := rfl

@[simp] theorem andThen_value {σ α β : Type} (r : Runtime σ) (a : α)
    (f : Runtime σ → α → Outcome σ β) : andThen (some (r, .value a)) f = f r a := rfl

@[simp] theorem andThen_panic {σ α β : Type} (r : Runtime σ) (p : Panic)
    (f : Runtime σ → α → Outcome σ β) :
    andThen (some (r, .panic p) : Outcome σ α) f = some (r, .panic p) := rfl

@[simp] theorem deferred_none {σ α : Type} (f : Runtime σ → Runtime σ) :
    deferred f (none : Outcome σ α) = none := rfl

@[simp] theorem deferred_some {σ α : Type} (f : Runtime σ → Runtime σ) (r : Runtime σ)
    (c : Ending α) : deferred f (some (r, c)) = some (f r, c) := rfl

@[simp] theorem tryCatchEvaluate_none {σ : Type} :
    tryCatchEvaluate (none : Outcome σ Value) = none := rfl

@[simp] theorem tryCatchEvaluate_ok {σ : Type} (r : Runtime σ) (value : Value) :
    tryCatchEvaluate (some (r, .value value)) = some (r, .value (value, false)) := rfl

@[simp] theorem tryCatchEvaluate_exception {σ : Type} (r : Runtime σ) (value : Value) :
    tryCatchEvaluate (some (r, .panic (.exception value))) = some (r, .value (value, true)) :=
  rfl

@[simp] theorem tryCatchEvaluate_fatal {σ : Type} (r : Runtime σ) (text : String) :
    tryCatchEvaluate (some (r, .panic (.fatal text)) : Outcome σ Value) =
      some (r, .panic (.fatal text)) := rfl

theorem outcome_le_refl {σ α : Type} {x : Outcome σ α} : Outcome.Le x x := fun _ h => h

theorem outcome_le_none {σ α : Type} {y : Outcome σ α} : Outcome.Le none y :=
  fun _ h => by cases h

theorem outcome_le_andThen {σ α β : Type} {x y : Outcome σ α}
    {f g : Runtime σ → α → Outcome σ β} (hx : Outcome.Le x y)
    (hf : ∀ r a, Outcome.Le (f r a) (g r a)) :
    Outcome.Le (andThen x f) (andThen y g) := by
  intro o h
  match x, hx, h with
  | none, _, h => cases h
  | some (r, .panic p), hx, h =>
    rw [hx _ rfl]
    exact h
  | some (r, .value a), hx, h =>
    rw [hx _ rfl]
    exact hf r a o h

theorem outcome_le_andThen_right {σ α β : Type} {x : Outcome σ α}
    {f g : Runtime σ → α → Outcome σ β} (hf : ∀ r a, Outcome.Le (f r a) (g r a)) :
    Outcome.Le (andThen x f) (andThen x g) :=
  outcome_le_andThen outcome_le_refl hf

theorem outcome_le_deferred {σ α : Type} {x y : Outcome σ α} (f : Runtime σ → Runtime σ)
    (hx : Outcome.Le x y) : Outcome.Le (deferred f x) (deferred f y) := by
  intro o h
  match x, hx, h with
  | none, _, h => cases h
  | some (r, c), hx, h =>
    rw [hx _ rfl]
    exact h

theorem outcome_le_tryCatch {σ : Type} {x y : Outcome σ Value}
    (hx : Outcome.Le x y) : Outcome.Le (tryCatchEvaluate x) (tryCatchEvaluate y) := by
  intro o h
  match x, hx, h with
  | none, _, h => cases h
  | some (r, c), hx, h =>
    rw [hx _ rfl]
    exact h

theorem andThen_eq_some {σ α β : Type} {x : Outcome σ α}
    {f : Runtime σ → α → Outcome σ β} {o : Runtime σ × Ending β} :
    andThen x f = some o ↔
      (∃ r p, x = some (r, .panic p) ∧ o = (r, .panic p)) ∨
        ∃ r a, x = some (r, .value a) ∧ f r a = some o := by
  match x with
  | none =>
    constructor
    · intro h
      cases h
    · rintro (⟨_, _, h, _⟩ | ⟨_, _, h, _⟩) <;> cases h
  | some (r, .panic p) =>
    constructor
    · intro h
      rw [andThen_panic] at h
      cases h
      exact Or.inl ⟨r, p, rfl, rfl⟩
    · rintro (⟨_, _, h, rfl⟩ | ⟨_, _, h, _⟩)
      · cases h
        rfl
      · cases h
  | some (r, .value a) =>
    constructor
    · intro h
      exact Or.inr ⟨r, a, rfl, h⟩
    · rintro (⟨_, _, h, _⟩ | ⟨_, _, h, h'⟩)
      · cases h
      · cases h
        exact h'

theorem andThen_eq_value {σ α β : Type} {x : Outcome σ α}
    {f : Runtime σ → α → Outcome σ β} {q : Runtime σ} {b : β}
    (h : andThen x f = some (q, .value b)) :
    ∃ r a, x = some (r, .value a) ∧ f r a = some (q, .value b) := by
  rcases andThen_eq_some.1 h with ⟨r, p, _, h2⟩ | h
  · cases h2
  · exact h

theorem outcome_le_ite {σ α : Type} {c : Prop} [Decidable c] {x y x' y' : Outcome σ α}
    (h1 : Outcome.Le x x') (h2 : Outcome.Le y y') :
    Outcome.Le (if c then x else y) (if c then x' else y') := by
  split
  · exact h1
  · exact h2

theorem fuelIH_zero {σ : Type} (host : Host σ) : FuelIH host 0 where
  evaluate _ _ := by rw [evaluate]; exact outcome_le_none
  evaluateBody _ _ _ := by rw [evaluateBody]; exact outcome_le_none
  evaluateTryStatement _ _ _ _ := by rw [evaluateTryStatement]; exact outcome_le_none
  evaluateTryStatementFinally _ _ _ _ := by
    rw [evaluateTryStatementFinally]; exact outcome_le_none
  evaluateIfStatement _ _ _ _ := by rw [evaluateIfStatement]; exact outcome_le_none
  evaluateWithStatement _ _ _ := by rw [evaluateWithStatement]; exact outcome_le_none
  evaluateLoopBody _ _ _ _ := by rw [evaluateLoopBody]; exact outcome_le_none
  evaluateDoWhileStatement _ _ _ := by rw [evaluateDoWhileStatement]; exact outcome_le_none
  evaluateDoWhileStatementLoop _ _ _ _ _ := by
    rw [evaluateDoWhileStatementLoop]; exact outcome_le_none
  evaluateWhileStatement _ _ _ := by rw [evaluateWhileStatement]; exact outcome_le_none
  evaluateWhileStatementLoop _ _ _ _ _ := by
    rw [evaluateWhileStatementLoop]; exact outcome_le_none
  evaluateForStatement _ _ _ _ _ := by rw [evaluateForStatement]; exact outcome_le_none
  evaluateForStatementLoop _ _ _ _ _ _ := by
    rw [evaluateForStatementLoop]; exact outcome_le_none
  evaluateForInStatement _ _ _ _ := by rw [evaluateForInStatement]; exact outcome_le_none
  evaluateForInStatementLoop _ _ _ _ _ _ := by
    rw [evaluateForInStatementLoop]; exact outcome_le_none
  evaluateForInStatementEnumerate _ _ _ _ _ _ := by
    rw [evaluateForInStatementEnumerate]; exact outcome_le_none
  evaluateSwitchStatement _ _ _ _ := by rw [evaluateSwitchStatement]; exact outcome_le_none
  evaluateSwitchStatementBody _ _ _ _ _ := by
    rw [evaluateSwitchStatementBody]; exact outcome_le_none

theorem fuel_evaluate {σ : Type} {host : Host σ} {n : Nat} (ih : FuelIH host n)
    (node : Statement) (r : Runtime σ) :
    Outcome.Le (evaluate host (n + 1) node r) (evaluate host (n + 2) node r) := by
  rw [evaluate, evaluate]
  refine outcome_le_andThen_right fun r _ => ?_
  cases node with
  | VarStatement _ _ => exact outcome_le_refl
  | ExpressionStatement _ => exact outcome_le_refl
  | BlockStatement _ list _ => exact ih.evaluateBody _ _ _
  | LabelledStatement _ _ _ => exact outcome_le_deferred _ (ih.evaluate _ _)
  | ReturnStatement _ _ => exact outcome_le_refl
  | IfStatement _ _ _ _ => exact ih.evaluateIfStatement _ _ _ _
  | DoWhileStatement _ _ _ => exact ih.evaluateDoWhileStatement _ _ _
  | WhileStatement _ _ _ => exact ih.evaluateWhileStatement _ _ _
  | BranchStatement _ _ _ => exact outcome_le_refl
  | SwitchStatement _ _ _ _ => exact ih.evaluateSwitchStatement _ _ _ _
  | ForStatement _ _ _ _ _ => exact ih.evaluateForStatement _ _ _ _ _
  | ForInStatement _ _ _ _ => exact ih.evaluateForInStatement _ _ _ _
  | ThrowStatement _ _ => exact outcome_le_refl
  | EmptyStatement _ => exact outcome_le_refl
  | TryStatement _ _ _ _ => exact ih.evaluateTryStatement _ _ _ _
  | WithStatement _ _ _ => exact ih.evaluateWithStatement _ _ _
  | BadStatement _ _ => exact outcome_le_refl

theorem fuel_evaluateBody {σ : Type} {host : Host σ} {n : Nat} (ih : FuelIH host n)
    (body : List Statement) (bodyValue : Value) (r : Runtime σ) :
    Outcome.Le (evaluateBody host (n + 1) body bodyValue r)
      (evaluateBody host (n + 2) body bodyValue r) := by
  cases body with
  | nil => rw [evaluateBody, evaluateBody]; exact outcome_le_refl
  | cons node body =>
    rw [evaluateBody, evaluateBody]
    refine outcome_le_andThen (ih.evaluate _ _) fun r value => ?_
    refine outcome_le_ite outcome_le_refl (outcome_le_ite ?_ (ih.evaluateBody _ _ _))
    exact outcome_le_andThen_right fun r _ => ih.evaluateBody _ _ _

theorem fuel_evaluateTryStatementFinally {σ : Type} {host : Host σ} {n : Nat}
    (ih : FuelIH host n) (finallyClause : Option Statement) (tryCatchValue : Value)
    (exception : Bool) (r : Runtime σ) :
    Outcome.Le (evaluateTryStatementFinally host (n + 1) finallyClause tryCatchValue exception r)
      (evaluateTryStatementFinally host (n + 2) finallyClause tryCatchValue exception r) := by
  cases finallyClause with
  | none => rw [evaluateTryStatementFinally, evaluateTryStatementFinally]; exact outcome_le_refl
  | some finallyBody =>
    rw [evaluateTryStatementFinally, evaluateTryStatementFinally]
    exact outcome_le_andThen (ih.evaluate _ _) fun r value => outcome_le_refl

theorem fuel_evaluateTryStatement {σ : Type} {host : Host σ} {n : Nat}
    (ih : FuelIH host n) (body : Statement) (catchClause : Option CatchStatement)
    (finallyClause : Option Statement) (r : Runtime σ) :
    Outcome.Le (evaluateTryStatement host (n + 1) body catchClause finallyClause r)
      (evaluateTryStatement host (n + 2) body catchClause finallyClause r) := by
  rw [evaluateTryStatement, evaluateTryStatement]
  refine outcome_le_andThen (outcome_le_tryCatch (ih.evaluate _ _)) fun r tryCatch => ?_
  split
  · refine outcome_le_deferred _ ?_
    exact outcome_le_andThen (outcome_le_tryCatch (ih.evaluate _ _)) fun r tryCatch =>
      ih.evaluateTryStatementFinally _ _ _ _
  · exact ih.evaluateTryStatementFinally _ _ _ _

theorem fuel_evaluateIfStatement {σ : Type} {host : Host σ} {n : Nat}
    (ih : FuelIH host n) (test : Expression) (consequent : Statement)
    (alternate : Option Statement) (r : Runtime σ) :
    Outcome.Le (evaluateIfStatement host (n + 1) test consequent alternate r)
      (evaluateIfStatement host (n + 2) test consequent alternate r) := by
  rw [evaluateIfStatement, evaluateIfStatement]
  refine outcome_le_andThen_right fun r _ => ?_
  refine outcome_le_ite (ih.evaluate _ _) ?_
  cases alternate with
  | none => exact outcome_le_refl
  | some alternate => exact ih.evaluate _ _

theorem fuel_evaluateWithStatement {σ : Type} {host : Host σ} {n : Nat}
    (ih : FuelIH host n) (object : Expression) (body : Statement) (r : Runtime σ) :
    Outcome.Le (evaluateWithStatement host (n + 1) object body r)
      (evaluateWithStatement host (n + 2) object body r) := by
  rw [evaluateWithStatement, evaluateWithStatement]
  refine outcome_le_andThen_right fun r _ => outcome_le_andThen_right fun r _ => ?_
  exact outcome_le_deferred _ (ih.evaluate _ _)

theorem fuel_evaluateLoopBody {σ : Type} {host : Host σ} {n : Nat} (ih : FuelIH host n)
    (body : List Statement) (labels : List String) (result : Value) (r : Runtime σ) :
    Outcome.Le (evaluateLoopBody host (n + 1) body labels result r)
      (evaluateLoopBody host (n + 2) body labels result r) := by
  cases body with
  | nil => rw [evaluateLoopBody, evaluateLoopBody]; exact outcome_le_refl
  | cons node body =>
    rw [evaluateLoopBody, evaluateLoopBody]
    refine outcome_le_andThen (ih.evaluate _ _) fun r value => ?_
    exact outcome_le_ite outcome_le_refl
      (outcome_le_ite (ih.evaluateLoopBody _ _ _ _) (ih.evaluateLoopBody _ _ _ _))

theorem fuel_evaluateDoWhileStatement {σ : Type} {host : Host σ} {n : Nat}
    (ih : FuelIH host n) (test : Expression) (body : Statement) (r : Runtime σ) :
    Outcome.Le (evaluateDoWhileStatement host (n + 1) test body r)
      (evaluateDoWhileStatement host (n + 2) test body r) := by
  rw [evaluateDoWhileStatement, evaluateDoWhileStatement]
  exact ih.evaluateDoWhileStatementLoop _ _ _ _ _

theorem fuel_evaluateDoWhileStatementLoop {σ : Type} {host : Host σ} {n : Nat}
    (ih : FuelIH host n) (test : Expression) (body : List Statement)
    (labels : List String) (result : Value) (r : Runtime σ) :
    Outcome.Le (evaluateDoWhileStatementLoop host (n + 1) test body labels result r)
      (evaluateDoWhileStatementLoop host (n + 2) test body labels result r) := by
  rw [evaluateDoWhileStatementLoop, evaluateDoWhileStatementLoop]
  refine outcome_le_andThen (ih.evaluateLoopBody _ _ _ _) fun r exit => ?_
  cases exit with
  | resultReturn value => exact outcome_le_refl
  | resultBreak result => exact outcome_le_refl
  | resultContinue result =>
    exact outcome_le_andThen_right fun r _ =>
      outcome_le_ite outcome_le_refl (ih.evaluateDoWhileStatementLoop _ _ _ _ _)
  | done result =>
    exact outcome_le_andThen_right fun r _ =>
      outcome_le_ite outcome_le_refl (ih.evaluateDoWhileStatementLoop _ _ _ _ _)

theorem fuel_evaluateWhileStatement {σ : Type} {host : Host σ} {n : Nat}
    (ih : FuelIH host n) (test : Expression) (body : Statement) (r : Runtime σ) :
    Outcome.Le (evaluateWhileStatement host (n + 1) test body r)
      (evaluateWhileStatement host (n + 2) test body r) := by
  rw [evaluateWhileStatement, evaluateWhileStatement]
  exact ih.evaluateWhileStatementLoop _ _ _ _ _

theorem fuel_evaluateWhileStatementLoop {σ : Type} {host : Host σ} {n : Nat}
    (ih : FuelIH host n) (test : Expression) (body : List Statement)
    (labels : List String) (result : Value) (r : Runtime σ) :
    Outcome.Le (evaluateWhileStatementLoop host (n + 1) test body labels result r)
      (evaluateWhileStatementLoop host (n + 2) test body labels result r) := by
  rw [evaluateWhileStatementLoop, evaluateWhileStatementLoop]
  refine outcome_le_andThen_right fun r _ => ?_
  refine outcome_le_ite outcome_le_refl ?_
  refine outcome_le_andThen (ih.evaluateLoopBody _ _ _ _) fun r exit => ?_
  cases exit with
  | resultReturn value => exact outcome_le_refl
  | resultBreak result => exact outcome_le_refl
  | resultContinue result => exact ih.evaluateWhileStatementLoop _ _ _ _ _
  | done result => exact ih.evaluateWhileStatementLoop _ _ _ _ _

theorem fuel_evaluateForStatement {σ : Type} {host : Host σ} {n : Nat}
    (ih : FuelIH host n) (initializer : Expression) (update test : Option Expression)
    (body : Statement) (r : Runtime σ) :
    Outcome.Le (evaluateForStatement host (n + 1) initializer update test body r)
      (evaluateForStatement host (n + 2) initializer update test body r) := by
  rw [evaluateForStatement, evaluateForStatement]
  exact outcome_le_andThen_right fun r _ =>
    ih.evaluateForStatementLoop _ _ _ _ _ _

theorem fuel_evaluateForStatementLoop {σ : Type} {host : Host σ} {n : Nat}
    (ih : FuelIH host n) (update test : Option Expression) (body : List Statement)
    (labels : List String) (result : Value) (r : Runtime σ) :
    Outcome.Le (evaluateForStatementLoop host (n + 1) update test body labels result r)
      (evaluateForStatementLoop host (n + 2) update test body labels result r) := by
  rw [evaluateForStatementLoop, evaluateForStatementLoop]
  refine outcome_le_andThen_right fun r goOn => ?_
  refine outcome_le_ite outcome_le_refl ?_
  refine outcome_le_andThen (ih.evaluateLoopBody _ _ _ _) fun r exit => ?_
  cases exit with
  | resultReturn value => exact outcome_le_refl
  | resultBreak result => exact outcome_le_refl
  | resultContinue result =>
    exact outcome_le_andThen_right fun r _ => ih.evaluateForStatementLoop _ _ _ _ _ _
  | done result =>
    exact outcome_le_andThen_right fun r _ => ih.evaluateForStatementLoop _ _ _ _ _ _

theorem fuel_evaluateForInStatement {σ : Type} {host : Host σ} {n : Nat}
    (ih : FuelIH host n) (into source : Expression) (body : Statement) (r : Runtime σ) :
    Outcome.Le (evaluateForInStatement host (n + 1) into source body r)
      (evaluateForInStatement host (n + 2) into source body r) := by
  rw [evaluateForInStatement, evaluateForInStatement]
  refine outcome_le_andThen_right fun r sourceValue => ?_
  split
  · exact outcome_le_refl
  · exact outcome_le_refl
  · exact outcome_le_andThen_right fun r _ => ih.evaluateForInStatementLoop _ _ _ _ _ _

theorem fuel_evaluateForInStatementLoop {σ : Type} {host : Host σ} {n : Nat}
    (ih : FuelIH host n) (into : Expression) (body : List Statement)
    (labels : List String) (result : Value) (object : Nat) (r : Runtime σ) :
    Outcome.Le (evaluateForInStatementLoop host (n + 1) into body labels result object r)
      (evaluateForInStatementLoop host (n + 2) into body labels result object r) := by
  rw [evaluateForInStatementLoop, evaluateForInStatementLoop]
  refine outcome_le_andThen (ih.evaluateForInStatementEnumerate _ _ _ _ _ _)
    fun r enumerated => ?_
  refine outcome_le_ite outcome_le_refl ?_
  dsimp only
  cases host.prototype object r with
  | none => exact outcome_le_refl
  | some object => exact ih.evaluateForInStatementLoop _ _ _ _ _ _

theorem fuel_evaluateForInStatementEnumerate {σ : Type} {host : Host σ} {n : Nat}
    (ih : FuelIH host n) (into : Expression) (body : List Statement)
    (labels names : List String) (enumerateValue : Value) (r : Runtime σ) :
    Outcome.Le
      (evaluateForInStatementEnumerate host (n + 1) into body labels names enumerateValue r)
      (evaluateForInStatementEnumerate host (n + 2) into body labels names enumerateValue
        r) := by
  cases names with
  | nil =>
    rw [evaluateForInStatementEnumerate, evaluateForInStatementEnumerate]
    exact outcome_le_refl
  | cons name names =>
    rw [evaluateForInStatementEnumerate, evaluateForInStatementEnumerate]
    refine outcome_le_andThen_right fun r _ => outcome_le_andThen_right fun r _ =>
      outcome_le_andThen_right fun r _ => ?_
    refine outcome_le_andThen (ih.evaluateLoopBody _ _ _ _) fun r exit => ?_
    cases exit with
    | resultReturn value => exact outcome_le_refl
    | resultBreak result => exact outcome_le_refl
    | resultContinue result => exact ih.evaluateForInStatementEnumerate _ _ _ _ _ _
    | done result => exact ih.evaluateForInStatementEnumerate _ _ _ _ _ _

theorem fuel_evaluateSwitchStatement {σ : Type} {host : Host σ} {n : Nat}
    (ih : FuelIH host n) (discriminant : Expression) (default : Int)
    (body : List CaseStatement) (r : Runtime σ) :
    Outcome.Le (evaluateSwitchStatement host (n + 1) discriminant default body r)
      (evaluateSwitchStatement host (n + 2) discriminant default body r) := by
  rw [evaluateSwitchStatement, evaluateSwitchStatement]
  refine outcome_le_andThen_right fun r _ => outcome_le_andThen_right fun r target => ?_
  refine outcome_le_ite (outcome_le_ite outcome_le_refl ?_) outcome_le_refl
  exact ih.evaluateSwitchStatementBody _ _ _ _ _

theorem fuel_evaluateSwitchStatementBody {σ : Type} {host : Host σ} {n : Nat}
    (ih : FuelIH host n) (consequent : List Statement) (clauses : List CaseStatement)
    (labels : List String) (result : Value) (r : Runtime σ) :
    Outcome.Le (evaluateSwitchStatementBody host (n + 1) consequent clauses labels result r)
      (evaluateSwitchStatementBody host (n + 2) consequent clauses labels result r) := by
  cases consequent with
  | nil =>
    cases clauses with
    | nil =>
      rw [evaluateSwitchStatementBody, evaluateSwitchStatementBody]
      exact outcome_le_refl
    | cons clause clauses =>
      rw [evaluateSwitchStatementBody, evaluateSwitchStatementBody]
      exact ih.evaluateSwitchStatementBody _ _ _ _ _
  | cons statement consequent =>
    rw [evaluateSwitchStatementBody, evaluateSwitchStatementBody]
    refine outcome_le_andThen (ih.evaluate _ _) fun r value => ?_
    refine outcome_le_ite ?_ (outcome_le_ite (ih.evaluateSwitchStatementBody _ _ _ _ _)
      (ih.evaluateSwitchStatementBody _ _ _ _ _))
    cases value.evaluateBreak labels with
    | resultReturn => exact outcome_le_refl
    | resultBreak => exact outcome_le_refl
    | resultContinue => exact ih.evaluateSwitchStatementBody _ _ _ _ _

/-- More fuel does not change the outcome of a run that ends. -/
theorem fuelIH {σ : Type} (host : Host σ) : ∀ n, FuelIH host n
  | 0 => fuelIH_zero host
  | n + 1 =>
    have ih := fuelIH host n
    { evaluate := fuel_evaluate ih
      evaluateBody := fuel_evaluateBody ih
      evaluateTryStatement := fuel_evaluateTryStatement ih
      evaluateTryStatementFinally := fuel_evaluateTryStatementFinally ih
      evaluateIfStatement := fuel_evaluateIfStatement ih
      evaluateWithStatement := fuel_evaluateWithStatement ih
      evaluateLoopBody := fuel_evaluateLoopBody ih
      evaluateDoWhileStatement := fuel_evaluateDoWhileStatement ih
      evaluateDoWhileStatementLoop := fuel_evaluateDoWhileStatementLoop ih
      evaluateWhileStatement := fuel_evaluateWhileStatement ih
      evaluateWhileStatementLoop := fuel_evaluateWhileStatementLoop ih
      evaluateForStatement := fuel_evaluateForStatement ih
      evaluateForStatementLoop := fuel_evaluateForStatementLoop ih
      evaluateForInStatement := fuel_evaluateForInStatement ih
      evaluateForInStatementLoop := fuel_evaluateForInStatementLoop ih
      evaluateForInStatementEnumerate := fuel_evaluateForInStatementEnumerate ih
      evaluateSwitchStatement := fuel_evaluateSwitchStatement ih
      evaluateSwitchStatementBody := fuel_evaluateSwitchStatementBody ih }

/-! ### The try statement -/

theorem fuel_le {σ α : Type} {f : Nat → Outcome σ α}
    (step : ∀ n, Outcome.Le (f n) (f (n + 1))) {n m : Nat} (hnm : n ≤ m) :
    Outcome.Le (f n) (f m) := by
  induction hnm with
  | refl => exact outcome_le_refl
  | step _ ih => exact fun o h => step _ o (ih o h)

theorem evaluate_fuel {σ : Type} {host : Host σ} {n m : Nat} {node : Statement}
    {r : Runtime σ} {o : Runtime σ × Ending Value}
    (h : evaluate host n node r = some o) (hnm : n ≤ m) : evaluate host m node r = some o :=
  fuel_le (fun k => (fuelIH host k).evaluate node r) hnm o h

theorem tryCatchEvaluate_fuel {σ : Type} {host : Host σ} {n m : Nat} {node : Statement}
    {r : Runtime σ} {o : Runtime σ × Ending (Value × Bool)}
    (h : tryCatchEvaluate (evaluate host n node r) = some o) (hnm : n ≤ m) :
    tryCatchEvaluate (evaluate host m node r) = some o :=
  outcome_le_tryCatch (fuel_le (fun k => (fuelIH host k).evaluate node r) hnm) o h

theorem evaluateTryStatement_skip {σ : Type} {host : Host σ} {n : Nat} {body : Statement}
    {catchClause : Option CatchStatement} {r q : Runtime σ} {tryCatchValue : Value}
    {exception : Bool}
    (h : tryCatchEvaluate (evaluate host n body r) =
      some (q, .value (tryCatchValue, exception)))
    (hc : exception = false ∨ catchClause = none) (finallyClause : Option Statement) :
    evaluateTryStatement host (n + 1) body catchClause finallyClause r =
      evaluateTryStatementFinally host n finallyClause tryCatchValue exception q := by
  rw [evaluateTryStatement, h, andThen_value]
  rcases hc with rfl | rfl
  · rfl
  · cases exception <;> rfl

theorem evaluateTryStatement_catch {σ : Type} {host : Host σ} {n : Nat} {body : Statement}
    {r r1 : Runtime σ} {thrown : Value}
    (h : tryCatchEvaluate (evaluate host n body r) = some (r1, .value (thrown, true)))
    (idx : Idx) (parameter : Identifier) (catchBody : Statement)
    (finallyClause : Option Statement) :
    evaluateTryStatement host (n + 1) body (some (.mk idx parameter catchBody))
        finallyClause r =
      deferred (fun r => { r with LexicalEnvironment := r1.LexicalEnvironment })
        (andThen
          (tryCatchEvaluate (evaluate host n catchBody
            (r1.newDeclarativeEnvironment.localSet parameter.Name thrown)))
          fun r tryCatch =>
            evaluateTryStatementFinally host n finallyClause tryCatch.1 tryCatch.2 r) := by
  rw [evaluateTryStatement, h, andThen_value]

theorem evaluateTryStatementFinally_value {σ : Type} {host : Host σ} {n : Nat}
    {finallyBody : Statement} {q q' : Runtime σ} {finallyValue : Value}
    (h : evaluate host n finallyBody q = some (q', .value finallyValue))
    (tryCatchValue : Value) (exception : Bool) :
    evaluateTryStatementFinally host (n + 1) (some finallyBody) tryCatchValue exception q =
      some (q',
        if finallyValue.isResult then .value finallyValue
        else if exception then .panic (.exception tryCatchValue)
        else .value tryCatchValue) := by
  rw [evaluateTryStatementFinally, h, andThen_value]
  split_ifs <;> rfl

theorem evaluateTryStatementFinally_none {σ : Type} (host : Host σ) (n : Nat)
    (q : Runtime σ) (tryCatchValue : Value) (exception : Bool) :
    evaluateTryStatementFinally host (n + 1) none tryCatchValue exception q =
      some (q,
        if exception then .panic (.exception tryCatchValue) else .value tryCatchValue) := by
  rw [evaluateTryStatementFinally]
  split_ifs <;> rfl

/-- From `if node.Finally != nil` on: the try statement ends with what the end of
`evaluateTryStatement` gives in the runtime `q`, after the deferred function. -/
theorem evaluateTryStatement_finish {σ : Type} {host : Host σ} {body : Statement}
    {catchClause : Option CatchStatement} {r q : Runtime σ} {tryCatchValue : Value}
    {exception : Bool} {restore : Option Nat}
    (h : AtFinally host body catchClause r q tryCatchValue exception restore)
    {finallyClause : Option Statement} {m : Nat} {o : Runtime σ × Ending Value}
    (hf : evaluateTryStatementFinally host m finallyClause tryCatchValue exception q =
      some o) :
    ∃ n, evaluateTryStatement host n body catchClause finallyClause r =
      some (o.1.restored restore, o.2) := by
  have hfin : ∀ k, m ≤ k →
      evaluateTryStatementFinally host k finallyClause tryCatchValue exception q = some o :=
    fun k hk => fuel_le
      (fun k => (fuelIH host k).evaluateTryStatementFinally finallyClause tryCatchValue
        exception q) hk o hf
  rcases h with ⟨n, hb, hc, rfl⟩ | ⟨n, r1, thrown, idx, parameter, catchBody, hb, rfl, hcb, rfl⟩
  · refine ⟨max n m + 1, ?_⟩
    rw [evaluateTryStatement_skip (tryCatchEvaluate_fuel hb (le_max_left n m)) hc,
      hfin _ (le_max_right n m)]
    rfl
  · refine ⟨max n m + 1, ?_⟩
    rw [evaluateTryStatement_catch (tryCatchEvaluate_fuel hb (le_max_left n m)),
      tryCatchEvaluate_fuel hcb (le_max_left n m), andThen_value, hfin _ (le_max_right n m)]
    rfl

/-- With a finally clause whose body returns: the try statement ends as follows. -/
theorem evaluateTryStatement_finally {σ : Type} {host : Host σ} {body : Statement}
    {catchClause : Option CatchStatement} {r q q' : Runtime σ} {tryCatchValue : Value}
    {exception : Bool} {restore : Option Nat}
    (h : AtFinally host body catchClause r q tryCatchValue exception restore)
    {finallyBody : Statement} {m : Nat} {finallyValue : Value}
    (hf : evaluate host m finallyBody q = some (q', .value finallyValue)) :
    ∃ n, evaluateTryStatement host n body catchClause (some finallyBody) r =
      some (q'.restored restore,
        if finallyValue.isResult then .value finallyValue
        else if exception then .panic (.exception tryCatchValue)
        else .value tryCatchValue) :=
  evaluateTryStatement_finish h (evaluateTryStatementFinally_value hf tryCatchValue exception)

theorem outcome_unique {σ α : Type} {f : Nat → Outcome σ α}
    (step : ∀ n, Outcome.Le (f n) (f (n + 1))) {n m : Nat} {o o' : Runtime σ × Ending α}
    (h : f n = some o) (h' : f m = some o') : o = o' := by
  have h1 := fuel_le step (le_max_left n m) o h
  have h2 := fuel_le step (le_max_right n m) o' h'
  rw [h1] at h2
  exact Option.some.inj h2

theorem evaluateTryStatement_unique {σ : Type} {host : Host σ} {body : Statement}
    {catchClause : Option CatchStatement} {finallyClause : Option Statement}
    {r : Runtime σ} {n m : Nat} {o o' : Runtime σ × Ending Value}
    (h : evaluateTryStatement host n body catchClause finallyClause r = some o)
    (h' : evaluateTryStatement host m body catchClause finallyClause r = some o') :
    o = o' :=
  outcome_unique
    (fun k => (fuelIH host k).evaluateTryStatement body catchClause finallyClause r) h h'

/-! ### The loops -/

theorem Value.evaluateBreakContinue_continue {value : Value} {labels : List String} :
    value.evaluateBreakContinue labels = .resultContinue ↔
      ∃ v target, value = .result .resultContinue v target ∧ target ∈ labels := by
  constructor
  · intro h
    unfold Value.evaluateBreakContinue at h
    split at h
    · split at h <;> cases h
    · split at h
      · exact ⟨_, _, rfl, by assumption⟩
      · cases h
    · cases h
  · rintro ⟨v, target, rfl, ht⟩
    simp [Value.evaluateBreakContinue, ht]

theorem Parser.rounds_next (p : Parser) (h : p.token ≠ .EOF) : p.next.rounds + 1 ≤ p.rounds := by
  unfold Parser.rounds
  rw [if_neg h]
  cases hs : p.scanner with
  | eof => simp [Parser.next, hs, Scanner.size]
  | tok s rest =>
    simp only [Parser.next, hs, Scanner.size]
    split <;> omega
  | slash s rest re reRest =>
    simp only [Parser.next, hs, Scanner.size]
    split <;> omega

theorem Token.isSync_ne_eof {t : Token} (h : t.isSync = true) : t ≠ .EOF := by
  rintro rfl
  exact absurd h (by decide)

/-- With `rounds` rounds or more the loop of `nextStatement` reaches a `return`, and the
parser it returns is the one of the model without the count. -/
theorem Parser.nextStatementWithin_eq (fuel : Nat) (p : Parser) (h : p.rounds ≤ fuel) :
    p.nextStatementWithin fuel = some (p.nextStatementLoop fuel) := by
  induction fuel generalizing p with
  | zero =>
    unfold Parser.rounds at h
    split at h <;> omega
  | succ n ih =>
    rw [Parser.nextStatementWithin, Parser.nextStatementLoop]
    by_cases c : p.token.isSync = true
    · have hne := Token.isSync_ne_eof c
      have hr := p.rounds_next hne
      rw [if_pos c, if_pos c]
      split
      · rfl
      · split
        · rfl
        · exact ih _ (by omega)
    · rw [if_neg c, if_neg c]
      split
      · rfl
      · rename_i hne
        have hr := p.rounds_next hne
        exact ih _ (by omega)

theorem Parser.nextStatementWithin_mono {fuel : Nat} {p q : Parser}
    (h : p.nextStatementWithin fuel = some q) (fuel2 : Nat) (hf : fuel ≤ fuel2) :
    p.nextStatementWithin fuel2 = some q := by
  induction fuel generalizing p fuel2 with
  | zero => simp [Parser.nextStatementWithin] at h
  | succ n ih =>
    obtain ⟨m, rfl⟩ : ∃ m, fuel2 = m + 1 := ⟨fuel2 - 1, by omega⟩
    rw [Parser.nextStatementWithin] at h ⊢
    split
    · rename_i c
      rw [if_pos c] at h
      split
      · rename_i c1
        rw [if_pos c1] at h
        exact h
      · rename_i c1
        rw [if_neg c1] at h
        split
        · rename_i c2
          rw [if_pos c2] at h
          exact h
        · rename_i c2
          rw [if_neg c2] at h
          exact ih h m (by omega)
    · rename_i c
      rw [if_neg c] at h
      split
      · rename_i c1
        rw [if_pos c1] at h
        exact h
      · rename_i c1
        rw [if_neg c1] at h
        exact ih h m (by omega)

theorem Parser.rounds_le (p : Parser) : p.rounds ≤ p.scanner.size + 2 := by
  unfold Parser.rounds
  split <;> omega

/-- `nextStatement` returns: every count of rounds from `rounds` on reaches the `return`
that gives `p.nextStatement`. -/
theorem Parser.nextStatementWithin_nextStatement (p : Parser) (fuel : Nat)
    (h : p.rounds ≤ fuel) : p.nextStatementWithin fuel = some p.nextStatement := by
  have h1 := p.nextStatementWithin_eq p.rounds (le_refl _)
  have h2 := Parser.nextStatementWithin_mono h1 _ p.rounds_le
  have h3 := p.nextStatementWithin_eq _ p.rounds_le
  have h4 := Parser.nextStatementWithin_mono h1 _ h
  rw [h4]
  rw [h2] at h3
  rw [Parser.nextStatement]
  exact h3

/-- One round of `nextStatement`. -/
theorem Parser.nextStatement_round (p : Parser) :
    p.nextStatement =
      if p.token.isSync then
        if p.idx = p.recover.idx ∧ p.recover.count < 10 then
          { p with recover := { p.recover with count := p.recover.count + 1 } }
        else if p.idx > p.recover.idx then
          { p with recover := { idx := p.idx, count := 0 } }
        else p.next.nextStatement
      else if p.token = .EOF then p
      else p.next.nextStatement := by
  have h := p.nextStatementWithin_nextStatement (p.rounds + 1) (by omega)
  rw [Parser.nextStatementWithin] at h
  have hn : p.token ≠ .EOF →
      p.next.nextStatementWithin p.rounds = some p.next.nextStatement := fun hne =>
    p.next.nextStatementWithin_nextStatement _ (by have := p.rounds_next hne; omega)
  by_cases c : p.token.isSync = true
  · have hne := Token.isSync_ne_eof c
    rw [if_pos c] at h ⊢
    by_cases c1 : p.idx = p.recover.idx ∧ p.recover.count < 10
    · rw [if_pos c1] at h ⊢
      exact (Option.some.inj h).symm
    · rw [if_neg c1] at h ⊢
      by_cases c2 : p.idx > p.recover.idx
      · rw [if_pos c2] at h ⊢
        exact (Option.some.inj h).symm
      · rw [if_neg c2] at h ⊢
        rw [hn hne] at h
        exact (Option.some.inj h).symm
  · rw [if_neg c] at h ⊢
    by_cases c1 : p.token = .EOF
    · rw [if_pos c1] at h ⊢
      exact (Option.some.inj h).symm
    · rw [if_neg c1] at h ⊢
      rw [hn c1] at h
      exact (Option.some.inj h).symm

/-- Where the loop of `nextStatement` returns, the token is one of its list or `EOF`. -/
theorem Parser.nextStatementWithin_token {fuel : Nat} {p q : Parser}
    (h : p.nextStatementWithin fuel = some q) : q.token.isSync = true ∨ q.token = .EOF := by
  induction fuel generalizing p with
  | zero => simp [Parser.nextStatementWithin] at h
  | succ n ih =>
    rw [Parser.nextStatementWithin] at h
    by_cases c : p.token.isSync = true
    · rw [if_pos c] at h
      by_cases c1 : p.idx = p.recover.idx ∧ p.recover.count < 10
      · rw [if_pos c1] at h
        cases h
        exact Or.inl c
      · rw [if_neg c1] at h
        by_cases c2 : p.idx > p.recover.idx
        · rw [if_pos c2] at h
          cases h
          exact Or.inl c
        · rw [if_neg c2] at h
          exact ih h
    · rw [if_neg c] at h
      by_cases c1 : p.token = .EOF
      · rw [if_pos c1] at h
        cases h
        exact Or.inr c1
      · rw [if_neg c1] at h
        exact ih h

theorem Token.isSync_iff (t : Token) :
    t.isSync = true ↔
      t ∈ [Token.BREAK, .CONST, .CONTINUE, .FOR, .IF, .RETURN, .SWITCH, .VAR, .DO, .TRY,
        .LET, .WITH, .WHILE, .THROW, .CATCH, .FINALLY] := by
  cases t <;> simp [Token.isSync]
theorem Parser.next_recover (p : Parser) : p.next.recover = p.recover := by
  unfold Parser.next
  split <;> rfl

/-- What `nextStatement` passes over: it returns the parser some calls of `next` further on,
with `recover` updated; none of the tokens it has consumed is `EOF`, and a token of the
list among them is one at which the guard on `recover` forbids the return. -/
theorem Parser.nextStatement_passes (p : Parser) :
    ∃ j r, p.nextStatement = { Parser.next^[j] p with recover := r } ∧
      ∀ i, i < j → (Parser.next^[i] p).token ≠ .EOF ∧
        ((Parser.next^[i] p).token.isSync = true →
          ¬((Parser.next^[i] p).idx = p.recover.idx ∧ p.recover.count < 10) ∧
          ¬(Parser.next^[i] p).idx > p.recover.idx) := by
  generalize hn : p.rounds = n
  induction n using Nat.strong_induction_on generalizing p with
  | _ n ih =>
    have step : p.token ≠ .EOF →
        (p.token.isSync = true →
          ¬(p.idx = p.recover.idx ∧ p.recover.count < 10) ∧ ¬p.idx > p.recover.idx) →
        ∃ j r, p.next.nextStatement = { Parser.next^[j] p with recover := r } ∧
          ∀ i, i < j → (Parser.next^[i] p).token ≠ .EOF ∧
            ((Parser.next^[i] p).token.isSync = true →
              ¬((Parser.next^[i] p).idx = p.recover.idx ∧ p.recover.count < 10) ∧
              ¬(Parser.next^[i] p).idx > p.recover.idx) := by
      intro hne hg
      obtain ⟨j, r, h1, h2⟩ := ih p.next.rounds (by have := p.rounds_next hne; omega) p.next rfl
      refine ⟨j + 1, r, ?_, ?_⟩
      · rw [h1, Function.iterate_succ_apply]
      · intro i hi
        cases i with
        | zero => exact ⟨hne, hg⟩
        | succ i =>
          rw [Function.iterate_succ_apply]
          have := h2 i (by omega)
          rw [p.next_recover] at this
          exact this
    rw [p.nextStatement_round]
    by_cases c : p.token.isSync = true
    · rw [if_pos c]
      by_cases c1 : p.idx = p.recover.idx ∧ p.recover.count < 10
      · rw [if_pos c1]
        exact ⟨0, _, rfl, fun i hi => absurd hi (Nat.not_lt_zero i)⟩
      · rw [if_neg c1]
        by_cases c2 : p.idx > p.recover.idx
        · rw [if_pos c2]
          exact ⟨0, _, rfl, fun i hi => absurd hi (Nat.not_lt_zero i)⟩
        · rw [if_neg c2]
          exact step (Token.isSync_ne_eof c) fun _ => ⟨c1, c2⟩
    · rw [if_neg c]
      by_cases c1 : p.token = .EOF
      · rw [if_pos c1]
        exact ⟨0, p.recover, rfl, fun i hi => absurd hi (Nat.not_lt_zero i)⟩
      · rw [if_neg c1]
        exact step c1 fun h => absurd h c
theorem Scanner.size_eq_zero (s : Scanner) : s.size = 0 ↔ s = .eof := by
  cases s <;> simp [Scanner.size]

theorem Parser.pending_next_le (p : Parser) : p.next.pending ≤ p.pending := by
  unfold Parser.pending
  cases hs : p.scanner with
  | eof => simp [Parser.next, hs, Scanner.size]
  | tok s rest =>
    simp only [Parser.next, hs, Scanner.size]
    split <;> split <;> omega
  | slash s rest re reRest =>
    simp only [Parser.next, hs, Scanner.size]
    split <;> split <;> omega

theorem Parser.pending_next_lt (p : Parser) (h : p.token ≠ .EOF) :
    p.next.pending < p.pending := by
  unfold Parser.pending
  cases hs : p.scanner with
  | eof => simp [Parser.next, hs, Scanner.size, h]
  | tok s rest =>
    simp only [Parser.next, hs, Scanner.size]
    split <;> split <;> omega
  | slash s rest re reRest =>
    simp only [Parser.next, hs, Scanner.size]
    split <;> split <;> omega

theorem Parser.errorUnexpectedToken_pending (p : Parser) (t : Token) :
    (p.errorUnexpectedToken t).pending = p.pending := by
  unfold Parser.errorUnexpectedToken
  repeat' split
  all_goals rfl

theorem Parser.expect_pending_le (p : Parser) (t : Token) :
    (p.expect t).2.pending ≤ p.pending := by
  unfold Parser.expect
  simp only
  split
  · exact le_trans (Parser.pending_next_le _) (le_of_eq (p.errorUnexpectedToken_pending _))
  · exact Parser.pending_next_le _

theorem Parser.expect_pending_lt (p : Parser) (t : Token) (h : p.token ≠ .EOF) :
    (p.expect t).2.pending < p.pending := by
  unfold Parser.expect
  simp only
  split
  · exact lt_of_lt_of_le
      (Parser.pending_next_lt _ (by rw [Parser.errorUnexpectedToken_token]; exact h))
      (le_of_eq (p.errorUnexpectedToken_pending _))
  · exact Parser.pending_next_lt _ h

/-- A round of the loop of `parseFunctionParameterList` consumes. -/
theorem Parser.parameter_round_lt (p : Parser) (h : p.token ≠ .EOF) :
    (if (if p.token ≠ .IDENTIFIER then (p.expect .IDENTIFIER).2 else p).next.token ≠
          .RIGHT_PARENTHESIS then
        ((if p.token ≠ .IDENTIFIER then (p.expect .IDENTIFIER).2 else p).next.expect .COMMA).2
      else (if p.token ≠ .IDENTIFIER then (p.expect .IDENTIFIER).2 else p).next).pending <
      p.pending := by
  have h1 : (if p.token ≠ .IDENTIFIER then (p.expect .IDENTIFIER).2 else p).next.pending <
      p.pending := by
    split
    · exact lt_of_le_of_lt (Parser.pending_next_le _) (p.expect_pending_lt _ h)
    · exact p.pending_next_lt h
  generalize (if p.token ≠ .IDENTIFIER then (p.expect .IDENTIFIER).2 else p).next = q at h1 ⊢
  split
  · exact lt_of_le_of_lt (Parser.expect_pending_le _ _) h1
  · exact h1

/-- With more rounds than there is left to consume, the loop of
`parseFunctionParameterList` reaches its end, and what it returns is what the model
without the count returns. -/
theorem Parser.parseFunctionParameterListWithin_eq (fuel : Nat) (list : List String)
    (p : Parser) (h : p.pending < fuel) :
    p.parseFunctionParameterListWithin fuel list =
      some (p.parseFunctionParameterListLoop fuel list) := by
  induction fuel generalizing list p with
  | zero => exact absurd h (Nat.not_lt_zero _)
  | succ n ih =>
    rw [Parser.parseFunctionParameterListWithin, Parser.parseFunctionParameterListLoop]
    by_cases c : p.token ≠ .RIGHT_PARENTHESIS ∧ p.token ≠ .EOF
    · rw [if_pos c, if_pos c]
      exact ih _ _ (by have := p.parameter_round_lt c.2; omega)
    · rw [if_neg c, if_neg c]

theorem Parser.parseFunctionParameterListWithin_mono {fuel : Nat} {list : List String}
    {p : Parser} {r : List String × Parser}
    (h : p.parseFunctionParameterListWithin fuel list = some r) (fuel2 : Nat)
    (hf : fuel ≤ fuel2) : p.parseFunctionParameterListWithin fuel2 list = some r := by
  induction fuel generalizing list p fuel2 with
  | zero => simp [Parser.parseFunctionParameterListWithin] at h
  | succ n ih =>
    obtain ⟨m, rfl⟩ : ∃ m, fuel2 = m + 1 := ⟨fuel2 - 1, by omega⟩
    rw [Parser.parseFunctionParameterListWithin] at h ⊢
    by_cases c : p.token ≠ .RIGHT_PARENTHESIS ∧ p.token ≠ .EOF
    · rw [if_pos c] at h ⊢
      exact ih h m (by omega)
    · rw [if_neg c] at h ⊢
      exact h

theorem Parser.pending_le (p : Parser) : p.pending < p.scanner.size + 2 := by
  unfold Parser.pending
  split <;> omega

/-- The loop of `parseFunctionParameterList` ends within the `size + 2` rounds of the
model. -/
theorem Parser.parseFunctionParameterListWithin_loop (p : Parser) (list : List String)
    (k : Nat) :
    p.parseFunctionParameterListWithin (p.scanner.size + 2 + k) list =
      some (p.parseFunctionParameterListLoop (p.scanner.size + 2) list) :=
  Parser.parseFunctionParameterListWithin_mono
    (p.parseFunctionParameterListWithin_eq _ list p.pending_le) _ (Nat.le_add_right _ _)

/-- What a parser has consumed when its measure has gone down from a token other than
`EOF`: a result of the scanner, or the last token (it stands at `EOF`), or nothing but a
set `implicitSemicolon`. -/
theorem Parser.measure_lt_cases {p q : Parser} (h : q.measure < p.measure) :
    q.remaining < p.remaining ∨ (q.remaining = p.remaining ∧ p.token ≠ .EOF ∧ q.token = .EOF) ∨
      (q.remaining = p.remaining ∧ p.implicitSemicolon = true ∧
        q.implicitSemicolon = false) := by
  unfold Parser.measure at h
  by_cases h1 : q.token = .EOF <;> by_cases h2 : p.token = .EOF <;>
    cases h3 : q.implicitSemicolon <;> cases h4 : p.implicitSemicolon <;>
    simp [h1, h2, h3, h4] at h ⊢ <;> omega
/-! ### The statements of a body: `evaluateBody` -/

theorem lastBodyValue_nil (bodyValue : Value) : lastBodyValue bodyValue [] = bodyValue := rfl

theorem lastBodyValue_none (bodyValue : Value) (values : List (Option Value)) :
    lastBodyValue bodyValue (none :: values) = lastBodyValue bodyValue values := rfl

theorem lastBodyValue_some (bodyValue value : Value) (values : List (Option Value)) :
    lastBodyValue bodyValue (some value :: values) = lastBodyValue value values := by
  unfold lastBodyValue
  rw [List.filterMap_cons_some (by rfl : id (some value) = some value)]
  cases h : List.filterMap id values with
  | nil => rfl
  | cons b l =>
    rw [List.getLast?_cons_cons]
    obtain ⟨x, hx⟩ : ∃ x, (b :: l).getLast? = some x :=
      ⟨_, List.getLast?_eq_getLast _ (List.cons_ne_nil b l)⟩
    rw [hx]
    rfl

theorem BodyRuns.fuel {σ : Type} {host : Host σ} {n m : Nat} (hnm : n ≤ m) :
    ∀ {body : List Statement} {r : Runtime σ} {values : List (Option Value)} {q : Runtime σ},
      BodyRuns host n body r values q → BodyRuns host m body r values q
  | [], _, _, _, h => h
  | node :: body, r, values, q, h => by
    obtain ⟨r1, value, h1, h2, h3⟩ := h
    refine ⟨r1, value, evaluate_fuel h1 hnm, h2, ?_⟩
    rcases h3 with ⟨e, rest, hv, hb⟩ | ⟨e, r2, bodyValue, rest, hg, hv, hb⟩
    · exact Or.inl ⟨e, rest, hv, BodyRuns.fuel hnm hb⟩
    · exact Or.inr ⟨e, r2, bodyValue, rest, hg, hv, BodyRuns.fuel hnm hb⟩

/-- A body whose statements yield no result sentinel: `evaluateBody` returns the last value
they have left. -/
theorem evaluateBody_runs {σ : Type} {host : Host σ} {n : Nat} :
    ∀ {body : List Statement} {r : Runtime σ} {values : List (Option Value)} {q : Runtime σ}
      (bodyValue : Value), BodyRuns host n body r values q →
      evaluateBody host (n + body.length + 1) body bodyValue r =
        some (q, .value (lastBodyValue bodyValue values))
  | [], r, values, q, bodyValue, h => by
    obtain ⟨rfl, rfl⟩ := h
    rw [evaluateBody]
    rfl
  | node :: body, r, values, q, bodyValue, h => by
    obtain ⟨r1, value, h1, h2, h3⟩ := h
    rw [evaluateBody, evaluate_fuel h1 (by simp only [List.length_cons]; omega),
      andThen_value, if_neg (by simp [h2])]
    rcases h3 with ⟨e, rest, rfl, hb⟩ | ⟨e, r2, bodyValue2, rest, hg, rfl, hb⟩
    · rw [if_neg (by simp [e]), lastBodyValue_none]
      exact evaluateBody_runs bodyValue hb
    · rw [if_pos (by simp [e]), hg, andThen_value, lastBodyValue_some]
      exact evaluateBody_runs bodyValue2 hb

/-- A body in which a statement yields a result sentinel: `evaluateBody` returns the
sentinel, with the runtime that statement has left, whatever follows the statement. -/
theorem evaluateBody_sentinel {σ : Type} {host : Host σ} {n : Nat} {node : Statement}
    {q : Runtime σ} {value : Value} (post : List Statement) (hv : value.isResult = true) :
    ∀ {pre : List Statement} {r r1 : Runtime σ} {values : List (Option Value)}
      (bodyValue : Value), BodyRuns host n pre r values r1 →
      evaluate host n node r1 = some (q, .value value) →
      evaluateBody host (n + pre.length + 1) (pre ++ node :: post) bodyValue r =
        some (q, .value value)
  | [], r, r1, values, bodyValue, h, hn => by
    obtain ⟨_, rfl⟩ := h
    rw [List.nil_append, evaluateBody, evaluate_fuel hn (by simp), andThen_value, if_pos hv]
  | first :: pre, r, r1, values, bodyValue, h, hn => by
    obtain ⟨r2, value2, h1, h2, h3⟩ := h
    rw [List.cons_append, evaluateBody,
      evaluate_fuel h1 (by simp only [List.length_cons]; omega), andThen_value,
      if_neg (by simp [h2])]
    rcases h3 with ⟨e, rest, _, hb⟩ | ⟨e, r3, bodyValue2, rest, hg, _, hb⟩
    · rw [if_neg (by simp [e])]
      exact evaluateBody_sentinel post hv bodyValue hb hn
    · rw [if_pos (by simp [e]), hg, andThen_value]
      exact evaluateBody_sentinel post hv bodyValue2 hb hn

/-- Whenever `evaluateBody` returns a value, its statements have yielded no result
sentinel and the value is the last they have left, or one of them has yielded a result
sentinel, which is the value, with the runtime that statement has left. -/
theorem evaluateBody_value {σ : Type} {host : Host σ} :
    ∀ (n : Nat) (body : List Statement) (bodyValue : Value) (r q : Runtime σ)
      (result : Value), evaluateBody host n body bodyValue r = some (q, .value result) →
      (∃ values, BodyRuns host n body r values q ∧
        result = lastBodyValue bodyValue values) ∨
      ∃ pre node post values r1, body = pre ++ node :: post ∧
        BodyRuns host n pre r values r1 ∧
        evaluate host n node r1 = some (q, .value result) ∧ result.isResult = true
  | 0, _, _, _, _, _, h => by rw [evaluateBody] at h; cases h
  | n + 1, [], bodyValue, r, q, result, h => by
    rw [evaluateBody] at h
    cases h
    exact Or.inl ⟨[], ⟨rfl, rfl⟩, rfl⟩
  | n + 1, node :: body, bodyValue, r, q, result, h => by
    rw [evaluateBody] at h
    obtain ⟨r1, value, h1, h⟩ := andThen_eq_value h
    have h1' := evaluate_fuel h1 (Nat.le_succ n)
    by_cases c : value.isResult = true
    · rw [if_pos c] at h
      cases h
      exact Or.inr ⟨[], node, body, [], r, rfl, ⟨rfl, rfl⟩, h1', c⟩
    · rw [if_neg c] at h
      have c' : value.isResult = false := by simpa using c
      by_cases e : value.isEmpty = true
      · rw [if_neg (by simp [e])] at h
        rcases evaluateBody_value n body bodyValue r1 q result h with
          ⟨values, hb, hr⟩ | ⟨pre, node2, post, values, r2, hl, hb, hn, hs⟩
        · exact Or.inl ⟨none :: values,
            ⟨r1, value, h1', c', Or.inl ⟨e, values, rfl, hb.fuel (Nat.le_succ n)⟩⟩, hr⟩
        · exact Or.inr ⟨node :: pre, node2, post, none :: values, r2, by rw [hl]; rfl,
            ⟨r1, value, h1', c', Or.inl ⟨e, values, rfl, hb.fuel (Nat.le_succ n)⟩⟩,
            evaluate_fuel hn (Nat.le_succ n), hs⟩
      · rw [if_pos (by simp [e])] at h
        have e' : value.isEmpty = false := by simpa using e
        obtain ⟨r2, bodyValue2, hg, h⟩ := andThen_eq_value h
        rcases evaluateBody_value n body bodyValue2 r2 q result h with
          ⟨values, hb, hr⟩ | ⟨pre, node2, post, values, r3, hl, hb, hn, hs⟩
        · exact Or.inl ⟨some bodyValue2 :: values,
            ⟨r1, value, h1', c',
              Or.inr ⟨e', r2, bodyValue2, values, hg, rfl, hb.fuel (Nat.le_succ n)⟩⟩,
            by rw [lastBodyValue_some]; exact hr⟩
        · exact Or.inr ⟨node :: pre, node2, post, some bodyValue2 :: values, r3,
            by rw [hl]; rfl,
            ⟨r1, value, h1', c',
              Or.inr ⟨e', r2, bodyValue2, values, hg, rfl, hb.fuel (Nat.le_succ n)⟩⟩,
            evaluate_fuel hn (Nat.le_succ n), hs⟩

/-- The loop over the variables of a `VarStatement` returns `empty`. -/
theorem evaluateVarStatement_value {σ : Type} {host : Host σ} (list : List Expression) :
    ∀ (r q : Runtime σ) (value : Value),
      evaluateVarStatement host list r = some (q, .value value) → value = .empty := by
  induction list with
  | nil =>
    intro r q value h
    rw [evaluateVarStatement] at h
    cases h
    rfl
  | cons e list ih =>
    intro r q value h
    cases e <;> first
      | (rw [evaluateVarStatement] at h
         · cases h
         · intro _ _ _ h
           cases h)
      | (rw [evaluateVarStatement] at h
         obtain ⟨r1, _, _, h⟩ := andThen_eq_value h
         exact ih r1 q value h)

/-- A `VarStatement` and an `EmptyStatement` yield `empty`. -/
theorem evaluate_var_empty {σ : Type} {host : Host σ} {n : Nat} {node : Statement}
    {r q : Runtime σ} {value : Value}
    (hn : (∃ idx list, node = .VarStatement idx list) ∨ ∃ idx, node = .EmptyStatement idx)
    (h : evaluate host n node r = some (q, .value value)) : value = .empty := by
  cases n with
  | zero => rw [evaluate] at h; cases h
  | succ n =>
    rw [evaluate] at h
    obtain ⟨r1, _, _, h⟩ := andThen_eq_value h
    rcases hn with ⟨idx, list, rfl⟩ | ⟨idx, rfl⟩
    · exact evaluateVarStatement_value list r1 q value h
    · cases h
      rfl
/-! ### The switch statement -/

theorem Value.evaluateBreak_break {value : Value} {labels : List String} :
    value.evaluateBreak labels = .resultBreak ↔
      ∃ v target, value = .result .resultBreak v target ∧ target ∈ labels := by
  constructor
  · intro h
    unfold Value.evaluateBreak at h
    split at h
    · split at h
      · exact ⟨_, _, rfl, by assumption⟩
      · cases h
    · cases h
  · rintro ⟨v, target, rfl, ht⟩
    simp [Value.evaluateBreak, ht]

theorem Value.evaluateBreak_cases (value : Value) (labels : List String) :
    value.evaluateBreak labels = .resultBreak ∨ value.evaluateBreak labels = .resultReturn := by
  unfold Value.evaluateBreak
  split
  · split
    · exact Or.inl rfl
    · exact Or.inr rfl
  · exact Or.inr rfl

theorem lastValue_empty (result value : Value) (values : List Value)
    (h : value.isEmpty = true) :
    lastValue result (value :: values) = lastValue result values := by
  unfold lastValue
  rw [List.filter_cons_of_neg (by simp [h])]

theorem lastValue_value (result value : Value) (values : List Value)
    (h : value.isEmpty = false) :
    lastValue result (value :: values) = lastValue value values := by
  unfold lastValue
  rw [List.filter_cons_of_pos (by simp [h])]
  cases hf : values.filter (fun value => !value.isEmpty) with
  | nil => rfl
  | cons b l =>
    rw [List.getLast?_cons_cons]
    obtain ⟨x, hx⟩ : ∃ x, (b :: l).getLast? = some x :=
      ⟨_, List.getLast?_eq_getLast _ (List.cons_ne_nil b l)⟩
    rw [hx]
    rfl

/-- The first clause whose test is strictly equal to the discriminant is the target, and
no test behind it is evaluated. -/
theorem evaluateSwitchStatementTarget_first {σ : Type} {host : Host σ}
    {discriminantResult : Value} {test : Expression} {r1 r2 q : Runtime σ}
    {testValue : Value} (idx : Idx) (consequent : List Statement)
    (post : List CaseStatement) (default : Int)
    (ht : evaluateExpression host test r1 = some (r2, .value testValue))
    (hc : host.calculateComparison .STRICT_EQUAL discriminantResult testValue r2 =
      some (q, .value true)) :
    ∀ (pre : List CaseStatement) (index : Nat) (r : Runtime σ),
      NoneEqual host discriminantResult pre r r1 →
      evaluateSwitchStatementTarget host discriminantResult
          (pre ++ .mk idx (some test) consequent :: post) index default r =
        some (q, .value ((index + pre.length : Nat) : Int))
  | [], index, r, h => by
    cases h
    rw [List.nil_append, evaluateSwitchStatementTarget, ht, andThen_value, hc, andThen_value,
      if_pos rfl]
    rfl
  | .mk _ none _ :: pre, index, r, h => by
    rw [List.cons_append, evaluateSwitchStatementTarget,
      evaluateSwitchStatementTarget_first idx consequent post default ht hc pre (index + 1) r h,
      List.length_cons]
    congr 4
    omega
  | .mk _ (some t) _ :: pre, index, r, h => by
    obtain ⟨r3, tv, r4, h1, h2, h3⟩ := h
    rw [List.cons_append, evaluateSwitchStatementTarget, h1, andThen_value, h2, andThen_value,
      if_neg (by simp),
      evaluateSwitchStatementTarget_first idx consequent post default ht hc pre (index + 1) r4
        h3,
      List.length_cons]
    congr 4
    omega

/-- When no test is strictly equal to the discriminant, the target stays `default`. -/
theorem evaluateSwitchStatementTarget_none {σ : Type} {host : Host σ}
    {discriminantResult : Value} (default : Int) {q : Runtime σ} :
    ∀ (body : List CaseStatement) (index : Nat) (r : Runtime σ),
      NoneEqual host discriminantResult body r q →
      evaluateSwitchStatementTarget host discriminantResult body index default r =
        some (q, .value default)
  | [], index, r, h => by
    cases h
    rw [evaluateSwitchStatementTarget]
  | .mk _ none _ :: body, index, r, h => by
    rw [evaluateSwitchStatementTarget]
    exact evaluateSwitchStatementTarget_none default body (index + 1) r h
  | .mk _ (some t) _ :: body, index, r, h => by
    obtain ⟨r3, tv, r4, h1, h2, h3⟩ := h
    rw [evaluateSwitchStatementTarget, h1, andThen_value, h2, andThen_value, if_neg (by simp)]
    exact evaluateSwitchStatementTarget_none default body (index + 1) r4 h3

theorem evaluateSwitchStatementTarget_selects {σ : Type} {host : Host σ}
    {discriminantResult : Value} {body : List CaseStatement} {default : Int}
    {r q : Runtime σ} {target : Int}
    (h : Selects host discriminantResult body default r q target) :
    evaluateSwitchStatementTarget host discriminantResult body 0 default r =
      some (q, .value target) := by
  rcases h with ⟨pre, idx, test, consequent, post, r1, testValue, r2, rfl, h1, h2, h3, rfl⟩ |
    ⟨h, rfl⟩
  · rw [evaluateSwitchStatementTarget_first idx consequent post default h2 h3 pre 0 r h1,
      Nat.zero_add]
  · exact evaluateSwitchStatementTarget_none _ body 0 r h

/-- The loop over the statements of the clauses returns what the two loops of
`evaluateSwitchStatement` return, with fuel for the steps of these. -/
theorem evaluateSwitchStatementBody_statements {σ : Type} {host : Host σ} {n : Nat}
    {labels : List String} (clauses : List CaseStatement) :
    ∀ (consequent : List Statement) (result : Value) (r : Runtime σ),
      Outcome.Le
        (evaluateSwitchStatements host n
          (consequent ++ clauses.flatMap CaseStatement.Consequent) labels result r)
        (evaluateSwitchStatementBody host
          (n + consequent.length + clauses.length +
            (clauses.flatMap CaseStatement.Consequent).length + 1)
          consequent clauses labels result r) := by
  induction clauses with
  | nil =>
    intro consequent
    induction consequent with
    | nil =>
      intro result r
      rw [evaluateSwitchStatementBody]
      exact outcome_le_refl
    | cons statement consequent ih =>
      intro result r
      rw [show n + (statement :: consequent).length + ([] : List CaseStatement).length +
          (([] : List CaseStatement).flatMap CaseStatement.Consequent).length + 1 =
        (n + consequent.length + ([] : List CaseStatement).length +
          (([] : List CaseStatement).flatMap CaseStatement.Consequent).length + 1) + 1 from by
        simp only [List.length_cons]; omega]
      rw [evaluateSwitchStatementBody, List.cons_append, evaluateSwitchStatements]
      refine outcome_le_andThen
        (fuel_le (fun k => (fuelIH host k).evaluate statement r) (by omega)) fun r value => ?_
      split
      · cases value.evaluateBreak labels
        · exact outcome_le_refl
        · exact outcome_le_refl
        · exact ih result r
      · split
        · exact ih result r
        · exact ih value r
  | cons clause clauses ihc =>
    intro consequent
    induction consequent with
    | nil =>
      intro result r
      rw [show n + ([] : List Statement).length + (clause :: clauses).length +
          ((clause :: clauses).flatMap CaseStatement.Consequent).length + 1 =
        (n + clause.Consequent.length + clauses.length +
          (clauses.flatMap CaseStatement.Consequent).length + 1) + 1 from by
        simp only [List.length_cons, List.flatMap_cons, List.length_append, List.length_nil]
        omega]
      rw [evaluateSwitchStatementBody, List.nil_append, List.flatMap_cons]
      exact ihc clause.Consequent result r
    | cons statement consequent ih =>
      intro result r
      rw [show n + (statement :: consequent).length + (clause :: clauses).length +
          ((clause :: clauses).flatMap CaseStatement.Consequent).length + 1 =
        (n + consequent.length + (clause :: clauses).length +
          ((clause :: clauses).flatMap CaseStatement.Consequent).length + 1) + 1 from by
        simp only [List.length_cons]; omega]
      rw [evaluateSwitchStatementBody, List.cons_append, evaluateSwitchStatements]
      refine outcome_le_andThen
        (fuel_le (fun k => (fuelIH host k).evaluate statement r) (by omega)) fun r value => ?_
      split
      · cases value.evaluateBreak labels
        · exact outcome_le_refl
        · exact outcome_le_refl
        · exact ih result r
      · split
        · exact ih result r
        · exact ih value r

/-- Statements that yield no result sentinel: the loop returns the last value that is not
empty. -/
theorem evaluateSwitchStatements_run {σ : Type} {host : Host σ} {n : Nat}
    {labels : List String} :
    ∀ {list : List Statement} {r q : Runtime σ} {values : List Value} (result : Value),
      StatementsRun host n list r values q →
      evaluateSwitchStatements host n list labels result r =
        some (q, .value (lastValue result values))
  | [], r, q, values, result, h => by
    obtain ⟨rfl, rfl⟩ := h
    rfl
  | statement :: list, r, q, values, result, h => by
    obtain ⟨r1, value, rest, h1, h2, rfl, h3⟩ := h
    rw [evaluateSwitchStatements, h1, andThen_value, if_neg (by simp [h2])]
    by_cases e : value.isEmpty = true
    · rw [if_pos e, lastValue_empty _ _ _ e]
      exact evaluateSwitchStatements_run result h3
    · rw [if_neg e, lastValue_value _ _ _ (by simpa using e)]
      exact evaluateSwitchStatements_run value h3

/-- A statement that yields a result sentinel ends the loop: with the empty value if the
sentinel is a break with its target among `labels`, and with the sentinel otherwise. -/
theorem evaluateSwitchStatements_sentinel {σ : Type} {host : Host σ} {n : Nat}
    {labels : List String} {statement : Statement} {q : Runtime σ} {value : Value}
    (rest : List Statement) (hv : value.isResult = true) :
    ∀ {first : List Statement} {r r1 : Runtime σ} {values : List Value} (result : Value),
      StatementsRun host n first r values r1 →
      evaluate host n statement r1 = some (q, .value value) →
      evaluateSwitchStatements host n (first ++ statement :: rest) labels result r =
        some (q, .value (if value.evaluateBreak labels = .resultBreak then .empty else value))
  | [], r, r1, values, result, h, hs => by
    obtain ⟨_, rfl⟩ := h
    rw [List.nil_append, evaluateSwitchStatements, hs, andThen_value, if_pos hv]
    rcases value.evaluateBreak_cases labels with e | e
    · rw [e, if_pos rfl]
    · rw [e, if_neg (by simp)]
  | s :: first, r, r1, values, result, h, hs => by
    obtain ⟨r2, v, vs, h1, h2, _, h3⟩ := h
    rw [List.cons_append, evaluateSwitchStatements, h1, andThen_value, if_neg (by simp [h2])]
    by_cases e : v.isEmpty = true
    · rw [if_pos e]
      exact evaluateSwitchStatements_sentinel rest hv result h3 hs
    · rw [if_neg e]
      exact evaluateSwitchStatements_sentinel rest hv v h3 hs

/-- `evaluateSwitchStatement` behind the selection of the clause: nothing is executed for
the target -1, and the consequents from the clause `target` on are executed otherwise. -/
theorem evaluateSwitchStatement_selected {σ : Type} {host : Host σ}
    {discriminant : Expression} {default : Int} {body : List CaseStatement}
    {r r1 r2 : Runtime σ} {discriminantResult : Value} {target : Int}
    (hd : evaluateExpression host discriminant { r with labels := [] } =
      some (r1, .value discriminantResult))
    (hs : Selects host discriminantResult body default r1 r2 target) (n : Nat) :
    (target = -1 →
      evaluateSwitchStatement host (n + 1) discriminant default body r =
        some (r2, .value .empty)) ∧
    (0 ≤ target → target ≤ body.length →
      evaluateSwitchStatement host (n + 1) discriminant default body r =
        evaluateSwitchStatementBody host n [] (body.drop target.toNat) (r.labels ++ [""])
          .empty r2) := by
  have ht := evaluateSwitchStatementTarget_selects hs
  constructor
  · intro e
    rw [evaluateSwitchStatement]
    rw [hd, andThen_value, ht, andThen_value, if_neg (by simp [e])]
  · intro h0 h1
    rw [evaluateSwitchStatement]
    rw [hd, andThen_value, ht, andThen_value, if_pos (by omega), if_neg (by omega)]
/-! ### The steps of the loops -/

/-- A loop body whose statements yield no result sentinel: the loop over it ends at the
end of the body, with the last value that is not empty. -/
theorem evaluateLoopBody_done {σ : Type} {host : Host σ} {n : Nat} (labels : List String) :
    ∀ {body : List Statement} {r q : Runtime σ} {values : List Value} (result : Value),
      StatementsRun host n body r values q →
      evaluateLoopBody host (n + body.length + 1) body labels result r =
        some (q, .value (.done (lastValue result values)))
  | [], r, q, values, result, h => by
    obtain ⟨rfl, rfl⟩ := h
    rw [evaluateLoopBody]
    rfl
  | statement :: body, r, q, values, result, h => by
    obtain ⟨r1, value, rest, h1, h2, rfl, h3⟩ := h
    rw [evaluateLoopBody, evaluate_fuel h1 (by simp only [List.length_cons]; omega),
      andThen_value, if_neg (by simp [h2])]
    by_cases e : value.isEmpty = true
    · rw [if_pos e, lastValue_empty _ _ _ e]
      exact evaluateLoopBody_done labels result h3
    · rw [if_neg e, lastValue_value _ _ _ (by simpa using e)]
      exact evaluateLoopBody_done labels value h3

/-- A loop body in which a statement yields a result sentinel: the loop over it ends at
that statement, whatever follows it. -/
theorem evaluateLoopBody_sentinel {σ : Type} {host : Host σ} {n : Nat}
    (labels : List String) {statement : Statement} {q : Runtime σ} {value : Value}
    (rest : List Statement) (hv : value.isResult = true) :
    ∀ {first : List Statement} {r r1 : Runtime σ} {values : List Value} (result : Value),
      StatementsRun host n first r values r1 →
      evaluate host n statement r1 = some (q, .value value) →
      evaluateLoopBody host (n + first.length + 1) (first ++ statement :: rest) labels result
          r =
        some (q, .value
          (match value.evaluateBreakContinue labels with
            | .resultReturn => .resultReturn value
            | .resultBreak => .resultBreak (lastValue result values)
            | .resultContinue => .resultContinue (lastValue result values)))
  | [], r, r1, values, result, h, hs => by
    obtain ⟨rfl, rfl⟩ := h
    rw [List.nil_append, evaluateLoopBody, evaluate_fuel hs (by simp), andThen_value,
      if_pos hv]
    cases value.evaluateBreakContinue labels <;> rfl
  | s :: first, r, r1, values, result, h, hs => by
    obtain ⟨r2, v, vs, h1, h2, rfl, h3⟩ := h
    rw [List.cons_append, evaluateLoopBody,
      evaluate_fuel h1 (by simp only [List.length_cons]; omega), andThen_value,
      if_neg (by simp [h2])]
    by_cases e : v.isEmpty = true
    · rw [if_pos e, lastValue_empty _ _ _ e]
      exact evaluateLoopBody_sentinel labels rest hv result h3 hs
    · rw [if_neg e, lastValue_value _ _ _ (by simpa using e)]
      exact evaluateLoopBody_sentinel labels rest hv v h3 hs

/-! ## The properties `C1` to `C40` -/

/-- C1: with enough fuel for the results of the scanner, `Parse` returns a program for
every source, whether or not errors were recorded; the error it returns is the first
element of the parser's error list, `nil` exactly if the list is empty; `error` appends
its error behind those recorded before, `next` appends the errors of the scanner, and
what `parseProgram` finds recorded stays in front of what it records. -/
theorem C1_parse_returns_program (filename : String) (source : List Nat)
    (scanner : Scanner) (n : Nat) (hn : 512 * (scanner.size + 1) ≤ n) :
    ∃ program q,
      (newParser filename source scanner).parseState n = some (program, q) ∧
      Parse n filename source scanner = some (program, q.errors.head?) ∧
      (q.errors.head? = none ↔ q.errors = []) ∧
      (∀ e, q.errors.head? = some e ↔ ∃ rest, q.errors = e :: rest) ∧
      (∀ (p : Parser) (place : Idx) (message : String),
        ∃ e, e.Message = message ∧ (p.error place message).errors = p.errors ++ [e]) ∧
      (∀ p : Parser, ∃ l, p.next.errors = p.errors ++ l) ∧
      (∀ (m : Nat) (p : Parser) (r : Program × Parser),
        parseProgram m p = some r → ∃ l, r.2.errors = p.errors ++ l) := by
  obtain ⟨r, hr⟩ := total_parseProgram n (newParser filename source scanner).next
    (lt_of_lt_of_le (newParser_budget filename source scanner) hn)
  refine ⟨r.1, r.2, hr, ?_, List.head?_eq_none_iff, ?_, ?_, ?_, ?_⟩
  · simp [Parse, Parser.parse, Parser.parseState, hr]
  · intro e
    cases r.2.errors <;> simp
  · intro p place message
    exact ⟨_, rfl, rfl⟩
  · intro p
    exact (Parser.steps_next p).errors
  · intro m p r h
    exact (steps_parseProgram m p r h).errors

/-- C1, for the source `a = b ? c : d = e`. -/
theorem C1_parse_returns_program_witness :
    512 * (conditionalAssignTokens.size + 1) ≤ 6000 ∧
      ∃ program q,
        (newParser "" conditionalAssignSource conditionalAssignTokens).parseState 6000 =
          some (program, q) ∧
        Parse 6000 "" conditionalAssignSource conditionalAssignTokens =
          some (program, q.errors.head?) :=
  ⟨by decide,
    let ⟨program, q, h1, h2, _⟩ :=
      C1_parse_returns_program "" conditionalAssignSource conditionalAssignTokens 6000
        (by decide)
    ⟨program, q, h1, h2⟩⟩

/-- C2: parsing `a = b ? c : d = e` records no error and yields the single expression
statement `Assign(a, Conditional(b, c, Assign(d, e)))`. -/
theorem C2_conditional_assign :
    Parse 200 "" conditionalAssignSource conditionalAssignTokens =
      some ({ Body := [.ExpressionStatement (.AssignExpression .ASSIGN (.Identifier "a" 1)
                (.ConditionalExpression (.Identifier "b" 5) (.Identifier "c" 9)
                  (.AssignExpression .ASSIGN (.Identifier "d" 13) (.Identifier "e" 17))))],
              FunctionList := [], VariableList := [] }, none) ∧
    ((newParser "" conditionalAssignSource conditionalAssignTokens).parseState 200).map
      (fun r => r.2.errors) = some [] :=
  ⟨rfl, rfl⟩

/-- C3: for binary operators `op1` and `op2` with `op1` on a strictly looser level than
`op2` in the order logical-or, logical-and, bitwise-or, bitwise-xor, bitwise-and, equality,
relational, shift, additive, multiplicative, and identifiers `x`, `y`, `z`, the source
`x op1 y op2 z` parses without error as `Binary(op1, x, Binary(op2, y, z))` and the source
`x op2 y op1 z` as `Binary(op1, Binary(op2, x, y), z)`. -/
theorem C3_binary_precedence (op1 op2 : Token) (h1 : 0 < op1.precedence)
    (h2 : op1.precedence < op2.precedence) (x y z s1 s2 : String)
    (i1 i2 i3 i4 i5 length : Nat) (filename : String) (source : List Nat) (n : Nat)
    (hn : 37 ≤ n) :
    (Parse n filename source (binaryTokens x op1 s1 y op2 s2 z i1 i2 i3 i4 i5 length)).map
        (fun r => (r.1.Body, r.2)) =
      some ([.ExpressionStatement (binaryNode op1 (.Identifier x i1)
        (binaryNode op2 (.Identifier y i3) (.Identifier z i5)))], none) ∧
    (Parse n filename source (binaryTokens x op2 s2 y op1 s1 z i1 i2 i3 i4 i5 length)).map
        (fun r => (r.1.Body, r.2)) =
      some ([.ExpressionStatement (binaryNode op1
        (binaryNode op2 (.Identifier x i1) (.Identifier y i3)) (.Identifier z i5))],
        none) := by
  have l1 : op1.level = 11 - op1.precedence := rfl
  have l2 : op2.level = 11 - op2.precedence := rfl
  have b2 := Token.precedence_le op2
  have hk : op2.level < op1.level := by omega
  have hk1 : op1.level ≤ 10 := by omega
  have hk2 : 1 ≤ op2.level := by omega
  constructor
  · have hR := parses_right
      (p := (newParser filename source
        (binaryTokens x op1 s1 y op2 s2 z i1 i2 i3 i4 i5 length)).next.openScope)
      hk hk1 hk2 rfl rfl rfl rfl rfl rfl rfl
    rw [Parse_body, parseProgram_binary hR rfl rfl n (by omega)]
    rfl
  · have hL := parses_left
      (p := (newParser filename source
        (binaryTokens x op2 s2 y op1 s1 z i1 i2 i3 i4 i5 length)).next.openScope)
      hk hk1 hk2 rfl rfl rfl rfl rfl rfl rfl
    rw [Parse_body, parseProgram_binary hL rfl rfl n (by omega)]
    rfl

/-- C3, for the source `x + y * z`. -/
theorem C3_binary_precedence_witness :
    0 < Token.PLUS.precedence ∧ Token.PLUS.precedence < Token.MULTIPLY.precedence ∧
      (Parse 40 "" (asciiBytes "x + y * z")
          (binaryTokens "x" .PLUS "" "y" .MULTIPLY "" "z" 1 3 5 7 9 9)).map
          (fun r => (r.1.Body, r.2)) =
        some ([.ExpressionStatement (binaryNode .PLUS (.Identifier "x" 1)
          (binaryNode .MULTIPLY (.Identifier "y" 5) (.Identifier "z" 9)))], none) :=
  ⟨by decide, by decide,
    (C3_binary_precedence .PLUS .MULTIPLY (by decide) (by decide) "x" "y" "z" "" "" 1 3 5 7
      9 9 "" (asciiBytes "x + y * z") 40 (by decide)).1⟩

/-- C4: in every program `Parse` returns, the `Left` of every `AssignExpression` and the
`Operand` of every `UnaryExpression` with operator `++` or `--`, postfix or prefix, is an
`Identifier`, a `DotExpression` or a `BracketExpression`; when the operand of a postfix or
prefix `++`/`--`, or the left side of an assignment, is another expression, the parser
records 'Invalid left-hand side in assignment' and returns a `BadExpression`. -/
theorem C4_target_is_reference :
    (∀ (n : Nat) (filename : String) (source : List Nat) (scanner : Scanner)
      (r : Program × Option Error), Parse n filename source scanner = some r →
      r.1.All Expression.targetIsReference (fun _ _ => True)) ∧
    (∀ (n : Nat) (p q : Parser) (operand : Expression),
      parseLeftHandSideExpressionAllowCall n p = some (operand, q) →
      q.token = .INCREMENT ∨ q.token = .DECREMENT → q.implicitSemicolon = false →
      operand.isReference = false →
      parsePostfixExpression (n + 1) p =
        some (.BadExpression q.idx (q.next.invalidLeftHandSide q.idx).idx,
          q.next.invalidLeftHandSide q.idx)) ∧
    (∀ (n : Nat) (p q : Parser) (operand : Expression),
      p.token = .INCREMENT ∨ p.token = .DECREMENT →
      parseUnaryExpression n p.next = some (operand, q) → operand.isReference = false →
      parseUnaryExpression (n + 1) p =
        some (.BadExpression p.idx (q.invalidLeftHandSide p.idx).idx,
          q.invalidLeftHandSide p.idx)) ∧
    (∀ (n : Nat) (p q : Parser) (left : Expression) (operator : Token),
      parseConditionlExpression n p = some (left, q) →
      assignmentOperator q.token = some operator → left.isReference = false →
      ∃ idx0, left.Idx0 = some idx0 ∧
        parseAssignmentExpression (n + 1) p =
          some (.BadExpression q.idx (q.next.invalidLeftHandSide idx0).idx,
            q.next.invalidLeftHandSide idx0)) ∧
    (∀ (p : Parser) (idx : Idx),
      "Invalid left-hand side in assignment" ∈ (p.invalidLeftHandSide idx).messages) :=
  ⟨fun _ _ _ _ _ h => Parse_targetIsReference h, parsePostfixExpression_reject,
    parseUnaryExpression_reject, parseAssignmentExpression_reject,
    Parser.invalidLeftHandSide_messages⟩

/-- C4, for the source `a = b ? c : d = e`. -/
theorem C4_target_is_reference_witness :
    ∃ r, Parse 200 "" conditionalAssignSource conditionalAssignTokens = some r ∧
      r.1.All Expression.targetIsReference (fun _ _ => True) :=
  ⟨_, rfl, C4_target_is_reference.1 200 "" conditionalAssignSource conditionalAssignTokens
    _ rfl⟩

/-- C5 (the code at the failing input): on `while (a) { break }` the parser does not
accept the `break` that is terminated by the closing brace; it records
`Unexpected token }` and `Illegal break statement` and yields a `BadStatement`. -/
theorem C5_break_before_brace :
    ((newParser "" breakBeforeBraceSource breakBeforeBraceTokens).parseState 200).map
        (fun r => (r.1.Body, r.2.messages)) =
      some ([.WhileStatement 0 (.Identifier "a" 8)
              (.BlockStatement 11 [.BadStatement 13 20] 20)],
            ["Unexpected token \x7d", "Illegal break statement", "Unexpected end of input"]) :=
  rfl

/-- C6: `hasLabel` looks for the label in the scope and in the outer scopes up to the
first scope with `inFunction` set; `break L` and `continue L` are accepted only when
`hasLabel` finds `L` (and, for `continue`, inside an iteration), otherwise
`Undefined label 'L'` is recorded and a `BadStatement` returned; a label around a
function expression is not found from inside its body. -/
theorem C6_label_scope :
    (∀ (name : String) (stack : List Scope),
      hasLabel name stack = true ↔
        ∃ inner scope outer, stack = inner ++ scope :: outer ∧ name ∈ scope.labels ∧
          ∀ s ∈ inner, s.inFunction = false) ∧
    (∀ self : Parser, self.token = .BREAK → self.next.token = .IDENTIFIER →
      self.next.implicitSemicolon = false →
      self.parseBreakStatement =
        if hasLabel self.next.literal self.scope then
          (.BranchStatement self.idx .BREAK (some ⟨self.next.literal, self.next.idx⟩),
            self.next.next.semicolon)
        else
          (.BadStatement self.idx (self.next.idx + self.next.literal.utf8ByteSize),
            self.next.next.error self.idx
              ("Undefined label '" ++ self.next.literal ++ "'"))) ∧
    (∀ self : Parser, self.token = .CONTINUE → self.next.token = .IDENTIFIER →
      self.next.implicitSemicolon = false →
      self.parseContinueStatement =
        if hasLabel self.next.literal self.scope then
          if self.currentScope.inIteration then
            (.BranchStatement self.idx .CONTINUE (some ⟨self.next.literal, self.next.idx⟩),
              self.next.next.semicolon)
          else self.next.next.illegalBranch self.idx "Illegal continue statement"
        else
          (.BadStatement self.idx (self.next.idx + self.next.literal.utf8ByteSize),
            self.next.next.error self.idx
              ("Undefined label '" ++ self.next.literal ++ "'"))) ∧
    (∀ (self : Parser) (place : Idx) (message : String),
      (self.error place message).messages = self.messages ++ [message]) ∧
    ((newParser "" labelAcrossFunctionSource labelAcrossFunctionTokens).parseState 200).map
        (fun r => r.2.messages) = some ["Undefined label 'L'"] :=
  ⟨hasLabel_iff, parseBreakStatement_label, parseContinueStatement_label,
    Parser.error_messages, by decide!⟩

/-- C6, at a `break L` in a function body inside the statement labelled `L`: the label
is not found and the statement is rejected. -/
theorem C6_label_scope_witness :
    hasLabel "L" breakInFunctionParser.scope = false ∧
    breakInFunctionParser.parseBreakStatement =
      if hasLabel breakInFunctionParser.next.literal breakInFunctionParser.scope then
        (.BranchStatement breakInFunctionParser.idx .BREAK
            (some ⟨breakInFunctionParser.next.literal, breakInFunctionParser.next.idx⟩),
          breakInFunctionParser.next.next.semicolon)
      else
        (.BadStatement breakInFunctionParser.idx
            (breakInFunctionParser.next.idx +
              breakInFunctionParser.next.literal.utf8ByteSize),
          breakInFunctionParser.next.next.error breakInFunctionParser.idx
            ("Undefined label '" ++ breakInFunctionParser.next.literal ++ "'")) :=
  ⟨by decide, C6_label_scope.2.1 breakInFunctionParser rfl rfl rfl⟩

/-- C7: `parseReturnStatement` accepts a `return` exactly if the innermost scope has
`inFunction` set: without it, it records 'Illegal return statement' and returns a
`BadStatement`, with it a `ReturnStatement`; the scope of the program has the flag unset,
and it is as it was once a function has been parsed; so in every program `Parse` returns,
every `ReturnStatement` stands in the body of a function.  On
`function f() { return; } return` the second `return` is rejected. -/
theorem C7_return_in_function :
    (∀ (n : Nat) (p : Parser), p.currentScope.inFunction = false →
      parseReturnStatement (n + 1) p =
        some (.BadStatement p.idx
            (((p.expect .RETURN).2.error p.idx
              "Illegal return statement").nextStatement).idx,
          ((p.expect .RETURN).2.error p.idx "Illegal return statement").nextStatement) ∧
      "Illegal return statement" ∈
        (((p.expect .RETURN).2.error p.idx
          "Illegal return statement").nextStatement).messages) ∧
    (∀ (n : Nat) (p : Parser) (r : Statement × Parser),
      p.currentScope.inFunction = true → parseReturnStatement n p = some r →
      ∃ idx argument, r.1 = .ReturnStatement idx argument) ∧
    (∀ p : Parser, p.openScope.currentScope.inFunction = false) ∧
    (∀ (n : Nat) (declaration : Bool) (p : Parser) (r : Expression × Parser),
      parseFunction n declaration p = some r →
      r.2.currentScope.inFunction = p.currentScope.inFunction) ∧
    (∀ (n : Nat) (filename : String) (source : List Nat) (scanner : Scanner)
      (r : Program × Option Error), Parse n filename source scanner = some r →
      r.1.All (fun _ => True) Statement.returnInFunction) ∧
    ((newParser "" returnAfterFunctionSource returnAfterFunctionTokens).parseState 200).map
        (fun r => (r.1.Body, r.1.FunctionList, r.2.messages)) =
      some ([.EmptyStatement 0, .BadStatement 26 32],
        [.mk "f" (.node (.FunctionExpression 1
          (.BlockStatement 14 [.ReturnStatement 16 none] 24)
          (returnAfterFunctionSource.take 24) [] [] []))],
        ["Illegal return statement"]) :=
  ⟨fun n p h => ⟨parseReturnStatement_reject n p h,
      Parser.mem_messages_of_steps (Parser.Steps.refl _).nextStatement
        (Parser.mem_messages_error _ _ _)⟩,
    fun n p r h hr => parseReturnStatement_accept n p r h hr, fun _ => rfl,
    parseFunction_inFunction, fun _ _ _ _ _ h => Parse_returnInFunction h, rfl⟩

/-- C7, for the source `function f() { return; } return`. -/
theorem C7_return_in_function_witness :
    ∃ r, Parse 200 "" returnAfterFunctionSource returnAfterFunctionTokens = some r ∧
      r.1.All (fun _ => True) Statement.returnInFunction :=
  ⟨_, rfl, C7_return_in_function.2.2.2.2.1 200 "" returnAfterFunctionSource
    returnAfterFunctionTokens _ rfl⟩

/-- C8: in every program `Parse` returns, every `TryStatement` has a `Catch` or a
`Finally`; when the block of a `try` is followed by neither `catch` nor `finally`,
`parseTryStatement` records 'Missing catch or finally after try' and returns a
`BadStatement` in place of the node, as it does on the source `try { }`. -/
theorem C8_try_has_handler :
    (∀ (n : Nat) (filename : String) (source : List Nat) (scanner : Scanner)
      (r : Program × Option Error), Parse n filename source scanner = some r →
      r.1.All (fun _ => True) Statement.tryHasHandler) ∧
    (∀ (n : Nat) (p q : Parser) (body : Statement),
      parseBlockStatement n (p.expect .TRY).2 = some (body, q) →
      q.token ≠ .CATCH → q.token ≠ .FINALLY →
      ∃ idx1, body.Idx1 = some idx1 ∧
        parseTryStatement (n + 1) p =
          some (.BadStatement p.idx idx1,
            q.error p.idx "Missing catch or finally after try")) ∧
    (∀ (q : Parser) (place : Idx) (message : String),
      (q.error place message).messages = q.messages ++ [message]) ∧
    ((newParser "" tryAloneSource tryAloneTokens).parseState 200).map
        (fun r => (r.1.Body, r.2.messages)) =
      some ([.BadStatement 1 8], ["Missing catch or finally after try"]) :=
  ⟨fun _ _ _ _ _ h => Parse_tryHasHandler h, parseTryStatement_reject,
    Parser.error_messages, rfl⟩

/-- C8, for the source `try { }`. -/
theorem C8_try_has_handler_witness :
    ∃ r, Parse 200 "" tryAloneSource tryAloneTokens = some r ∧
      r.1.All (fun _ => True) Statement.tryHasHandler :=
  ⟨_, rfl, C8_try_has_handler.1 200 "" tryAloneSource tryAloneTokens _ rfl⟩

/-- C9: in every program `Parse` returns without an error, every `SwitchStatement` has at
most one clause whose `Test` is `nil`, and its `Default` is the index of that clause in
`Body`, or `-1` if there is none; in the loop of `parseSwitchStatement`, a default clause
behind clauses that hold a default clause makes the parser record
'Already saw a default in switch', as on `switch (a) { default: default: }`. -/
theorem C9_one_default :
    (∀ (n : Nat) (filename : String) (source : List Nat) (scanner : Scanner)
      (program : Program), Parse n filename source scanner = some (program, none) →
      program.All (fun _ => True) Statement.oneDefault) ∧
    (∀ (n : Nat) (body : List CaseStatement) (p q : Parser) (clause : CaseStatement),
      p.token ≠ .EOF → p.token ≠ .RIGHT_BRACE →
      parseCaseStatement n p = some (clause, q) → clause.Test = none →
      0 < countDefaults body →
      parseSwitchStatementLoop (n + 1) body.length (lastDefault body) body p =
        parseSwitchStatementLoop n (body.length + 1) body.length (body ++ [clause])
          (q.error clause.Case "Already saw a default in switch")) ∧
    (∀ (q : Parser) (place : Idx) (message : String),
      (q.error place message).messages = q.messages ++ [message]) ∧
    ((newParser "" twoDefaultsSource twoDefaultsTokens).parseState 200).map
        (fun r => (r.1.Body, r.2.messages)) =
      some ([.SwitchStatement 0 (.Identifier "a" 9) 1 [.mk 14 none [], .mk 23 none []]],
        ["Already saw a default in switch"]) :=
  ⟨fun _ _ _ _ _ h => Parse_oneDefault h, parseSwitchStatementLoop_second,
    Parser.error_messages, rfl⟩

/-- C9, for the source `switch (a) { case b: default: }`. -/
theorem C9_one_default_witness :
    ∃ program, Parse 200 "" oneDefaultSource oneDefaultTokens = some (program, none) ∧
      program.All (fun _ => True) Statement.oneDefault :=
  ⟨_, rfl, C9_one_default.1 200 "" oneDefaultSource oneDefaultTokens _ rfl⟩

/-- C10 (the code at the failing input): in `function f() { var x; }` the name `x` is
declared once and stands twice in the `VariableList` of `f`. -/
theorem C10_var_registered_twice :
    ((newParser "" varInFunctionSource varInFunctionTokens).parseState 200).map
        (fun r => (r.1.FunctionList, r.2.errors)) =
      some ([.mk "f" (.node (.FunctionExpression 1
              (.BlockStatement 14 [.VarStatement 16 [.VariableExpression "x" 20 none]] 23)
              varInFunctionSource [] [] [.mk "x" .nil, .mk "x" .nil]))], []) :=
  rfl

/-- C11: `parseStatement` at `function` runs `parseFunction(true)` and returns an
`EmptyStatement`; a function declaration with a name adds exactly the declaration of that
name, with its node as definition, at the end of the `FunctionList` of the scope it stands
in, and leaves the scope stack as it was otherwise; a function expression leaves the
scope stack as it was, and a named function expression has the declaration of its name
at the head of its own `FunctionList`.  On `function f() { }` the program gets the
declaration of `f`; on `x = function g() { }` it gets none. -/
theorem C11_function_declaration :
    (∀ (n : Nat) (p : Parser), p.token = .FUNCTION →
      parseStatement (n + 1) p =
        (parseFunction n true p).map (fun r => (Statement.EmptyStatement 0, r.2))) ∧
    (∀ (n : Nat) (p : Parser) (r : Expression × Parser),
      parseFunction n true p = some r → (p.expect .FUNCTION).2.token = .IDENTIFIER →
      r.2.scope = (p.addFunction (p.expect .FUNCTION).2.literal (.node r.1)).scope) ∧
    (∀ (p : Parser) (s : Scope) (outer : List Scope) (name : String)
      (definition : Definition), p.scope = s :: outer →
      (p.addFunction name definition).scope =
        { s with functionList := s.functionList ++ [.mk name definition] } :: outer) ∧
    (∀ (n : Nat) (p : Parser) (r : Expression × Parser),
      parseFunction n false p = some r → r.2.scope = p.scope) ∧
    (∀ (n : Nat) (p : Parser) (r : Expression × Parser),
      parseFunction n false p = some r → (p.expect .FUNCTION).2.token = .IDENTIFIER →
      (p.expect .FUNCTION).2.literal ≠ "" →
      ∃ function body source parameterList l variableList,
        r.1 = .FunctionExpression function body source parameterList
          (.mk (p.expect .FUNCTION).2.literal .self :: l) variableList) ∧
    ((newParser "" functionDeclarationSource functionDeclarationTokens).parseState 200).map
        (fun r => (r.1.Body, r.1.FunctionList, r.2.errors)) =
      some ([.EmptyStatement 0],
        [.mk "f" (.node (.FunctionExpression 1 (.BlockStatement 14 [] 16)
          functionDeclarationSource [] [] []))], []) ∧
    ((newParser "" functionExpressionSource functionExpressionTokens).parseState 200).map
        (fun r => (r.1.Body, r.1.FunctionList, r.2.errors)) =
      some ([.ExpressionStatement (.AssignExpression .ASSIGN (.Identifier "x" 1)
          (.FunctionExpression 5 (.BlockStatement 18 [] 20)
            (functionExpressionSource.drop 4) [] [.mk "g" .self] []))], [], []) := by
  refine ⟨parseStatement_function, ?_, ?_, ?_, parseFunction_own_name, rfl, rfl⟩
  · intro n p r h ht
    rw [parseFunction_scope n true p r h, if_pos ⟨ht, rfl⟩]
  · intro p s outer name definition hs
    simp [Parser.addFunction, Parser.modifyScope, hs]
  · intro n p r h
    rw [parseFunction_scope n false p r h, if_neg (by simp)]

/-- C11, at the declaration `function f() { }`. -/
theorem C11_function_declaration_witness :
    ∃ r, parseFunction 100 true
        (newParser "" functionDeclarationSource functionDeclarationTokens).next.openScope
        = some r ∧
      r.2.scope =
        ((newParser "" functionDeclarationSource
          functionDeclarationTokens).next.openScope.addFunction "f" (.node r.1)).scope :=
  ⟨_, rfl, C11_function_declaration.2.1 100
    (newParser "" functionDeclarationSource functionDeclarationTokens).next.openScope
    _ rfl rfl⟩

/-- C12 (the code at the failing input): `a   ++` is parsed without error into a postfix
`UnaryExpression` whose `Idx0` is the place `5` of the operator and whose `Idx1` is the end
`2` of the operand plus `2`, so `Idx0 > Idx1`; and in `x = new a` the `NewExpression` has
`Idx0 = 5` and `Idx1 = 1`. -/
theorem C12_postfix_span :
    ((newParser "" postfixAfterBlanksSource postfixAfterBlanksTokens).parseState 200).map
        (fun r => (r.1.Body, r.2.errors)) =
      some ([.ExpressionStatement (.UnaryExpression .INCREMENT 5 (.Identifier "a" 1) true)],
        []) ∧
    (Expression.UnaryExpression .INCREMENT 5 (.Identifier "a" 1) true).Idx0 = some 5 ∧
    (Expression.UnaryExpression .INCREMENT 5 (.Identifier "a" 1) true).Idx1 = some 4 ∧
    ((newParser "" newWithoutArgumentsSource newWithoutArgumentsTokens).parseState 200).map
        (fun r => (r.1.Body, r.2.errors)) =
      some ([.ExpressionStatement (.AssignExpression .ASSIGN (.Identifier "x" 1)
        (.NewExpression 5 (.Identifier "a" 9) 0 [] 0))], []) ∧
    (Expression.NewExpression 5 (.Identifier "a" 9) 0 [] 0).Idx0 = some 5 ∧
    (Expression.NewExpression 5 (.Identifier "a" 9) 0 [] 0).Idx1 = some 1 :=
  ⟨rfl, rfl, rfl, rfl, rfl, rfl⟩

/-- C13 (the code at the failing input): `a ? b : c` is parsed without error into a
`ConditionalExpression` whose `Idx1` is the `Idx1` of its test, `2`, while its alternate
`c` begins at `9` and ends at `10`. -/
theorem C13_conditional_span :
    ((newParser "" conditionalSource conditionalTokens).parseState 200).map
        (fun r => (r.1.Body, r.2.errors)) =
      some ([.ExpressionStatement (.ConditionalExpression (.Identifier "a" 1)
        (.Identifier "b" 5) (.Identifier "c" 9))], []) ∧
    (Expression.ConditionalExpression (.Identifier "a" 1) (.Identifier "b" 5)
      (.Identifier "c" 9)).Idx1 = some 2 ∧
    (Expression.Identifier "c" 9).Idx0 = some 9 ∧
    (Expression.Identifier "c" 9).Idx1 = some 10 :=
  ⟨rfl, rfl, rfl, rfl⟩

/-- C14, as stated, fails at `break`, a line terminator, and `;` in a loop:
`implicitSemicolon` is set behind the keyword and `parseBreakStatement` returns a
`BranchStatement` without label, but it has consumed the `;` of the following line: the
parser stands at the `}` behind it, and the body of the loop in `while (a) { break`, line
feed, `; }` is the `break` alone, without an `EmptyStatement` for the `;`. -/
theorem C14_break_consumes_semicolon :
    ((newParser "" breakNewlineSource breakNewlineTokens).parseState 200).map
        (fun r => (r.1.Body, r.2.errors)) =
      some ([.WhileStatement 0 (.Identifier "a" 8)
        (.BlockStatement 11 [.BranchStatement 13 .BREAK none] 21)], []) ∧
    breakNewlineParser.next.implicitSemicolon = true ∧
    breakNewlineParser.next.token = .SEMICOLON ∧
    breakNewlineParser.parseBreakStatement.1 = .BranchStatement 13 .BREAK none ∧
    breakNewlineParser.parseBreakStatement.2.token = .RIGHT_BRACE ∧
    breakNewlineParser.parseBreakStatement.2.idx = 21 ∧
    breakNewlineParser.parseBreakStatement.2.scanner.size + 1 =
      breakNewlineParser.next.scanner.size ∧
    breakNewlineParser.parseBreakStatement.2.errors = [] :=
  ⟨rfl, rfl, rfl, rfl, rfl, rfl, rfl, rfl⟩

/-- C14 (amended): when `implicitSemicolon` is set behind the keyword,
`parseReturnStatement` in a function returns a `ReturnStatement` without argument and
leaves the parser at the token behind the keyword (`semicolon` only clears the flag,
unless the token is `)` or `}`); `parseBreakStatement` in a loop or switch and
`parseContinueStatement` in a loop return a `BranchStatement` without label and leave the
parser at that token with the flag cleared, unless the token is `;`, which they consume.
None of them records an error. -/
theorem C14_newline_terminates :
    (∀ (n : Nat) (p : Parser), p.token = .RETURN → p.currentScope.inFunction = true →
      p.next.implicitSemicolon = true →
      parseReturnStatement (n + 1) p =
        some (.ReturnStatement p.idx none,
          if p.next.token ≠ .RIGHT_PARENTHESIS ∧ p.next.token ≠ .RIGHT_BRACE then
            { p.next with implicitSemicolon := false }
          else p.next)) ∧
    (∀ p : Parser, p.token = .BREAK →
      p.currentScope.inIteration = true ∨ p.currentScope.inSwitch = true →
      p.next.implicitSemicolon = true →
      p.parseBreakStatement =
        (.BranchStatement p.idx .BREAK none,
          if p.next.token = .SEMICOLON then { p.next.next with implicitSemicolon := false }
          else { p.next with implicitSemicolon := false })) ∧
    (∀ p : Parser, p.token = .CONTINUE → p.currentScope.inIteration = true →
      p.next.implicitSemicolon = true →
      p.parseContinueStatement =
        (.BranchStatement p.idx .CONTINUE none,
          if p.next.token = .SEMICOLON then { p.next.next with implicitSemicolon := false }
          else { p.next with implicitSemicolon := false })) :=
  ⟨parseReturnStatement_newline, parseBreakStatement_newline,
    parseContinueStatement_newline⟩

/-- C14 (amended), at `return`, a line terminator, and `a }` in a function body: the
statement ends at the line terminator and the parser stands at `a`. -/
theorem C14_newline_terminates_witness :
    returnNewlineParser.next.implicitSemicolon = true ∧
    parseReturnStatement 1 returnNewlineParser =
      some (.ReturnStatement 16 none,
        { returnNewlineParser.next with implicitSemicolon := false }) :=
  ⟨rfl, C14_newline_terminates.1 0 returnNewlineParser rfl rfl rfl⟩

/-- C15, as stated, fails on `throw`, a line feed, and `a`: a line terminator follows
`throw` and the source does not end there (behind it stands the identifier `a`, the seventh
byte), yet the error recorded is 'Unexpected end of input' and not 'Illegal newline after
throw': `parseThrowStatement` reads `chr`, which is -1 once the scanner has read the last
token of the source.  The statement is a `BadStatement` that reaches to the end. -/
theorem C15_end_of_input_before_identifier :
    throwIdentifierSource = [116, 104, 114, 111, 119, 10, 97] ∧
    (newParser "" throwIdentifierSource throwIdentifierTokens).next.token = .THROW ∧
    ((fun p : Parser => (p.token, p.literal, p.idx, p.implicitSemicolon, p.chr))
        ((newParser "" throwIdentifierSource throwIdentifierTokens).next.expect .THROW).2 =
      (.IDENTIFIER, "a", 7, true, -1)) ∧
    (parseThrowStatement 1 (newParser "" throwIdentifierSource throwIdentifierTokens).next).map
        (fun r => (r.1, r.2.token, r.2.messages)) =
      some (.BadStatement 1 8, .EOF, ["Unexpected end of input"]) ∧
    ((newParser "" throwIdentifierSource throwIdentifierTokens).parseState 200).map
        (fun r => (r.1.Body, r.2.messages)) =
      some ([.BadStatement 1 8], ["Unexpected end of input"]) ∧
    ((newParser "" throwIdentifierSource throwIdentifierTokens).parseState 200).map
        (fun r => decide ("Illegal newline after throw" ∈ r.2.messages)) =
      some false :=
  ⟨rfl, rfl, rfl, rfl, rfl, rfl⟩

/-- C15 (amended): when `implicitSemicolon` is set behind `throw`, `parseThrowStatement`
records 'Unexpected end of input' when the scanner stands at the end of the source behind
the token that follows `throw` (`chr == -1`: the source ends behind `throw`, or behind the
token after the line terminator), and 'Illegal newline after throw' when it does not; in
both cases it returns a `BadStatement`.  Otherwise the `ThrowStatement` it returns has the
expression `parseExpression` returned as its `Argument`.  Evaluated on `throw`, a line
feed, `a;`, and on `throw` alone. -/
theorem C15_newline_after_throw :
    (∀ (n : Nat) (p : Parser), p.token = .THROW → p.next.implicitSemicolon = true →
      parseThrowStatement (n + 1) p =
        some (.BadStatement p.idx
            ((p.next.error p.idx
              (if p.next.chr = -1 then "Unexpected end of input"
                else "Illegal newline after throw")).nextStatement).idx,
          (p.next.error p.idx
            (if p.next.chr = -1 then "Unexpected end of input"
              else "Illegal newline after throw")).nextStatement) ∧
      (if p.next.chr = -1 then "Unexpected end of input"
          else "Illegal newline after throw") ∈
        ((p.next.error p.idx
          (if p.next.chr = -1 then "Unexpected end of input"
            else "Illegal newline after throw")).nextStatement).messages) ∧
    (∀ (n : Nat) (p : Parser) (r : Statement × Parser),
      (p.expect .THROW).2.implicitSemicolon = false →
      parseThrowStatement (n + 1) p = some r →
      ∃ a, parseExpression n (p.expect .THROW).2 = some a ∧
        r = (.ThrowStatement 0 a.1, a.2.semicolon)) ∧
    ((newParser "" throwNewlineSource throwNewlineTokens).parseState 200).map
        (fun r => (r.1.Body, r.2.messages)) =
      some ([.BadStatement 1 9], ["Illegal newline after throw"]) ∧
    ((newParser "" throwAloneSource throwAloneTokens).parseState 200).map
        (fun r => (r.1.Body, r.2.messages)) =
      some ([.BadStatement 1 6], ["Unexpected end of input"]) :=
  ⟨fun n p ht hi => ⟨parseThrowStatement_newline n p ht hi,
      Parser.mem_messages_of_steps (Parser.Steps.refl _).nextStatement
        (Parser.mem_messages_error _ _ _)⟩,
    parseThrowStatement_argument, rfl, rfl⟩

/-- C15 (amended), at `throw` followed by a line feed and `a;`: behind `a` the scanner
stands at the `;`, and the error is 'Illegal newline after throw'. -/
theorem C15_newline_after_throw_witness :
    (newParser "" throwNewlineSource throwNewlineTokens).next.next.implicitSemicolon = true ∧
    "Illegal newline after throw" ∈
      (((newParser "" throwNewlineSource throwNewlineTokens).next.next.error 1
        "Illegal newline after throw").nextStatement).messages :=
  ⟨rfl, (C15_newline_after_throw.1 0
    (newParser "" throwNewlineSource throwNewlineTokens).next rfl rfl).2⟩

/-- C16, as stated, fails on `for (var a, b in c) ;`: the init clause is followed by `in`
and is none of the four kinds, but the parser does not record
'Invalid left-hand side in for-in' and does not return a `BadStatement`: it takes the
three-clause path, where `expect(;)` records 'Unexpected token in', and returns a
`ForStatement`. -/
theorem C16_var_list_before_in :
    ((newParser "" forVarListInSource forVarListInTokens).parseState 200).map
        (fun r => (r.1.Body, r.2.messages)) =
      some ([.ForStatement 0
          (.SequenceExpression [.VariableExpression "a" 10 none,
            .VariableExpression "b" 13 none])
          (some (.BadExpression 21 22)) (some (.Identifier "c" 18)) (.BadStatement 22 23)],
        ["Unexpected token in", "Unexpected token )", "Unexpected token ;",
          "Unexpected end of input", "Unexpected end of input"]) :=
  rfl

/-- C16 (amended): behind `for (`, an init clause that is an expression followed by `in`,
or a single var declaration followed by `in`, gives `parseForIn` with that clause as
target if it is an `Identifier`, a `DotExpression`, a `BracketExpression` or a
`VariableExpression`, and otherwise a `BadStatement` with
'Invalid left-hand side in for-in' recorded; every other init clause (an expression not
followed by `in`, a var declaration list that is not a single declaration followed by
`in`, no init clause) goes through `expect(;)` to `parseFor`, which returns a
`ForStatement`, and `expect(;)` at `in` records 'Unexpected token in'.  In every program
`Parse` returns the target of every `ForInStatement` is of one of the four kinds. -/
theorem C16_for_in_target :
    (∀ (n : Nat) (p s : Parser) (e : Expression),
      p.forHead.token ≠ .SEMICOLON → p.forHead.token ≠ .VAR →
      parseExpression n (p.forHead.modifyScope fun s => { s with allowIn := false }) =
        some (e, s) →
      parseForOrForInStatement (n + 1) p =
        if s.token = .IN then
          if e.isForInTarget then parseForIn n e (s.next.forInit p.forHead)
          else some ((s.next.forInit p.forHead).invalidForIn p.idx)
        else
          parseFor n (.SequenceExpression [e])
            ((s.forInit p.forHead).expect .SEMICOLON).2) ∧
    (∀ (n : Nat) (p s : Parser) (into : Expression), p.forHead.token = .VAR →
      parseVariableDeclarationList n []
        (p.forHead.modifyScope fun s => { s with allowIn := false }).next =
          some ([into], s) →
      s.token = .IN →
      parseForOrForInStatement (n + 1) p =
        if into.isForInTarget then parseForIn n into (s.next.forInit p.forHead)
        else some ((s.next.forInit p.forHead).invalidForIn p.idx)) ∧
    (∀ (n : Nat) (p s : Parser) (list : List Expression), p.forHead.token = .VAR →
      parseVariableDeclarationList n []
        (p.forHead.modifyScope fun s => { s with allowIn := false }).next =
          some (list, s) →
      list.length ≠ 1 ∨ s.token ≠ .IN →
      parseForOrForInStatement (n + 1) p =
        parseFor n (.SequenceExpression list)
          ((s.forInit p.forHead).expect .SEMICOLON).2) ∧
    (∀ (n : Nat) (p : Parser), p.forHead.token = .SEMICOLON →
      parseForOrForInStatement (n + 1) p =
        parseFor n (.SequenceExpression []) (p.forHead.expect .SEMICOLON).2) ∧
    (∀ (n : Nat) (initializer : Expression) (p : Parser) (r : Statement × Parser),
      parseFor n initializer p = some r →
      ∃ update test body, r.1 = .ForStatement 0 initializer update test body) ∧
    (∀ (n : Nat) (into : Expression) (p : Parser) (r : Statement × Parser),
      parseForIn n into p = some r →
      ∃ source body, r.1 = .ForInStatement 0 into source body) ∧
    (∀ (q : Parser) (idx : Idx),
      (∃ stop, (q.invalidForIn idx).1 = .BadStatement idx stop) ∧
        "Invalid left-hand side in for-in" ∈ (q.invalidForIn idx).2.messages) ∧
    (∀ q : Parser, q.token = .IN →
      "Unexpected token in" ∈ (q.expect .SEMICOLON).2.messages) ∧
    (∀ (n : Nat) (filename : String) (source : List Nat) (scanner : Scanner)
      (r : Program × Option Error), Parse n filename source scanner = some r →
      r.1.All (fun _ => True) Statement.forInTarget) ∧
    ((newParser "" forVarInSource forVarInTokens).parseState 200).map
        (fun r => (r.1.Body, r.2.messages)) =
      some ([.ForInStatement 0 (.VariableExpression "a" 10 none) (.Identifier "c" 15)
        (.EmptyStatement 18)], []) ∧
    ((newParser "" forSumInSource forSumInTokens).parseState 200).map
        (fun r => (r.1.Body, r.2.messages)) =
      some ([.BadStatement 1 19], ["Invalid left-hand side in for-in"]) :=
  ⟨parseForOrForIn_expression, parseForOrForIn_var_single, parseForOrForIn_var_list,
    parseForOrForIn_empty, parseFor_statement, parseForIn_statement,
    Parser.invalidForIn_messages, Parser.expect_semicolon_at_in,
    fun _ _ _ _ _ h => Parse_forInTarget h, rfl, rfl⟩

/-- C16 (amended), for the source `for (var a in c) ;`. -/
theorem C16_for_in_target_witness :
    ∃ r, Parse 200 "" forVarInSource forVarInTokens = some r ∧
      r.1.All (fun _ => True) Statement.forInTarget :=
  ⟨_, rfl, C16_for_in_target.2.2.2.2.2.2.2.2.1 200 "" forVarInSource forVarInTokens _ rfl⟩

/-- C17, as stated, fails for `in` and `instanceof`: the `BinaryExpression` nodes the
parser builds for `a in b` and `a instanceof b` have `Comparison = false`. -/
theorem C17_in_is_no_comparison :
    ((newParser "" (asciiBytes "a in b") (operatorTokens .IN "in" 6)).parseState 200).map
        (fun r => (r.1.Body, r.2.errors)) =
      some ([.ExpressionStatement
        (.BinaryExpression .IN (.Identifier "a" 1) (.Identifier "b" 6) false)], []) ∧
    ((newParser "" (asciiBytes "a instanceof b")
        (operatorTokens .INSTANCEOF "instanceof" 14)).parseState 200).map
        (fun r => (r.1.Body, r.2.errors)) =
      some ([.ExpressionStatement
        (.BinaryExpression .INSTANCEOF (.Identifier "a" 1) (.Identifier "b" 14) false)],
        []) :=
  ⟨rfl, rfl⟩

/-- C17 (amended): in every program `Parse` returns, a `BinaryExpression` has
`Comparison = true` if its operator is one of `==`, `!=`, `===`, `!==`, `<`, `<=`, `>`,
`>=`, and `Comparison = false` for every other operator, `instanceof` and `in` included;
so it is for `a < b`, `a == b` and `a + b`. -/
theorem C17_comparison_flag :
    (∀ (n : Nat) (filename : String) (source : List Nat) (scanner : Scanner)
      (r : Program × Option Error), Parse n filename source scanner = some r →
      r.1.All Expression.comparisonBuilt (fun _ _ => True)) ∧
    (∀ op : Token, op.builtComparison = true ↔
      op = .EQUAL ∨ op = .NOT_EQUAL ∨ op = .STRICT_EQUAL ∨ op = .STRICT_NOT_EQUAL ∨
        op = .LESS ∨ op = .LESS_OR_EQUAL ∨ op = .GREATER ∨ op = .GREATER_OR_EQUAL) ∧
    ((newParser "" (asciiBytes "a < b") (operatorTokens .LESS "" 5)).parseState 200).map
        (fun r => (r.1.Body, r.2.errors)) =
      some ([.ExpressionStatement
        (.BinaryExpression .LESS (.Identifier "a" 1) (.Identifier "b" 5) true)], []) ∧
    ((newParser "" (asciiBytes "a == b") (operatorTokens .EQUAL "" 6)).parseState 200).map
        (fun r => (r.1.Body, r.2.errors)) =
      some ([.ExpressionStatement
        (.BinaryExpression .EQUAL (.Identifier "a" 1) (.Identifier "b" 6) true)], []) ∧
    ((newParser "" (asciiBytes "a + b") (operatorTokens .PLUS "" 5)).parseState 200).map
        (fun r => (r.1.Body, r.2.errors)) =
      some ([.ExpressionStatement
        (.BinaryExpression .PLUS (.Identifier "a" 1) (.Identifier "b" 5) false)], []) :=
  ⟨fun _ _ _ _ _ h => Parse_comparisonBuilt h, fun op => by cases op <;> decide,
    rfl, rfl, rfl⟩

/-- C17 (amended), for `a instanceof b`. -/
theorem C17_comparison_flag_witness :
    ∃ r, Parse 200 "" (asciiBytes "a instanceof b")
        (operatorTokens .INSTANCEOF "instanceof" 14) = some r ∧
      r.1.All Expression.comparisonBuilt (fun _ _ => True) :=
  ⟨_, rfl, C17_comparison_flag.1 200 "" (asciiBytes "a instanceof b")
    (operatorTokens .INSTANCEOF "instanceof" 14) _ rfl⟩

/-- C18: `Error()` of an error is its name, or `(anonymous)` if the name is empty, followed
by `: Line `, the line in decimal, `:`, the column in decimal, a blank and the message. -/
theorem C18_error_string :
    (∀ e : Error,
      e.Error =
        (if e.Name = "" then "(anonymous)" else e.Name) ++ ": Line " ++ decimal e.Line ++
          ":" ++ decimal e.Column ++ " " ++ e.Message) ∧
    decimal 12 = "12" ∧ decimal 0 = "0" ∧ decimal (-7) = "-7" ∧
    (Error.mk "Unexpected token \x7d" "" 3 12).Error =
      "(anonymous): Line 3:12 Unexpected token \x7d" ∧
    (Error.mk "Illegal return statement" "a.js" 1 1).Error =
      "a.js: Line 1:1 Illegal return statement" := by
  refine ⟨fun e => ?_, by decide, by decide, by decide, by decide, by decide⟩
  apply String.ext
  simp [Error.Error, sprintf, sprintfChars, String.data_append]

/-- C19: `newParser` does not keep the file name it is given, so the errors of
`Parse("a.js", "break")` carry the empty name: the returned error, which is the only
recorded one, is `Illegal break statement` at line 1, column 1, with `Name` empty. -/
theorem C19_filename_dropped :
    (∀ (filename : String) (source : List Nat) (scanner : Scanner),
      (newParser filename source scanner).filename = "") ∧
    (Parse 200 "a.js" breakAloneSource breakAloneTokens).map (fun r => r.2) =
      some (some (Error.mk "Illegal break statement" "" 1 1)) ∧
    ((newParser "a.js" breakAloneSource breakAloneTokens).parseState 200).map
        (fun r => r.2.errors) =
      some [Error.mk "Illegal break statement" "" 1 1] :=
  ⟨fun _ _ _ => rfl, rfl, rfl⟩

/-- C20: for an offset `o` of the source that does not fall inside a line terminator, the
position of `Idx(o+1)` has `Line` one more than the number of line terminators in
`source[0:o]` and `Column` one more than the number of bytes between the end of the last of
them (or the start of the source) and `o`; so both are at least 1, the offset 0 is at line
1, column 1, and the first byte after any line terminator (CR, LF, CR LF, U+2028, U+2029)
is at column 1. -/
theorem C20_position_one_based (p : Parser) (o : Nat) (ho : o ≤ p.source.length)
    (hi : insideTerminator p.source o = false) :
    (p.position (o + 1)).Line = 1 + ((terminatorsBefore p.source o).length : Int) ∧
    (p.position (o + 1)).Column = 1 + ((o : Int) - lineStart p.source o) ∧
    lineStart p.source o ≤ o ∧
    1 ≤ (p.position (o + 1)).Line ∧ 1 ≤ (p.position (o + 1)).Column ∧
    (o = 0 → (p.position (o + 1)).Line = 1 ∧ (p.position (o + 1)).Column = 1) ∧
    (∀ t ∈ lineTerminators p.source, t.2 = o → (p.position (o + 1)).Column = 1) := by
  obtain ⟨h1, h2, h3, h4, h5⟩ := p.position_terminators o ho hi
  refine ⟨h1, h2, h3, by omega, by omega, fun h0 => ?_, fun t ht hto => ?_⟩
  · obtain ⟨h6, h7⟩ := h4 h0
    rw [h1, h2, h6, h7, h0]
    exact ⟨rfl, rfl⟩
  · rw [h2, h5 t ht hto]
    omega

/-- C20 on the bytes `a`, U+2028, CR, LF, `b`, LF, U+2029, `c`: the line terminators are
at the offsets 1 to 4, 4 to 6, 7 to 8 and 8 to 11, and the byte `b` at the offset 6, the
first after CR LF, is at line 3, column 1. -/
theorem C20_position_one_based_witness :
    lineTerminators linesSource = [(1, 4), (4, 6), (7, 8), (8, 11)] ∧
    insideTerminator linesSource 6 = false ∧
    ((newParser "" linesSource .eof).position 7).Line = 3 ∧
    ((newParser "" linesSource .eof).position 7).Column = 1 :=
  have h := C20_position_one_based (newParser "" linesSource .eof) 6 (by decide) (by decide)
  ⟨by decide, by decide, h.1, h.2.2.2.2.2.2 (4, 6) (by decide) rfl⟩

/-- C21: `errorUnexpectedToken` records exactly one error, behind those already recorded.
Its message is `Unexpected end of input` for `EOF`, `Unexpected identifier`,
`Unexpected number` and `Unexpected string` for `IDENTIFIER`, `NUMBER` and `STRING`,
`Unexpected token ` with the literal of the parser for `BOOLEAN` and `NULL`, and
`Unexpected token ` with the string form of the token for every other token. -/
theorem C21_unexpected_token :
    (∀ (p : Parser) (tkn : Token),
      ∃ e : Error, (p.errorUnexpectedToken tkn).errors = p.errors ++ [e] ∧
        (tkn = .EOF → e.Message = "Unexpected end of input") ∧
        (tkn = .IDENTIFIER → e.Message = "Unexpected identifier") ∧
        (tkn = .NUMBER → e.Message = "Unexpected number") ∧
        (tkn = .STRING → e.Message = "Unexpected string") ∧
        (tkn = .BOOLEAN ∨ tkn = .NULL → e.Message = "Unexpected token " ++ p.literal) ∧
        (tkn ≠ .EOF → tkn ≠ .IDENTIFIER → tkn ≠ .NUMBER → tkn ≠ .STRING →
          tkn ≠ .BOOLEAN → tkn ≠ .NULL → e.Message = "Unexpected token " ++ tkn.String)) ∧
    (({ literal := "true" } : Parser).errorUnexpectedToken .BOOLEAN).messages =
      ["Unexpected token true"] ∧
    (({ literal := "null" } : Parser).errorUnexpectedToken .NULL).messages =
      ["Unexpected token null"] ∧
    (({ literal := "" } : Parser).errorUnexpectedToken .RIGHT_BRACE).messages =
      ["Unexpected token \x7d"] ∧
    (({ literal := "in" } : Parser).errorUnexpectedToken .IN).messages =
      ["Unexpected token in"] ∧
    (({ literal := "a" } : Parser).errorUnexpectedToken .IDENTIFIER).messages =
      ["Unexpected identifier"] := by
  refine ⟨fun p tkn => ?_, rfl, rfl, rfl, rfl, rfl⟩
  unfold Parser.errorUnexpectedToken
  by_cases h1 : tkn = .EOF
  · subst h1
    exact ⟨_, by rw [if_pos rfl]; rfl, by simp⟩
  by_cases h2 : tkn = .IDENTIFIER
  · subst h2
    exact ⟨_, by rw [if_neg h1, if_pos rfl]; rfl, by simp⟩
  by_cases h3 : tkn = .NUMBER
  · subst h3
    exact ⟨_, by rw [if_neg h1, if_neg h2, if_pos rfl]; rfl, by simp⟩
  by_cases h4 : tkn = .STRING
  · subst h4
    exact ⟨_, by rw [if_neg h1, if_neg h2, if_neg h3, if_pos rfl]; rfl, by simp⟩
  by_cases h5 : tkn = .BOOLEAN ∨ tkn = .NULL
  · rw [if_neg h1, if_neg h2, if_neg h3, if_neg h4, if_pos h5]
    exact ⟨_, rfl, fun h => absurd h h1, fun h => absurd h h2, fun h => absurd h h3,
      fun h => absurd h h4, fun _ => rfl,
      fun _ _ _ _ h6 h7 => (h5.elim h6 h7).elim⟩
  · rw [if_neg h1, if_neg h2, if_neg h3, if_neg h4, if_neg h5]
    exact ⟨_, rfl, fun h => absurd h h1, fun h => absurd h h2, fun h => absurd h h3,
      fun h => absurd h h4, fun h => absurd h h5, fun _ _ _ _ _ _ => rfl⟩

/-- C22: finally dominance.  When `evaluateTryStatement` has come to its finally clause,
whether the try body or the catch body threw an exception (`exception` is set) or returned
a value or a result sentinel, and the finally body returns a result sentinel `R`, then
`evaluateTryStatement` returns `R` and does not panic, whatever the fuel that lets it
end. -/
theorem C22_finally_dominance {σ : Type} (host : Host σ) (body : Statement)
    (catchClause : Option CatchStatement) (finallyBody : Statement) (r q q' : Runtime σ)
    (tryCatchValue : Value) (exception : Bool) (restore : Option Nat) (m : Nat) (R : Value)
    (h : AtFinally host body catchClause r q tryCatchValue exception restore)
    (hf : evaluate host m finallyBody q = some (q', .value R))
    (hR : R.isResult = true) :
    (∃ n, evaluateTryStatement host n body catchClause (some finallyBody) r =
      some (q'.restored restore, .value R)) ∧
    ∀ n o, evaluateTryStatement host n body catchClause (some finallyBody) r = some o →
      o = (q'.restored restore, .value R) := by
  obtain ⟨n, hn⟩ := evaluateTryStatement_finally h hf
  rw [if_pos hR] at hn
  exact ⟨⟨n, hn⟩, fun k o hk => evaluateTryStatement_unique hk hn⟩

/-- C22, for `try { throw 'e' } finally { break L }`: the try body throws `'e'`, the
finally body returns the break sentinel, and the try statement returns the sentinel. -/
theorem C22_finally_dominance_witness :
    AtFinally exampleHost tryBreakBody none (exampleRuntime [] []) (exampleRuntime [] [])
      (.string "e") true none ∧
    ∃ n, evaluateTryStatement exampleHost n tryBreakBody none (some tryBreakFinally)
        (exampleRuntime [] []) =
      some (exampleRuntime [] [], .value (.result .resultBreak .empty "L")) :=
  have h : AtFinally exampleHost tryBreakBody none (exampleRuntime [] [])
      (exampleRuntime [] []) (.string "e") true none :=
    Or.inl ⟨10, by decide!, Or.inr rfl, rfl⟩
  ⟨h, (C22_finally_dominance exampleHost tryBreakBody none tryBreakFinally _ _
    (exampleRuntime [] []) _ _ _ 10 (.result .resultBreak .empty "L") h (by decide!)
    rfl).1⟩

/-- C23, as stated, fails: the program of
`try{ throw 'e' }catch(e){ e+'!' }finally{ 'done' }` is parsed without error and its
evaluation ends with the string `e!`, the value of the catch body, not with `done`. -/
theorem C23_completion_of_catch :
    exampleRun 200 tryCatchFinallySource tryCatchFinallyTokens (exampleRuntime [] []) =
      some (.value (.string "e!")) ∧
    exampleRun 200 tryCatchFinallySource tryCatchFinallyTokens (exampleRuntime [] []) ≠
      some (.value (.string "done")) :=
  ⟨by decide!, by decide!⟩

/-- C23 (amended): when no exception is pending at the finally clause and the finally
body returns a value that is not a result sentinel, `evaluateTryStatement` returns the
value of the try body, or of the catch body if that was evaluated: the value of the
finally body is dropped. -/
theorem C23_finally_value_dropped {σ : Type} (host : Host σ) (body : Statement)
    (catchClause : Option CatchStatement) (finallyBody : Statement) (r q q' : Runtime σ)
    (tryCatchValue : Value) (restore : Option Nat) (m : Nat) (finallyValue : Value)
    (h : AtFinally host body catchClause r q tryCatchValue false restore)
    (hf : evaluate host m finallyBody q = some (q', .value finallyValue))
    (hR : finallyValue.isResult = false) :
    (∃ n, evaluateTryStatement host n body catchClause (some finallyBody) r =
      some (q'.restored restore, .value tryCatchValue)) ∧
    ∀ n o, evaluateTryStatement host n body catchClause (some finallyBody) r = some o →
      o = (q'.restored restore, .value tryCatchValue) := by
  obtain ⟨n, hn⟩ := evaluateTryStatement_finally h hf
  rw [hR] at hn
  exact ⟨⟨n, hn⟩, fun k o hk => evaluateTryStatement_unique hk hn⟩

/-- C23 (amended), for `try{ throw 'e' }catch(e){ e+'!' }finally{ 'done' }`: the catch
body returns `e!`, the finally body returns `done`, and the try statement returns
`e!`. -/
theorem C23_finally_value_dropped_witness :
    (∃ q, evaluate exampleHost 10 doneBlock q = some (q, .value (.string "done")) ∧
      AtFinally exampleHost throwBlock (some catchClauseE) (exampleRuntime [] []) q
        (.string "e!") false (some 0)) ∧
    ∃ n q, evaluateTryStatement exampleHost n throwBlock (some catchClauseE)
        (some doneBlock) (exampleRuntime [] []) = some (q, .value (.string "e!")) :=
  have h : AtFinally exampleHost throwBlock (some catchClauseE) (exampleRuntime [] [])
      (((exampleRuntime [] []).newDeclarativeEnvironment).localSet "e" (.string "e"))
      (.string "e!") false (some 0) :=
    Or.inr ⟨10, exampleRuntime [] [], .string "e", 17, { Name := "e", Idx := 23 }, _,
      by decide!, rfl, by decide!, rfl⟩
  have hf : evaluate exampleHost 10 doneBlock
      (((exampleRuntime [] []).newDeclarativeEnvironment).localSet "e" (.string "e")) =
      some ((((exampleRuntime [] []).newDeclarativeEnvironment).localSet "e" (.string "e")),
        .value (.string "done")) := by decide!
  ⟨⟨_, hf, h⟩,
    (C23_finally_value_dropped exampleHost throwBlock (some catchClauseE) doneBlock _ _ _ _
      _ 10 _ h hf rfl).1.imp fun _ hn => ⟨_, hn⟩⟩

/-- C24 (the code at the failing input): in `try { throw 'e' } catch (e) { } finally { e }`
the finally body is evaluated in the environment of the catch clause, where `e` is bound:
the program ends without an exception, while `e` is not defined outside the catch clause
(the program `e` alone, and the finally body in the runtime of the start, end with a
`ReferenceError`).  The environment of the start is current again when the try statement
has returned. -/
theorem C24_catch_binding_in_finally :
    exampleRun 200 catchLeakSource catchLeakTokens (exampleRuntime [] []) =
      some (.value .empty) ∧
    exampleRun 200 identifierESource identifierETokens (exampleRuntime [] []) =
      some (.panic (.exception (.string "ReferenceError: e is not defined"))) ∧
    Option.map (fun o => o.2)
        (evaluate exampleHost 10
          (.BlockStatement 41 [.ExpressionStatement (.Identifier "e" 43)] 45)
          (exampleRuntime [] [])) =
      some (.panic (.exception (.string "ReferenceError: e is not defined"))) ∧
    Option.map (fun o => o.2)
        (evaluate exampleHost 10
          (.BlockStatement 41 [.ExpressionStatement (.Identifier "e" 43)] 45)
          (((exampleRuntime [] []).newDeclarativeEnvironment).localSet "e"
            (.string "e"))) =
      some (.value (.string "e")) ∧
    Option.map (fun o => (o.1.LexicalEnvironment, o.2))
        (evaluateProgram exampleHost 20 catchLeakProgram (exampleRuntime [] [])) =
      some (0, .value .empty) :=
  ⟨by decide!, by decide!, by decide!, by decide!, by decide!⟩

/-- C25: in `evaluateTryStatement` the catch body is evaluated only when the try body
threw and there is a catch clause: otherwise the function goes from the try body to its
finally clause.  When it has come to its finally clause, on whatever path, a finally body
is evaluated once, in the runtime of that moment; if an exception is pending then
(`exception` is set) and the finally body returns a value that is not a result sentinel,
the exception is raised again with the same value, and without a finally clause it is
raised again as well. -/
theorem C25_try_paths {σ : Type} (host : Host σ) (body : Statement)
    (catchClause : Option CatchStatement) (r q : Runtime σ) (tryCatchValue : Value) :
    (∀ (n : Nat) (exception : Bool) (finallyClause : Option Statement),
      tryCatchEvaluate (evaluate host n body r) =
        some (q, .value (tryCatchValue, exception)) →
      exception = false ∨ catchClause = none →
      evaluateTryStatement host (n + 1) body catchClause finallyClause r =
        evaluateTryStatementFinally host n finallyClause tryCatchValue exception q) ∧
    (∀ (n : Nat) (idx : Idx) (parameter : Identifier) (catchBody : Statement)
      (finallyClause : Option Statement),
      tryCatchEvaluate (evaluate host n body r) = some (q, .value (tryCatchValue, true)) →
      evaluateTryStatement host (n + 1) body (some (.mk idx parameter catchBody))
          finallyClause r =
        deferred (fun r => { r with LexicalEnvironment := q.LexicalEnvironment })
          (andThen
            (tryCatchEvaluate (evaluate host n catchBody
              (q.newDeclarativeEnvironment.localSet parameter.Name tryCatchValue)))
            fun r tryCatch =>
              evaluateTryStatementFinally host n finallyClause tryCatch.1 tryCatch.2 r)) ∧
    (∀ (exception : Bool) (restore : Option Nat) (finallyBody : Statement) (m : Nat)
      (q' : Runtime σ) (finallyValue : Value),
      AtFinally host body catchClause r q tryCatchValue exception restore →
      evaluate host m finallyBody q = some (q', .value finallyValue) →
      (∃ n, evaluateTryStatement host n body catchClause (some finallyBody) r =
        some (q'.restored restore,
          if finallyValue.isResult then .value finallyValue
          else if exception then .panic (.exception tryCatchValue)
          else .value tryCatchValue)) ∧
      (exception = true → finallyValue.isResult = false →
        ∀ n o, evaluateTryStatement host n body catchClause (some finallyBody) r = some o →
          o = (q'.restored restore, .panic (.exception tryCatchValue)))) ∧
    (∀ (restore : Option Nat),
      AtFinally host body catchClause r q tryCatchValue true restore →
      ∃ n, evaluateTryStatement host n body catchClause none r =
        some (q.restored restore, .panic (.exception tryCatchValue))) := by
  refine ⟨fun n exception finallyClause h hc => evaluateTryStatement_skip h hc _,
    fun n idx parameter catchBody finallyClause h =>
      evaluateTryStatement_catch h idx parameter catchBody finallyClause,
    fun exception restore finallyBody m q' finallyValue h hf => ?_,
    fun restore h => ?_⟩
  · obtain ⟨n, hn⟩ := evaluateTryStatement_finally h hf
    refine ⟨⟨n, hn⟩, fun he hR k o hk => ?_⟩
    rw [hR, he] at hn
    exact evaluateTryStatement_unique hk hn
  · exact evaluateTryStatement_finish h
      (evaluateTryStatementFinally_none host 0 q tryCatchValue true)

/-- C25, for `try { throw 'e' } finally { 'done' }`: the try body throws `'e'`, there is
no catch clause, the finally body returns `done`, and the try statement raises `'e'`
again. -/
theorem C25_try_paths_witness :
    AtFinally exampleHost tryRethrowBody none (exampleRuntime [] []) (exampleRuntime [] [])
      (.string "e") true none ∧
    ∃ n, evaluateTryStatement exampleHost n tryRethrowBody none (some tryRethrowFinally)
        (exampleRuntime [] []) =
      some (exampleRuntime [] [], .panic (.exception (.string "e"))) :=
  have h : AtFinally exampleHost tryRethrowBody none (exampleRuntime [] [])
      (exampleRuntime [] []) (.string "e") true none :=
    Or.inl ⟨10, by decide!, Or.inr rfl, rfl⟩
  ⟨h, ((C25_try_paths exampleHost tryRethrowBody none (exampleRuntime [] [])
    (exampleRuntime [] []) (.string "e")).2.2.1 true none tryRethrowFinally 10
    (exampleRuntime [] []) (.string "done") h (by decide!)).1⟩

/-- C26 (the code at the failing inputs): the program of `L: { break L; 'x' }` is parsed
without error and its evaluation ends with the break sentinel for `L`, which the labelled
statement hands on to its caller; in `L: { while (true) { break L; } 'x' }` the loop
takes the pending label `L` into its label set, the break ends the loop and not the block,
and `'x'` is evaluated: the program ends with the string `x`.  With a loop as the labelled
statement, as in `L: while (true) { break L; }`, the program ends with no value. -/
theorem C26_break_out_of_block :
    exampleRun 200 labelledBlockSource labelledBlockTokens (exampleRuntime [] []) =
      some (.value (.result .resultBreak .empty "L")) ∧
    exampleRun 200 labelledBlockLoopSource labelledBlockLoopTokens (exampleRuntime [] []) =
      some (.value (.string "x")) ∧
    exampleRun 200 labelledLoopSource labelledLoopTokens (exampleRuntime [] []) =
      some (.value .empty) :=
  ⟨by decide!, by decide!, by decide!⟩

/-- C28 (the code at the failing input): `o` has the property `a` and its prototype the
property `b`.  In the body of `function f() { for (k in o) { return k } }` the return
sentinel of the first name stops the enumeration of `o` only: the loop goes on to the
prototype, the body is evaluated again for `b`, and the for-in statement returns the
return sentinel with `b`, not the one with `a`.  (With no property in the prototype it
returns the sentinel with `a`; and in `for (k in o) { break; } k` the break ends the
enumeration at `a`.) -/
theorem C28_for_in_return_goes_on :
    exampleRunFunction 200 forInReturnSource forInReturnTokens forInRuntime =
      some (.value (.result .resultReturn (.string "b") "")) ∧
    exampleRunFunction 200 forInReturnSource forInReturnTokens forInPlainRuntime =
      some (.value (.result .resultReturn (.string "a") "")) ∧
    exampleRun 200 forInBreakSource forInBreakTokens forInRuntime =
      some (.value (.string "a")) :=
  ⟨by decide!, by decide!, by decide!⟩

/-- C29: `evaluateWithStatement` evaluates the object expression and `ToObject` of its
value; if that panics, the function is left with the runtime as it is then, no
environment installed.  Otherwise the body is evaluated in a new object environment over
that object with `ProvideThis` set, whose outer environment is the environment of that
moment; and however the body ends (with a value, a result sentinel or a panic), the
lexical environment is then again the one that was current when the object environment
was installed, which is the one from before the statement if the evaluation of the
object expression has left it in place. -/
theorem C29_with_environment {σ : Type} (host : Host σ) (object : Expression)
    (body : Statement) (r r1 : Runtime σ) (objectValue : Value)
    (h1 : evaluateValue host object r = some (r1, .value objectValue)) :
    (∀ (n : Nat) (r2 : Runtime σ) (p : Panic),
      host.toObject objectValue r1 = some (r2, .panic p) →
      evaluateWithStatement host (n + 1) object body r = some (r2, .panic p)) ∧
    (∀ (r2 : Runtime σ) (address : Nat),
      host.toObject objectValue r1 = some (r2, .value address) →
      ((r2.newLexicalEnvironment address).setProvideThis.environments[
          (r2.newLexicalEnvironment address).setProvideThis.LexicalEnvironment]? =
        some (.object (some r2.LexicalEnvironment) address true)) ∧
      ∀ (n : Nat) (q : Runtime σ) (ending : Ending Value),
        evaluate host n body (r2.newLexicalEnvironment address).setProvideThis =
          some (q, ending) →
        evaluateWithStatement host (n + 1) object body r =
          some ({ q with LexicalEnvironment := r2.LexicalEnvironment }, ending) ∧
        (r2.LexicalEnvironment = r.LexicalEnvironment →
          ∃ q', evaluateWithStatement host (n + 1) object body r = some (q', ending) ∧
            q'.LexicalEnvironment = r.LexicalEnvironment)) := by
  refine ⟨fun n r2 p h2 => ?_, fun r2 address h2 => ⟨?_, fun n q ending hb => ?_⟩⟩
  · rw [evaluateWithStatement, h1, andThen_value, h2, andThen_panic]
  · simp [Runtime.newLexicalEnvironment, Runtime.setProvideThis]
  · have e : evaluateWithStatement host (n + 1) object body r =
        some ({ q with LexicalEnvironment := r2.LexicalEnvironment }, ending) := by
      rw [evaluateWithStatement, h1, andThen_value, h2, andThen_value]
      simp only [hb, deferred_some]
    exact ⟨e, fun he => ⟨_, e, he⟩⟩

/-- C29, for `with (o) { a }`, where `o` is an object with the property `a`: the body
returns the value of the property, and the global environment is current again. -/
theorem C29_with_environment_witness :
    evaluateValue exampleHost (.Identifier "o" 7) withRuntime =
      some (withRuntime, .value (.object 0)) ∧
    ∃ q, evaluateWithStatement exampleHost 10 (.Identifier "o" 7) withBody withRuntime =
        some (q, .value (.string "x")) ∧
      q.LexicalEnvironment = withRuntime.LexicalEnvironment :=
  have h1 : evaluateValue exampleHost (.Identifier "o" 7) withRuntime =
      some (withRuntime, .value (.object 0)) := by decide!
  ⟨h1, (((C29_with_environment exampleHost (.Identifier "o" 7) withBody withRuntime
    withRuntime (.object 0) h1).2 withRuntime 0 rfl).2 9
    (withRuntime.newLexicalEnvironment 0).setProvideThis (.value (.string "x"))
    (by decide!)).2 rfl⟩

/-- C30, as stated, fails at `EOF` and at `;`: at the end of the source, with
`implicitSemicolon` not set, `semicolon` records `Unexpected end of input` (in `var a =`
it is the second error of that text, behind the one for the missing expression); and at a
`;` with `implicitSemicolon` set it clears the flag and does not consume the `;`. -/
theorem C30_semicolon_at_eof :
    endOfInputParser.semicolon.messages = ["Unexpected end of input"] ∧
    ((newParser "" varWithoutValueSource varWithoutValueTokens).parseState 200).map
        (fun r => r.2.messages) =
      some ["Unexpected end of input", "Unexpected end of input"] ∧
    semicolonNewlineParser.semicolon =
      { semicolonNewlineParser with implicitSemicolon := false } ∧
    semicolonNewlineParser.semicolon.token = .SEMICOLON ∧
    semicolonNewlineParser.semicolon.scanner = semicolonNewlineParser.scanner :=
  ⟨rfl, rfl, rfl, rfl, rfl⟩

/-- C30 (amended): `semicolon` does nothing when the current token is `)` or `}`.  At any
other token with `implicitSemicolon` set it clears the flag, records no error and consumes
nothing, also at `;` and at `EOF`.  At `;` without the flag it consumes the token.  In
every other case, `EOF` included, it records an error (for `EOF`:
`Unexpected end of input`) and goes on to the next token. -/
theorem C30_semicolon :
    (∀ p : Parser, p.token = .RIGHT_PARENTHESIS ∨ p.token = .RIGHT_BRACE →
      p.semicolon = p) ∧
    (∀ p : Parser, p.token ≠ .RIGHT_PARENTHESIS → p.token ≠ .RIGHT_BRACE →
      p.implicitSemicolon = true →
      p.semicolon = { p with implicitSemicolon := false }) ∧
    (∀ p : Parser, p.token = .SEMICOLON → p.implicitSemicolon = false →
      p.semicolon = p.next) ∧
    (∀ p : Parser, p.token ≠ .RIGHT_PARENTHESIS → p.token ≠ .RIGHT_BRACE →
      p.token ≠ .SEMICOLON → p.implicitSemicolon = false →
      p.semicolon = (p.errorUnexpectedToken p.token).next ∧
      (∃ e : Error, (p.errorUnexpectedToken p.token).errors = p.errors ++ [e] ∧
        (p.token = .EOF → e.Message = "Unexpected end of input")) ∧
      ∃ l, l ≠ [] ∧ p.semicolon.errors = p.errors ++ l) := by
  refine ⟨fun p h => ?_, fun p h1 h2 hi => ?_, fun p h hi => ?_, fun p h1 h2 h3 hi => ?_⟩
  · rcases h with h | h <;> simp [Parser.semicolon, h]
  · simp [Parser.semicolon, h1, h2, hi]
  · simp [Parser.semicolon, Parser.expect, h, hi]
  · have hs : p.semicolon = (p.errorUnexpectedToken p.token).next := by
      simp [Parser.semicolon, Parser.expect, h1, h2, h3, hi]
    have he : ∃ e : Error, (p.errorUnexpectedToken p.token).errors = p.errors ++ [e] ∧
        (p.token = .EOF → e.Message = "Unexpected end of input") := by
      unfold Parser.errorUnexpectedToken
      by_cases c : p.token = .EOF
      · rw [if_pos c]
        exact ⟨_, rfl, fun _ => rfl⟩
      · rw [if_neg c]
        split_ifs <;> exact ⟨_, rfl, fun h => absurd h c⟩
    refine ⟨hs, he, ?_⟩
    obtain ⟨e, he, _⟩ := he
    obtain ⟨l, hl⟩ := (Parser.steps_next (p.errorUnexpectedToken p.token)).errors
    refine ⟨e :: l, List.cons_ne_nil _ _, ?_⟩
    rw [hs, hl, he, List.append_assoc, List.singleton_append]

/-- C30 (amended), at a `;` that begins a line: the flag is cleared and the `;` stays. -/
theorem C30_semicolon_witness :
    semicolonNewlineParser.implicitSemicolon = true ∧
    semicolonNewlineParser.semicolon =
      { semicolonNewlineParser with implicitSemicolon := false } :=
  ⟨rfl, C30_semicolon.2.1 semicolonNewlineParser (by decide) (by decide) rfl⟩

/-- C31, as stated, fails at `continue`, which is not in its list: in
`break 1 2 continue` the illegal `break` calls `nextStatement` at `2`, and `nextStatement`
returns at `continue`, so that the `continue` is parsed as a statement of its own (the
second `BadStatement`, with the error `Illegal continue statement`).  A parser at `const`
or `let` stops there as well. -/
theorem C31_stops_at_continue :
    ((newParser "" breakNumbersSource breakNumbersTokens).parseState 200).map
        (fun r => (r.1.Body, r.2.messages)) =
      some ([.BadStatement 1 11, .BadStatement 11 19],
        ["Unexpected number", "Illegal break statement", "Illegal continue statement"]) ∧
    breakNumbersParser.token = .NUMBER ∧ breakNumbersParser.idx = 9 ∧
    breakNumbersParser.nextStatement.token = .CONTINUE ∧
    breakNumbersParser.nextStatement.idx = 11 ∧
    Token.CONTINUE ∉ [Token.BREAK, .FOR, .IF, .RETURN, .SWITCH, .VAR, .DO, .TRY, .WITH,
      .WHILE, .THROW, .CATCH, .FINALLY, .EOF] ∧
    ({ token := .CONST, idx := 1 } : Parser).nextStatement.token = .CONST ∧
    ({ token := .LET, idx := 1 } : Parser).nextStatement.token = .LET :=
  ⟨rfl, rfl, rfl, rfl, rfl, by decide, rfl, rfl⟩

/-- C31 (amended): `nextStatement` returns (every count of rounds from `size + 2` on
reaches a `return` of its loop), and whenever it returns the current token is one of
`break`, `const`, `continue`, `for`, `if`, `return`, `switch`, `var`, `do`, `try`, `let`,
`with`, `while`, `throw`, `catch`, `finally`, or `EOF`; it stops at no other token, and at
each of these a parser that has made progress since the last recovery stops at once.  The
parser it returns is the one some calls of `next` further on, with `recover` updated: none
of the tokens it has consumed is `EOF`, and a token of the list among them is one at which
the guard on `recover` forbids the return. -/
theorem C31_next_statement_sync (p : Parser) (k : Nat) :
    p.nextStatementWithin (p.scanner.size + 2 + k) = some p.nextStatement ∧
    p.nextStatement.token ∈
      [Token.BREAK, .CONST, .CONTINUE, .FOR, .IF, .RETURN, .SWITCH, .VAR, .DO, .TRY, .LET,
        .WITH, .WHILE, .THROW, .CATCH, .FINALLY, .EOF] ∧
    [Token.BREAK, .CONST, .CONTINUE, .FOR, .IF, .RETURN, .SWITCH, .VAR, .DO, .TRY, .LET,
      .WITH, .WHILE, .THROW, .CATCH, .FINALLY, .EOF].all
        (fun t => ({ token := t, idx := 1 } : Parser).nextStatement.token = t) = true ∧
    ∃ j r, p.nextStatement = { Parser.next^[j] p with recover := r } ∧
      ∀ i, i < j → (Parser.next^[i] p).token ≠ .EOF ∧
        ((Parser.next^[i] p).token.isSync = true →
          ¬((Parser.next^[i] p).idx = p.recover.idx ∧ p.recover.count < 10) ∧
          ¬(Parser.next^[i] p).idx > p.recover.idx) := by
  have h := p.nextStatementWithin_nextStatement (p.scanner.size + 2 + k)
    (le_trans p.rounds_le (Nat.le_add_right _ _))
  refine ⟨h, ?_, by decide, p.nextStatement_passes⟩
  rcases Parser.nextStatementWithin_token h with hs | he
  · have := (Token.isSync_iff _).1 hs
    simp only [List.mem_cons] at this ⊢
    tauto
  · rw [he]
    decide

/-- C31 (amended) on `break 1 2 continue`: at `2`, `nextStatement` consumes one token and
returns at `continue`, where it records the index 11. -/
theorem C31_next_statement_sync_witness :
    breakNumbersParser.nextStatementWithin 5 = some breakNumbersParser.nextStatement ∧
    breakNumbersParser.nextStatement.token = .CONTINUE ∧
    breakNumbersParser.nextStatement =
      { breakNumbersParser.next with recover := { idx := 11, count := 0 } } ∧
    ∃ j r, breakNumbersParser.nextStatement =
        { Parser.next^[j] breakNumbersParser with recover := r } ∧
      ∀ i, i < j → (Parser.next^[i] breakNumbersParser).token ≠ .EOF ∧
        ((Parser.next^[i] breakNumbersParser).token.isSync = true →
          ¬((Parser.next^[i] breakNumbersParser).idx = breakNumbersParser.recover.idx ∧
            breakNumbersParser.recover.count < 10) ∧
          ¬(Parser.next^[i] breakNumbersParser).idx > breakNumbersParser.recover.idx) :=
  ⟨(C31_next_statement_sync breakNumbersParser 1).1, rfl, rfl,
    (C31_next_statement_sync breakNumbersParser 1).2.2.2⟩

/-- C33: for every source, the first result of `lineCount` is the number of line
terminators in it, where LF, CR, U+2028 and U+2029 each count as one and a CR immediately
followed by LF counts once, and the second result is the byte index of the last byte of
the last line terminator, or -1 when the source has none.  So CR LF gives 1, CR CR LF
gives 2 and LF CR gives 2; U+2028 and U+2029 give 1 each, with the last byte at index 2. -/
theorem C33_line_count :
    (∀ source : List Nat,
      (lineCount source).1 = ((lineTerminators source).length : Int) ∧
      (lineCount source).2 =
        match (lineTerminators source).getLast? with
        | some t => (t.2 : Int) - 1
        | none => -1) ∧
    lineCount [0x0D, 0x0A] = (1, 1) ∧
    lineCount [0x0D, 0x0D, 0x0A] = (2, 2) ∧
    lineCount [0x0A, 0x0D] = (2, 1) ∧
    lineCount [0x0A] = (1, 0) ∧ lineCount [0x0D] = (1, 0) ∧
    lineCount [0xE2, 0x80, 0xA8] = (1, 2) ∧ lineCount [0xE2, 0x80, 0xA9] = (1, 2) ∧
    lineCount [0x61, 0x0D, 0x0A, 0x62] = (1, 2) ∧
    lineCount [] = (0, -1) ∧ lineCount [0x61, 0x62] = (0, -1) := by
  refine ⟨fun source => ?_, by decide, by decide, by decide, by decide, by decide, by decide,
    by decide, by decide, by decide, by decide⟩
  have h := lineCountFrom_eq source 0 0 (-1)
  rw [lastByte_eq] at h
  unfold lineCount lineTerminators
  rw [h]
  exact ⟨by simp, rfl⟩

/-- C34: `evaluateBody` evaluates the statements in order.  As soon as a statement yields a
result sentinel it returns that sentinel unchanged, with the runtime the statement has
left, whatever statements follow.  Otherwise it returns `GetValue` of the value of the
last statement whose value is not empty (`GetValue` is taken right behind each such
statement), or the empty value when every statement yields empty.  Whenever it returns a
value, it is one of the two.  A `VarStatement` and an `EmptyStatement` yield empty, so
they leave the value of the body as it is, and `var x=1; var y=2; x+y` completes with the
value of `x+y`, the number 3. -/
theorem C34_body_value {σ : Type} (host : Host σ) :
    (∀ (n : Nat) (body : List Statement) (r q : Runtime σ) (values : List (Option Value)),
      BodyRuns host n body r values q →
      evaluateBody host (n + body.length + 1) body .empty r =
        some (q, .value (lastBodyValue .empty values))) ∧
    (∀ (n : Nat) (pre post : List Statement) (node : Statement) (r r1 q : Runtime σ)
      (values : List (Option Value)) (value : Value),
      BodyRuns host n pre r values r1 →
      evaluate host n node r1 = some (q, .value value) → value.isResult = true →
      evaluateBody host (n + pre.length + 1) (pre ++ node :: post) .empty r =
        some (q, .value value)) ∧
    (∀ (n : Nat) (body : List Statement) (r q : Runtime σ) (result : Value),
      evaluateBody host n body .empty r = some (q, .value result) →
      (∃ values, BodyRuns host n body r values q ∧ result = lastBodyValue .empty values) ∨
      ∃ pre node post values r1, body = pre ++ node :: post ∧
        BodyRuns host n pre r values r1 ∧
        evaluate host n node r1 = some (q, .value result) ∧ result.isResult = true) ∧
    (∀ (values : List (Option Value)),
      (∀ value ∈ values, value = none) → lastBodyValue .empty values = .empty) ∧
    (∀ (first rest : List (Option Value)) (value : Value),
      (∀ value ∈ rest, value = none) →
      lastBodyValue .empty (first ++ some value :: rest) = value) ∧
    (∀ (n : Nat) (idx : Idx) (list : List Expression) (r q : Runtime σ) (value : Value),
      (evaluate host n (.VarStatement idx list) r = some (q, .value value) →
        value = .empty) ∧
      (evaluate host n (.EmptyStatement idx) r = some (q, .value value) → value = .empty)) ∧
    (∀ (n : Nat) (node : Statement) (body : List Statement) (bodyValue : Value)
      (r q : Runtime σ),
      evaluate host n node r = some (q, .value .empty) →
      evaluateBody host (n + 1) (node :: body) bodyValue r =
        evaluateBody host n body bodyValue q) ∧
    arithmeticRun 200 sumOfVariablesSource sumOfVariablesTokens (exampleRuntime [] []) =
      some (.value (.number (.int 3))) := by
  refine ⟨fun n body r q values h => evaluateBody_runs .empty h,
    fun n pre post node r r1 q values value h hn hv => evaluateBody_sentinel post hv .empty h hn,
    fun n body r q result h => evaluateBody_value n body .empty r q result h,
    fun values h => ?_, fun first rest value h => ?_,
    fun n idx list r q value =>
      ⟨evaluate_var_empty (Or.inl ⟨idx, list, rfl⟩), evaluate_var_empty (Or.inr ⟨idx, rfl⟩)⟩,
    fun n node body bodyValue r q h => ?_, by decide!⟩
  · induction values with
    | nil => rfl
    | cons v values ih =>
      obtain rfl := h v (List.mem_cons_self _ _)
      rw [lastBodyValue_none]
      exact ih fun value hv => h value (List.mem_cons_of_mem _ hv)
  · have none_rest : ∀ (rest : List (Option Value)) (value : Value),
        (∀ v ∈ rest, v = none) → lastBodyValue value rest = value := by
      intro rest
      induction rest with
      | nil => intro _ _; rfl
      | cons v rest ih =>
        intro value h
        obtain rfl := h v (List.mem_cons_self _ _)
        rw [lastBodyValue_none]
        exact ih value fun w hw => h w (List.mem_cons_of_mem _ hw)
    generalize Value.empty = bodyValue
    induction first generalizing bodyValue with
    | nil =>
      rw [List.nil_append, lastBodyValue_some]
      exact none_rest rest value h
    | cons v first ih =>
      cases v with
      | none =>
        rw [List.cons_append, lastBodyValue_none]
        exact ih bodyValue
      | some w =>
        rw [List.cons_append, lastBodyValue_some]
        exact ih w
  · rw [evaluateBody, h, andThen_value]
    rfl

/-- C34 on the body of the statements `'a'` and `;`: the first leaves its value, the second
yields empty, and `evaluateBody` returns the string. -/
theorem C34_body_value_witness :
    BodyRuns exampleHost 1
      [.ExpressionStatement (.StringLiteral 1 "'a'" "a"), .EmptyStatement 4]
      (exampleRuntime [] []) [some (.string "a"), none] (exampleRuntime [] []) ∧
    evaluateBody exampleHost 4
        [.ExpressionStatement (.StringLiteral 1 "'a'" "a"), .EmptyStatement 4] .empty
        (exampleRuntime [] []) =
      some (exampleRuntime [] [], .value (.string "a")) :=
  have h : BodyRuns exampleHost 1
      [.ExpressionStatement (.StringLiteral 1 "'a'" "a"), .EmptyStatement 4]
      (exampleRuntime [] []) [some (.string "a"), none] (exampleRuntime [] []) :=
    ⟨_, _, rfl, rfl, Or.inr ⟨rfl, _, _, _, rfl, rfl,
      ⟨_, _, rfl, rfl, Or.inl ⟨rfl, _, rfl, rfl, rfl⟩⟩⟩⟩
  ⟨h, (C34_body_value exampleHost).1 1 _ _ _ _ h⟩

/-- C35 fails on the code for the bracket member: the loop of
`parseLeftHandSideExpression` tests for `{` where `parseBracketMember` expects `[`.
`new a.b(c)` parses as the `new` of the callee `a.b` with the argument `c`, but in
`new a[b](c)` the callee of the `new` is `a` alone, without an argument list, and the
statement is the call, with the argument `c`, of the member `b` of that `new`.  The branch
is taken in `new a{b](c)`, which parses as the `new` of `a[b]` with the argument `c`, and
with one error for the `{`. -/
theorem C35_new_bracket_callee :
    ((newParser "" newDotSource newDotTokens).parseState 200).map
        (fun r => (r.1.Body, r.2.messages)) =
      some ([.ExpressionStatement
        (.NewExpression 1 (.DotExpression (.Identifier "a" 5) { Name := "b", Idx := 7 }) 8
          [.Identifier "c" 9] 10)], []) ∧
    ((newParser "" newBracketSource newBracketTokens).parseState 200).map
        (fun r => (r.1.Body, r.2.messages)) =
      some ([.ExpressionStatement
        (.CallExpression
          (.BracketExpression (.NewExpression 1 (.Identifier "a" 5) 0 [] 0)
            (.Identifier "b" 7) 6 8) 9
          [.Identifier "c" 10] 11)], []) ∧
    ((newParser "" newBraceSource newBraceTokens).parseState 200).map
        (fun r => (r.1.Body, r.2.messages)) =
      some ([.ExpressionStatement
        (.NewExpression 1 (.BracketExpression (.Identifier "a" 5) (.Identifier "b" 7) 6 8) 9
          [.Identifier "c" 10] 11)], ["Unexpected token \x7b"]) :=
  ⟨rfl, rfl, rfl⟩

/-- C36: `evaluateSwitchStatement` evaluates the discriminant and selects the first clause in
source order whose test is strictly equal to it, evaluating no test behind that clause, and
the clause at the index `Default` when no test is strictly equal.  With the target -1 (no
default clause) it executes nothing and returns empty.  Otherwise it executes the
consequents of the selected clause and of all clauses behind it, in order: when none of
the statements yields a result sentinel it returns the last value that is not empty, and
the first statement that yields a result sentinel ends the switch, with the empty value if
the sentinel is a break whose target is in the label set of the switch (the labels of the
runtime and the empty label), and with the sentinel unchanged otherwise (a continue, a
break with another target, a return).  The results are those of every greater fuel. -/
theorem C36_switch {σ : Type} (host : Host σ) (discriminant : Expression) (default : Int)
    (body : List CaseStatement) (r r1 r2 : Runtime σ) (discriminantResult : Value)
    (target : Int)
    (hd : evaluateExpression host discriminant { r with labels := [] } =
      some (r1, .value discriminantResult))
    (hs : Selects host discriminantResult body default r1 r2 target) :
    evaluateSwitchStatementTarget host discriminantResult body 0 default r1 =
      some (r2, .value target) ∧
    (target = -1 → ∀ n,
      evaluateSwitchStatement host (n + 1) discriminant default body r =
        some (r2, .value .empty)) ∧
    (0 ≤ target → target ≤ body.length →
      (∀ (n : Nat) (values : List Value) (q : Runtime σ),
        StatementsRun host n (consequentsFrom body target.toNat) r2 values q →
        ∃ m, ∀ k, m ≤ k →
          evaluateSwitchStatement host k discriminant default body r =
            some (q, .value (lastValue .empty values))) ∧
      (∀ (n : Nat) (first rest : List Statement) (statement : Statement) (r3 q : Runtime σ)
        (values : List Value) (value : Value),
        consequentsFrom body target.toNat = first ++ statement :: rest →
        StatementsRun host n first r2 values r3 →
        evaluate host n statement r3 = some (q, .value value) → value.isResult = true →
        ∃ m, ∀ k, m ≤ k →
          evaluateSwitchStatement host k discriminant default body r =
            some (q, .value
              (if value.evaluateBreak (r.labels ++ [""]) = .resultBreak then .empty
                else value)))) ∧
    (∀ (value : Value) (labels : List String),
      value.evaluateBreak labels = .resultBreak ↔
        ∃ v target, value = .result .resultBreak v target ∧ target ∈ labels) := by
  have h1 := fun n => (evaluateSwitchStatement_selected hd hs n).1
  have h2 := fun n => (evaluateSwitchStatement_selected hd hs n).2
  have lift : ∀ (m : Nat) (o : Runtime σ × Ending Value),
      evaluateSwitchStatement host m discriminant default body r = some o →
      ∃ m, ∀ k, m ≤ k → evaluateSwitchStatement host k discriminant default body r = some o :=
    fun m o h => ⟨m, fun k hk =>
      fuel_le (fun k => (fuelIH host k).evaluateSwitchStatement discriminant default body r)
        hk o h⟩
  refine ⟨evaluateSwitchStatementTarget_selects hs, fun e n => h1 n e, fun h0 hl => ⟨?_, ?_⟩,
    fun value labels => Value.evaluateBreak_break⟩
  · intro n values q hr
    refine lift ((n + ([] : List Statement).length + (body.drop target.toNat).length +
      ((body.drop target.toNat).flatMap CaseStatement.Consequent).length + 1) + 1) _ ?_
    rw [h2 _ h0 hl]
    exact evaluateSwitchStatementBody_statements (n := n) _ [] .empty r2 _
      (evaluateSwitchStatements_run .empty hr)
  · intro n first rest statement r3 q values value hc hr hv hres
    refine lift ((n + ([] : List Statement).length + (body.drop target.toNat).length +
      ((body.drop target.toNat).flatMap CaseStatement.Consequent).length + 1) + 1) _ ?_
    rw [h2 _ h0 hl]
    refine evaluateSwitchStatementBody_statements (n := n) _ [] .empty r2 _ ?_
    rw [List.nil_append]
    unfold consequentsFrom at hc
    rw [hc]
    exact evaluateSwitchStatements_sentinel rest hres .empty hr hv

/-- C36 on `switch ('b') { case 'a': 'A'; case 'b': 'B' }` with the clauses as the parser
builds them: the second clause is selected and the switch returns `'B'`.  On whole
sources: the consequents behind the selected clause are executed (`'C'`), also behind a
default clause that stands first (`'A'`); a break ends the switch with the empty value;
nothing is executed without a match and a default clause; the test `x` of an undeclared
`x` behind the match is not evaluated, while in front of it it throws; `break L` and
`continue` go through the switch to the loop around it. -/
theorem C36_switch_witness :
    Selects exampleHost (.string "b") clausesAB (-1) (exampleRuntime [] [])
      (exampleRuntime [] []) 1 ∧
    (∃ m, ∀ k, m ≤ k →
      evaluateSwitchStatement exampleHost k (.StringLiteral 9 "'b'" "b") (-1) clausesAB
          (exampleRuntime [] []) =
        some (exampleRuntime [] [], .value (.string "B"))) ∧
    arithmeticRun 200 switchFallThroughSource switchFallThroughTokens (exampleRuntime [] []) =
      some (.value (.string "C")) ∧
    arithmeticRun 200 switchDefaultFirstSource switchDefaultFirstTokens
        (exampleRuntime [] []) = some (.value (.string "A")) ∧
    arithmeticRun 200 switchBreakSource switchBreakTokens (exampleRuntime [] []) =
      some (.value .empty) ∧
    arithmeticRun 200 switchNoClauseSource switchNoClauseTokens (exampleRuntime [] []) =
      some (.value .empty) ∧
    arithmeticRun 200 switchTestBehindSource switchTestBehindTokens (exampleRuntime [] []) =
      some (.value (.string "X")) ∧
    arithmeticRun 200 switchTestBeforeSource switchTestBeforeTokens (exampleRuntime [] []) =
      some (.panic (.exception (.string "ReferenceError: x is not defined"))) ∧
    arithmeticRun 200 switchBreakLabelSource switchBreakLabelTokens (exampleRuntime [] []) =
      some (.value .empty) ∧
    arithmeticRun 200 switchContinueSource switchContinueTokens (exampleRuntime [] []) =
      some (.value (.string "a")) :=
  have hs : Selects exampleHost (.string "b") clausesAB (-1) (exampleRuntime [] [])
      (exampleRuntime [] []) 1 :=
    Or.inl ⟨[.mk 16 (some (.StringLiteral 21 "'a'" "a"))
        [.ExpressionStatement (.StringLiteral 26 "'A'" "A")]], 31, .StringLiteral 36 "'b'" "b",
      [.ExpressionStatement (.StringLiteral 41 "'B'" "B")], [], exampleRuntime [] [],
      .string "b", exampleRuntime [] [], rfl, ⟨_, _, _, rfl, rfl, rfl⟩, rfl, rfl, rfl⟩
  ⟨hs,
    ((C36_switch exampleHost (.StringLiteral 9 "'b'" "b") (-1) clausesAB (exampleRuntime [] [])
      (exampleRuntime [] []) (exampleRuntime [] []) (.string "b") 1 rfl hs).2.2.1
        (by decide) (by decide)).1 1 [.string "B"] (exampleRuntime [] [])
      ⟨_, _, _, rfl, rfl, rfl, rfl, rfl⟩,
    by decide!, by decide!, by decide!, by decide!, by decide!, by decide!, by decide!,
    by decide!⟩

/-- C37: a continue that matches the loop (a continue sentinel with its target in the label
set of the loop) does not skip the step of the loop.  In the loop of
`evaluateForStatement`, when the test holds and a statement of the body yields such a
continue, the statements behind it are skipped and the update expression is evaluated
from the runtime that statement has left, and the loop goes on from there, which is with
its test: if the test fails then, the loop ends behind it.  In the loop of
`evaluateDoWhileStatement` the test is evaluated behind the continue.  The body of a
do-while runs before the first test, also if that fails; the bodies of a while and of a for
do not run when the first test fails: the statement returns empty with the runtime the
test has left. -/
theorem C37_continue_keeps_step {σ : Type} (host : Host σ) :
    (∀ (n : Nat) (update test : Option Expression) (first rest : List Statement)
      (statement : Statement) (labels : List String) (result value : Value)
      (values : List Value) (r r0 r1 r2 : Runtime σ),
      evaluateForStatementTest host test r = some (r0, .value true) →
      StatementsRun host n first r0 values r1 →
      evaluate host n statement r1 = some (r2, .value value) → value.isResult = true →
      value.evaluateBreakContinue labels = .resultContinue →
      evaluateForStatementLoop host (n + first.length + 2) update test
          (first ++ statement :: rest) labels result r =
        (andThen (evaluateForStatementUpdate host update r2) fun r3 _ =>
          evaluateForStatementLoop host (n + first.length + 1) update test
            (first ++ statement :: rest) labels (lastValue result values) r3) ∧
      ∀ r3 r4, evaluateForStatementUpdate host update r2 = some (r3, .value ()) →
        evaluateForStatementTest host test r3 = some (r4, .value false) →
        evaluateForStatementLoop host (n + first.length + 2) update test
            (first ++ statement :: rest) labels result r =
          some (r4, .value (lastValue result values))) ∧
    (∀ (update : Expression) (r : Runtime σ),
      evaluateForStatementUpdate host (some update) r =
        andThen (evaluateValue host update r) fun r _ => some (r, .value ())) ∧
    (∀ (n : Nat) (test : Expression) (first rest : List Statement) (statement : Statement)
      (labels : List String) (result value : Value) (values : List Value)
      (r r1 r2 : Runtime σ),
      StatementsRun host n first r values r1 →
      evaluate host n statement r1 = some (r2, .value value) → value.isResult = true →
      value.evaluateBreakContinue labels = .resultContinue →
      evaluateDoWhileStatementLoop host (n + first.length + 2) test
          (first ++ statement :: rest) labels result r =
        andThen (evaluateValue host test r2) fun r3 testValue =>
          if !host.isTrue testValue then some (r3, .value (lastValue result values))
          else
            evaluateDoWhileStatementLoop host (n + first.length + 1) test
              (first ++ statement :: rest) labels (lastValue result values) r3) ∧
    (∀ (n : Nat) (test : Expression) (body : Statement) (values : List Value)
      (testValue : Value) (r r1 r2 : Runtime σ),
      StatementsRun host n (loopBody body) { r with labels := [] } values r1 →
      evaluateValue host test r1 = some (r2, .value testValue) →
      host.isTrue testValue = false →
      evaluateDoWhileStatement host (n + (loopBody body).length + 3) test body r =
        some (r2, .value (lastValue .empty values))) ∧
    (∀ (n : Nat) (test : Expression) (body : Statement) (testValue : Value)
      (r r1 : Runtime σ),
      evaluateValue host test { r with labels := [] } = some (r1, .value testValue) →
      host.isTrue testValue = false →
      evaluateWhileStatement host (n + 2) test body r = some (r1, .value .empty)) ∧
    (∀ (n : Nat) (initializer : Expression) (update test : Option Expression)
      (body : Statement) (initialValue : Value) (r r0 r1 : Runtime σ),
      evaluateValue host initializer { r with labels := [] } =
        some (r0, .value initialValue) →
      evaluateForStatementTest host test r0 = some (r1, .value false) →
      evaluateForStatement host (n + 2) initializer update test body r =
        some (r1, .value .empty)) ∧
    (∀ (value : Value) (labels : List String),
      value.evaluateBreakContinue labels = .resultContinue ↔
        ∃ v target, value = .result .resultContinue v target ∧ target ∈ labels) ∧
    arithmeticRun 200 forContinueSource forContinueTokens (exampleRuntime [] []) =
      some (.value (.number (.int 3))) ∧
    arithmeticRun 200 doWhileContinueSource doWhileContinueTokens (exampleRuntime [] []) =
      some (.value (.number (.int 3))) ∧
    arithmeticRun 200 doWhileOnceSource doWhileOnceTokens (exampleRuntime [] []) =
      some (.value (.number (.int 1))) ∧
    arithmeticRun 200 whileNeverSource whileNeverTokens (exampleRuntime [] []) =
      some (.value (.number (.int 0))) ∧
    arithmeticRun 200 forNeverSource forNeverTokens (exampleRuntime [] []) =
      some (.value (.number (.int 0))) := by
  refine ⟨?_, fun _ _ => rfl, ?_, ?_, ?_, ?_, fun _ _ => Value.evaluateBreakContinue_continue,
    by decide!, by decide!, by decide!, by decide!, by decide!⟩
  · intro n update test first rest statement labels result value values r r0 r1 r2 ht hr hs
      hv hc
    have hb := evaluateLoopBody_sentinel labels rest hv result hr hs
    rw [hc] at hb
    have e : evaluateForStatementLoop host (n + first.length + 2) update test
        (first ++ statement :: rest) labels result r =
        andThen (evaluateForStatementUpdate host update r2) fun r3 _ =>
          evaluateForStatementLoop host (n + first.length + 1) update test
            (first ++ statement :: rest) labels (lastValue result values) r3 := by
      rw [evaluateForStatementLoop, ht, andThen_value, if_neg (by simp), hb, andThen_value]
    refine ⟨e, fun r3 r4 hu ht2 => ?_⟩
    rw [e, hu, andThen_value, evaluateForStatementLoop, ht2, andThen_value, if_pos rfl]
  · intro n test first rest statement labels result value values r r1 r2 hr hs hv hc
    have hb := evaluateLoopBody_sentinel labels rest hv result hr hs
    rw [hc] at hb
    rw [evaluateDoWhileStatementLoop, hb, andThen_value]
  · intro n test body values testValue r r1 r2 hr ht hf
    have hb := evaluateLoopBody_done (r.labels ++ [""]) .empty hr
    rw [evaluateDoWhileStatement, evaluateDoWhileStatementLoop, hb, andThen_value]
    dsimp only
    rw [ht, andThen_value, if_pos (by simp [hf])]
  · intro n test body testValue r r1 ht hf
    rw [evaluateWhileStatement, evaluateWhileStatementLoop, ht, andThen_value,
      if_pos (by simp [hf])]
  · intro n initializer update test body initialValue r r0 r1 hi ht
    rw [evaluateForStatement, hi, andThen_value, evaluateForStatementLoop, ht, andThen_value,
      if_pos rfl]

/-- C37 on `while (false) ;` and on `do ; while (false)`: the body of the while does not
run, that of the do-while runs once, and the test is evaluated behind it. -/
theorem C37_continue_keeps_step_witness :
    evaluateWhileStatement exampleHost 2 (.BooleanLiteral 8 "false" false) (.EmptyStatement 15)
        (exampleRuntime [] []) =
      some (exampleRuntime [] [], .value .empty) ∧
    evaluateDoWhileStatement exampleHost 5 (.BooleanLiteral 13 "false" false)
        (.EmptyStatement 4) (exampleRuntime [] []) =
      some (exampleRuntime [] [], .value .empty) :=
  ⟨(C37_continue_keeps_step exampleHost).2.2.2.2.1 0 _ _ _ _ _ rfl rfl,
    (C37_continue_keeps_step exampleHost).2.2.2.1 1 (.BooleanLiteral 13 "false" false)
      (.EmptyStatement 4) [.empty] (.boolean false) (exampleRuntime [] []) (exampleRuntime [] [])
      (exampleRuntime [] []) ⟨_, _, _, rfl, rfl, rfl, rfl, rfl⟩ rfl rfl⟩

/-- C38 fails on the code: `parseRelationalExpression` has no loop as the other binary
levels have, it parses its right operand with a call of itself, so that relational
operators group to the right.  For all relational operators `op1` and `op2` (of `<`, `>`,
`<=`, `>=`, `instanceof`, `in`, with `in` allowed) the source `a op1 b op2 c` parses,
without error, as `Binary(op1, a, Binary(op2, b, c))`; so does `a < b < c`, while
`a + b - c` parses as `Binary(-, Binary(+, a, b), c)`. -/
theorem C38_relational_groups_right :
    (∀ i j : Fin 6,
      (Parse 200 "" (relationalSource (relationalOperators.get i) (relationalOperators.get j))
          (relationalTokens (relationalOperators.get i) (relationalOperators.get j))).map
          (fun r => (r.1.Body, r.2)) =
        some ([.ExpressionStatement (binaryNode (relationalOperators.get i) (.Identifier "a" 1)
          (binaryNode (relationalOperators.get j)
            (.Identifier "b" (4 + (relationalOperators.get i).String.length))
            (.Identifier "c" (7 + (relationalOperators.get i).String.length +
              (relationalOperators.get j).String.length))))], none)) ∧
    (Parse 200 "" (asciiBytes "a < b < c")
        (binaryTokens "a" .LESS "" "b" .LESS "" "c" 1 3 5 7 9 9)).map
        (fun r => (r.1.Body, r.2)) =
      some ([.ExpressionStatement (.BinaryExpression .LESS (.Identifier "a" 1)
        (.BinaryExpression .LESS (.Identifier "b" 5) (.Identifier "c" 9) true) true)],
        none) ∧
    (Parse 200 "" (asciiBytes "a + b - c")
        (binaryTokens "a" .PLUS "" "b" .MINUS "" "c" 1 3 5 7 9 9)).map
        (fun r => (r.1.Body, r.2)) =
      some ([.ExpressionStatement (.BinaryExpression .MINUS
        (.BinaryExpression .PLUS (.Identifier "a" 1) (.Identifier "b" 5) false)
        (.Identifier "c" 9) false)], none) := by
  refine ⟨fun i j => ?_, rfl, rfl⟩
  fin_cases i <;> fin_cases j <;> rfl

/-- C39: parsing terminates on every stream of tokens, also on malformed input: with fuel
for the results of the scanner (`512 * (size + 1)` or more) `Parse` returns.  Every loop
of the parser returns when its fuel is above the budget of the parser it starts at
(`parseSourceElements`, `parseStatementList`, the loops of `parseCaseStatement`,
`parseSwitchStatement`, `parseObjectLiteral`, `parseArrayLiteral`,
`parseVariableDeclarationList`, of the argument list, of the member and call suffixes, of
a sequence and of the binary operators), and the loop of `parseFunctionParameterList`
ends within the rounds the model gives it.  The reason is the progress of
`parseStatement`: a call on a token other than `EOF` consumes a result of the scanner, or
the last token, or it clears a set `implicitSemicolon`.  In the source of an empty block,
a line feed and `catch`, the statement at `catch` is rejected twice: the first time
`nextStatement` returns without consuming and the statement only clears
`implicitSemicolon`, the second time it consumes `catch`. -/
theorem C39_parser_terminates :
    (∀ (filename : String) (source : List Nat) (scanner : Scanner) (n : Nat),
      512 * (scanner.size + 1) ≤ n → ∃ r, Parse n filename source scanner = some r) ∧
    (∀ (n : Nat) (p q : Parser) (s : Statement),
      parseStatement n p = some (s, q) → p.token ≠ .EOF →
      q.remaining < p.remaining ∨ (q.remaining = p.remaining ∧ q.token = .EOF) ∨
        (q.remaining = p.remaining ∧ p.implicitSemicolon = true ∧
          q.implicitSemicolon = false)) ∧
    (∀ (n : Nat) (p : Parser),
      (p.budget 47 1 < n → Returns (parseSourceElements n p)) ∧
      (∀ list, p.budget 46 0 < n → Returns (parseStatementList n list p)) ∧
      (∀ list, p.budget 46 0 < n → Returns (parseCaseStatementLoop n list p)) ∧
      (∀ index default body, p.budget 1 0 < n →
        Returns (parseSwitchStatementLoop n index default body p)) ∧
      (∀ value, p.budget 1 0 < n → Returns (parseObjectLiteralLoop n value p)) ∧
      (∀ value, p.budget 44 0 < n → Returns (parseArrayLiteralLoop n value p)) ∧
      (∀ list, p.budget 1 1 < n → Returns (parseVariableDeclarationList n list p)) ∧
      (∀ list, p.budget 44 44 < n → Returns (parseArgumentListLoop n list p)) ∧
      (∀ left, p.budget 1 0 < n → Returns (parseLeftHandSideExpressionLoop n left p)) ∧
      (∀ left, p.budget 2 0 < n →
        Returns (parseLeftHandSideExpressionAllowCallLoop n left p)) ∧
      (∀ sequence, p.budget 0 0 < n → Returns (parseExpressionLoop n sequence p)) ∧
      (∀ level left, p.budget (4 * level.index + 8) (4 * level.index + 8) < n →
        Returns (parseBinaryLoop n level left p)) ∧
      (p.budget 18 18 < n → Returns (parseRelationalExpression n p)) ∧
      ∀ list k, p.parseFunctionParameterListWithin (p.scanner.size + 2 + k) list =
        some (p.parseFunctionParameterListLoop (p.scanner.size + 2) list)) ∧
    ((newParser "" blockCatchSource blockCatchTokens).parseState 200).map
        (fun r => (r.1.Body, r.2.messages)) =
      some ([.BlockStatement 1 [] 2, .ExpressionStatement (.BadExpression 4 4),
          .ExpressionStatement (.BadExpression 4 4)],
        ["Unexpected token catch", "Unexpected token catch", "Unexpected token catch"]) ∧
    (blockCatchParser.token, blockCatchParser.implicitSemicolon,
        blockCatchParser.scanner.size) = (.CATCH, true, 1) ∧
    (parseStatement 50 blockCatchParser).map
        (fun r => (r.2.token, r.2.implicitSemicolon, r.2.scanner.size, r.2.messages)) =
      some (.CATCH, false, 1, ["Unexpected token catch"]) ∧
    ((parseStatement 50 blockCatchParser).bind fun r => parseStatement 50 r.2).map
        (fun r => (r.2.token, r.2.scanner.size, r.2.messages)) =
      some (.EOF, 0,
        ["Unexpected token catch", "Unexpected token catch", "Unexpected token catch"]) := by
  refine ⟨fun filename source scanner n hn => ?_, fun n p q s h hne => ?_, fun n p => ?_,
    rfl, rfl, rfl, rfl⟩
  · obtain ⟨r, hr⟩ := total_parseProgram n (newParser filename source scanner).next
      (lt_of_lt_of_le (newParser_budget filename source scanner) hn)
    exact ⟨(r.1, r.2.errors.head?), by simp [Parse, Parser.parse, Parser.parseState, hr]⟩
  · have hr := (reachIH n).parseStatement p _ h
    rcases Parser.measure_lt_cases (hr.2.2 hne) with h1 | ⟨h1, _, h2⟩ | h1
    · exact Or.inl h1
    · exact Or.inr (Or.inl ⟨h1, h2⟩)
    · exact Or.inr (Or.inr h1)
  · have ih := totalIH n
    exact ⟨total_parseSourceElements n p, fun l => ih.parseStatementList l p,
      fun l => ih.parseCaseStatementLoop l p,
      fun i d b => ih.parseSwitchStatementLoop i d b p,
      fun v => ih.parseObjectLiteralLoop v p, fun v => ih.parseArrayLiteralLoop v p,
      fun l => ih.parseVariableDeclarationList l p,
      fun l => ih.parseArgumentListLoop l p,
      fun l => ih.parseLeftHandSideExpressionLoop l p,
      fun l => ih.parseLeftHandSideExpressionAllowCallLoop l p,
      fun s => ih.parseExpressionLoop s p, fun lv l => ih.parseBinaryLoop lv l p,
      ih.parseRelationalExpression p,
      fun list k => p.parseFunctionParameterListWithin_loop list k⟩

/-- C39 on the source of an empty block, a line feed and `catch`: `Parse` returns with the
fuel 2560, and it returns the first error. -/
theorem C39_parser_terminates_witness :
    512 * (blockCatchTokens.size + 1) ≤ 2560 ∧
    (∃ r, Parse 2560 "" blockCatchSource blockCatchTokens = some r) ∧
    (Parse 200 "" blockCatchSource blockCatchTokens).map (fun r => r.2.map Error.Message) =
      some (some "Unexpected token catch") :=
  ⟨by decide, C39_parser_terminates.1 "" blockCatchSource blockCatchTokens 2560 (by decide),
    rfl⟩

/-- C40 fails on the code: `Program.Idx0`, `Program.Idx1`, `SwitchStatement.Idx1`,
`CaseStatement.Idx1`, `SequenceExpression.Idx0` and `SequenceExpression.Idx1` index a
slice without a look at its length, and each of these slices is empty in a node of an
error-free parse.  The empty source gives a `Program` without statements, on which
`Idx0` and `Idx1` panic; `for (;;) {}` gives a `ForStatement` whose `Initializer` is a
`SequenceExpression` without elements, on which `Idx0` and `Idx1` panic;
`switch (a) {}` gives a `SwitchStatement` without clauses and `switch (a) { case 1: }` a
clause without consequent statements, on which `Idx1` panics, and with it `Idx1` of the
`Program`.  With the statement `b` in the clause, `Idx1` of the three nodes is defined. -/
theorem C40_idx_panics :
    (Parse 200 "" [] .eof).map
        (fun r => (r.1.Body, r.2.isNone, r.1.Idx0, r.1.Idx1)) =
      some ([], true, none, none) ∧
    (Parse 200 "" forEverSource forEverTokens).map (fun r => (r.1.Body, r.2.isNone)) =
      some ([.ForStatement 0 (.SequenceExpression []) none none (.BlockStatement 10 [] 11)],
        true) ∧
    (Expression.SequenceExpression []).Idx0 = none ∧
    (Expression.SequenceExpression []).Idx1 = none ∧
    (Parse 200 "" switchEmptySource switchEmptyTokens).map
        (fun r => (r.1.Body, r.2.isNone, r.1.Idx0, r.1.Idx1)) =
      some ([.SwitchStatement 0 (.Identifier "a" 9) (-1) []], true, some 0, none) ∧
    (Statement.SwitchStatement 0 (.Identifier "a" 9) (-1) []).Idx1 = none ∧
    (Parse 200 "" switchCaseSource switchCaseTokens).map
        (fun r => (r.1.Body, r.2.isNone, r.1.Idx0, r.1.Idx1)) =
      some ([.SwitchStatement 0 (.Identifier "a" 9) (-1)
        [.mk 14 (some (.NumberLiteral 19 "1" (.int 1))) []]], true, some 0, none) ∧
    (CaseStatement.mk 14 (some (.NumberLiteral 19 "1" (.int 1))) []).Idx0 = some 14 ∧
    (CaseStatement.mk 14 (some (.NumberLiteral 19 "1" (.int 1))) []).Idx1 = none ∧
    (Statement.SwitchStatement 0 (.Identifier "a" 9) (-1)
      [.mk 14 (some (.NumberLiteral 19 "1" (.int 1))) []]).Idx1 = none ∧
    (Parse 200 "" switchCaseBodySource switchCaseBodyTokens).map
        (fun r => (r.2.isNone, r.1.Idx0, r.1.Idx1)) = some (true, some 0, some 23) ∧
    (CaseStatement.mk 14 (some (.NumberLiteral 19 "1" (.int 1)))
      [.ExpressionStatement (.Identifier "b" 22)]).Idx1 = some 23 :=
  ⟨rfl, rfl, rfl, rfl, rfl, rfl, rfl, rfl, rfl, rfl, by decide!, rfl⟩

end Otto
